import Mathlib

/-!
# simdjson stage 2 (`src/generic/stage2_build_tape.h`)

A shallow embedding of the tape builder `unified_machine` and of the helpers
around it.  Bytes, offsets and tape indices are natural numbers.  A buffer is a
total map from offsets to bytes: the bytes at offsets `≥ len` are the padding
the caller provides, and nothing is assumed about them.

Code that the parser calls but whose text is not part of the sources at hand
(`ParsedJson`, the scalar decoders) is either taken as a parameter
(`ScalarDecoders`) or modelled from the specification; every such definition
says so in its doc comment.
-/

namespace simdjson

/-! ## Constants and character codes -/

/-- The constant `SIMDJSON_PADDING` of `common_defs.h`. -/
def SIMDJSON_PADDING : Nat := 32

/-- The constant `DEFAULT_MAX_DEPTH` of `common_defs.h`. -/
def DEFAULT_MAX_DEPTH : Nat := 1024

/-- Code of the double quote character. -/
@[simp] abbrev ch_quote : Nat := 34
/-- Code of the comma. -/
@[simp] abbrev ch_comma : Nat := 44
/-- Code of the minus sign. -/
@[simp] abbrev ch_minus : Nat := 45
/-- Code of the colon. -/
@[simp] abbrev ch_colon : Nat := 58
/-- Code of the opening square bracket. -/
@[simp] abbrev ch_lbracket : Nat := 91
/-- Code of the closing square bracket. -/
@[simp] abbrev ch_rbracket : Nat := 93
/-- Code of the letter f. -/
@[simp] abbrev ch_f : Nat := 102
/-- Code of the letter n. -/
@[simp] abbrev ch_n : Nat := 110
/-- Code of the letter r, the kind tag of the root entries. -/
@[simp] abbrev ch_r : Nat := 114
/-- Code of the letter t. -/
@[simp] abbrev ch_t : Nat := 116
/-- Code of the opening curly brace. -/
@[simp] abbrev ch_lbrace : Nat := 123
/-- Code of the closing curly brace. -/
@[simp] abbrev ch_rbrace : Nat := 125
/-- Code of the space character. -/
@[simp] abbrev ch_space : Nat := 32

/-- The `case '0': ... case '9':` labels of the switches: an ASCII digit. -/
def is_digit (c : Nat) : Bool := decide (48 ≤ c) && decide (c ≤ 57)

/-- The `case 't': case 'f': case 'n':` labels of the switches. -/
def is_atom_start (c : Nat) : Bool := c == ch_t || c == ch_f || c == ch_n

/-- The `case '0': ... case '9': case '-':` labels of the switches. -/
def is_number_start (c : Nat) : Bool := is_digit c || c == ch_minus

/-! ## Data model -/

/-- Modelled from the spec: the error codes of §6 (`ErrorValues`, whose declaration is
not in the sources at hand).  `SUCCESS` is the zero code, every other code is non-zero. -/
inductive ErrorValues
  | SUCCESS | CAPACITY | MEMALLOC | TAPE_ERROR | DEPTH_ERROR | STRING_ERROR
  | T_ATOM_ERROR | F_ATOM_ERROR | N_ATOM_ERROR | NUMBER_ERROR | UTF8_ERROR
  | UNINITIALIZED | EMPTY | UNESCAPED_CHARS | UNCLOSED_STRING
  | UNSUPPORTED_ARCHITECTURE | NO_SUCH_FIELD
  deriving DecidableEq, Repr

/-- The six continuation addresses of `unified_machine_addresses`. -/
inductive ret_address
  | array_begin | array_continue | error | finish | object_begin | object_continue
  deriving DecidableEq, Repr

/-- The labels of `unified_machine`.  `overrun` is not a label of the source: it stands
for the undefined behaviour of `advance_char` when it reads `structural_indexes` at a
position that is not below `n_structural_indexes`. -/
inductive Label
  | object_begin | object_key_state | object_continue | scope_end
  | array_begin | main_array_switch | array_continue | finish | error
  | overrun
  deriving DecidableEq, Repr

/-- The macro `GOTO(address)` (and `CONTINUE(address)` in the computed-goto build):
jump to the label the address designates. -/
def GOTO : ret_address → Label
  | .array_begin => .array_begin
  | .array_continue => .array_continue
  | .error => .error
  | .finish => .finish
  | .object_begin => .object_begin
  | .object_continue => .object_continue

/-- Modelled from the spec: one 64-bit tape word (§3, §6), kept as its two fields, the
56-bit payload and the 8-bit kind tag.  The second word of a number holds the raw
value in `payload` and has kind `0`. -/
structure TapeEntry where
  payload : Nat
  kind : Nat
  deriving DecidableEq, Repr

/-- Modelled from the spec: the parser workspace `ParsedJson` of §3, whose declaration is
not in the sources at hand.  Arrays are total maps; `current_string_buf_loc` is kept as
an offset into `string_buf`; `number_buf` is the side table in which the scalar pre-pass
leaves the decoded numbers (kind tag and 64-bit value) for `copy_number_tape`, with
its cursor `current_number_loc`. -/
structure ParsedJson where
  byte_capacity : Nat
  depth_capacity : Nat
  n_structural_indexes : Nat
  structural_indexes : Nat → Nat
  tape : Nat → TapeEntry
  current_loc : Nat
  containing_scope_offset : Nat → Nat
  ret_address : Nat → ret_address
  string_buf : Nat → Nat
  current_string_buf_loc : Nat
  number_buf : Nat → Nat × Nat
  current_number_loc : Nat
  valid : Bool
  error_code : ErrorValues

/-- The scalar decoders that stage 2 calls and whose code is not in the sources at hand,
taken as parameters.  `parse_string buf idx` gives the unescaped bytes of the string
that starts at offset `idx` (or `none` on failure), `parse_number buf idx found_minus`
the kind tag and 64-bit value of the number at `idx`, the three atom validators say
whether the bytes at `idx` are the atom, and `malloc_succeeds` is whether the
allocation made by `with_space_terminated_copy` returns a non-null pointer. -/
structure ScalarDecoders where
  parse_string : (Nat → Nat) → Nat → Option (List Nat)
  parse_number : (Nat → Nat) → Nat → Bool → Option (Nat × Nat)
  is_valid_true_atom : (Nat → Nat) → Nat → Bool
  is_valid_false_atom : (Nat → Nat) → Nat → Bool
  is_valid_null_atom : (Nat → Nat) → Nat → Bool
  malloc_succeeds : Bool

/-- Ghost record of what the structural walk does, kept beside the parser state so that
properties of the walk can be stated: `read pos offset` is an `advance_char` that read
`structural_indexes[pos] = offset` and then `buf[offset]`; `push slot loc` is a push
that wrote slot `slot` of the scope stacks and the start entry at tape index `loc`
(the depth becomes `slot + 1`); `pop slot start stop` is a `pop_scope` that read slot
`slot`, wrote the end entry at tape index `stop` and annotated the start entry at
tape index `start`. -/
inductive Event
  | read (pos : Nat) (offset : Nat)
  | push (slot : Nat) (loc : Nat)
  | pop (slot : Nat) (start : Nat) (stop : Nat)
  deriving DecidableEq, Repr

namespace ParsedJson

/-- Modelled from the spec: `ParsedJson::init`, which per the comments of
`unified_machine` sets the valid flag to false and resets the string buffer and tape
locations. -/
def init (pj : ParsedJson) : ParsedJson :=
  { pj with current_loc := 0, current_string_buf_loc := 0, current_number_loc := 0,
            valid := false }

/-- Modelled from the spec: `ParsedJson::get_current_loc`, the tape index of the next
entry to be written. -/
def get_current_loc (pj : ParsedJson) : Nat := pj.current_loc

/-- Modelled from the spec: `ParsedJson::write_tape(val, c)`, which writes the entry
with payload `val` and kind `c` at the current tape location and advances it. -/
def write_tape (pj : ParsedJson) (val : Nat) (c : Nat) : ParsedJson :=
  { pj with tape := Function.update pj.tape pj.current_loc ⟨val, c⟩,
            current_loc := pj.current_loc + 1 }

/-- Modelled from the spec: `ParsedJson::annotate_previous_loc(saved_loc, val)`, which
backpatches the payload of the entry at `saved_loc` (§4.C8, Pop). -/
def annotate_previous_loc (pj : ParsedJson) (saved_loc : Nat) (val : Nat) : ParsedJson :=
  { pj with tape := Function.update pj.tape saved_loc ⟨val, (pj.tape saved_loc).kind⟩ }

/-- Modelled from the spec: `ParsedJson::copy_number_tape`, which moves the next number
decoded by the pre-pass onto the tape: the kind word, then the word holding the
value (§6, tape layout). -/
def copy_number_tape (pj : ParsedJson) : ParsedJson :=
  let kv := pj.number_buf pj.current_number_loc
  let pj1 := pj.write_tape 0 kv.1
  { pj1 with tape := Function.update pj1.tape pj1.current_loc ⟨kv.2, 0⟩,
             current_loc := pj1.current_loc + 1,
             current_number_loc := pj.current_number_loc + 1 }

end ParsedJson

/-- The 32-bit little-endian value stored at `loc` in a byte memory:
`*(uint32_t*)loc`. -/
def read_u32 (mem : Nat → Nat) (loc : Nat) : Nat :=
  mem loc % 256 + 256 * (mem (loc + 1) % 256) + 65536 * (mem (loc + 2) % 256)
    + 16777216 * (mem (loc + 3) % 256)

/-- Store a list of bytes at `loc` in a byte memory. -/
def store_bytes (mem : Nat → Nat) (loc : Nat) (bs : List Nat) : Nat → Nat :=
  fun a => if loc ≤ a ∧ a < loc + bs.length then bs.getD (a - loc) 0 else mem a

/-- The four little-endian bytes of a 32-bit length. -/
def u32_bytes (v : Nat) : List Nat :=
  [v % 256, v / 256 % 256, v / 65536 % 256, v / 16777216 % 256]

/-- The state of a `structural_parser`: its fields other than the constant `buf`, which
the operations take as an argument.  `log` is the ghost record of the walk. -/
structure StructuralParser where
  len : Nat
  pj : ParsedJson
  i : Nat
  idx : Nat
  c : Nat
  depth : Nat
  log : List Event

namespace StructuralParser

/-- The member `set_error_code`. -/
def set_error_code (p : StructuralParser) (error_code : ErrorValues) :
    ErrorValues × StructuralParser :=
  (error_code, { p with pj := { p.pj with error_code := error_code } })

/-- The body of `advance_char`: `idx = pj.structural_indexes[i++]; c = buf[idx]`. -/
def read_next (buf : Nat → Nat) (p : StructuralParser) : StructuralParser :=
  let idx := p.pj.structural_indexes p.i
  { p with idx := idx, c := buf idx, i := p.i + 1, log := p.log ++ [Event.read p.i idx] }

/-- The member `advance_char`.  The result is `none` when the position read is not
below `n_structural_indexes`, a read outside the structural index. -/
def advance_char (buf : Nat → Nat) (p : StructuralParser) : Option StructuralParser :=
  if p.i < p.pj.n_structural_indexes then some (p.read_next buf) else none

/-- The member `push_start_scope(continue_state, type)`. -/
def push_start_scope (p : StructuralParser) (continue_state : ret_address) (type : Nat) :
    Bool × StructuralParser :=
  let loc := p.pj.get_current_loc
  let pj1 := { p.pj with
    containing_scope_offset := Function.update p.pj.containing_scope_offset p.depth loc }
  let pj2 := { pj1 with ret_address := Function.update pj1.ret_address p.depth continue_state }
  let depth := p.depth + 1
  let pj3 := pj2.write_tape 0 type
  (decide (depth ≥ pj3.depth_capacity),
   { p with pj := pj3, depth := depth, log := p.log ++ [Event.push p.depth loc] })

/-- The member `push_scope(continue_state)`. -/
def push_scope (p : StructuralParser) (continue_state : ret_address) :
    Bool × StructuralParser :=
  let loc := p.pj.get_current_loc
  let pj1 := { p.pj with
    containing_scope_offset := Function.update p.pj.containing_scope_offset p.depth loc }
  let pj2 := pj1.write_tape 0 p.c
  let pj3 := { pj2 with ret_address := Function.update pj2.ret_address p.depth continue_state }
  let depth := p.depth + 1
  (decide (depth ≥ pj3.depth_capacity),
   { p with pj := pj3, depth := depth, log := p.log ++ [Event.push p.depth loc] })

/-- The member `pop_scope`. -/
def pop_scope (p : StructuralParser) : ret_address × StructuralParser :=
  let depth := p.depth - 1
  let stop := p.pj.get_current_loc
  let pj1 := p.pj.write_tape (p.pj.containing_scope_offset depth) p.c
  let pj2 := pj1.annotate_previous_loc (pj1.containing_scope_offset depth) pj1.get_current_loc
  (pj2.ret_address depth,
   { p with pj := pj2, depth := depth,
            log := p.log ++ [Event.pop depth (p.pj.containing_scope_offset depth) stop] })

/-- The member `pop_root_scope`. -/
def pop_root_scope (p : StructuralParser) : StructuralParser :=
  let depth := p.depth - 1
  let pj1 := p.pj.annotate_previous_loc (p.pj.containing_scope_offset depth) p.pj.get_current_loc
  let pj2 := pj1.write_tape (pj1.containing_scope_offset depth) ch_r
  { p with pj := pj2, depth := depth }

/-- The member `write_string`. -/
def write_string (p : StructuralParser) : StructuralParser :=
  let pj1 := p.pj.write_tape p.pj.current_string_buf_loc ch_quote
  { p with pj := { pj1 with current_string_buf_loc :=
      pj1.current_string_buf_loc + (4 + read_u32 pj1.string_buf pj1.current_string_buf_loc + 1) } }

/-- The member `write_number`. -/
def write_number (p : StructuralParser) : StructuralParser :=
  { p with pj := p.pj.copy_number_tape }

/-- The member `write_atom`. -/
def write_atom (p : StructuralParser) : StructuralParser :=
  { p with pj := p.pj.write_tape 0 p.c }

/-- The member `parse_value(addresses, continue_state)`. -/
def parse_value (p : StructuralParser) (continue_state : ret_address) :
    ret_address × StructuralParser :=
  if p.c = ch_quote then (continue_state, p.write_string)
  else if is_atom_start p.c then (continue_state, p.write_atom)
  else if is_number_start p.c then (continue_state, p.write_number)
  else if p.c = ch_lbrace then
    let r := p.push_scope continue_state
    if r.1 then (ret_address.error, r.2) else (ret_address.object_begin, r.2)
  else if p.c = ch_lbracket then
    let r := p.push_scope continue_state
    if r.1 then (ret_address.error, r.2) else (ret_address.array_begin, r.2)
  else (ret_address.error, p)

/-- The member `finish`. -/
def finish (p : StructuralParser) : ErrorValues × StructuralParser :=
  if p.i + 1 ≠ p.pj.n_structural_indexes then p.set_error_code .TAPE_ERROR
  else
    let p1 := p.pop_root_scope
    if p1.depth ≠ 0 then p1.set_error_code .TAPE_ERROR
    else if p1.pj.containing_scope_offset p1.depth ≠ 0 then p1.set_error_code .TAPE_ERROR
    else
      let p2 := { p1 with pj := { p1.pj with valid := true } }
      p2.set_error_code .SUCCESS

/-- The member `error`. -/
def error (p : StructuralParser) : ErrorValues × StructuralParser :=
  if p.depth ≥ p.pj.depth_capacity then p.set_error_code .DEPTH_ERROR
  else if p.c = ch_quote then p.set_error_code .STRING_ERROR
  else if is_number_start p.c then p.set_error_code .NUMBER_ERROR
  else if p.c = ch_t then p.set_error_code .T_ATOM_ERROR
  else if p.c = ch_n then p.set_error_code .N_ATOM_ERROR
  else if p.c = ch_f then p.set_error_code .F_ATOM_ERROR
  else p.set_error_code .TAPE_ERROR

/-- The member `start(finish_state)`; `none` when its `advance_char` reads outside the
structural index. -/
def start (buf : Nat → Nat) (p : StructuralParser) (finish_state : ret_address) :
    Option (ErrorValues × StructuralParser) :=
  match p.advance_char buf with
  | none => none
  | some p1 =>
    let r := p1.push_start_scope finish_state ch_r
    if r.1 then some (r.2.set_error_code .DEPTH_ERROR) else some (.SUCCESS, r.2)

end StructuralParser

/-! ## The scalar pre-pass -/

/-- The buffer that `with_space_terminated_copy` hands to `f`: the first `len` bytes
of `buf`, then `SIMDJSON_PADDING` spaces.  Offsets past the allocation read as `0`. -/
def space_terminated_copy (buf : Nat → Nat) (len : Nat) : Nat → Nat :=
  fun j => if j < len then buf j else if j < len + SIMDJSON_PADDING then ch_space else 0

/-- The function `with_space_terminated_copy(buf, len, f)`: `true` when the allocation
fails, else the result of `f` on the copy. -/
def with_space_terminated_copy {α : Type} (D : ScalarDecoders) (buf : Nat → Nat) (len : Nat)
    (f : (Nat → Nat) → Bool × α) (dflt : α) : Bool × α :=
  if D.malloc_succeeds then f (space_terminated_copy buf len) else (true, dflt)

/-- Modelled from the spec: the call `parse_string(buf, idx, pj.current_string_buf_loc)`.
On success the record of §3 (32-bit little-endian length, the unescaped bytes, one
zero byte) is written at the current string location, which advances past it. -/
def parse_string (D : ScalarDecoders) (buf : Nat → Nat) (idx : Nat) (pj : ParsedJson) :
    Bool × ParsedJson :=
  match D.parse_string buf idx with
  | none => (false, pj)
  | some bytes =>
    let rec_bytes := u32_bytes bytes.length ++ bytes ++ [0]
    (true, { pj with
      string_buf := store_bytes pj.string_buf pj.current_string_buf_loc rec_bytes,
      current_string_buf_loc := pj.current_string_buf_loc + (4 + bytes.length + 1) })

/-- Modelled from the spec: the call `parse_number(buf, pj, idx, found_minus)`.  On
success the decoded number is left in the number side table for `copy_number_tape`. -/
def parse_number (D : ScalarDecoders) (buf : Nat → Nat) (pj : ParsedJson) (idx : Nat)
    (found_minus : Bool) : Bool × ParsedJson :=
  match D.parse_number buf idx found_minus with
  | none => (false, pj)
  | some kv =>
    (true, { pj with
      number_buf := Function.update pj.number_buf pj.current_number_loc kv,
      current_number_loc := pj.current_number_loc + 1 })

/-- The last statement of the three pre-pass functions:
`return had_error ? (pj.error_code = CODE) : SUCCESS`. -/
def had_error_result (had_error : Bool) (pj : ParsedJson) (code : ErrorValues) :
    ErrorValues × ParsedJson :=
  if had_error then (code, { pj with error_code := code }) else (.SUCCESS, pj)

/-- One iteration of the loop of `parse_strings`. -/
def parse_strings_body (D : ScalarDecoders) (buf : Nat → Nat) (st : Bool × ParsedJson)
    (i : Nat) : Bool × ParsedJson :=
  if buf (st.2.structural_indexes i) = ch_quote then
    (st.1 || !(parse_string D buf (st.2.structural_indexes i) st.2).1,
     (parse_string D buf (st.2.structural_indexes i) st.2).2)
  else st

/-- The function `parse_strings(buf, pj, i)`.  The structural index always holds the
sentinel, so `n_structural_indexes - 1` does not wrap. -/
def parse_strings (D : ScalarDecoders) (buf : Nat → Nat) (pj : ParsedJson) (i : Nat) :
    ErrorValues × ParsedJson :=
  had_error_result
    ((List.range' i (pj.n_structural_indexes - 1 - i)).foldl (parse_strings_body D buf)
      (false, pj)).1
    ((List.range' i (pj.n_structural_indexes - 1 - i)).foldl (parse_strings_body D buf)
      (false, pj)).2
    .STRING_ERROR

/-- The switch in the second loop of `parse_numbers`; the result is the error flag to be
or-ed into `had_error`. -/
def parse_numbers_switch (D : ScalarDecoders) (buf : Nat → Nat) (pj : ParsedJson) (idx : Nat) :
    Bool × ParsedJson :=
  if is_digit (buf idx) then
    (!(parse_number D buf pj idx false).1, (parse_number D buf pj idx false).2)
  else if buf idx = ch_minus then
    (!(parse_number D buf pj idx true).1, (parse_number D buf pj idx true).2)
  else (false, pj)

/-- The lambda that `parse_numbers` passes to `with_space_terminated_copy`:
`return !parse_number(copy, pj, idx, found_minus)`. -/
def parse_number_on (D : ScalarDecoders) (pj : ParsedJson) (idx : Nat) (found_minus : Bool)
    (copy : Nat → Nat) : Bool × ParsedJson :=
  (!(parse_number D copy pj idx found_minus).1, (parse_number D copy pj idx found_minus).2)

/-- The first block of `parse_numbers` ("if we are the last thing, we need to make a
space-terminated copy"): the error flag, the workspace and the position `i` after it.
The switch reads `buf[idx]`, the decoder runs on the copy. -/
def parse_numbers_last (D : ScalarDecoders) (buf : Nat → Nat) (len : Nat) (pj : ParsedJson)
    (i : Nat) : (Bool × ParsedJson) × Nat :=
  if i + 2 = pj.n_structural_indexes then
    if is_digit (buf (pj.structural_indexes i)) then
      (with_space_terminated_copy D buf len
        (parse_number_on D pj (pj.structural_indexes i) false) pj, i + 1)
    else if buf (pj.structural_indexes i) = ch_minus then
      (with_space_terminated_copy D buf len
        (parse_number_on D pj (pj.structural_indexes i) true) pj, i + 1)
    else ((false, pj), i + 1)
  else ((false, pj), i)

/-- One iteration of the second loop of `parse_numbers`. -/
def parse_numbers_body (D : ScalarDecoders) (buf : Nat → Nat) (st : Bool × ParsedJson)
    (i : Nat) : Bool × ParsedJson :=
  (st.1 || (parse_numbers_switch D buf st.2 (st.2.structural_indexes i)).1,
   (parse_numbers_switch D buf st.2 (st.2.structural_indexes i)).2)

/-- The second loop of `parse_numbers`, from the state the first block leaves. -/
def parse_numbers_loop (D : ScalarDecoders) (buf : Nat → Nat) (n : Nat)
    (st0 : (Bool × ParsedJson) × Nat) : Bool × ParsedJson :=
  (List.range' st0.2 (n - 1 - st0.2)).foldl (parse_numbers_body D buf) st0.1

/-- The function `parse_numbers(buf, len, pj, i)`. -/
def parse_numbers (D : ScalarDecoders) (buf : Nat → Nat) (len : Nat) (pj : ParsedJson)
    (i : Nat) : ErrorValues × ParsedJson :=
  had_error_result
    (parse_numbers_loop D buf pj.n_structural_indexes (parse_numbers_last D buf len pj i)).1
    (parse_numbers_loop D buf pj.n_structural_indexes (parse_numbers_last D buf len pj i)).2
    .NUMBER_ERROR

/-- The function `parse_atom(buf, idx)`: `true` when the atom at `idx` is malformed. -/
def parse_atom (D : ScalarDecoders) (buf : Nat → Nat) (idx : Nat) : Bool :=
  if buf idx = ch_t then !D.is_valid_true_atom buf idx
  else if buf idx = ch_f then !D.is_valid_false_atom buf idx
  else if buf idx = ch_n then !D.is_valid_null_atom buf idx
  else false

/-- The first block of `parse_atoms` ("if we are the last thing, we need to make a
space-terminated copy"): the error flag and the position `i` after it.  The switch
reads `buf[idx]`, `parse_atom` runs on the copy. -/
def parse_atoms_last (D : ScalarDecoders) (buf : Nat → Nat) (len : Nat) (pj : ParsedJson)
    (i : Nat) : Bool × Nat :=
  if i + 2 = pj.n_structural_indexes then
    if is_atom_start (buf (pj.structural_indexes i)) then
      ((with_space_terminated_copy D buf len
        (fun copy => (parse_atom D copy (pj.structural_indexes i), ())) ()).1, i + 1)
    else (false, i + 1)
  else (false, i)

/-- One iteration of the second loop of `parse_atoms`. -/
def parse_atoms_body (D : ScalarDecoders) (buf : Nat → Nat) (pj : ParsedJson)
    (had_error : Bool) (i : Nat) : Bool :=
  if is_atom_start (buf (pj.structural_indexes i)) then
    had_error || parse_atom D buf (pj.structural_indexes i)
  else had_error

/-- The function `parse_atoms(buf, len, pj, i)`. -/
def parse_atoms (D : ScalarDecoders) (buf : Nat → Nat) (len : Nat) (pj : ParsedJson)
    (i : Nat) : ErrorValues × ParsedJson :=
  had_error_result
    ((List.range' (parse_atoms_last D buf len pj i).2
        (pj.n_structural_indexes - 1 - (parse_atoms_last D buf len pj i).2)).foldl
      (parse_atoms_body D buf pj) (parse_atoms_last D buf len pj i).1)
    pj .N_ATOM_ERROR

/-! ## The state machine -/

/-- One transition of `unified_machine`: the code between the label of the
configuration and its next jump.  The labels `finish`, `error` and `overrun` end the
walk and are left unchanged. -/
def step (buf : Nat → Nat) : Label × StructuralParser → Label × StructuralParser
  | (.object_begin, p) =>
    match p.advance_char buf with
    | none => (.overrun, p)
    | some p1 =>
      if p1.c = ch_quote then (.object_key_state, p1.write_string)
      else if p1.c = ch_rbrace then (.scope_end, p1)
      else (.error, p1)
  | (.object_key_state, p) =>
    match p.advance_char buf with
    | none => (.overrun, p)
    | some p1 =>
      if p1.c ≠ ch_colon then (.error, p1)
      else
        match p1.advance_char buf with
        | none => (.overrun, p1)
        | some p2 =>
          let r := p2.parse_value .object_continue
          (GOTO r.1, r.2)
  | (.object_continue, p) =>
    match p.advance_char buf with
    | none => (.overrun, p)
    | some p1 =>
      if p1.c = ch_comma then
        match p1.advance_char buf with
        | none => (.overrun, p1)
        | some p2 =>
          if p2.c ≠ ch_quote then (.error, p2)
          else (.object_key_state, p2.write_string)
      else if p1.c = ch_rbrace then (.scope_end, p1)
      else (.error, p1)
  | (.scope_end, p) =>
    let r := p.pop_scope
    (GOTO r.1, r.2)
  | (.array_begin, p) =>
    match p.advance_char buf with
    | none => (.overrun, p)
    | some p1 =>
      if p1.c = ch_rbracket then (.scope_end, p1)
      else (.main_array_switch, p1)
  | (.main_array_switch, p) =>
    let r := p.parse_value .array_continue
    (GOTO r.1, r.2)
  | (.array_continue, p) =>
    match p.advance_char buf with
    | none => (.overrun, p)
    | some p1 =>
      if p1.c = ch_comma then
        match p1.advance_char buf with
        | none => (.overrun, p1)
        | some p2 => (.main_array_switch, p2)
      else if p1.c = ch_rbracket then (.scope_end, p1)
      else (.error, p1)
  | (.finish, p) => (.finish, p)
  | (.error, p) => (.error, p)
  | (.overrun, p) => (.overrun, p)

/-- Iterate `step` a given number of times. -/
def walk (buf : Nat → Nat) : Nat → Label × StructuralParser → Label × StructuralParser
  | 0, cfg => cfg
  | k + 1, cfg => walk buf k (step buf cfg)

/-- The switch on the first character in `unified_machine` ("Read first value"). -/
def first_value (p : StructuralParser) : Label × StructuralParser :=
  if p.c = ch_lbrace then
    let r := p.push_start_scope .finish p.c
    if r.1 then (.error, r.2) else (.object_begin, r.2)
  else if p.c = ch_lbracket then
    let r := p.push_start_scope .finish p.c
    if r.1 then (.error, r.2) else (.array_begin, r.2)
  else if p.c = ch_quote then (.finish, p.write_string)
  else if is_atom_start p.c then (.finish, p.write_atom)
  else if is_number_start p.c then (.finish, p.write_number)
  else (.error, p)

/-- How a call of `unified_machine` ends: it returns an error code, or the walk read
outside the structural index (its behaviour is then undefined). -/
inductive Outcome
  | returned (code : ErrorValues)
  | overrun
  deriving DecidableEq, Repr

/-- What a call of `unified_machine` leaves: how it ended, the parser workspace and the
ghost record of the walk. -/
structure Run where
  outcome : Outcome
  pj : ParsedJson
  log : List Event

/-- The number of transitions after which every walk has ended (two per structural
index and two more). -/
def walk_fuel (pj : ParsedJson) : Nat := 2 * pj.n_structural_indexes + 2

/-- The part of `unified_machine` after the walk: `finish:` and `error:`. -/
def conclude (cfg : Label × StructuralParser) : Run :=
  match cfg.1 with
  | .finish => let r := cfg.2.finish; ⟨.returned r.1, r.2.pj, r.2.log⟩
  | .error => let r := cfg.2.error; ⟨.returned r.1, r.2.pj, r.2.log⟩
  | _ => ⟨.overrun, cfg.2.pj, cfg.2.log⟩

/-- The second half of `unified_machine` ("Parse structurals"), on the workspace that
the second `pj.init()` leaves: `start`, the first switch, the walk and its end. -/
def parse_structurals (buf : Nat → Nat) (len : Nat) (pj1 : ParsedJson) : Run :=
  match StructuralParser.start buf ⟨len, pj1, 0, 0, 0, 0, []⟩ .finish with
  | none => ⟨.overrun, pj1, []⟩
  | some (code, p) =>
    if code ≠ .SUCCESS then ⟨.returned p.pj.error_code, p.pj, p.log⟩
    else conclude (walk buf (walk_fuel pj1) (first_value p))

/-- The function `unified_machine(buf, len, pj)`. -/
def unified_machine (D : ScalarDecoders) (buf : Nat → Nat) (len : Nat) (pj : ParsedJson) :
    Run :=
  if len > pj.init.byte_capacity then
    ⟨.returned .CAPACITY, { pj.init with error_code := .CAPACITY }, []⟩
  else if (parse_strings D buf pj.init 0).1 ≠ .SUCCESS then
    ⟨.returned (parse_strings D buf pj.init 0).2.error_code, (parse_strings D buf pj.init 0).2, []⟩
  else if (parse_numbers D buf len (parse_strings D buf pj.init 0).2 0).1 ≠ .SUCCESS then
    ⟨.returned (parse_numbers D buf len (parse_strings D buf pj.init 0).2 0).2.error_code,
      (parse_numbers D buf len (parse_strings D buf pj.init 0).2 0).2, []⟩
  else if (parse_atoms D buf len
      (parse_numbers D buf len (parse_strings D buf pj.init 0).2 0).2 0).1 ≠ .SUCCESS then
    ⟨.returned (parse_atoms D buf len
        (parse_numbers D buf len (parse_strings D buf pj.init 0).2 0).2 0).2.error_code,
      (parse_atoms D buf len (parse_numbers D buf len (parse_strings D buf pj.init 0).2 0).2 0).2,
      []⟩
  else
    parse_structurals buf len
      (parse_atoms D buf len
        (parse_numbers D buf len (parse_strings D buf pj.init 0).2 0).2 0).2.init

/-! ## The grammar of the structural bytes -/

/-- The byte at the `j`-th structural index: `buf[structural_indexes[j]]`. -/
def structural_byte (buf : Nat → Nat) (pj : ParsedJson) (j : Nat) : Nat :=
  buf (pj.structural_indexes j)

/-- The bytes at the non-sentinel structural offsets, read in order. -/
def structural_bytes (buf : Nat → Nat) (pj : ParsedJson) : List Nat :=
  (List.range (pj.n_structural_indexes - 1)).map (structural_byte buf pj)

/-- A scalar is a structural whose first byte is a double quote, `t`, `f`, `n`, `-` or
a digit. -/
def is_scalar_start (c : Nat) : Bool := c == ch_quote || is_atom_start c || is_number_start c

/-- The three syntactic categories of the grammar: a value, a non-empty comma-separated
list of values, and a non-empty comma-separated list of `string ':' value` members. -/
inductive Category
  | value | elements | members
  deriving DecidableEq, Repr

/-- The grammar of the structural bytes, as the specification words it:
`value := scalar | '[' ']' | '[' value (',' value)* ']' | '{' '}' |
'{' string ':' value (',' string ':' value)* '}'`.
`Spells cat k ws` says that the bytes `ws` spell a phrase of category `cat` whose
container nesting is `k`: a scalar has nesting `0`, an array or object one more than
the largest nesting of the values directly in it. -/
inductive Spells : Category → Nat → List Nat → Prop
  | scalar (c : Nat) : is_scalar_start c = true → Spells .value 0 [c]
  | empty_array : Spells .value 1 [ch_lbracket, ch_rbracket]
  | array (k : Nat) (ws : List Nat) : Spells .elements k ws →
      Spells .value (k + 1) (ch_lbracket :: (ws ++ [ch_rbracket]))
  | empty_object : Spells .value 1 [ch_lbrace, ch_rbrace]
  | object (k : Nat) (ws : List Nat) : Spells .members k ws →
      Spells .value (k + 1) (ch_lbrace :: (ws ++ [ch_rbrace]))
  | element (k : Nat) (ws : List Nat) : Spells .value k ws → Spells .elements k ws
  | elements (k m : Nat) (ws ws1 : List Nat) : Spells .value k ws → Spells .elements m ws1 →
      Spells .elements (max k m) (ws ++ ch_comma :: ws1)
  | member (k : Nat) (ws : List Nat) : Spells .value k ws →
      Spells .members k (ch_quote :: ch_colon :: ws)
  | members (k m : Nat) (ws ws1 : List Nat) : Spells .value k ws → Spells .members m ws1 →
      Spells .members (max k m) (ch_quote :: ch_colon :: (ws ++ ch_comma :: ws1))

/-- What may follow a value in an array: `(',' value)* ']'`, with the largest nesting of
the values. -/
inductive ArrayTail : Nat → List Nat → Prop
  | close : ArrayTail 0 [ch_rbracket]
  | more (k m : Nat) (ws ws1 : List Nat) : Spells .value k ws → ArrayTail m ws1 →
      ArrayTail (max k m) (ch_comma :: (ws ++ ws1))

/-- What may follow a member in an object: `(',' string ':' value)* '}'`, with the
largest nesting of the values. -/
inductive ObjectTail : Nat → List Nat → Prop
  | close : ObjectTail 0 [ch_rbrace]
  | more (k m : Nat) (ws ws1 : List Nat) : Spells .value k ws → ObjectTail m ws1 →
      ObjectTail (max k m) (ch_comma :: ch_quote :: ch_colon :: (ws ++ ws1))

/-- The pre-pass of `unified_machine` found no malformed string, number or atom: its
three calls `parse_strings`, `parse_numbers` and `parse_atoms` all return `SUCCESS`. -/
def prepass_ok (D : ScalarDecoders) (buf : Nat → Nat) (len : Nat) (pj : ParsedJson) : Prop :=
  (parse_strings D buf pj.init 0).1 = .SUCCESS ∧
  (parse_numbers D buf len (parse_strings D buf pj.init 0).2 0).1 = .SUCCESS ∧
  (parse_atoms D buf len (parse_numbers D buf len (parse_strings D buf pj.init 0).2 0).2 0).1
    = .SUCCESS

/-- The workspace with which the structural walk starts when the pre-pass succeeds. -/
def walk_pj (D : ScalarDecoders) (buf : Nat → Nat) (len : Nat) (pj : ParsedJson) : ParsedJson :=
  (parse_atoms D buf len (parse_numbers D buf len (parse_strings D buf pj.init 0).2 0).2 0).2.init

/-- The segment of `m` structural bytes that starts at position `j`. -/
def seg (buf : Nat → Nat) (pj : ParsedJson) (j m : Nat) : List Nat :=
  (List.range' j m).map (structural_byte buf pj)

/-! ## Vocabulary for the statements about the walk -/

/-- The two parser states work on the same structural index, with the same number of
indexes and the same depth capacity. -/
def Frame (p q : StructuralParser) : Prop :=
  q.pj.structural_indexes = p.pj.structural_indexes ∧
  q.pj.n_structural_indexes = p.pj.n_structural_indexes ∧
  q.pj.depth_capacity = p.pj.depth_capacity

/-- The state `q` has the depth and the scope stacks of `p`, and the same frame. -/
def SameStack (p q : StructuralParser) : Prop :=
  q.depth = p.depth ∧ q.pj.ret_address = p.pj.ret_address ∧
  q.pj.containing_scope_offset = p.pj.containing_scope_offset ∧ Frame p q

/-- The labels at which the walk ends. -/
def Label.terminal : Label → Bool
  | .finish => true
  | .error => true
  | .overrun => true
  | _ => false

/-- The weight of a label in the termination measure: the labels that jump on without
reading a structural weigh more than those that read one first. -/
def Label.weight : Label → Nat
  | .finish => 0
  | .error => 0
  | .overrun => 0
  | .scope_end => 2
  | .main_array_switch => 2
  | _ => 1

/-- The termination measure of a configuration: twice the number of unread structural
indexes, plus the weight of the label. -/
def walk_measure (cfg : Label × StructuralParser) : Nat :=
  2 * (cfg.2.pj.n_structural_indexes - cfg.2.i) + cfg.1.weight

/-- The walk accepts from `cfg` within `t` transitions: it is then at `finish` with
exactly the sentinel left unread, the test that `finish` makes first. -/
def Accepts (buf : Nat → Nat) (t : Nat) (cfg : Label × StructuralParser) : Prop :=
  (walk buf t cfg).1 = .finish ∧
  (walk buf t cfg).2.i + 1 = (walk buf t cfg).2.pj.n_structural_indexes

/-- What may follow `'['`: either `']'`, or a value and an array tail. -/
def ArrayRest (k : Nat) (ws : List Nat) : Prop :=
  (ws = [ch_rbracket] ∧ k = 0) ∨
  ∃ k1 k2 w1 w2, ws = w1 ++ w2 ∧ Spells .value k1 w1 ∧ ArrayTail k2 w2 ∧ k = max k1 k2

/-- What may follow `'{'`: either `'}'`, or a member and an object tail. -/
def ObjectRest (k : Nat) (ws : List Nat) : Prop :=
  (ws = [ch_rbrace] ∧ k = 0) ∨
  ∃ k1 k2 w1 w2, ws = ch_quote :: ch_colon :: (w1 ++ w2) ∧ Spells .value k1 w1 ∧
    ObjectTail k2 w2 ∧ k = max k1 k2

/-- The state `q` is `p` after `m` more structurals have been read, back at scope depth
`d`, with the scope stacks below `d` as they were. -/
def Returns (p q : StructuralParser) (m d : Nat) : Prop :=
  q.i = p.i + m ∧ q.depth = d ∧ Frame p q ∧
  (∀ x, x < d → q.pj.ret_address x = p.pj.ret_address x) ∧
  (∀ x, x < d → q.pj.containing_scope_offset x = p.pj.containing_scope_offset x)

/-- Statement about a walk that accepts within `t` transitions from the configuration
`GOTO(parse_value(continue_state))`, the character of the value having just been read:
the walk first spells a value and comes back at `continue_state`. -/
def ValueComplete (buf : Nat → Nat) (t : Nat) : Prop :=
  ∀ (p : StructuralParser) (cont : ret_address),
    Accepts buf t (GOTO (p.parse_value cont).1, (p.parse_value cont).2) →
    1 ≤ p.i → p.c = structural_byte buf p.pj (p.i - 1) → p.depth < p.pj.depth_capacity →
    ∃ m k s q, s ≤ t ∧ Spells .value k (seg buf p.pj (p.i - 1) (m + 1)) ∧
      p.depth + k < p.pj.depth_capacity ∧
      walk buf s (GOTO (p.parse_value cont).1, (p.parse_value cont).2) = (GOTO cont, q) ∧
      Returns p q m p.depth

/-- The same statement for the label `main_array_switch`. -/
def ElementComplete (buf : Nat → Nat) (t : Nat) : Prop :=
  ∀ (p : StructuralParser), Accepts buf t (.main_array_switch, p) →
    1 ≤ p.i → p.c = structural_byte buf p.pj (p.i - 1) → p.depth < p.pj.depth_capacity →
    ∃ m k s q, s ≤ t ∧ Spells .value k (seg buf p.pj (p.i - 1) (m + 1)) ∧
      p.depth + k < p.pj.depth_capacity ∧
      walk buf s (.main_array_switch, p) = (.array_continue, q) ∧ Returns p q m p.depth

/-- The same statement for the label `object_key_state`: a colon and a value follow. -/
def MemberComplete (buf : Nat → Nat) (t : Nat) : Prop :=
  ∀ (p : StructuralParser), Accepts buf t (.object_key_state, p) →
    p.depth < p.pj.depth_capacity →
    ∃ m k s q, s ≤ t ∧ structural_byte buf p.pj p.i = ch_colon ∧
      Spells .value k (seg buf p.pj (p.i + 1) m) ∧ p.depth + k < p.pj.depth_capacity ∧
      walk buf s (.object_key_state, p) = (.object_continue, q) ∧ Returns p q (m + 1) p.depth

/-- The same statement for a label inside an array or object: the walk first spells the
rest of the container (`rest` is the grammar of what may follow) and leaves its scope
through the return address stored for it. -/
def ScopeComplete (buf : Nat → Nat) (L : Label) (rest : Nat → List Nat → Prop) (t : Nat) :
    Prop :=
  ∀ (p : StructuralParser), Accepts buf t (L, p) →
    1 ≤ p.depth → p.depth < p.pj.depth_capacity →
    ∃ m k s q, s ≤ t ∧ rest k (seg buf p.pj p.i m) ∧ p.depth + k < p.pj.depth_capacity ∧
      walk buf s (L, p) = (GOTO (p.pj.ret_address (p.depth - 1)), q) ∧
      Returns p q m (p.depth - 1)

/-- All the statements of completeness at once, for walks of at most `t` transitions. -/
def WalkComplete (buf : Nat → Nat) (t : Nat) : Prop :=
  ElementComplete buf t ∧ MemberComplete buf t ∧
  ScopeComplete buf .array_begin ArrayRest t ∧ ScopeComplete buf .array_continue ArrayTail t ∧
  ScopeComplete buf .object_begin ObjectRest t ∧ ScopeComplete buf .object_continue ObjectTail t

/-- Statement of soundness for one phrase of the grammar: when the bytes `ws` that start
at position `j` spell the phrase, its first byte has just been read and the nesting
fits the depth capacity, the walk reads the phrase and comes back at the continuation
(`continue_state` for a value, `array_continue` for the elements of an array,
`object_continue` for the members of an object, whose first key has been read). -/
def Sound (buf : Nat → Nat) : Category → Nat → List Nat → Prop
  | .value, k, ws => ∀ (p : StructuralParser) (cont : ret_address) (j : Nat),
      p.i = j + 1 → p.c = structural_byte buf p.pj j → seg buf p.pj j ws.length = ws →
      j + ws.length ≤ p.pj.n_structural_indexes → p.depth + k < p.pj.depth_capacity →
      ∃ s q, walk buf s (GOTO (p.parse_value cont).1, (p.parse_value cont).2) = (GOTO cont, q) ∧
        Returns p q (ws.length - 1) p.depth
  | .elements, k, ws => ∀ (p : StructuralParser) (j : Nat),
      p.i = j + 1 → p.c = structural_byte buf p.pj j → seg buf p.pj j ws.length = ws →
      j + ws.length ≤ p.pj.n_structural_indexes → p.depth + k < p.pj.depth_capacity →
      ∃ s q, walk buf s (.main_array_switch, p) = (.array_continue, q) ∧
        Returns p q (ws.length - 1) p.depth
  | .members, k, ws => ∀ (p : StructuralParser) (j : Nat),
      p.i = j + 1 → seg buf p.pj j ws.length = ws →
      j + ws.length ≤ p.pj.n_structural_indexes → p.depth + k < p.pj.depth_capacity →
      ∃ s q, walk buf s (.object_key_state, p) = (.object_continue, q) ∧
        Returns p q (ws.length - 1) p.depth

/-- The parser state with which `parse_structurals` reaches the first switch: after
`start` has read the first structural and pushed the root scope. -/
def walk_start (buf : Nat → Nat) (len : Nat) (pj1 : ParsedJson) : StructuralParser :=
  ((StructuralParser.read_next buf ⟨len, pj1, 0, 0, 0, 0, []⟩).push_start_scope .finish ch_r).2

/-- The parser state with which `unified_machine` reaches its first switch when the
pre-pass succeeded. -/
def start_state (D : ScalarDecoders) (buf : Nat → Nat) (len : Nat) (pj : ParsedJson) :
    StructuralParser :=
  walk_start buf len (walk_pj D buf len pj)

/-- The configuration in which the structural walk of `unified_machine` ends, when the
pre-pass and `start` succeeded: the label reached (`finish`, `error`, or `overrun`) and
the parser state there, before the code at `finish:` or `error:` runs. -/
@[irreducible]
def final_config (D : ScalarDecoders) (buf : Nat → Nat) (len : Nat) (pj : ParsedJson) :
    Label × StructuralParser :=
  walk buf (walk_fuel (walk_pj D buf len pj)) (first_value (start_state D buf len pj))

/-- What the scalar pre-pass leaves untouched in the workspace: everything but the string
buffer, the number table, their cursors and the stored error code. -/
def PrepassKeeps (pj pj1 : ParsedJson) : Prop :=
  pj1.byte_capacity = pj.byte_capacity ∧ pj1.depth_capacity = pj.depth_capacity ∧
  pj1.n_structural_indexes = pj.n_structural_indexes ∧
  pj1.structural_indexes = pj.structural_indexes ∧ pj1.tape = pj.tape ∧
  pj1.current_loc = pj.current_loc ∧
  pj1.containing_scope_offset = pj.containing_scope_offset ∧
  pj1.ret_address = pj.ret_address ∧ pj1.valid = pj.valid

/-! ## Vocabulary of the properties -/

/-- One step of the scan that counts the containers left open: `[` and `{` open one,
`]` and `}` close one if any is open. -/
def open_depth_step (d : Nat) (c : Nat) : Nat :=
  if c = ch_lbracket ∨ c = ch_lbrace then d + 1
  else if c = ch_rbracket ∨ c = ch_rbrace then d - 1
  else d

/-- The number of arrays and objects that the bytes `ws` leave unclosed, scanning from
`d` open containers. -/
def open_depth_from (d : Nat) (ws : List Nat) : Nat := ws.foldl open_depth_step d

/-- The number of arrays and objects that the bytes `ws` leave unclosed at their end. -/
def open_depth (ws : List Nat) : Nat := open_depth_from 0 ws

/-- The classification of a failure by the current character, as the specification words
it: a double quote gives `STRING_ERROR`, a digit or `-` gives `NUMBER_ERROR`, `t`, `f`
and `n` give the atom errors, every other byte gives `TAPE_ERROR`. -/
def error_class (c : Nat) : ErrorValues :=
  if c = ch_quote then .STRING_ERROR
  else if is_digit c ∨ c = ch_minus then .NUMBER_ERROR
  else if c = ch_t then .T_ATOM_ERROR
  else if c = ch_f then .F_ATOM_ERROR
  else if c = ch_n then .N_ATOM_ERROR
  else .TAPE_ERROR

/-! ## Sample documents

Concrete decoders, buffers and workspaces on which the machine can be evaluated. -/

/-- Modelled from the spec: whether a byte is a structural character or whitespace
(§4.C3 items 4 and 5), the guard that must follow an atom or a number. -/
def is_structural_or_whitespace (c : Nat) : Bool :=
  c == ch_lbrace || c == ch_rbrace || c == ch_lbracket || c == ch_rbracket ||
  c == ch_colon || c == ch_comma || c == ch_space || c == 9 || c == 10 || c == 13

/-- Modelled from the spec: the atom recogniser of §4.C7 for `true`, a byte comparison
with the letters followed by the tail guard. -/
def is_valid_true_atom (buf : Nat → Nat) (loc : Nat) : Bool :=
  buf loc == 116 && buf (loc + 1) == 114 && buf (loc + 2) == 117 && buf (loc + 3) == 101 &&
  is_structural_or_whitespace (buf (loc + 4))

/-- Modelled from the spec: the atom recogniser of §4.C7 for `false`. -/
def is_valid_false_atom (buf : Nat → Nat) (loc : Nat) : Bool :=
  buf loc == 102 && buf (loc + 1) == 97 && buf (loc + 2) == 108 && buf (loc + 3) == 115 &&
  buf (loc + 4) == 101 && is_structural_or_whitespace (buf (loc + 5))

/-- Modelled from the spec: the atom recogniser of §4.C7 for `null`. -/
def is_valid_null_atom (buf : Nat → Nat) (loc : Nat) : Bool :=
  buf loc == 110 && buf (loc + 1) == 117 && buf (loc + 2) == 108 && buf (loc + 3) == 108 &&
  is_structural_or_whitespace (buf (loc + 4))

/-- Modelled from the spec: the digit loop of the number decoder of §4.C6, whose code is
not in the sources at hand.  It reads at most `fuel` decimal digits from `pos` and gives
the value read so far, the number of digits and the position after them. -/
def scan_digits (buf : Nat → Nat) : Nat → Nat → Nat → Nat → Nat × Nat × Nat
  | 0, pos, acc, cnt => (acc, cnt, pos)
  | fuel + 1, pos, acc, cnt =>
    if is_digit (buf pos) then scan_digits buf fuel (pos + 1) (10 * acc + (buf pos - 48)) (cnt + 1)
    else (acc, cnt, pos)

/-- Modelled from the spec: the number decoder `parse_number` of §4.C6, whose code is not
in the sources at hand, for the integers without fraction or exponent.  It covers the
literals of at most 20 digits (no leading zero, a structural or whitespace byte after
the digits): the kind tag is `l` (signed) when the magnitude fits in 63 bits, or is
`2^63` after a minus sign, and `u` (unsigned) for the other magnitudes up to
`2^64 - 1`; the value is the 64-bit word, in two's complement after a minus sign.  It
rejects everything else. -/
def sample_parse_number (buf : Nat → Nat) (idx : Nat) (found_minus : Bool) :
    Option (Nat × Nat) :=
  let start := if found_minus then idx + 1 else idx
  let r := scan_digits buf 20 start 0 0
  if r.2.1 = 0 then none
  else if buf start = 48 ∧ r.2.1 ≠ 1 then none
  else if !is_structural_or_whitespace (buf r.2.2) then none
  else if found_minus then
    if r.1 ≤ 2 ^ 63 then some (108, (2 ^ 64 - r.1) % 2 ^ 64) else none
  else if r.1 < 2 ^ 63 then some (108, r.1)
  else if r.1 < 2 ^ 64 then some (117, r.1)
  else none

/-- Read the bytes of a string up to its closing quote, at most `fuel` of them; a
control byte or a backslash ends the scan with a failure. -/
def scan_string (buf : Nat → Nat) : Nat → Nat → List Nat → Option (List Nat)
  | 0, _, _ => none
  | fuel + 1, pos, acc =>
    if buf pos = ch_quote then some acc.reverse
    else if buf pos < 32 ∨ buf pos = 92 then none
    else scan_string buf fuel (pos + 1) (buf pos :: acc)

/-- A string decoder for the sample documents, after §4.C5: it covers the strings of at
most 64 bytes without escape sequence and rejects everything else. -/
def sample_parse_string (buf : Nat → Nat) (idx : Nat) : Option (List Nat) :=
  scan_string buf 65 (idx + 1) []

/-- The decoders used on the sample documents; every allocation succeeds. -/
def sample_decoders : ScalarDecoders :=
  ⟨sample_parse_string, sample_parse_number, is_valid_true_atom, is_valid_false_atom,
    is_valid_null_atom, true⟩

/-- The bytes of a text. -/
def bytes_of (s : String) : List Nat := s.toList.map Char.toNat

/-- The buffer that holds the bytes `bytes` followed by padding, every padding byte
being `pad`. -/
def buffer_of (bytes : List Nat) (pad : Nat) : Nat → Nat := fun j => bytes.getD j pad

/-- A parser workspace of the given capacities holding the structural index `indexes`
(the sentinel included), as stage 1 leaves it; nothing has been parsed with it. -/
def fresh_workspace (indexes : List Nat) (byte_capacity depth_capacity : Nat) : ParsedJson :=
  { byte_capacity := byte_capacity, depth_capacity := depth_capacity,
    n_structural_indexes := indexes.length, structural_indexes := fun j => indexes.getD j 0,
    tape := fun _ => ⟨0, 0⟩, current_loc := 0, containing_scope_offset := fun _ => 0,
    ret_address := fun _ => .error, string_buf := fun _ => 0, current_string_buf_loc := 0,
    number_buf := fun _ => (0, 0), current_number_loc := 0, valid := false,
    error_code := .UNINITIALIZED }

/-- The structural index of a document all of whose bytes are structural: the offsets
`0, 1, ..., len - 1` and the sentinel `len`. -/
def dense_index (len : Nat) : List Nat := List.range (len + 1)

/-! ## The invariant of the walk -/

/-- What holds of the parser state all along the walk, as long as no push has reached
the depth capacity.  The depth stays between `1` and the capacity; slots `0` and `1` of
`ret_address` hold `finish` and the slots above hold `array_continue` or
`object_continue`; the recorded scope offsets increase with the slot, start at `0` and
stay below the tape location; the root entry is in place; every scope closed so far
(a `pop` of the ghost record) has its two entries pointing at each other and lies
apart from the scopes still open; every push so far stayed below the capacity. -/
def StateInv (p : StructuralParser) : Prop :=
  1 ≤ p.depth ∧ p.depth < p.pj.depth_capacity ∧
  p.pj.ret_address 0 = .finish ∧ (2 ≤ p.depth → p.pj.ret_address 1 = .finish) ∧
  (∀ x, 2 ≤ x → x < p.depth →
    p.pj.ret_address x = .array_continue ∨ p.pj.ret_address x = .object_continue) ∧
  p.pj.containing_scope_offset 0 = 0 ∧
  (∀ x y, x < y → y < p.depth →
    p.pj.containing_scope_offset x < p.pj.containing_scope_offset y) ∧
  (∀ x, x < p.depth → p.pj.containing_scope_offset x < p.pj.current_loc) ∧
  p.pj.tape 0 = ⟨0, ch_r⟩ ∧
  (∀ slot s e, Event.pop slot s e ∈ p.log →
    1 ≤ slot ∧ slot < p.pj.depth_capacity ∧ s < e ∧ e < p.pj.current_loc ∧
    (p.pj.tape e).payload = s ∧ (p.pj.tape s).payload = e + 1 ∧
    (∀ x, x < p.depth →
      p.pj.containing_scope_offset x < s ∨ e < p.pj.containing_scope_offset x)) ∧
  (∀ slot loc, Event.push slot loc ∈ p.log → slot + 1 < p.pj.depth_capacity)

/-- The reads of the ghost record are those of the positions below `i`, each with the
offset that the structural index holds there. -/
def ReadsBelow (p : StructuralParser) : Prop :=
  ∀ pos off, Event.read pos off ∈ p.log → pos < p.i ∧ off = p.pj.structural_indexes pos

/-- What holds when a push has brought the depth to the capacity: the machine is on its
way to `error`, and the last push of the ghost record is that push. -/
def DepthExceeded (p : StructuralParser) : Prop :=
  p.depth = p.pj.depth_capacity ∧ ∃ loc, Event.push (p.depth - 1) loc ∈ p.log

/-- The invariant of the configurations of the walk: at `finish` only the root scope is
open, at the labels inside a container at least one more, and `error` is reached
either with the invariant of the state or right after a push that reached the depth
capacity. -/
def WalkInv (cfg : Label × StructuralParser) : Prop :=
  match cfg.1 with
  | .error => StateInv cfg.2 ∨ DepthExceeded cfg.2
  | .finish => StateInv cfg.2 ∧ cfg.2.depth = 1
  | _ => StateInv cfg.2 ∧ 2 ≤ cfg.2.depth

/-! ## The layout of the scalars in the workspace and on the tape -/

/-- The bytes that the string decoder gives for the structural at position `j`, the
empty list when it fails. -/
def string_bytes_at (D : ScalarDecoders) (buf : Nat → Nat) (pj : ParsedJson) (j : Nat) :
    List Nat :=
  (D.parse_string buf (pj.structural_indexes j)).getD []

/-- The record that `parse_string` writes for the string at position `j`: the 32-bit
little-endian length, the decoded bytes and one zero byte. -/
def string_record (D : ScalarDecoders) (buf : Nat → Nat) (pj : ParsedJson) (j : Nat) :
    List Nat :=
  u32_bytes (string_bytes_at D buf pj j).length ++ string_bytes_at D buf pj j ++ [0]

/-- The offset in the string buffer at which the record of a string at position `j`
starts: the records of the strings at the earlier positions, `4 + L + 1` bytes each,
lie before it. -/
def arena_offset (D : ScalarDecoders) (buf : Nat → Nat) (pj : ParsedJson) : Nat → Nat
  | 0 => 0
  | j + 1 => arena_offset D buf pj j +
      (if structural_byte buf pj j = ch_quote then 4 + (string_bytes_at D buf pj j).length + 1
       else 0)

/-- The buffer from which `parse_numbers` decodes: the space-terminated copy when the
document is one sole structural, the input otherwise. -/
def number_source (buf : Nat → Nat) (len : Nat) (pj : ParsedJson) : Nat → Nat :=
  if pj.n_structural_indexes = 2 then space_terminated_copy buf len else buf

/-- The kind tag and the value that the number decoder gives for the structural at
position `j`, `(0, 0)` when it fails. -/
def number_at (D : ScalarDecoders) (buf : Nat → Nat) (len : Nat) (pj : ParsedJson) (j : Nat) :
    Nat × Nat :=
  (D.parse_number (number_source buf len pj) (pj.structural_indexes j)
    (decide (structural_byte buf pj j = ch_minus))).getD (0, 0)

/-- The number of numbers that start at the positions before `j`: the slot of the number
side table that holds a number at position `j`. -/
def number_index (buf : Nat → Nat) (pj : ParsedJson) : Nat → Nat
  | 0 => 0
  | j + 1 => number_index buf pj j + (if is_number_start (structural_byte buf pj j) then 1 else 0)

/-- The tape entries of a scalar at position `j`: a string entry whose payload is the
offset of its record, an atom entry, or the two words of a number. -/
def scalar_entries (D : ScalarDecoders) (buf : Nat → Nat) (len : Nat) (pj : ParsedJson)
    (j : Nat) : List TapeEntry :=
  if structural_byte buf pj j = ch_quote then [⟨arena_offset D buf pj j, ch_quote⟩]
  else if is_atom_start (structural_byte buf pj j) then [⟨0, structural_byte buf pj j⟩]
  else if is_number_start (structural_byte buf pj j) then
    [⟨0, (number_at D buf len pj j).1⟩, ⟨(number_at D buf len pj j).2, 0⟩]
  else []

/-- The number of tape entries that the structural at position `j` accounts for: none
for `,` and `:`, two for a number, one for every other byte. -/
def entry_width (buf : Nat → Nat) (pj : ParsedJson) (j : Nat) : Nat :=
  if structural_byte buf pj j = ch_comma ∨ structural_byte buf pj j = ch_colon then 0
  else if is_number_start (structural_byte buf pj j) then 2
  else 1

/-- The tape index of the first entry of the structural at position `j`: the root entry
and the entries of the earlier positions lie before it. -/
def tape_index (buf : Nat → Nat) (pj : ParsedJson) : Nat → Nat
  | 0 => 1
  | j + 1 => tape_index buf pj j + entry_width buf pj j

/-- The kind tags of the tape entries of the structural at position `j`: none for `,`
and `:`, the tag of the number and `0` for its second word, the byte itself otherwise. -/
def position_kinds (D : ScalarDecoders) (buf : Nat → Nat) (len : Nat) (pj : ParsedJson)
    (j : Nat) : List Nat :=
  if structural_byte buf pj j = ch_comma ∨ structural_byte buf pj j = ch_colon then []
  else if is_number_start (structural_byte buf pj j) then [(number_at D buf len pj j).1, 0]
  else [structural_byte buf pj j]

/-- The tape entries of a phrase of the grammar.  `Emits D buf len pj cat k ws j a es`
says that the bytes `ws`, a phrase of category `cat` and nesting `k` that starts at
position `j`, give the entries `es` when the first of them is written at tape index `a`:
a container gives its start entry, whose payload is the index after its end entry, the
entries of its contents and its end entry, whose payload is the index of the start; a
member gives the string entry of its key and the entries of its value. -/
inductive Emits (D : ScalarDecoders) (buf : Nat → Nat) (len : Nat) (pj : ParsedJson) :
    Category → Nat → List Nat → Nat → Nat → List TapeEntry → Prop
  | scalar (c j a : Nat) : is_scalar_start c = true →
      Emits D buf len pj .value 0 [c] j a (scalar_entries D buf len pj j)
  | empty_array (j a : Nat) :
      Emits D buf len pj .value 1 [ch_lbracket, ch_rbracket] j a
        [⟨a + 2, ch_lbracket⟩, ⟨a, ch_rbracket⟩]
  | array (k : Nat) (ws : List Nat) (j a : Nat) (es : List TapeEntry) :
      Emits D buf len pj .elements k ws (j + 1) (a + 1) es →
      Emits D buf len pj .value (k + 1) (ch_lbracket :: (ws ++ [ch_rbracket])) j a
        (⟨a + es.length + 2, ch_lbracket⟩ :: (es ++ [⟨a, ch_rbracket⟩]))
  | empty_object (j a : Nat) :
      Emits D buf len pj .value 1 [ch_lbrace, ch_rbrace] j a
        [⟨a + 2, ch_lbrace⟩, ⟨a, ch_rbrace⟩]
  | object (k : Nat) (ws : List Nat) (j a : Nat) (es : List TapeEntry) :
      Emits D buf len pj .members k ws (j + 1) (a + 1) es →
      Emits D buf len pj .value (k + 1) (ch_lbrace :: (ws ++ [ch_rbrace])) j a
        (⟨a + es.length + 2, ch_lbrace⟩ :: (es ++ [⟨a, ch_rbrace⟩]))
  | element (k : Nat) (ws : List Nat) (j a : Nat) (es : List TapeEntry) :
      Emits D buf len pj .value k ws j a es → Emits D buf len pj .elements k ws j a es
  | elements (k m : Nat) (ws ws1 : List Nat) (j a : Nat) (es es1 : List TapeEntry) :
      Emits D buf len pj .value k ws j a es →
      Emits D buf len pj .elements m ws1 (j + ws.length + 1) (a + es.length) es1 →
      Emits D buf len pj .elements (max k m) (ws ++ ch_comma :: ws1) j a (es ++ es1)
  | member (k : Nat) (ws : List Nat) (j a : Nat) (es : List TapeEntry) :
      Emits D buf len pj .value k ws (j + 2) (a + 1) es →
      Emits D buf len pj .members k (ch_quote :: ch_colon :: ws) j a
        (⟨arena_offset D buf pj j, ch_quote⟩ :: es)
  | members (k m : Nat) (ws ws1 : List Nat) (j a : Nat) (es es1 : List TapeEntry) :
      Emits D buf len pj .value k ws (j + 2) (a + 1) es →
      Emits D buf len pj .members m ws1 (j + ws.length + 3) (a + 1 + es.length) es1 →
      Emits D buf len pj .members (max k m) (ch_quote :: ch_colon :: (ws ++ ch_comma :: ws1))
        j a (⟨arena_offset D buf pj j, ch_quote⟩ :: (es ++ es1))

/-- The context grammar of the tape.  A value is one string entry, one atom entry, the
two words of a number, or a start entry and an end entry of the same container kind
around the contents; the contents of an array are values, the contents of an object
alternate a string entry, the key, and a value. -/
inductive TapeSpells : Category → List TapeEntry → Prop
  | string (v : Nat) : TapeSpells .value [⟨v, ch_quote⟩]
  | atom (c : Nat) : is_atom_start c = true → TapeSpells .value [⟨0, c⟩]
  | number (t v : Nat) : TapeSpells .value [⟨0, t⟩, ⟨v, 0⟩]
  | empty_array (a b : Nat) : TapeSpells .value [⟨a, ch_lbracket⟩, ⟨b, ch_rbracket⟩]
  | array (a b : Nat) (es : List TapeEntry) : TapeSpells .elements es →
      TapeSpells .value (⟨a, ch_lbracket⟩ :: (es ++ [⟨b, ch_rbracket⟩]))
  | empty_object (a b : Nat) : TapeSpells .value [⟨a, ch_lbrace⟩, ⟨b, ch_rbrace⟩]
  | object (a b : Nat) (es : List TapeEntry) : TapeSpells .members es →
      TapeSpells .value (⟨a, ch_lbrace⟩ :: (es ++ [⟨b, ch_rbrace⟩]))
  | element (es : List TapeEntry) : TapeSpells .value es → TapeSpells .elements es
  | elements (es es1 : List TapeEntry) : TapeSpells .value es → TapeSpells .elements es1 →
      TapeSpells .elements (es ++ es1)
  | member (v : Nat) (es : List TapeEntry) : TapeSpells .value es →
      TapeSpells .members (⟨v, ch_quote⟩ :: es)
  | members (v : Nat) (es es1 : List TapeEntry) : TapeSpells .value es →
      TapeSpells .members es1 → TapeSpells .members (⟨v, ch_quote⟩ :: (es ++ es1))

/-- What the scalar pre-pass leaves for the walk in the workspace `pjx`, for the document
of `pj0`: the record of every string at its offset in the string buffer, every string
length fitting the 32-bit length field, and the number decoded at every number in its
slot of the side table. -/
def Records (D : ScalarDecoders) (buf : Nat → Nat) (len : Nat) (pj0 pjx : ParsedJson) : Prop :=
  (∀ x, x + 1 < pj0.n_structural_indexes → structural_byte buf pj0 x = ch_quote →
    ∀ t, t < (string_record D buf pj0 x).length →
      pjx.string_buf (arena_offset D buf pj0 x + t) = (string_record D buf pj0 x).getD t 0) ∧
  (∀ x, x + 1 < pj0.n_structural_indexes → structural_byte buf pj0 x = ch_quote →
    (string_bytes_at D buf pj0 x).length < 4294967296) ∧
  (∀ x, x + 1 < pj0.n_structural_indexes → is_number_start (structural_byte buf pj0 x) = true →
    pjx.number_buf (number_index buf pj0 x) = number_at D buf len pj0 x)

/-- The workspace `pjx` is in step with the document of `pj0` at position `j` and tape
index `a`: it holds the same structural index and the records of the pre-pass, its tape
cursor is `a`, and its string and number cursors stand at the records of position `j`. -/
def Sync (D : ScalarDecoders) (buf : Nat → Nat) (len : Nat) (pj0 pjx : ParsedJson)
    (j a : Nat) : Prop :=
  pjx.structural_indexes = pj0.structural_indexes ∧
  pjx.n_structural_indexes = pj0.n_structural_indexes ∧
  pjx.current_loc = a ∧
  pjx.current_string_buf_loc = arena_offset D buf pj0 j ∧
  pjx.current_number_loc = number_index buf pj0 j ∧
  Records D buf len pj0 pjx

/-- The tape of `pjq` holds the entries `es` from index `a` on and is the tape of `pjp`
below `a`. -/
def Wrote (pjp pjq : ParsedJson) (a : Nat) (es : List TapeEntry) : Prop :=
  (∀ t e, es[t]? = some e → pjq.tape (a + t) = e) ∧ ∀ t, t < a → pjq.tape t = pjp.tape t

/-- Statement about the walk over a phrase of the grammar that starts at position `j`
with the tape cursor at `a`: the walk reads the phrase, comes back to the continuation
and has written the entries `es` of the phrase, the workspace being in step with the
document before and after.  For the members of an object the first key has been read
and written. -/
def Builds (D : ScalarDecoders) (buf : Nat → Nat) (len : Nat) (pj0 : ParsedJson) :
    Category → Nat → List Nat → Nat → Nat → List TapeEntry → Prop
  | .value, k, ws, j, a, es => ∀ (p : StructuralParser) (cont : ret_address),
      p.i = j + 1 → p.c = structural_byte buf p.pj j → seg buf p.pj j ws.length = ws →
      j + ws.length < p.pj.n_structural_indexes → p.depth + k < p.pj.depth_capacity →
      Sync D buf len pj0 p.pj j a →
      ∃ s q, walk buf s (GOTO (p.parse_value cont).1, (p.parse_value cont).2) = (GOTO cont, q) ∧
        Returns p q (ws.length - 1) p.depth ∧
        Sync D buf len pj0 q.pj (j + ws.length) (a + es.length) ∧ Wrote p.pj q.pj a es
  | .elements, k, ws, j, a, es => ∀ (p : StructuralParser),
      p.i = j + 1 → p.c = structural_byte buf p.pj j → seg buf p.pj j ws.length = ws →
      j + ws.length < p.pj.n_structural_indexes → p.depth + k < p.pj.depth_capacity →
      Sync D buf len pj0 p.pj j a →
      ∃ s q, walk buf s (.main_array_switch, p) = (.array_continue, q) ∧
        Returns p q (ws.length - 1) p.depth ∧
        Sync D buf len pj0 q.pj (j + ws.length) (a + es.length) ∧ Wrote p.pj q.pj a es
  | .members, k, ws, j, a, es => ∀ (p : StructuralParser),
      p.i = j + 1 → seg buf p.pj j ws.length = ws →
      j + ws.length < p.pj.n_structural_indexes → p.depth + k < p.pj.depth_capacity →
      Sync D buf len pj0 p.pj (j + 1) (a + 1) →
      ∃ s q, walk buf s (.object_key_state, p) = (.object_continue, q) ∧
        Returns p q (ws.length - 1) p.depth ∧
        Sync D buf len pj0 q.pj (j + ws.length) (a + es.length) ∧
        Wrote p.pj q.pj (a + 1) (es.drop 1)

/-- Two parser states that may differ only in what earlier parses left behind: they
agree on the position, the character, the depth, the ghost record, the structural
index, the capacities, the tape cursor and the slots of the two scope stacks below the
depth. -/
def SameControl (p q : StructuralParser) : Prop :=
  q.len = p.len ∧ q.i = p.i ∧ q.idx = p.idx ∧ q.c = p.c ∧ q.depth = p.depth ∧ q.log = p.log ∧
  q.pj.structural_indexes = p.pj.structural_indexes ∧
  q.pj.n_structural_indexes = p.pj.n_structural_indexes ∧
  q.pj.depth_capacity = p.pj.depth_capacity ∧
  q.pj.current_loc = p.pj.current_loc ∧
  (∀ x, x < p.depth → q.pj.ret_address x = p.pj.ret_address x) ∧
  (∀ x, x < p.depth → q.pj.containing_scope_offset x = p.pj.containing_scope_offset x)

/-- Two workspaces for the same document: the same capacities and the same structural
index, whatever else they hold. -/
def SameDocument (pj pj1 : ParsedJson) : Prop :=
  pj1.byte_capacity = pj.byte_capacity ∧ pj1.depth_capacity = pj.depth_capacity ∧
  pj1.n_structural_indexes = pj.n_structural_indexes ∧
  pj1.structural_indexes = pj.structural_indexes

/-- The document of `k` opening brackets followed by `k` closing brackets. -/
def nested_brackets (k : Nat) : List Nat :=
  List.replicate k ch_lbracket ++ List.replicate k ch_rbracket

/-! ## The string helper of the skylake_x kernel -/

/-- The result of `find_bs_bits_and_quote_bits`: where the backslashes and the quotes
are, one bit per byte processed. -/
structure parse_string_helper where
  bs_bits : Nat
  quote_bits : Nat
  deriving DecidableEq, Repr

/-- The constant `parse_string_helper::BYTES_PROCESSED`. -/
def parse_string_helper.BYTES_PROCESSED : Nat := 64

/-- The offsets of the bytes that the load `simd8<uint8_t> v(src)` reads: the 64 bytes
of `_mm512_loadu_si512` from `src` on. -/
def load_offsets (src : Nat) : List Nat := List.range' src 64

/-- The mask of the byte-wise comparison of the vector `v` with the byte `c`: bit `t` is
set when byte `t` of the vector is `c`.  It is what `(v == c).to_bitmask()` is written
for; in the source `base8::operator==` calls `_mm512_cmpeq_epi8`, which no header
declares, so this is the comparison to a mask of AVX-512 and not compiled code. -/
def eq_bitmask (v : List Nat) (c : Nat) : Nat :=
  ((List.range v.length).map (fun t => if v.getD t 0 = c then 2 ^ t else 0)).sum

/-- The statements of `find_bs_bits_and_quote_bits(src, dst)` that follow its
`static_assert`, on a byte memory: the load of the bytes at `load_offsets src`, the
store at `dst` and the two masks, the comparison being read as `eq_bitmask`.  The
function with its `static_assert` is `find_bs_bits_and_quote_bits_checked`. -/
def find_bs_bits_and_quote_bits (mem : Nat → Nat) (src dst : Nat) :
    parse_string_helper × (Nat → Nat) :=
  (⟨eq_bitmask ((load_offsets src).map mem) 92, eq_bitmask ((load_offsets src).map mem) ch_quote⟩,
   store_bytes mem dst ((load_offsets src).map mem))

/-- The value of a list of decimal digits, the most significant first. -/
def digits_value (ds : List Nat) : Nat := ds.foldl (fun acc d => 10 * acc + d) 0

/-- The signed integer that a 64-bit word holds in two's complement. -/
def as_int64 (w : Nat) : Int := if w < 2 ^ 63 then (w : Int) else (w : Int) - 2 ^ 64

/-- The buffer holds at `pos` the decimal digits `ds`, with no leading zero, followed by
a structural or whitespace byte. -/
def HoldsDigits (buf : Nat → Nat) (pos : Nat) (ds : List Nat) : Prop :=
  ds ≠ [] ∧ (∀ t, t < ds.length → ds.getD t 0 < 10 ∧ buf (pos + t) = 48 + ds.getD t 0) ∧
  (ds.length ≠ 1 → ds.getD 0 0 ≠ 0) ∧
  is_structural_or_whitespace (buf (pos + ds.length)) = true

/-- The function `make_json` of `tests/integer_tests.cpp`: the document that holds
`value` under the key `key`. -/
def make_json (value : String) : String := "\x7b\"key\": " ++ value ++ "\x7d"

/-- The structural index of `make_json value` when `value` is one number: the offsets of
the opening brace, of the key, of the colon, of the number and of the closing brace,
then the sentinel. -/
def make_json_index (value : String) : List Nat :=
  [0, 1, 6, 8, 8 + value.length, 9 + value.length]

/-! ## Scope indexes and scope kinds -/

/-- The indexes of the scope stacks that the walk has used so far are within the depth
capacity: the depth is at most the capacity, every push wrote the slot `slot`
(`containing_scope_offset[depth]` and `ret_address[depth]`, `depth` being `slot`) below
the capacity, and every `pop_scope` was made at a depth `slot + 1` below the capacity and
read a slot that is not the one of the root. -/
def SlotsInBounds (p : StructuralParser) : Prop :=
  p.depth ≤ p.pj.depth_capacity ∧
  (∀ slot loc, Event.push slot loc ∈ p.log → slot < p.pj.depth_capacity) ∧
  (∀ slot s e, Event.pop slot s e ∈ p.log → 1 ≤ slot ∧ slot + 1 < p.pj.depth_capacity)

/-- The kind of the start entry of the scope recorded at slot `x` of
`containing_scope_offset`. -/
def scope_kind (p : StructuralParser) (x : Nat) : Nat :=
  (p.pj.tape (p.pj.containing_scope_offset x)).kind

/-- How the kinds of the scopes go with the stored return states.  The return state
stored at a slot `x ≥ 2` is `object_continue` when the scope below it is an object and
`array_continue` when it is an array; every scope closed so far has an end entry and a
start entry of the same container kind. -/
def KindsInv (p : StructuralParser) : Prop :=
  (∀ x, 2 ≤ x → x < p.depth →
    (p.pj.ret_address x = .object_continue ∧ scope_kind p (x - 1) = ch_lbrace) ∨
    (p.pj.ret_address x = .array_continue ∧ scope_kind p (x - 1) = ch_lbracket)) ∧
  (∀ slot s e, Event.pop slot s e ∈ p.log →
    ((p.pj.tape e).kind = ch_rbrace ∧ (p.pj.tape s).kind = ch_lbrace) ∨
    ((p.pj.tape e).kind = ch_rbracket ∧ (p.pj.tape s).kind = ch_lbracket))

/-- How the kind `top` of the innermost open scope goes with the label: at the labels
of the object states it is an object, at those of the array states an array, and at
`scope_end` the closing bracket `c` just read is the one of the innermost scope. -/
def TopKind (L : Label) (c top : Nat) : Prop :=
  match L with
  | .object_begin => top = ch_lbrace
  | .object_key_state => top = ch_lbrace
  | .object_continue => top = ch_lbrace
  | .array_begin => top = ch_lbracket
  | .main_array_switch => top = ch_lbracket
  | .array_continue => top = ch_lbracket
  | .scope_end => (c = ch_rbrace ∧ top = ch_lbrace) ∨ (c = ch_rbracket ∧ top = ch_lbracket)
  | _ => True

/-- How the kinds of the scopes go with the labels and with the stored return states
in a configuration of the walk. -/
def ScopeKinds (cfg : Label × StructuralParser) : Prop :=
  KindsInv cfg.2 ∧ TopKind cfg.1 cfg.2.c (scope_kind cfg.2 (cfg.2.depth - 1))

/-- Scan of the brackets of `ws`, `stack` holding the opening brackets of the containers
that are open, the innermost first: whether some `]` closes an object or some `}`
closes an array. -/
def closes_wrong_bracket : List Nat → List Nat → Bool
  | _, [] => false
  | stack, c :: ws =>
    if c = ch_lbracket ∨ c = ch_lbrace then closes_wrong_bracket (c :: stack) ws
    else if c = ch_rbracket ∨ c = ch_rbrace then
      match stack with
      | [] => closes_wrong_bracket [] ws
      | o :: rest =>
        if (c = ch_rbracket ∧ o = ch_lbracket) ∨ (c = ch_rbrace ∧ o = ch_lbrace) then
          closes_wrong_bracket rest ws
        else true
    else closes_wrong_bracket stack ws

/-! ## The build without computed goto -/

/-- The character that `INIT_ADDRESSES()` gives to each address in the build without
`SIMDJSON_USE_COMPUTED_GOTO`: `'['`, `'a'`, `'e'`, `'f'`, `'{'`, `'o'`. -/
def ret_address.code : ret_address → Nat
  | .array_begin => 91
  | .array_continue => 97
  | .error => 101
  | .finish => 102
  | .object_begin => 123
  | .object_continue => 111

/-- The macro `GOTO(address)` of the build without computed goto, a switch with six
cases and no default: the label of the case that matches, `none` when none does. -/
def GOTO_switch (address : Nat) : Option Label :=
  if address = 91 then some .array_begin
  else if address = 97 then some .array_continue
  else if address = 101 then some .error
  else if address = 102 then some .finish
  else if address = 123 then some .object_begin
  else if address = 111 then some .object_continue
  else none

/-- The macro `CONTINUE(address)` of the build without computed goto ("for the more
constrained pop_scope() situation"), a switch with the three cases `'a'`, `'o'` and
`'f'` and no default. -/
def CONTINUE_switch (address : Nat) : Option Label :=
  if address = 97 then some .array_continue
  else if address = 111 then some .object_continue
  else if address = 102 then some .finish
  else none

/-- One transition of `unified_machine` in the build without computed goto.  When no
case of a switch matches, control falls through to the label that follows in the
text: `object_continue` after the `GOTO` of `object_key_state`, `array_begin` after the
`CONTINUE` of `scope_end`, `array_continue` after the `GOTO` of `main_array_switch`. -/
def step_switch (buf : Nat → Nat) : Label × StructuralParser → Label × StructuralParser
  | (.object_begin, p) =>
    match p.advance_char buf with
    | none => (.overrun, p)
    | some p1 =>
      if p1.c = ch_quote then (.object_key_state, p1.write_string)
      else if p1.c = ch_rbrace then (.scope_end, p1)
      else (.error, p1)
  | (.object_key_state, p) =>
    match p.advance_char buf with
    | none => (.overrun, p)
    | some p1 =>
      if p1.c ≠ ch_colon then (.error, p1)
      else
        match p1.advance_char buf with
        | none => (.overrun, p1)
        | some p2 =>
          let r := p2.parse_value .object_continue
          ((GOTO_switch r.1.code).getD .object_continue, r.2)
  | (.object_continue, p) =>
    match p.advance_char buf with
    | none => (.overrun, p)
    | some p1 =>
      if p1.c = ch_comma then
        match p1.advance_char buf with
        | none => (.overrun, p1)
        | some p2 =>
          if p2.c ≠ ch_quote then (.error, p2)
          else (.object_key_state, p2.write_string)
      else if p1.c = ch_rbrace then (.scope_end, p1)
      else (.error, p1)
  | (.scope_end, p) =>
    let r := p.pop_scope
    ((CONTINUE_switch r.1.code).getD .array_begin, r.2)
  | (.array_begin, p) =>
    match p.advance_char buf with
    | none => (.overrun, p)
    | some p1 =>
      if p1.c = ch_rbracket then (.scope_end, p1)
      else (.main_array_switch, p1)
  | (.main_array_switch, p) =>
    let r := p.parse_value .array_continue
    ((GOTO_switch r.1.code).getD .array_continue, r.2)
  | (.array_continue, p) =>
    match p.advance_char buf with
    | none => (.overrun, p)
    | some p1 =>
      if p1.c = ch_comma then
        match p1.advance_char buf with
        | none => (.overrun, p1)
        | some p2 => (.main_array_switch, p2)
      else if p1.c = ch_rbracket then (.scope_end, p1)
      else (.error, p1)
  | (.finish, p) => (.finish, p)
  | (.error, p) => (.error, p)
  | (.overrun, p) => (.overrun, p)

/-- Iterate `step_switch` a given number of times. -/
def walk_switch (buf : Nat → Nat) : Nat → Label × StructuralParser → Label × StructuralParser
  | 0, cfg => cfg
  | k + 1, cfg => walk_switch buf k (step_switch buf cfg)

/-! ## Vocabulary of the properties of the walk -/

/-- Whether an event of the ghost record is a call of `advance_char`. -/
def Event.is_read : Event → Bool
  | .read _ _ => true
  | _ => false

/-- The bytes on which the switches of the state machine dispatch: the double quote, the
comma, the colon, the four brackets, the minus sign, the digits and the letters `t`,
`f` and `n`. -/
def is_dispatch_byte (c : Nat) : Bool :=
  is_scalar_start c || c == ch_comma || c == ch_colon || c == ch_lbrace || c == ch_rbrace ||
  c == ch_lbracket || c == ch_rbracket

/-- The string decoder fails on the structural at position `x`, which starts with a
double quote. -/
def string_fails (D : ScalarDecoders) (buf : Nat → Nat) (pj : ParsedJson) (x : Nat) : Prop :=
  structural_byte buf pj x = ch_quote ∧ D.parse_string buf (pj.structural_indexes x) = none

/-- The number decoder fails on the structural at position `x`, which starts with a
digit or a minus sign; the decoder runs on the space-terminated copy when the document
is one sole structural, and the copy may fail to be allocated. -/
def number_fails (D : ScalarDecoders) (buf : Nat → Nat) (len : Nat) (pj : ParsedJson)
    (x : Nat) : Prop :=
  is_number_start (structural_byte buf pj x) = true ∧
  ((pj.n_structural_indexes = 2 ∧ D.malloc_succeeds = false) ∨
    D.parse_number (number_source buf len pj) (pj.structural_indexes x)
      (decide (structural_byte buf pj x = ch_minus)) = none)

/-- The atom at position `x`, which starts with `t`, `f` or `n`, is malformed: `parse_atom`
returns `true` on it; `parse_atom` runs on the space-terminated copy when the document
is one sole structural, and the copy may fail to be allocated. -/
def atom_fails (D : ScalarDecoders) (buf : Nat → Nat) (len : Nat) (pj : ParsedJson)
    (x : Nat) : Prop :=
  is_atom_start (structural_byte buf pj x) = true ∧
  ((pj.n_structural_indexes = 2 ∧ D.malloc_succeeds = false) ∨
    parse_atom D (number_source buf len pj) (pj.structural_indexes x) = true)

/-- The calls of `advance_char` recorded so far are as many as the position reached,
which is at most the number of structural indexes. -/
def ReadCount (p : StructuralParser) : Prop :=
  (p.log.filter Event.is_read).length = p.i ∧ p.i ≤ p.pj.n_structural_indexes

/-- What guards the reads of the walk: the position is within the structural index, the
current character is the structural byte before the position, the walk has not read
outside the index, and at every label other than `error` and `main_array_switch` the
current character is one of those on which the machine dispatches. -/
def ReadsGuarded (buf : Nat → Nat) (cfg : Label × StructuralParser) : Prop :=
  1 ≤ cfg.2.i ∧ cfg.2.i ≤ cfg.2.pj.n_structural_indexes ∧
  cfg.2.c = structural_byte buf cfg.2.pj (cfg.2.i - 1) ∧ cfg.1 ≠ .overrun ∧
  (cfg.1 ≠ .error → cfg.1 ≠ .main_array_switch → is_dispatch_byte cfg.2.c = true)

/-- Every scope closed so far has its end entry below the tape location, pointing to
its start entry. -/
def PopsPoint (p : StructuralParser) : Prop :=
  ∀ slot s e, Event.pop slot s e ∈ p.log → e < p.pj.current_loc ∧ (p.pj.tape e).payload = s

/-- The two parser states dispatch alike: the same position, current character, depth
and depth capacity, and the same return states in the slots below the depth. -/
def SameDispatch (p q : StructuralParser) : Prop :=
  q.i = p.i ∧ q.c = p.c ∧ q.depth = p.depth ∧
  q.pj.depth_capacity = p.pj.depth_capacity ∧
  ∀ x, x < p.depth → q.pj.ret_address x = p.pj.ret_address x

/-! ## The document-stream splitter -/

namespace StructuralParser

end StructuralParser

/-- The library function `memcpy(dst, src, n)` on a byte memory: the `n` bytes from `src`
on, as they are before the call, are written from `dst` on. -/
def memcpy (mem : Nat → Nat) (dst src n : Nat) : Nat → Nat :=
  fun a => if dst ≤ a ∧ a < dst + n then mem (src + (a - dst)) else mem a

/-- The library function `memset(dst, c, n)` on a byte memory. -/
def memset (mem : Nat → Nat) (dst c n : Nat) : Nat → Nat :=
  fun a => if dst ≤ a ∧ a < dst + n then c else mem a

/-- The function `with_space_terminated_copy(buf, len, f)` on a byte-addressed memory,
`buf` being an address.  `copy` is the pointer that `malloc(len + SIMDJSON_PADDING)`
returns (`none` for a null pointer); `f` reads the memory through the pointer it is
given.  The result is the returned flag, the pointers with which `f` has been called,
in order, and the memory when `f` is called, which `free` leaves as it is. -/
def with_space_terminated_copy_at (mem : Nat → Nat) (buf len : Nat) (copy : Option Nat)
    (f : (Nat → Nat) → Nat → Bool) : Bool × List Nat × (Nat → Nat) :=
  match copy with
  | none => (true, [], mem)
  | some c =>
    (f (memset (memcpy mem c buf len) (c + len) ch_space SIMDJSON_PADDING) c, [c],
      memset (memcpy mem c buf len) (c + len) ch_space SIMDJSON_PADDING)

/-! ## 64-bit unsigned arithmetic and the alignment macros -/

/-- The sum of two `uint64_t` values. -/
def add64 (a b : Nat) : Nat := (a + b) % 2 ^ 64

/-- The difference of two `uint64_t` values. -/
def sub64 (a b : Nat) : Nat := (a + (2 ^ 64 - b % 2 ^ 64)) % 2 ^ 64

/-- The bitwise complement of a `uint64_t` value. -/
def not64 (a : Nat) : Nat := 2 ^ 64 - 1 - a % 2 ^ 64

/-- The macro `ROUNDUP_N(a, n)`, that is `(((a) + ((n)-1)) & ~((n)-1))`, both operands
being of type `size_t` (64 bits). -/
def ROUNDUP_N (a n : Nat) : Nat := add64 a (sub64 n 1) &&& not64 (sub64 n 1)

/-- The macro `ROUNDDOWN_N(a, n)`, that is `((a) & ~((n)-1))`, both operands being of
type `size_t` (64 bits). -/
def ROUNDDOWN_N (a n : Nat) : Nat := a &&& not64 (sub64 n 1)

/-! ## Byte shifts of the skylake_x kernel

A 512-bit register is given by its 64 byte lanes, lane `i` being byte `i` of the
register in memory order; the 16-bit word `j` is made of the lanes `2 j` (low byte)
and `2 j + 1` (high byte). -/

/-- The intrinsic `_mm512_srli_epi16(a, imm8)`: every 16-bit word is shifted right by
`imm8` bits, zeros coming in; the result is zero when `imm8` is more than 15. -/
def _mm512_srli_epi16 (a : Nat → Nat) (imm8 : Nat) : Nat → Nat :=
  fun i =>
    if i % 2 = 0 then
      (if 15 < imm8 then 0 else (a (2 * (i / 2)) + 256 * a (2 * (i / 2) + 1)) >>> imm8) % 256
    else
      (if 15 < imm8 then 0 else (a (2 * (i / 2)) + 256 * a (2 * (i / 2) + 1)) >>> imm8) / 256
        % 256

/-- The intrinsic `_mm512_slli_epi16(a, imm8)`: every 16-bit word is shifted left by
`imm8` bits within its 16 bits; the result is zero when `imm8` is more than 15. -/
def _mm512_slli_epi16 (a : Nat → Nat) (imm8 : Nat) : Nat → Nat :=
  fun i =>
    if i % 2 = 0 then
      (if 15 < imm8 then 0
        else ((a (2 * (i / 2)) + 256 * a (2 * (i / 2) + 1)) <<< imm8) % 65536) % 256
    else
      (if 15 < imm8 then 0
        else ((a (2 * (i / 2)) + 256 * a (2 * (i / 2) + 1)) <<< imm8) % 65536) / 256 % 256

/-- The intrinsic `_mm512_set1_epi8(a)`, used by `splat`: every lane is the byte `a`. -/
def _mm512_set1_epi8 (a : Nat) : Nat → Nat := fun _ => a % 256

/-- The intrinsic `_mm512_and_si512(a, b)`, used by `operator&`. -/
def _mm512_and_si512 (a b : Nat → Nat) : Nat → Nat := fun i => a i &&& b i

/-- The function `simd8<uint8_t>::shr<N>()`:
`simd8<uint8_t>(_mm512_srli_epi16(*this, N)) & uint8_t(0xFFu >> N)`. -/
def simd8.shr (N : Nat) (v : Nat → Nat) : Nat → Nat :=
  _mm512_and_si512 (_mm512_srli_epi16 v N) (_mm512_set1_epi8 (255 >>> N))

/-- The function `simd8<uint8_t>::shl<N>()`:
`simd8<uint8_t>(_mm512_slli_epi16(*this, N)) & uint8_t(0xFFu << N)`. -/
def simd8.shl (N : Nat) (v : Nat → Nat) : Nat → Nat :=
  _mm512_and_si512 (_mm512_slli_epi16 v N) (_mm512_set1_epi8 (255 <<< N))

/-! ## The block statistics of the benchmark -/

/-- The constant `BYTES_PER_BLOCK` of `benchmark/benchmarker.h`. -/
def BYTES_PER_BLOCK : Nat := 64

/-- The fields of `json_stats` that its constructor derives from the size of the
document and from the structural index. -/
structure json_stats where
  bytes : Nat
  blocks : Nat
  structurals : Nat
  blocks_with_0_structurals : Nat
  blocks_with_0_structurals_flipped : Nat
  blocks_with_1_structural : Nat
  blocks_with_1_structural_flipped : Nat
  blocks_with_8_structurals : Nat
  blocks_with_8_structurals_flipped : Nat
  blocks_with_16_structurals : Nat
  blocks_with_16_structurals_flipped : Nat
  deriving DecidableEq, Repr

/-- The inner loop of the constructor of `json_stats`,
`while (structural < n_structural_indexes && structural_indexes[structural] <
(block+1)*BYTES_PER_BLOCK)`, from the values of `structural` and `block_structurals`
given; the result is `block_structurals` and `structural` after the loop.  Every round
advances `structural`, so that `n_structural_indexes` rounds of fuel are enough. -/
def count_block_structurals (n_structural_indexes : Nat) (structural_indexes : Nat → Nat)
    (block : Nat) : Nat → Nat → Nat → Nat × Nat
  | 0, structural, block_structurals => (block_structurals, structural)
  | fuel + 1, structural, block_structurals =>
    if structural < n_structural_indexes
        ∧ structural_indexes structural < (block + 1) * BYTES_PER_BLOCK then
      count_block_structurals n_structural_indexes structural_indexes block fuel
        (structural + 1) (block_structurals + 1)
    else (block_structurals, structural)

/-- The variables of the loop over the blocks in the constructor of `json_stats`. -/
structure block_loop where
  structural : Nat
  last_block_has_0_structurals : Bool
  last_block_has_1_structural : Bool
  last_block_has_8_structurals : Bool
  last_block_has_16_structurals : Bool
  stats : json_stats

/-- The statement `if (block_has) { counter++; }`. -/
def bump (block_has : Bool) (counter : Nat) : Nat :=
  if block_has then counter + 1 else counter

/-- The statement `if (block > 0 && last_block_has != block_has) { counter++; }`. -/
def flipped (block : Nat) (last_block_has block_has : Bool) (counter : Nat) : Nat :=
  if 0 < block ∧ last_block_has ≠ block_has then counter + 1 else counter

/-- One round of the loop over the blocks that counts the structurals of each block. -/
def structural_count_body (n_structural_indexes : Nat) (structural_indexes : Nat → Nat)
    (st : block_loop) (block : Nat) : block_loop :=
  let counted := count_block_structurals n_structural_indexes structural_indexes block
    n_structural_indexes st.structural 0
  let block_has_0_structurals := decide (counted.1 = 0)
  let block_has_1_structural := decide (1 ≤ counted.1)
  let block_has_8_structurals := decide (8 ≤ counted.1)
  let block_has_16_structurals := decide (16 ≤ counted.1)
  { structural := counted.2
    last_block_has_0_structurals := block_has_0_structurals
    last_block_has_1_structural := block_has_1_structural
    last_block_has_8_structurals := block_has_8_structurals
    last_block_has_16_structurals := block_has_16_structurals
    stats :=
      { st.stats with
        blocks_with_0_structurals :=
          bump block_has_0_structurals st.stats.blocks_with_0_structurals
        blocks_with_0_structurals_flipped :=
          flipped block st.last_block_has_0_structurals block_has_0_structurals
            st.stats.blocks_with_0_structurals_flipped
        blocks_with_1_structural :=
          bump block_has_1_structural st.stats.blocks_with_1_structural
        blocks_with_1_structural_flipped :=
          flipped block st.last_block_has_1_structural block_has_1_structural
            st.stats.blocks_with_1_structural_flipped
        blocks_with_8_structurals :=
          bump block_has_8_structurals st.stats.blocks_with_8_structurals
        blocks_with_8_structurals_flipped :=
          flipped block st.last_block_has_8_structurals block_has_8_structurals
            st.stats.blocks_with_8_structurals_flipped
        blocks_with_16_structurals :=
          bump block_has_16_structurals st.stats.blocks_with_16_structurals
        blocks_with_16_structurals_flipped :=
          flipped block st.last_block_has_16_structurals block_has_16_structurals
            st.stats.blocks_with_16_structurals_flipped } }

/-- The constructor `json_stats::json_stats(json, parser)`, from the size of the
document and the structural index of the parser: the number of blocks, the number of
structurals, and the loop that counts the structurals of each block.  The two loops
that look for UTF-8 and for escapes in the bytes of the document are left out. -/
def json_stats.construct (json_size : Nat) (n_structural_indexes : Nat)
    (structural_indexes : Nat → Nat) : json_stats :=
  ((List.range (json_size / BYTES_PER_BLOCK
        + (if 0 < json_size % BYTES_PER_BLOCK then 1 else 0))).foldl
    (structural_count_body n_structural_indexes structural_indexes)
    { structural := 0
      last_block_has_0_structurals := false
      last_block_has_1_structural := false
      last_block_has_8_structurals := false
      last_block_has_16_structurals := false
      stats :=
        { bytes := json_size
          blocks := json_size / BYTES_PER_BLOCK
            + (if 0 < json_size % BYTES_PER_BLOCK then 1 else 0)
          structurals := n_structural_indexes - 1
          blocks_with_0_structurals := 0
          blocks_with_0_structurals_flipped := 0
          blocks_with_1_structural := 0
          blocks_with_1_structural_flipped := 0
          blocks_with_8_structurals := 0
          blocks_with_8_structurals_flipped := 0
          blocks_with_16_structurals := 0
          blocks_with_16_structurals_flipped := 0 } }).stats

/-- The number of 64-byte blocks of a document of `json_size` bytes that hold none of
the structurals before the sentinel, the last position of the structural index. -/
def blocks_without_structurals (json_size : Nat) (n_structural_indexes : Nat)
    (structural_indexes : Nat → Nat) : Nat :=
  ((List.range (json_size / BYTES_PER_BLOCK
      + (if 0 < json_size % BYTES_PER_BLOCK then 1 else 0))).filter
    (fun block => (List.range (n_structural_indexes - 1)).all
      (fun x => decide (structural_indexes x / BYTES_PER_BLOCK ≠ block)))).length

/-! ## The stream conformance check of `tests/parse_many_test.cpp` -/

/-- The library function `strrchr(s, c)`: the part of `s` from the last `c` on. -/
def strrchr : List Char → Char → Option (List Char)
  | [], _ => none
  | x :: s, c =>
    match strrchr s c with
    | some r => some r
    | none => if x = c then some (x :: s) else none

/-- The function `has_extension(filename, extension)`. -/
def has_extension (filename extension : List Char) : Bool :=
  match strrchr filename '.' with
  | none => false
  | some ext => ext == extension

/-- The function `starts_with(pre, str)`. -/
def starts_with (pre str : List Char) : Bool :=
  if str.length < pre.length then false else pre == str.take pre.length

/-- The function `contains(pre, str)`: `strstr(str, pre)` finds `pre` in `str`. -/
def contains (pre str : List Char) : Bool :=
  (List.range (str.length + 1)).any (fun k => (str.drop k).take pre.length == pre)

/-- The local constant `extension1` of `validate`. -/
def extension1 : List Char := ".ndjson".toList

/-- The local constant `extension2` of `validate`. -/
def extension2 : List Char := ".jsonl".toList

/-- The local constant `extension3` of `validate`. -/
def extension3 : List Char := ".json".toList

/-- What `validate` gets for one entry of the directory: its name, the error code of
`padded_string::load` (zero for none) and the error codes of the documents that
`parse_many` yields, in order. -/
structure dir_entry where
  d_name : List Char
  load_error : Nat
  results : List Nat

/-- The variable `error` of `validate` after "the actual test": the error of the load,
or else the error of the last document that `parse_many` yielded. -/
def stream_error (e : dir_entry) : Nat :=
  if e.load_error = 0 then e.results.foldl (fun _ r => r) e.load_error else e.load_error

/-- The body of the loop of `validate` for one entry: the value that it leaves in
`is_file_as_expected[i]`.  The counter `how_many`, which is only printed, is left
out. -/
def file_as_expected (e : dir_entry) : Bool :=
  if has_extension e.d_name extension1 || has_extension e.d_name extension2
      || has_extension e.d_name extension3 then
    if contains "EXCLUDE".toList e.d_name then true
    else if starts_with "pass".toList e.d_name
        && (has_extension extension1 e.d_name || has_extension extension2 e.d_name)
        && decide (stream_error e ≠ 0) then false
    else if starts_with "fail".toList e.d_name
        && !(starts_with "fail10.json".toList e.d_name)
        && decide (stream_error e = 0) then false
    else true
  else true

/-- The function `validate(dirname)`, from what `scandir` gives: `none` when it fails.
The variable `everything_fine` is set to false exactly where an entry of
`is_file_as_expected` is. -/
def validate (scandir : Option (List dir_entry)) : Bool :=
  match scandir with
  | none => false
  | some [] => false
  | some (e :: es) => (e :: es).all file_as_expected

/-! ## The ULP distance of `tests/basictests.cpp` -/

/-- The function `f64_ulp_dist(a, b)`, from the 64-bit patterns `ua` and `ub` that the
two calls of `memcpy` give.  A signed 64-bit value is not negative when its pattern is
below `2^63`. -/
def f64_ulp_dist (ua ub : Nat) : Nat :=
  if ub ^^^ ua < 2 ^ 63 then
    if sub64 ua ub < 2 ^ 63 then sub64 ua ub else sub64 ub ua
  else add64 (add64 ua ub) 0x80000000

/-- The place of a double among the doubles in increasing order, counted from zero, from
its 64-bit pattern: the magnitude bits, negated when the sign bit is set. -/
def f64_ordinal (u : Nat) : Int :=
  if u < 2 ^ 63 then (u : Int) else -((u - 2 ^ 63 : Nat) : Int)

/-- The ULP distance between the doubles of patterns `ua` and `ub`: the number of steps
from one to the other, the two zeros being the same place. -/
def ulp_distance (ua ub : Nat) : Nat := (f64_ordinal ua - f64_ordinal ub).natAbs

end simdjson

namespace simdjson
open StructuralParser

/-! ## Elementary facts about the walk -/

theorem frame_refl (p : StructuralParser) : Frame p p := ⟨rfl, rfl, rfl⟩

theorem frame_trans {p q r : StructuralParser} (h1 : Frame p q) (h2 : Frame q r) :
    Frame p r :=
  ⟨h2.1.trans h1.1, h2.2.1.trans h1.2.1, h2.2.2.trans h1.2.2⟩

theorem walk_add (buf : Nat → Nat) (a b : Nat) (cfg : Label × StructuralParser) :
    walk buf (a + b) cfg = walk buf b (walk buf a cfg) := by
  induction a generalizing cfg with
  | zero => simp [walk]
  | succ a ih => rw [Nat.succ_add]; simp only [walk]; exact ih _

theorem walk_succ (buf : Nat → Nat) (t : Nat) (cfg : Label × StructuralParser) :
    walk buf (t + 1) cfg = walk buf t (step buf cfg) := rfl

theorem walk_one (buf : Nat → Nat) (cfg : Label × StructuralParser) :
    walk buf 1 cfg = step buf cfg := rfl

theorem step_terminal (buf : Nat → Nat) (L : Label) (p : StructuralParser)
    (h : L.terminal = true) : step buf (L, p) = (L, p) := by
  cases L <;> simp_all [Label.terminal, step]

theorem walk_terminal (buf : Nat → Nat) (t : Nat) (L : Label) (p : StructuralParser)
    (h : L.terminal = true) : walk buf t (L, p) = (L, p) := by
  induction t with
  | zero => rfl
  | succ t ih => rw [walk_succ, step_terminal buf L p h, ih]

/-! ## The members of `structural_parser` -/

@[simp] theorem read_next_i (buf : Nat → Nat) (p : StructuralParser) :
    (p.read_next buf).i = p.i + 1 := rfl

@[simp] theorem read_next_c (buf : Nat → Nat) (p : StructuralParser) :
    (p.read_next buf).c = structural_byte buf p.pj p.i := rfl

@[simp] theorem read_next_pj (buf : Nat → Nat) (p : StructuralParser) :
    (p.read_next buf).pj = p.pj := rfl

@[simp] theorem read_next_depth (buf : Nat → Nat) (p : StructuralParser) :
    (p.read_next buf).depth = p.depth := rfl

@[simp] theorem read_next_len (buf : Nat → Nat) (p : StructuralParser) :
    (p.read_next buf).len = p.len := rfl

@[simp] theorem read_next_log (buf : Nat → Nat) (p : StructuralParser) :
    (p.read_next buf).log = p.log ++ [Event.read p.i (p.pj.structural_indexes p.i)] := rfl

@[simp] theorem write_string_i (p : StructuralParser) : p.write_string.i = p.i := rfl
@[simp] theorem write_string_c (p : StructuralParser) : p.write_string.c = p.c := rfl
@[simp] theorem write_string_depth (p : StructuralParser) : p.write_string.depth = p.depth := rfl
@[simp] theorem write_string_log (p : StructuralParser) : p.write_string.log = p.log := rfl
@[simp] theorem write_string_len (p : StructuralParser) : p.write_string.len = p.len := rfl
@[simp] theorem write_atom_i (p : StructuralParser) : p.write_atom.i = p.i := rfl
@[simp] theorem write_atom_c (p : StructuralParser) : p.write_atom.c = p.c := rfl
@[simp] theorem write_atom_depth (p : StructuralParser) : p.write_atom.depth = p.depth := rfl
@[simp] theorem write_atom_log (p : StructuralParser) : p.write_atom.log = p.log := rfl
@[simp] theorem write_atom_len (p : StructuralParser) : p.write_atom.len = p.len := rfl
@[simp] theorem write_number_i (p : StructuralParser) : p.write_number.i = p.i := rfl
@[simp] theorem write_number_c (p : StructuralParser) : p.write_number.c = p.c := rfl
@[simp] theorem write_number_depth (p : StructuralParser) : p.write_number.depth = p.depth := rfl
@[simp] theorem write_number_log (p : StructuralParser) : p.write_number.log = p.log := rfl
@[simp] theorem write_number_len (p : StructuralParser) : p.write_number.len = p.len := rfl

theorem write_string_frame (p : StructuralParser) :
    Frame p p.write_string ∧ p.write_string.pj.ret_address = p.pj.ret_address ∧
      p.write_string.pj.containing_scope_offset = p.pj.containing_scope_offset :=
  ⟨⟨rfl, rfl, rfl⟩, rfl, rfl⟩

theorem write_atom_frame (p : StructuralParser) :
    Frame p p.write_atom ∧ p.write_atom.pj.ret_address = p.pj.ret_address ∧
      p.write_atom.pj.containing_scope_offset = p.pj.containing_scope_offset :=
  ⟨⟨rfl, rfl, rfl⟩, rfl, rfl⟩

theorem write_number_frame (p : StructuralParser) :
    Frame p p.write_number ∧ p.write_number.pj.ret_address = p.pj.ret_address ∧
      p.write_number.pj.containing_scope_offset = p.pj.containing_scope_offset :=
  ⟨⟨rfl, rfl, rfl⟩, rfl, rfl⟩

@[simp] theorem pop_scope_i (p : StructuralParser) : p.pop_scope.2.i = p.i := rfl
@[simp] theorem pop_scope_c (p : StructuralParser) : p.pop_scope.2.c = p.c := rfl
@[simp] theorem pop_scope_depth (p : StructuralParser) : p.pop_scope.2.depth = p.depth - 1 := rfl
@[simp] theorem pop_scope_len (p : StructuralParser) : p.pop_scope.2.len = p.len := rfl
@[simp] theorem pop_scope_ret (p : StructuralParser) :
    p.pop_scope.2.pj.ret_address = p.pj.ret_address := rfl
@[simp] theorem pop_scope_cso (p : StructuralParser) :
    p.pop_scope.2.pj.containing_scope_offset = p.pj.containing_scope_offset := rfl
@[simp] theorem pop_scope_addr (p : StructuralParser) :
    p.pop_scope.1 = p.pj.ret_address (p.depth - 1) := rfl

theorem pop_scope_frame (p : StructuralParser) : Frame p p.pop_scope.2 := ⟨rfl, rfl, rfl⟩

@[simp] theorem push_scope_i (p : StructuralParser) (k : ret_address) :
    (p.push_scope k).2.i = p.i := rfl
@[simp] theorem push_scope_c (p : StructuralParser) (k : ret_address) :
    (p.push_scope k).2.c = p.c := rfl
@[simp] theorem push_scope_depth (p : StructuralParser) (k : ret_address) :
    (p.push_scope k).2.depth = p.depth + 1 := rfl
@[simp] theorem push_scope_len (p : StructuralParser) (k : ret_address) :
    (p.push_scope k).2.len = p.len := rfl
@[simp] theorem push_scope_ret (p : StructuralParser) (k : ret_address) :
    (p.push_scope k).2.pj.ret_address = Function.update p.pj.ret_address p.depth k := rfl
@[simp] theorem push_scope_cso (p : StructuralParser) (k : ret_address) :
    (p.push_scope k).2.pj.containing_scope_offset =
      Function.update p.pj.containing_scope_offset p.depth p.pj.current_loc := rfl

@[simp] theorem push_scope_n (p : StructuralParser) (k : ret_address) :
    (p.push_scope k).2.pj.n_structural_indexes = p.pj.n_structural_indexes := rfl
@[simp] theorem push_scope_si (p : StructuralParser) (k : ret_address) :
    (p.push_scope k).2.pj.structural_indexes = p.pj.structural_indexes := rfl
@[simp] theorem push_scope_cap (p : StructuralParser) (k : ret_address) :
    (p.push_scope k).2.pj.depth_capacity = p.pj.depth_capacity := rfl
@[simp] theorem pop_scope_n (p : StructuralParser) :
    p.pop_scope.2.pj.n_structural_indexes = p.pj.n_structural_indexes := rfl
@[simp] theorem pop_scope_si (p : StructuralParser) :
    p.pop_scope.2.pj.structural_indexes = p.pj.structural_indexes := rfl
@[simp] theorem pop_scope_cap (p : StructuralParser) :
    p.pop_scope.2.pj.depth_capacity = p.pj.depth_capacity := rfl
@[simp] theorem write_string_n (p : StructuralParser) :
    p.write_string.pj.n_structural_indexes = p.pj.n_structural_indexes := rfl
@[simp] theorem write_string_si (p : StructuralParser) :
    p.write_string.pj.structural_indexes = p.pj.structural_indexes := rfl
@[simp] theorem write_string_cap (p : StructuralParser) :
    p.write_string.pj.depth_capacity = p.pj.depth_capacity := rfl
@[simp] theorem write_string_ret (p : StructuralParser) :
    p.write_string.pj.ret_address = p.pj.ret_address := rfl
@[simp] theorem write_string_cso (p : StructuralParser) :
    p.write_string.pj.containing_scope_offset = p.pj.containing_scope_offset := rfl
@[simp] theorem write_atom_n (p : StructuralParser) :
    p.write_atom.pj.n_structural_indexes = p.pj.n_structural_indexes := rfl
@[simp] theorem write_atom_si (p : StructuralParser) :
    p.write_atom.pj.structural_indexes = p.pj.structural_indexes := rfl
@[simp] theorem write_atom_cap (p : StructuralParser) :
    p.write_atom.pj.depth_capacity = p.pj.depth_capacity := rfl
@[simp] theorem write_atom_ret (p : StructuralParser) :
    p.write_atom.pj.ret_address = p.pj.ret_address := rfl
@[simp] theorem write_atom_cso (p : StructuralParser) :
    p.write_atom.pj.containing_scope_offset = p.pj.containing_scope_offset := rfl
@[simp] theorem write_number_n (p : StructuralParser) :
    p.write_number.pj.n_structural_indexes = p.pj.n_structural_indexes := rfl
@[simp] theorem write_number_si (p : StructuralParser) :
    p.write_number.pj.structural_indexes = p.pj.structural_indexes := rfl
@[simp] theorem write_number_cap (p : StructuralParser) :
    p.write_number.pj.depth_capacity = p.pj.depth_capacity := rfl
@[simp] theorem write_number_ret (p : StructuralParser) :
    p.write_number.pj.ret_address = p.pj.ret_address := rfl
@[simp] theorem write_number_cso (p : StructuralParser) :
    p.write_number.pj.containing_scope_offset = p.pj.containing_scope_offset := rfl

@[simp] theorem structural_byte_push (buf : Nat → Nat) (p : StructuralParser)
    (k : ret_address) (j : Nat) :
    structural_byte buf (p.push_scope k).2.pj j = structural_byte buf p.pj j := rfl
@[simp] theorem structural_byte_pop (buf : Nat → Nat) (p : StructuralParser) (j : Nat) :
    structural_byte buf p.pop_scope.2.pj j = structural_byte buf p.pj j := rfl
@[simp] theorem structural_byte_string (buf : Nat → Nat) (p : StructuralParser) (j : Nat) :
    structural_byte buf p.write_string.pj j = structural_byte buf p.pj j := rfl
@[simp] theorem structural_byte_atom (buf : Nat → Nat) (p : StructuralParser) (j : Nat) :
    structural_byte buf p.write_atom.pj j = structural_byte buf p.pj j := rfl
@[simp] theorem structural_byte_number (buf : Nat → Nat) (p : StructuralParser) (j : Nat) :
    structural_byte buf p.write_number.pj j = structural_byte buf p.pj j := rfl
@[simp] theorem seg_push (buf : Nat → Nat) (p : StructuralParser) (k : ret_address)
    (j m : Nat) : seg buf (p.push_scope k).2.pj j m = seg buf p.pj j m := rfl
@[simp] theorem seg_string (buf : Nat → Nat) (p : StructuralParser) (j m : Nat) :
    seg buf p.write_string.pj j m = seg buf p.pj j m := rfl

theorem push_scope_frame (p : StructuralParser) (k : ret_address) :
    Frame p (p.push_scope k).2 := ⟨rfl, rfl, rfl⟩

theorem is_scalar_start_cases {c : Nat} (h : is_scalar_start c = true) :
    c = ch_quote ∨ is_atom_start c = true ∨ is_number_start c = true := by
  simpa [is_scalar_start, or_assoc] using h

theorem scalar_not_bracket {c : Nat} (h : is_scalar_start c = true) :
    c ≠ ch_lbracket ∧ c ≠ ch_lbrace ∧ c ≠ ch_rbracket ∧ c ≠ ch_rbrace ∧ c ≠ ch_comma
      ∧ c ≠ ch_colon := by
  simp only [is_scalar_start, is_atom_start, is_number_start, is_digit, Bool.or_eq_true,
    beq_iff_eq, Bool.and_eq_true, decide_eq_true_eq, ch_quote, ch_t, ch_f, ch_n, ch_minus] at h
  simp only [ch_lbracket, ch_lbrace, ch_rbracket, ch_rbrace, ch_comma, ch_colon]
  refine ⟨?_, ?_, ?_, ?_, ?_, ?_⟩ <;> omega

/-- What `parse_value` writes for a scalar: the string, atom or number entry. -/
theorem parse_value_scalar (p : StructuralParser) (cont : ret_address)
    (h : is_scalar_start p.c = true) :
    p.parse_value cont = (cont, p.write_string) ∨ p.parse_value cont = (cont, p.write_atom) ∨
      p.parse_value cont = (cont, p.write_number) := by
  by_cases hq : p.c = ch_quote
  · left; simp [parse_value, hq]
  by_cases ha : is_atom_start p.c = true
  · right; left; simp [parse_value, hq, ha]
  · right; right
    have hn : is_number_start p.c = true := by
      rcases is_scalar_start_cases h with h | h | h
      · exact absurd h hq
      · exact absurd h ha
      · exact h
    simp [parse_value, hq, ha, hn]

/-- The four ways `parse_value` can go. -/
theorem parse_value_cases (p : StructuralParser) (cont : ret_address) :
    (is_scalar_start p.c = true ∧
      (p.parse_value cont = (cont, p.write_string) ∨ p.parse_value cont = (cont, p.write_atom) ∨
        p.parse_value cont = (cont, p.write_number))) ∨
    ((p.c = ch_lbracket ∨ p.c = ch_lbrace) ∧ p.depth + 1 < p.pj.depth_capacity ∧
      p.parse_value cont =
        (if p.c = ch_lbracket then ret_address.array_begin else ret_address.object_begin,
          (p.push_scope cont).2)) ∨
    ((p.c = ch_lbracket ∨ p.c = ch_lbrace) ∧ p.pj.depth_capacity ≤ p.depth + 1 ∧
      p.parse_value cont = (ret_address.error, (p.push_scope cont).2)) ∨
    (is_scalar_start p.c = false ∧ p.c ≠ ch_lbracket ∧ p.c ≠ ch_lbrace ∧
      p.parse_value cont = (ret_address.error, p)) := by
  by_cases hs : is_scalar_start p.c = true
  · left; exact ⟨hs, parse_value_scalar p cont hs⟩
  have hs' : is_scalar_start p.c = false := by simpa using hs
  have hq : ¬ p.c = ch_quote := by
    intro h; simp [is_scalar_start, h] at hs
  have ha : ¬ is_atom_start p.c = true := by
    intro h; simp [is_scalar_start, h] at hs
  have hn : ¬ is_number_start p.c = true := by
    intro h; simp [is_scalar_start, h] at hs
  by_cases hb : p.c = ch_lbrace
  · by_cases hd : p.depth + 1 < p.pj.depth_capacity
    · right; left
      refine ⟨Or.inr hb, hd, ?_⟩
      have hd2 : ¬ p.pj.depth_capacity ≤ p.depth + 1 := by omega
      have hb' : ¬ p.c = ch_lbracket := by rw [hb]; simp
      simp only [parse_value, hq, ha, hn, if_false, push_scope, ParsedJson.write_tape,
        ge_iff_le, hd2, decide_False, hb']
      simp [hb]
    · right; right; left
      refine ⟨Or.inr hb, by omega, ?_⟩
      have hd2 : p.pj.depth_capacity ≤ p.depth + 1 := by omega
      simp only [parse_value, hq, ha, hn, if_false, push_scope, ParsedJson.write_tape,
        ge_iff_le, hd2, decide_True]
      simp [hb]
  by_cases hk : p.c = ch_lbracket
  · by_cases hd : p.depth + 1 < p.pj.depth_capacity
    · right; left
      refine ⟨Or.inl hk, hd, ?_⟩
      have hd2 : ¬ p.pj.depth_capacity ≤ p.depth + 1 := by omega
      simp only [parse_value, hq, ha, hn, hb, if_false, push_scope, ParsedJson.write_tape,
        ge_iff_le, hd2, decide_False]
      simp [hk]
    · right; right; left
      refine ⟨Or.inl hk, by omega, ?_⟩
      have hd2 : p.pj.depth_capacity ≤ p.depth + 1 := by omega
      simp only [parse_value, hq, ha, hn, hb, if_false, push_scope, ParsedJson.write_tape,
        ge_iff_le, hd2, decide_True]
      simp [hk]
  · right; right; right
    exact ⟨hs', hk, hb, by simp [parse_value, hq, ha, hn, hb, hk]⟩

/-! ## The transitions, label by label -/

theorem step_object_begin (buf : Nat → Nat) (p : StructuralParser) :
    (p.pj.n_structural_indexes ≤ p.i ∧ step buf (.object_begin, p) = (.overrun, p)) ∨
    (p.i < p.pj.n_structural_indexes ∧ structural_byte buf p.pj p.i = ch_quote ∧
      step buf (.object_begin, p) = (.object_key_state, (p.read_next buf).write_string)) ∨
    (p.i < p.pj.n_structural_indexes ∧ structural_byte buf p.pj p.i = ch_rbrace ∧
      step buf (.object_begin, p) = (.scope_end, p.read_next buf)) ∨
    (p.i < p.pj.n_structural_indexes ∧ structural_byte buf p.pj p.i ≠ ch_quote ∧
      structural_byte buf p.pj p.i ≠ ch_rbrace ∧
      step buf (.object_begin, p) = (.error, p.read_next buf)) := by
  by_cases h1 : p.i < p.pj.n_structural_indexes
  · by_cases h2 : buf (p.pj.structural_indexes p.i) = 34
    · right; left
      simp [step, advance_char, h1, h2, structural_byte, read_next]
    · by_cases h4 : buf (p.pj.structural_indexes p.i) = 125
      · right; right; left
        simp [step, advance_char, h1, h2, h4, structural_byte, read_next]
      · right; right; right
        simp [step, advance_char, h1, h2, h4, structural_byte, read_next]
  · left
    simp [step, advance_char, h1]
    omega

theorem step_object_key_state (buf : Nat → Nat) (p : StructuralParser) :
    (p.pj.n_structural_indexes ≤ p.i ∧ step buf (.object_key_state, p) = (.overrun, p)) ∨
    (p.i < p.pj.n_structural_indexes ∧ structural_byte buf p.pj p.i ≠ ch_colon ∧
      step buf (.object_key_state, p) = (.error, p.read_next buf)) ∨
    (p.i < p.pj.n_structural_indexes ∧ structural_byte buf p.pj p.i = ch_colon ∧
      p.pj.n_structural_indexes ≤ p.i + 1 ∧
      step buf (.object_key_state, p) = (.overrun, p.read_next buf)) ∨
    (p.i + 1 < p.pj.n_structural_indexes ∧ structural_byte buf p.pj p.i = ch_colon ∧
      step buf (.object_key_state, p) =
        (GOTO (((p.read_next buf).read_next buf).parse_value .object_continue).1,
          (((p.read_next buf).read_next buf).parse_value .object_continue).2)) := by
  by_cases h1 : p.i < p.pj.n_structural_indexes
  · by_cases h2 : buf (p.pj.structural_indexes p.i) = 58
    · by_cases h3 : p.i + 1 < p.pj.n_structural_indexes
      · right; right; right
        simp [step, advance_char, h1, h2, h3, structural_byte, read_next]
      · right; right; left
        simp [step, advance_char, h1, h2, h3, structural_byte, read_next]
        omega
    · right; left
      simp [step, advance_char, h1, h2, structural_byte, read_next]
  · left
    simp [step, advance_char, h1]
    omega

theorem step_object_continue (buf : Nat → Nat) (p : StructuralParser) :
    (p.pj.n_structural_indexes ≤ p.i ∧ step buf (.object_continue, p) = (.overrun, p)) ∨
    (p.i < p.pj.n_structural_indexes ∧ structural_byte buf p.pj p.i = ch_rbrace ∧
      step buf (.object_continue, p) = (.scope_end, p.read_next buf)) ∨
    (p.i < p.pj.n_structural_indexes ∧ structural_byte buf p.pj p.i = ch_comma ∧
      p.pj.n_structural_indexes ≤ p.i + 1 ∧
      step buf (.object_continue, p) = (.overrun, p.read_next buf)) ∨
    (p.i + 1 < p.pj.n_structural_indexes ∧ structural_byte buf p.pj p.i = ch_comma ∧
      structural_byte buf p.pj (p.i + 1) ≠ ch_quote ∧
      step buf (.object_continue, p) = (.error, (p.read_next buf).read_next buf)) ∨
    (p.i + 1 < p.pj.n_structural_indexes ∧ structural_byte buf p.pj p.i = ch_comma ∧
      structural_byte buf p.pj (p.i + 1) = ch_quote ∧
      step buf (.object_continue, p) =
        (.object_key_state, ((p.read_next buf).read_next buf).write_string)) ∨
    (p.i < p.pj.n_structural_indexes ∧ structural_byte buf p.pj p.i ≠ ch_rbrace ∧
      structural_byte buf p.pj p.i ≠ ch_comma ∧
      step buf (.object_continue, p) = (.error, p.read_next buf)) := by
  by_cases h1 : p.i < p.pj.n_structural_indexes
  · by_cases h2 : buf (p.pj.structural_indexes p.i) = 44
    · by_cases h3 : p.i + 1 < p.pj.n_structural_indexes
      · by_cases h5 : buf (p.pj.structural_indexes (p.i + 1)) = 34
        · right; right; right; right; left
          simp [step, advance_char, h1, h2, h3, h5, structural_byte, read_next]
        · right; right; right; left
          simp [step, advance_char, h1, h2, h3, h5, structural_byte, read_next]
      · right; right; left
        simp [step, advance_char, h1, h2, h3, structural_byte, read_next]
        omega
    · by_cases h4 : buf (p.pj.structural_indexes p.i) = 125
      · right; left
        simp [step, advance_char, h1, h2, h4, structural_byte, read_next]
      · right; right; right; right; right
        simp [step, advance_char, h1, h2, h4, structural_byte, read_next]
  · left
    simp [step, advance_char, h1]
    omega

theorem step_scope_end (buf : Nat → Nat) (p : StructuralParser) :
    step buf (.scope_end, p) = (GOTO p.pop_scope.1, p.pop_scope.2) := rfl

theorem step_array_begin (buf : Nat → Nat) (p : StructuralParser) :
    (p.pj.n_structural_indexes ≤ p.i ∧ step buf (.array_begin, p) = (.overrun, p)) ∨
    (p.i < p.pj.n_structural_indexes ∧ structural_byte buf p.pj p.i = ch_rbracket ∧
      step buf (.array_begin, p) = (.scope_end, p.read_next buf)) ∨
    (p.i < p.pj.n_structural_indexes ∧ structural_byte buf p.pj p.i ≠ ch_rbracket ∧
      step buf (.array_begin, p) = (.main_array_switch, p.read_next buf)) := by
  by_cases h1 : p.i < p.pj.n_structural_indexes
  · by_cases h4 : buf (p.pj.structural_indexes p.i) = 93
    · right; left
      simp [step, advance_char, h1, h4, structural_byte, read_next]
    · right; right
      simp [step, advance_char, h1, h4, structural_byte, read_next]
  · left
    simp [step, advance_char, h1]
    omega

theorem step_main_array_switch (buf : Nat → Nat) (p : StructuralParser) :
    step buf (.main_array_switch, p) =
      (GOTO (p.parse_value .array_continue).1, (p.parse_value .array_continue).2) := rfl

theorem step_array_continue (buf : Nat → Nat) (p : StructuralParser) :
    (p.pj.n_structural_indexes ≤ p.i ∧ step buf (.array_continue, p) = (.overrun, p)) ∨
    (p.i < p.pj.n_structural_indexes ∧ structural_byte buf p.pj p.i = ch_rbracket ∧
      step buf (.array_continue, p) = (.scope_end, p.read_next buf)) ∨
    (p.i < p.pj.n_structural_indexes ∧ structural_byte buf p.pj p.i = ch_comma ∧
      p.pj.n_structural_indexes ≤ p.i + 1 ∧
      step buf (.array_continue, p) = (.overrun, p.read_next buf)) ∨
    (p.i + 1 < p.pj.n_structural_indexes ∧ structural_byte buf p.pj p.i = ch_comma ∧
      step buf (.array_continue, p) = (.main_array_switch, (p.read_next buf).read_next buf)) ∨
    (p.i < p.pj.n_structural_indexes ∧ structural_byte buf p.pj p.i ≠ ch_rbracket ∧
      structural_byte buf p.pj p.i ≠ ch_comma ∧
      step buf (.array_continue, p) = (.error, p.read_next buf)) := by
  by_cases h1 : p.i < p.pj.n_structural_indexes
  · by_cases h2 : buf (p.pj.structural_indexes p.i) = 44
    · by_cases h3 : p.i + 1 < p.pj.n_structural_indexes
      · right; right; right; left
        simp [step, advance_char, h1, h2, h3, structural_byte, read_next]
      · right; right; left
        simp [step, advance_char, h1, h2, h3, structural_byte, read_next]
        omega
    · by_cases h4 : buf (p.pj.structural_indexes p.i) = 93
      · right; left
        simp [step, advance_char, h1, h2, h4, structural_byte, read_next]
      · right; right; right; right
        simp [step, advance_char, h1, h2, h4, structural_byte, read_next]
  · left
    simp [step, advance_char, h1]
    omega

end simdjson

namespace simdjson
open StructuralParser

/-! ## Relations that every transition preserves -/

/-- A reflexive and transitive relation between parser states that each member called by
the machine respects is respected by every transition. -/
theorem step_rel (buf : Nat → Nat) (R : StructuralParser → StructuralParser → Prop)
    (hrefl : ∀ p, R p p) (htrans : ∀ p q r, R p q → R q r → R p r)
    (hread : ∀ p, p.i < p.pj.n_structural_indexes → R p (p.read_next buf))
    (hstr : ∀ p, R p p.write_string) (hatom : ∀ p, R p p.write_atom)
    (hnum : ∀ p, R p p.write_number)
    (hpush : ∀ p k, R p (p.push_scope k).2) (hpop : ∀ p, R p p.pop_scope.2)
    (L : Label) (p : StructuralParser) : R p (step buf (L, p)).2 := by
  have hpv : ∀ (q : StructuralParser) (k : ret_address), R q (q.parse_value k).2 := by
    intro q k
    rcases parse_value_cases q k with ⟨_, h | h | h⟩ | ⟨_, _, h⟩ | ⟨_, _, h⟩ | ⟨_, _, _, h⟩
    · rw [h]; exact hstr q
    · rw [h]; exact hatom q
    · rw [h]; exact hnum q
    · rw [h]; exact hpush q k
    · rw [h]; exact hpush q k
    · rw [h]; exact hrefl q
  have hread2 : ∀ q : StructuralParser, q.i + 1 < q.pj.n_structural_indexes →
      R q ((q.read_next buf).read_next buf) := by
    intro q hq
    exact htrans _ _ _ (hread q (by omega)) (hread _ (by simpa [read_next] using hq))
  cases L
  case object_begin =>
    rcases step_object_begin buf p with ⟨_, h⟩ | ⟨h1, _, h⟩ | ⟨h1, _, h⟩ | ⟨h1, _, _, h⟩
    · rw [h]; exact hrefl p
    · rw [h]; exact htrans _ _ _ (hread p h1) (hstr _)
    · rw [h]; exact hread p h1
    · rw [h]; exact hread p h1
  case object_key_state =>
    rcases step_object_key_state buf p with ⟨_, h⟩ | ⟨h1, _, h⟩ | ⟨h1, _, _, h⟩ | ⟨h1, _, h⟩
    · rw [h]; exact hrefl p
    · rw [h]; exact hread p h1
    · rw [h]; exact hread p h1
    · rw [h]; exact htrans _ _ _ (hread2 p h1) (hpv _ _)
  case object_continue =>
    rcases step_object_continue buf p with ⟨_, h⟩ | ⟨h1, _, h⟩ | ⟨h1, _, _, h⟩ | ⟨h1, _, _, h⟩ |
      ⟨h1, _, _, h⟩ | ⟨h1, _, _, h⟩
    · rw [h]; exact hrefl p
    · rw [h]; exact hread p h1
    · rw [h]; exact hread p h1
    · rw [h]; exact hread2 p h1
    · rw [h]; exact htrans _ _ _ (hread2 p h1) (hstr _)
    · rw [h]; exact hread p h1
  case scope_end => rw [step_scope_end]; exact hpop p
  case array_begin =>
    rcases step_array_begin buf p with ⟨_, h⟩ | ⟨h1, _, h⟩ | ⟨h1, _, h⟩
    · rw [h]; exact hrefl p
    · rw [h]; exact hread p h1
    · rw [h]; exact hread p h1
  case main_array_switch => rw [step_main_array_switch]; exact hpv p _
  case array_continue =>
    rcases step_array_continue buf p with ⟨_, h⟩ | ⟨h1, _, h⟩ | ⟨h1, _, _, h⟩ | ⟨h1, _, h⟩ |
      ⟨h1, _, _, h⟩
    · rw [h]; exact hrefl p
    · rw [h]; exact hread p h1
    · rw [h]; exact hread p h1
    · rw [h]; exact hread2 p h1
    · rw [h]; exact hread p h1
  case finish => exact hrefl p
  case error => exact hrefl p
  case overrun => exact hrefl p

/-- The same for a whole walk. -/
theorem walk_rel (buf : Nat → Nat) (R : StructuralParser → StructuralParser → Prop)
    (hrefl : ∀ p, R p p) (htrans : ∀ p q r, R p q → R q r → R p r)
    (hread : ∀ p, p.i < p.pj.n_structural_indexes → R p (p.read_next buf))
    (hstr : ∀ p, R p p.write_string) (hatom : ∀ p, R p p.write_atom)
    (hnum : ∀ p, R p p.write_number)
    (hpush : ∀ p k, R p (p.push_scope k).2) (hpop : ∀ p, R p p.pop_scope.2)
    (t : Nat) (cfg : Label × StructuralParser) : R cfg.2 (walk buf t cfg).2 := by
  induction t generalizing cfg with
  | zero => exact hrefl _
  | succ t ih =>
    rw [walk_succ]
    exact htrans _ _ _ (step_rel buf R hrefl htrans hread hstr hatom hnum hpush hpop cfg.1 cfg.2)
      (ih _)

/-- A walk keeps the structural index, its length and the depth capacity, and never
moves the read position back. -/
theorem walk_frame (buf : Nat → Nat) (t : Nat) (cfg : Label × StructuralParser) :
    Frame cfg.2 (walk buf t cfg).2 ∧ cfg.2.i ≤ (walk buf t cfg).2.i := by
  refine walk_rel buf (fun p q => Frame p q ∧ p.i ≤ q.i) ?_ ?_ ?_ ?_ ?_ ?_ ?_ ?_ t cfg
  · intro p; exact ⟨frame_refl p, le_refl _⟩
  · intro p q r h1 h2; exact ⟨frame_trans h1.1 h2.1, le_trans h1.2 h2.2⟩
  · intro p _; simp [read_next, Frame]
  · intro p; simp [write_string, ParsedJson.write_tape, Frame]
  · intro p; simp [write_atom, ParsedJson.write_tape, Frame]
  · intro p; simp [write_number, ParsedJson.copy_number_tape, ParsedJson.write_tape, Frame]
  · intro p k; simp [push_scope, ParsedJson.write_tape, Frame]
  · intro p; simp [pop_scope, ParsedJson.write_tape, ParsedJson.annotate_previous_loc, Frame]

/-- A walk does not touch the valid flag, the stored error code or the length. -/
theorem walk_flags (buf : Nat → Nat) (t : Nat) (cfg : Label × StructuralParser) :
    (walk buf t cfg).2.pj.valid = cfg.2.pj.valid ∧
    (walk buf t cfg).2.pj.error_code = cfg.2.pj.error_code ∧
    (walk buf t cfg).2.len = cfg.2.len := by
  refine walk_rel buf (fun p q => q.pj.valid = p.pj.valid ∧ q.pj.error_code = p.pj.error_code ∧
    q.len = p.len) ?_ ?_ ?_ ?_ ?_ ?_ ?_ ?_ t cfg
  · intro p; exact ⟨rfl, rfl, rfl⟩
  · intro p q r h1 h2
    exact ⟨h2.1.trans h1.1, h2.2.1.trans h1.2.1, h2.2.2.trans h1.2.2⟩
  · intro p _; simp [read_next]
  · intro p; simp [write_string, ParsedJson.write_tape]
  · intro p; simp [write_atom, ParsedJson.write_tape]
  · intro p; simp [write_number, ParsedJson.copy_number_tape, ParsedJson.write_tape]
  · intro p k; simp [push_scope, ParsedJson.write_tape]
  · intro p; simp [pop_scope, ParsedJson.write_tape, ParsedJson.annotate_previous_loc]

/-! ## Termination of the walk -/

theorem weight_GOTO (a : ret_address) : (GOTO a).weight ≤ 1 := by
  cases a <;> simp [GOTO, Label.weight]

theorem parse_value_pos (q : StructuralParser) (k : ret_address) :
    (q.parse_value k).2.pj.n_structural_indexes = q.pj.n_structural_indexes ∧
    (q.parse_value k).2.i = q.i := by
  rcases parse_value_cases q k with ⟨_, h | h | h⟩ | ⟨_, _, h⟩ | ⟨_, _, h⟩ | ⟨_, _, _, h⟩ <;>
    rw [h] <;>
    simp [write_string, write_atom, write_number, ParsedJson.copy_number_tape,
      ParsedJson.write_tape, push_scope]

theorem step_measure (buf : Nat → Nat) (L : Label) (p : StructuralParser)
    (h : L.terminal = false) : walk_measure (step buf (L, p)) < walk_measure (L, p) := by
  have w_ob : Label.object_begin.weight = 1 := rfl
  have w_ok : Label.object_key_state.weight = 1 := rfl
  have w_oc : Label.object_continue.weight = 1 := rfl
  have w_se : Label.scope_end.weight = 2 := rfl
  have w_ab : Label.array_begin.weight = 1 := rfl
  have w_ms : Label.main_array_switch.weight = 2 := rfl
  have w_ac : Label.array_continue.weight = 1 := rfl
  have w_er : Label.error.weight = 0 := rfl
  have w_ov : Label.overrun.weight = 0 := rfl
  cases L
  case object_begin =>
    rcases step_object_begin buf p with ⟨h1, h⟩ | ⟨h1, _, h⟩ | ⟨h1, _, h⟩ | ⟨h1, _, _, h⟩ <;>
      rw [h] <;>
      simp only [walk_measure, w_ob, w_ok, w_se, w_er, w_ov, read_next, write_string,
        ParsedJson.write_tape] <;> omega
  case object_key_state =>
    rcases step_object_key_state buf p with ⟨h1, h⟩ | ⟨h1, _, h⟩ | ⟨h1, _, _, h⟩ | ⟨h1, _, h⟩
    · rw [h]; simp only [walk_measure, w_ok, w_ov]; omega
    · rw [h]; simp only [walk_measure, w_ok, w_er, read_next]; omega
    · rw [h]; simp only [walk_measure, w_ok, w_ov, read_next]; omega
    · rw [h]
      have := weight_GOTO (((p.read_next buf).read_next buf).parse_value .object_continue).1
      have h2 := parse_value_pos ((p.read_next buf).read_next buf) .object_continue
      have h3 : ((p.read_next buf).read_next buf).i = p.i + 2 := rfl
      have h4 : ((p.read_next buf).read_next buf).pj.n_structural_indexes
          = p.pj.n_structural_indexes := rfl
      simp only [walk_measure, h2.1, h2.2, w_ok, h3, h4]
      omega
  case object_continue =>
    rcases step_object_continue buf p with ⟨h1, h⟩ | ⟨h1, _, h⟩ | ⟨h1, _, _, h⟩ | ⟨h1, _, _, h⟩ |
      ⟨h1, _, _, h⟩ | ⟨h1, _, _, h⟩ <;>
      rw [h] <;>
      simp only [walk_measure, w_oc, w_ok, w_se, w_er, w_ov, read_next, write_string,
        ParsedJson.write_tape] <;> omega
  case scope_end =>
    rw [step_scope_end]
    have := weight_GOTO p.pop_scope.1
    simp only [walk_measure, w_se]
    have h1 : p.pop_scope.2.pj.n_structural_indexes = p.pj.n_structural_indexes := rfl
    have h2 : p.pop_scope.2.i = p.i := rfl
    rw [h1, h2]
    omega
  case array_begin =>
    rcases step_array_begin buf p with ⟨h1, h⟩ | ⟨h1, _, h⟩ | ⟨h1, _, h⟩ <;>
      rw [h] <;>
      simp only [walk_measure, w_ab, w_ms, w_se, w_ov, read_next] <;> omega
  case main_array_switch =>
    rw [step_main_array_switch]
    have := weight_GOTO (p.parse_value .array_continue).1
    have h2 := parse_value_pos p .array_continue
    simp only [walk_measure, h2.1, h2.2, w_ms]
    omega
  case array_continue =>
    rcases step_array_continue buf p with ⟨h1, h⟩ | ⟨h1, _, h⟩ | ⟨h1, _, _, h⟩ | ⟨h1, _, h⟩ |
      ⟨h1, _, _, h⟩ <;>
      rw [h] <;>
      simp only [walk_measure, w_ac, w_ms, w_se, w_er, w_ov, read_next] <;> omega
  case finish => simp [Label.terminal] at h
  case error => simp [Label.terminal] at h
  case overrun => simp [Label.terminal] at h

/-- Once the number of transitions reaches the measure, the walk has ended. -/
theorem walk_ends (buf : Nat → Nat) (t : Nat) (cfg : Label × StructuralParser)
    (h : walk_measure cfg ≤ t) : (walk buf t cfg).1.terminal = true := by
  induction t generalizing cfg with
  | zero =>
    obtain ⟨L, p⟩ := cfg
    cases L <;> simp_all [walk, walk_measure, Label.weight, Label.terminal]
  | succ t ih =>
    obtain ⟨L, p⟩ := cfg
    by_cases hL : L.terminal = true
    · rw [walk_terminal buf _ L p hL]; exact hL
    · rw [walk_succ]
      apply ih
      have := step_measure buf L p (by simpa using hL)
      omega

/-- A walk that has ended does not change when given more transitions. -/
theorem walk_stable (buf : Nat → Nat) (t s : Nat) (cfg : Label × StructuralParser)
    (h : (walk buf t cfg).1.terminal = true) (hs : t ≤ s) : walk buf s cfg = walk buf t cfg := by
  obtain ⟨d, rfl⟩ := Nat.exists_eq_add_of_le hs
  rw [walk_add]
  exact walk_terminal buf d _ _ h

end simdjson

namespace simdjson
open StructuralParser

/-! ## Segments of the structural bytes -/

theorem seg_zero (buf : Nat → Nat) (pj : ParsedJson) (j : Nat) : seg buf pj j 0 = [] := rfl

theorem seg_succ (buf : Nat → Nat) (pj : ParsedJson) (j m : Nat) :
    seg buf pj j (m + 1) = structural_byte buf pj j :: seg buf pj (j + 1) m := by
  simp [seg, List.range'_succ]

theorem seg_one (buf : Nat → Nat) (pj : ParsedJson) (j : Nat) :
    seg buf pj j 1 = [structural_byte buf pj j] := by
  simp [seg]

theorem seg_length (buf : Nat → Nat) (pj : ParsedJson) (j m : Nat) :
    (seg buf pj j m).length = m := by
  simp [seg]

theorem seg_add (buf : Nat → Nat) (pj : ParsedJson) (j a b : Nat) :
    seg buf pj j (a + b) = seg buf pj j a ++ seg buf pj (j + a) b := by
  induction a generalizing j with
  | zero => simp [seg]
  | succ a ih =>
    rw [Nat.succ_add, seg_succ, seg_succ, ih (j + 1)]
    simp [Nat.add_assoc, Nat.add_comm 1 a]

theorem structural_bytes_eq_seg (buf : Nat → Nat) (pj : ParsedJson) :
    structural_bytes buf pj = seg buf pj 0 (pj.n_structural_indexes - 1) := by
  simp [structural_bytes, seg, List.range_eq_range']

theorem structural_byte_frame (buf : Nat → Nat) {p q : StructuralParser} (h : Frame p q)
    (j : Nat) : structural_byte buf q.pj j = structural_byte buf p.pj j := by
  simp [structural_byte, h.1]

theorem seg_frame (buf : Nat → Nat) {p q : StructuralParser} (h : Frame p q) (j m : Nat) :
    seg buf q.pj j m = seg buf p.pj j m := by
  simp [seg, structural_byte, h.1]

/-- A segment equal to a concatenation splits at the length of the first part. -/
theorem seg_eq_append (buf : Nat → Nat) (pj : ParsedJson) (j m : Nat) (w1 w2 : List Nat)
    (h : seg buf pj j m = w1 ++ w2) :
    m = w1.length + w2.length ∧ seg buf pj j w1.length = w1 ∧
      seg buf pj (j + w1.length) w2.length = w2 := by
  have hm : m = w1.length + w2.length := by
    have := congrArg List.length h
    simpa [seg_length] using this
  subst hm
  rw [seg_add] at h
  have h1 := List.append_inj h (by simp [seg_length])
  exact ⟨rfl, h1.1, h1.2⟩

/-! ## The grammar: tails and balance -/

theorem elements_snoc {k : Nat} {e : List Nat} (h : Spells .elements k e) (m : Nat)
    (v : List Nat) (hv : Spells .value m v) :
    Spells .elements (max k m) (e ++ ch_comma :: v) := by
  generalize hc : Category.elements = cat at h
  induction h with
  | scalar c _ => cases hc
  | empty_array => cases hc
  | array k ws _ _ => cases hc
  | empty_object => cases hc
  | object k ws _ _ => cases hc
  | element k ws h1 _ => exact Spells.elements k m ws v h1 (Spells.element m v hv)
  | elements k m0 ws ws1 h1 _ _ ih2 =>
    have h3 := Spells.elements k (max m0 m) ws (ws1 ++ ch_comma :: v) h1 (ih2 hc)
    rw [← max_assoc] at h3
    simpa using h3
  | member k ws _ _ => cases hc
  | members k m0 ws ws1 _ _ _ _ => cases hc

theorem members_snoc {k : Nat} {e : List Nat} (h : Spells .members k e) (m : Nat)
    (v : List Nat) (hv : Spells .value m v) :
    Spells .members (max k m) (e ++ ch_comma :: ch_quote :: ch_colon :: v) := by
  generalize hc : Category.members = cat at h
  induction h with
  | scalar c _ => cases hc
  | empty_array => cases hc
  | array k ws _ _ => cases hc
  | empty_object => cases hc
  | object k ws _ _ => cases hc
  | element k ws h1 _ => cases hc
  | elements k m0 ws ws1 h1 _ _ ih2 => cases hc
  | member k ws h1 _ =>
    have h3 := Spells.members k m ws (ch_quote :: ch_colon :: v) h1 (Spells.member m v hv)
    simpa using h3
  | members k m0 ws ws1 h1 _ _ ih2 =>
    have h3 := Spells.members k (max m0 m) ws (ws1 ++ ch_comma :: ch_quote :: ch_colon :: v) h1
      (ih2 hc)
    rw [← max_assoc] at h3
    simpa using h3

theorem array_of_tail {k2 : Nat} {w : List Nat} (ht : ArrayTail k2 w) :
    ∀ (k1 : Nat) (e : List Nat), Spells .elements k1 e →
      Spells .value (max k1 k2 + 1) (ch_lbracket :: (e ++ w)) := by
  induction ht with
  | close =>
    intro k1 e he
    simpa using Spells.array k1 e he
  | more k m ws ws1 hv _ ih =>
    intro k1 e he
    have h1 := ih (max k1 k) (e ++ ch_comma :: ws) (elements_snoc he k ws hv)
    rw [max_assoc] at h1
    simpa using h1

theorem object_of_tail {k2 : Nat} {w : List Nat} (ht : ObjectTail k2 w) :
    ∀ (k1 : Nat) (e : List Nat), Spells .members k1 e →
      Spells .value (max k1 k2 + 1) (ch_lbrace :: (e ++ w)) := by
  induction ht with
  | close =>
    intro k1 e he
    simpa using Spells.object k1 e he
  | more k m ws ws1 hv _ ih =>
    intro k1 e he
    have h1 := ih (max k1 k) (e ++ ch_comma :: ch_quote :: ch_colon :: ws)
      (members_snoc he k ws hv)
    rw [max_assoc] at h1
    simpa using h1

theorem array_rest_value {k : Nat} {ws : List Nat} (h : ArrayRest k ws) :
    Spells .value (k + 1) (ch_lbracket :: ws) := by
  rcases h with ⟨rfl, rfl⟩ | ⟨k1, k2, w1, w2, rfl, hv, ht, rfl⟩
  · exact Spells.empty_array
  · exact array_of_tail ht k1 w1 (Spells.element k1 w1 hv)

theorem object_rest_value {k : Nat} {ws : List Nat} (h : ObjectRest k ws) :
    Spells .value (k + 1) (ch_lbrace :: ws) := by
  rcases h with ⟨rfl, rfl⟩ | ⟨k1, k2, w1, w2, rfl, hv, ht, rfl⟩
  · exact Spells.empty_object
  · have := object_of_tail ht k1 (ch_quote :: ch_colon :: w1) (Spells.member k1 w1 hv)
    simpa using this

end simdjson

namespace simdjson
open StructuralParser

/-! ## Completeness: an accepting walk spells a value -/

theorem accepts_succ (buf : Nat → Nat) (t : Nat) (cfg : Label × StructuralParser) :
    Accepts buf (t + 1) cfg ↔ Accepts buf t (step buf cfg) := Iff.rfl

theorem not_accepts_zero (buf : Nat → Nat) (L : Label) (p : StructuralParser)
    (h : L ≠ .finish) : ¬ Accepts buf 0 (L, p) := by
  intro ha
  exact h ha.1

theorem not_accepts_error (buf : Nat → Nat) (t : Nat) (p : StructuralParser) :
    ¬ Accepts buf t (.error, p) := by
  intro ha
  have := ha.1
  rw [walk_terminal buf t .error p rfl] at this
  cases this

theorem not_accepts_overrun (buf : Nat → Nat) (t : Nat) (p : StructuralParser) :
    ¬ Accepts buf t (.overrun, p) := by
  intro ha
  have := ha.1
  rw [walk_terminal buf t .overrun p rfl] at this
  cases this

theorem accepts_after (buf : Nat → Nat) (t s : Nat) (cfg cfg1 : Label × StructuralParser)
    (ha : Accepts buf t cfg) (hw : walk buf s cfg = cfg1) (hs : s ≤ t) :
    Accepts buf (t - s) cfg1 := by
  obtain ⟨d, rfl⟩ := Nat.exists_eq_add_of_le hs
  unfold Accepts at ha
  rw [walk_add, hw] at ha
  simpa [Accepts] using ha

theorem returns_frame {p q : StructuralParser} {m d : Nat} (h : Returns p q m d) :
    Frame p q := h.2.2.1

theorem value_complete_of (buf : Nat → Nat) (t : Nat)
    (hAB : ScopeComplete buf .array_begin ArrayRest t)
    (hOB : ScopeComplete buf .object_begin ObjectRest t) : ValueComplete buf t := by
  intro p cont hacc hi hc hd
  rcases parse_value_cases p cont with ⟨hs, h⟩ | ⟨hb, hd1, h⟩ | ⟨_, _, h⟩ | ⟨_, _, _, h⟩
  · -- a scalar: the value is the single byte
    have hsp : Spells .value 0 (seg buf p.pj (p.i - 1) (0 + 1)) := by
      rw [seg_one, ← hc]; exact Spells.scalar p.c hs
    rcases h with h | h | h
    · refine ⟨0, 0, 0, p.write_string, le_refl _ |>.trans (Nat.zero_le t), hsp, by omega, ?_, ?_⟩
      · rw [h]; rfl
      · simp [Returns, Frame, write_string, ParsedJson.write_tape]
    · refine ⟨0, 0, 0, p.write_atom, Nat.zero_le t, hsp, by omega, ?_, ?_⟩
      · rw [h]; rfl
      · simp [Returns, Frame, write_atom, ParsedJson.write_tape]
    · refine ⟨0, 0, 0, p.write_number, Nat.zero_le t, hsp, by omega, ?_, ?_⟩
      · rw [h]; rfl
      · simp [Returns, Frame, write_number, ParsedJson.copy_number_tape, ParsedJson.write_tape]
  · -- an array or an object: the push succeeds and the body follows
    have hq1 : (p.push_scope cont).2.depth = p.depth + 1 := rfl
    have hqi : (p.push_scope cont).2.i = p.i := rfl
    have hqf : Frame p (p.push_scope cont).2 := by
      simp [Frame, push_scope, ParsedJson.write_tape]
    have hqr : (p.push_scope cont).2.pj.ret_address
        = Function.update p.pj.ret_address p.depth cont := rfl
    have hqc : (p.push_scope cont).2.pj.containing_scope_offset
        = Function.update p.pj.containing_scope_offset p.depth p.pj.current_loc := rfl
    rw [h] at hacc ⊢
    rcases hb with hb | hb
    · have g1 : GOTO .array_begin = .array_begin := rfl
      simp only [hb, if_true, g1] at hacc ⊢
      obtain ⟨m, k, s, q, hst, hrest, hdk, hwalk, hret⟩ :=
        hAB (p.push_scope cont).2 hacc (by omega) (by rw [hq1, hqf.2.2]; exact hd1)
      refine ⟨m, k + 1, s, q, hst, ?_, ?_, ?_, ?_⟩
      · have : seg buf p.pj (p.i - 1) (m + 1) = ch_lbracket :: seg buf p.pj p.i m := by
          rw [Nat.add_comm m 1, seg_add, seg_one, ← hc, hb]
          have : p.i - 1 + 1 = p.i := by omega
          rw [this]; rfl
        rw [this]
        rw [seg_frame buf hqf, hqi] at hrest
        exact array_rest_value hrest
      · rw [hq1, hqf.2.2] at hdk; omega
      · rw [hwalk, hq1, hqr]; simp
      · obtain ⟨r1, r2, r3, r4, r5⟩ := hret
        refine ⟨by rw [r1, hqi], by rw [r2, hq1]; simp, frame_trans hqf r3, ?_, ?_⟩
        · intro x hx
          rw [r4 x (by rw [hq1]; omega), hqr, Function.update_noteq (by omega)]
        · intro x hx
          rw [r5 x (by rw [hq1]; omega), hqc, Function.update_noteq (by omega)]
    · have hb' : ¬ p.c = ch_lbracket := by rw [hb]; simp
      have g1 : GOTO .object_begin = .object_begin := rfl
      simp only [hb', if_false, g1] at hacc ⊢
      obtain ⟨m, k, s, q, hst, hrest, hdk, hwalk, hret⟩ :=
        hOB (p.push_scope cont).2 hacc (by omega) (by rw [hq1, hqf.2.2]; exact hd1)
      refine ⟨m, k + 1, s, q, hst, ?_, ?_, ?_, ?_⟩
      · have : seg buf p.pj (p.i - 1) (m + 1) = ch_lbrace :: seg buf p.pj p.i m := by
          rw [Nat.add_comm m 1, seg_add, seg_one, ← hc, hb]
          have : p.i - 1 + 1 = p.i := by omega
          rw [this]; rfl
        rw [this]
        rw [seg_frame buf hqf, hqi] at hrest
        exact object_rest_value hrest
      · rw [hq1, hqf.2.2] at hdk; omega
      · rw [hwalk, hq1, hqr]; simp
      · obtain ⟨r1, r2, r3, r4, r5⟩ := hret
        refine ⟨by rw [r1, hqi], by rw [r2, hq1]; simp, frame_trans hqf r3, ?_, ?_⟩
        · intro x hx
          rw [r4 x (by rw [hq1]; omega), hqr, Function.update_noteq (by omega)]
        · intro x hx
          rw [r5 x (by rw [hq1]; omega), hqc, Function.update_noteq (by omega)]
  · rw [h] at hacc
    exact absurd hacc (not_accepts_error buf t _)
  · rw [h] at hacc
    exact absurd hacc (not_accepts_error buf t _)

theorem returns_trans {p q r : StructuralParser} {m m1 d d1 : Nat} (h1 : Returns p q m d)
    (h2 : Returns q r m1 d1) (hd : d1 ≤ d) : Returns p r (m + m1) d1 := by
  obtain ⟨a1, a2, a3, a4, a5⟩ := h1
  obtain ⟨b1, b2, b3, b4, b5⟩ := h2
  refine ⟨by rw [b1, a1]; omega, b2, frame_trans a3 b3, ?_, ?_⟩
  · intro x hx; rw [b4 x hx, a4 x (by omega)]
  · intro x hx; rw [b5 x hx, a5 x (by omega)]

theorem returns_read (buf : Nat → Nat) (p : StructuralParser) :
    Returns p (p.read_next buf) 1 p.depth :=
  ⟨rfl, rfl, ⟨rfl, rfl, rfl⟩, fun _ _ => rfl, fun _ _ => rfl⟩

theorem returns_read_read (buf : Nat → Nat) (p : StructuralParser) :
    Returns p ((p.read_next buf).read_next buf) 2 p.depth :=
  ⟨rfl, rfl, ⟨rfl, rfl, rfl⟩, fun _ _ => rfl, fun _ _ => rfl⟩

theorem returns_read_string (buf : Nat → Nat) (p : StructuralParser) :
    Returns p (p.read_next buf).write_string 1 p.depth :=
  ⟨rfl, rfl, ⟨rfl, rfl, rfl⟩, fun _ _ => rfl, fun _ _ => rfl⟩

theorem returns_read_read_string (buf : Nat → Nat) (p : StructuralParser) :
    Returns p ((p.read_next buf).read_next buf).write_string 2 p.depth :=
  ⟨rfl, rfl, ⟨rfl, rfl, rfl⟩, fun _ _ => rfl, fun _ _ => rfl⟩

theorem returns_read_pop (buf : Nat → Nat) (p : StructuralParser) :
    Returns p (p.read_next buf).pop_scope.2 1 (p.depth - 1) :=
  ⟨rfl, rfl, ⟨rfl, rfl, rfl⟩, fun _ _ => rfl, fun _ _ => rfl⟩

/-- A closing bracket: the walk goes through `scope_end` and leaves the scope. -/
theorem close_complete (buf : Nat → Nat) (t : Nat) (L : Label) (p : StructuralParser)
    (rest : Nat → List Nat → Prop)
    (hstep : step buf (L, p) = (.scope_end, p.read_next buf))
    (hacc : Accepts buf (t + 1) (L, p)) (hrest : rest 0 [structural_byte buf p.pj p.i])
    (hd : p.depth < p.pj.depth_capacity) :
    ∃ m k s q, s ≤ t + 1 ∧ rest k (seg buf p.pj p.i m) ∧ p.depth + k < p.pj.depth_capacity ∧
      walk buf s (L, p) = (GOTO (p.pj.ret_address (p.depth - 1)), q) ∧
      Returns p q m (p.depth - 1) := by
  rw [accepts_succ, hstep] at hacc
  cases t with
  | zero => exact absurd hacc (not_accepts_zero buf _ _ (by simp))
  | succ t =>
    refine ⟨1, 0, 2, (p.read_next buf).pop_scope.2, by omega, by rw [seg_one]; exact hrest,
      by omega, ?_, returns_read_pop buf p⟩
    show walk buf 1 (step buf (L, p)) = _
    rw [hstep, walk_one, step_scope_end]
    rfl

theorem element_complete_of (buf : Nat → Nat) (t : Nat)
    (ih : ∀ s, s < t → WalkComplete buf s) : ElementComplete buf t := by
  intro p hacc hi hc hd
  cases t with
  | zero => exact absurd hacc (not_accepts_zero buf _ p (by simp))
  | succ t =>
    rw [accepts_succ, step_main_array_switch] at hacc
    have hW := ih t (Nat.lt_succ_self t)
    obtain ⟨m, k, s, q, hst, hsp, hdk, hwalk, hret⟩ :=
      value_complete_of buf t hW.2.2.1 hW.2.2.2.2.1 p .array_continue hacc hi hc hd
    refine ⟨m, k, s + 1, q, by omega, hsp, hdk, ?_, hret⟩
    rw [Nat.add_comm s 1, walk_add, walk_one, step_main_array_switch]
    exact hwalk

theorem member_complete_of (buf : Nat → Nat) (t : Nat)
    (ih : ∀ s, s < t → WalkComplete buf s) : MemberComplete buf t := by
  intro p hacc hd
  cases t with
  | zero => exact absurd hacc (not_accepts_zero buf _ p (by simp))
  | succ t =>
    rw [accepts_succ] at hacc
    rcases step_object_key_state buf p with ⟨_, h⟩ | ⟨_, _, h⟩ | ⟨_, _, _, h⟩ | ⟨h1, hb, h⟩
    · rw [h] at hacc; exact absurd hacc (not_accepts_overrun buf t _)
    · rw [h] at hacc; exact absurd hacc (not_accepts_error buf t _)
    · rw [h] at hacc; exact absurd hacc (not_accepts_overrun buf t _)
    · rw [h] at hacc
      have hW := ih t (Nat.lt_succ_self t)
      obtain ⟨m, k, s, q, hst, hsp, hdk, hwalk, hret⟩ :=
        value_complete_of buf t hW.2.2.1 hW.2.2.2.2.1 ((p.read_next buf).read_next buf)
          .object_continue hacc (by simp) (by simp) (by simpa using hd)
      refine ⟨m + 1, k, s + 1, q, by omega, hb, ?_, by simpa using hdk, ?_, ?_⟩
      · simpa using hsp
      · rw [Nat.add_comm s 1, walk_add, walk_one, h]
        exact hwalk
      · have := returns_trans (returns_read_read buf p) hret (le_refl _)
        have e : 2 + m = m + 1 + 1 := by omega
        rw [e] at this
        exact this

/-- After a value or member inside a container, a comma-separated continuation: the
pattern shared by the four labels inside arrays and objects. -/
theorem seq_complete (buf : Nat → Nat) (t : Nat) (L1 L2 : Label)
    (rest2 : Nat → List Nat → Prop)
    (ih2 : ∀ s, s ≤ t → ScopeComplete buf L2 rest2 s)
    (p p1 q1 : StructuralParser) (a s1 : Nat)
    (hacc : Accepts buf t (L1, p1)) (hs1 : s1 ≤ t)
    (hw1 : walk buf s1 (L1, p1) = (L2, q1))
    (hr0 : Returns p p1 a p.depth) (hr1 : Returns p1 q1 m1 p1.depth)
    (hd1 : 1 ≤ p.depth) (hd : p.depth < p.pj.depth_capacity) :
    ∃ m2 k2 s2 q2, s2 ≤ t - s1 ∧ rest2 k2 (seg buf p.pj (p.i + a + m1) m2) ∧
      p.depth + k2 < p.pj.depth_capacity ∧
      walk buf (s1 + s2) (L1, p1) = (GOTO (p.pj.ret_address (p.depth - 1)), q2) ∧
      Returns p q2 (a + m1 + m2) (p.depth - 1) := by
  have hacc2 := accepts_after buf t s1 _ _ hacc hw1 hs1
  have hr01 := returns_trans hr0 (by rw [hr0.2.1] at hr1; exact hr1) (le_refl _)
  obtain ⟨r1, r2, r3, r4, r5⟩ := hr01
  obtain ⟨m2, k2, s2, q2, hs2, hsp2, hdk2, hw2, hr2⟩ :=
    ih2 (t - s1) (by omega) q1 hacc2 (by rw [r2]; exact hd1) (by rw [r2, r3.2.2]; exact hd)
  refine ⟨m2, k2, s2, q2, hs2, ?_, ?_, ?_, ?_⟩
  · rw [seg_frame buf r3, r1, ← Nat.add_assoc] at hsp2; exact hsp2
  · rw [r2, r3.2.2] at hdk2; exact hdk2
  · rw [walk_add, hw1, hw2, r2, r4 _ (by omega)]
  · rw [r2] at hr2
    exact returns_trans ⟨r1, r2, r3, r4, r5⟩ hr2 (by omega)

theorem array_continue_complete_of (buf : Nat → Nat) (t : Nat)
    (ih : ∀ s, s < t → WalkComplete buf s) :
    ScopeComplete buf .array_continue ArrayTail t := by
  intro p hacc hd1 hd
  cases t with
  | zero => exact absurd hacc (not_accepts_zero buf _ p (by simp))
  | succ t =>
    rcases step_array_continue buf p with ⟨_, h⟩ | ⟨_, hb, h⟩ | ⟨_, _, _, h⟩ | ⟨_, hb, h⟩ |
      ⟨_, _, _, h⟩
    · rw [accepts_succ, h] at hacc; exact absurd hacc (not_accepts_overrun buf t _)
    · exact close_complete buf t _ p ArrayTail h hacc (by rw [hb]; exact ArrayTail.close) hd
    · rw [accepts_succ, h] at hacc; exact absurd hacc (not_accepts_overrun buf t _)
    · rw [accepts_succ, h] at hacc
      obtain ⟨m1, k1, s1, q1, hs1, hsp1, hdk1, hw1, hr1⟩ :=
        (ih t (Nat.lt_succ_self t)).1 ((p.read_next buf).read_next buf) hacc (by simp)
          (by simp) (by simpa using hd)
      obtain ⟨m2, k2, s2, q2, hs2, hsp2, hdk2, hw2, hr2⟩ :=
        seq_complete buf t .main_array_switch .array_continue ArrayTail
          (fun s hs => (ih s (by omega)).2.2.2.1) p _ q1 2 s1 hacc hs1 hw1
          (returns_read_read buf p) hr1 hd1 hd
      refine ⟨2 + m1 + m2, max k1 k2, 1 + (s1 + s2), q2, by omega, ?_, ?_, ?_, hr2⟩
      · have e : 2 + m1 + m2 = 1 + ((m1 + 1) + m2) := by omega
        rw [e, seg_add, seg_one, hb, seg_add]
        have e2 : p.i + 1 + (m1 + 1) = p.i + 2 + m1 := by omega
        rw [e2]
        simp only [read_next_i, read_next_pj, Nat.add_sub_cancel] at hsp1
        exact ArrayTail.more k1 k2 (seg buf p.pj (p.i + 1) (m1 + 1))
          (seg buf p.pj (p.i + 2 + m1) m2) hsp1 hsp2
      · simp only [read_next_depth, read_next_pj] at hdk1
        omega
      · rw [walk_add, walk_one, h]; exact hw2
    · rw [accepts_succ, h] at hacc; exact absurd hacc (not_accepts_error buf t _)

theorem array_begin_complete_of (buf : Nat → Nat) (t : Nat)
    (ih : ∀ s, s < t → WalkComplete buf s) :
    ScopeComplete buf .array_begin ArrayRest t := by
  intro p hacc hd1 hd
  cases t with
  | zero => exact absurd hacc (not_accepts_zero buf _ p (by simp))
  | succ t =>
    rcases step_array_begin buf p with ⟨_, h⟩ | ⟨_, hb, h⟩ | ⟨_, _, h⟩
    · rw [accepts_succ, h] at hacc; exact absurd hacc (not_accepts_overrun buf t _)
    · exact close_complete buf t _ p ArrayRest h hacc (Or.inl ⟨by rw [hb], rfl⟩) hd
    · rw [accepts_succ, h] at hacc
      obtain ⟨m1, k1, s1, q1, hs1, hsp1, hdk1, hw1, hr1⟩ :=
        (ih t (Nat.lt_succ_self t)).1 (p.read_next buf) hacc (by simp)
          (by simp) (by simpa using hd)
      obtain ⟨m2, k2, s2, q2, hs2, hsp2, hdk2, hw2, hr2⟩ :=
        seq_complete buf t .main_array_switch .array_continue ArrayTail
          (fun s hs => (ih s (by omega)).2.2.2.1) p _ q1 1 s1 hacc hs1 hw1
          (returns_read buf p) hr1 hd1 hd
      refine ⟨1 + m1 + m2, max k1 k2, 1 + (s1 + s2), q2, by omega, ?_, ?_, ?_, hr2⟩
      · right
        simp only [read_next_i, read_next_pj, Nat.add_sub_cancel] at hsp1
        refine ⟨k1, k2, _, _, ?_, hsp1, hsp2, rfl⟩
        have e : 1 + m1 + m2 = (m1 + 1) + m2 := by omega
        rw [e, seg_add]
        have e2 : p.i + (m1 + 1) = p.i + 1 + m1 := by omega
        rw [e2]
      · simp only [read_next_depth, read_next_pj] at hdk1
        omega
      · rw [walk_add, walk_one, h]; exact hw2

theorem object_continue_complete_of (buf : Nat → Nat) (t : Nat)
    (ih : ∀ s, s < t → WalkComplete buf s) :
    ScopeComplete buf .object_continue ObjectTail t := by
  intro p hacc hd1 hd
  cases t with
  | zero => exact absurd hacc (not_accepts_zero buf _ p (by simp))
  | succ t =>
    rcases step_object_continue buf p with ⟨_, h⟩ | ⟨_, hb, h⟩ | ⟨_, _, _, h⟩ | ⟨_, _, _, h⟩ |
      ⟨_, hb, hb2, h⟩ | ⟨_, _, _, h⟩
    · rw [accepts_succ, h] at hacc; exact absurd hacc (not_accepts_overrun buf t _)
    · exact close_complete buf t _ p ObjectTail h hacc (by rw [hb]; exact ObjectTail.close) hd
    · rw [accepts_succ, h] at hacc; exact absurd hacc (not_accepts_overrun buf t _)
    · rw [accepts_succ, h] at hacc; exact absurd hacc (not_accepts_error buf t _)
    · rw [accepts_succ, h] at hacc
      have hf : Frame p ((p.read_next buf).read_next buf).write_string :=
        (returns_read_read_string buf p).2.2.1
      obtain ⟨m1, k1, s1, q1, hs1, hcol, hsp1, hdk1, hw1, hr1⟩ :=
        (ih t (Nat.lt_succ_self t)).2.1 ((p.read_next buf).read_next buf).write_string hacc
          (by rw [hf.2.2]; exact hd)
      obtain ⟨m2, k2, s2, q2, hs2, hsp2, hdk2, hw2, hr2⟩ :=
        seq_complete buf t .object_key_state .object_continue ObjectTail
          (fun s hs => (ih s (by omega)).2.2.2.2.2) p _ q1 2 s1 hacc hs1 hw1
          (returns_read_read_string buf p) hr1 hd1 hd
      refine ⟨2 + (m1 + 1) + m2, max k1 k2, 1 + (s1 + s2), q2, by omega, ?_, ?_, ?_, hr2⟩
      · have e : 2 + (m1 + 1) + m2 = 1 + (1 + (1 + (m1 + m2))) := by omega
        rw [e, seg_add, seg_one, hb, seg_add, seg_one, hb2, seg_add, seg_one, seg_add]
        rw [structural_byte_frame buf hf] at hcol
        rw [seg_frame buf hf] at hsp1
        simp only [write_string_i, read_next_i] at hcol hsp1
        have e3 : p.i + 1 + 1 + 1 = p.i + 1 + 1 + 1 := rfl
        rw [hcol]
        have e2 : p.i + 1 + 1 + 1 + m1 = p.i + 2 + (m1 + 1) := by omega
        rw [e2]
        exact ObjectTail.more k1 k2 (seg buf p.pj (p.i + 1 + 1 + 1) m1)
          (seg buf p.pj (p.i + 2 + (m1 + 1)) m2) hsp1 hsp2
      · rw [hf.2.2] at hdk1
        simp only [write_string_depth, read_next_depth] at hdk1
        omega
      · rw [walk_add, walk_one, h]; exact hw2
    · rw [accepts_succ, h] at hacc; exact absurd hacc (not_accepts_error buf t _)

theorem object_begin_complete_of (buf : Nat → Nat) (t : Nat)
    (ih : ∀ s, s < t → WalkComplete buf s) :
    ScopeComplete buf .object_begin ObjectRest t := by
  intro p hacc hd1 hd
  cases t with
  | zero => exact absurd hacc (not_accepts_zero buf _ p (by simp))
  | succ t =>
    rcases step_object_begin buf p with ⟨_, h⟩ | ⟨_, hb, h⟩ | ⟨_, hb, h⟩ | ⟨_, _, _, h⟩
    · rw [accepts_succ, h] at hacc; exact absurd hacc (not_accepts_overrun buf t _)
    · rw [accepts_succ, h] at hacc
      have hf : Frame p (p.read_next buf).write_string := (returns_read_string buf p).2.2.1
      obtain ⟨m1, k1, s1, q1, hs1, hcol, hsp1, hdk1, hw1, hr1⟩ :=
        (ih t (Nat.lt_succ_self t)).2.1 (p.read_next buf).write_string hacc
          (by rw [hf.2.2]; exact hd)
      obtain ⟨m2, k2, s2, q2, hs2, hsp2, hdk2, hw2, hr2⟩ :=
        seq_complete buf t .object_key_state .object_continue ObjectTail
          (fun s hs => (ih s (by omega)).2.2.2.2.2) p _ q1 1 s1 hacc hs1 hw1
          (returns_read_string buf p) hr1 hd1 hd
      refine ⟨1 + (m1 + 1) + m2, max k1 k2, 1 + (s1 + s2), q2, by omega, ?_, ?_, ?_, hr2⟩
      · right
        rw [structural_byte_frame buf hf] at hcol
        rw [seg_frame buf hf] at hsp1
        simp only [write_string_i, read_next_i] at hcol hsp1
        refine ⟨k1, k2, _, _, ?_, hsp1, hsp2, rfl⟩
        have e : 1 + (m1 + 1) + m2 = 1 + (1 + (m1 + m2)) := by omega
        rw [e, seg_add, seg_one, hb, seg_add, seg_one, hcol, seg_add]
        have e2 : p.i + 1 + 1 + m1 = p.i + 1 + (m1 + 1) := by omega
        rw [e2]
        rfl
      · rw [hf.2.2] at hdk1
        simp only [write_string_depth, read_next_depth] at hdk1
        omega
      · rw [walk_add, walk_one, h]; exact hw2
    · exact close_complete buf t _ p ObjectRest h hacc (Or.inl ⟨by rw [hb], rfl⟩) hd
    · rw [accepts_succ, h] at hacc; exact absurd hacc (not_accepts_error buf t _)

/-- Completeness of the walk, for every number of transitions. -/
theorem walk_complete (buf : Nat → Nat) (t : Nat) : WalkComplete buf t := by
  induction t using Nat.strong_induction_on with
  | _ t ih =>
    exact ⟨element_complete_of buf t ih, member_complete_of buf t ih,
      array_begin_complete_of buf t ih, array_continue_complete_of buf t ih,
      object_begin_complete_of buf t ih, object_continue_complete_of buf t ih⟩

end simdjson

namespace simdjson
open StructuralParser

/-! ## Soundness: the walk reads every phrase of the grammar -/

theorem seg_eq_cons (buf : Nat → Nat) (pj : ParsedJson) (j m c : Nat) (w : List Nat)
    (h : seg buf pj j m = c :: w) :
    m = w.length + 1 ∧ structural_byte buf pj j = c ∧ seg buf pj (j + 1) w.length = w := by
  have hm : m = w.length + 1 := by
    have := congrArg List.length h
    simpa [seg_length] using this
  subst hm
  rw [seg_succ] at h
  injection h with h1 h2
  exact ⟨rfl, h1, h2⟩

theorem spells_nonempty {cat : Category} {k : Nat} {ws : List Nat} (h : Spells cat k ws) :
    1 ≤ ws.length := by
  induction h <;> first | assumption | (simp only [List.length_cons, List.length_append, List.length_nil]; omega)

theorem value_head {k : Nat} {ws : List Nat} (h : Spells .value k ws) :
    ∃ c rest, ws = c :: rest ∧ c ≠ ch_rbracket := by
  generalize hc : Category.value = cat at h
  cases h with
  | scalar c hs => exact ⟨c, [], rfl, (scalar_not_bracket hs).2.2.1⟩
  | empty_array => exact ⟨_, _, rfl, by simp⟩
  | array k ws _ => exact ⟨_, _, rfl, by simp⟩
  | empty_object => exact ⟨_, _, rfl, by simp⟩
  | object k ws _ => exact ⟨_, _, rfl, by simp⟩
  | element k ws _ => cases hc
  | elements k m0 ws ws1 _ _ => cases hc
  | member k ws _ => cases hc
  | members k m0 ws ws1 _ _ => cases hc

theorem elements_head {k : Nat} {ws : List Nat} (h : Spells .elements k ws) :
    ∃ c rest, ws = c :: rest ∧ c ≠ ch_rbracket := by
  generalize hc : Category.elements = cat at h
  cases h with
  | scalar c hs => cases hc
  | empty_array => cases hc
  | array k ws _ => cases hc
  | empty_object => cases hc
  | object k ws _ => cases hc
  | element k ws h1 => exact value_head h1
  | elements k m0 ws ws1 h1 _ =>
    obtain ⟨c, rest, rfl, hne⟩ := value_head h1
    exact ⟨c, rest ++ ch_comma :: ws1, rfl, hne⟩
  | member k ws _ => cases hc
  | members k m0 ws ws1 _ _ => cases hc

theorem members_head {k : Nat} {ws : List Nat} (h : Spells .members k ws) :
    ∃ rest, ws = ch_quote :: rest := by
  generalize hc : Category.members = cat at h
  cases h with
  | scalar c hs => cases hc
  | empty_array => cases hc
  | array k ws _ => cases hc
  | empty_object => cases hc
  | object k ws _ => cases hc
  | element k ws h1 => cases hc
  | elements k m0 ws ws1 h1 _ => cases hc
  | member k ws _ => exact ⟨_, rfl⟩
  | members k m0 ws ws1 _ _ => exact ⟨_, rfl⟩

theorem parse_value_open_array (p : StructuralParser) (cont : ret_address)
    (hc : p.c = ch_lbracket) (hd : p.depth + 1 < p.pj.depth_capacity) :
    p.parse_value cont = (ret_address.array_begin, (p.push_scope cont).2) := by
  rcases parse_value_cases p cont with ⟨hs, _⟩ | ⟨_, _, h⟩ | ⟨_, h1, _⟩ | ⟨_, h1, _, _⟩
  · rw [hc] at hs; simp [is_scalar_start, is_atom_start, is_number_start, is_digit] at hs
  · rw [h]; simp [hc]
  · omega
  · exact absurd hc h1

theorem parse_value_open_object (p : StructuralParser) (cont : ret_address)
    (hc : p.c = ch_lbrace) (hd : p.depth + 1 < p.pj.depth_capacity) :
    p.parse_value cont = (ret_address.object_begin, (p.push_scope cont).2) := by
  rcases parse_value_cases p cont with ⟨hs, _⟩ | ⟨_, _, h⟩ | ⟨_, h1, _⟩ | ⟨_, _, h1, _⟩
  · rw [hc] at hs; simp [is_scalar_start, is_atom_start, is_number_start, is_digit] at hs
  · rw [h]; simp [hc]
  · omega
  · exact absurd hc h1

theorem step_array_begin_close (buf : Nat → Nat) (p : StructuralParser)
    (h1 : p.i < p.pj.n_structural_indexes) (hb : structural_byte buf p.pj p.i = ch_rbracket) :
    step buf (.array_begin, p) = (.scope_end, p.read_next buf) := by
  simp only [structural_byte] at hb
  simp [step, advance_char, h1, hb, structural_byte]

theorem step_array_begin_value (buf : Nat → Nat) (p : StructuralParser)
    (h1 : p.i < p.pj.n_structural_indexes) (hb : structural_byte buf p.pj p.i ≠ ch_rbracket) :
    step buf (.array_begin, p) = (.main_array_switch, p.read_next buf) := by
  simp only [structural_byte, ch_rbracket] at hb
  simp [step, advance_char, h1, hb, structural_byte]

theorem step_array_continue_close (buf : Nat → Nat) (p : StructuralParser)
    (h1 : p.i < p.pj.n_structural_indexes) (hb : structural_byte buf p.pj p.i = ch_rbracket) :
    step buf (.array_continue, p) = (.scope_end, p.read_next buf) := by
  simp only [structural_byte] at hb
  simp [step, advance_char, h1, hb, structural_byte]

theorem step_array_continue_comma (buf : Nat → Nat) (p : StructuralParser)
    (h1 : p.i + 1 < p.pj.n_structural_indexes) (hb : structural_byte buf p.pj p.i = ch_comma) :
    step buf (.array_continue, p) = (.main_array_switch, (p.read_next buf).read_next buf) := by
  have h0 : p.i < p.pj.n_structural_indexes := by omega
  simp only [structural_byte] at hb
  simp [step, advance_char, h1, h0, hb, structural_byte]

theorem step_object_begin_close (buf : Nat → Nat) (p : StructuralParser)
    (h1 : p.i < p.pj.n_structural_indexes) (hb : structural_byte buf p.pj p.i = ch_rbrace) :
    step buf (.object_begin, p) = (.scope_end, p.read_next buf) := by
  simp only [structural_byte] at hb
  simp [step, advance_char, h1, hb, structural_byte]

theorem step_object_begin_key (buf : Nat → Nat) (p : StructuralParser)
    (h1 : p.i < p.pj.n_structural_indexes) (hb : structural_byte buf p.pj p.i = ch_quote) :
    step buf (.object_begin, p) = (.object_key_state, (p.read_next buf).write_string) := by
  simp only [structural_byte] at hb
  simp [step, advance_char, h1, hb, structural_byte]

theorem step_object_key_state_colon (buf : Nat → Nat) (p : StructuralParser)
    (h1 : p.i + 1 < p.pj.n_structural_indexes) (hb : structural_byte buf p.pj p.i = ch_colon) :
    step buf (.object_key_state, p) =
      (GOTO (((p.read_next buf).read_next buf).parse_value .object_continue).1,
        (((p.read_next buf).read_next buf).parse_value .object_continue).2) := by
  have h0 : p.i < p.pj.n_structural_indexes := by omega
  simp only [structural_byte] at hb
  simp [step, advance_char, h1, h0, hb, structural_byte]

theorem step_object_continue_close (buf : Nat → Nat) (p : StructuralParser)
    (h1 : p.i < p.pj.n_structural_indexes) (hb : structural_byte buf p.pj p.i = ch_rbrace) :
    step buf (.object_continue, p) = (.scope_end, p.read_next buf) := by
  simp only [structural_byte] at hb
  simp [step, advance_char, h1, hb, structural_byte]

theorem step_object_continue_comma (buf : Nat → Nat) (p : StructuralParser)
    (h1 : p.i + 1 < p.pj.n_structural_indexes) (hb : structural_byte buf p.pj p.i = ch_comma)
    (hb2 : structural_byte buf p.pj (p.i + 1) = ch_quote) :
    step buf (.object_continue, p) =
      (.object_key_state, ((p.read_next buf).read_next buf).write_string) := by
  have h0 : p.i < p.pj.n_structural_indexes := by omega
  simp only [structural_byte] at hb hb2
  simp [step, advance_char, h1, h0, hb, hb2, structural_byte]

/-- Reading a closing bracket at `L` and leaving the scope takes two transitions. -/
theorem walk_close (buf : Nat → Nat) (L : Label) (p : StructuralParser)
    (hstep : step buf (L, p) = (.scope_end, p.read_next buf)) :
    walk buf 2 (L, p) = (GOTO (p.pj.ret_address (p.depth - 1)), (p.read_next buf).pop_scope.2) := by
  show walk buf 1 (step buf (L, p)) = _
  rw [hstep, walk_one, step_scope_end]
  rfl

end simdjson

namespace simdjson
open StructuralParser

theorem returns_of_push {p q : StructuralParser} {cont : ret_address} {m : Nat}
    (h : Returns (p.push_scope cont).2 q m p.depth) : Returns p q m p.depth := by
  obtain ⟨a1, a2, a3, a4, a5⟩ := h
  refine ⟨a1, a2, frame_trans (push_scope_frame p cont) a3, ?_, ?_⟩
  · intro x hx
    rw [a4 x hx, push_scope_ret, Function.update_noteq (by omega)]
  · intro x hx
    rw [a5 x hx, push_scope_cso, Function.update_noteq (by omega)]

theorem sound_scalar (buf : Nat → Nat) (c : Nat) (hs : is_scalar_start c = true) :
    Sound buf .value 0 [c] := by
  intro p cont j hi hc hseg hn hd
  have hb := (seg_eq_cons buf p.pj j _ c [] hseg).2.1
  have hs' : is_scalar_start p.c = true := by rw [hc, hb]; exact hs
  rcases parse_value_scalar p cont hs' with h | h | h <;> rw [h]
  · exact ⟨0, _, rfl, rfl, rfl, ⟨rfl, rfl, rfl⟩, fun _ _ => rfl, fun _ _ => rfl⟩
  · exact ⟨0, _, rfl, rfl, rfl, ⟨rfl, rfl, rfl⟩, fun _ _ => rfl, fun _ _ => rfl⟩
  · exact ⟨0, _, rfl, rfl, rfl, ⟨rfl, rfl, rfl⟩, fun _ _ => rfl, fun _ _ => rfl⟩

theorem sound_empty_array (buf : Nat → Nat) :
    Sound buf .value 1 [ch_lbracket, ch_rbracket] := by
  intro p cont j hi hc hseg hn hd
  obtain ⟨_, hb0, hseg1⟩ := seg_eq_cons buf p.pj j _ _ _ hseg
  obtain ⟨_, hb1, _⟩ := seg_eq_cons buf p.pj (j + 1) _ _ _ hseg1
  simp only [List.length_cons, List.length_nil] at hn
  rw [parse_value_open_array p cont (by rw [hc, hb0]) (by omega)]
  have hstep : step buf (.array_begin, (p.push_scope cont).2)
      = (.scope_end, (p.push_scope cont).2.read_next buf) :=
    step_array_begin_close buf _ (by simp; omega) (by
      show structural_byte buf p.pj (p.push_scope cont).2.i = _
      simp [hi, hb1])
  refine ⟨2, ((p.push_scope cont).2.read_next buf).pop_scope.2, ?_, ?_⟩
  · show walk buf 2 (Label.array_begin, _) = _
    rw [walk_close buf _ _ hstep]
    simp
  · apply returns_of_push
    have := returns_read_pop buf (p.push_scope cont).2
    simpa using this

theorem sound_empty_object (buf : Nat → Nat) :
    Sound buf .value 1 [ch_lbrace, ch_rbrace] := by
  intro p cont j hi hc hseg hn hd
  obtain ⟨_, hb0, hseg1⟩ := seg_eq_cons buf p.pj j _ _ _ hseg
  obtain ⟨_, hb1, _⟩ := seg_eq_cons buf p.pj (j + 1) _ _ _ hseg1
  simp only [List.length_cons, List.length_nil] at hn
  rw [parse_value_open_object p cont (by rw [hc, hb0]) (by omega)]
  have hstep : step buf (.object_begin, (p.push_scope cont).2)
      = (.scope_end, (p.push_scope cont).2.read_next buf) :=
    step_object_begin_close buf _ (by simp; omega) (by
      show structural_byte buf p.pj (p.push_scope cont).2.i = _
      simp [hi, hb1])
  refine ⟨2, ((p.push_scope cont).2.read_next buf).pop_scope.2, ?_, ?_⟩
  · show walk buf 2 (Label.object_begin, _) = _
    rw [walk_close buf _ _ hstep]
    simp
  · apply returns_of_push
    have := returns_read_pop buf (p.push_scope cont).2
    simpa using this

theorem sound_array (buf : Nat → Nat) (k : Nat) (ws : List Nat) (h : Spells .elements k ws)
    (ih : Sound buf .elements k ws) :
    Sound buf .value (k + 1) (ch_lbracket :: (ws ++ [ch_rbracket])) := by
  intro p cont j hi hc hseg hn hd
  obtain ⟨_, hb0, hseg1⟩ := seg_eq_cons buf p.pj j _ _ _ hseg
  obtain ⟨_, hseg2, hseg3⟩ := seg_eq_append buf p.pj (j + 1) _ _ _ hseg1
  have hb1 := (seg_eq_cons buf p.pj _ _ _ _ hseg3).2.1
  obtain ⟨c, rest, hws, hne⟩ := elements_head h
  have hbh : structural_byte buf p.pj (j + 1) = c := by
    rw [hws] at hseg2
    exact (seg_eq_cons buf p.pj _ _ _ _ hseg2).2.1
  simp only [List.length_cons, List.length_append, List.length_nil] at hn
  have hlen := spells_nonempty h
  rw [parse_value_open_array p cont (by rw [hc, hb0]) (by omega)]
  -- the first element is read at `array_begin`
  have hstep1 : step buf (.array_begin, (p.push_scope cont).2)
      = (.main_array_switch, (p.push_scope cont).2.read_next buf) :=
    step_array_begin_value buf _ (by simp; omega) (by
      show structural_byte buf p.pj (p.push_scope cont).2.i ≠ _
      simp only [push_scope_i, hi, hbh]; exact hne)
  obtain ⟨s1, q3, hw1, hr1⟩ := ih ((p.push_scope cont).2.read_next buf) (j + 1)
    (by simp [hi]) (by simp [hi]) hseg2 (by show j + 1 + ws.length ≤ p.pj.n_structural_indexes; omega)
    (by show p.depth + 1 + k < p.pj.depth_capacity; omega)
  have hf3 : Frame p q3 := frame_trans (push_scope_frame p cont) hr1.2.2.1
  have hi3 : q3.i = j + 1 + ws.length := by
    rw [hr1.1]; simp [hi]; omega
  have hstep2 : step buf (.array_continue, q3) = (.scope_end, q3.read_next buf) :=
    step_array_continue_close buf _ (by rw [hi3, hf3.2.1]; omega)
      (by rw [structural_byte_frame buf hf3, hi3]; exact hb1)
  refine ⟨1 + (s1 + 2), (q3.read_next buf).pop_scope.2, ?_, ?_⟩
  · show walk buf (1 + (s1 + 2)) (Label.array_begin, _) = _
    rw [walk_add, walk_one, hstep1, walk_add, hw1, walk_close buf _ _ hstep2]
    have e1 : q3.depth - 1 = p.depth := by rw [hr1.2.1]; simp
    rw [e1, hr1.2.2.2.1 p.depth (by simp)]
    simp
  · apply returns_of_push
    have h1 := returns_trans (returns_read buf (p.push_scope cont).2) hr1 (le_refl _)
    have e0 : q3.depth = p.depth + 1 := by rw [hr1.2.1]; simp
    have h2 := returns_trans h1 (returns_read_pop buf q3) (by rw [e0]; simp)
    have e1 : q3.depth - 1 = p.depth := by rw [hr1.2.1]; simp
    rw [e1] at h2
    have e2 : 1 + (ws.length - 1) + 1 = (ch_lbracket :: (ws ++ [ch_rbracket])).length - 1 := by
      simp only [List.length_cons, List.length_append, List.length_nil]; omega
    rw [← e2]
    exact h2

theorem sound_object (buf : Nat → Nat) (k : Nat) (ws : List Nat) (h : Spells .members k ws)
    (ih : Sound buf .members k ws) :
    Sound buf .value (k + 1) (ch_lbrace :: (ws ++ [ch_rbrace])) := by
  intro p cont j hi hc hseg hn hd
  obtain ⟨_, hb0, hseg1⟩ := seg_eq_cons buf p.pj j _ _ _ hseg
  obtain ⟨_, hseg2, hseg3⟩ := seg_eq_append buf p.pj (j + 1) _ _ _ hseg1
  have hb1 := (seg_eq_cons buf p.pj _ _ _ _ hseg3).2.1
  obtain ⟨rest, hws⟩ := members_head h
  have hbh : structural_byte buf p.pj (j + 1) = ch_quote := by
    rw [hws] at hseg2
    exact (seg_eq_cons buf p.pj _ _ _ _ hseg2).2.1
  simp only [List.length_cons, List.length_append, List.length_nil] at hn
  have hlen := spells_nonempty h
  rw [parse_value_open_object p cont (by rw [hc, hb0]) (by omega)]
  have hstep1 : step buf (.object_begin, (p.push_scope cont).2)
      = (.object_key_state, ((p.push_scope cont).2.read_next buf).write_string) :=
    step_object_begin_key buf _ (by simp; omega) (by simp [hi, hbh])
  obtain ⟨s1, q3, hw1, hr1⟩ := ih ((p.push_scope cont).2.read_next buf).write_string (j + 1)
    (by simp [hi]) (by simpa using hseg2)
    (by show j + 1 + ws.length ≤ p.pj.n_structural_indexes; omega)
    (by show p.depth + 1 + k < p.pj.depth_capacity; omega)
  have hf3 : Frame p q3 :=
    frame_trans (returns_read_string buf (p.push_scope cont).2).2.2.1 hr1.2.2.1
  have hi3 : q3.i = j + 1 + ws.length := by
    rw [hr1.1]; simp [hi]; omega
  have hstep2 : step buf (.object_continue, q3) = (.scope_end, q3.read_next buf) :=
    step_object_continue_close buf _ (by rw [hi3, hf3.2.1]; omega)
      (by rw [structural_byte_frame buf hf3, hi3]; exact hb1)
  refine ⟨1 + (s1 + 2), (q3.read_next buf).pop_scope.2, ?_, ?_⟩
  · show walk buf (1 + (s1 + 2)) (Label.object_begin, _) = _
    rw [walk_add, walk_one, hstep1, walk_add, hw1, walk_close buf _ _ hstep2]
    have e1 : q3.depth - 1 = p.depth := by rw [hr1.2.1]; simp
    rw [e1, hr1.2.2.2.1 p.depth (by simp)]
    simp
  · apply returns_of_push
    have h1 := returns_trans (returns_read_string buf (p.push_scope cont).2) hr1 (le_refl _)
    have e0 : q3.depth = p.depth + 1 := by rw [hr1.2.1]; simp
    have h2 := returns_trans h1 (returns_read_pop buf q3) (by rw [e0]; simp)
    have e1 : q3.depth - 1 = p.depth := by rw [hr1.2.1]; simp
    rw [e1] at h2
    have e2 : 1 + (ws.length - 1) + 1 = (ch_lbrace :: (ws ++ [ch_rbrace])).length - 1 := by
      simp only [List.length_cons, List.length_append, List.length_nil]; omega
    rw [← e2]
    exact h2

theorem sound_element (buf : Nat → Nat) (k : Nat) (ws : List Nat)
    (ih : Sound buf .value k ws) : Sound buf .elements k ws := by
  intro p j hi hc hseg hn hd
  obtain ⟨s, q, hw, hr⟩ := ih p .array_continue j hi hc hseg hn hd
  refine ⟨1 + s, q, ?_, hr⟩
  rw [walk_add, walk_one, step_main_array_switch]
  exact hw

theorem sound_elements (buf : Nat → Nat) (k m : Nat) (ws ws1 : List Nat)
    (h : Spells .value k ws) (h1 : Spells .elements m ws1)
    (ihv : Sound buf .value k ws) (ihe : Sound buf .elements m ws1) :
    Sound buf .elements (max k m) (ws ++ ch_comma :: ws1) := by
  intro p j hi hc hseg hn hd
  obtain ⟨_, hseg1, hseg2⟩ := seg_eq_append buf p.pj j _ _ _ hseg
  obtain ⟨_, hb1, hseg3⟩ := seg_eq_cons buf p.pj _ _ _ _ hseg2
  obtain ⟨c, rest, hws1, _⟩ := elements_head h1
  have hbh : structural_byte buf p.pj (j + ws.length + 1) = c := by
    rw [hws1] at hseg3
    exact (seg_eq_cons buf p.pj _ _ _ _ hseg3).2.1
  simp only [List.length_cons, List.length_append] at hn
  have hlen := spells_nonempty h
  have hlen1 := spells_nonempty h1
  obtain ⟨s1, q1, hw1, hr1⟩ := ihv p .array_continue j hi hc hseg1 (by omega)
    (by have := le_max_left k m; omega)
  have hi1 : q1.i = j + ws.length := by rw [hr1.1, hi]; omega
  have hf1 : Frame p q1 := hr1.2.2.1
  have hstep : step buf (.array_continue, q1)
      = (.main_array_switch, (q1.read_next buf).read_next buf) :=
    step_array_continue_comma buf _ (by rw [hi1, hf1.2.1]; omega)
      (by rw [structural_byte_frame buf hf1, hi1]; exact hb1)
  obtain ⟨s2, q3, hw2, hr2⟩ := ihe ((q1.read_next buf).read_next buf) (j + ws.length + 1)
    (by simp [hi1]) (by simp [hi1, structural_byte_frame buf hf1])
    (by simp only [read_next_pj]; rw [seg_frame buf hf1]; exact hseg3)
    (by simp only [read_next_pj]; rw [hf1.2.1]; omega)
    (by simp only [read_next_pj, read_next_depth]; rw [hf1.2.2, hr1.2.1]
        have := le_max_right k m; omega)
  refine ⟨1 + (s1 + (1 + s2)), q3, ?_, ?_⟩
  · rw [walk_add, walk_one, step_main_array_switch, walk_add, hw1, walk_add, walk_one]
    show walk buf s2 (step buf (Label.array_continue, q1)) = _
    rw [hstep, hw2]
  · have h2 := returns_trans hr1 (returns_read_read buf q1) (by rw [hr1.2.1])
    rw [hr1.2.1] at h2
    have h3 := returns_trans h2 (by simpa [hr1.2.1] using hr2) (le_refl _)
    have e2 : ws.length - 1 + 2 + (ws1.length - 1) = (ws ++ ch_comma :: ws1).length - 1 := by
      simp only [List.length_cons, List.length_append]; omega
    rw [← e2]
    exact h3

theorem sound_member (buf : Nat → Nat) (k : Nat) (ws : List Nat) (h : Spells .value k ws)
    (ihv : Sound buf .value k ws) : Sound buf .members k (ch_quote :: ch_colon :: ws) := by
  intro p j hi hseg hn hd
  obtain ⟨_, _, hseg1⟩ := seg_eq_cons buf p.pj j _ _ _ hseg
  obtain ⟨_, hb1, hseg2⟩ := seg_eq_cons buf p.pj _ _ _ _ hseg1
  simp only [List.length_cons] at hn
  have hlen := spells_nonempty h
  have hstep := step_object_key_state_colon buf p (by rw [hi]; omega) (by rw [hi]; exact hb1)
  obtain ⟨s, q, hw, hr⟩ := ihv ((p.read_next buf).read_next buf) .object_continue (j + 2)
    (by simp [hi]) (by simp [hi]) (by simpa using hseg2) (by simp only [read_next_pj]; omega)
    (by simpa using hd)
  refine ⟨1 + s, q, ?_, ?_⟩
  · rw [walk_add, walk_one, hstep]; exact hw
  · have h2 := returns_trans (returns_read_read buf p) hr (le_refl _)
    have e2 : 2 + (ws.length - 1) = (ch_quote :: ch_colon :: ws).length - 1 := by
      simp only [List.length_cons]; omega
    rw [← e2]
    exact h2

theorem sound_members (buf : Nat → Nat) (k m : Nat) (ws ws1 : List Nat)
    (h : Spells .value k ws) (h1 : Spells .members m ws1)
    (ihv : Sound buf .value k ws) (ihm : Sound buf .members m ws1) :
    Sound buf .members (max k m) (ch_quote :: ch_colon :: (ws ++ ch_comma :: ws1)) := by
  intro p j hi hseg hn hd
  have hsplit : ch_quote :: ch_colon :: (ws ++ ch_comma :: ws1)
      = (ch_quote :: ch_colon :: ws) ++ ch_comma :: ws1 := by simp
  rw [hsplit] at hseg hn
  obtain ⟨_, hseg1, hseg2⟩ := seg_eq_append buf p.pj j _ _ _ hseg
  obtain ⟨_, hb1, hseg3⟩ := seg_eq_cons buf p.pj _ _ _ _ hseg2
  obtain ⟨rest, hws1⟩ := members_head h1
  have hbh : structural_byte buf p.pj (j + (ch_quote :: ch_colon :: ws).length + 1)
      = ch_quote := by
    rw [hws1] at hseg3
    exact (seg_eq_cons buf p.pj _ _ _ _ hseg3).2.1
  simp only [List.length_cons, List.length_append] at hn hbh hb1 hseg3
  have hlen := spells_nonempty h
  have hlen1 := spells_nonempty h1
  obtain ⟨s1, q1, hw1, hr1⟩ := sound_member buf k ws h ihv p j hi hseg1
    (by simp only [List.length_cons]; omega) (by have := le_max_left k m; omega)
  simp only [List.length_cons, Nat.add_sub_cancel] at hr1
  have hi1 : q1.i = j + (ws.length + 1 + 1) := by rw [hr1.1, hi]; omega
  have hf1 : Frame p q1 := hr1.2.2.1
  have hstep : step buf (.object_continue, q1)
      = (.object_key_state, ((q1.read_next buf).read_next buf).write_string) :=
    step_object_continue_comma buf _ (by rw [hi1, hf1.2.1]; omega)
      (by rw [structural_byte_frame buf hf1, hi1]; exact hb1)
      (by rw [structural_byte_frame buf hf1, hi1]; exact hbh)
  obtain ⟨s2, q3, hw2, hr2⟩ := ihm ((q1.read_next buf).read_next buf).write_string
    (j + (ws.length + 1 + 1) + 1)
    (by simp [hi1])
    (by simp only [seg_string, read_next_pj]; rw [seg_frame buf hf1]; exact hseg3)
    (by simp only [write_string_n, read_next_pj]; rw [hf1.2.1]; omega)
    (by simp only [write_string_cap, write_string_depth, read_next_pj, read_next_depth]
        rw [hf1.2.2, hr1.2.1]; have := le_max_right k m; omega)
  refine ⟨s1 + (1 + s2), q3, ?_, ?_⟩
  · rw [walk_add, hw1, walk_add, walk_one, hstep, hw2]
  · have h2 := returns_trans hr1 (returns_read_read_string buf q1) (by rw [hr1.2.1])
    rw [hr1.2.1] at h2
    have h3 := returns_trans h2 (by simpa [hr1.2.1] using hr2) (le_refl _)
    have e2 : ws.length + 1 + 2 + (ws1.length - 1)
        = (ch_quote :: ch_colon :: (ws ++ ch_comma :: ws1)).length - 1 := by
      simp only [List.length_cons, List.length_append]; omega
    rw [← e2]
    exact h3

/-- Soundness of the walk: it reads every phrase of the grammar. -/
theorem walk_sound (buf : Nat → Nat) {cat : Category} {k : Nat} {ws : List Nat}
    (h : Spells cat k ws) : Sound buf cat k ws := by
  induction h with
  | scalar c hs => exact sound_scalar buf c hs
  | empty_array => exact sound_empty_array buf
  | array k ws h ih => exact sound_array buf k ws h ih
  | empty_object => exact sound_empty_object buf
  | object k ws h ih => exact sound_object buf k ws h ih
  | element k ws _ ih => exact sound_element buf k ws ih
  | elements k m ws ws1 h h1 ih ih1 => exact sound_elements buf k m ws ws1 h h1 ih ih1
  | member k ws h ih => exact sound_member buf k ws h ih
  | members k m ws ws1 h h1 ih ih1 => exact sound_members buf k m ws ws1 h h1 ih ih1

end simdjson

namespace simdjson
open StructuralParser

/-! ## The scalar pre-pass and the start of the walk -/

theorem prepass_keeps_refl (pj : ParsedJson) : PrepassKeeps pj pj :=
  ⟨rfl, rfl, rfl, rfl, rfl, rfl, rfl, rfl, rfl⟩

theorem prepass_keeps_trans {a b c : ParsedJson} (h1 : PrepassKeeps a b)
    (h2 : PrepassKeeps b c) : PrepassKeeps a c := by
  obtain ⟨a1, a2, a3, a4, a5, a6, a7, a8, a9⟩ := h1
  obtain ⟨b1, b2, b3, b4, b5, b6, b7, b8, b9⟩ := h2
  exact ⟨b1.trans a1, b2.trans a2, b3.trans a3, b4.trans a4, b5.trans a5, b6.trans a6,
    b7.trans a7, b8.trans a8, b9.trans a9⟩

theorem foldl_keeps {α : Type} (f : Bool × ParsedJson → α → Bool × ParsedJson)
    (hf : ∀ st a, PrepassKeeps st.2 (f st a).2) (l : List α) (st : Bool × ParsedJson) :
    PrepassKeeps st.2 (l.foldl f st).2 := by
  induction l generalizing st with
  | nil => exact prepass_keeps_refl _
  | cons a l ih => exact prepass_keeps_trans (hf st a) (ih _)

theorem had_error_result_keeps (b : Bool) (pj : ParsedJson) (code : ErrorValues) :
    PrepassKeeps pj (had_error_result b pj code).2 := by
  unfold had_error_result
  split <;> exact ⟨rfl, rfl, rfl, rfl, rfl, rfl, rfl, rfl, rfl⟩

theorem parse_string_keeps (D : ScalarDecoders) (buf : Nat → Nat) (idx : Nat)
    (pj : ParsedJson) : PrepassKeeps pj (parse_string D buf idx pj).2 := by
  unfold parse_string
  cases D.parse_string buf idx <;> exact ⟨rfl, rfl, rfl, rfl, rfl, rfl, rfl, rfl, rfl⟩

theorem parse_number_keeps (D : ScalarDecoders) (buf : Nat → Nat) (pj : ParsedJson)
    (idx : Nat) (neg : Bool) : PrepassKeeps pj (parse_number D buf pj idx neg).2 := by
  unfold parse_number
  cases D.parse_number buf idx neg <;> exact ⟨rfl, rfl, rfl, rfl, rfl, rfl, rfl, rfl, rfl⟩

theorem parse_strings_keeps (D : ScalarDecoders) (buf : Nat → Nat) (pj : ParsedJson) (i : Nat) :
    PrepassKeeps pj (parse_strings D buf pj i).2 := by
  have h := foldl_keeps (parse_strings_body D buf) (by
    intro st a
    unfold parse_strings_body
    split
    · exact parse_string_keeps D buf _ st.2
    · exact prepass_keeps_refl _) (List.range' i (pj.n_structural_indexes - 1 - i)) (false, pj)
  unfold parse_strings
  exact prepass_keeps_trans h (had_error_result_keeps _ _ _)

theorem parse_numbers_switch_keeps (D : ScalarDecoders) (b : Nat → Nat) (pj : ParsedJson)
    (idx : Nat) : PrepassKeeps pj (parse_numbers_switch D b pj idx).2 := by
  unfold parse_numbers_switch
  split
  · exact parse_number_keeps D b pj idx false
  · split
    · exact parse_number_keeps D b pj idx true
    · exact prepass_keeps_refl _

theorem with_copy_keeps (D : ScalarDecoders) (buf : Nat → Nat) (len : Nat) (pj : ParsedJson)
    (f : (Nat → Nat) → Bool × ParsedJson) (hf : ∀ b, PrepassKeeps pj (f b).2) :
    PrepassKeeps pj (with_space_terminated_copy D buf len f pj).2 := by
  unfold with_space_terminated_copy
  split
  · exact hf _
  · exact prepass_keeps_refl _

theorem parse_numbers_last_keeps (D : ScalarDecoders) (buf : Nat → Nat) (len : Nat)
    (pj : ParsedJson) (i : Nat) : PrepassKeeps pj (parse_numbers_last D buf len pj i).1.2 := by
  unfold parse_numbers_last
  split
  · split
    · exact with_copy_keeps D buf len pj _ (fun b => parse_number_keeps D b pj _ false)
    · split
      · exact with_copy_keeps D buf len pj _ (fun b => parse_number_keeps D b pj _ true)
      · exact prepass_keeps_refl _
  · exact prepass_keeps_refl _

theorem parse_numbers_keeps (D : ScalarDecoders) (buf : Nat → Nat) (len : Nat)
    (pj : ParsedJson) (i : Nat) : PrepassKeeps pj (parse_numbers D buf len pj i).2 := by
  unfold parse_numbers parse_numbers_loop
  refine prepass_keeps_trans (prepass_keeps_trans (parse_numbers_last_keeps D buf len pj i) ?_)
    (had_error_result_keeps _ _ _)
  exact foldl_keeps (parse_numbers_body D buf)
    (fun st a => parse_numbers_switch_keeps D buf st.2 _) _ _

theorem parse_atoms_keeps (D : ScalarDecoders) (buf : Nat → Nat) (len : Nat)
    (pj : ParsedJson) (i : Nat) : PrepassKeeps pj (parse_atoms D buf len pj i).2 := by
  unfold parse_atoms
  exact had_error_result_keeps _ _ _

theorem init_keeps (pj : ParsedJson) :
    pj.init.byte_capacity = pj.byte_capacity ∧ pj.init.depth_capacity = pj.depth_capacity ∧
    pj.init.n_structural_indexes = pj.n_structural_indexes ∧
    pj.init.structural_indexes = pj.structural_indexes ∧ pj.init.current_loc = 0 ∧
    pj.init.valid = false := ⟨rfl, rfl, rfl, rfl, rfl, rfl⟩

/-- The workspace of the walk has the structural index and the capacities of the caller's
workspace, an empty tape and a false valid flag. -/
theorem walk_pj_keeps (D : ScalarDecoders) (buf : Nat → Nat) (len : Nat) (pj : ParsedJson) :
    (walk_pj D buf len pj).byte_capacity = pj.byte_capacity ∧
    (walk_pj D buf len pj).depth_capacity = pj.depth_capacity ∧
    (walk_pj D buf len pj).n_structural_indexes = pj.n_structural_indexes ∧
    (walk_pj D buf len pj).structural_indexes = pj.structural_indexes ∧
    (walk_pj D buf len pj).current_loc = 0 ∧ (walk_pj D buf len pj).valid = false := by
  have h1 := parse_strings_keeps D buf pj.init 0
  have h2 := parse_numbers_keeps D buf len (parse_strings D buf pj.init 0).2 0
  have h3 := parse_atoms_keeps D buf len
    (parse_numbers D buf len (parse_strings D buf pj.init 0).2 0).2 0
  have h := prepass_keeps_trans (prepass_keeps_trans h1 h2) h3
  unfold walk_pj
  generalize (parse_atoms D buf len
    (parse_numbers D buf len (parse_strings D buf pj.init 0).2 0).2 0).2 = pj3 at h
  obtain ⟨a1, a2, a3, a4, _⟩ := h
  exact ⟨a1, a2, a3, a4, rfl, rfl⟩

theorem push_start_scope_eq (p : StructuralParser) (k : ret_address) :
    p.push_start_scope k p.c = p.push_scope k := rfl

/-- The first switch of `unified_machine` does what `parse_value` does with `finish` as
the continuation. -/
theorem first_value_eq (p : StructuralParser) :
    first_value p = (GOTO (p.parse_value .finish).1, (p.parse_value .finish).2) := by
  unfold first_value
  rw [push_start_scope_eq]
  rcases parse_value_cases p .finish with ⟨hs, h⟩ | ⟨hb, hd, h⟩ | ⟨hb, hd, h⟩ | ⟨hs, h1, h2, h⟩
  · obtain ⟨n1, n2, _⟩ := scalar_not_bracket hs
    rw [if_neg n2, if_neg n1]
    by_cases hq : p.c = ch_quote
    · have : p.parse_value .finish = (.finish, p.write_string) := by simp [parse_value, hq]
      rw [if_pos hq, this]; rfl
    · rw [if_neg hq]
      by_cases ha : is_atom_start p.c = true
      · have : p.parse_value .finish = (.finish, p.write_atom) := by
          simp [parse_value, hq, ha]
        rw [if_pos ha, this]; rfl
      · have hn : is_number_start p.c = true := by
          rcases is_scalar_start_cases hs with h | h | h
          · exact absurd h hq
          · exact absurd h ha
          · exact h
        have : p.parse_value .finish = (.finish, p.write_number) := by
          simp [parse_value, hq, ha, hn]
        rw [if_neg ha, if_pos hn, this]; rfl
  · have hd2 : (p.push_scope .finish).1 = false := by
      simp only [push_scope, ge_iff_le, decide_eq_false_iff_not]
      show ¬ p.pj.depth_capacity ≤ p.depth + 1
      omega
    rcases hb with hb | hb
    · simp [h, hd2, hb, GOTO]
    · simp [h, hd2, hb, GOTO]
  · have hd2 : (p.push_scope .finish).1 = true := by
      simp only [push_scope, ge_iff_le, decide_eq_true_eq]
      exact hd
    rcases hb with hb | hb
    · simp [h, hd2, hb, GOTO]
    · simp [h, hd2, hb, GOTO]
  · have hq : ¬ p.c = ch_quote := by
      intro hq; simp [is_scalar_start, hq] at hs
    have ha : ¬ is_atom_start p.c = true := by
      intro ha; simp [is_scalar_start, ha] at hs
    have hn : ¬ is_number_start p.c = true := by
      intro hn; simp [is_scalar_start, hn] at hs
    rw [if_neg h2, if_neg h1, if_neg hq, if_neg ha, if_neg hn, h]; rfl

theorem walk_start_facts (buf : Nat → Nat) (len : Nat) (pj1 : ParsedJson)
    (h0 : pj1.current_loc = 0) :
    (walk_start buf len pj1).i = 1 ∧
    (walk_start buf len pj1).c = structural_byte buf pj1 0 ∧
    (walk_start buf len pj1).depth = 1 ∧
    (walk_start buf len pj1).pj.depth_capacity = pj1.depth_capacity ∧
    (walk_start buf len pj1).pj.n_structural_indexes = pj1.n_structural_indexes ∧
    (walk_start buf len pj1).pj.structural_indexes = pj1.structural_indexes ∧
    (walk_start buf len pj1).pj.containing_scope_offset 0 = 0 ∧
    (walk_start buf len pj1).pj.ret_address 0 = .finish ∧
    (walk_start buf len pj1).pj.valid = pj1.valid ∧
    (walk_start buf len pj1).pj.tape 0 = ⟨0, ch_r⟩ ∧
    (walk_start buf len pj1).pj.current_loc = 1 ∧
    (walk_start buf len pj1).len = len ∧
    (walk_start buf len pj1).log
      = [Event.read 0 (pj1.structural_indexes 0), Event.push 0 0] := by
  simp [walk_start, push_start_scope, read_next, ParsedJson.write_tape,
    ParsedJson.get_current_loc, h0, structural_byte]

theorem parse_structurals_eq (buf : Nat → Nat) (len : Nat) (pj1 : ParsedJson)
    (hn : 1 ≤ pj1.n_structural_indexes) :
    parse_structurals buf len pj1 =
      if pj1.depth_capacity ≤ 1 then
        ⟨.returned .DEPTH_ERROR,
          { (walk_start buf len pj1).pj with error_code := .DEPTH_ERROR },
          (walk_start buf len pj1).log⟩
      else conclude (walk buf (walk_fuel pj1) (first_value (walk_start buf len pj1))) := by
  have hadv : advance_char buf ⟨len, pj1, 0, 0, 0, 0, []⟩
      = some (read_next buf ⟨len, pj1, 0, 0, 0, 0, []⟩) := by
    unfold advance_char
    rw [if_pos]
    show 0 < pj1.n_structural_indexes
    omega
  unfold parse_structurals start walk_start
  simp only [hadv]
  by_cases hd : pj1.depth_capacity ≤ 1
  · simp [hd, push_start_scope, set_error_code, ParsedJson.write_tape]
  · simp [hd, push_start_scope, set_error_code, ParsedJson.write_tape]

/-- When the length fits and the pre-pass finds no error, `unified_machine` is `start`,
the first switch, the walk and its conclusion. -/
theorem unified_machine_eq (D : ScalarDecoders) (buf : Nat → Nat) (len : Nat) (pj : ParsedJson)
    (hcap : len ≤ pj.byte_capacity) (hpre : prepass_ok D buf len pj) :
    unified_machine D buf len pj = parse_structurals buf len (walk_pj D buf len pj) := by
  obtain ⟨h1, h2, h3⟩ := hpre
  have hcap' : ¬ len > pj.init.byte_capacity := by
    show ¬ len > pj.byte_capacity
    omega
  unfold unified_machine walk_pj
  rw [if_neg hcap', if_neg (by rw [h1]; simp), if_neg (by rw [h2]; simp),
    if_neg (by rw [h3]; simp)]

end simdjson

namespace simdjson
open StructuralParser

/-! ## Acceptance -/

theorem error_ne_success (p : StructuralParser) : p.error.1 ≠ .SUCCESS := by
  unfold StructuralParser.error set_error_code
  repeat' split
  all_goals simp

/-- `finish` returns `SUCCESS` exactly when only the sentinel is left, the root scope is
the one being closed and its recorded tape offset is zero. -/
theorem finish_success (p : StructuralParser) :
    p.finish.1 = .SUCCESS ↔
      p.i + 1 = p.pj.n_structural_indexes ∧ p.depth - 1 = 0 ∧
        p.pj.containing_scope_offset (p.depth - 1) = 0 := by
  unfold StructuralParser.finish
  by_cases h1 : p.i + 1 = p.pj.n_structural_indexes
  · by_cases h2 : p.depth - 1 = 0
    · by_cases h3 : p.pj.containing_scope_offset 0 = 0
      · simp [h1, h2, h3, pop_root_scope, set_error_code, ParsedJson.write_tape,
          ParsedJson.annotate_previous_loc]
      · simp [h1, h2, h3, pop_root_scope, set_error_code, ParsedJson.write_tape,
          ParsedJson.annotate_previous_loc]
    · simp [h1, h2, pop_root_scope, set_error_code, ParsedJson.write_tape,
        ParsedJson.annotate_previous_loc]
  · simp [h1, set_error_code]

theorem conclude_success (cfg : Label × StructuralParser) :
    (conclude cfg).outcome = .returned .SUCCESS ↔
      cfg.1 = .finish ∧ cfg.2.i + 1 = cfg.2.pj.n_structural_indexes ∧ cfg.2.depth - 1 = 0 ∧
        cfg.2.pj.containing_scope_offset (cfg.2.depth - 1) = 0 := by
  obtain ⟨L, p⟩ := cfg
  cases L <;> simp [conclude, finish_success, error_ne_success]

/-- A walk that has ended within `s` transitions is where it ends for every number of
transitions that reaches the termination measure. -/
theorem walk_eq_of_terminal (buf : Nat → Nat) (s t : Nat) (cfg : Label × StructuralParser)
    (h : (walk buf s cfg).1.terminal = true) (ht : walk_measure cfg ≤ t) :
    walk buf t cfg = walk buf s cfg := by
  rcases Nat.le_total s t with hst | hst
  · exact walk_stable buf s t cfg h hst
  · exact (walk_stable buf t s cfg (walk_ends buf t cfg ht) hst).symm

theorem first_value_measure (p : StructuralParser) (hi : 1 ≤ p.i) :
    walk_measure (first_value p) ≤ walk_fuel p.pj := by
  rw [first_value_eq]
  have h1 := weight_GOTO (p.parse_value .finish).1
  have h2 := parse_value_pos p .finish
  simp only [walk_measure, walk_fuel, h2.1, h2.2]
  omega

theorem accepts_of_success (buf : Nat → Nat) (t : Nat) (cfg : Label × StructuralParser)
    (h : (conclude (walk buf t cfg)).outcome = .returned .SUCCESS) : Accepts buf t cfg :=
  ⟨((conclude_success _).1 h).1, ((conclude_success _).1 h).2.1⟩

/-- From the state after `start`, the walk ends in `SUCCESS` exactly when the structural
bytes spell one value whose nesting fits the depth capacity. -/
theorem walk_success_iff (buf : Nat → Nat) (p : StructuralParser)
    (hi : p.i = 1) (hc : p.c = structural_byte buf p.pj 0) (hd : p.depth = 1)
    (hcso : p.pj.containing_scope_offset 0 = 0) (hn : 2 ≤ p.pj.n_structural_indexes)
    (hcap : 1 < p.pj.depth_capacity) :
    (conclude (walk buf (walk_fuel p.pj) (first_value p))).outcome = .returned .SUCCESS ↔
      ∃ k, Spells .value k (seg buf p.pj 0 (p.pj.n_structural_indexes - 1)) ∧
        k + 1 < p.pj.depth_capacity := by
  constructor
  · intro h
    have hacc := accepts_of_success buf _ _ h
    rw [first_value_eq] at hacc
    have hW := walk_complete buf (walk_fuel p.pj)
    obtain ⟨m, k, s, q, hs, hsp, hdk, hw, hr⟩ :=
      value_complete_of buf _ hW.2.2.1 hW.2.2.2.2.1 p .finish hacc (by omega)
        (by rw [hc, hi]) (by omega)
    have hfin : walk buf (walk_fuel p.pj)
        (GOTO (p.parse_value .finish).1, (p.parse_value .finish).2) = (.finish, q) := by
      rw [walk_stable buf s _ _ (by rw [hw]; rfl) hs, hw]; rfl
    have hqi := hacc.2
    rw [hfin] at hqi
    simp only at hqi
    rw [hr.1, hr.2.2.1.2.1, hi] at hqi
    refine ⟨k, ?_, by omega⟩
    have e : p.pj.n_structural_indexes - 1 = m + 1 := by omega
    rw [e]
    rw [hi] at hsp
    exact hsp
  · rintro ⟨k, hsp, hk⟩
    have hlen : (seg buf p.pj 0 (p.pj.n_structural_indexes - 1)).length
        = p.pj.n_structural_indexes - 1 := seg_length _ _ _ _
    obtain ⟨s, q, hw, hr⟩ := walk_sound buf hsp p .finish 0 (by omega) hc
      (by rw [hlen]) (by rw [hlen]; omega) (by omega)
    rw [hlen] at hr
    have hfin : walk buf (walk_fuel p.pj) (first_value p) = (.finish, q) := by
      rw [walk_eq_of_terminal buf s _ _ (by rw [first_value_eq, hw]; rfl)
        (first_value_measure p (by omega)), first_value_eq, hw]
      rfl
    rw [hfin, conclude_success]
    refine ⟨rfl, ?_, ?_, ?_⟩
    · show q.i + 1 = q.pj.n_structural_indexes
      rw [hr.1, hr.2.2.1.2.1, hi]; omega
    · show q.depth - 1 = 0
      rw [hr.2.1, hd]
    · show q.pj.containing_scope_offset (q.depth - 1) = 0
      rw [hr.2.1, hd, hr.2.2.2.2 0 (by omega)]
      exact hcso

end simdjson

namespace simdjson
open StructuralParser

/-! ## Balance of the grammar -/

theorem open_depth_from_append (d : Nat) (a b : List Nat) :
    open_depth_from d (a ++ b) = open_depth_from (open_depth_from d a) b := by
  simp [open_depth_from, List.foldl_append]

theorem open_depth_from_cons (d c : Nat) (a : List Nat) :
    open_depth_from d (c :: a) = open_depth_from (open_depth_step d c) a := rfl

theorem open_depth_from_nil (d : Nat) : open_depth_from d [] = d := rfl

/-- Every phrase of the grammar closes the containers it opens. -/
theorem spells_balanced {cat : Category} {k : Nat} {ws : List Nat} (h : Spells cat k ws) :
    ∀ d, open_depth_from d ws = d := by
  induction h with
  | scalar c hs =>
    intro d
    obtain ⟨n1, n2, n3, n4, _⟩ := scalar_not_bracket hs
    simp [open_depth_from_cons, open_depth_from_nil, open_depth_step, n1, n2, n3, n4]
  | empty_array => intro d; simp [open_depth_from, open_depth_step]
  | array k ws _ ih =>
    intro d
    rw [open_depth_from_cons, open_depth_from_append, ih]
    simp [open_depth_from, open_depth_step]
  | empty_object => intro d; simp [open_depth_from, open_depth_step]
  | object k ws _ ih =>
    intro d
    rw [open_depth_from_cons, open_depth_from_append, ih]
    simp [open_depth_from, open_depth_step]
  | element k ws _ ih => exact ih
  | elements k m ws ws1 _ _ ih ih1 =>
    intro d
    rw [open_depth_from_append, ih, open_depth_from_cons]
    simp only [open_depth_step, ch_comma, ch_lbracket, ch_lbrace, ch_rbracket, ch_rbrace]
    simpa using ih1 d
  | member k ws _ ih =>
    intro d
    rw [open_depth_from_cons, open_depth_from_cons]
    simp only [open_depth_step, ch_quote, ch_colon, ch_lbracket, ch_lbrace, ch_rbracket,
      ch_rbrace]
    simpa using ih d
  | members k m ws ws1 _ _ ih ih1 =>
    intro d
    rw [open_depth_from_cons, open_depth_from_cons, open_depth_from_append, open_depth_from_cons]
    simp only [open_depth_step, ch_quote, ch_colon, ch_comma, ch_lbracket, ch_lbrace,
      ch_rbracket, ch_rbrace]
    simp only [Nat.reduceEqDiff, or_self, if_false]
    rw [ih, ih1]

/-! ## The end of `unified_machine` -/

theorem had_error_result_fst (b : Bool) (pj : ParsedJson) (code : ErrorValues)
    (h : (had_error_result b pj code).1 ≠ .SUCCESS) :
    (had_error_result b pj code).2.error_code = code ∧
      (had_error_result b pj code).2.valid = pj.valid := by
  unfold had_error_result at *
  cases b <;> simp_all

theorem parse_value_flags (p : StructuralParser) (k : ret_address) :
    (p.parse_value k).2.pj.valid = p.pj.valid ∧
      (p.parse_value k).2.pj.error_code = p.pj.error_code := by
  rcases parse_value_cases p k with ⟨_, h | h | h⟩ | ⟨_, _, h⟩ | ⟨_, _, h⟩ | ⟨_, _, _, h⟩ <;>
    rw [h] <;> exact ⟨rfl, rfl⟩

theorem finish_valid (p : StructuralParser) (h : p.finish.1 ≠ .SUCCESS) :
    p.finish.2.pj.valid = p.pj.valid := by
  have hs := finish_success p
  unfold StructuralParser.finish at *
  by_cases h1 : p.i + 1 = p.pj.n_structural_indexes
  · by_cases h2 : p.depth - 1 = 0
    · by_cases h3 : p.pj.containing_scope_offset 0 = 0
      · exfalso
        apply h
        rw [hs]
        exact ⟨h1, h2, by rw [h2]; exact h3⟩
      · simp [h1, h2, h3, pop_root_scope, set_error_code, ParsedJson.write_tape,
          ParsedJson.annotate_previous_loc]
    · simp [h1, h2, pop_root_scope, set_error_code, ParsedJson.write_tape,
        ParsedJson.annotate_previous_loc]
  · simp [h1, set_error_code]

theorem error_valid (p : StructuralParser) : p.error.2.pj.valid = p.pj.valid := by
  unfold StructuralParser.error set_error_code
  repeat' split
  all_goals rfl

theorem conclude_valid (cfg : Label × StructuralParser)
    (h : (conclude cfg).outcome ≠ .returned .SUCCESS) :
    (conclude cfg).pj.valid = cfg.2.pj.valid := by
  obtain ⟨L, p⟩ := cfg
  cases L
  case finish =>
    simp only [conclude] at h ⊢
    exact finish_valid p (fun hh => h (by rw [hh]))
  case error => simp only [conclude]; exact error_valid p
  all_goals rfl

/-- Unless it returns `SUCCESS`, the second half of `unified_machine` leaves the valid
flag as it found it. -/
theorem parse_structurals_valid (buf : Nat → Nat) (len : Nat) (pj1 : ParsedJson)
    (hn : 1 ≤ pj1.n_structural_indexes) (h0 : pj1.current_loc = 0)
    (h : (parse_structurals buf len pj1).outcome ≠ .returned .SUCCESS) :
    (parse_structurals buf len pj1).pj.valid = pj1.valid := by
  rw [parse_structurals_eq buf len pj1 hn] at h ⊢
  have hs := walk_start_facts buf len pj1 h0
  by_cases hd : pj1.depth_capacity ≤ 1
  · rw [if_pos hd]
    exact hs.2.2.2.2.2.2.2.2.1
  · rw [if_neg hd] at h ⊢
    rw [conclude_valid _ h, (walk_flags buf _ _).1, first_value_eq,
      (parse_value_flags _ _).1]
    exact hs.2.2.2.2.2.2.2.2.1

end simdjson

namespace simdjson
open StructuralParser

/-! ## Acceptance, the grammar and the open containers -/

/-- C1. For every structural index with at least two entries, every length within the
byte capacity and every input whose strings, numbers and atoms pass the scalar
pre-pass, `unified_machine` returns `SUCCESS` if and only if the bytes at the
non-sentinel structural offsets spell exactly one value of the grammar
`value := scalar | '[' ']' | '[' value (',' value)* ']' | '{' '}' |
'{' string ':' value (',' string ':' value)* '}'` and the container nesting `k` of that
value satisfies `k + 1 < depth_capacity`. -/
theorem unified_machine_success_iff_grammar (D : ScalarDecoders) (buf : Nat → Nat) (len : Nat)
    (pj : ParsedJson) (hn : 2 ≤ pj.n_structural_indexes) (hcap : len ≤ pj.byte_capacity)
    (hpre : prepass_ok D buf len pj) :
    (unified_machine D buf len pj).outcome = .returned .SUCCESS ↔
      ∃ k, Spells .value k (structural_bytes buf pj) ∧ k + 1 < pj.depth_capacity := by
  obtain ⟨_, a2, a3, a4, a5, _⟩ := walk_pj_keeps D buf len pj
  rw [unified_machine_eq D buf len pj hcap hpre, parse_structurals_eq _ _ _ (by omega)]
  obtain ⟨b1, b2, b3, b4, b5, b6, b7, _⟩ := walk_start_facts buf len (walk_pj D buf len pj) a5
  have hseg : seg buf (walk_start buf len (walk_pj D buf len pj)).pj 0
      ((walk_start buf len (walk_pj D buf len pj)).pj.n_structural_indexes - 1)
      = structural_bytes buf pj := by
    rw [structural_bytes_eq_seg, b5, a3]
    simp [seg, structural_byte, b6, a4]
  by_cases hd : (walk_pj D buf len pj).depth_capacity ≤ 1
  · rw [if_pos hd]
    constructor
    · intro h; simp at h
    · rintro ⟨k, _, hk⟩; omega
  · rw [if_neg hd]
    have hfuel : walk_fuel (walk_pj D buf len pj)
        = walk_fuel (walk_start buf len (walk_pj D buf len pj)).pj := by
      simp [walk_fuel, b5]
    rw [hfuel, walk_success_iff buf _ b1 (by rw [b2]; simp [structural_byte, b6]) b3 b7
      (by rw [b5, a3]; exact hn) (by rw [b4]; omega), hseg, b4, a2]

/-- C1, on a sample: the document `[1,[2,3],[]]` with depth capacity 1024. -/
theorem unified_machine_success_iff_grammar_witness :
    (2 ≤ (fresh_workspace (dense_index 12) 1000 1024).n_structural_indexes ∧
      12 ≤ (fresh_workspace (dense_index 12) 1000 1024).byte_capacity ∧
      prepass_ok sample_decoders (buffer_of (bytes_of "[1,[2,3],[]]") 0) 12
        (fresh_workspace (dense_index 12) 1000 1024)) ∧
    ((unified_machine sample_decoders (buffer_of (bytes_of "[1,[2,3],[]]") 0) 12
        (fresh_workspace (dense_index 12) 1000 1024)).outcome = .returned .SUCCESS ↔
      ∃ k, Spells .value k (structural_bytes (buffer_of (bytes_of "[1,[2,3],[]]") 0)
        (fresh_workspace (dense_index 12) 1000 1024)) ∧
        k + 1 < (fresh_workspace (dense_index 12) 1000 1024).depth_capacity) :=
  ⟨⟨by decide, by decide, by unfold prepass_ok; decide⟩,
    unified_machine_success_iff_grammar sample_decoders _ 12 _ (by decide) (by decide)
      (by unfold prepass_ok; decide)⟩

end simdjson

namespace simdjson
open StructuralParser

theorem had_error_result_code (b : Bool) (pj : ParsedJson) (code : ErrorValues)
    (h : (had_error_result b pj code).1 ≠ .SUCCESS) :
    (had_error_result b pj code).2.error_code = code := by
  unfold had_error_result at *
  cases b <;> simp_all

theorem parse_strings_code (D : ScalarDecoders) (buf : Nat → Nat) (pj : ParsedJson) (i : Nat)
    (h : (parse_strings D buf pj i).1 ≠ .SUCCESS) :
    (parse_strings D buf pj i).2.error_code = .STRING_ERROR :=
  had_error_result_code _ _ _ h

theorem parse_numbers_code (D : ScalarDecoders) (buf : Nat → Nat) (len : Nat) (pj : ParsedJson)
    (i : Nat) (h : (parse_numbers D buf len pj i).1 ≠ .SUCCESS) :
    (parse_numbers D buf len pj i).2.error_code = .NUMBER_ERROR :=
  had_error_result_code _ _ _ h

theorem parse_atoms_code (D : ScalarDecoders) (buf : Nat → Nat) (len : Nat) (pj : ParsedJson)
    (i : Nat) (h : (parse_atoms D buf len pj i).1 ≠ .SUCCESS) :
    (parse_atoms D buf len pj i).2.error_code = .N_ATOM_ERROR :=
  had_error_result_code _ _ _ h

/-- The four ways `unified_machine` can go: the length exceeds the capacity, one of the
three pre-pass functions fails, or the structural walk runs. -/
theorem unified_machine_cases (D : ScalarDecoders) (buf : Nat → Nat) (len : Nat)
    (pj : ParsedJson) :
    (pj.byte_capacity < len ∧ (unified_machine D buf len pj).outcome = .returned .CAPACITY ∧
      (unified_machine D buf len pj).pj.valid = false ∧
      (unified_machine D buf len pj).log = []) ∨
    (len ≤ pj.byte_capacity ∧ ¬ prepass_ok D buf len pj ∧
      ((unified_machine D buf len pj).outcome = .returned .STRING_ERROR ∨
        (unified_machine D buf len pj).outcome = .returned .NUMBER_ERROR ∨
        (unified_machine D buf len pj).outcome = .returned .N_ATOM_ERROR) ∧
      (unified_machine D buf len pj).pj.valid = false ∧
      (unified_machine D buf len pj).log = []) ∨
    (len ≤ pj.byte_capacity ∧ prepass_ok D buf len pj ∧
      unified_machine D buf len pj = parse_structurals buf len (walk_pj D buf len pj)) := by
  by_cases hcap : len ≤ pj.byte_capacity
  · by_cases hpre : prepass_ok D buf len pj
    · right; right
      exact ⟨hcap, hpre, unified_machine_eq D buf len pj hcap hpre⟩
    · right; left
      refine ⟨hcap, hpre, ?_⟩
      have hcap' : ¬ len > pj.init.byte_capacity := by
        show ¬ len > pj.byte_capacity
        omega
      have k1 := (parse_strings_keeps D buf pj.init 0).2.2.2.2.2.2.2.2
      have k2 := (parse_numbers_keeps D buf len (parse_strings D buf pj.init 0).2 0).2.2.2.2.2.2.2.2
      have k3 := (parse_atoms_keeps D buf len
        (parse_numbers D buf len (parse_strings D buf pj.init 0).2 0).2 0).2.2.2.2.2.2.2.2
      have c1 := parse_strings_code D buf pj.init 0
      have c2 := parse_numbers_code D buf len (parse_strings D buf pj.init 0).2 0
      have c3 := parse_atoms_code D buf len
        (parse_numbers D buf len (parse_strings D buf pj.init 0).2 0).2 0
      have hv0 : pj.init.valid = false := rfl
      unfold prepass_ok at hpre
      unfold unified_machine
      rw [if_neg hcap']
      generalize parse_atoms D buf len
        (parse_numbers D buf len (parse_strings D buf pj.init 0).2 0).2 0 = r3 at *
      generalize parse_numbers D buf len (parse_strings D buf pj.init 0).2 0 = r2 at *
      generalize parse_strings D buf pj.init 0 = r1 at *
      generalize pj.init = pj0 at *
      by_cases h1 : r1.1 = .SUCCESS
      · rw [if_neg (by rw [h1]; simp)]
        by_cases h2 : r2.1 = .SUCCESS
        · rw [if_neg (by rw [h2]; simp)]
          by_cases h3 : r3.1 = .SUCCESS
          · exact absurd ⟨h1, h2, h3⟩ hpre
          · rw [if_pos h3]
            exact ⟨Or.inr (Or.inr (by simp only [c3 h3])), by simp only [k3, k2, k1, hv0], rfl⟩
        · rw [if_pos h2]
          exact ⟨Or.inr (Or.inl (by simp only [c2 h2])), by simp only [k2, k1, hv0], rfl⟩
      · rw [if_pos h1]
        exact ⟨Or.inl (by simp only [c1 h1]), by simp only [k1, hv0], rfl⟩
  · left
    have hcap' : len > pj.init.byte_capacity := by
      show len > pj.byte_capacity
      omega
    refine ⟨by omega, ?_⟩
    unfold unified_machine
    rw [if_pos hcap']
    exact ⟨rfl, rfl, rfl⟩

/-- Whenever `unified_machine` does not return `SUCCESS`, it leaves the parser not
valid. -/
theorem unified_machine_not_valid (D : ScalarDecoders) (buf : Nat → Nat) (len : Nat)
    (pj : ParsedJson) (hn : 1 ≤ pj.n_structural_indexes)
    (h : (unified_machine D buf len pj).outcome ≠ .returned .SUCCESS) :
    (unified_machine D buf len pj).pj.valid = false := by
  rcases unified_machine_cases D buf len pj with ⟨_, _, hv, _⟩ | ⟨_, _, _, hv, _⟩ | ⟨_, _, he⟩
  · exact hv
  · exact hv
  · obtain ⟨_, _, a3, _, a5, a6⟩ := walk_pj_keeps D buf len pj
    rw [he] at h ⊢
    rw [parse_structurals_valid buf len _ (by omega) a5 h, a6]

/-- C2. For every input whose structural bytes leave at least one array or object
unclosed at the end of input, whatever the padding bytes after the input are (the
buffer is arbitrary), `unified_machine` does not return `SUCCESS` and leaves the
parser not valid. -/
theorem unclosed_container_rejected (D : ScalarDecoders) (buf : Nat → Nat) (len : Nat)
    (pj : ParsedJson) (hn : 2 ≤ pj.n_structural_indexes)
    (hopen : 0 < open_depth (structural_bytes buf pj)) :
    (unified_machine D buf len pj).outcome ≠ .returned .SUCCESS ∧
      (unified_machine D buf len pj).pj.valid = false := by
  have hne : (unified_machine D buf len pj).outcome ≠ .returned .SUCCESS := by
    intro hs
    rcases unified_machine_cases D buf len pj with ⟨_, ho, _⟩ | ⟨_, _, ho, _⟩ | ⟨hcap, hpre, _⟩
    · rw [ho] at hs; cases hs
    · rcases ho with ho | ho | ho <;> rw [ho] at hs <;> cases hs
    · obtain ⟨k, hsp, _⟩ := (unified_machine_success_iff_grammar D buf len pj hn hcap hpre).1 hs
      have := spells_balanced hsp 0
      unfold open_depth at hopen
      omega
  exact ⟨hne, unified_machine_not_valid D buf len pj (by omega) hne⟩

/-- C2, on the document of the test `bad_example` (issue 345), with a comma as padding. -/
theorem unclosed_container_rejected_witness :
    (2 ≤ (fresh_workspace (dense_index 63) 1000 1024).n_structural_indexes ∧
      0 < open_depth (structural_bytes
        (buffer_of (bytes_of "[7,7,7,7,6,7,7,7,6,7,7,6,[7,7,7,7,6,7,7,7,6,7,7,6,7,7,7,7,7,7,6") 44)
        (fresh_workspace (dense_index 63) 1000 1024))) ∧
    ((unified_machine sample_decoders
        (buffer_of (bytes_of "[7,7,7,7,6,7,7,7,6,7,7,6,[7,7,7,7,6,7,7,7,6,7,7,6,7,7,7,7,7,7,6") 44)
        63 (fresh_workspace (dense_index 63) 1000 1024)).outcome ≠ .returned .SUCCESS ∧
      (unified_machine sample_decoders
        (buffer_of (bytes_of "[7,7,7,7,6,7,7,7,6,7,7,6,[7,7,7,7,6,7,7,7,6,7,7,6,7,7,7,7,7,7,6") 44)
        63 (fresh_workspace (dense_index 63) 1000 1024)).pj.valid = false) :=
  ⟨⟨by decide, by decide⟩,
    unclosed_container_rejected sample_decoders _ 63 _ (by decide) (by decide)⟩

end simdjson

namespace simdjson
open StructuralParser

/-! ## The invariant of the walk -/

theorem inv_read (buf : Nat → Nat) (p : StructuralParser) (h : StateInv p) :
    StateInv (p.read_next buf) := by
  obtain ⟨h1, h2, h3, h4, h5, h6, h7, h8, h9, h10, h11⟩ := h
  refine ⟨h1, h2, h3, h4, h5, h6, h7, h8, h9, ?_, ?_⟩
  · intro slot s e hm
    simp only [read_next_log, List.mem_append, List.mem_singleton] at hm
    rcases hm with hm | hm
    · exact h10 slot s e hm
    · cases hm
  · intro slot loc hm
    simp only [read_next_log, List.mem_append, List.mem_singleton] at hm
    rcases hm with hm | hm
    · exact h11 slot loc hm
    · cases hm

/-- Appending entries at the tape location keeps the invariant. -/
theorem inv_of_append (p q : StructuralParser) (h : StateInv p)
    (hd : q.depth = p.depth) (hcap : q.pj.depth_capacity = p.pj.depth_capacity)
    (hret : q.pj.ret_address = p.pj.ret_address)
    (hcso : q.pj.containing_scope_offset = p.pj.containing_scope_offset)
    (hloc : p.pj.current_loc ≤ q.pj.current_loc)
    (htape : ∀ x, x < p.pj.current_loc → q.pj.tape x = p.pj.tape x)
    (hlog : q.log = p.log) : StateInv q := by
  obtain ⟨h1, h2, h3, h4, h5, h6, h7, h8, h9, h10, h11⟩ := h
  have hpos : 0 < p.pj.current_loc := by
    have := h8 0 (by omega)
    omega
  refine ⟨by omega, by omega, by rw [hret]; exact h3, by rw [hret, hd]; exact h4,
    by rw [hret, hd]; exact h5, by rw [hcso]; exact h6, by rw [hcso, hd]; exact h7, ?_, ?_, ?_, ?_⟩
  · intro x hx
    rw [hcso]
    have := h8 x (by omega)
    omega
  · rw [htape 0 hpos]; exact h9
  · intro slot s e hm
    rw [hlog] at hm
    obtain ⟨a1, a2, a3, a4, a5, a6, a7⟩ := h10 slot s e hm
    refine ⟨a1, by omega, a3, by omega, ?_, ?_, ?_⟩
    · rw [htape e a4]; exact a5
    · rw [htape s (by omega)]; exact a6
    · rw [hcso, hd]; exact a7
  · intro slot loc hm
    rw [hlog] at hm
    rw [hcap]
    exact h11 slot loc hm

theorem inv_write_string (p : StructuralParser) (h : StateInv p) : StateInv p.write_string := by
  refine inv_of_append p _ h rfl rfl rfl rfl ?_ ?_ rfl
  · show p.pj.current_loc ≤ p.pj.current_loc + 1
    omega
  · intro x hx
    show Function.update p.pj.tape p.pj.current_loc _ x = _
    rw [Function.update_noteq (by omega)]

theorem inv_write_atom (p : StructuralParser) (h : StateInv p) : StateInv p.write_atom := by
  refine inv_of_append p _ h rfl rfl rfl rfl ?_ ?_ rfl
  · show p.pj.current_loc ≤ p.pj.current_loc + 1
    omega
  · intro x hx
    show Function.update p.pj.tape p.pj.current_loc _ x = _
    rw [Function.update_noteq (by omega)]

theorem inv_write_number (p : StructuralParser) (h : StateInv p) : StateInv p.write_number := by
  refine inv_of_append p _ h rfl rfl rfl rfl ?_ ?_ rfl
  · show p.pj.current_loc ≤ p.pj.current_loc + 1 + 1
    omega
  · intro x hx
    show Function.update (Function.update p.pj.tape p.pj.current_loc _)
      (p.pj.current_loc + 1) _ x = _
    rw [Function.update_noteq (by omega), Function.update_noteq (by omega)]

theorem push_scope_log (p : StructuralParser) (k : ret_address) :
    (p.push_scope k).2.log = p.log ++ [Event.push p.depth p.pj.current_loc] := rfl

theorem push_scope_tape (p : StructuralParser) (k : ret_address) :
    (p.push_scope k).2.pj.tape = Function.update p.pj.tape p.pj.current_loc ⟨0, p.c⟩ := rfl

theorem push_scope_loc (p : StructuralParser) (k : ret_address) :
    (p.push_scope k).2.pj.current_loc = p.pj.current_loc + 1 := rfl

/-- A push that stays below the capacity keeps the invariant, when the continuation is
`finish` for the root container and `array_continue` or `object_continue` below. -/
theorem inv_push (p : StructuralParser) (k : ret_address) (h : StateInv p)
    (hd : p.depth + 1 < p.pj.depth_capacity)
    (hk : (k = .finish ∧ p.depth = 1) ∨
      ((k = .array_continue ∨ k = .object_continue) ∧ 2 ≤ p.depth)) :
    StateInv (p.push_scope k).2 := by
  obtain ⟨h1, h2, h3, h4, h5, h6, h7, h8, h9, h10, h11⟩ := h
  have hpos : 0 < p.pj.current_loc := by
    have := h8 0 (by omega)
    omega
  refine ⟨?_, ?_, ?_, ?_, ?_, ?_, ?_, ?_, ?_, ?_, ?_⟩
  · simp
  · simpa using hd
  · rw [push_scope_ret, Function.update_noteq (by omega)]; exact h3
  · intro _
    rw [push_scope_ret]
    rcases hk with ⟨hk, hd1⟩ | ⟨_, hd2⟩
    · rw [hd1, hk]; simp
    · rw [Function.update_noteq (by omega)]; exact h4 hd2
  · intro x hx2 hx
    rw [push_scope_ret]
    simp only [push_scope_depth] at hx
    by_cases hxd : x = p.depth
    · subst hxd
      rw [Function.update_same]
      rcases hk with ⟨_, hd1⟩ | ⟨hk, _⟩
      · omega
      · exact hk
    · rw [Function.update_noteq hxd]
      exact h5 x hx2 (by omega)
  · rw [push_scope_cso, Function.update_noteq (by omega)]; exact h6
  · intro x y hxy hy
    rw [push_scope_cso]
    simp only [push_scope_depth] at hy
    by_cases hyd : y = p.depth
    · subst hyd
      rw [Function.update_same, Function.update_noteq (by omega)]
      exact h8 x hxy
    · rw [Function.update_noteq hyd, Function.update_noteq (by omega)]
      exact h7 x y hxy (by omega)
  · intro x hx
    rw [push_scope_cso, push_scope_loc]
    simp only [push_scope_depth] at hx
    by_cases hxd : x = p.depth
    · subst hxd; rw [Function.update_same]; omega
    · rw [Function.update_noteq hxd]
      have := h8 x (by omega)
      omega
  · rw [push_scope_tape, Function.update_noteq (by omega)]; exact h9
  · intro slot s e hm
    rw [push_scope_log] at hm
    simp only [List.mem_append, List.mem_singleton] at hm
    rcases hm with hm | hm
    · obtain ⟨a1, a2, a3, a4, a5, a6, a7⟩ := h10 slot s e hm
      refine ⟨a1, a2, a3, by rw [push_scope_loc]; omega, ?_, ?_, ?_⟩
      · rw [push_scope_tape, Function.update_noteq (by omega)]; exact a5
      · rw [push_scope_tape, Function.update_noteq (by omega)]; exact a6
      · intro x hx
        rw [push_scope_cso]
        simp only [push_scope_depth] at hx
        by_cases hxd : x = p.depth
        · subst hxd; rw [Function.update_same]; right; exact a4
        · rw [Function.update_noteq hxd]; exact a7 x (by omega)
    · cases hm
  · intro slot loc hm
    rw [push_scope_log] at hm
    simp only [List.mem_append, List.mem_singleton] at hm
    rcases hm with hm | hm
    · exact h11 slot loc hm
    · cases hm
      exact hd

theorem inv_push_fail (p : StructuralParser) (k : ret_address) (h : StateInv p)
    (hd : p.pj.depth_capacity ≤ p.depth + 1) : DepthExceeded (p.push_scope k).2 := by
  have h2 := h.2.1
  refine ⟨by simp only [push_scope_depth, push_scope_cap]; omega, p.pj.current_loc, ?_⟩
  rw [push_scope_log]
  simp

theorem pop_scope_log (p : StructuralParser) :
    p.pop_scope.2.log = p.log ++
      [Event.pop (p.depth - 1) (p.pj.containing_scope_offset (p.depth - 1)) p.pj.current_loc] :=
  rfl

theorem pop_scope_tape (p : StructuralParser) :
    p.pop_scope.2.pj.tape =
      Function.update
        (Function.update p.pj.tape p.pj.current_loc
          ⟨p.pj.containing_scope_offset (p.depth - 1), p.c⟩)
        (p.pj.containing_scope_offset (p.depth - 1))
        ⟨p.pj.current_loc + 1,
          (Function.update p.pj.tape p.pj.current_loc
            ⟨p.pj.containing_scope_offset (p.depth - 1), p.c⟩
            (p.pj.containing_scope_offset (p.depth - 1))).kind⟩ := rfl

theorem pop_scope_loc (p : StructuralParser) :
    p.pop_scope.2.pj.current_loc = p.pj.current_loc + 1 := rfl

/-- Closing a scope other than the root keeps the invariant. -/
theorem inv_pop (p : StructuralParser) (h : StateInv p) (hd : 2 ≤ p.depth) :
    StateInv p.pop_scope.2 := by
  obtain ⟨h1, h2, h3, h4, h5, h6, h7, h8, h9, h10, h11⟩ := h
  have hs := h8 (p.depth - 1) (by omega)
  have hs0 : 0 < p.pj.containing_scope_offset (p.depth - 1) := by
    have := h7 0 (p.depth - 1) (by omega) (by omega)
    omega
  refine ⟨?_, ?_, h3, ?_, ?_, h6, ?_, ?_, ?_, ?_, ?_⟩
  · simp only [pop_scope_depth]; omega
  · simp only [pop_scope_depth, pop_scope_cap]; omega
  · intro hh
    simp only [pop_scope_depth] at hh
    exact h4 (by omega)
  · intro x hx2 hx
    simp only [pop_scope_depth] at hx
    exact h5 x hx2 (by omega)
  · intro x y hxy hy
    simp only [pop_scope_depth] at hy
    exact h7 x y hxy (by omega)
  · intro x hx
    simp only [pop_scope_depth] at hx
    rw [pop_scope_loc, pop_scope_cso]
    have := h8 x (by omega)
    omega
  · rw [pop_scope_tape, Function.update_noteq (by omega), Function.update_noteq (by omega)]
    exact h9
  · intro slot s e hm
    rw [pop_scope_log] at hm
    simp only [List.mem_append, List.mem_singleton] at hm
    rcases hm with hm | hm
    · obtain ⟨a1, a2, a3, a4, a5, a6, a7⟩ := h10 slot s e hm
      have a8 := a7 (p.depth - 1) (by omega)
      refine ⟨a1, a2, a3, by rw [pop_scope_loc]; omega, ?_, ?_, ?_⟩
      · rw [pop_scope_tape, Function.update_noteq (by omega), Function.update_noteq (by omega)]
        exact a5
      · rw [pop_scope_tape, Function.update_noteq (by omega), Function.update_noteq (by omega)]
        exact a6
      · intro x hx
        simp only [pop_scope_depth] at hx
        exact a7 x (by omega)
    · injection hm with e1 e2 e3
      subst e1 e2 e3
      refine ⟨by omega, by simp only [pop_scope_cap]; omega, hs, by rw [pop_scope_loc]; omega,
        ?_, ?_, ?_⟩
      · rw [pop_scope_tape, Function.update_noteq (by omega), Function.update_same]
      · rw [pop_scope_tape, Function.update_same]
      · intro x hx
        simp only [pop_scope_depth] at hx
        left
        exact h7 x (p.depth - 1) (by omega) (by omega)
  · intro slot loc hm
    rw [pop_scope_log] at hm
    simp only [List.mem_append, List.mem_singleton] at hm
    rcases hm with hm | hm
    · exact h11 slot loc hm
    · cases hm

end simdjson

namespace simdjson
open StructuralParser

theorem walk_inv_continue (cont : ret_address) (q : StructuralParser) (h : StateInv q)
    (hk : (cont = .finish ∧ q.depth = 1) ∨
      ((cont = .array_continue ∨ cont = .object_continue) ∧ 2 ≤ q.depth)) :
    WalkInv (GOTO cont, q) := by
  rcases hk with ⟨hk, hd⟩ | ⟨hk | hk, hd⟩
  · subst hk; exact ⟨h, hd⟩
  · subst hk; exact ⟨h, hd⟩
  · subst hk; exact ⟨h, hd⟩

/-- Dispatching on a value keeps the invariant of the walk. -/
theorem parse_value_inv (p : StructuralParser) (cont : ret_address) (h : StateInv p)
    (hk : (cont = .finish ∧ p.depth = 1) ∨
      ((cont = .array_continue ∨ cont = .object_continue) ∧ 2 ≤ p.depth)) :
    WalkInv (GOTO (p.parse_value cont).1, (p.parse_value cont).2) := by
  rcases parse_value_cases p cont with ⟨_, e | e | e⟩ | ⟨hc, hd, e⟩ | ⟨hc, hd, e⟩ | ⟨_, _, _, e⟩
  · rw [e]; exact walk_inv_continue cont _ (inv_write_string p h) hk
  · rw [e]; exact walk_inv_continue cont _ (inv_write_atom p h) hk
  · rw [e]; exact walk_inv_continue cont _ (inv_write_number p h) hk
  · rw [e]
    have hi := inv_push p cont h hd hk
    have h1 := h.1
    by_cases hb : p.c = ch_lbracket
    · rw [if_pos hb]
      exact ⟨hi, by simp only [push_scope_depth]; omega⟩
    · rw [if_neg hb]
      exact ⟨hi, by simp only [push_scope_depth]; omega⟩
  · rw [e]
    exact Or.inr (inv_push_fail p cont h hd)
  · rw [e]
    exact Or.inl h

theorem pop_scope_inv (p : StructuralParser) (h : StateInv p) (hd : 2 ≤ p.depth) :
    WalkInv (GOTO p.pop_scope.1, p.pop_scope.2) := by
  have hi := inv_pop p h hd
  have e1 : p.pop_scope.1 = p.pj.ret_address (p.depth - 1) := rfl
  obtain ⟨h1, h2, h3, h4, h5, _⟩ := h
  rw [e1]
  by_cases h2d : p.depth = 2
  · have : p.pj.ret_address (p.depth - 1) = .finish := by
      rw [h2d]; exact h4 hd
    rw [this]
    exact ⟨hi, by simp only [pop_scope_depth]; omega⟩
  · rcases h5 (p.depth - 1) (by omega) (by omega) with e | e
    · rw [e]; exact ⟨hi, by simp only [pop_scope_depth]; omega⟩
    · rw [e]; exact ⟨hi, by simp only [pop_scope_depth]; omega⟩

/-- Every step of the machine keeps the invariant of the walk. -/
theorem step_inv (buf : Nat → Nat) (cfg : Label × StructuralParser) (h : WalkInv cfg) :
    WalkInv (step buf cfg) := by
  obtain ⟨L, p⟩ := cfg
  cases L with
  | finish => rw [step_terminal buf .finish p rfl]; exact h
  | error => rw [step_terminal buf .error p rfl]; exact h
  | overrun => rw [step_terminal buf .overrun p rfl]; exact h
  | scope_end =>
    obtain ⟨hs, hd⟩ := h
    rw [step_scope_end]
    exact pop_scope_inv p hs hd
  | main_array_switch =>
    obtain ⟨hs, hd⟩ := h
    rw [step_main_array_switch]
    exact parse_value_inv p _ hs (Or.inr ⟨Or.inl rfl, hd⟩)
  | array_begin =>
    obtain ⟨hs, hd⟩ := h
    have hr := inv_read buf p hs
    rcases step_array_begin buf p with ⟨_, e⟩ | ⟨_, _, e⟩ | ⟨_, _, e⟩
    · rw [e]; exact ⟨hs, hd⟩
    · rw [e]; exact ⟨hr, hd⟩
    · rw [e]; exact ⟨hr, hd⟩
  | array_continue =>
    obtain ⟨hs, hd⟩ := h
    have hr := inv_read buf p hs
    have hrr := inv_read buf _ hr
    rcases step_array_continue buf p with ⟨_, e⟩ | ⟨_, _, e⟩ | ⟨_, _, _, e⟩ | ⟨_, _, e⟩ | ⟨_, _, _, e⟩
    · rw [e]; exact ⟨hs, hd⟩
    · rw [e]; exact ⟨hr, hd⟩
    · rw [e]; exact ⟨hr, hd⟩
    · rw [e]; exact ⟨hrr, hd⟩
    · rw [e]; exact Or.inl hr
  | object_begin =>
    obtain ⟨hs, hd⟩ := h
    have hr := inv_read buf p hs
    rcases step_object_begin buf p with ⟨_, e⟩ | ⟨_, _, e⟩ | ⟨_, _, e⟩ | ⟨_, _, _, e⟩
    · rw [e]; exact ⟨hs, hd⟩
    · rw [e]; exact ⟨inv_write_string _ hr, hd⟩
    · rw [e]; exact ⟨hr, hd⟩
    · rw [e]; exact Or.inl hr
  | object_key_state =>
    obtain ⟨hs, hd⟩ := h
    have hr := inv_read buf p hs
    have hrr := inv_read buf _ hr
    rcases step_object_key_state buf p with ⟨_, e⟩ | ⟨_, _, e⟩ | ⟨_, _, _, e⟩ | ⟨_, _, e⟩
    · rw [e]; exact ⟨hs, hd⟩
    · rw [e]; exact Or.inl hr
    · rw [e]; exact ⟨hr, hd⟩
    · rw [e]
      exact parse_value_inv _ _ hrr (Or.inr ⟨Or.inr rfl, hd⟩)
  | object_continue =>
    obtain ⟨hs, hd⟩ := h
    have hr := inv_read buf p hs
    have hrr := inv_read buf _ hr
    rcases step_object_continue buf p with
      ⟨_, e⟩ | ⟨_, _, e⟩ | ⟨_, _, _, e⟩ | ⟨_, _, _, e⟩ | ⟨_, _, _, e⟩ | ⟨_, _, _, e⟩
    · rw [e]; exact ⟨hs, hd⟩
    · rw [e]; exact ⟨hr, hd⟩
    · rw [e]; exact ⟨hr, hd⟩
    · rw [e]; exact Or.inl hrr
    · rw [e]; exact ⟨inv_write_string _ hrr, hd⟩
    · rw [e]; exact Or.inl hr

theorem walk_inv (buf : Nat → Nat) (t : Nat) (cfg : Label × StructuralParser)
    (h : WalkInv cfg) : WalkInv (walk buf t cfg) := by
  induction t generalizing cfg with
  | zero => exact h
  | succ t ih =>
    rw [walk_succ]
    exact ih _ (step_inv buf cfg h)

end simdjson

namespace simdjson
open StructuralParser

/-! ## The invariant along a run of `unified_machine` -/

theorem state_inv_start (buf : Nat → Nat) (len : Nat) (pj1 : ParsedJson)
    (h0 : pj1.current_loc = 0) (hcap : 1 < pj1.depth_capacity) :
    StateInv (walk_start buf len pj1) := by
  obtain ⟨_, _, hd, hc, _, _, hcso, hret, _, htape, hloc, _, hlog⟩ :=
    walk_start_facts buf len pj1 h0
  refine ⟨by omega, by omega, hret, by omega, ?_, hcso, ?_, ?_, htape, ?_, ?_⟩
  · intro x hx2 hx; omega
  · intro x y hxy hy; omega
  · intro x hx
    have : x = 0 := by omega
    subst this
    omega
  · intro slot s e hm
    rw [hlog] at hm
    simp at hm
  · intro slot loc hm
    rw [hlog] at hm
    simp only [List.mem_cons, List.mem_singleton, List.not_mem_nil, or_false] at hm
    rcases hm with hm | hm
    · cases hm
    · cases hm
      omega

theorem walk_inv_first (buf : Nat → Nat) (len : Nat) (pj1 : ParsedJson)
    (h0 : pj1.current_loc = 0) (hcap : 1 < pj1.depth_capacity) :
    WalkInv (first_value (walk_start buf len pj1)) := by
  rw [first_value_eq]
  exact parse_value_inv _ _ (state_inv_start buf len pj1 h0 hcap)
    (Or.inl ⟨rfl, (walk_start_facts buf len pj1 h0).2.2.1⟩)

theorem walk_inv_run (buf : Nat → Nat) (len : Nat) (pj1 : ParsedJson) (t : Nat)
    (h0 : pj1.current_loc = 0) (hcap : 1 < pj1.depth_capacity) :
    WalkInv (walk buf t (first_value (walk_start buf len pj1))) :=
  walk_inv buf t _ (walk_inv_first buf len pj1 h0 hcap)

theorem first_value_frame (p : StructuralParser) :
    Frame p (first_value p).2 ∧ p.i ≤ (first_value p).2.i := by
  rw [first_value_eq]
  rcases parse_value_cases p .finish with ⟨_, e | e | e⟩ | ⟨_, _, e⟩ | ⟨_, _, e⟩ | ⟨_, _, _, e⟩ <;>
    rw [e] <;> exact ⟨⟨rfl, rfl, rfl⟩, Nat.le_refl _⟩

/-- The frame of the final configuration is that of the caller's workspace. -/
theorem walk_run_frame (buf : Nat → Nat) (len : Nat) (pj1 : ParsedJson) (t : Nat)
    (h0 : pj1.current_loc = 0) :
    (walk buf t (first_value (walk_start buf len pj1))).2.pj.structural_indexes
        = pj1.structural_indexes ∧
    (walk buf t (first_value (walk_start buf len pj1))).2.pj.n_structural_indexes
        = pj1.n_structural_indexes ∧
    (walk buf t (first_value (walk_start buf len pj1))).2.pj.depth_capacity
        = pj1.depth_capacity ∧
    1 ≤ (walk buf t (first_value (walk_start buf len pj1))).2.i := by
  obtain ⟨hi, _, _, hc, hn, hsi, _⟩ := walk_start_facts buf len pj1 h0
  obtain ⟨⟨a1, a2, a3⟩, a4⟩ := walk_frame buf t (first_value (walk_start buf len pj1))
  obtain ⟨⟨b1, b2, b3⟩, b4⟩ := first_value_frame (walk_start buf len pj1)
  refine ⟨by rw [a1, b1, hsi], by rw [a2, b2, hn], by rw [a3, b3, hc], by omega⟩

theorem finish_log (p : StructuralParser) : p.finish.2.log = p.log := by
  unfold finish
  split
  · rfl
  · simp only
    split
    · rfl
    · split <;> rfl

theorem error_log (p : StructuralParser) : p.error.2.log = p.log := by
  unfold error
  repeat' split
  all_goals rfl

theorem finish_ne_depth_error (p : StructuralParser) : p.finish.1 ≠ .DEPTH_ERROR := by
  unfold finish
  split
  · simp [set_error_code]
  · simp only
    split
    · simp [set_error_code]
    · split <;> simp [set_error_code]

theorem error_depth_error (p : StructuralParser) :
    p.error.1 = .DEPTH_ERROR ↔ p.pj.depth_capacity ≤ p.depth := by
  unfold error
  by_cases h : p.depth ≥ p.pj.depth_capacity
  · rw [if_pos h]
    simp only [set_error_code, true_iff]
    exact h
  · rw [if_neg h]
    constructor
    · intro e
      exfalso
      revert e
      repeat' split
      all_goals simp [set_error_code]
    · intro h2
      exact absurd h2 h

theorem conclude_log (cfg : Label × StructuralParser) : (conclude cfg).log = cfg.2.log := by
  obtain ⟨L, p⟩ := cfg
  cases L <;> simp [conclude, finish_log, error_log]

end simdjson

namespace simdjson
open StructuralParser

theorem parse_structurals_empty (buf : Nat → Nat) (len : Nat) (pj1 : ParsedJson)
    (hn : pj1.n_structural_indexes = 0) :
    parse_structurals buf len pj1 = ⟨.overrun, pj1, []⟩ := by
  simp [parse_structurals, start, advance_char, hn]

/-- How the second half of `unified_machine` goes on a workspace whose tape is empty. -/
theorem parse_structurals_cases (buf : Nat → Nat) (len : Nat) (pjw : ParsedJson)
    (a5 : pjw.current_loc = 0) :
    ((parse_structurals buf len pjw).log = [] ∧
      (parse_structurals buf len pjw).outcome ≠ .returned .DEPTH_ERROR ∧
      (parse_structurals buf len pjw).outcome ≠ .returned .SUCCESS) ∨
    (1 ≤ pjw.n_structural_indexes ∧ pjw.depth_capacity ≤ 1 ∧
      (parse_structurals buf len pjw).outcome = .returned .DEPTH_ERROR ∧
      (parse_structurals buf len pjw).log
        = [Event.read 0 (pjw.structural_indexes 0), Event.push 0 0]) ∨
    (1 ≤ pjw.n_structural_indexes ∧ 1 < pjw.depth_capacity ∧
      parse_structurals buf len pjw
        = conclude (walk buf (walk_fuel pjw) (first_value (walk_start buf len pjw))) ∧
      WalkInv (walk buf (walk_fuel pjw) (first_value (walk_start buf len pjw)))) := by
  by_cases hn : pjw.n_structural_indexes = 0
  · left
    rw [parse_structurals_empty _ _ _ hn]
    simp
  · have hn1 : 1 ≤ pjw.n_structural_indexes := by omega
    have e2 := parse_structurals_eq buf len pjw hn1
    by_cases hd : pjw.depth_capacity ≤ 1
    · right; left
      rw [if_pos hd] at e2
      refine ⟨hn1, by omega, ?_, ?_⟩
      · rw [e2]
      · rw [e2]
        show (walk_start buf len pjw).log = _
        rw [(walk_start_facts buf len _ a5).2.2.2.2.2.2.2.2.2.2.2.2]
    · right; right
      rw [if_neg hd] at e2
      exact ⟨hn1, by omega, e2, walk_inv_run buf len pjw _ a5 (by omega)⟩
theorem final_config_eq (D : ScalarDecoders) (buf : Nat → Nat) (len : Nat) (pj : ParsedJson) :
    final_config D buf len pj
      = walk buf (walk_fuel (walk_pj D buf len pj))
          (first_value (walk_start buf len (walk_pj D buf len pj))) := by
  unfold final_config
  rfl

/-- How a run of `unified_machine` goes: it stops before the walk without recording
anything, or `start` fails on a depth capacity of at most one, or the walk runs under
its invariant and the code at its last label concludes. -/
theorem run_cases (D : ScalarDecoders) (buf : Nat → Nat) (len : Nat) (pj : ParsedJson) :
    ((unified_machine D buf len pj).log = [] ∧
      (unified_machine D buf len pj).outcome ≠ .returned .DEPTH_ERROR ∧
      (unified_machine D buf len pj).outcome ≠ .returned .SUCCESS) ∨
    (1 ≤ pj.n_structural_indexes ∧ pj.depth_capacity ≤ 1 ∧
      (unified_machine D buf len pj).outcome = .returned .DEPTH_ERROR ∧
      (unified_machine D buf len pj).log
        = [Event.read 0 (pj.structural_indexes 0), Event.push 0 0]) ∨
    (1 ≤ pj.n_structural_indexes ∧ 1 < pj.depth_capacity ∧ len ≤ pj.byte_capacity ∧
      prepass_ok D buf len pj ∧
      unified_machine D buf len pj = conclude (final_config D buf len pj) ∧
      WalkInv (final_config D buf len pj) ∧
      (final_config D buf len pj).2.pj.structural_indexes = pj.structural_indexes ∧
      (final_config D buf len pj).2.pj.n_structural_indexes = pj.n_structural_indexes ∧
      (final_config D buf len pj).2.pj.depth_capacity = pj.depth_capacity ∧
      1 ≤ (final_config D buf len pj).2.i) := by
  rcases unified_machine_cases D buf len pj with ⟨_, ho, _, hl⟩ | ⟨_, _, ho, _, hl⟩ | ⟨hcap, hpre, e⟩
  · left
    refine ⟨hl, ?_, ?_⟩ <;> rw [ho] <;> simp
  · left
    refine ⟨hl, ?_, ?_⟩ <;> rcases ho with ho | ho | ho <;> rw [ho] <;> simp
  · rw [final_config_eq, e]
    obtain ⟨_, a2, a3, a4, a5, _⟩ := walk_pj_keeps D buf len pj
    generalize walk_pj D buf len pj = pjw at *
    obtain ⟨f1, f2, f3, f4⟩ := walk_run_frame buf len pjw (walk_fuel pjw) a5
    rcases parse_structurals_cases buf len pjw a5 with ⟨c1, c2, c3⟩ | ⟨c1, c2, c3, c4⟩ |
      ⟨c1, c2, c3, c4⟩
    · exact Or.inl ⟨c1, c2, c3⟩
    · rw [← a2, ← a3, ← a4]
      exact Or.inr (Or.inl ⟨c1, c2, c3, c4⟩)
    · rw [← a2, ← a3, ← a4]
      exact Or.inr (Or.inr ⟨c1, c2, hcap, hpre, c3, c4, f1, f2, f3, f4⟩)

/-- When the pre-pass and `start` succeed, the run is the walk followed by the code at
its last label. -/
theorem run_of_walk (D : ScalarDecoders) (buf : Nat → Nat) (len : Nat) (pj : ParsedJson)
    (hn : 1 ≤ pj.n_structural_indexes) (hcap : len ≤ pj.byte_capacity)
    (hpre : prepass_ok D buf len pj) (hd : 1 < pj.depth_capacity) :
    unified_machine D buf len pj = conclude (final_config D buf len pj) ∧
    WalkInv (final_config D buf len pj) ∧
    (final_config D buf len pj).2.pj.structural_indexes = pj.structural_indexes ∧
    (final_config D buf len pj).2.pj.n_structural_indexes = pj.n_structural_indexes ∧
    (final_config D buf len pj).2.pj.depth_capacity = pj.depth_capacity ∧
    1 ≤ (final_config D buf len pj).2.i := by
  rcases run_cases D buf len pj with ⟨_, _, _⟩ | ⟨_, h1, _, _⟩ | ⟨_, _, _, _, hrest⟩
  · exfalso
    rename_i hl _ _
    rw [unified_machine_eq D buf len pj hcap hpre] at hl
    obtain ⟨_, a2, a3, a4, a5, _⟩ := walk_pj_keeps D buf len pj
    generalize walk_pj D buf len pj = pjw at *
    rw [parse_structurals_eq buf len pjw (by omega), if_neg (by omega), conclude_log] at hl
    have hw := walk_rel buf (fun p q => p.log ≠ [] → q.log ≠ [])
      (fun _ h => h) (fun _ _ _ h1 h2 h => h2 (h1 h))
      (fun p _ _ => by simp) (fun _ h => h) (fun _ h => h) (fun _ h => h)
      (fun p k _ => by rw [push_scope_log]; simp) (fun p _ => by rw [pop_scope_log]; simp)
      (walk_fuel pjw) (first_value (walk_start buf len pjw))
    have hf : (first_value (walk_start buf len pjw)).2.log ≠ [] := by
      rw [first_value_eq]
      have hs : (walk_start buf len pjw).log ≠ [] := by
        rw [(walk_start_facts buf len pjw a5).2.2.2.2.2.2.2.2.2.2.2.2]; simp
      rcases parse_value_cases (walk_start buf len pjw) .finish with
        ⟨_, e | e | e⟩ | ⟨_, _, e⟩ | ⟨_, _, e⟩ | ⟨_, _, _, e⟩ <;> rw [e]
      · exact hs
      · exact hs
      · exact hs
      · show ((walk_start buf len pjw).push_scope .finish).2.log ≠ []
        rw [push_scope_log]; simp
      · show ((walk_start buf len pjw).push_scope .finish).2.log ≠ []
        rw [push_scope_log]; simp
      · exact hs
    exact hw hf hl
  · omega
  · exact hrest

/-- An accepted run: the walk ended at `finish` under its invariant, with only the root
scope open and the sentinel as the one index left. -/
theorem accepted_run (D : ScalarDecoders) (buf : Nat → Nat) (len : Nat) (pj : ParsedJson)
    (h : (unified_machine D buf len pj).outcome = .returned .SUCCESS) :
    2 ≤ pj.n_structural_indexes ∧ 1 < pj.depth_capacity ∧ len ≤ pj.byte_capacity ∧
    prepass_ok D buf len pj ∧
    unified_machine D buf len pj = conclude (final_config D buf len pj) ∧
    (final_config D buf len pj).1 = .finish ∧
    StateInv (final_config D buf len pj).2 ∧
    (final_config D buf len pj).2.depth = 1 ∧
    (final_config D buf len pj).2.i + 1 = pj.n_structural_indexes ∧
    (final_config D buf len pj).2.pj.structural_indexes = pj.structural_indexes := by
  rcases run_cases D buf len pj with ⟨_, _, hne⟩ | ⟨_, _, ho, _⟩ | ⟨hn, hd, hcap, hpre, e, hrest⟩
  · exact absurd h hne
  · rw [ho] at h; cases h
  · rw [e] at h
    obtain ⟨c1, c2, _, _⟩ := (conclude_success _).1 h
    have hinv2 : StateInv (final_config D buf len pj).2 ∧
        (final_config D buf len pj).2.depth = 1 := by
      have hinv := hrest.1
      unfold WalkInv at hinv
      rw [c1] at hinv
      exact hinv
    have f2 := hrest.2.2.1
    have f4 := hrest.2.2.2.2
    refine ⟨by omega, hd, hcap, hpre, e, c1, hinv2.1, hinv2.2, by omega, hrest.2.1⟩

end simdjson

namespace simdjson
open StructuralParser

/-- What `finish` leaves on the tape when it succeeds from a state with only the root
scope open: the root start entry is annotated with the tape location, where the root
end entry is then written. -/
theorem finish_tape (p : StructuralParser) (hi : p.i + 1 = p.pj.n_structural_indexes)
    (hd : p.depth = 1) (hcso : p.pj.containing_scope_offset 0 = 0) :
    p.finish.2.pj.tape
      = Function.update
          (Function.update p.pj.tape 0 ⟨p.pj.current_loc, (p.pj.tape 0).kind⟩)
          p.pj.current_loc ⟨0, ch_r⟩ ∧
    p.finish.2.pj.current_loc = p.pj.current_loc + 1 := by
  have e : p.pop_root_scope.depth = 0 := by
    show p.depth - 1 = 0
    omega
  have e2 : p.pop_root_scope.pj.containing_scope_offset p.pop_root_scope.depth = 0 := by
    rw [e]
    exact hcso
  unfold finish
  rw [if_neg (by simpa using hi)]
  simp only
  rw [if_neg (by simpa using e), if_neg (by simpa using e2)]
  simp only [set_error_code, pop_root_scope, ParsedJson.write_tape,
    ParsedJson.annotate_previous_loc, ParsedJson.get_current_loc, hd, hcso, Nat.sub_self]
  exact ⟨trivial, trivial⟩

/-- The tape and the ghost record that an accepted run leaves, from the state in which
its walk reached `finish`. -/
theorem accepted_tape (D : ScalarDecoders) (buf : Nat → Nat) (len : Nat) (pj : ParsedJson)
    (h : (unified_machine D buf len pj).outcome = .returned .SUCCESS) :
    ∃ p : StructuralParser, StateInv p ∧ p.depth = 1 ∧
      (unified_machine D buf len pj).log = p.log ∧
      (unified_machine D buf len pj).pj.tape
        = Function.update (Function.update p.pj.tape 0 ⟨p.pj.current_loc, ch_r⟩)
            p.pj.current_loc ⟨0, ch_r⟩ ∧
      (unified_machine D buf len pj).pj.current_loc = p.pj.current_loc + 1 := by
  obtain ⟨_, _, _, _, e, hl, hinv, hd, hi, _⟩ := accepted_run D buf len pj h
  rw [e] at h
  obtain ⟨_, c2, _, _⟩ := (conclude_success _).1 h
  obtain ⟨t1, t2⟩ := finish_tape (final_config D buf len pj).2 c2 hd hinv.2.2.2.2.2.1
  rw [hinv.2.2.2.2.2.2.2.2.1] at t1
  refine ⟨(final_config D buf len pj).2, hinv, hd, ?_, ?_, ?_⟩
  · rw [e, conclude_log]
  · rw [e]
    unfold conclude
    rw [hl]
    exact t1
  · rw [e]
    unfold conclude
    rw [hl]
    exact t2

end simdjson

namespace simdjson
open StructuralParser

/-! ## The walk on two buffers that agree below the sentinel -/

theorem read_next_congr (buf buf' : Nat → Nat) (p : StructuralParser)
    (h : buf' (p.pj.structural_indexes p.i) = buf (p.pj.structural_indexes p.i)) :
    p.read_next buf' = p.read_next buf := by
  unfold read_next
  simp only [h]

theorem step_i_ge (buf : Nat → Nat) (L : Label) (p : StructuralParser)
    (hl : L = .object_begin ∨ L = .object_key_state ∨ L = .object_continue ∨
      L = .array_begin ∨ L = .array_continue)
    (hi : p.i < p.pj.n_structural_indexes)
    (hfin : (step buf (L, p)).2.i < p.pj.n_structural_indexes) :
    p.i + 1 < p.pj.n_structural_indexes := by
  rcases hl with h | h | h | h | h <;> subst h
  · rcases step_object_begin buf p with ⟨h, e⟩ | ⟨h, _, e⟩ | ⟨h, _, e⟩ | ⟨h, _, _, e⟩ <;>
      rw [e] at hfin <;> simp at hfin <;> omega
  · rcases step_object_key_state buf p with ⟨h, e⟩ | ⟨h, _, e⟩ | ⟨h, _, _, e⟩ | ⟨h, _, e⟩ <;>
      rw [e] at hfin <;> simp [parse_value_pos] at hfin <;> omega
  · rcases step_object_continue buf p with
      ⟨h, e⟩ | ⟨h, _, e⟩ | ⟨h, _, _, e⟩ | ⟨h, _, _, e⟩ | ⟨h, _, _, e⟩ | ⟨h, _, _, e⟩ <;>
      rw [e] at hfin <;> simp at hfin <;> omega
  · rcases step_array_begin buf p with ⟨h, e⟩ | ⟨h, _, e⟩ | ⟨h, _, e⟩ <;>
      rw [e] at hfin <;> simp at hfin <;> omega
  · rcases step_array_continue buf p with
      ⟨h, e⟩ | ⟨h, _, e⟩ | ⟨h, _, _, e⟩ | ⟨h, _, e⟩ | ⟨h, _, _, e⟩ <;>
      rw [e] at hfin <;> simp at hfin <;> omega

/-- A transition that ends below the sentinel position is the same on two buffers that
agree at the non-sentinel structural offsets. -/
theorem step_congr (buf buf' : Nat → Nat) (L : Label) (p : StructuralParser)
    (hb : ∀ j, j + 1 < p.pj.n_structural_indexes →
      buf' (p.pj.structural_indexes j) = buf (p.pj.structural_indexes j))
    (hfin : (step buf (L, p)).2.i < p.pj.n_structural_indexes) :
    step buf' (L, p) = step buf (L, p) := by
  by_cases h1 : p.i < p.pj.n_structural_indexes
  · cases L with
    | finish => rfl
    | error => rfl
    | overrun => rfl
    | scope_end => rfl
    | main_array_switch => rfl
    | array_begin =>
      have hi1 := step_i_ge buf _ p (by simp) h1 hfin
      have b0 := hb p.i hi1
      simp [step, advance_char, h1, b0, read_next]
    | object_begin =>
      have hi1 := step_i_ge buf _ p (by simp) h1 hfin
      have b0 := hb p.i hi1
      simp [step, advance_char, h1, b0, read_next]
    | array_continue =>
      have hi1 := step_i_ge buf _ p (by simp) h1 hfin
      have b0 := hb p.i hi1
      by_cases h2 : buf (p.pj.structural_indexes p.i) = 44
      · by_cases h3 : p.i + 2 < p.pj.n_structural_indexes
        · have b1 := hb (p.i + 1) h3
          simp [step, advance_char, h1, hi1, h2, b0, b1, read_next]
        · exfalso
          simp [step, advance_char, h1, hi1, h2, read_next] at hfin
          omega
      · simp [step, advance_char, h1, h2, b0, read_next]
    | object_continue =>
      have hi1 := step_i_ge buf _ p (by simp) h1 hfin
      have b0 := hb p.i hi1
      by_cases h2 : buf (p.pj.structural_indexes p.i) = 44
      · by_cases h3 : p.i + 2 < p.pj.n_structural_indexes
        · have b1 := hb (p.i + 1) h3
          simp [step, advance_char, h1, hi1, h2, b0, b1, read_next]
        · exfalso
          by_cases h5 : buf (p.pj.structural_indexes (p.i + 1)) = 34
          · simp [step, advance_char, h1, hi1, h2, h5, read_next] at hfin
            omega
          · simp [step, advance_char, h1, hi1, h2, h5, read_next] at hfin
            omega
      · simp [step, advance_char, h1, h2, b0, read_next]
    | object_key_state =>
      have hi1 := step_i_ge buf _ p (by simp) h1 hfin
      have b0 := hb p.i hi1
      by_cases h2 : buf (p.pj.structural_indexes p.i) = 58
      · by_cases h3 : p.i + 2 < p.pj.n_structural_indexes
        · have b1 := hb (p.i + 1) h3
          simp [step, advance_char, h1, hi1, h2, b0, b1, read_next]
        · exfalso
          simp [step, advance_char, h1, hi1, h2, read_next, parse_value_pos] at hfin
          omega
      · simp [step, advance_char, h1, h2, b0, read_next]
  · cases L <;> simp [step, advance_char, h1]

end simdjson

namespace simdjson
open StructuralParser

theorem step_frame (buf : Nat → Nat) (cfg : Label × StructuralParser) :
    Frame cfg.2 (step buf cfg).2 ∧ cfg.2.i ≤ (step buf cfg).2.i :=
  walk_frame buf 1 cfg

/-- A walk that ends below the sentinel position is the same on two buffers that agree
at the non-sentinel structural offsets. -/
theorem walk_congr (buf buf' : Nat → Nat) (t : Nat) (cfg : Label × StructuralParser)
    (hb : ∀ j, j + 1 < cfg.2.pj.n_structural_indexes →
      buf' (cfg.2.pj.structural_indexes j) = buf (cfg.2.pj.structural_indexes j))
    (hfin : (walk buf t cfg).2.i < cfg.2.pj.n_structural_indexes) :
    walk buf' t cfg = walk buf t cfg := by
  induction t generalizing cfg with
  | zero => rfl
  | succ t ih =>
    rw [walk_succ] at hfin ⊢
    rw [walk_succ]
    obtain ⟨⟨f1, f2, _⟩, _⟩ := step_frame buf cfg
    obtain ⟨_, g2⟩ := walk_frame buf t (step buf cfg)
    have hs : step buf' cfg = step buf cfg := by
      obtain ⟨L, p⟩ := cfg
      exact step_congr buf buf' L p hb (by
        have : (step buf (L, p)).2.i ≤ (walk buf t (step buf (L, p))).2.i := g2
        have h2 : (walk buf t (step buf (L, p))).2.i < p.pj.n_structural_indexes := hfin
        omega)
    rw [hs]
    apply ih
    · rw [f1, f2]; exact hb
    · rw [f2]; exact hfin

end simdjson

namespace simdjson
open StructuralParser

/-! ## The reads of the walk -/

theorem reads_below_walk (buf : Nat → Nat) (t : Nat) (cfg : Label × StructuralParser)
    (h : ReadsBelow cfg.2) : ReadsBelow (walk buf t cfg).2 := by
  refine walk_rel buf (fun p q => ReadsBelow p → ReadsBelow q)
    (fun _ h => h) (fun _ _ _ h1 h2 h => h2 (h1 h)) ?_ ?_ ?_ ?_ ?_ ?_ t cfg h
  · intro p _ hp pos off hm
    simp only [read_next_log, List.mem_append, List.mem_singleton] at hm
    rcases hm with hm | hm
    · obtain ⟨a, b⟩ := hp pos off hm
      exact ⟨by simp only [read_next_i]; omega, b⟩
    · injection hm with e1 e2
      subst e1 e2
      exact ⟨by simp only [read_next_i]; omega, rfl⟩
  · intro p hp pos off hm
    exact hp pos off hm
  · intro p hp pos off hm
    exact hp pos off hm
  · intro p hp pos off hm
    exact hp pos off hm
  · intro p k hp pos off hm
    rw [push_scope_log] at hm
    simp only [List.mem_append, List.mem_singleton] at hm
    rcases hm with hm | hm
    · exact hp pos off hm
    · cases hm
  · intro p hp pos off hm
    rw [pop_scope_log] at hm
    simp only [List.mem_append, List.mem_singleton] at hm
    rcases hm with hm | hm
    · exact hp pos off hm
    · cases hm

theorem reads_below_first (buf : Nat → Nat) (len : Nat) (pj1 : ParsedJson)
    (h0 : pj1.current_loc = 0) : ReadsBelow (first_value (walk_start buf len pj1)).2 := by
  obtain ⟨hi, _, _, _, _, hsi, _, _, _, _, _, _, hlog⟩ := walk_start_facts buf len pj1 h0
  have hs : ReadsBelow (walk_start buf len pj1) := by
    intro pos off hm
    rw [hlog] at hm
    simp only [List.mem_cons, List.mem_singleton, List.not_mem_nil, or_false] at hm
    rcases hm with hm | hm
    · injection hm with e1 e2
      subst e1 e2
      exact ⟨by omega, by rw [hsi]⟩
    · cases hm
  rw [first_value_eq]
  rcases parse_value_cases (walk_start buf len pj1) .finish with
    ⟨_, e | e | e⟩ | ⟨_, _, e⟩ | ⟨_, _, e⟩ | ⟨_, _, _, e⟩ <;> rw [e]
  · exact hs
  · exact hs
  · exact hs
  · intro pos off hm
    have hm2 : Event.read pos off ∈ ((walk_start buf len pj1).push_scope .finish).2.log := hm
    rw [push_scope_log] at hm2
    simp only [List.mem_append, List.mem_singleton] at hm2
    rcases hm2 with hm2 | hm2
    · exact hs pos off hm2
    · cases hm2
  · intro pos off hm
    have hm2 : Event.read pos off ∈ ((walk_start buf len pj1).push_scope .finish).2.log := hm
    rw [push_scope_log] at hm2
    simp only [List.mem_append, List.mem_singleton] at hm2
    rcases hm2 with hm2 | hm2
    · exact hs pos off hm2
    · cases hm2
  · exact hs

/-- In an accepted run every read of the structural index is below the sentinel
position. -/
theorem accepted_reads (D : ScalarDecoders) (buf : Nat → Nat) (len : Nat) (pj : ParsedJson)
    (h : (unified_machine D buf len pj).outcome = .returned .SUCCESS) (pos off : Nat)
    (hm : Event.read pos off ∈ (unified_machine D buf len pj).log) :
    pos + 1 < pj.n_structural_indexes ∧ off = pj.structural_indexes pos := by
  obtain ⟨_, _, _, _, e, _, _, _, hi, hsi⟩ := accepted_run D buf len pj h
  rw [e, conclude_log] at hm
  have hr : ReadsBelow (final_config D buf len pj).2 := by
    rw [final_config_eq]
    exact reads_below_walk buf _ _ (reads_below_first buf len _ (walk_pj_keeps D buf len pj).2.2.2.2.1)
  obtain ⟨a, b⟩ := hr pos off hm
  exact ⟨by omega, by rw [b, hsi]⟩

end simdjson

namespace simdjson
open StructuralParser

/-! ## The pre-pass on two buffers that agree below the sentinel -/

theorem foldl_congr_inv {α β : Type} (f g : β → α → β) (I : β → Prop) (l : List α) (b : β)
    (hI : I b) (hstep : ∀ b a, a ∈ l → I b → f b a = g b a ∧ I (g b a)) :
    l.foldl f b = l.foldl g b := by
  induction l generalizing b with
  | nil => rfl
  | cons a l ih =>
    simp only [List.foldl_cons]
    obtain ⟨e, hI2⟩ := hstep b a (List.mem_cons_self _ _) hI
    rw [e]
    exact ih _ hI2 (fun b x hx hb => hstep b x (List.mem_cons_of_mem _ hx) hb)

theorem space_terminated_copy_congr (buf buf' : Nat → Nat) (len : Nat)
    (hagree : ∀ x, x < len → buf' x = buf x) :
    space_terminated_copy buf' len = space_terminated_copy buf len := by
  funext j
  unfold space_terminated_copy
  by_cases h : j < len
  · rw [if_pos h, if_pos h, hagree j h]
  · rw [if_neg h, if_neg h]

theorem space_terminated_copy_idem (buf : Nat → Nat) (len : Nat) :
    space_terminated_copy (space_terminated_copy buf len) len = space_terminated_copy buf len :=
  space_terminated_copy_congr buf _ len (fun x hx => by
    unfold space_terminated_copy
    rw [if_pos hx])

theorem parse_strings_congr (D : ScalarDecoders) (buf buf' : Nat → Nat) (pj0 : ParsedJson)
    (hb : ∀ j, j < pj0.n_structural_indexes - 1 →
      buf' (pj0.structural_indexes j) = buf (pj0.structural_indexes j))
    (hs : ∀ j, j < pj0.n_structural_indexes - 1 → buf (pj0.structural_indexes j) = ch_quote →
      D.parse_string buf' (pj0.structural_indexes j)
        = D.parse_string buf (pj0.structural_indexes j)) :
    parse_strings D buf' pj0 0 = parse_strings D buf pj0 0 := by
  have hf : (List.range' 0 (pj0.n_structural_indexes - 1 - 0)).foldl
        (parse_strings_body D buf') (false, pj0)
      = (List.range' 0 (pj0.n_structural_indexes - 1 - 0)).foldl
        (parse_strings_body D buf) (false, pj0) := by
    refine foldl_congr_inv _ _
      (fun st => st.2.structural_indexes = pj0.structural_indexes) _ _ rfl ?_
    intro st a ha hI
    have ha2 : a < pj0.n_structural_indexes - 1 := by
      rw [List.mem_range'] at ha
      obtain ⟨i, hi, rfl⟩ := ha
      omega
    have hI' : st.2.structural_indexes = pj0.structural_indexes := hI
    constructor
    · unfold parse_strings_body
      rw [hI', hb a ha2]
      by_cases hq : buf (pj0.structural_indexes a) = ch_quote
      · rw [if_pos hq, if_pos hq]
        unfold parse_string
        rw [hs a ha2 hq]
      · rw [if_neg hq, if_neg hq]
    · show (parse_strings_body D buf st a).2.structural_indexes = pj0.structural_indexes
      unfold parse_strings_body
      split
      · rw [(parse_string_keeps D buf _ st.2).2.2.2.1]; exact hI'
      · exact hI'
  unfold parse_strings
  rw [hf]

theorem parse_numbers_switch_congr (D : ScalarDecoders) (buf buf' : Nat → Nat)
    (pj1 : ParsedJson) (idx : Nat) (hb : buf' idx = buf idx)
    (hn : (is_digit (buf idx) = true →
        D.parse_number buf' idx false = D.parse_number buf idx false) ∧
      (buf idx = ch_minus → D.parse_number buf' idx true = D.parse_number buf idx true)) :
    parse_numbers_switch D buf' pj1 idx = parse_numbers_switch D buf pj1 idx := by
  unfold parse_numbers_switch
  rw [hb]
  by_cases h1 : is_digit (buf idx) = true
  · rw [if_pos h1, if_pos h1]
    unfold parse_number
    rw [hn.1 h1]
  · rw [if_neg h1, if_neg h1]
    by_cases h2 : buf idx = ch_minus
    · rw [if_pos h2, if_pos h2]
      unfold parse_number
      rw [hn.2 h2]
    · rw [if_neg h2, if_neg h2]

theorem parse_numbers_congr (D : ScalarDecoders) (buf buf' : Nat → Nat) (len : Nat)
    (pj1 : ParsedJson) (hagree : ∀ x, x < len → buf' x = buf x)
    (hb : ∀ j, j < pj1.n_structural_indexes - 1 →
      buf' (pj1.structural_indexes j) = buf (pj1.structural_indexes j))
    (hn : pj1.n_structural_indexes ≠ 2 → ∀ j, j < pj1.n_structural_indexes - 1 →
      (is_digit (buf (pj1.structural_indexes j)) = true →
        D.parse_number buf' (pj1.structural_indexes j) false
          = D.parse_number buf (pj1.structural_indexes j) false) ∧
      (buf (pj1.structural_indexes j) = ch_minus →
        D.parse_number buf' (pj1.structural_indexes j) true
          = D.parse_number buf (pj1.structural_indexes j) true)) :
    parse_numbers D buf' len pj1 0 = parse_numbers D buf len pj1 0 := by
  have hloop : parse_numbers_loop D buf' pj1.n_structural_indexes
        (parse_numbers_last D buf' len pj1 0)
      = parse_numbers_loop D buf pj1.n_structural_indexes
        (parse_numbers_last D buf len pj1 0) := by
    by_cases h2 : pj1.n_structural_indexes = 2
    · have hlast : parse_numbers_last D buf' len pj1 0 = parse_numbers_last D buf len pj1 0 := by
        unfold parse_numbers_last with_space_terminated_copy
        rw [hb 0 (by omega), space_terminated_copy_congr buf buf' len hagree]
      rw [hlast]
      have h1 : (parse_numbers_last D buf len pj1 0).2 = 1 := by
        unfold parse_numbers_last
        rw [if_pos (by omega)]
        split
        · rfl
        · split <;> rfl
      unfold parse_numbers_loop
      rw [h1, h2]
      rfl
    · have hl' : parse_numbers_last D buf' len pj1 0 = ((false, pj1), 0) := by
        unfold parse_numbers_last
        rw [if_neg (by omega)]
      have hl : parse_numbers_last D buf len pj1 0 = ((false, pj1), 0) := by
        unfold parse_numbers_last
        rw [if_neg (by omega)]
      rw [hl, hl']
      unfold parse_numbers_loop
      refine foldl_congr_inv _ _
        (fun st => st.2.structural_indexes = pj1.structural_indexes) _ _ rfl ?_
      intro st a ha hI
      have ha2 : a < pj1.n_structural_indexes - 1 := by
        rw [List.mem_range'] at ha
        obtain ⟨i, hi, rfl⟩ := ha
        have : (((false, pj1), 0) : (Bool × ParsedJson) × Nat).2 = 0 := rfl
        simp only at hi
        omega
      have hI' : st.2.structural_indexes = pj1.structural_indexes := hI
      constructor
      · unfold parse_numbers_body
        rw [hI', parse_numbers_switch_congr D buf buf' st.2 _ (hb a ha2) (hn h2 a ha2)]
      · show (parse_numbers_body D buf st a).2.structural_indexes = pj1.structural_indexes
        unfold parse_numbers_body
        rw [(parse_numbers_switch_keeps D buf st.2 _).2.2.2.1]
        exact hI'
  unfold parse_numbers
  rw [hloop]

theorem parse_atom_congr (D : ScalarDecoders) (buf buf' : Nat → Nat) (idx : Nat)
    (hb : buf' idx = buf idx)
    (ha : (buf idx = ch_t → D.is_valid_true_atom buf' idx = D.is_valid_true_atom buf idx) ∧
      (buf idx = ch_f → D.is_valid_false_atom buf' idx = D.is_valid_false_atom buf idx) ∧
      (buf idx = ch_n → D.is_valid_null_atom buf' idx = D.is_valid_null_atom buf idx)) :
    parse_atom D buf' idx = parse_atom D buf idx := by
  unfold parse_atom
  rw [hb]
  by_cases h1 : buf idx = ch_t
  · rw [if_pos h1, if_pos h1, ha.1 h1]
  · rw [if_neg h1, if_neg h1]
    by_cases h2 : buf idx = ch_f
    · rw [if_pos h2, if_pos h2, ha.2.1 h2]
    · rw [if_neg h2, if_neg h2]
      by_cases h3 : buf idx = ch_n
      · rw [if_pos h3, if_pos h3, ha.2.2 h3]
      · rw [if_neg h3, if_neg h3]

theorem parse_atoms_congr (D : ScalarDecoders) (buf buf' : Nat → Nat) (len : Nat)
    (pj2 : ParsedJson) (hagree : ∀ x, x < len → buf' x = buf x)
    (hb : ∀ j, j < pj2.n_structural_indexes - 1 →
      buf' (pj2.structural_indexes j) = buf (pj2.structural_indexes j))
    (ha : pj2.n_structural_indexes ≠ 2 → ∀ j, j < pj2.n_structural_indexes - 1 →
      (buf (pj2.structural_indexes j) = ch_t →
        D.is_valid_true_atom buf' (pj2.structural_indexes j)
          = D.is_valid_true_atom buf (pj2.structural_indexes j)) ∧
      (buf (pj2.structural_indexes j) = ch_f →
        D.is_valid_false_atom buf' (pj2.structural_indexes j)
          = D.is_valid_false_atom buf (pj2.structural_indexes j)) ∧
      (buf (pj2.structural_indexes j) = ch_n →
        D.is_valid_null_atom buf' (pj2.structural_indexes j)
          = D.is_valid_null_atom buf (pj2.structural_indexes j))) :
    parse_atoms D buf' len pj2 0 = parse_atoms D buf len pj2 0 := by
  have hloop : (List.range' (parse_atoms_last D buf' len pj2 0).2
        (pj2.n_structural_indexes - 1 - (parse_atoms_last D buf' len pj2 0).2)).foldl
        (parse_atoms_body D buf' pj2) (parse_atoms_last D buf' len pj2 0).1
      = (List.range' (parse_atoms_last D buf len pj2 0).2
        (pj2.n_structural_indexes - 1 - (parse_atoms_last D buf len pj2 0).2)).foldl
        (parse_atoms_body D buf pj2) (parse_atoms_last D buf len pj2 0).1 := by
    by_cases h2 : pj2.n_structural_indexes = 2
    · have hlast : parse_atoms_last D buf' len pj2 0 = parse_atoms_last D buf len pj2 0 := by
        unfold parse_atoms_last with_space_terminated_copy
        rw [hb 0 (by omega), space_terminated_copy_congr buf buf' len hagree]
      rw [hlast]
      have h1 : (parse_atoms_last D buf len pj2 0).2 = 1 := by
        unfold parse_atoms_last
        rw [if_pos (by omega)]
        split <;> rfl
      rw [h1, h2]
      rfl
    · have hl' : parse_atoms_last D buf' len pj2 0 = (false, 0) := by
        unfold parse_atoms_last
        rw [if_neg (by omega)]
      have hl : parse_atoms_last D buf len pj2 0 = (false, 0) := by
        unfold parse_atoms_last
        rw [if_neg (by omega)]
      rw [hl, hl']
      refine foldl_congr_inv _ _ (fun _ => True) _ _ trivial ?_
      intro st a ha1 _
      have ha2 : a < pj2.n_structural_indexes - 1 := by
        rw [List.mem_range'] at ha1
        obtain ⟨i, hi, rfl⟩ := ha1
        simp only at hi
        omega
      refine ⟨?_, trivial⟩
      unfold parse_atoms_body
      rw [hb a ha2, parse_atom_congr D buf buf' _ (hb a ha2) (ha h2 a ha2)]
  unfold parse_atoms
  rw [hloop]

end simdjson

namespace simdjson
open StructuralParser

set_option maxRecDepth 100000 in
/-- C3, failing input.  On the unclosed-array document of the test `bad_example`
(issue 345), 63 bytes with the 64 structural indexes `0..63`, in a buffer whose
padding bytes are commas, the structural walk does not stay below
`n_structural_indexes`: at `array_continue` after the last `6` it reads the sentinel
index 63, finds a comma at offset 63 and calls `advance_char` once more with
`i = 64 = n_structural_indexes`. -/
theorem issue345_comma_padding_reads_past_index :
    (unified_machine sample_decoders
      (buffer_of
        (bytes_of "[7,7,7,7,6,7,7,7,6,7,7,6,[7,7,7,7,6,7,7,7,6,7,7,6,7,7,7,7,7,7,6") ch_comma)
      63 (fresh_workspace (dense_index 63) 1000 1024)).outcome = .overrun ∧
    (fresh_workspace (dense_index 63) 1000 1024).n_structural_indexes = 64 ∧
    Event.read 63 63 ∈ (unified_machine sample_decoders
      (buffer_of
        (bytes_of "[7,7,7,7,6,7,7,7,6,7,7,6,[7,7,7,7,6,7,7,7,6,7,7,6,7,7,7,7,7,7,6") ch_comma)
      63 (fresh_workspace (dense_index 63) 1000 1024)).log := by
  decide

end simdjson

namespace simdjson
open StructuralParser

/-- The second half of `unified_machine` on two buffers that agree at the non-sentinel
structural offsets, when it accepts on the first. -/
theorem parse_structurals_congr (buf buf' : Nat → Nat) (len : Nat) (pjw : ParsedJson)
    (h0 : pjw.current_loc = 0)
    (hb : ∀ j, j + 1 < pjw.n_structural_indexes →
      buf' (pjw.structural_indexes j) = buf (pjw.structural_indexes j))
    (hacc : (parse_structurals buf len pjw).outcome = .returned .SUCCESS) :
    parse_structurals buf' len pjw = parse_structurals buf len pjw := by
  by_cases hn : pjw.n_structural_indexes = 0
  · rw [parse_structurals_empty _ _ _ hn, parse_structurals_empty _ _ _ hn]
  · have hn1 : 1 ≤ pjw.n_structural_indexes := by omega
    rw [parse_structurals_eq buf len pjw hn1] at hacc ⊢
    rw [parse_structurals_eq buf' len pjw hn1]
    by_cases hd : pjw.depth_capacity ≤ 1
    · rw [if_pos hd] at hacc
      cases hacc
    · rw [if_neg hd] at hacc ⊢
      rw [if_neg hd]
      obtain ⟨_, c2, _, _⟩ := (conclude_success _).1 hacc
      obtain ⟨f1, f2, f3, f4⟩ := walk_run_frame buf len pjw (walk_fuel pjw) h0
      have hn2 : 2 ≤ pjw.n_structural_indexes := by omega
      have hs : walk_start buf' len pjw = walk_start buf len pjw := by
        unfold walk_start
        rw [read_next_congr buf buf' _ (hb 0 (by omega))]
      rw [hs]
      obtain ⟨⟨g1, g2, _⟩, _⟩ := first_value_frame (walk_start buf len pjw)
      obtain ⟨_, _, _, _, s5, s6, _⟩ := walk_start_facts buf len pjw h0
      rw [walk_congr buf buf' _ _ (by rw [g1, g2, s5, s6]; exact hb) (by rw [g2, s5]; omega)]

/-- C4.  Padding tolerance.  Let `buf` and `buf2` agree on the bytes `[0, len)`, let every
non-sentinel structural offset lie below `len`, and let the scalar decoders give the
same result on both buffers where the pre-pass calls them on the buffer itself: at the
strings and, unless the document is a sole scalar (`n_structural_indexes = 2`), at the
numbers and atoms.  If `unified_machine` accepts
the input in `buf`, then it does on `buf2` exactly what it does on `buf`: same return
code, same tape and workspace, same walk.  The walk of the accepted document reads the
structural index only below the sentinel position, so never the byte at offset `len`;
and for a sole scalar the number pass and the atom pass give what they give on the
space-terminated copy of the input, whatever the decoders are. -/
theorem padding_tolerance (D : ScalarDecoders) (buf buf2 : Nat → Nat) (len : Nat)
    (pj : ParsedJson) (hagree : ∀ x, x < len → buf2 x = buf x)
    (hoff : ∀ j, j < pj.n_structural_indexes - 1 → pj.structural_indexes j < len)
    (hstr : ∀ j, j < pj.n_structural_indexes - 1 → buf (pj.structural_indexes j) = ch_quote →
      D.parse_string buf2 (pj.structural_indexes j)
        = D.parse_string buf (pj.structural_indexes j))
    (hnum : pj.n_structural_indexes ≠ 2 → ∀ j, j < pj.n_structural_indexes - 1 →
      (is_digit (buf (pj.structural_indexes j)) = true →
        D.parse_number buf2 (pj.structural_indexes j) false
          = D.parse_number buf (pj.structural_indexes j) false) ∧
      (buf (pj.structural_indexes j) = ch_minus →
        D.parse_number buf2 (pj.structural_indexes j) true
          = D.parse_number buf (pj.structural_indexes j) true))
    (hatom : pj.n_structural_indexes ≠ 2 → ∀ j, j < pj.n_structural_indexes - 1 →
      (buf (pj.structural_indexes j) = ch_t →
        D.is_valid_true_atom buf2 (pj.structural_indexes j)
          = D.is_valid_true_atom buf (pj.structural_indexes j)) ∧
      (buf (pj.structural_indexes j) = ch_f →
        D.is_valid_false_atom buf2 (pj.structural_indexes j)
          = D.is_valid_false_atom buf (pj.structural_indexes j)) ∧
      (buf (pj.structural_indexes j) = ch_n →
        D.is_valid_null_atom buf2 (pj.structural_indexes j)
          = D.is_valid_null_atom buf (pj.structural_indexes j)))
    (hacc : (unified_machine D buf len pj).outcome = .returned .SUCCESS) :
    unified_machine D buf2 len pj = unified_machine D buf len pj ∧
    (∀ pos off, Event.read pos off ∈ (unified_machine D buf len pj).log →
      pos + 1 < pj.n_structural_indexes ∧ off < len) ∧
    (pj.n_structural_indexes = 2 → ∀ q : ParsedJson, q.n_structural_indexes = 2 →
      q.structural_indexes = pj.structural_indexes →
      parse_numbers D buf len q 0 = parse_numbers D (space_terminated_copy buf len) len q 0 ∧
      parse_atoms D buf len q 0 = parse_atoms D (space_terminated_copy buf len) len q 0) := by
  have hb : ∀ j, j < pj.n_structural_indexes - 1 →
      buf2 (pj.structural_indexes j) = buf (pj.structural_indexes j) :=
    fun j hj => hagree _ (hoff j hj)
  refine ⟨?_, ?_, ?_⟩
  · obtain ⟨_, _, hcap, hpre, _⟩ := accepted_run D buf len pj hacc
    have e1 : parse_strings D buf2 pj.init 0 = parse_strings D buf pj.init 0 :=
      parse_strings_congr D buf buf2 pj.init hb hstr
    obtain ⟨_, _, k3, k4, _⟩ := parse_strings_keeps D buf pj.init 0
    have e2 : parse_numbers D buf2 len (parse_strings D buf pj.init 0).2 0
        = parse_numbers D buf len (parse_strings D buf pj.init 0).2 0 := by
      apply parse_numbers_congr D buf buf2 len _ hagree
      · rw [k3, k4]; exact hb
      · rw [k3, k4]; exact hnum
    obtain ⟨_, _, m3, m4, _⟩ :=
      parse_numbers_keeps D buf len (parse_strings D buf pj.init 0).2 0
    have e3 : parse_atoms D buf2 len
          (parse_numbers D buf len (parse_strings D buf pj.init 0).2 0).2 0
        = parse_atoms D buf len
          (parse_numbers D buf len (parse_strings D buf pj.init 0).2 0).2 0 := by
      apply parse_atoms_congr D buf buf2 len _ hagree
      · rw [m3, m4, k3, k4]; exact hb
      · rw [m3, m4, k3, k4]; exact hatom
    have hpre2 : prepass_ok D buf2 len pj := by
      unfold prepass_ok at hpre ⊢
      rw [e1, e2, e3]
      exact hpre
    have hw : walk_pj D buf2 len pj = walk_pj D buf len pj := by
      unfold walk_pj
      rw [e1, e2, e3]
    rw [unified_machine_eq D buf len pj hcap hpre] at hacc
    rw [unified_machine_eq D buf2 len pj hcap hpre2, unified_machine_eq D buf len pj hcap hpre, hw]
    obtain ⟨_, _, a3, a4, a5, _⟩ := walk_pj_keeps D buf len pj
    generalize walk_pj D buf len pj = pjw at *
    apply parse_structurals_congr buf buf2 len pjw a5 _ hacc
    intro j hj
    rw [a4]
    exact hb j (by omega)
  · intro pos off hm
    obtain ⟨h1, h2⟩ := accepted_reads D buf len pj hacc pos off hm
    exact ⟨h1, by rw [h2]; exact hoff pos (by omega)⟩
  · intro h2 q hq hsi
    have hb2 : ∀ j, j < q.n_structural_indexes - 1 →
        space_terminated_copy buf len (q.structural_indexes j) = buf (q.structural_indexes j) := by
      intro j hj
      unfold space_terminated_copy
      rw [if_pos (by rw [hsi]; exact hoff j (by omega))]
    constructor
    · exact (parse_numbers_congr D buf (space_terminated_copy buf len) len q
        (fun x hx => by unfold space_terminated_copy; rw [if_pos hx]) hb2
        (fun hne => absurd hq hne)).symm
    · exact (parse_atoms_congr D buf (space_terminated_copy buf len) len q
        (fun x hx => by unfold space_terminated_copy; rw [if_pos hx]) hb2
        (fun hne => absurd hq hne)).symm

/-- C4, on two samples.  The document `[1,[2,3],[]]` with commas instead of zero bytes
as padding; and the sole number `12` with the digit `3` as every padding byte, which
the number pass decodes from the space-terminated copy as 12 on both buffers. -/
theorem padding_tolerance_witness :
    ((∀ x, x < 12 → buffer_of (bytes_of "[1,[2,3],[]]") 44 x
        = buffer_of (bytes_of "[1,[2,3],[]]") 0 x) ∧
      (unified_machine sample_decoders (buffer_of (bytes_of "[1,[2,3],[]]") 0) 12
        (fresh_workspace (dense_index 12) 1000 1024)).outcome = .returned .SUCCESS ∧
      unified_machine sample_decoders (buffer_of (bytes_of "[1,[2,3],[]]") 44) 12
          (fresh_workspace (dense_index 12) 1000 1024)
        = unified_machine sample_decoders (buffer_of (bytes_of "[1,[2,3],[]]") 0) 12
          (fresh_workspace (dense_index 12) 1000 1024)) ∧
    ((∀ x, x < 2 → buffer_of (bytes_of "12") 51 x = buffer_of (bytes_of "12") 0 x) ∧
      (fresh_workspace [0, 2] 1000 1024).n_structural_indexes = 2 ∧
      (unified_machine sample_decoders (buffer_of (bytes_of "12") 0) 2
        (fresh_workspace [0, 2] 1000 1024)).outcome = .returned .SUCCESS ∧
      unified_machine sample_decoders (buffer_of (bytes_of "12") 51) 2
          (fresh_workspace [0, 2] 1000 1024)
        = unified_machine sample_decoders (buffer_of (bytes_of "12") 0) 2
          (fresh_workspace [0, 2] 1000 1024)) :=
  ⟨⟨by decide, by decide,
      (padding_tolerance sample_decoders (buffer_of (bytes_of "[1,[2,3],[]]") 0)
        (buffer_of (bytes_of "[1,[2,3],[]]") 44) 12
        (fresh_workspace (dense_index 12) 1000 1024)
        (by decide) (by decide) (by decide) (by decide) (by decide) (by decide)).1⟩,
    ⟨by decide, by decide, by decide,
      (padding_tolerance sample_decoders (buffer_of (bytes_of "12") 0)
        (buffer_of (bytes_of "12") 51) 2 (fresh_workspace [0, 2] 1000 1024)
        (by decide) (by decide) (by decide) (by decide) (by decide) (by decide)).1⟩⟩

end simdjson

namespace simdjson
open StructuralParser

/-- C5, counterexample.  The document `[]` is accepted with the tape
`r [ ] r`: the array start entry is at tape index 1 and its end entry at tape index 2;
the end entry holds 1, the index of the start entry, but the start entry holds 3, not
the index 2 of its end entry. -/
theorem empty_array_start_payload_past_end :
    (unified_machine sample_decoders (buffer_of (bytes_of "[]") 0) 2
      (fresh_workspace (dense_index 2) 1000 1024)).outcome = .returned .SUCCESS ∧
    (unified_machine sample_decoders (buffer_of (bytes_of "[]") 0) 2
      (fresh_workspace (dense_index 2) 1000 1024)).pj.tape 1 = ⟨3, ch_lbracket⟩ ∧
    (unified_machine sample_decoders (buffer_of (bytes_of "[]") 0) 2
      (fresh_workspace (dense_index 2) 1000 1024)).pj.tape 2 = ⟨1, ch_rbracket⟩ ∧
    ((unified_machine sample_decoders (buffer_of (bytes_of "[]") 0) 2
      (fresh_workspace (dense_index 2) 1000 1024)).pj.tape 1).payload ≠ 2 := by
  decide

/-- C5, amended.  For every accepted document and every array or object closed in it
(every `pop_scope` of the walk, which wrote the end entry at tape index `e` for the
start entry at tape index `s`), the start entry comes after the root entry and before
the end entry, the end entry's payload is the tape index `s` of its start entry, and
the start entry's payload is `e + 1`, the tape index that follows its end entry. -/
theorem scope_entries_reference_each_other (D : ScalarDecoders) (buf : Nat → Nat) (len : Nat)
    (pj : ParsedJson) (slot s e : Nat)
    (hacc : (unified_machine D buf len pj).outcome = .returned .SUCCESS)
    (hpop : Event.pop slot s e ∈ (unified_machine D buf len pj).log) :
    0 < s ∧ s < e ∧ e + 1 < (unified_machine D buf len pj).pj.current_loc ∧
    ((unified_machine D buf len pj).pj.tape e).payload = s ∧
    ((unified_machine D buf len pj).pj.tape s).payload = e + 1 := by
  obtain ⟨p, hinv, hd, hlog, htape, hloc⟩ := accepted_tape D buf len pj hacc
  rw [hlog] at hpop
  obtain ⟨_, _, _, _, _, hcso, _, _, _, hpops, _⟩ := hinv
  obtain ⟨_, _, a3, a4, a5, a6, a7⟩ := hpops slot s e hpop
  have hs : 0 < s := by
    rcases a7 0 (by omega) with h | h
    · omega
    · omega
  refine ⟨hs, a3, by omega, ?_, ?_⟩
  · rw [htape, Function.update_noteq (by omega), Function.update_noteq (by omega)]
    exact a5
  · rw [htape, Function.update_noteq (by omega), Function.update_noteq (by omega)]
    exact a6

/-- C5, amended, on a sample: the inner array of `[1,[2,3],[]]` has its start entry at
tape index 4 and its end entry at tape index 9. -/
theorem scope_entries_reference_each_other_witness :
    ((unified_machine sample_decoders (buffer_of (bytes_of "[1,[2,3],[]]") 0) 12
        (fresh_workspace (dense_index 12) 1000 1024)).outcome = .returned .SUCCESS ∧
      Event.pop 2 4 9 ∈ (unified_machine sample_decoders
        (buffer_of (bytes_of "[1,[2,3],[]]") 0) 12
        (fresh_workspace (dense_index 12) 1000 1024)).log) ∧
    (0 < 4 ∧ 4 < 9 ∧
      9 + 1 < (unified_machine sample_decoders (buffer_of (bytes_of "[1,[2,3],[]]") 0) 12
        (fresh_workspace (dense_index 12) 1000 1024)).pj.current_loc ∧
      ((unified_machine sample_decoders (buffer_of (bytes_of "[1,[2,3],[]]") 0) 12
        (fresh_workspace (dense_index 12) 1000 1024)).pj.tape 9).payload = 4 ∧
      ((unified_machine sample_decoders (buffer_of (bytes_of "[1,[2,3],[]]") 0) 12
        (fresh_workspace (dense_index 12) 1000 1024)).pj.tape 4).payload = 9 + 1) :=
  ⟨⟨by decide, by decide⟩,
    scope_entries_reference_each_other sample_decoders _ 12 _ 2 4 9 (by decide) (by decide)⟩

end simdjson

namespace simdjson
open StructuralParser

/-- C6.  For every accepted document the root entry pair brackets the whole tape: the
last tape entry written is at index `current_loc - 1`, after the root start entry;
`tape[0]` has kind `r` and that index as payload, and the last entry has kind `r` and
payload 0. -/
theorem root_pair_brackets_tape (D : ScalarDecoders) (buf : Nat → Nat) (len : Nat)
    (pj : ParsedJson) (hacc : (unified_machine D buf len pj).outcome = .returned .SUCCESS) :
    (unified_machine D buf len pj).pj.tape 0
      = ⟨(unified_machine D buf len pj).pj.current_loc - 1, ch_r⟩ ∧
    (unified_machine D buf len pj).pj.tape ((unified_machine D buf len pj).pj.current_loc - 1)
      = ⟨0, ch_r⟩ ∧
    0 < (unified_machine D buf len pj).pj.current_loc - 1 := by
  obtain ⟨p, hinv, hd, _, htape, hloc⟩ := accepted_tape D buf len pj hacc
  have hpos : 0 < p.pj.current_loc := by
    have := hinv.2.2.2.2.2.2.2.1 0 (by omega)
    omega
  rw [htape, hloc, Nat.add_sub_cancel]
  refine ⟨?_, ?_, hpos⟩
  · rw [Function.update_noteq (by omega), Function.update_same]
  · rw [Function.update_same]

/-- C6, on a sample: the tape of `[1,[2,3],[]]` has 14 entries, `tape[0] = (13, r)` and
`tape[13] = (0, r)`. -/
theorem root_pair_brackets_tape_witness :
    (unified_machine sample_decoders (buffer_of (bytes_of "[1,[2,3],[]]") 0) 12
      (fresh_workspace (dense_index 12) 1000 1024)).outcome = .returned .SUCCESS ∧
    (unified_machine sample_decoders (buffer_of (bytes_of "[1,[2,3],[]]") 0) 12
      (fresh_workspace (dense_index 12) 1000 1024)).pj.current_loc = 14 ∧
    ((unified_machine sample_decoders (buffer_of (bytes_of "[1,[2,3],[]]") 0) 12
        (fresh_workspace (dense_index 12) 1000 1024)).pj.tape 0
      = ⟨(unified_machine sample_decoders (buffer_of (bytes_of "[1,[2,3],[]]") 0) 12
          (fresh_workspace (dense_index 12) 1000 1024)).pj.current_loc - 1, ch_r⟩ ∧
    (unified_machine sample_decoders (buffer_of (bytes_of "[1,[2,3],[]]") 0) 12
        (fresh_workspace (dense_index 12) 1000 1024)).pj.tape
        ((unified_machine sample_decoders (buffer_of (bytes_of "[1,[2,3],[]]") 0) 12
          (fresh_workspace (dense_index 12) 1000 1024)).pj.current_loc - 1)
      = ⟨0, ch_r⟩ ∧
    0 < (unified_machine sample_decoders (buffer_of (bytes_of "[1,[2,3],[]]") 0) 12
        (fresh_workspace (dense_index 12) 1000 1024)).pj.current_loc - 1) :=
  ⟨by decide, by decide,
    root_pair_brackets_tape sample_decoders _ 12 _ (by decide)⟩

end simdjson

namespace simdjson
open StructuralParser

/-- C7, failing input.  With depth capacity 3, the document `[[[]]]`, whose arrays nest
to a depth of exactly 3, is not parsed: `unified_machine` returns `DEPTH_ERROR`.  So do
`[[]]` of depth 2, one below the capacity, and `[[[[]]]]` of depth 4; the deepest
document accepted with capacity 3 is `[]`, of depth 1. -/
theorem nesting_at_capacity_is_depth_error :
    (unified_machine sample_decoders (buffer_of (bytes_of "[[[]]]") 0) 6
      (fresh_workspace (dense_index 6) 1000 3)).outcome = .returned .DEPTH_ERROR ∧
    (unified_machine sample_decoders (buffer_of (bytes_of "[[]]") 0) 4
      (fresh_workspace (dense_index 4) 1000 3)).outcome = .returned .DEPTH_ERROR ∧
    (unified_machine sample_decoders (buffer_of (bytes_of "[[[[]]]]") 0) 8
      (fresh_workspace (dense_index 8) 1000 3)).outcome = .returned .DEPTH_ERROR ∧
    (unified_machine sample_decoders (buffer_of (bytes_of "[]") 0) 2
      (fresh_workspace (dense_index 2) 1000 3)).outcome = .returned .SUCCESS := by
  decide

end simdjson

namespace simdjson
open StructuralParser

/-- C8.  With a depth capacity of at least one, `unified_machine` returns `DEPTH_ERROR`
if and only if some push of the run (of the root scope in `start`, or of an array or
object scope) increments the depth to a value equal to `depth_capacity`: no other
failure returns `DEPTH_ERROR`, and no run with such a push returns another code or
reads outside the structural index. -/
theorem depth_error_iff_push_reaches_capacity (D : ScalarDecoders) (buf : Nat → Nat)
    (len : Nat) (pj : ParsedJson) (hcap : 1 ≤ pj.depth_capacity) :
    (unified_machine D buf len pj).outcome = .returned .DEPTH_ERROR ↔
      ∃ slot loc, Event.push slot loc ∈ (unified_machine D buf len pj).log ∧
        slot + 1 = pj.depth_capacity := by
  rcases run_cases D buf len pj with ⟨hl, hne, _⟩ | ⟨_, hd, ho, hl⟩ |
    ⟨_, hd, _, _, e, hrest⟩
  · constructor
    · intro h; exact absurd h hne
    · rintro ⟨slot, loc, hm, _⟩
      rw [hl] at hm
      cases hm
  · constructor
    · intro _
      refine ⟨0, 0, ?_, by omega⟩
      rw [hl]
      simp
    · intro _; exact ho
  · obtain ⟨hinv, _, _, f3, _⟩ := hrest
    have hlog : (unified_machine D buf len pj).log = (final_config D buf len pj).2.log := by
      rw [e, conclude_log]
    rw [hlog, e, ← f3]
    rw [← f3] at hcap
    generalize final_config D buf len pj = cfg at hinv hcap ⊢
    obtain ⟨L, p⟩ := cfg
    have hno : StateInv p → ¬ ∃ slot loc, Event.push slot loc ∈ p.log ∧
        slot + 1 = p.pj.depth_capacity := by
      rintro hs ⟨slot, loc, hm, heq⟩
      have := hs.2.2.2.2.2.2.2.2.2.2 slot loc hm
      omega
    cases L with
    | error =>
      have hc : (conclude (Label.error, p)).outcome = .returned p.error.1 := rfl
      rw [hc]
      rcases hinv with hs | ⟨hde, loc, hm⟩
      · have hs2 : StateInv p := hs
        constructor
        · intro h
          have h2 : p.error.1 = .DEPTH_ERROR := by injection h
          have := (error_depth_error p).1 h2
          have := hs2.2.1
          omega
        · intro h; exact absurd h (hno hs2)
      · have hm2 : Event.push (p.depth - 1) loc ∈ p.log := hm
        have hde2 : p.depth = p.pj.depth_capacity := hde
        have hcap2 : 1 ≤ p.pj.depth_capacity := hcap
        constructor
        · intro _
          refine ⟨p.depth - 1, loc, hm2, ?_⟩
          show p.depth - 1 + 1 = p.pj.depth_capacity
          omega
        · intro _
          rw [(error_depth_error p).2 (by omega)]
    | finish =>
      have hc : (conclude (Label.finish, p)).outcome = .returned p.finish.1 := rfl
      rw [hc]
      constructor
      · intro h
        have h2 : p.finish.1 = .DEPTH_ERROR := by injection h
        exact absurd h2 (finish_ne_depth_error p)
      · intro h; exact absurd h (hno hinv.1)
    | overrun =>
      constructor
      · intro h; cases h
      · intro h; exact absurd h (hno hinv.1)
    | object_begin =>
      constructor
      · intro h; cases h
      · intro h; exact absurd h (hno hinv.1)
    | object_key_state =>
      constructor
      · intro h; cases h
      · intro h; exact absurd h (hno hinv.1)
    | object_continue =>
      constructor
      · intro h; cases h
      · intro h; exact absurd h (hno hinv.1)
    | scope_end =>
      constructor
      · intro h; cases h
      · intro h; exact absurd h (hno hinv.1)
    | array_begin =>
      constructor
      · intro h; cases h
      · intro h; exact absurd h (hno hinv.1)
    | main_array_switch =>
      constructor
      · intro h; cases h
      · intro h; exact absurd h (hno hinv.1)
    | array_continue =>
      constructor
      · intro h; cases h
      · intro h; exact absurd h (hno hinv.1)

/-- C8, on a sample: with depth capacity 3 the document `[[]]` is refused with
`DEPTH_ERROR`, and the push of its inner array, at slot 2, is the one that brings the
depth to 3. -/
theorem depth_error_iff_push_reaches_capacity_witness :
    (1 ≤ (fresh_workspace (dense_index 4) 1000 3).depth_capacity ∧
      (unified_machine sample_decoders (buffer_of (bytes_of "[[]]") 0) 4
        (fresh_workspace (dense_index 4) 1000 3)).outcome = .returned .DEPTH_ERROR ∧
      Event.push 2 2 ∈ (unified_machine sample_decoders (buffer_of (bytes_of "[[]]") 0) 4
        (fresh_workspace (dense_index 4) 1000 3)).log) ∧
    ((unified_machine sample_decoders (buffer_of (bytes_of "[[]]") 0) 4
        (fresh_workspace (dense_index 4) 1000 3)).outcome = .returned .DEPTH_ERROR ↔
      ∃ slot loc, Event.push slot loc ∈ (unified_machine sample_decoders
          (buffer_of (bytes_of "[[]]") 0) 4 (fresh_workspace (dense_index 4) 1000 3)).log ∧
        slot + 1 = (fresh_workspace (dense_index 4) 1000 3).depth_capacity) :=
  ⟨⟨by decide, by decide, by decide⟩,
    depth_error_iff_push_reaches_capacity sample_decoders _ 4 _ (by decide)⟩

end simdjson

namespace simdjson
open StructuralParser

/-- C9.  When the pre-pass and `start` have succeeded and the structural walk fails,
that is ends at the label `error`, with the depth below `depth_capacity`, the returned
code is determined by the current structural byte `c` alone: `"` gives `STRING_ERROR`,
a digit or `-` gives `NUMBER_ERROR`, `t` gives `T_ATOM_ERROR`, `f` gives
`F_ATOM_ERROR`, `n` gives `N_ATOM_ERROR`, and every other byte gives `TAPE_ERROR`. -/
theorem walk_error_code_from_byte (D : ScalarDecoders) (buf : Nat → Nat) (len : Nat)
    (pj : ParsedJson) (hn : 1 ≤ pj.n_structural_indexes) (hcap : len ≤ pj.byte_capacity)
    (hpre : prepass_ok D buf len pj) (hd1 : 1 < pj.depth_capacity)
    (herr : (final_config D buf len pj).1 = .error)
    (hd : (final_config D buf len pj).2.depth < pj.depth_capacity) :
    ((final_config D buf len pj).2.c = ch_quote →
      (unified_machine D buf len pj).outcome = .returned .STRING_ERROR) ∧
    ((is_digit (final_config D buf len pj).2.c = true ∨
        (final_config D buf len pj).2.c = ch_minus) →
      (unified_machine D buf len pj).outcome = .returned .NUMBER_ERROR) ∧
    ((final_config D buf len pj).2.c = ch_t →
      (unified_machine D buf len pj).outcome = .returned .T_ATOM_ERROR) ∧
    ((final_config D buf len pj).2.c = ch_f →
      (unified_machine D buf len pj).outcome = .returned .F_ATOM_ERROR) ∧
    ((final_config D buf len pj).2.c = ch_n →
      (unified_machine D buf len pj).outcome = .returned .N_ATOM_ERROR) ∧
    ((final_config D buf len pj).2.c ≠ ch_quote →
      is_digit (final_config D buf len pj).2.c = false →
      (final_config D buf len pj).2.c ≠ ch_minus →
      (final_config D buf len pj).2.c ≠ ch_t →
      (final_config D buf len pj).2.c ≠ ch_f →
      (final_config D buf len pj).2.c ≠ ch_n →
      (unified_machine D buf len pj).outcome = .returned .TAPE_ERROR) := by
  obtain ⟨e, hrest⟩ := run_of_walk D buf len pj hn hcap hpre hd1
  · obtain ⟨_, _, _, f3, _⟩ := hrest
    rw [e]
    rw [← f3] at hd
    generalize final_config D buf len pj = cfg at herr hd ⊢
    obtain ⟨L, p⟩ := cfg
    have hL : L = .error := herr
    subst hL
    have hd2 : ¬ p.depth ≥ p.pj.depth_capacity := by
      have : p.depth < p.pj.depth_capacity := hd
      omega
    have hc : (conclude (Label.error, p)).outcome = .returned p.error.1 := rfl
    rw [hc]
    show (p.c = ch_quote → _) ∧ ((is_digit p.c = true ∨ p.c = ch_minus) → _) ∧
      (p.c = ch_t → _) ∧ (p.c = ch_f → _) ∧ (p.c = ch_n → _) ∧
      (p.c ≠ ch_quote → is_digit p.c = false → p.c ≠ ch_minus → p.c ≠ ch_t → p.c ≠ ch_f →
        p.c ≠ ch_n → _)
    unfold error
    rw [if_neg hd2]
    refine ⟨?_, ?_, ?_, ?_, ?_, ?_⟩
    · intro h
      rw [if_pos h]; rfl
    · intro h
      have h1 : p.c ≠ ch_quote := by
        rcases h with h | h
        · intro hq; rw [hq] at h; revert h; decide
        · rw [h]; decide
      have h2 : is_number_start p.c = true := by
        rcases h with h | h
        · simp [is_number_start, h]
        · simp [is_number_start, h]
      rw [if_neg h1, if_pos h2]; rfl
    · intro h
      rw [h]; rfl
    · intro h
      rw [h]; rfl
    · intro h
      rw [h]; rfl
    · intro h1 h2 h3 h4 h5 h6
      have h7 : ¬ is_number_start p.c = true := by
        simp [is_number_start, h2, h3]
      rw [if_neg h1, if_neg h7, if_neg h4, if_neg h6, if_neg h5]; rfl

/-- C9, on a sample: in `[1 true]` the walk fails at the `t` that follows the first
element, with depth 2, and the code is `T_ATOM_ERROR`. -/
theorem walk_error_code_from_byte_witness :
    (1 ≤ (fresh_workspace [0, 1, 3, 7, 8] 1000 1024).n_structural_indexes ∧
      8 ≤ (fresh_workspace [0, 1, 3, 7, 8] 1000 1024).byte_capacity ∧
      prepass_ok sample_decoders (buffer_of (bytes_of "[1 true]") 0) 8
        (fresh_workspace [0, 1, 3, 7, 8] 1000 1024) ∧
      1 < (fresh_workspace [0, 1, 3, 7, 8] 1000 1024).depth_capacity ∧
      (final_config sample_decoders (buffer_of (bytes_of "[1 true]") 0) 8
        (fresh_workspace [0, 1, 3, 7, 8] 1000 1024)).1 = .error ∧
      (final_config sample_decoders (buffer_of (bytes_of "[1 true]") 0) 8
        (fresh_workspace [0, 1, 3, 7, 8] 1000 1024)).2.depth
        < (fresh_workspace [0, 1, 3, 7, 8] 1000 1024).depth_capacity ∧
      (final_config sample_decoders (buffer_of (bytes_of "[1 true]") 0) 8
        (fresh_workspace [0, 1, 3, 7, 8] 1000 1024)).2.c = ch_t) ∧
    (unified_machine sample_decoders (buffer_of (bytes_of "[1 true]") 0) 8
      (fresh_workspace [0, 1, 3, 7, 8] 1000 1024)).outcome = .returned .T_ATOM_ERROR :=
  ⟨⟨by decide, by decide, by unfold prepass_ok; decide, by decide,
      by rw [final_config_eq]; decide, by rw [final_config_eq]; decide,
      by rw [final_config_eq]; decide⟩,
    (walk_error_code_from_byte sample_decoders _ 8 _ (by decide) (by decide)
      (by unfold prepass_ok; decide) (by decide) (by rw [final_config_eq]; decide)
      (by rw [final_config_eq]; decide)).2.2.1 (by rw [final_config_eq]; decide)⟩

end simdjson

namespace simdjson
open StructuralParser

/-- C10, failing input.  In `[tru]` and `[fals]` the structural at offset 1 starts with
`t`, respectively `f`, and is not a valid `true`, respectively `false`; the strings and
numbers pass hold no error, `parse_atoms` fails, and `unified_machine` returns
`N_ATOM_ERROR` for both, neither `T_ATOM_ERROR` nor `F_ATOM_ERROR`. -/
theorem malformed_true_false_report_n_atom_error :
    (buffer_of (bytes_of "[tru]") 0) 1 = ch_t ∧
    is_valid_true_atom (buffer_of (bytes_of "[tru]") 0) 1 = false ∧
    (unified_machine sample_decoders (buffer_of (bytes_of "[tru]") 0) 5
      (fresh_workspace [0, 1, 4, 5] 1000 1024)).outcome = .returned .N_ATOM_ERROR ∧
    (buffer_of (bytes_of "[fals]") 0) 1 = ch_f ∧
    is_valid_false_atom (buffer_of (bytes_of "[fals]") 0) 1 = false ∧
    (unified_machine sample_decoders (buffer_of (bytes_of "[fals]") 0) 6
      (fresh_workspace [0, 1, 5, 6] 1000 1024)).outcome = .returned .N_ATOM_ERROR := by
  decide

end simdjson

namespace simdjson
open StructuralParser

/-! ## The stored code and the valid flag -/

theorem finish_flags (p : StructuralParser) (hv : p.pj.valid = false) :
    p.finish.2.pj.error_code = p.finish.1 ∧
    (p.finish.2.pj.valid = true ↔ p.finish.1 = .SUCCESS) := by
  unfold finish
  by_cases h1 : p.i + 1 ≠ p.pj.n_structural_indexes
  · rw [if_pos h1]
    simp [set_error_code, hv]
  · rw [if_neg h1]
    simp only
    by_cases h2 : p.pop_root_scope.depth ≠ 0
    · rw [if_pos h2]
      simp [set_error_code, pop_root_scope, ParsedJson.write_tape,
        ParsedJson.annotate_previous_loc, hv]
    · rw [if_neg h2]
      by_cases h3 : p.pop_root_scope.pj.containing_scope_offset p.pop_root_scope.depth ≠ 0
      · rw [if_pos h3]
        simp [set_error_code, pop_root_scope, ParsedJson.write_tape,
          ParsedJson.annotate_previous_loc, hv]
      · rw [if_neg h3]
        simp [set_error_code]

theorem error_flags (p : StructuralParser) (hv : p.pj.valid = false) :
    p.error.2.pj.error_code = p.error.1 ∧
    (p.error.2.pj.valid = true ↔ p.error.1 = .SUCCESS) := by
  refine ⟨?_, ?_⟩
  · unfold error set_error_code
    repeat' split
    all_goals rfl
  · rw [error_valid, hv]
    constructor
    · intro h; cases h
    · intro h; exact absurd h (error_ne_success p)

theorem conclude_flags (cfg : Label × StructuralParser) (hv : cfg.2.pj.valid = false)
    (code : ErrorValues) (h : (conclude cfg).outcome = .returned code) :
    (conclude cfg).pj.error_code = code ∧
    ((conclude cfg).pj.valid = true ↔ code = .SUCCESS) := by
  obtain ⟨L, p⟩ := cfg
  cases L
  case finish =>
    have e : p.finish.1 = code := by
      have h2 : Outcome.returned p.finish.1 = .returned code := h
      injection h2
    rw [← e]
    exact finish_flags p hv
  case error =>
    have e : p.error.1 = code := by
      have h2 : Outcome.returned p.error.1 = .returned code := h
      injection h2
    rw [← e]
    exact error_flags p hv
  all_goals cases h

theorem parse_structurals_flags (buf : Nat → Nat) (len : Nat) (pj1 : ParsedJson)
    (h0 : pj1.current_loc = 0) (hv : pj1.valid = false) (code : ErrorValues)
    (h : (parse_structurals buf len pj1).outcome = .returned code) :
    (parse_structurals buf len pj1).pj.error_code = code ∧
    ((parse_structurals buf len pj1).pj.valid = true ↔ code = .SUCCESS) := by
  by_cases hn : pj1.n_structural_indexes = 0
  · rw [parse_structurals_empty _ _ _ hn] at h
    cases h
  · rw [parse_structurals_eq buf len pj1 (by omega)] at h ⊢
    have hs := walk_start_facts buf len pj1 h0
    by_cases hd : pj1.depth_capacity ≤ 1
    · rw [if_pos hd] at h ⊢
      have e : ErrorValues.DEPTH_ERROR = code := by injection h
      subst e
      refine ⟨rfl, ?_⟩
      show (walk_start buf len pj1).pj.valid = true ↔ _
      rw [hs.2.2.2.2.2.2.2.2.1, hv]
      simp
    · rw [if_neg hd] at h ⊢
      apply conclude_flags _ _ code h
      rw [(walk_flags buf _ _).1, first_value_eq, (parse_value_flags _ _).1]
      rw [hs.2.2.2.2.2.2.2.2.1, hv]

/-- The stored code and the valid flag after a return of `unified_machine`. -/
theorem machine_flags (D : ScalarDecoders) (buf : Nat → Nat) (len : Nat)
    (pj : ParsedJson) (code : ErrorValues)
    (h : (unified_machine D buf len pj).outcome = .returned code) :
    (unified_machine D buf len pj).pj.error_code = code ∧
    ((unified_machine D buf len pj).pj.valid = true ↔ code = .SUCCESS) := by
  have k1 := parse_strings_keeps D buf pj.init 0
  have k2 := parse_numbers_keeps D buf len (parse_strings D buf pj.init 0).2 0
  have k3 := parse_atoms_keeps D buf len
    (parse_numbers D buf len (parse_strings D buf pj.init 0).2 0).2 0
  have c1 := parse_strings_code D buf pj.init 0
  have c2 := parse_numbers_code D buf len (parse_strings D buf pj.init 0).2 0
  have c3 := parse_atoms_code D buf len
    (parse_numbers D buf len (parse_strings D buf pj.init 0).2 0).2 0
  unfold unified_machine at h ⊢
  generalize parse_atoms D buf len
    (parse_numbers D buf len (parse_strings D buf pj.init 0).2 0).2 0 = r3 at *
  generalize parse_numbers D buf len (parse_strings D buf pj.init 0).2 0 = r2 at *
  generalize parse_strings D buf pj.init 0 = r1 at *
  have v1 : r1.2.valid = false := k1.2.2.2.2.2.2.2.2
  have v2 : r2.2.valid = false := k2.2.2.2.2.2.2.2.2.trans v1
  have v3 : r3.2.valid = false := k3.2.2.2.2.2.2.2.2.trans v2
  by_cases h0 : len > pj.init.byte_capacity
  · rw [if_pos h0] at h ⊢
    have e : ErrorValues.CAPACITY = code := by injection h
    subst e
    refine ⟨rfl, ?_⟩
    show pj.init.valid = true ↔ _
    simp [ParsedJson.init]
  · rw [if_neg h0] at h ⊢
    by_cases h1 : r1.1 ≠ .SUCCESS
    · rw [if_pos h1] at h ⊢
      have e : r1.2.error_code = code := by injection h
      refine ⟨e, ?_⟩
      show r1.2.valid = true ↔ _
      rw [v1, ← e, c1 h1]
      simp
    · rw [if_neg h1] at h ⊢
      by_cases h2 : r2.1 ≠ .SUCCESS
      · rw [if_pos h2] at h ⊢
        have e : r2.2.error_code = code := by injection h
        refine ⟨e, ?_⟩
        show r2.2.valid = true ↔ _
        rw [v2, ← e, c2 h2]
        simp
      · rw [if_neg h2] at h ⊢
        by_cases h3 : r3.1 ≠ .SUCCESS
        · rw [if_pos h3] at h ⊢
          have e : r3.2.error_code = code := by injection h
          refine ⟨e, ?_⟩
          show r3.2.valid = true ↔ _
          rw [v3, ← e, c3 h3]
          simp
        · rw [if_neg h3] at h ⊢
          exact parse_structurals_flags buf len r3.2.init rfl rfl code h

end simdjson

namespace simdjson
open StructuralParser

/-! ## The walk over a root value that is followed by more structurals -/

/-- When the structural bytes start with one value, the walk reads it and ends at
`finish` with the position right after it. -/
theorem walk_root_value (buf : Nat → Nat) (p : StructuralParser) {k : Nat} {v : List Nat}
    (hv : Spells .value k v)
    (hi : p.i = 1) (hc : p.c = structural_byte buf p.pj 0) (hd : p.depth = 1)
    (hcso : p.pj.containing_scope_offset 0 = 0)
    (hseg : seg buf p.pj 0 v.length = v) (hn : v.length ≤ p.pj.n_structural_indexes)
    (hcap : k + 1 < p.pj.depth_capacity) :
    ∃ q : StructuralParser, walk buf (walk_fuel p.pj) (first_value p) = (.finish, q) ∧
      q.i = v.length ∧ q.depth = 1 ∧ q.pj.containing_scope_offset 0 = 0 ∧
      q.pj.n_structural_indexes = p.pj.n_structural_indexes := by
  have hlen := spells_nonempty hv
  obtain ⟨s, q, hw, hr⟩ := walk_sound buf hv p .finish 0 (by omega) hc hseg (by omega)
    (by omega)
  have hfin : walk buf (walk_fuel p.pj) (first_value p) = (.finish, q) := by
    rw [walk_eq_of_terminal buf s _ _ (by rw [first_value_eq, hw]; rfl)
      (first_value_measure p (by omega)), first_value_eq, hw]
    rfl
  refine ⟨q, hfin, ?_, ?_, ?_, hr.2.2.1.2.1⟩
  · rw [hr.1, hi]; omega
  · rw [hr.2.1, hd]
  · rw [hr.2.2.2.2 0 (by omega)]; exact hcso

theorem finish_tape_error (p : StructuralParser)
    (h : p.i + 1 ≠ p.pj.n_structural_indexes) : p.finish.1 = .TAPE_ERROR := by
  unfold finish
  rw [if_pos h]
  rfl

end simdjson

namespace simdjson
open StructuralParser

/-! ## The layout of the scalars: offsets, slots and tape indexes -/

theorem quote_class : is_atom_start ch_quote = false ∧ is_number_start ch_quote = false ∧
    ch_quote ≠ ch_comma ∧ ch_quote ≠ ch_colon := by decide

theorem atom_class {c : Nat} (h : is_atom_start c = true) :
    c ≠ ch_quote ∧ is_number_start c = false ∧ c ≠ ch_comma ∧ c ≠ ch_colon := by
  simp only [is_atom_start, Bool.or_eq_true, beq_iff_eq, ch_t, ch_f, ch_n] at h
  rcases h with (h | h) | h <;> subst h <;> decide

theorem number_class {c : Nat} (h : is_number_start c = true) :
    c ≠ ch_quote ∧ is_atom_start c = false ∧ c ≠ ch_comma ∧ c ≠ ch_colon := by
  simp only [is_number_start, is_digit, Bool.or_eq_true, beq_iff_eq, Bool.and_eq_true,
    decide_eq_true_eq, ch_minus] at h
  simp only [is_atom_start, ch_quote, ch_comma, ch_colon, ch_t, ch_f, ch_n, Bool.or_eq_false_iff,
    beq_eq_false_iff_ne, ne_eq]
  refine ⟨?_, ⟨⟨?_, ?_⟩, ?_⟩, ?_, ?_⟩ <;> omega

theorem bracket_class {c : Nat}
    (h : c = ch_lbracket ∨ c = ch_rbracket ∨ c = ch_lbrace ∨ c = ch_rbrace) :
    c ≠ ch_quote ∧ is_atom_start c = false ∧ is_number_start c = false ∧ c ≠ ch_comma ∧
      c ≠ ch_colon := by
  rcases h with h | h | h | h <;> subst h <;> decide

theorem separator_class {c : Nat} (h : c = ch_comma ∨ c = ch_colon) :
    c ≠ ch_quote ∧ is_atom_start c = false ∧ is_number_start c = false := by
  rcases h with h | h <;> subst h <;> decide

theorem arena_offset_succ (D : ScalarDecoders) (buf : Nat → Nat) (pj : ParsedJson) (j : Nat) :
    arena_offset D buf pj (j + 1) = arena_offset D buf pj j +
      (if structural_byte buf pj j = ch_quote then 4 + (string_bytes_at D buf pj j).length + 1
       else 0) := rfl

theorem arena_offset_string (D : ScalarDecoders) (buf : Nat → Nat) (pj : ParsedJson) (j : Nat)
    (h : structural_byte buf pj j = ch_quote) :
    arena_offset D buf pj (j + 1)
      = arena_offset D buf pj j + (4 + (string_bytes_at D buf pj j).length + 1) := by
  rw [arena_offset_succ, if_pos h]

theorem arena_offset_other (D : ScalarDecoders) (buf : Nat → Nat) (pj : ParsedJson) (j : Nat)
    (h : structural_byte buf pj j ≠ ch_quote) :
    arena_offset D buf pj (j + 1) = arena_offset D buf pj j := by
  rw [arena_offset_succ, if_neg h]; rfl

theorem arena_offset_mono (D : ScalarDecoders) (buf : Nat → Nat) (pj : ParsedJson) {x y : Nat}
    (h : x ≤ y) : arena_offset D buf pj x ≤ arena_offset D buf pj y := by
  induction y with
  | zero =>
    have : x = 0 := by omega
    rw [this]
  | succ y ih =>
    by_cases hxy : x = y + 1
    · rw [hxy]
    · have := ih (by omega)
      rw [arena_offset_succ]
      omega

theorem number_index_succ (buf : Nat → Nat) (pj : ParsedJson) (j : Nat) :
    number_index buf pj (j + 1)
      = number_index buf pj j + (if is_number_start (structural_byte buf pj j) then 1 else 0) :=
  rfl

theorem number_index_number (buf : Nat → Nat) (pj : ParsedJson) (j : Nat)
    (h : is_number_start (structural_byte buf pj j) = true) :
    number_index buf pj (j + 1) = number_index buf pj j + 1 := by
  rw [number_index_succ, if_pos h]

theorem number_index_other (buf : Nat → Nat) (pj : ParsedJson) (j : Nat)
    (h : is_number_start (structural_byte buf pj j) = false) :
    number_index buf pj (j + 1) = number_index buf pj j := by
  rw [number_index_succ, h]; rfl

theorem number_index_mono (buf : Nat → Nat) (pj : ParsedJson) {x y : Nat} (h : x ≤ y) :
    number_index buf pj x ≤ number_index buf pj y := by
  induction y with
  | zero =>
    have : x = 0 := by omega
    rw [this]
  | succ y ih =>
    by_cases hxy : x = y + 1
    · rw [hxy]
    · have := ih (by omega)
      rw [number_index_succ]
      omega

theorem tape_index_succ (buf : Nat → Nat) (pj : ParsedJson) (j : Nat) :
    tape_index buf pj (j + 1) = tape_index buf pj j + entry_width buf pj j := rfl

theorem tape_index_mono (buf : Nat → Nat) (pj : ParsedJson) {x y : Nat} (h : x ≤ y) :
    tape_index buf pj x ≤ tape_index buf pj y := by
  induction y with
  | zero =>
    have : x = 0 := by omega
    rw [this]
  | succ y ih =>
    by_cases hxy : x = y + 1
    · rw [hxy]
    · have := ih (by omega)
      rw [tape_index_succ]
      omega

theorem string_record_length (D : ScalarDecoders) (buf : Nat → Nat) (pj : ParsedJson) (j : Nat) :
    (string_record D buf pj j).length = 4 + (string_bytes_at D buf pj j).length + 1 := by
  simp only [string_record, u32_bytes, List.length_append, List.length_cons, List.length_nil]

/-! ## Two workspaces that hold the same structural index -/

theorem structural_byte_same (buf : Nat → Nat) {pj pj1 : ParsedJson}
    (h : pj1.structural_indexes = pj.structural_indexes) :
    structural_byte buf pj1 = structural_byte buf pj := by
  funext j
  simp only [structural_byte, h]

theorem string_bytes_at_same (D : ScalarDecoders) (buf : Nat → Nat) {pj pj1 : ParsedJson}
    (h : pj1.structural_indexes = pj.structural_indexes) :
    string_bytes_at D buf pj1 = string_bytes_at D buf pj := by
  funext j
  simp only [string_bytes_at, h]

theorem string_record_same (D : ScalarDecoders) (buf : Nat → Nat) {pj pj1 : ParsedJson}
    (h : pj1.structural_indexes = pj.structural_indexes) :
    string_record D buf pj1 = string_record D buf pj := by
  funext j
  simp only [string_record, string_bytes_at_same D buf h]

theorem arena_offset_same (D : ScalarDecoders) (buf : Nat → Nat) {pj pj1 : ParsedJson}
    (h : pj1.structural_indexes = pj.structural_indexes) :
    arena_offset D buf pj1 = arena_offset D buf pj := by
  funext j
  induction j with
  | zero => rfl
  | succ j ih =>
    rw [arena_offset_succ, arena_offset_succ, ih, structural_byte_same buf h,
      string_bytes_at_same D buf h]

theorem number_index_same (buf : Nat → Nat) {pj pj1 : ParsedJson}
    (h : pj1.structural_indexes = pj.structural_indexes) :
    number_index buf pj1 = number_index buf pj := by
  funext j
  induction j with
  | zero => rfl
  | succ j ih => rw [number_index_succ, number_index_succ, ih, structural_byte_same buf h]

theorem tape_index_same (buf : Nat → Nat) {pj pj1 : ParsedJson}
    (h : pj1.structural_indexes = pj.structural_indexes) :
    tape_index buf pj1 = tape_index buf pj := by
  funext j
  induction j with
  | zero => rfl
  | succ j ih =>
    rw [tape_index_succ, tape_index_succ, ih]
    simp only [entry_width, structural_byte_same buf h]

theorem number_at_same (D : ScalarDecoders) (buf : Nat → Nat) (len : Nat) {pj pj1 : ParsedJson}
    (h : pj1.structural_indexes = pj.structural_indexes)
    (hn : pj1.n_structural_indexes = pj.n_structural_indexes) :
    number_at D buf len pj1 = number_at D buf len pj := by
  funext j
  simp only [number_at, number_source, structural_byte_same buf h, h, hn]

theorem scalar_entries_same (D : ScalarDecoders) (buf : Nat → Nat) (len : Nat)
    {pj pj1 : ParsedJson} (h : pj1.structural_indexes = pj.structural_indexes)
    (hn : pj1.n_structural_indexes = pj.n_structural_indexes) :
    scalar_entries D buf len pj1 = scalar_entries D buf len pj := by
  funext j
  simp only [scalar_entries, structural_byte_same buf h, arena_offset_same D buf h,
    number_at_same D buf len h hn]

theorem position_kinds_same (D : ScalarDecoders) (buf : Nat → Nat) (len : Nat)
    {pj pj1 : ParsedJson} (h : pj1.structural_indexes = pj.structural_indexes)
    (hn : pj1.n_structural_indexes = pj.n_structural_indexes) :
    position_kinds D buf len pj1 = position_kinds D buf len pj := by
  funext j
  simp only [position_kinds, structural_byte_same buf h, number_at_same D buf len h hn]

/-- The entries of a phrase depend on the workspace through the structural index
only. -/
theorem emits_same (D : ScalarDecoders) (buf : Nat → Nat) (len : Nat) {pj pj1 : ParsedJson}
    (h : pj1.structural_indexes = pj.structural_indexes)
    (hn : pj1.n_structural_indexes = pj.n_structural_indexes)
    {cat : Category} {k : Nat} {ws : List Nat} {j a : Nat} {es : List TapeEntry}
    (he : Emits D buf len pj cat k ws j a es) : Emits D buf len pj1 cat k ws j a es := by
  induction he with
  | scalar c j a hs =>
    rw [← scalar_entries_same D buf len h hn]
    exact Emits.scalar c j a hs
  | empty_array j a => exact Emits.empty_array j a
  | array k ws j a es _ ih => exact Emits.array k ws j a es ih
  | empty_object j a => exact Emits.empty_object j a
  | object k ws j a es _ ih => exact Emits.object k ws j a es ih
  | element k ws j a es _ ih => exact Emits.element k ws j a es ih
  | elements k m ws ws1 j a es es1 _ _ ih ih1 => exact Emits.elements k m ws ws1 j a es es1 ih ih1
  | member k ws j a es _ ih =>
    rw [← arena_offset_same D buf h]
    exact Emits.member k ws j a es ih
  | members k m ws ws1 j a es es1 _ _ ih ih1 =>
    rw [← arena_offset_same D buf h]
    exact Emits.members k m ws ws1 j a es es1 ih ih1

/-! ## The entries of a phrase and the grammar -/

theorem emits_spells {D : ScalarDecoders} {buf : Nat → Nat} {len : Nat} {pj : ParsedJson}
    {cat : Category} {k : Nat} {ws : List Nat} {j a : Nat} {es : List TapeEntry}
    (he : Emits D buf len pj cat k ws j a es) : Spells cat k ws := by
  induction he with
  | scalar c j a hs => exact Spells.scalar c hs
  | empty_array j a => exact Spells.empty_array
  | array k ws j a es _ ih => exact Spells.array k ws ih
  | empty_object j a => exact Spells.empty_object
  | object k ws j a es _ ih => exact Spells.object k ws ih
  | element k ws j a es _ ih => exact Spells.element k ws ih
  | elements k m ws ws1 j a es es1 _ _ ih ih1 => exact Spells.elements k m ws ws1 ih ih1
  | member k ws j a es _ ih => exact Spells.member k ws ih
  | members k m ws ws1 j a es es1 _ _ ih ih1 => exact Spells.members k m ws ws1 ih ih1

/-- Every phrase of the grammar has its entries, wherever it starts. -/
theorem spells_emits (D : ScalarDecoders) (buf : Nat → Nat) (len : Nat) (pj : ParsedJson)
    {cat : Category} {k : Nat} {ws : List Nat} (h : Spells cat k ws) :
    ∀ j a, ∃ es, Emits D buf len pj cat k ws j a es := by
  induction h with
  | scalar c hs => exact fun j a => ⟨_, Emits.scalar c j a hs⟩
  | empty_array => exact fun j a => ⟨_, Emits.empty_array j a⟩
  | array k ws _ ih =>
    intro j a
    obtain ⟨es, he⟩ := ih (j + 1) (a + 1)
    exact ⟨_, Emits.array k ws j a es he⟩
  | empty_object => exact fun j a => ⟨_, Emits.empty_object j a⟩
  | object k ws _ ih =>
    intro j a
    obtain ⟨es, he⟩ := ih (j + 1) (a + 1)
    exact ⟨_, Emits.object k ws j a es he⟩
  | element k ws _ ih =>
    intro j a
    obtain ⟨es, he⟩ := ih j a
    exact ⟨_, Emits.element k ws j a es he⟩
  | elements k m ws ws1 _ _ ih ih1 =>
    intro j a
    obtain ⟨es, he⟩ := ih j a
    obtain ⟨es1, he1⟩ := ih1 (j + ws.length + 1) (a + es.length)
    exact ⟨_, Emits.elements k m ws ws1 j a es es1 he he1⟩
  | member k ws _ ih =>
    intro j a
    obtain ⟨es, he⟩ := ih (j + 2) (a + 1)
    exact ⟨_, Emits.member k ws j a es he⟩
  | members k m ws ws1 _ _ ih ih1 =>
    intro j a
    obtain ⟨es, he⟩ := ih (j + 2) (a + 1)
    obtain ⟨es1, he1⟩ := ih1 (j + ws.length + 3) (a + 1 + es.length)
    exact ⟨_, Emits.members k m ws ws1 j a es es1 he he1⟩

theorem emits_members_head {D : ScalarDecoders} {buf : Nat → Nat} {len : Nat} {pj : ParsedJson}
    {k : Nat} {ws : List Nat} {j a : Nat} {es : List TapeEntry}
    (he : Emits D buf len pj .members k ws j a es) :
    es = ⟨arena_offset D buf pj j, ch_quote⟩ :: es.drop 1 := by
  cases he with
  | member k ws j a es _ => rfl
  | members k m ws ws1 j a es es1 _ _ => rfl

end simdjson

namespace simdjson
open StructuralParser

/-! ## What a stretch of the walk writes on the tape -/

theorem wrote_same {pjp pjq : ParsedJson} (h : pjq.tape = pjp.tape) (a : Nat) :
    Wrote pjp pjq a [] :=
  ⟨by intro t e he; simp at he, fun t _ => by rw [h]⟩

theorem wrote_single {pjp pjq : ParsedJson} {a : Nat} {e : TapeEntry}
    (h : pjq.tape = Function.update pjp.tape a e) : Wrote pjp pjq a [e] := by
  constructor
  · intro t e1 he
    cases t with
    | zero =>
      simp only [List.getElem?_cons_zero, Option.some.injEq] at he
      rw [h, ← he]
      simp
    | succ t => simp at he
  · intro t ht
    rw [h, Function.update_noteq (by omega)]

theorem wrote_pair {pjp pjq : ParsedJson} {a : Nat} {e1 e2 : TapeEntry}
    (h : pjq.tape = Function.update (Function.update pjp.tape a e1) (a + 1) e2) :
    Wrote pjp pjq a [e1, e2] := by
  constructor
  · intro t e he
    cases t with
    | zero =>
      simp only [List.getElem?_cons_zero, Option.some.injEq] at he
      rw [h, ← he, Function.update_noteq (by omega)]
      simp
    | succ t =>
      cases t with
      | zero =>
        simp only [List.getElem?_cons_succ, List.getElem?_cons_zero, Option.some.injEq] at he
        rw [h, ← he]
        simp
      | succ t => simp at he
  · intro t ht
    rw [h, Function.update_noteq (by omega), Function.update_noteq (by omega)]

theorem wrote_append {pjp pjq pjr : ParsedJson} {a : Nat} {es es1 : List TapeEntry}
    (h1 : Wrote pjp pjq a es) (h2 : Wrote pjq pjr (a + es.length) es1) :
    Wrote pjp pjr a (es ++ es1) := by
  constructor
  · intro t e he
    by_cases ht : t < es.length
    · rw [List.getElem?_append_left ht] at he
      rw [h2.2 (a + t) (by omega)]
      exact h1.1 t e he
    · rw [List.getElem?_append_right (by omega)] at he
      have := h2.1 (t - es.length) e he
      rw [← this]
      congr 1
      omega
  · intro t ht
    rw [h2.2 t (by omega), h1.2 t ht]

theorem wrote_cast {pjp pjq : ParsedJson} {a b : Nat} {es es1 : List TapeEntry}
    (h : Wrote pjp pjq a es) (ha : a = b) (he : es = es1) : Wrote pjp pjq b es1 := by
  subst ha; subst he; exact h

theorem wrote_after {pjp pjq pjr : ParsedJson} {a : Nat} {es : List TapeEntry}
    (h1 : Wrote pjp pjq a es) (h2 : pjr.tape = pjq.tape) : Wrote pjp pjr a es :=
  ⟨fun t e he => by rw [h2]; exact h1.1 t e he, fun t ht => by rw [h2]; exact h1.2 t ht⟩

theorem wrote_before {pjp pjq pjr : ParsedJson} {a : Nat} {es : List TapeEntry}
    (h1 : pjq.tape = pjp.tape) (h2 : Wrote pjq pjr a es) : Wrote pjp pjr a es :=
  ⟨h2.1, fun t ht => by rw [h2.2 t ht, h1]⟩

/-- Closing a scope: the start entry written at `a`, the entries `es` of the contents and
the end entry, the start entry being backpatched with the index after the end. -/
theorem wrote_pop {pjp pj1 : ParsedJson} (q : StructuralParser) {a c c1 : Nat}
    {es : List TapeEntry}
    (h1 : pj1.tape = Function.update pjp.tape a ⟨0, c⟩) (h2 : Wrote pj1 q.pj (a + 1) es)
    (hloc : q.pj.current_loc = a + 1 + es.length)
    (hcso : q.pj.containing_scope_offset (q.depth - 1) = a) (hc : q.c = c1) :
    Wrote pjp q.pop_scope.2.pj a (⟨a + es.length + 2, c⟩ :: (es ++ [⟨a, c1⟩])) := by
  have hk : (q.pj.tape a).kind = c := by
    rw [h2.2 a (by omega), h1]
    simp
  constructor
  · intro t e he
    rw [pop_scope_tape, hloc, hcso, hc]
    cases t with
    | zero =>
      simp only [List.getElem?_cons_zero, Option.some.injEq] at he
      rw [← he]
      simp only [Nat.add_zero, Function.update_same]
      rw [Function.update_noteq (by omega), hk]
      have : a + 1 + es.length + 1 = a + es.length + 2 := by omega
      rw [this]
    | succ t =>
      simp only [List.getElem?_cons_succ] at he
      rw [Function.update_noteq (by omega)]
      by_cases ht : t < es.length
      · rw [List.getElem?_append_left ht] at he
        rw [Function.update_noteq (by omega)]
        have := h2.1 t e he
        rw [← this]
        congr 1
        omega
      · rw [List.getElem?_append_right (by omega)] at he
        have ht2 : t - es.length = 0 := by
          by_contra hne
          have : (([⟨a, c1⟩] : List TapeEntry)[t - es.length]?) = none := by
            apply List.getElem?_eq_none
            simp only [List.length_cons, List.length_nil]
            omega
          rw [this] at he
          exact absurd he (by simp)
        rw [ht2] at he
        simp only [List.getElem?_cons_zero, Option.some.injEq] at he
        have e1 : a + (t + 1) = a + 1 + es.length := by omega
        rw [e1, Function.update_same, ← he]
  · intro t ht
    rw [pop_scope_tape, hloc, hcso, hc, Function.update_noteq (by omega),
      Function.update_noteq (by omega), h2.2 t (by omega), h1, Function.update_noteq (by omega)]

/-! ## The workspace stays in step with the document -/

theorem sync_cast {D : ScalarDecoders} {buf : Nat → Nat} {len : Nat} {pj0 pjx : ParsedJson}
    {j a j1 a1 : Nat} (h : Sync D buf len pj0 pjx j a) (hj : j = j1) (ha : a = a1) :
    Sync D buf len pj0 pjx j1 a1 := by
  subst hj; subst ha; exact h

theorem sync_byte {D : ScalarDecoders} {buf : Nat → Nat} {len : Nat} {pj0 pjx : ParsedJson}
    {j a : Nat} (h : Sync D buf len pj0 pjx j a) :
    structural_byte buf pjx = structural_byte buf pj0 :=
  structural_byte_same buf h.1

/-- Going past a structural that is neither a string nor a number moves no cursor. -/
theorem sync_skip {D : ScalarDecoders} {buf : Nat → Nat} {len : Nat} {pj0 pjx : ParsedJson}
    {j a : Nat} (h : Sync D buf len pj0 pjx j a) (hq : structural_byte buf pj0 j ≠ ch_quote)
    (hn : is_number_start (structural_byte buf pj0 j) = false) :
    Sync D buf len pj0 pjx (j + 1) a := by
  obtain ⟨h1, h2, h3, h4, h5, h6⟩ := h
  exact ⟨h1, h2, h3, by rw [arena_offset_other D buf pj0 j hq]; exact h4,
    by rw [number_index_other buf pj0 j hn]; exact h5, h6⟩

theorem sync_push {D : ScalarDecoders} {buf : Nat → Nat} {len : Nat} {pj0 : ParsedJson}
    (p : StructuralParser) (cont : ret_address) {j a : Nat} (h : Sync D buf len pj0 p.pj j a)
    (hq : structural_byte buf pj0 j ≠ ch_quote)
    (hn : is_number_start (structural_byte buf pj0 j) = false) :
    Sync D buf len pj0 (p.push_scope cont).2.pj (j + 1) (a + 1) := by
  obtain ⟨h1, h2, h3, h4, h5, h6⟩ := sync_skip h hq hn
  exact ⟨h1, h2, by show p.pj.current_loc + 1 = a + 1; rw [h3], h4, h5, h6⟩

theorem sync_pop {D : ScalarDecoders} {buf : Nat → Nat} {len : Nat} {pj0 : ParsedJson}
    (p : StructuralParser) {j a : Nat} (h : Sync D buf len pj0 p.pj j a)
    (hq : structural_byte buf pj0 j ≠ ch_quote)
    (hn : is_number_start (structural_byte buf pj0 j) = false) :
    Sync D buf len pj0 p.pop_scope.2.pj (j + 1) (a + 1) := by
  obtain ⟨h1, h2, h3, h4, h5, h6⟩ := sync_skip h hq hn
  exact ⟨h1, h2, by show p.pj.current_loc + 1 = a + 1; rw [h3], h4, h5, h6⟩

/-- The length field of the record of a string, as `write_string` reads it. -/
theorem records_read_u32 {D : ScalarDecoders} {buf : Nat → Nat} {len : Nat}
    {pj0 pjx : ParsedJson} (h : Records D buf len pj0 pjx) (x : Nat)
    (hx : x + 1 < pj0.n_structural_indexes) (hq : structural_byte buf pj0 x = ch_quote) :
    read_u32 pjx.string_buf (arena_offset D buf pj0 x)
      = (string_bytes_at D buf pj0 x).length := by
  obtain ⟨hr, hl, _⟩ := h
  have hL := hl x hx hq
  have hlen := string_record_length D buf pj0 x
  have e0 := hr x hx hq 0 (by omega)
  have e1 := hr x hx hq 1 (by omega)
  have e2 := hr x hx hq 2 (by omega)
  have e3 := hr x hx hq 3 (by omega)
  simp only [string_record, u32_bytes, List.cons_append, List.getD_cons_zero,
    List.getD_cons_succ, Nat.add_zero] at e0 e1 e2 e3
  unfold read_u32
  rw [e0, e1, e2, e3]
  omega

theorem sync_write_string {D : ScalarDecoders} {buf : Nat → Nat} {len : Nat}
    {pj0 : ParsedJson} (p : StructuralParser) {j a : Nat} (h : Sync D buf len pj0 p.pj j a)
    (hq : structural_byte buf pj0 j = ch_quote) (hj : j + 1 < pj0.n_structural_indexes) :
    Sync D buf len pj0 p.write_string.pj (j + 1) (a + 1) ∧
      Wrote p.pj p.write_string.pj a [⟨arena_offset D buf pj0 j, ch_quote⟩] := by
  obtain ⟨h1, h2, h3, h4, h5, h6⟩ := h
  have hr := records_read_u32 h6 j hj hq
  have hnn : is_number_start (structural_byte buf pj0 j) = false := by
    rw [hq]; exact quote_class.2.1
  refine ⟨⟨h1, h2, by show p.pj.current_loc + 1 = a + 1; rw [h3], ?_, ?_, h6⟩, ?_⟩
  · show p.pj.current_string_buf_loc
        + (4 + read_u32 p.pj.string_buf p.pj.current_string_buf_loc + 1) = _
    rw [h4, hr, arena_offset_string D buf pj0 j hq]
  · rw [number_index_other buf pj0 j hnn]; exact h5
  · apply wrote_single
    show Function.update p.pj.tape p.pj.current_loc ⟨p.pj.current_string_buf_loc, ch_quote⟩ = _
    rw [h3, h4]

theorem sync_write_atom {D : ScalarDecoders} {buf : Nat → Nat} {len : Nat}
    {pj0 : ParsedJson} (p : StructuralParser) {j a : Nat} (h : Sync D buf len pj0 p.pj j a)
    (ha : is_atom_start (structural_byte buf pj0 j) = true) :
    Sync D buf len pj0 p.write_atom.pj (j + 1) (a + 1) ∧
      Wrote p.pj p.write_atom.pj a [⟨0, p.c⟩] := by
  obtain ⟨hq, hn, _, _⟩ := atom_class ha
  obtain ⟨h1, h2, h3, h4, h5, h6⟩ := sync_skip h hq hn
  refine ⟨⟨h1, h2, by show p.pj.current_loc + 1 = a + 1; rw [h3], h4, h5, h6⟩, ?_⟩
  apply wrote_single
  show Function.update p.pj.tape p.pj.current_loc ⟨0, p.c⟩ = _
  rw [h3]

theorem sync_write_number {D : ScalarDecoders} {buf : Nat → Nat} {len : Nat}
    {pj0 : ParsedJson} (p : StructuralParser) {j a : Nat} (h : Sync D buf len pj0 p.pj j a)
    (hn : is_number_start (structural_byte buf pj0 j) = true)
    (hj : j + 1 < pj0.n_structural_indexes) :
    Sync D buf len pj0 p.write_number.pj (j + 1) (a + 2) ∧
      Wrote p.pj p.write_number.pj a
        [⟨0, (number_at D buf len pj0 j).1⟩, ⟨(number_at D buf len pj0 j).2, 0⟩] := by
  obtain ⟨hq, _, _, _⟩ := number_class hn
  obtain ⟨h1, h2, h3, h4, h5, h6⟩ := h
  have hnum := h6.2.2 j hj hn
  refine ⟨⟨h1, h2, by show p.pj.current_loc + 1 + 1 = a + 2; rw [h3], ?_, ?_, h6⟩, ?_⟩
  · rw [arena_offset_other D buf pj0 j hq]; exact h4
  · show p.pj.current_number_loc + 1 = _
    rw [h5, number_index_number buf pj0 j hn]
  · apply wrote_pair
    show Function.update (Function.update p.pj.tape p.pj.current_loc
        ⟨0, (p.pj.number_buf p.pj.current_number_loc).1⟩) (p.pj.current_loc + 1)
        ⟨(p.pj.number_buf p.pj.current_number_loc).2, 0⟩ = _
    rw [h3, h5, hnum]

/-! ## What `parse_value` does on each kind of scalar -/

theorem parse_value_string (p : StructuralParser) (cont : ret_address) (h : p.c = ch_quote) :
    p.parse_value cont = (cont, p.write_string) := by
  simp [parse_value, h]

theorem parse_value_atom (p : StructuralParser) (cont : ret_address)
    (h : is_atom_start p.c = true) : p.parse_value cont = (cont, p.write_atom) := by
  have hq := (atom_class h).1
  simp [parse_value, h, hq]

theorem parse_value_number (p : StructuralParser) (cont : ret_address)
    (h : is_number_start p.c = true) : p.parse_value cont = (cont, p.write_number) := by
  obtain ⟨hq, ha, _, _⟩ := number_class h
  simp [parse_value, h, hq, ha]

end simdjson

namespace simdjson
open StructuralParser

/-! ## The walk over a phrase writes the entries of the phrase -/

theorem builds_scalar (D : ScalarDecoders) (buf : Nat → Nat) (len : Nat) (pj0 : ParsedJson)
    (c j a : Nat) (hs : is_scalar_start c = true) :
    Builds D buf len pj0 .value 0 [c] j a (scalar_entries D buf len pj0 j) := by
  intro p cont hi hc hseg hn hd hsync
  have hb := (seg_eq_cons buf p.pj j _ c [] hseg).2.1
  have hb0 : structural_byte buf pj0 j = c := by rw [← sync_byte hsync]; exact hb
  have hpc : p.c = c := by rw [hc, hb]
  simp only [List.length_cons, List.length_nil] at hn
  have hj : j + 1 < pj0.n_structural_indexes := by rw [← hsync.2.1]; omega
  rcases is_scalar_start_cases hs with h | h | h
  · have he : scalar_entries D buf len pj0 j = [⟨arena_offset D buf pj0 j, ch_quote⟩] := by
      simp [scalar_entries, hb0, h]
    rw [parse_value_string p cont (by rw [hpc, h]), he]
    obtain ⟨s1, s2⟩ := sync_write_string p hsync (by rw [hb0]; exact h) hj
    exact ⟨0, _, rfl, ⟨rfl, rfl, ⟨rfl, rfl, rfl⟩, fun _ _ => rfl, fun _ _ => rfl⟩, s1, s2⟩
  · obtain ⟨hq, _, _, _⟩ := atom_class h
    have he : scalar_entries D buf len pj0 j = [⟨0, p.c⟩] := by
      simp [scalar_entries, hb0, h, hq, hpc]
    rw [parse_value_atom p cont (by rw [hpc]; exact h), he]
    obtain ⟨s1, s2⟩ := sync_write_atom p hsync (by rw [hb0]; exact h)
    exact ⟨0, _, rfl, ⟨rfl, rfl, ⟨rfl, rfl, rfl⟩, fun _ _ => rfl, fun _ _ => rfl⟩, s1, s2⟩
  · obtain ⟨hq, ha, _, _⟩ := number_class h
    have he : scalar_entries D buf len pj0 j
        = [⟨0, (number_at D buf len pj0 j).1⟩, ⟨(number_at D buf len pj0 j).2, 0⟩] := by
      simp [scalar_entries, hb0, h, hq, ha]
    rw [parse_value_number p cont (by rw [hpc]; exact h), he]
    obtain ⟨s1, s2⟩ := sync_write_number p hsync (by rw [hb0]; exact h) hj
    exact ⟨0, _, rfl, ⟨rfl, rfl, ⟨rfl, rfl, rfl⟩, fun _ _ => rfl, fun _ _ => rfl⟩, s1, s2⟩

theorem builds_empty_array (D : ScalarDecoders) (buf : Nat → Nat) (len : Nat)
    (pj0 : ParsedJson) (j a : Nat) :
    Builds D buf len pj0 .value 1 [ch_lbracket, ch_rbracket] j a
      [⟨a + 2, ch_lbracket⟩, ⟨a, ch_rbracket⟩] := by
  intro p cont hi hc hseg hn hd hsync
  obtain ⟨_, hb0, hseg1⟩ := seg_eq_cons buf p.pj j _ _ _ hseg
  obtain ⟨_, hb1, _⟩ := seg_eq_cons buf p.pj (j + 1) _ _ _ hseg1
  simp only [List.length_cons, List.length_nil] at hn
  have hbyte := sync_byte hsync
  have hpc : p.c = ch_lbracket := by rw [hc, hb0]
  rw [parse_value_open_array p cont hpc (by omega)]
  have hstep : step buf (.array_begin, (p.push_scope cont).2)
      = (.scope_end, (p.push_scope cont).2.read_next buf) :=
    step_array_begin_close buf _ (by simp; omega) (by
      show structural_byte buf p.pj (p.push_scope cont).2.i = _
      simp [hi, hb1])
  have hs1 : Sync D buf len pj0 (p.push_scope cont).2.pj (j + 1) (a + 1) :=
    sync_push p cont hsync (by rw [← hbyte, hb0]; decide) (by rw [← hbyte, hb0]; decide)
  have hs2 : Sync D buf len pj0 ((p.push_scope cont).2.read_next buf).pop_scope.2.pj
      (j + 1 + 1) (a + 1 + 1) :=
    sync_pop ((p.push_scope cont).2.read_next buf) hs1 (by rw [← hbyte, hb1]; decide)
      (by rw [← hbyte, hb1]; decide)
  have h1 : (p.push_scope cont).2.pj.tape = Function.update p.pj.tape a ⟨0, ch_lbracket⟩ := by
    rw [push_scope_tape, hsync.2.2.1, hpc]
  have hw : Wrote p.pj ((p.push_scope cont).2.read_next buf).pop_scope.2.pj a
      (⟨a + ([] : List TapeEntry).length + 2, ch_lbracket⟩ :: ([] ++ [⟨a, ch_rbracket⟩])) :=
    wrote_pop ((p.push_scope cont).2.read_next buf) h1
    (wrote_same (rfl : ((p.push_scope cont).2.read_next buf).pj.tape = _) (a + 1))
    (by show (p.push_scope cont).2.pj.current_loc = _; rw [hs1.2.2.1]; rfl)
    (by simp [ParsedJson.get_current_loc, hsync.2.2.1])
    (by show structural_byte buf p.pj (p.push_scope cont).2.i = _
        simp [hi, hb1])
  refine ⟨2, ((p.push_scope cont).2.read_next buf).pop_scope.2, ?_, ?_, hs2, hw⟩
  · show walk buf 2 (Label.array_begin, _) = _
    rw [walk_close buf _ _ hstep]
    simp
  · apply returns_of_push
    have := returns_read_pop buf (p.push_scope cont).2
    simpa using this

theorem builds_empty_object (D : ScalarDecoders) (buf : Nat → Nat) (len : Nat)
    (pj0 : ParsedJson) (j a : Nat) :
    Builds D buf len pj0 .value 1 [ch_lbrace, ch_rbrace] j a
      [⟨a + 2, ch_lbrace⟩, ⟨a, ch_rbrace⟩] := by
  intro p cont hi hc hseg hn hd hsync
  obtain ⟨_, hb0, hseg1⟩ := seg_eq_cons buf p.pj j _ _ _ hseg
  obtain ⟨_, hb1, _⟩ := seg_eq_cons buf p.pj (j + 1) _ _ _ hseg1
  simp only [List.length_cons, List.length_nil] at hn
  have hbyte := sync_byte hsync
  have hpc : p.c = ch_lbrace := by rw [hc, hb0]
  rw [parse_value_open_object p cont hpc (by omega)]
  have hstep : step buf (.object_begin, (p.push_scope cont).2)
      = (.scope_end, (p.push_scope cont).2.read_next buf) :=
    step_object_begin_close buf _ (by simp; omega) (by
      show structural_byte buf p.pj (p.push_scope cont).2.i = _
      simp [hi, hb1])
  have hs1 : Sync D buf len pj0 (p.push_scope cont).2.pj (j + 1) (a + 1) :=
    sync_push p cont hsync (by rw [← hbyte, hb0]; decide) (by rw [← hbyte, hb0]; decide)
  have hs2 : Sync D buf len pj0 ((p.push_scope cont).2.read_next buf).pop_scope.2.pj
      (j + 1 + 1) (a + 1 + 1) :=
    sync_pop ((p.push_scope cont).2.read_next buf) hs1 (by rw [← hbyte, hb1]; decide)
      (by rw [← hbyte, hb1]; decide)
  have h1 : (p.push_scope cont).2.pj.tape = Function.update p.pj.tape a ⟨0, ch_lbrace⟩ := by
    rw [push_scope_tape, hsync.2.2.1, hpc]
  have hw : Wrote p.pj ((p.push_scope cont).2.read_next buf).pop_scope.2.pj a
      (⟨a + ([] : List TapeEntry).length + 2, ch_lbrace⟩ :: ([] ++ [⟨a, ch_rbrace⟩])) :=
    wrote_pop ((p.push_scope cont).2.read_next buf) h1
    (wrote_same (rfl : ((p.push_scope cont).2.read_next buf).pj.tape = _) (a + 1))
    (by show (p.push_scope cont).2.pj.current_loc = _; rw [hs1.2.2.1]; rfl)
    (by simp [ParsedJson.get_current_loc, hsync.2.2.1])
    (by show structural_byte buf p.pj (p.push_scope cont).2.i = _
        simp [hi, hb1])
  refine ⟨2, ((p.push_scope cont).2.read_next buf).pop_scope.2, ?_, ?_, hs2, hw⟩
  · show walk buf 2 (Label.object_begin, _) = _
    rw [walk_close buf _ _ hstep]
    simp
  · apply returns_of_push
    have := returns_read_pop buf (p.push_scope cont).2
    simpa using this

theorem builds_array (D : ScalarDecoders) (buf : Nat → Nat) (len : Nat) (pj0 : ParsedJson)
    (k : Nat) (ws : List Nat) (j a : Nat) (es : List TapeEntry)
    (h : Spells .elements k ws)
    (ih : Builds D buf len pj0 .elements k ws (j + 1) (a + 1) es) :
    Builds D buf len pj0 .value (k + 1) (ch_lbracket :: (ws ++ [ch_rbracket])) j a
      (⟨a + es.length + 2, ch_lbracket⟩ :: (es ++ [⟨a, ch_rbracket⟩])) := by
  intro p cont hi hc hseg hn hd hsync
  obtain ⟨_, hb0, hseg1⟩ := seg_eq_cons buf p.pj j _ _ _ hseg
  obtain ⟨_, hseg2, hseg3⟩ := seg_eq_append buf p.pj (j + 1) _ _ _ hseg1
  have hb1 := (seg_eq_cons buf p.pj _ _ _ _ hseg3).2.1
  obtain ⟨c, rest, hws, hne⟩ := elements_head h
  have hbh : structural_byte buf p.pj (j + 1) = c := by
    rw [hws] at hseg2
    exact (seg_eq_cons buf p.pj _ _ _ _ hseg2).2.1
  simp only [List.length_cons, List.length_append, List.length_nil] at hn
  have hlen := spells_nonempty h
  have hbyte := sync_byte hsync
  have hpc : p.c = ch_lbracket := by rw [hc, hb0]
  rw [parse_value_open_array p cont hpc (by omega)]
  have hstep1 : step buf (.array_begin, (p.push_scope cont).2)
      = (.main_array_switch, (p.push_scope cont).2.read_next buf) :=
    step_array_begin_value buf _ (by simp; omega) (by
      show structural_byte buf p.pj (p.push_scope cont).2.i ≠ _
      simp only [push_scope_i, hi, hbh]; exact hne)
  have hs1 : Sync D buf len pj0 (p.push_scope cont).2.pj (j + 1) (a + 1) :=
    sync_push p cont hsync (by rw [← hbyte, hb0]; decide) (by rw [← hbyte, hb0]; decide)
  obtain ⟨s1, q3, hw1, hr1, hq3, hwr⟩ := ih ((p.push_scope cont).2.read_next buf)
    (by simp [hi]) (by simp [hi]) hseg2
    (by show j + 1 + ws.length < p.pj.n_structural_indexes; omega)
    (by show p.depth + 1 + k < p.pj.depth_capacity; omega) hs1
  have hf3 : Frame p q3 := frame_trans (push_scope_frame p cont) hr1.2.2.1
  have hi3 : q3.i = j + 1 + ws.length := by
    rw [hr1.1]; simp [hi]; omega
  have hstep2 : step buf (.array_continue, q3) = (.scope_end, q3.read_next buf) :=
    step_array_continue_close buf _ (by rw [hi3, hf3.2.1]; omega)
      (by rw [structural_byte_frame buf hf3, hi3]; exact hb1)
  have e0 : q3.depth = p.depth + 1 := by rw [hr1.2.1]; simp
  have e1 : q3.depth - 1 = p.depth := by rw [hr1.2.1]; simp
  have hb1' : structural_byte buf pj0 (j + 1 + ws.length) = ch_rbracket := by
    rw [← hbyte]; exact hb1
  have hs2 : Sync D buf len pj0 (q3.read_next buf).pop_scope.2.pj
      (j + 1 + ws.length + 1) (a + 1 + es.length + 1) :=
    sync_pop (q3.read_next buf) hq3 (by rw [hb1']; decide) (by rw [hb1']; decide)
  have h1 : (p.push_scope cont).2.pj.tape = Function.update p.pj.tape a ⟨0, ch_lbracket⟩ := by
    rw [push_scope_tape, hsync.2.2.1, hpc]
  have hw : Wrote p.pj (q3.read_next buf).pop_scope.2.pj a
      (⟨a + es.length + 2, ch_lbracket⟩ :: (es ++ [⟨a, ch_rbracket⟩])) :=
    wrote_pop (q3.read_next buf) h1 hwr hq3.2.2.1
    (by show q3.pj.containing_scope_offset (q3.depth - 1) = a
        rw [e1, hr1.2.2.2.2 p.depth (by simp)]
        simp [ParsedJson.get_current_loc, hsync.2.2.1])
    (by show structural_byte buf q3.pj q3.i = _
        rw [structural_byte_frame buf hf3, hi3]; exact hb1)
  refine ⟨1 + (s1 + 2), (q3.read_next buf).pop_scope.2, ?_, ?_, ?_, hw⟩
  · show walk buf (1 + (s1 + 2)) (Label.array_begin, _) = _
    rw [walk_add, walk_one, hstep1, walk_add, hw1, walk_close buf _ _ hstep2]
    rw [e1, hr1.2.2.2.1 p.depth (by simp)]
    simp
  · apply returns_of_push
    have h1 := returns_trans (returns_read buf (p.push_scope cont).2) hr1 (le_refl _)
    have h2 := returns_trans h1 (returns_read_pop buf q3) (by rw [e0]; simp)
    rw [e1] at h2
    have e2 : 1 + (ws.length - 1) + 1 = (ch_lbracket :: (ws ++ [ch_rbracket])).length - 1 := by
      simp only [List.length_cons, List.length_append, List.length_nil]; omega
    rw [← e2]
    exact h2
  · exact sync_cast hs2
      (by simp only [List.length_cons, List.length_append, List.length_nil]; omega)
      (by simp only [List.length_cons, List.length_append, List.length_nil]; omega)

theorem builds_object (D : ScalarDecoders) (buf : Nat → Nat) (len : Nat) (pj0 : ParsedJson)
    (k : Nat) (ws : List Nat) (j a : Nat) (es : List TapeEntry)
    (h : Spells .members k ws) (hes : es = ⟨arena_offset D buf pj0 (j + 1), ch_quote⟩ :: es.drop 1)
    (ih : Builds D buf len pj0 .members k ws (j + 1) (a + 1) es) :
    Builds D buf len pj0 .value (k + 1) (ch_lbrace :: (ws ++ [ch_rbrace])) j a
      (⟨a + es.length + 2, ch_lbrace⟩ :: (es ++ [⟨a, ch_rbrace⟩])) := by
  intro p cont hi hc hseg hn hd hsync
  obtain ⟨_, hb0, hseg1⟩ := seg_eq_cons buf p.pj j _ _ _ hseg
  obtain ⟨_, hseg2, hseg3⟩ := seg_eq_append buf p.pj (j + 1) _ _ _ hseg1
  have hb1 := (seg_eq_cons buf p.pj _ _ _ _ hseg3).2.1
  obtain ⟨rest, hws⟩ := members_head h
  have hbh : structural_byte buf p.pj (j + 1) = ch_quote := by
    rw [hws] at hseg2
    exact (seg_eq_cons buf p.pj _ _ _ _ hseg2).2.1
  simp only [List.length_cons, List.length_append, List.length_nil] at hn
  have hlen := spells_nonempty h
  have hbyte := sync_byte hsync
  have hpc : p.c = ch_lbrace := by rw [hc, hb0]
  rw [parse_value_open_object p cont hpc (by omega)]
  have hstep1 : step buf (.object_begin, (p.push_scope cont).2)
      = (.object_key_state, ((p.push_scope cont).2.read_next buf).write_string) :=
    step_object_begin_key buf _ (by simp; omega) (by simp [hi, hbh])
  have hs1 : Sync D buf len pj0 (p.push_scope cont).2.pj (j + 1) (a + 1) :=
    sync_push p cont hsync (by rw [← hbyte, hb0]; decide) (by rw [← hbyte, hb0]; decide)
  obtain ⟨hsk, hwk⟩ := sync_write_string ((p.push_scope cont).2.read_next buf) hs1
    (by rw [← hbyte]; exact hbh) (by rw [← hsync.2.1]; omega)
  obtain ⟨s1, q3, hw1, hr1, hq3, hwr⟩ := ih ((p.push_scope cont).2.read_next buf).write_string
    (by simp [hi]) (by simpa using hseg2)
    (by show j + 1 + ws.length < p.pj.n_structural_indexes; omega)
    (by show p.depth + 1 + k < p.pj.depth_capacity; omega) hsk
  have hf3 : Frame p q3 :=
    frame_trans (returns_read_string buf (p.push_scope cont).2).2.2.1 hr1.2.2.1
  have hi3 : q3.i = j + 1 + ws.length := by
    rw [hr1.1]; simp [hi]; omega
  have hstep2 : step buf (.object_continue, q3) = (.scope_end, q3.read_next buf) :=
    step_object_continue_close buf _ (by rw [hi3, hf3.2.1]; omega)
      (by rw [structural_byte_frame buf hf3, hi3]; exact hb1)
  have e0 : q3.depth = p.depth + 1 := by rw [hr1.2.1]; simp
  have e1 : q3.depth - 1 = p.depth := by rw [hr1.2.1]; simp
  have hb1' : structural_byte buf pj0 (j + 1 + ws.length) = ch_rbrace := by
    rw [← hbyte]; exact hb1
  have hs2 : Sync D buf len pj0 (q3.read_next buf).pop_scope.2.pj
      (j + 1 + ws.length + 1) (a + 1 + es.length + 1) :=
    sync_pop (q3.read_next buf) hq3 (by rw [hb1']; decide) (by rw [hb1']; decide)
  have h1 : (p.push_scope cont).2.pj.tape = Function.update p.pj.tape a ⟨0, ch_lbrace⟩ := by
    rw [push_scope_tape, hsync.2.2.1, hpc]
  have hwall : Wrote (p.push_scope cont).2.pj q3.pj (a + 1) es := by
    have := wrote_append hwk (wrote_cast hwr (by simp) rfl)
    rw [hes]
    exact this
  have hw : Wrote p.pj (q3.read_next buf).pop_scope.2.pj a
      (⟨a + es.length + 2, ch_lbrace⟩ :: (es ++ [⟨a, ch_rbrace⟩])) :=
    wrote_pop (q3.read_next buf) h1 hwall hq3.2.2.1
    (by show q3.pj.containing_scope_offset (q3.depth - 1) = a
        rw [e1, hr1.2.2.2.2 p.depth (by simp)]
        simp [ParsedJson.get_current_loc, hsync.2.2.1])
    (by show structural_byte buf q3.pj q3.i = _
        rw [structural_byte_frame buf hf3, hi3]; exact hb1)
  refine ⟨1 + (s1 + 2), (q3.read_next buf).pop_scope.2, ?_, ?_, ?_, hw⟩
  · show walk buf (1 + (s1 + 2)) (Label.object_begin, _) = _
    rw [walk_add, walk_one, hstep1, walk_add, hw1, walk_close buf _ _ hstep2]
    rw [e1, hr1.2.2.2.1 p.depth (by simp)]
    simp
  · apply returns_of_push
    have h1 := returns_trans (returns_read_string buf (p.push_scope cont).2) hr1 (le_refl _)
    have h2 := returns_trans h1 (returns_read_pop buf q3) (by rw [e0]; simp)
    rw [e1] at h2
    have e2 : 1 + (ws.length - 1) + 1 = (ch_lbrace :: (ws ++ [ch_rbrace])).length - 1 := by
      simp only [List.length_cons, List.length_append, List.length_nil]; omega
    rw [← e2]
    exact h2
  · exact sync_cast hs2
      (by simp only [List.length_cons, List.length_append, List.length_nil]; omega)
      (by simp only [List.length_cons, List.length_append, List.length_nil]; omega)

theorem builds_element (D : ScalarDecoders) (buf : Nat → Nat) (len : Nat) (pj0 : ParsedJson)
    (k : Nat) (ws : List Nat) (j a : Nat) (es : List TapeEntry)
    (ih : Builds D buf len pj0 .value k ws j a es) :
    Builds D buf len pj0 .elements k ws j a es := by
  intro p hi hc hseg hn hd hsync
  obtain ⟨s, q, hw, hr⟩ := ih p .array_continue hi hc hseg hn hd hsync
  refine ⟨1 + s, q, ?_, hr⟩
  rw [walk_add, walk_one, step_main_array_switch]
  exact hw

theorem builds_elements (D : ScalarDecoders) (buf : Nat → Nat) (len : Nat) (pj0 : ParsedJson)
    (k m : Nat) (ws ws1 : List Nat) (j a : Nat) (es es1 : List TapeEntry)
    (h : Spells .value k ws) (h1 : Spells .elements m ws1)
    (ihv : Builds D buf len pj0 .value k ws j a es)
    (ihe : Builds D buf len pj0 .elements m ws1 (j + ws.length + 1) (a + es.length) es1) :
    Builds D buf len pj0 .elements (max k m) (ws ++ ch_comma :: ws1) j a (es ++ es1) := by
  intro p hi hc hseg hn hd hsync
  obtain ⟨_, hseg1, hseg2⟩ := seg_eq_append buf p.pj j _ _ _ hseg
  obtain ⟨_, hb1, hseg3⟩ := seg_eq_cons buf p.pj _ _ _ _ hseg2
  obtain ⟨c, rest, hws1, _⟩ := elements_head h1
  have hbh : structural_byte buf p.pj (j + ws.length + 1) = c := by
    rw [hws1] at hseg3
    exact (seg_eq_cons buf p.pj _ _ _ _ hseg3).2.1
  simp only [List.length_cons, List.length_append] at hn
  have hlen := spells_nonempty h
  have hlen1 := spells_nonempty h1
  have hbyte := sync_byte hsync
  obtain ⟨s1, q1, hw1, hr1, hq1, hwr1⟩ := ihv p .array_continue hi hc hseg1 (by omega)
    (by have := le_max_left k m; omega) hsync
  have hi1 : q1.i = j + ws.length := by rw [hr1.1, hi]; omega
  have hf1 : Frame p q1 := hr1.2.2.1
  have hstep : step buf (.array_continue, q1)
      = (.main_array_switch, (q1.read_next buf).read_next buf) :=
    step_array_continue_comma buf _ (by rw [hi1, hf1.2.1]; omega)
      (by rw [structural_byte_frame buf hf1, hi1]; exact hb1)
  have hb1' : structural_byte buf pj0 (j + ws.length) = ch_comma := by
    rw [← hbyte]; exact hb1
  have hq2 : Sync D buf len pj0 ((q1.read_next buf).read_next buf).pj (j + ws.length + 1)
      (a + es.length) :=
    sync_skip hq1 (by rw [hb1']; decide) (by rw [hb1']; decide)
  obtain ⟨s2, q3, hw2, hr2, hq3, hwr2⟩ := ihe ((q1.read_next buf).read_next buf)
    (by simp [hi1]) (by simp [hi1, structural_byte_frame buf hf1])
    (by simp only [read_next_pj]; rw [seg_frame buf hf1]; exact hseg3)
    (by simp only [read_next_pj]; rw [hf1.2.1]; omega)
    (by simp only [read_next_pj, read_next_depth]; rw [hf1.2.2, hr1.2.1]
        have := le_max_right k m; omega) hq2
  refine ⟨1 + (s1 + (1 + s2)), q3, ?_, ?_, ?_, ?_⟩
  · rw [walk_add, walk_one, step_main_array_switch, walk_add, hw1, walk_add, walk_one]
    show walk buf s2 (step buf (Label.array_continue, q1)) = _
    rw [hstep, hw2]
  · have h2 := returns_trans hr1 (returns_read_read buf q1) (by rw [hr1.2.1])
    rw [hr1.2.1] at h2
    have h3 := returns_trans h2 (by simpa [hr1.2.1] using hr2) (le_refl _)
    have e2 : ws.length - 1 + 2 + (ws1.length - 1) = (ws ++ ch_comma :: ws1).length - 1 := by
      simp only [List.length_cons, List.length_append]; omega
    rw [← e2]
    exact h3
  · exact sync_cast hq3 (by simp only [List.length_cons, List.length_append]; omega)
      (by simp only [List.length_append]; omega)
  · exact wrote_append hwr1 hwr2

theorem builds_member (D : ScalarDecoders) (buf : Nat → Nat) (len : Nat) (pj0 : ParsedJson)
    (k : Nat) (ws : List Nat) (j a : Nat) (es : List TapeEntry) (h : Spells .value k ws)
    (ihv : Builds D buf len pj0 .value k ws (j + 2) (a + 1) es) :
    Builds D buf len pj0 .members k (ch_quote :: ch_colon :: ws) j a
      (⟨arena_offset D buf pj0 j, ch_quote⟩ :: es) := by
  intro p hi hseg hn hd hsync
  obtain ⟨_, _, hseg1⟩ := seg_eq_cons buf p.pj j _ _ _ hseg
  obtain ⟨_, hb1, hseg2⟩ := seg_eq_cons buf p.pj _ _ _ _ hseg1
  simp only [List.length_cons] at hn
  have hlen := spells_nonempty h
  have hbyte := sync_byte hsync
  have hb1' : structural_byte buf pj0 (j + 1) = ch_colon := by
    rw [← hbyte]; exact hb1
  have hstep := step_object_key_state_colon buf p (by rw [hi]; omega) (by rw [hi]; exact hb1)
  have hq2 : Sync D buf len pj0 ((p.read_next buf).read_next buf).pj (j + 2) (a + 1) :=
    sync_skip hsync (by rw [hb1']; decide) (by rw [hb1']; decide)
  obtain ⟨s, q, hw, hr, hq, hwr⟩ := ihv ((p.read_next buf).read_next buf) .object_continue
    (by simp [hi]) (by simp [hi]) (by simpa using hseg2) (by simp only [read_next_pj]; omega)
    (by simpa using hd) hq2
  refine ⟨1 + s, q, ?_, ?_, ?_, ?_⟩
  · rw [walk_add, walk_one, hstep]; exact hw
  · have h2 := returns_trans (returns_read_read buf p) hr (le_refl _)
    have e2 : 2 + (ws.length - 1) = (ch_quote :: ch_colon :: ws).length - 1 := by
      simp only [List.length_cons]; omega
    rw [← e2]
    exact h2
  · exact sync_cast hq (by simp only [List.length_cons]; omega)
      (by simp only [List.length_cons]; omega)
  · exact hwr

theorem builds_members (D : ScalarDecoders) (buf : Nat → Nat) (len : Nat) (pj0 : ParsedJson)
    (k m : Nat) (ws ws1 : List Nat) (j a : Nat) (es es1 : List TapeEntry)
    (h : Spells .value k ws) (h1 : Spells .members m ws1)
    (hes : es1 = ⟨arena_offset D buf pj0 (j + ws.length + 3), ch_quote⟩ :: es1.drop 1)
    (ihv : Builds D buf len pj0 .value k ws (j + 2) (a + 1) es)
    (ihm : Builds D buf len pj0 .members m ws1 (j + ws.length + 3) (a + 1 + es.length) es1) :
    Builds D buf len pj0 .members (max k m) (ch_quote :: ch_colon :: (ws ++ ch_comma :: ws1))
      j a (⟨arena_offset D buf pj0 j, ch_quote⟩ :: (es ++ es1)) := by
  intro p hi hseg hn hd hsync
  have hsplit : ch_quote :: ch_colon :: (ws ++ ch_comma :: ws1)
      = (ch_quote :: ch_colon :: ws) ++ ch_comma :: ws1 := by simp
  rw [hsplit] at hseg hn
  obtain ⟨_, hseg1, hseg2⟩ := seg_eq_append buf p.pj j _ _ _ hseg
  obtain ⟨_, hb1, hseg3⟩ := seg_eq_cons buf p.pj _ _ _ _ hseg2
  obtain ⟨rest, hws1⟩ := members_head h1
  have hbh : structural_byte buf p.pj (j + (ch_quote :: ch_colon :: ws).length + 1)
      = ch_quote := by
    rw [hws1] at hseg3
    exact (seg_eq_cons buf p.pj _ _ _ _ hseg3).2.1
  simp only [List.length_cons, List.length_append] at hn hbh hb1 hseg3
  have hlen := spells_nonempty h
  have hlen1 := spells_nonempty h1
  have hbyte := sync_byte hsync
  obtain ⟨s1, q1, hw1, hr1, hq1, hwr1⟩ := builds_member D buf len pj0 k ws j a es h ihv p hi
    hseg1 (by simp only [List.length_cons]; omega) (by have := le_max_left k m; omega) hsync
  simp only [List.length_cons, Nat.add_sub_cancel, List.drop_succ_cons, List.drop_zero]
    at hr1 hq1 hwr1
  have hi1 : q1.i = j + (ws.length + 1 + 1) := by rw [hr1.1, hi]; omega
  have hf1 : Frame p q1 := hr1.2.2.1
  have hstep : step buf (.object_continue, q1)
      = (.object_key_state, ((q1.read_next buf).read_next buf).write_string) :=
    step_object_continue_comma buf _ (by rw [hi1, hf1.2.1]; omega)
      (by rw [structural_byte_frame buf hf1, hi1]; exact hb1)
      (by rw [structural_byte_frame buf hf1, hi1]; exact hbh)
  have hb1' : structural_byte buf pj0 (j + (ws.length + 1 + 1)) = ch_comma := by
    rw [← hbyte]; exact hb1
  have hbh' : structural_byte buf pj0 (j + (ws.length + 1 + 1) + 1) = ch_quote := by
    rw [← hbyte]; exact hbh
  have hq2 : Sync D buf len pj0 ((q1.read_next buf).read_next buf).pj
      (j + (ws.length + 1 + 1) + 1) (a + (es.length + 1)) :=
    sync_skip hq1 (by rw [hb1']; decide) (by rw [hb1']; decide)
  obtain ⟨hsk, hwk⟩ := sync_write_string ((q1.read_next buf).read_next buf) hq2 hbh'
    (by rw [← hsync.2.1]; omega)
  have ej : j + ws.length + 3 = j + (ws.length + 1 + 1) + 1 := by omega
  have ea : a + 1 + es.length = a + (es.length + 1) := by omega
  rw [ej, ea] at ihm
  rw [ej] at hes
  obtain ⟨s2, q3, hw2, hr2, hq3, hwr2⟩ := ihm ((q1.read_next buf).read_next buf).write_string
    (by simp [hi1])
    (by simp only [seg_string, read_next_pj]; rw [seg_frame buf hf1]; exact hseg3)
    (by simp only [write_string_n, read_next_pj]; rw [hf1.2.1]; omega)
    (by simp only [write_string_cap, write_string_depth, read_next_pj, read_next_depth]
        rw [hf1.2.2, hr1.2.1]; have := le_max_right k m; omega) hsk
  refine ⟨s1 + (1 + s2), q3, ?_, ?_, ?_, ?_⟩
  · rw [walk_add, hw1, walk_add, walk_one, hstep, hw2]
  · have h2 := returns_trans hr1 (returns_read_read_string buf q1) (by rw [hr1.2.1])
    rw [hr1.2.1] at h2
    have h3 := returns_trans h2 (by simpa [hr1.2.1] using hr2) (le_refl _)
    have e2 : ws.length + 1 + 2 + (ws1.length - 1)
        = (ch_quote :: ch_colon :: (ws ++ ch_comma :: ws1)).length - 1 := by
      simp only [List.length_cons, List.length_append]; omega
    rw [← e2]
    exact h3
  · exact sync_cast hq3 (by simp only [List.length_cons, List.length_append]; omega)
      (by simp only [List.length_cons, List.length_append]; omega)
  · show Wrote p.pj q3.pj (a + 1) (es ++ es1)
    have hkey : Wrote q1.pj q3.pj (a + 1 + es.length) es1 := by
      have hk1 : Wrote q1.pj ((q1.read_next buf).read_next buf).write_string.pj
          (a + 1 + es.length)
          [⟨arena_offset D buf pj0 (j + (ws.length + 1 + 1) + 1), ch_quote⟩] :=
        wrote_cast hwk (by omega) rfl
      have hk2 : Wrote ((q1.read_next buf).read_next buf).write_string.pj q3.pj
          (a + 1 + es.length
            + ([⟨arena_offset D buf pj0 (j + (ws.length + 1 + 1) + 1), ch_quote⟩] :
                List TapeEntry).length) (es1.drop 1) :=
        wrote_cast hwr2 (by simp only [List.length_cons, List.length_nil]; omega) rfl
      have := wrote_append hk1 hk2
      rw [hes]
      exact this
    exact wrote_append hwr1 hkey

/-- The walk over a phrase of the grammar writes the entries of the phrase. -/
theorem walk_builds (D : ScalarDecoders) (buf : Nat → Nat) (len : Nat) (pj0 : ParsedJson)
    {cat : Category} {k : Nat} {ws : List Nat} {j a : Nat} {es : List TapeEntry}
    (h : Emits D buf len pj0 cat k ws j a es) : Builds D buf len pj0 cat k ws j a es := by
  induction h with
  | scalar c j a hs => exact builds_scalar D buf len pj0 c j a hs
  | empty_array j a => exact builds_empty_array D buf len pj0 j a
  | array k ws j a es h ih => exact builds_array D buf len pj0 k ws j a es (emits_spells h) ih
  | empty_object j a => exact builds_empty_object D buf len pj0 j a
  | object k ws j a es h ih =>
    exact builds_object D buf len pj0 k ws j a es (emits_spells h) (emits_members_head h) ih
  | element k ws j a es _ ih => exact builds_element D buf len pj0 k ws j a es ih
  | elements k m ws ws1 j a es es1 h h1 ih ih1 =>
    exact builds_elements D buf len pj0 k m ws ws1 j a es es1 (emits_spells h) (emits_spells h1)
      ih ih1
  | member k ws j a es h ih => exact builds_member D buf len pj0 k ws j a es (emits_spells h) ih
  | members k m ws ws1 j a es es1 h h1 ih ih1 =>
    exact builds_members D buf len pj0 k m ws ws1 j a es es1 (emits_spells h) (emits_spells h1)
      (emits_members_head h1) ih ih1

end simdjson

namespace simdjson
open StructuralParser

/-! ## What the scalar pre-pass leaves in the string buffer and the number table -/

theorem foldl_range_inv {β : Type} (f : β → Nat → β) (I : Nat → β → Prop) (m : Nat) :
    ∀ (a : Nat) (s0 : β), I a s0 →
      (∀ j st, a ≤ j → j < a + m → I j st → I (j + 1) (f st j)) →
      I (a + m) ((List.range' a m).foldl f s0) := by
  induction m with
  | zero => intro a s0 h0 _; simpa using h0
  | succ m ih =>
    intro a s0 h0 hstep
    rw [List.range'_succ, List.foldl_cons]
    have := ih (a + 1) (f s0 a) (hstep a s0 (le_refl _) (by omega) h0)
      (fun j st h1 h2 hI => hstep j st (by omega) (by omega) hI)
    have e : a + 1 + m = a + (m + 1) := by omega
    rw [e] at this
    exact this

theorem store_bytes_below (mem : Nat → Nat) (loc : Nat) (bs : List Nat) (a : Nat)
    (h : a < loc) : store_bytes mem loc bs a = mem a := by
  unfold store_bytes
  rw [if_neg (by omega)]

theorem store_bytes_at (mem : Nat → Nat) (loc : Nat) (bs : List Nat) (t : Nat)
    (h : t < bs.length) : store_bytes mem loc bs (loc + t) = bs.getD t 0 := by
  unfold store_bytes
  rw [if_pos ⟨by omega, by omega⟩]
  congr 1
  omega

theorem had_error_result_ok (b : Bool) (pj : ParsedJson) (code : ErrorValues)
    (h : (had_error_result b pj code).1 = .SUCCESS) (hc : code ≠ .SUCCESS) :
    b = false ∧ (had_error_result b pj code).2 = pj := by
  unfold had_error_result at *
  cases b
  · exact ⟨rfl, rfl⟩
  · simp only [if_true] at h
    exact absurd h hc

/-- After a successful `parse_strings`, the record of every string stands at its offset
in the string buffer; the number table and its cursor are untouched. -/
theorem parse_strings_records (D : ScalarDecoders) (buf : Nat → Nat) (pj0 pj1 : ParsedJson)
    (hsi : pj1.structural_indexes = pj0.structural_indexes)
    (hn : pj1.n_structural_indexes = pj0.n_structural_indexes)
    (hcur : pj1.current_string_buf_loc = 0)
    (hok : (parse_strings D buf pj1 0).1 = .SUCCESS) :
    (parse_strings D buf pj1 0).2.number_buf = pj1.number_buf ∧
    (parse_strings D buf pj1 0).2.current_number_loc = pj1.current_number_loc ∧
    ∀ x, x + 1 < pj0.n_structural_indexes → structural_byte buf pj0 x = ch_quote →
      ∀ t, t < (string_record D buf pj0 x).length →
        (parse_strings D buf pj1 0).2.string_buf (arena_offset D buf pj0 x + t)
          = (string_record D buf pj0 x).getD t 0 := by
  have hinv := foldl_range_inv (parse_strings_body D buf)
    (fun j st => st.2.structural_indexes = pj0.structural_indexes ∧
      st.2.number_buf = pj1.number_buf ∧ st.2.current_number_loc = pj1.current_number_loc ∧
      (st.1 = false → st.2.current_string_buf_loc = arena_offset D buf pj0 j ∧
        ∀ x, x < j → structural_byte buf pj0 x = ch_quote →
          ∀ t, t < (string_record D buf pj0 x).length →
            st.2.string_buf (arena_offset D buf pj0 x + t)
              = (string_record D buf pj0 x).getD t 0))
    (pj1.n_structural_indexes - 1 - 0) 0 (false, pj1)
    ⟨hsi, rfl, rfl, fun _ => ⟨hcur, fun x hx => absurd hx (by omega)⟩⟩
    (by
      intro j st _ _ hI
      obtain ⟨i1, i2, i3, i4⟩ := hI
      unfold parse_strings_body
      by_cases hq : buf (st.2.structural_indexes j) = ch_quote
      · rw [if_pos hq]
        have hq0 : structural_byte buf pj0 j = ch_quote := by
          rw [← hq, i1]; rfl
        unfold parse_string
        cases hdec : D.parse_string buf (st.2.structural_indexes j) with
        | none =>
          refine ⟨i1, i2, i3, ?_⟩
          intro hf
          simp at hf
        | some bytes =>
          have hb : string_bytes_at D buf pj0 j = bytes := by
            unfold string_bytes_at
            rw [← i1, hdec]
            rfl
          refine ⟨i1, i2, i3, ?_⟩
          intro hf
          have hf1 : st.1 = false := by simpa using hf
          obtain ⟨c1, c2⟩ := i4 hf1
          refine ⟨?_, ?_⟩
          · show st.2.current_string_buf_loc + (4 + bytes.length + 1) = _
            rw [c1, arena_offset_string D buf pj0 j hq0, hb]
          · intro x hx hqx t ht
            show store_bytes st.2.string_buf st.2.current_string_buf_loc
              (u32_bytes bytes.length ++ bytes ++ [0]) (arena_offset D buf pj0 x + t) = _
            rw [c1]
            by_cases hxj : x = j
            · subst hxj
              have hrec : string_record D buf pj0 x = u32_bytes bytes.length ++ bytes ++ [0] := by
                unfold string_record
                rw [hb]
              rw [hrec] at ht ⊢
              exact store_bytes_at _ _ _ t ht
            · have hlt : x < j := by omega
              have h1 := arena_offset_mono D buf pj0 (show x + 1 ≤ j by omega)
              rw [arena_offset_string D buf pj0 x hqx] at h1
              rw [string_record_length] at ht
              rw [store_bytes_below _ _ _ _ (by omega)]
              exact c2 x hlt hqx t (by rw [string_record_length]; exact ht)
      · rw [if_neg hq]
        have hq0 : structural_byte buf pj0 j ≠ ch_quote := by
          intro h
          apply hq
          rw [← h, i1]; rfl
        refine ⟨i1, i2, i3, ?_⟩
        intro hf
        obtain ⟨c1, c2⟩ := i4 hf
        refine ⟨by rw [arena_offset_other D buf pj0 j hq0]; exact c1, ?_⟩
        intro x hx hqx
        have hxj : x ≠ j := by
          intro h
          rw [h] at hqx
          exact hq0 hqx
        exact c2 x (by omega) hqx)
  unfold parse_strings at hok ⊢
  obtain ⟨hb, he⟩ := had_error_result_ok _ _ _ hok (by decide)
  rw [he]
  obtain ⟨_, i2, i3, i4⟩ := hinv
  refine ⟨i2, i3, ?_⟩
  intro x hx hqx
  exact (i4 hb).2 x (by rw [Nat.zero_add, hn]; omega) hqx

theorem digit_class {c : Nat} (h : is_digit c = true) :
    is_number_start c = true ∧ c ≠ ch_minus := by
  simp only [is_digit, Bool.and_eq_true, decide_eq_true_eq] at h
  refine ⟨by simp [is_number_start, is_digit, h.1, h.2], ?_⟩
  simp only [ch_minus]
  omega

theorem number_start_cases {c : Nat} (h : is_number_start c = true) :
    is_digit c = true ∨ (is_digit c = false ∧ c = ch_minus) := by
  by_cases hd : is_digit c = true
  · exact Or.inl hd
  · right
    have hd2 : is_digit c = false := by simpa using hd
    refine ⟨hd2, ?_⟩
    simpa [is_number_start, hd2] using h

/-- What `parse_number` leaves when it succeeds on the number of position `j`. -/
theorem parse_number_slot (D : ScalarDecoders) (src : Nat → Nat) (pjx : ParsedJson) (idx : Nat)
    (neg : Bool) (h : (parse_number D src pjx idx neg).1 = true) :
    (parse_number D src pjx idx neg).2.structural_indexes = pjx.structural_indexes ∧
    (parse_number D src pjx idx neg).2.string_buf = pjx.string_buf ∧
    (parse_number D src pjx idx neg).2.current_number_loc = pjx.current_number_loc + 1 ∧
    (parse_number D src pjx idx neg).2.number_buf
      = Function.update pjx.number_buf pjx.current_number_loc
          ((D.parse_number src idx neg).getD (0, 0)) := by
  unfold parse_number at h ⊢
  cases hdec : D.parse_number src idx neg with
  | none => rw [hdec] at h; simp at h
  | some kv => exact ⟨rfl, rfl, rfl, rfl⟩

theorem parse_number_other (D : ScalarDecoders) (src : Nat → Nat) (pjx : ParsedJson)
    (idx : Nat) (neg : Bool) :
    (parse_number D src pjx idx neg).2.structural_indexes = pjx.structural_indexes ∧
    (parse_number D src pjx idx neg).2.string_buf = pjx.string_buf := by
  unfold parse_number
  cases D.parse_number src idx neg <;> exact ⟨rfl, rfl⟩

/-- After a successful `parse_numbers`, the number decoded at every number stands in its
slot of the number table; the string buffer is untouched. -/
theorem parse_numbers_records (D : ScalarDecoders) (buf : Nat → Nat) (len : Nat)
    (pj0 pj1 : ParsedJson)
    (hsi : pj1.structural_indexes = pj0.structural_indexes)
    (hn : pj1.n_structural_indexes = pj0.n_structural_indexes)
    (hcur : pj1.current_number_loc = 0)
    (hok : (parse_numbers D buf len pj1 0).1 = .SUCCESS) :
    (parse_numbers D buf len pj1 0).2.string_buf = pj1.string_buf ∧
    ∀ x, x + 1 < pj0.n_structural_indexes →
      is_number_start (structural_byte buf pj0 x) = true →
        (parse_numbers D buf len pj1 0).2.number_buf (number_index buf pj0 x)
          = number_at D buf len pj0 x := by
  -- the invariant of the two blocks of `parse_numbers`
  have key : ∀ (src : Nat → Nat) (st : Bool × ParsedJson) (j : Nat) (neg : Bool),
      src = number_source buf len pj0 →
      neg = decide (structural_byte buf pj0 j = ch_minus) →
      is_number_start (structural_byte buf pj0 j) = true →
      (st.2.structural_indexes = pj0.structural_indexes ∧ st.2.string_buf = pj1.string_buf ∧
        (st.1 = false → st.2.current_number_loc = number_index buf pj0 j ∧
          ∀ x, x < j → is_number_start (structural_byte buf pj0 x) = true →
            st.2.number_buf (number_index buf pj0 x) = number_at D buf len pj0 x)) →
      ((parse_number D src st.2 (st.2.structural_indexes j) neg).2.structural_indexes
          = pj0.structural_indexes ∧
        (parse_number D src st.2 (st.2.structural_indexes j) neg).2.string_buf
          = pj1.string_buf ∧
        ((st.1 || !(parse_number D src st.2 (st.2.structural_indexes j) neg).1) = false →
          (parse_number D src st.2 (st.2.structural_indexes j) neg).2.current_number_loc
              = number_index buf pj0 (j + 1) ∧
          ∀ x, x < j + 1 → is_number_start (structural_byte buf pj0 x) = true →
            (parse_number D src st.2 (st.2.structural_indexes j) neg).2.number_buf
              (number_index buf pj0 x) = number_at D buf len pj0 x)) := by
    intro src st j neg hsrc hneg hnum hI
    obtain ⟨i1, i2, i3⟩ := hI
    obtain ⟨o1, o2⟩ := parse_number_other D src st.2 (st.2.structural_indexes j) neg
    refine ⟨o1.trans i1, o2.trans i2, ?_⟩
    intro hf
    have hf1 : st.1 = false := by
      cases h : st.1
      · rfl
      · rw [h] at hf; simp at hf
    have hf2 : (parse_number D src st.2 (st.2.structural_indexes j) neg).1 = true := by
      rw [hf1] at hf
      simpa using hf
    obtain ⟨_, _, s3, s4⟩ := parse_number_slot D src st.2 (st.2.structural_indexes j) neg hf2
    obtain ⟨c1, c2⟩ := i3 hf1
    refine ⟨by rw [s3, c1, number_index_number buf pj0 j hnum], ?_⟩
    intro x hx hnx
    rw [s4, c1]
    by_cases hxj : x = j
    · subst hxj
      rw [Function.update_same]
      unfold number_at
      rw [← hsrc, ← hneg, i1]
    · have hlt : x < j := by omega
      have h1 := number_index_mono buf pj0 (show x + 1 ≤ j by omega)
      rw [number_index_number buf pj0 x hnx] at h1
      rw [Function.update_noteq (by omega)]
      exact c2 x hlt hnx
  have skip : ∀ (st : Bool × ParsedJson) (j : Nat),
      is_number_start (structural_byte buf pj0 j) = false →
      (st.2.structural_indexes = pj0.structural_indexes ∧ st.2.string_buf = pj1.string_buf ∧
        (st.1 = false → st.2.current_number_loc = number_index buf pj0 j ∧
          ∀ x, x < j → is_number_start (structural_byte buf pj0 x) = true →
            st.2.number_buf (number_index buf pj0 x) = number_at D buf len pj0 x)) →
      (st.2.structural_indexes = pj0.structural_indexes ∧ st.2.string_buf = pj1.string_buf ∧
        (st.1 = false → st.2.current_number_loc = number_index buf pj0 (j + 1) ∧
          ∀ x, x < j + 1 → is_number_start (structural_byte buf pj0 x) = true →
            st.2.number_buf (number_index buf pj0 x) = number_at D buf len pj0 x)) := by
    intro st j hnum hI
    obtain ⟨i1, i2, i3⟩ := hI
    refine ⟨i1, i2, ?_⟩
    intro hf
    obtain ⟨c1, c2⟩ := i3 hf
    refine ⟨by rw [number_index_other buf pj0 j hnum]; exact c1, ?_⟩
    intro x hx hnx
    have hxj : x ≠ j := by
      intro h
      rw [h, hnum] at hnx
      exact absurd hnx (by simp)
    exact c2 x (by omega) hnx
  have fin : ∀ st : Bool × ParsedJson,
      (had_error_result st.1 st.2 .NUMBER_ERROR).1 = .SUCCESS →
      (st.2.structural_indexes = pj0.structural_indexes ∧ st.2.string_buf = pj1.string_buf ∧
        (st.1 = false → st.2.current_number_loc
            = number_index buf pj0 (pj0.n_structural_indexes - 1) ∧
          ∀ x, x < pj0.n_structural_indexes - 1 →
            is_number_start (structural_byte buf pj0 x) = true →
            st.2.number_buf (number_index buf pj0 x) = number_at D buf len pj0 x)) →
      (had_error_result st.1 st.2 .NUMBER_ERROR).2.string_buf = pj1.string_buf ∧
      ∀ x, x + 1 < pj0.n_structural_indexes →
        is_number_start (structural_byte buf pj0 x) = true →
          (had_error_result st.1 st.2 .NUMBER_ERROR).2.number_buf (number_index buf pj0 x)
            = number_at D buf len pj0 x := by
    intro st hok hI
    obtain ⟨hb, he⟩ := had_error_result_ok _ _ _ hok (by decide)
    rw [he]
    exact ⟨hI.2.1, fun x hx hnx => (hI.2.2 hb).2 x (by omega) hnx⟩
  unfold parse_numbers parse_numbers_loop at hok ⊢
  by_cases h2 : pj1.n_structural_indexes = 2
  · -- the document is one sole structural: the first block decodes it from the copy
    have hsrc : number_source buf len pj0 = space_terminated_copy buf len := by
      unfold number_source
      rw [if_pos (by rw [← hn]; exact h2)]
    have hnl : (parse_numbers_last D buf len pj1 0).2 = 1 := by
      unfold parse_numbers_last
      rw [if_pos (by rw [h2])]
      split
      · rfl
      · split <;> rfl
    have hloop : (List.range' (parse_numbers_last D buf len pj1 0).2
        (pj1.n_structural_indexes - 1 - (parse_numbers_last D buf len pj1 0).2)).foldl
        (parse_numbers_body D buf) (parse_numbers_last D buf len pj1 0).1
        = (parse_numbers_last D buf len pj1 0).1 := by
      rw [hnl, h2]
      rfl
    rw [hloop] at hok ⊢
    apply fin _ hok
    have hn1 : pj0.n_structural_indexes - 1 = 0 + 1 := by rw [← hn, h2]
    rw [hn1]
    have h0 : (((false, pj1) : Bool × ParsedJson).2.structural_indexes
          = pj0.structural_indexes ∧
        ((false, pj1) : Bool × ParsedJson).2.string_buf = pj1.string_buf ∧
        (((false, pj1) : Bool × ParsedJson).1 = false →
          ((false, pj1) : Bool × ParsedJson).2.current_number_loc = number_index buf pj0 0 ∧
          ∀ x, x < 0 → is_number_start (structural_byte buf pj0 x) = true →
            ((false, pj1) : Bool × ParsedJson).2.number_buf (number_index buf pj0 x)
              = number_at D buf len pj0 x)) :=
      ⟨hsi, rfl, fun _ => ⟨hcur, fun x hx => absurd hx (by omega)⟩⟩
    have hbyte : buf (pj1.structural_indexes 0) = structural_byte buf pj0 0 := by
      rw [hsi]; rfl
    unfold parse_numbers_last
    rw [if_pos (by rw [h2])]
    by_cases hd : is_digit (buf (pj1.structural_indexes 0)) = true
    · rw [if_pos hd]
      obtain ⟨hns, hnm⟩ := digit_class hd
      rw [hbyte] at hns hnm
      unfold with_space_terminated_copy
      by_cases hm : D.malloc_succeeds = true
      · rw [if_pos hm]
        have := key (space_terminated_copy buf len) (false, pj1) 0 false hsrc.symm
          (by simp [hnm]) hns h0
        simpa [parse_number_on] using this
      · rw [if_neg hm]
        exact ⟨hsi, rfl, fun hf => by simp at hf⟩
    · rw [if_neg hd]
      by_cases hm2 : buf (pj1.structural_indexes 0) = ch_minus
      · rw [if_pos hm2]
        have hns : is_number_start (structural_byte buf pj0 0) = true := by
          rw [← hbyte, hm2]; decide
        unfold with_space_terminated_copy
        by_cases hm : D.malloc_succeeds = true
        · rw [if_pos hm]
          have := key (space_terminated_copy buf len) (false, pj1) 0 true hsrc.symm
            (by rw [← hbyte, hm2]; simp) hns h0
          simpa [parse_number_on] using this
        · rw [if_neg hm]
          exact ⟨hsi, rfl, fun hf => by simp at hf⟩
      · rw [if_neg hm2]
        have hns : is_number_start (structural_byte buf pj0 0) = false := by
          rw [← hbyte]
          have hd2 : is_digit (buf (pj1.structural_indexes 0)) = false := by simpa using hd
          simp [is_number_start, hd2, hm2]
        exact skip (false, pj1) 0 hns h0
  · -- the loop decodes every number from the input
    have hsrc : number_source buf len pj0 = buf := by
      unfold number_source
      rw [if_neg (by rw [← hn]; exact h2)]
    have hnl : parse_numbers_last D buf len pj1 0 = ((false, pj1), 0) := by
      unfold parse_numbers_last
      rw [if_neg (by omega)]
    rw [hnl] at hok ⊢
    apply fin _ hok
    have hinv := foldl_range_inv (parse_numbers_body D buf)
      (fun j st => st.2.structural_indexes = pj0.structural_indexes ∧
        st.2.string_buf = pj1.string_buf ∧
        (st.1 = false → st.2.current_number_loc = number_index buf pj0 j ∧
          ∀ x, x < j → is_number_start (structural_byte buf pj0 x) = true →
            st.2.number_buf (number_index buf pj0 x) = number_at D buf len pj0 x))
      (pj1.n_structural_indexes - 1 - 0) 0 (false, pj1)
      ⟨hsi, rfl, fun _ => ⟨hcur, fun x hx => absurd hx (by omega)⟩⟩
      (by
        intro j st _ _ hI
        have hbyte : buf (st.2.structural_indexes j) = structural_byte buf pj0 j := by
          rw [hI.1]; rfl
        unfold parse_numbers_body parse_numbers_switch
        by_cases hd : is_digit (buf (st.2.structural_indexes j)) = true
        · rw [if_pos hd]
          obtain ⟨hns, hnm⟩ := digit_class hd
          rw [hbyte] at hns hnm
          exact key buf st j false hsrc.symm (by simp [hnm]) hns hI
        · rw [if_neg hd]
          by_cases hm2 : buf (st.2.structural_indexes j) = ch_minus
          · rw [if_pos hm2]
            have hns : is_number_start (structural_byte buf pj0 j) = true := by
              rw [← hbyte, hm2]; decide
            exact key buf st j true hsrc.symm (by rw [← hbyte, hm2]; simp) hns hI
          · rw [if_neg hm2]
            have hns : is_number_start (structural_byte buf pj0 j) = false := by
              rw [← hbyte]
              have hd2 : is_digit (buf (st.2.structural_indexes j)) = false := by simpa using hd
              simp [is_number_start, hd2, hm2]
            have := skip st j hns hI
            simpa using this)
    have e : 0 + (pj1.n_structural_indexes - 1 - 0) = pj0.n_structural_indexes - 1 := by
      rw [hn]; omega
    rw [e] at hinv
    exact hinv

/-- After a successful pre-pass the workspace of the walk holds the records of the
document, provided every decoded string fits the 32-bit length field. -/
theorem prepass_records (D : ScalarDecoders) (buf : Nat → Nat) (len : Nat) (pj : ParsedJson)
    (hpre : prepass_ok D buf len pj)
    (hlen : ∀ x, x + 1 < pj.n_structural_indexes → structural_byte buf pj x = ch_quote →
      (string_bytes_at D buf pj x).length < 4294967296) :
    Records D buf len pj (walk_pj D buf len pj) ∧
    (walk_pj D buf len pj).current_string_buf_loc = 0 ∧
    (walk_pj D buf len pj).current_number_loc = 0 := by
  obtain ⟨h1, h2, h3⟩ := hpre
  obtain ⟨s1, s2, s3⟩ := parse_strings_records D buf pj pj.init rfl rfl rfl h1
  obtain ⟨k1, _, k3, k4, _⟩ := parse_strings_keeps D buf pj.init 0
  obtain ⟨n1, n2⟩ := parse_numbers_records D buf len pj (parse_strings D buf pj.init 0).2
    k4 k3 (by rw [s2]; rfl) h2
  have ha : (parse_atoms D buf len
      (parse_numbers D buf len (parse_strings D buf pj.init 0).2 0).2 0).2
      = (parse_numbers D buf len (parse_strings D buf pj.init 0).2 0).2 := by
    unfold parse_atoms at h3 ⊢
    exact (had_error_result_ok _ _ _ h3 (by decide)).2
  unfold walk_pj
  rw [ha]
  refine ⟨⟨?_, hlen, ?_⟩, rfl, rfl⟩
  · intro x hx hq t ht
    show (parse_numbers D buf len (parse_strings D buf pj.init 0).2 0).2.string_buf _ = _
    rw [n1]
    exact s3 x hx hq t ht
  · intro x hx hnx
    exact n2 x hx hnx

end simdjson

namespace simdjson
open StructuralParser

/-! ## The tape of an accepted document -/

theorem finish_bufs (p : StructuralParser) :
    p.finish.2.pj.string_buf = p.pj.string_buf ∧ p.finish.2.pj.number_buf = p.pj.number_buf ∧
    p.finish.2.pj.structural_indexes = p.pj.structural_indexes ∧
    p.finish.2.pj.n_structural_indexes = p.pj.n_structural_indexes := by
  unfold finish
  split
  · exact ⟨rfl, rfl, rfl, rfl⟩
  · simp only
    split
    · exact ⟨rfl, rfl, rfl, rfl⟩
    · split <;> exact ⟨rfl, rfl, rfl, rfl⟩

/-- From the state after `start`, the walk over a document whose structural bytes are
one value reaches `finish` having written the entries of the value after the root
entry. -/
theorem walk_emits_root (D : ScalarDecoders) (buf : Nat → Nat) (len : Nat)
    (pj0 pjw : ParsedJson) (hcur : pjw.current_loc = 0)
    (hsi : pjw.structural_indexes = pj0.structural_indexes)
    (hn : pjw.n_structural_indexes = pj0.n_structural_indexes)
    (hrec : Records D buf len pj0 pjw) (hs : pjw.current_string_buf_loc = 0)
    (hnl : pjw.current_number_loc = 0) {k : Nat} {es : List TapeEntry}
    (he : Emits D buf len pj0 .value k (structural_bytes buf pj0) 0 1 es)
    (hk : k + 1 < pjw.depth_capacity) :
    ∃ q : StructuralParser,
      walk buf (walk_fuel pjw) (first_value (walk_start buf len pjw)) = (.finish, q) ∧
      q.i + 1 = pjw.n_structural_indexes ∧ q.depth = 1 ∧
      q.pj.containing_scope_offset 0 = 0 ∧
      Sync D buf len pj0 q.pj (pj0.n_structural_indexes - 1) (1 + es.length) ∧
      (∀ t e, es[t]? = some e → q.pj.tape (1 + t) = e) ∧ q.pj.tape 0 = ⟨0, ch_r⟩ := by
  have hv := emits_spells he
  have hlen := spells_nonempty hv
  have hbl : (structural_bytes buf pj0).length = pj0.n_structural_indexes - 1 := by
    simp [structural_bytes]
  obtain ⟨b1, b2, b3, b4, b5, b6, b7, _, _, b10, b11, _, _⟩ := walk_start_facts buf len pjw hcur
  have hsync : Sync D buf len pj0 (walk_start buf len pjw).pj 0 1 :=
    ⟨b6.trans hsi, b5.trans hn, b11, hs, hnl, hrec⟩
  have hf : structural_byte buf (walk_start buf len pjw).pj = structural_byte buf pj0 :=
    sync_byte hsync
  have hseg : seg buf (walk_start buf len pjw).pj 0 (structural_bytes buf pj0).length
      = structural_bytes buf pj0 := by
    rw [hbl, structural_bytes_eq_seg]
    simp only [seg, hf]
  obtain ⟨s, q, hw, hr, hq, hwr⟩ := walk_builds D buf len pj0 he (walk_start buf len pjw) .finish
    (by rw [b1]) (by rw [b2]; simp [structural_byte, b6]) hseg
    (by rw [b5, hn, hbl]; omega) (by rw [b3, b4]; omega) hsync
  have hfin : walk buf (walk_fuel pjw) (first_value (walk_start buf len pjw)) = (.finish, q) := by
    have hfuel : walk_fuel pjw = walk_fuel (walk_start buf len pjw).pj := by
      simp [walk_fuel, b5]
    rw [hfuel, walk_eq_of_terminal buf s _ _ (by rw [first_value_eq, hw]; rfl)
      (first_value_measure _ (by omega)), first_value_eq, hw]
    rfl
  refine ⟨q, hfin, ?_, ?_, ?_, ?_, hwr.1, ?_⟩
  · rw [hr.1, b1, hbl, ← hn]
    have : 1 ≤ pj0.n_structural_indexes - 1 := by omega
    omega
  · rw [hr.2.1, b3]
  · rw [hr.2.2.2.2 0 (by omega)]; exact b7
  · exact sync_cast hq (by rw [hbl]; omega) rfl
  · rw [hwr.2 0 (by omega)]; exact b10

/-- The run over a document whose structural bytes are one value of the grammar, with
its entries `es`: the machine returns `SUCCESS` and leaves the root start entry, the
entries `es`, and the root end entry on the tape. -/
theorem emits_run (D : ScalarDecoders) (buf : Nat → Nat) (len : Nat) (pj : ParsedJson)
    (hcap : len ≤ pj.byte_capacity) (hpre : prepass_ok D buf len pj)
    (hlen : ∀ x, x + 1 < pj.n_structural_indexes → structural_byte buf pj x = ch_quote →
      (string_bytes_at D buf pj x).length < 4294967296)
    {k : Nat} {es : List TapeEntry}
    (he : Emits D buf len pj .value k (structural_bytes buf pj) 0 1 es)
    (hk : k + 1 < pj.depth_capacity) :
    (unified_machine D buf len pj).outcome = .returned .SUCCESS ∧
    (unified_machine D buf len pj).pj.current_loc = es.length + 2 ∧
    (unified_machine D buf len pj).pj.tape 0 = ⟨es.length + 1, ch_r⟩ ∧
    (∀ t e, es[t]? = some e → (unified_machine D buf len pj).pj.tape (1 + t) = e) ∧
    (unified_machine D buf len pj).pj.tape (es.length + 1) = ⟨0, ch_r⟩ ∧
    Records D buf len pj (unified_machine D buf len pj).pj := by
  have hv := emits_spells he
  have hl := spells_nonempty hv
  have hbl : (structural_bytes buf pj).length = pj.n_structural_indexes - 1 := by
    simp [structural_bytes]
  obtain ⟨e, _, _, _, _, _⟩ := run_of_walk D buf len pj (by omega) hcap hpre (by omega)
  rw [e, final_config_eq]
  obtain ⟨_, a2, a3, a4, a5, _⟩ := walk_pj_keeps D buf len pj
  obtain ⟨r1, r2, r3⟩ := prepass_records D buf len pj hpre hlen
  generalize walk_pj D buf len pj = pjw at *
  obtain ⟨q, hw, hqi, hqd, hqc, hq, hwr, hq0⟩ := walk_emits_root D buf len pj pjw a5 a4 a3 r1
    r2 r3 he (by rw [a2]; exact hk)
  rw [hw]
  have hsucc : q.finish.1 = .SUCCESS :=
    (finish_success q).2 ⟨by rw [hqi, hq.2.1, a3], by rw [hqd], by rw [hqd]; exact hqc⟩
  obtain ⟨t1, t2⟩ := finish_tape q (by rw [hqi, hq.2.1, a3]) hqd hqc
  obtain ⟨f1, f2, f3, f4⟩ := finish_bufs q
  have hloc : q.pj.current_loc = 1 + es.length := hq.2.2.1
  show Outcome.returned q.finish.1 = _ ∧ q.finish.2.pj.current_loc = _ ∧
    q.finish.2.pj.tape 0 = _ ∧ (∀ t e, es[t]? = some e → q.finish.2.pj.tape (1 + t) = e) ∧
    q.finish.2.pj.tape (es.length + 1) = _ ∧ Records D buf len pj q.finish.2.pj
  refine ⟨by rw [hsucc], by rw [t2, hloc]; omega, ?_, ?_, ?_, ?_⟩
  · rw [t1, hloc, Function.update_noteq (by omega), Function.update_same, hq0]
    have : 1 + es.length = es.length + 1 := by omega
    rw [this]
  · intro t e0 he0
    have ht : t < es.length := by
      by_contra hge
      rw [List.getElem?_eq_none (by omega)] at he0
      exact absurd he0 (by simp)
    rw [t1, hloc, Function.update_noteq (by omega), Function.update_noteq (by omega)]
    exact hwr t e0 he0
  · rw [t1, hloc]
    have : es.length + 1 = 1 + es.length := by omega
    rw [this, Function.update_same]
  · obtain ⟨c1, c2, c3⟩ := hq.2.2.2.2.2
    refine ⟨?_, c2, ?_⟩
    · intro x hx hqx t ht
      rw [f1]
      exact c1 x hx hqx t ht
    · intro x hx hnx
      rw [f2]
      exact c3 x hx hnx

/-- The structural bytes of an accepted document spell one value whose nesting fits the
depth capacity, and the pre-pass found no error in it. -/
theorem accepted_spells (D : ScalarDecoders) (buf : Nat → Nat) (len : Nat) (pj : ParsedJson)
    (h : (unified_machine D buf len pj).outcome = .returned .SUCCESS) :
    len ≤ pj.byte_capacity ∧ prepass_ok D buf len pj ∧
    ∃ k, Spells .value k (structural_bytes buf pj) ∧ k + 1 < pj.depth_capacity := by
  obtain ⟨hn, hd, hcap, hpre, _⟩ := accepted_run D buf len pj h
  refine ⟨hcap, hpre, ?_⟩
  obtain ⟨_, a2, a3, a4, a5, _⟩ := walk_pj_keeps D buf len pj
  rw [unified_machine_eq D buf len pj hcap hpre, parse_structurals_eq _ _ _ (by omega)] at h
  obtain ⟨b1, b2, b3, b4, b5, b6, b7, _⟩ := walk_start_facts buf len (walk_pj D buf len pj) a5
  have hseg : seg buf (walk_start buf len (walk_pj D buf len pj)).pj 0
      ((walk_start buf len (walk_pj D buf len pj)).pj.n_structural_indexes - 1)
      = structural_bytes buf pj := by
    rw [structural_bytes_eq_seg, b5, a3]
    simp [seg, structural_byte, b6, a4]
  rw [if_neg (by rw [a2]; omega)] at h
  have hfuel : walk_fuel (walk_pj D buf len pj)
      = walk_fuel (walk_start buf len (walk_pj D buf len pj)).pj := by
    simp [walk_fuel, b5]
  rw [hfuel, walk_success_iff buf _ b1 (by rw [b2]; simp [structural_byte, b6]) b3 b7
    (by rw [b5, a3]; exact hn) (by rw [b4]; omega), hseg, b4, a2] at h
  exact h

/-- The tape of an accepted document: the root start entry, the entries of the value
that the structural bytes spell, and the root end entry. -/
theorem accepted_emits (D : ScalarDecoders) (buf : Nat → Nat) (len : Nat) (pj : ParsedJson)
    (hlen : ∀ x, x + 1 < pj.n_structural_indexes → structural_byte buf pj x = ch_quote →
      (string_bytes_at D buf pj x).length < 4294967296)
    (h : (unified_machine D buf len pj).outcome = .returned .SUCCESS) :
    ∃ k es, Emits D buf len pj .value k (structural_bytes buf pj) 0 1 es ∧
      k + 1 < pj.depth_capacity ∧
      (unified_machine D buf len pj).pj.current_loc = es.length + 2 ∧
      (unified_machine D buf len pj).pj.tape 0 = ⟨es.length + 1, ch_r⟩ ∧
      (∀ t e, es[t]? = some e → (unified_machine D buf len pj).pj.tape (1 + t) = e) ∧
      (unified_machine D buf len pj).pj.tape (es.length + 1) = ⟨0, ch_r⟩ ∧
      Records D buf len pj (unified_machine D buf len pj).pj := by
  obtain ⟨hcap, hpre, k, hv, hk⟩ := accepted_spells D buf len pj h
  obtain ⟨es, he⟩ := spells_emits D buf len pj hv 0 1
  obtain ⟨_, r2, r3, r4, r5, r6⟩ := emits_run D buf len pj hcap hpre hlen he hk
  exact ⟨k, es, he, hk, r2, r3, r4, r5, r6⟩

end simdjson

namespace simdjson
open StructuralParser

/-! ## The entries of a phrase: kinds, positions and grammar -/

theorem kinds_cons {α : Type} (f : Nat → List α) (j m : Nat) :
    (List.range' j (m + 1)).flatMap f = f j ++ (List.range' (j + 1) m).flatMap f := by
  rw [List.range'_succ, List.flatMap_cons]

theorem kinds_append {α : Type} (f : Nat → List α) (j a b : Nat) :
    (List.range' j (a + b)).flatMap f
      = (List.range' j a).flatMap f ++ (List.range' (j + a) b).flatMap f := by
  induction a generalizing j with
  | zero => simp
  | succ a ih =>
    have e : a + 1 + b = (a + b) + 1 := by omega
    rw [e, kinds_cons, kinds_cons, ih, List.append_assoc]
    have e2 : j + 1 + a = j + (a + 1) := by omega
    rw [e2]

theorem kinds_one {α : Type} (f : Nat → List α) (j : Nat) :
    (List.range' j 1).flatMap f = f j := by
  simp

theorem position_kinds_string (D : ScalarDecoders) (buf : Nat → Nat) (len : Nat)
    (pj : ParsedJson) (j : Nat) (h : structural_byte buf pj j = ch_quote) :
    position_kinds D buf len pj j = [ch_quote] := by
  obtain ⟨_, h2, h3, h4⟩ := quote_class
  simp [position_kinds, h, h2, h3, h4]

theorem position_kinds_atom (D : ScalarDecoders) (buf : Nat → Nat) (len : Nat)
    (pj : ParsedJson) (j : Nat) (h : is_atom_start (structural_byte buf pj j) = true) :
    position_kinds D buf len pj j = [structural_byte buf pj j] := by
  obtain ⟨_, h2, h3, h4⟩ := atom_class h
  simp [position_kinds, h2, h3, h4]

theorem position_kinds_number (D : ScalarDecoders) (buf : Nat → Nat) (len : Nat)
    (pj : ParsedJson) (j : Nat) (h : is_number_start (structural_byte buf pj j) = true) :
    position_kinds D buf len pj j = [(number_at D buf len pj j).1, 0] := by
  obtain ⟨_, _, h3, h4⟩ := number_class h
  simp [position_kinds, h, h3, h4]

theorem position_kinds_bracket (D : ScalarDecoders) (buf : Nat → Nat) (len : Nat)
    (pj : ParsedJson) (j : Nat)
    (h : structural_byte buf pj j = ch_lbracket ∨ structural_byte buf pj j = ch_rbracket ∨
      structural_byte buf pj j = ch_lbrace ∨ structural_byte buf pj j = ch_rbrace) :
    position_kinds D buf len pj j = [structural_byte buf pj j] := by
  obtain ⟨_, _, h3, h4, h5⟩ := bracket_class h
  simp [position_kinds, h3, h4, h5]

theorem position_kinds_separator (D : ScalarDecoders) (buf : Nat → Nat) (len : Nat)
    (pj : ParsedJson) (j : Nat)
    (h : structural_byte buf pj j = ch_comma ∨ structural_byte buf pj j = ch_colon) :
    position_kinds D buf len pj j = [] := by
  simp [position_kinds, h]

theorem scalar_entries_string (D : ScalarDecoders) (buf : Nat → Nat) (len : Nat)
    (pj : ParsedJson) (j : Nat) (h : structural_byte buf pj j = ch_quote) :
    scalar_entries D buf len pj j = [⟨arena_offset D buf pj j, ch_quote⟩] := by
  simp [scalar_entries, h]

theorem scalar_entries_atom (D : ScalarDecoders) (buf : Nat → Nat) (len : Nat)
    (pj : ParsedJson) (j : Nat) (h : is_atom_start (structural_byte buf pj j) = true) :
    scalar_entries D buf len pj j = [⟨0, structural_byte buf pj j⟩] := by
  obtain ⟨h1, _, _, _⟩ := atom_class h
  simp [scalar_entries, h, h1]

theorem scalar_entries_number (D : ScalarDecoders) (buf : Nat → Nat) (len : Nat)
    (pj : ParsedJson) (j : Nat) (h : is_number_start (structural_byte buf pj j) = true) :
    scalar_entries D buf len pj j
      = [⟨0, (number_at D buf len pj j).1⟩, ⟨(number_at D buf len pj j).2, 0⟩] := by
  obtain ⟨h1, h2, _, _⟩ := number_class h
  simp [scalar_entries, h, h1, h2]

theorem scalar_entries_other (D : ScalarDecoders) (buf : Nat → Nat) (len : Nat)
    (pj : ParsedJson) (j : Nat) (h1 : structural_byte buf pj j ≠ ch_quote)
    (h2 : is_atom_start (structural_byte buf pj j) = false)
    (h3 : is_number_start (structural_byte buf pj j) = false) :
    scalar_entries D buf len pj j = [] := by
  simp [scalar_entries, h1, h2, h3]

theorem entry_width_bracket (buf : Nat → Nat) (pj : ParsedJson) (j : Nat)
    (h : structural_byte buf pj j = ch_lbracket ∨ structural_byte buf pj j = ch_rbracket ∨
      structural_byte buf pj j = ch_lbrace ∨ structural_byte buf pj j = ch_rbrace) :
    entry_width buf pj j = 1 := by
  obtain ⟨_, _, h3, h4, h5⟩ := bracket_class h
  simp [entry_width, h3, h4, h5]

theorem entry_width_separator (buf : Nat → Nat) (pj : ParsedJson) (j : Nat)
    (h : structural_byte buf pj j = ch_comma ∨ structural_byte buf pj j = ch_colon) :
    entry_width buf pj j = 0 := by
  simp [entry_width, h]

theorem entry_width_string (buf : Nat → Nat) (pj : ParsedJson) (j : Nat)
    (h : structural_byte buf pj j = ch_quote) : entry_width buf pj j = 1 := by
  obtain ⟨_, h2, h3, h4⟩ := quote_class
  simp [entry_width, h, h2, h3, h4]

theorem entry_width_scalar (D : ScalarDecoders) (buf : Nat → Nat) (len : Nat)
    (pj : ParsedJson) (j : Nat) (h : is_scalar_start (structural_byte buf pj j) = true) :
    entry_width buf pj j = (scalar_entries D buf len pj j).length := by
  rcases is_scalar_start_cases h with h | h | h
  · rw [scalar_entries_string D buf len pj j h, entry_width_string buf pj j h]; rfl
  · obtain ⟨_, h2, h3, h4⟩ := atom_class h
    rw [scalar_entries_atom D buf len pj j h]
    simp [entry_width, h2, h3, h4]
  · obtain ⟨_, _, h3, h4⟩ := number_class h
    rw [scalar_entries_number D buf len pj j h]
    simp [entry_width, h, h3, h4]

/-- The kind tags of the entries of a phrase, in tape order, are those of its
structurals, in source order. -/
theorem emits_kinds {D : ScalarDecoders} {buf : Nat → Nat} {len : Nat} {pj : ParsedJson}
    {cat : Category} {k : Nat} {ws : List Nat} {j a : Nat} {es : List TapeEntry}
    (he : Emits D buf len pj cat k ws j a es) :
    seg buf pj j ws.length = ws →
      es.map TapeEntry.kind = (List.range' j ws.length).flatMap (position_kinds D buf len pj) := by
  induction he with
  | scalar c j a hs =>
    intro hseg
    have hb := (seg_eq_cons buf pj j _ c [] hseg).2.1
    rw [← hb] at hs
    show _ = (List.range' j 1).flatMap _
    rw [kinds_one]
    rcases is_scalar_start_cases hs with h | h | h
    · rw [scalar_entries_string D buf len pj j h, position_kinds_string D buf len pj j h]; rfl
    · rw [scalar_entries_atom D buf len pj j h, position_kinds_atom D buf len pj j h]; rfl
    · rw [scalar_entries_number D buf len pj j h, position_kinds_number D buf len pj j h]; rfl
  | empty_array j a =>
    intro hseg
    obtain ⟨_, hb0, hseg1⟩ := seg_eq_cons buf pj j _ _ _ hseg
    obtain ⟨_, hb1, _⟩ := seg_eq_cons buf pj (j + 1) _ _ _ hseg1
    show _ = (List.range' j (1 + 1)).flatMap _
    rw [kinds_cons, kinds_one, position_kinds_bracket D buf len pj j (Or.inl hb0),
      position_kinds_bracket D buf len pj (j + 1) (Or.inr (Or.inl hb1)), hb0, hb1]
    rfl
  | array k ws j a es _ ih =>
    intro hseg
    obtain ⟨_, hb0, hseg1⟩ := seg_eq_cons buf pj j _ _ _ hseg
    obtain ⟨_, hseg2, hseg3⟩ := seg_eq_append buf pj (j + 1) _ _ _ hseg1
    have hb1 := (seg_eq_cons buf pj _ _ _ _ hseg3).2.1
    have e : (ch_lbracket :: (ws ++ [ch_rbracket])).length = (ws.length + 1) + 1 := by simp
    rw [e, kinds_cons, kinds_append, kinds_one, ← ih hseg2,
      position_kinds_bracket D buf len pj j (Or.inl hb0),
      position_kinds_bracket D buf len pj _ (Or.inr (Or.inl hb1)), hb0, hb1]
    simp
  | empty_object j a =>
    intro hseg
    obtain ⟨_, hb0, hseg1⟩ := seg_eq_cons buf pj j _ _ _ hseg
    obtain ⟨_, hb1, _⟩ := seg_eq_cons buf pj (j + 1) _ _ _ hseg1
    show _ = (List.range' j (1 + 1)).flatMap _
    rw [kinds_cons, kinds_one, position_kinds_bracket D buf len pj j (Or.inr (Or.inr (Or.inl hb0))),
      position_kinds_bracket D buf len pj (j + 1) (Or.inr (Or.inr (Or.inr hb1))), hb0, hb1]
    rfl
  | object k ws j a es _ ih =>
    intro hseg
    obtain ⟨_, hb0, hseg1⟩ := seg_eq_cons buf pj j _ _ _ hseg
    obtain ⟨_, hseg2, hseg3⟩ := seg_eq_append buf pj (j + 1) _ _ _ hseg1
    have hb1 := (seg_eq_cons buf pj _ _ _ _ hseg3).2.1
    have e : (ch_lbrace :: (ws ++ [ch_rbrace])).length = (ws.length + 1) + 1 := by simp
    rw [e, kinds_cons, kinds_append, kinds_one, ← ih hseg2,
      position_kinds_bracket D buf len pj j (Or.inr (Or.inr (Or.inl hb0))),
      position_kinds_bracket D buf len pj _ (Or.inr (Or.inr (Or.inr hb1))), hb0, hb1]
    simp
  | element k ws j a es _ ih => exact ih
  | elements k m ws ws1 j a es es1 _ _ ih ih1 =>
    intro hseg
    obtain ⟨_, hseg1, hseg2⟩ := seg_eq_append buf pj j _ _ _ hseg
    obtain ⟨_, hb1, hseg3⟩ := seg_eq_cons buf pj _ _ _ _ hseg2
    have e : (ws ++ ch_comma :: ws1).length = ws.length + (ws1.length + 1) := by
      simp
    have e1 : ws1.length + 1 = 1 + ws1.length := by omega
    rw [e, kinds_append, e1, kinds_append, kinds_one, ← ih hseg1, ← ih1 hseg3,
      position_kinds_separator D buf len pj _ (Or.inl hb1)]
    simp
  | member k ws j a es _ ih =>
    intro hseg
    obtain ⟨_, hb0, hseg1⟩ := seg_eq_cons buf pj j _ _ _ hseg
    obtain ⟨_, hb1, hseg2⟩ := seg_eq_cons buf pj _ _ _ _ hseg1
    have e : (ch_quote :: ch_colon :: ws).length = (ws.length + 1) + 1 := by simp
    have e1 : ws.length + 1 = 1 + ws.length := by omega
    have e2 : j + 1 + 1 = j + 2 := by omega
    rw [e, kinds_cons, e1, kinds_append, kinds_one, e2, ← ih hseg2,
      position_kinds_string D buf len pj j hb0,
      position_kinds_separator D buf len pj _ (Or.inr hb1)]
    simp
  | members k m ws ws1 j a es es1 _ _ ih ih1 =>
    intro hseg
    have hsplit : ch_quote :: ch_colon :: (ws ++ ch_comma :: ws1)
        = (ch_quote :: ch_colon :: ws) ++ ch_comma :: ws1 := by simp
    rw [hsplit] at hseg
    obtain ⟨_, hsegm, hseg2⟩ := seg_eq_append buf pj j _ _ _ hseg
    obtain ⟨_, hbc, hseg3⟩ := seg_eq_cons buf pj _ _ _ _ hseg2
    obtain ⟨_, hb0, hseg1⟩ := seg_eq_cons buf pj j _ _ _ hsegm
    obtain ⟨_, hb1, hsegv⟩ := seg_eq_cons buf pj _ _ _ _ hseg1
    simp only [List.length_cons] at hbc hseg3
    have e : (ch_quote :: ch_colon :: (ws ++ ch_comma :: ws1)).length
        = (1 + (ws.length + (1 + ws1.length))) + 1 := by
      simp; omega
    have e2 : j + 1 + 1 = j + 2 := by omega
    have e3 : j + 2 + ws.length = j + (ws.length + 1 + 1) := by omega
    have e4 : j + (ws.length + 1 + 1) + 1 = j + ws.length + 3 := by omega
    rw [e4] at hseg3
    rw [e, kinds_cons, kinds_append, kinds_one, e2, kinds_append, kinds_append, kinds_one, e3,
      ← ih hsegv, e4, ← ih1 hseg3, position_kinds_string D buf len pj j hb0,
      position_kinds_separator D buf len pj _ (Or.inr hb1),
      position_kinds_separator D buf len pj _ (Or.inl hbc)]
    simp

/-- The entries of a phrase obey the context grammar of the tape. -/
theorem emits_tape_spells {D : ScalarDecoders} {buf : Nat → Nat} {len : Nat} {pj : ParsedJson}
    {cat : Category} {k : Nat} {ws : List Nat} {j a : Nat} {es : List TapeEntry}
    (he : Emits D buf len pj cat k ws j a es) :
    seg buf pj j ws.length = ws → TapeSpells cat es := by
  induction he with
  | scalar c j a hs =>
    intro hseg
    have hb := (seg_eq_cons buf pj j _ c [] hseg).2.1
    rw [← hb] at hs
    rcases is_scalar_start_cases hs with h | h | h
    · rw [scalar_entries_string D buf len pj j h]; exact TapeSpells.string _
    · rw [scalar_entries_atom D buf len pj j h]; exact TapeSpells.atom _ h
    · rw [scalar_entries_number D buf len pj j h]; exact TapeSpells.number _ _
  | empty_array j a => exact fun _ => TapeSpells.empty_array _ _
  | array k ws j a es _ ih =>
    intro hseg
    obtain ⟨_, _, hseg1⟩ := seg_eq_cons buf pj j _ _ _ hseg
    obtain ⟨_, hseg2, _⟩ := seg_eq_append buf pj (j + 1) _ _ _ hseg1
    exact TapeSpells.array _ _ es (ih hseg2)
  | empty_object j a => exact fun _ => TapeSpells.empty_object _ _
  | object k ws j a es _ ih =>
    intro hseg
    obtain ⟨_, _, hseg1⟩ := seg_eq_cons buf pj j _ _ _ hseg
    obtain ⟨_, hseg2, _⟩ := seg_eq_append buf pj (j + 1) _ _ _ hseg1
    exact TapeSpells.object _ _ es (ih hseg2)
  | element k ws j a es _ ih => exact fun hseg => TapeSpells.element es (ih hseg)
  | elements k m ws ws1 j a es es1 _ _ ih ih1 =>
    intro hseg
    obtain ⟨_, hseg1, hseg2⟩ := seg_eq_append buf pj j _ _ _ hseg
    obtain ⟨_, _, hseg3⟩ := seg_eq_cons buf pj _ _ _ _ hseg2
    exact TapeSpells.elements es es1 (ih hseg1) (ih1 hseg3)
  | member k ws j a es _ ih =>
    intro hseg
    obtain ⟨_, _, hseg1⟩ := seg_eq_cons buf pj j _ _ _ hseg
    obtain ⟨_, _, hseg2⟩ := seg_eq_cons buf pj _ _ _ _ hseg1
    have e2 : j + 1 + 1 = j + 2 := by omega
    rw [e2] at hseg2
    exact TapeSpells.member _ es (ih hseg2)
  | members k m ws ws1 j a es es1 _ _ ih ih1 =>
    intro hseg
    have hsplit : ch_quote :: ch_colon :: (ws ++ ch_comma :: ws1)
        = (ch_quote :: ch_colon :: ws) ++ ch_comma :: ws1 := by simp
    rw [hsplit] at hseg
    obtain ⟨_, hsegm, hseg2⟩ := seg_eq_append buf pj j _ _ _ hseg
    obtain ⟨_, _, hseg3⟩ := seg_eq_cons buf pj _ _ _ _ hseg2
    obtain ⟨_, _, hseg1⟩ := seg_eq_cons buf pj j _ _ _ hsegm
    obtain ⟨_, _, hsegv⟩ := seg_eq_cons buf pj _ _ _ _ hseg1
    simp only [List.length_cons] at hseg3
    have e2 : j + 1 + 1 = j + 2 := by omega
    have e4 : j + (ws.length + 1 + 1) + 1 = j + ws.length + 3 := by omega
    rw [e2] at hsegv
    rw [e4] at hseg3
    exact TapeSpells.members _ es es1 (ih hsegv) (ih1 hseg3)

end simdjson

namespace simdjson
open StructuralParser

/-! ## Where the entries of the scalars stand on the tape -/

theorem getElem_lt_of_some {α : Type} {l : List α} {n : Nat} {a : α} (h : l[n]? = some a) :
    n < l.length := by
  by_contra hge
  rw [List.getElem?_eq_none (by omega)] at h
  exact absurd h (by simp)

theorem layout_left {es es1 : List TapeEntry} {o t : Nat} {e : TapeEntry}
    (h : es[o + t]? = some e) : (es ++ es1)[o + t]? = some e := by
  rw [List.getElem?_append_left (getElem_lt_of_some h)]
  exact h

theorem layout_right {es es1 : List TapeEntry} {o t : Nat} {e : TapeEntry}
    (h : es1[o + t]? = some e) : (es ++ es1)[es.length + o + t]? = some e := by
  rw [List.getElem?_append_right (by omega)]
  have : es.length + o + t - es.length = o + t := by omega
  rw [this]
  exact h

theorem layout_cons {es : List TapeEntry} {c : TapeEntry} {o t : Nat} {e : TapeEntry}
    (h : es[o + t]? = some e) : (c :: es)[1 + o + t]? = some e := by
  have : 1 + o + t = (o + t) + 1 := by omega
  rw [this, List.getElem?_cons_succ]
  exact h

theorem layout_none (D : ScalarDecoders) (buf : Nat → Nat) (len : Nat) (pj : ParsedJson)
    (es : List TapeEntry) (x a o : Nat) (hx : scalar_entries D buf len pj x = [])
    (h : tape_index buf pj x = a + o) :
    ∃ o, tape_index buf pj x = a + o ∧
      ∀ t e, (scalar_entries D buf len pj x)[t]? = some e → es[o + t]? = some e := by
  refine ⟨o, h, ?_⟩
  intro t e he
  rw [hx] at he
  simp at he

theorem scalar_entries_bracket (D : ScalarDecoders) (buf : Nat → Nat) (len : Nat)
    (pj : ParsedJson) (j : Nat)
    (h : structural_byte buf pj j = ch_lbracket ∨ structural_byte buf pj j = ch_rbracket ∨
      structural_byte buf pj j = ch_lbrace ∨ structural_byte buf pj j = ch_rbrace) :
    scalar_entries D buf len pj j = [] := by
  obtain ⟨h1, h2, h3, _, _⟩ := bracket_class h
  exact scalar_entries_other D buf len pj j h1 h2 h3

theorem scalar_entries_separator (D : ScalarDecoders) (buf : Nat → Nat) (len : Nat)
    (pj : ParsedJson) (j : Nat)
    (h : structural_byte buf pj j = ch_comma ∨ structural_byte buf pj j = ch_colon) :
    scalar_entries D buf len pj j = [] := by
  obtain ⟨h1, h2, h3⟩ := separator_class h
  exact scalar_entries_other D buf len pj j h1 h2 h3

/-- The entries of a phrase that starts at the tape index of its first structural end at
the tape index of the structural after it, and the entries of each scalar of the phrase
stand at the tape index of its position. -/
theorem emits_layout {D : ScalarDecoders} {buf : Nat → Nat} {len : Nat} {pj : ParsedJson}
    {cat : Category} {k : Nat} {ws : List Nat} {j a : Nat} {es : List TapeEntry}
    (he : Emits D buf len pj cat k ws j a es) :
    seg buf pj j ws.length = ws → a = tape_index buf pj j →
      tape_index buf pj (j + ws.length) = a + es.length ∧
      ∀ x, j ≤ x → x < j + ws.length → ∃ o, tape_index buf pj x = a + o ∧
        ∀ t e, (scalar_entries D buf len pj x)[t]? = some e → es[o + t]? = some e := by
  induction he with
  | scalar c j a hs =>
    intro hseg ha
    have hb := (seg_eq_cons buf pj j _ c [] hseg).2.1
    rw [← hb] at hs
    refine ⟨?_, ?_⟩
    · show tape_index buf pj (j + 1) = _
      rw [tape_index_succ, ← ha, entry_width_scalar D buf len pj j hs]
    · intro x h1 h2
      simp only [List.length_cons, List.length_nil] at h2
      have hx : x = j := by omega
      subst hx
      exact ⟨0, ha.symm, fun t e h => by simpa using h⟩
  | empty_array j a =>
    intro hseg ha
    obtain ⟨_, hb0, hseg1⟩ := seg_eq_cons buf pj j _ _ _ hseg
    obtain ⟨_, hb1, _⟩ := seg_eq_cons buf pj (j + 1) _ _ _ hseg1
    have w0 := entry_width_bracket buf pj j (Or.inl hb0)
    have w1 := entry_width_bracket buf pj (j + 1) (Or.inr (Or.inl hb1))
    have t1 : tape_index buf pj (j + 1) = a + 1 := by rw [tape_index_succ, w0, ha]
    refine ⟨?_, ?_⟩
    · show tape_index buf pj (j + 1 + 1) = a + 2
      rw [tape_index_succ, t1, w1]
    · intro x h1 h2
      simp only [List.length_cons, List.length_nil] at h2
      by_cases hx : x = j
      · subst hx
        exact layout_none D buf len pj _ x a 0
          (scalar_entries_bracket D buf len pj x (Or.inl hb0)) ha.symm
      · have hx1 : x = j + 1 := by omega
        subst hx1
        exact layout_none D buf len pj _ (j + 1) a 1
          (scalar_entries_bracket D buf len pj (j + 1) (Or.inr (Or.inl hb1))) t1
  | array k ws j a es _ ih =>
    intro hseg ha
    obtain ⟨_, hb0, hseg1⟩ := seg_eq_cons buf pj j _ _ _ hseg
    obtain ⟨_, hseg2, hseg3⟩ := seg_eq_append buf pj (j + 1) _ _ _ hseg1
    have hb1 := (seg_eq_cons buf pj _ _ _ _ hseg3).2.1
    have w0 := entry_width_bracket buf pj j (Or.inl hb0)
    have w1 := entry_width_bracket buf pj (j + 1 + ws.length) (Or.inr (Or.inl hb1))
    have t1 : tape_index buf pj (j + 1) = a + 1 := by rw [tape_index_succ, w0, ha]
    obtain ⟨i1, i2⟩ := ih hseg2 t1.symm
    have hl : (ch_lbracket :: (ws ++ [ch_rbracket])).length = ws.length + 1 + 1 := by simp
    refine ⟨?_, ?_⟩
    · have e : j + (ch_lbracket :: (ws ++ [ch_rbracket])).length = (j + 1 + ws.length) + 1 := by
        rw [hl]; omega
      rw [e, tape_index_succ, i1, w1]
      simp only [List.length_cons, List.length_append, List.length_nil]
      omega
    · intro x h1 h2
      rw [hl] at h2
      by_cases hx : x = j
      · subst hx
        exact layout_none D buf len pj _ x a 0
          (scalar_entries_bracket D buf len pj x (Or.inl hb0)) ha.symm
      · by_cases hx1 : x = j + 1 + ws.length
        · subst hx1
          exact layout_none D buf len pj _ _ a (1 + es.length)
            (scalar_entries_bracket D buf len pj _ (Or.inr (Or.inl hb1))) (by rw [i1]; omega)
        · obtain ⟨o, o1, o2⟩ := i2 x (by omega) (by omega)
          refine ⟨1 + o, by rw [o1]; omega, ?_⟩
          intro t e h
          exact layout_cons (layout_left (o2 t e h))
  | empty_object j a =>
    intro hseg ha
    obtain ⟨_, hb0, hseg1⟩ := seg_eq_cons buf pj j _ _ _ hseg
    obtain ⟨_, hb1, _⟩ := seg_eq_cons buf pj (j + 1) _ _ _ hseg1
    have w0 := entry_width_bracket buf pj j (Or.inr (Or.inr (Or.inl hb0)))
    have w1 := entry_width_bracket buf pj (j + 1) (Or.inr (Or.inr (Or.inr hb1)))
    have t1 : tape_index buf pj (j + 1) = a + 1 := by rw [tape_index_succ, w0, ha]
    refine ⟨?_, ?_⟩
    · show tape_index buf pj (j + 1 + 1) = a + 2
      rw [tape_index_succ, t1, w1]
    · intro x h1 h2
      simp only [List.length_cons, List.length_nil] at h2
      by_cases hx : x = j
      · subst hx
        exact layout_none D buf len pj _ x a 0
          (scalar_entries_bracket D buf len pj x (Or.inr (Or.inr (Or.inl hb0)))) ha.symm
      · have hx1 : x = j + 1 := by omega
        subst hx1
        exact layout_none D buf len pj _ (j + 1) a 1
          (scalar_entries_bracket D buf len pj (j + 1) (Or.inr (Or.inr (Or.inr hb1)))) t1
  | object k ws j a es _ ih =>
    intro hseg ha
    obtain ⟨_, hb0, hseg1⟩ := seg_eq_cons buf pj j _ _ _ hseg
    obtain ⟨_, hseg2, hseg3⟩ := seg_eq_append buf pj (j + 1) _ _ _ hseg1
    have hb1 := (seg_eq_cons buf pj _ _ _ _ hseg3).2.1
    have w0 := entry_width_bracket buf pj j (Or.inr (Or.inr (Or.inl hb0)))
    have w1 := entry_width_bracket buf pj (j + 1 + ws.length) (Or.inr (Or.inr (Or.inr hb1)))
    have t1 : tape_index buf pj (j + 1) = a + 1 := by rw [tape_index_succ, w0, ha]
    obtain ⟨i1, i2⟩ := ih hseg2 t1.symm
    have hl : (ch_lbrace :: (ws ++ [ch_rbrace])).length = ws.length + 1 + 1 := by simp
    refine ⟨?_, ?_⟩
    · have e : j + (ch_lbrace :: (ws ++ [ch_rbrace])).length = (j + 1 + ws.length) + 1 := by
        rw [hl]; omega
      rw [e, tape_index_succ, i1, w1]
      simp only [List.length_cons, List.length_append, List.length_nil]
      omega
    · intro x h1 h2
      rw [hl] at h2
      by_cases hx : x = j
      · subst hx
        exact layout_none D buf len pj _ x a 0
          (scalar_entries_bracket D buf len pj x (Or.inr (Or.inr (Or.inl hb0)))) ha.symm
      · by_cases hx1 : x = j + 1 + ws.length
        · subst hx1
          exact layout_none D buf len pj _ _ a (1 + es.length)
            (scalar_entries_bracket D buf len pj _ (Or.inr (Or.inr (Or.inr hb1))))
            (by rw [i1]; omega)
        · obtain ⟨o, o1, o2⟩ := i2 x (by omega) (by omega)
          refine ⟨1 + o, by rw [o1]; omega, ?_⟩
          intro t e h
          exact layout_cons (layout_left (o2 t e h))
  | element k ws j a es _ ih => exact ih
  | elements k m ws ws1 j a es es1 _ _ ih ih1 =>
    intro hseg ha
    obtain ⟨_, hseg1, hseg2⟩ := seg_eq_append buf pj j _ _ _ hseg
    obtain ⟨_, hb1, hseg3⟩ := seg_eq_cons buf pj _ _ _ _ hseg2
    obtain ⟨i1, i2⟩ := ih hseg1 ha
    have w1 := entry_width_separator buf pj (j + ws.length) (Or.inl hb1)
    have t1 : tape_index buf pj (j + ws.length + 1) = a + es.length := by
      rw [tape_index_succ, i1, w1]; rfl
    obtain ⟨k1, k2⟩ := ih1 hseg3 t1.symm
    have hl : (ws ++ ch_comma :: ws1).length = ws.length + 1 + ws1.length := by
      simp; omega
    refine ⟨?_, ?_⟩
    · have e : j + (ws ++ ch_comma :: ws1).length = j + ws.length + 1 + ws1.length := by
        rw [hl]; omega
      rw [e, k1, List.length_append]
      omega
    · intro x h1 h2
      rw [hl] at h2
      by_cases hx : x < j + ws.length
      · obtain ⟨o, o1, o2⟩ := i2 x h1 hx
        exact ⟨o, o1, fun t e h => layout_left (o2 t e h)⟩
      · by_cases hx1 : x = j + ws.length
        · subst hx1
          exact layout_none D buf len pj _ _ a es.length
            (scalar_entries_separator D buf len pj _ (Or.inl hb1)) i1
        · obtain ⟨o, o1, o2⟩ := k2 x (by omega) (by omega)
          refine ⟨es.length + o, by rw [o1]; omega, ?_⟩
          intro t e h
          exact layout_right (o2 t e h)
  | member k ws j a es _ ih =>
    intro hseg ha
    obtain ⟨_, hb0, hseg1⟩ := seg_eq_cons buf pj j _ _ _ hseg
    obtain ⟨_, hb1, hseg2⟩ := seg_eq_cons buf pj _ _ _ _ hseg1
    have w0 := entry_width_string buf pj j hb0
    have w1 := entry_width_separator buf pj (j + 1) (Or.inr hb1)
    have t1 : tape_index buf pj (j + 1) = a + 1 := by rw [tape_index_succ, w0, ha]
    have t2 : tape_index buf pj (j + 2) = a + 1 := by
      show tape_index buf pj (j + 1 + 1) = _
      rw [tape_index_succ, t1, w1]
    have e2 : j + 1 + 1 = j + 2 := by omega
    rw [e2] at hseg2
    obtain ⟨i1, i2⟩ := ih hseg2 t2.symm
    have hl : (ch_quote :: ch_colon :: ws).length = ws.length + 2 := by simp
    refine ⟨?_, ?_⟩
    · have e : j + (ch_quote :: ch_colon :: ws).length = j + 2 + ws.length := by
        rw [hl]; omega
      rw [e, i1, List.length_cons]
      omega
    · intro x h1 h2
      rw [hl] at h2
      by_cases hx : x = j
      · subst hx
        refine ⟨0, ha.symm, ?_⟩
        intro t e h
        rw [scalar_entries_string D buf len pj x hb0] at h
        cases t with
        | zero => simpa using h
        | succ t => simp at h
      · by_cases hx1 : x = j + 1
        · subst hx1
          exact layout_none D buf len pj _ _ a 1
            (scalar_entries_separator D buf len pj _ (Or.inr hb1)) t1
        · obtain ⟨o, o1, o2⟩ := i2 x (by omega) (by omega)
          refine ⟨1 + o, by rw [o1]; omega, ?_⟩
          intro t e h
          exact layout_cons (o2 t e h)
  | members k m ws ws1 j a es es1 _ _ ih ih1 =>
    intro hseg ha
    have hsplit : ch_quote :: ch_colon :: (ws ++ ch_comma :: ws1)
        = (ch_quote :: ch_colon :: ws) ++ ch_comma :: ws1 := by simp
    rw [hsplit] at hseg
    obtain ⟨_, hsegm, hseg2⟩ := seg_eq_append buf pj j _ _ _ hseg
    obtain ⟨_, hbc, hseg3⟩ := seg_eq_cons buf pj _ _ _ _ hseg2
    obtain ⟨_, hb0, hseg1⟩ := seg_eq_cons buf pj j _ _ _ hsegm
    obtain ⟨_, hb1, hsegv⟩ := seg_eq_cons buf pj _ _ _ _ hseg1
    simp only [List.length_cons] at hbc hseg3
    have e2 : j + 1 + 1 = j + 2 := by omega
    have e3 : j + (ws.length + 1 + 1) = j + 2 + ws.length := by omega
    have e4 : j + (ws.length + 1 + 1) + 1 = j + ws.length + 3 := by omega
    rw [e2] at hsegv
    rw [e3] at hbc
    rw [e4] at hseg3
    have w0 := entry_width_string buf pj j hb0
    have w1 := entry_width_separator buf pj (j + 1) (Or.inr hb1)
    have wc := entry_width_separator buf pj (j + 2 + ws.length) (Or.inl hbc)
    have t1 : tape_index buf pj (j + 1) = a + 1 := by rw [tape_index_succ, w0, ha]
    have t2 : tape_index buf pj (j + 2) = a + 1 := by
      show tape_index buf pj (j + 1 + 1) = _
      rw [tape_index_succ, t1, w1]
    obtain ⟨i1, i2⟩ := ih hsegv t2.symm
    have t3 : tape_index buf pj (j + ws.length + 3) = a + 1 + es.length := by
      have : j + ws.length + 3 = (j + 2 + ws.length) + 1 := by omega
      rw [this, tape_index_succ, i1, wc]; rfl
    obtain ⟨k1, k2⟩ := ih1 hseg3 t3.symm
    have hl : (ch_quote :: ch_colon :: (ws ++ ch_comma :: ws1)).length
        = ws.length + 3 + ws1.length := by
      simp; omega
    refine ⟨?_, ?_⟩
    · have e : j + (ch_quote :: ch_colon :: (ws ++ ch_comma :: ws1)).length
          = j + ws.length + 3 + ws1.length := by
        rw [hl]; omega
      rw [e, k1, List.length_cons, List.length_append]
      omega
    · intro x h1 h2
      rw [hl] at h2
      by_cases hx : x = j
      · subst hx
        refine ⟨0, ha.symm, ?_⟩
        intro t e h
        rw [scalar_entries_string D buf len pj x hb0] at h
        cases t with
        | zero => simpa using h
        | succ t => simp at h
      · by_cases hx1 : x = j + 1
        · subst hx1
          exact layout_none D buf len pj _ _ a 1
            (scalar_entries_separator D buf len pj _ (Or.inr hb1)) t1
        · by_cases hx2 : x < j + 2 + ws.length
          · obtain ⟨o, o1, o2⟩ := i2 x (by omega) hx2
            refine ⟨1 + o, by rw [o1]; omega, ?_⟩
            intro t e h
            exact layout_cons (layout_left (o2 t e h))
          · by_cases hx3 : x = j + 2 + ws.length
            · subst hx3
              exact layout_none D buf len pj _ _ a (1 + es.length)
                (scalar_entries_separator D buf len pj _ (Or.inl hbc)) (by rw [i1]; omega)
            · obtain ⟨o, o1, o2⟩ := k2 x (by omega) (by omega)
              refine ⟨1 + (es.length + o), by rw [o1]; omega, ?_⟩
              intro t e h
              have h3 : (es ++ es1)[es.length + o + t]? = some e := layout_right (o2 t e h)
              have e5 : 1 + (es.length + o) + t = (es.length + o + t) + 1 := by omega
              rw [e5, List.getElem?_cons_succ]
              exact h3

/-- On the tape of an accepted document the entries of every scalar stand at the tape
index of its position, and the tape ends one entry after the index of the sentinel. -/
theorem accepted_layout (D : ScalarDecoders) (buf : Nat → Nat) (len : Nat) (pj : ParsedJson)
    (hlen : ∀ x, x + 1 < pj.n_structural_indexes → structural_byte buf pj x = ch_quote →
      (string_bytes_at D buf pj x).length < 4294967296)
    (h : (unified_machine D buf len pj).outcome = .returned .SUCCESS) :
    (unified_machine D buf len pj).pj.current_loc
      = tape_index buf pj (pj.n_structural_indexes - 1) + 1 ∧
    ∀ x, x + 1 < pj.n_structural_indexes →
      ∀ t e, (scalar_entries D buf len pj x)[t]? = some e →
        (unified_machine D buf len pj).pj.tape (tape_index buf pj x + t) = e := by
  obtain ⟨k, es, he, _, r2, _, r4, _, _⟩ := accepted_emits D buf len pj hlen h
  have hbl : (structural_bytes buf pj).length = pj.n_structural_indexes - 1 := by
    simp [structural_bytes]
  have hseg : seg buf pj 0 (structural_bytes buf pj).length = structural_bytes buf pj := by
    rw [hbl, structural_bytes_eq_seg]
  obtain ⟨i1, i2⟩ := emits_layout he hseg rfl
  rw [hbl, Nat.zero_add] at i1
  refine ⟨by rw [r2, i1]; omega, ?_⟩
  intro x hx t e hse
  obtain ⟨o, o1, o2⟩ := i2 x (by omega) (by rw [hbl]; omega)
  have := r4 (o + t) e (o2 t e hse)
  rw [o1]
  rw [← this]
  congr 1
  omega

end simdjson

namespace simdjson
open StructuralParser

/-! ## Two runs on workspaces that hold the same document -/

theorem same_control_refl (p : StructuralParser) : SameControl p p :=
  ⟨rfl, rfl, rfl, rfl, rfl, rfl, rfl, rfl, rfl, rfl, fun _ _ => rfl, fun _ _ => rfl⟩

theorem sim_read (buf : Nat → Nat) {p q : StructuralParser} (h : SameControl p q) :
    SameControl (p.read_next buf) (q.read_next buf) := by
  obtain ⟨h1, h2, h3, h4, h5, h6, h7, h8, h9, h10, h11, h12⟩ := h
  refine ⟨h1, ?_, ?_, ?_, h5, ?_, h7, h8, h9, h10, h11, h12⟩
  · show q.i + 1 = p.i + 1
    rw [h2]
  · show q.pj.structural_indexes q.i = p.pj.structural_indexes p.i
    rw [h7, h2]
  · show buf (q.pj.structural_indexes q.i) = buf (p.pj.structural_indexes p.i)
    rw [h7, h2]
  · show q.log ++ [Event.read q.i (q.pj.structural_indexes q.i)]
      = p.log ++ [Event.read p.i (p.pj.structural_indexes p.i)]
    rw [h6, h7, h2]

theorem sim_write_string {p q : StructuralParser} (h : SameControl p q) :
    SameControl p.write_string q.write_string := by
  obtain ⟨h1, h2, h3, h4, h5, h6, h7, h8, h9, h10, h11, h12⟩ := h
  exact ⟨h1, h2, h3, h4, h5, h6, h7, h8, h9,
    by show q.pj.current_loc + 1 = p.pj.current_loc + 1; rw [h10], h11, h12⟩

theorem sim_write_atom {p q : StructuralParser} (h : SameControl p q) :
    SameControl p.write_atom q.write_atom := by
  obtain ⟨h1, h2, h3, h4, h5, h6, h7, h8, h9, h10, h11, h12⟩ := h
  exact ⟨h1, h2, h3, h4, h5, h6, h7, h8, h9,
    by show q.pj.current_loc + 1 = p.pj.current_loc + 1; rw [h10], h11, h12⟩

theorem sim_write_number {p q : StructuralParser} (h : SameControl p q) :
    SameControl p.write_number q.write_number := by
  obtain ⟨h1, h2, h3, h4, h5, h6, h7, h8, h9, h10, h11, h12⟩ := h
  exact ⟨h1, h2, h3, h4, h5, h6, h7, h8, h9,
    by show q.pj.current_loc + 1 + 1 = p.pj.current_loc + 1 + 1; rw [h10], h11, h12⟩

theorem sim_push {p q : StructuralParser} (h : SameControl p q) (k : ret_address) :
    (q.push_scope k).1 = (p.push_scope k).1 ∧
      SameControl (p.push_scope k).2 (q.push_scope k).2 := by
  obtain ⟨h1, h2, h3, h4, h5, h6, h7, h8, h9, h10, h11, h12⟩ := h
  refine ⟨?_, h1, h2, h3, h4, ?_, ?_, h7, h8, h9, ?_, ?_, ?_⟩
  · show decide (q.depth + 1 ≥ q.pj.depth_capacity) = decide (p.depth + 1 ≥ p.pj.depth_capacity)
    rw [h5, h9]
  · show q.depth + 1 = p.depth + 1
    rw [h5]
  · show q.log ++ [Event.push q.depth q.pj.current_loc]
      = p.log ++ [Event.push p.depth p.pj.current_loc]
    rw [h6, h5, h10]
  · show q.pj.current_loc + 1 = p.pj.current_loc + 1
    rw [h10]
  · intro x hx
    rw [push_scope_ret, push_scope_ret, h5]
    by_cases hxd : x = p.depth
    · rw [hxd, Function.update_same, Function.update_same]
    · rw [Function.update_noteq hxd, Function.update_noteq hxd]
      exact h11 x (by rw [push_scope_depth] at hx; omega)
  · intro x hx
    rw [push_scope_cso, push_scope_cso, h5, h10]
    by_cases hxd : x = p.depth
    · rw [hxd, Function.update_same, Function.update_same]
    · rw [Function.update_noteq hxd, Function.update_noteq hxd]
      exact h12 x (by rw [push_scope_depth] at hx; omega)

theorem sim_pop {p q : StructuralParser} (h : SameControl p q) (hd : 1 ≤ p.depth) :
    q.pop_scope.1 = p.pop_scope.1 ∧ SameControl p.pop_scope.2 q.pop_scope.2 := by
  obtain ⟨h1, h2, h3, h4, h5, h6, h7, h8, h9, h10, h11, h12⟩ := h
  refine ⟨?_, h1, h2, h3, h4, ?_, ?_, h7, h8, h9, ?_, ?_, ?_⟩
  · show q.pj.ret_address (q.depth - 1) = p.pj.ret_address (p.depth - 1)
    rw [h5]
    exact h11 _ (by omega)
  · show q.depth - 1 = p.depth - 1
    rw [h5]
  · show q.log ++ [Event.pop (q.depth - 1) (q.pj.containing_scope_offset (q.depth - 1))
        q.pj.current_loc]
      = p.log ++ [Event.pop (p.depth - 1) (p.pj.containing_scope_offset (p.depth - 1))
        p.pj.current_loc]
    rw [h6, h5, h10, h12 _ (by omega)]
  · show q.pj.current_loc + 1 = p.pj.current_loc + 1
    rw [h10]
  · intro x hx
    rw [pop_scope_ret, pop_scope_ret]
    exact h11 x (by rw [pop_scope_depth] at hx; omega)
  · intro x hx
    rw [pop_scope_cso, pop_scope_cso]
    exact h12 x (by rw [pop_scope_depth] at hx; omega)

theorem parse_value_brace (p : StructuralParser) (k : ret_address) (h : p.c = ch_lbrace) :
    p.parse_value k
      = (if (p.push_scope k).1 then ret_address.error else ret_address.object_begin,
          (p.push_scope k).2) := by
  have h1 : ¬ p.c = ch_quote := by rw [h]; decide
  have h2 : is_atom_start p.c = false := by rw [h]; decide
  have h3 : is_number_start p.c = false := by rw [h]; decide
  simp only [parse_value, h1, h2, h3, if_false, Bool.false_eq_true]
  rw [if_pos h]
  split <;> rfl

theorem parse_value_bracket (p : StructuralParser) (k : ret_address) (h : p.c = ch_lbracket) :
    p.parse_value k
      = (if (p.push_scope k).1 then ret_address.error else ret_address.array_begin,
          (p.push_scope k).2) := by
  have h1 : ¬ p.c = ch_quote := by rw [h]; decide
  have h2 : is_atom_start p.c = false := by rw [h]; decide
  have h3 : is_number_start p.c = false := by rw [h]; decide
  have h4 : ¬ p.c = ch_lbrace := by rw [h]; decide
  simp only [parse_value, h1, h2, h3, h4, if_false, Bool.false_eq_true]
  rw [if_pos h]
  split <;> rfl

theorem parse_value_reject (p : StructuralParser) (k : ret_address) (h1 : ¬ p.c = ch_quote)
    (h2 : ¬ is_atom_start p.c = true) (h3 : ¬ is_number_start p.c = true)
    (h4 : ¬ p.c = ch_lbrace) (h5 : ¬ p.c = ch_lbracket) :
    p.parse_value k = (ret_address.error, p) := by
  simp [parse_value, h1, h2, h3, h4, h5]

theorem sim_parse_value {p q : StructuralParser} (h : SameControl p q) (k : ret_address) :
    (q.parse_value k).1 = (p.parse_value k).1 ∧
      SameControl (p.parse_value k).2 (q.parse_value k).2 := by
  have hc : q.c = p.c := h.2.2.2.1
  by_cases h1 : p.c = ch_quote
  · rw [parse_value_string p k h1, parse_value_string q k (by rw [hc]; exact h1)]
    exact ⟨rfl, sim_write_string h⟩
  by_cases h2 : is_atom_start p.c = true
  · rw [parse_value_atom p k h2, parse_value_atom q k (by rw [hc]; exact h2)]
    exact ⟨rfl, sim_write_atom h⟩
  by_cases h3 : is_number_start p.c = true
  · rw [parse_value_number p k h3, parse_value_number q k (by rw [hc]; exact h3)]
    exact ⟨rfl, sim_write_number h⟩
  by_cases h4 : p.c = ch_lbrace
  · rw [parse_value_brace p k h4, parse_value_brace q k (by rw [hc]; exact h4)]
    obtain ⟨e, s⟩ := sim_push h k
    exact ⟨by show (if (q.push_scope k).1 then _ else _) = (if (p.push_scope k).1 then _ else _)
              rw [e], s⟩
  by_cases h5 : p.c = ch_lbracket
  · rw [parse_value_bracket p k h5, parse_value_bracket q k (by rw [hc]; exact h5)]
    obtain ⟨e, s⟩ := sim_push h k
    exact ⟨by show (if (q.push_scope k).1 then _ else _) = (if (p.push_scope k).1 then _ else _)
              rw [e], s⟩
  · rw [parse_value_reject p k h1 h2 h3 h4 h5,
      parse_value_reject q k (by rw [hc]; exact h1) (by rw [hc]; exact h2)
        (by rw [hc]; exact h3) (by rw [hc]; exact h4) (by rw [hc]; exact h5)]
    exact ⟨rfl, h⟩

theorem sim_goto_parse_value {p q : StructuralParser} (h : SameControl p q) (k : ret_address) :
    (GOTO (q.parse_value k).1, (q.parse_value k).2).1 = (GOTO (p.parse_value k).1, (p.parse_value k).2).1 ∧
      SameControl (GOTO (p.parse_value k).1, (p.parse_value k).2).2
        (GOTO (q.parse_value k).1, (q.parse_value k).2).2 := by
  obtain ⟨e, s⟩ := sim_parse_value h k
  exact ⟨by show GOTO _ = GOTO _; rw [e], s⟩

/-- One transition of two runs that agree on the control state: they take the same
jump and still agree. -/
theorem step_sim (buf : Nat → Nat) (L : Label) (p q : StructuralParser)
    (hinv : WalkInv (L, p)) (h : SameControl p q) :
    (step buf (L, q)).1 = (step buf (L, p)).1 ∧
      SameControl (step buf (L, p)).2 (step buf (L, q)).2 := by
  have hi : q.i = p.i := h.2.1
  have hn : q.pj.n_structural_indexes = p.pj.n_structural_indexes := h.2.2.2.2.2.2.2.1
  have hb : ∀ x, structural_byte buf q.pj x = structural_byte buf p.pj x := by
    intro x
    simp only [structural_byte, h.2.2.2.2.2.2.1]
  have hb0 := hb p.i
  have hb1 := hb (p.i + 1)
  cases L with
  | finish => rw [step_terminal buf .finish p rfl, step_terminal buf .finish q rfl]; exact ⟨rfl, h⟩
  | error => rw [step_terminal buf .error p rfl, step_terminal buf .error q rfl]; exact ⟨rfl, h⟩
  | overrun =>
    rw [step_terminal buf .overrun p rfl, step_terminal buf .overrun q rfl]; exact ⟨rfl, h⟩
  | scope_end =>
    have hd : 1 ≤ p.depth := by
      have := hinv.2
      show 1 ≤ p.depth
      have h2 : 2 ≤ p.depth := this
      omega
    rw [step_scope_end, step_scope_end]
    obtain ⟨e, s⟩ := sim_pop h hd
    exact ⟨by show GOTO _ = GOTO _; rw [e], s⟩
  | main_array_switch =>
    rw [step_main_array_switch, step_main_array_switch]
    exact sim_goto_parse_value h _
  | object_begin =>
    rcases step_object_begin buf p with ⟨a1, e⟩ | ⟨a1, a2, e⟩ | ⟨a1, a2, e⟩ | ⟨a1, a2, a3, e⟩ <;>
    rcases step_object_begin buf q with ⟨b1, e1⟩ | ⟨b1, b2, e1⟩ | ⟨b1, b2, e1⟩ |
      ⟨b1, b2, b3, e1⟩ <;>
    rw [e, e1] <;>
    first
    | exact ⟨rfl, h⟩
    | exact ⟨rfl, sim_read buf h⟩
    | exact ⟨rfl, sim_write_string (sim_read buf h)⟩
    | (exfalso
       simp only [hi, hn, hb0, hb1, ch_quote, ch_rbrace, ch_colon, ch_comma, ch_rbracket] at *
       omega)
  | object_key_state =>
    rcases step_object_key_state buf p with ⟨a1, e⟩ | ⟨a1, a2, e⟩ | ⟨a1, a2, a3, e⟩ |
      ⟨a1, a2, e⟩ <;>
    rcases step_object_key_state buf q with ⟨b1, e1⟩ | ⟨b1, b2, e1⟩ | ⟨b1, b2, b3, e1⟩ |
      ⟨b1, b2, e1⟩ <;>
    rw [e, e1] <;>
    first
    | exact ⟨rfl, h⟩
    | exact ⟨rfl, sim_read buf h⟩
    | exact sim_goto_parse_value (sim_read buf (sim_read buf h)) _
    | (exfalso
       simp only [hi, hn, hb0, hb1, ch_quote, ch_rbrace, ch_colon, ch_comma, ch_rbracket] at *
       omega)
  | object_continue =>
    rcases step_object_continue buf p with ⟨a1, e⟩ | ⟨a1, a2, e⟩ | ⟨a1, a2, a3, e⟩ |
      ⟨a1, a2, a3, e⟩ | ⟨a1, a2, a3, e⟩ | ⟨a1, a2, a3, e⟩ <;>
    rcases step_object_continue buf q with ⟨b1, e1⟩ | ⟨b1, b2, e1⟩ | ⟨b1, b2, b3, e1⟩ |
      ⟨b1, b2, b3, e1⟩ | ⟨b1, b2, b3, e1⟩ | ⟨b1, b2, b3, e1⟩ <;>
    rw [e, e1] <;>
    first
    | exact ⟨rfl, h⟩
    | exact ⟨rfl, sim_read buf h⟩
    | exact ⟨rfl, sim_read buf (sim_read buf h)⟩
    | exact ⟨rfl, sim_write_string (sim_read buf (sim_read buf h))⟩
    | (exfalso
       simp only [hi, hn, hb0, hb1, ch_quote, ch_rbrace, ch_colon, ch_comma, ch_rbracket] at *
       omega)
  | array_begin =>
    rcases step_array_begin buf p with ⟨a1, e⟩ | ⟨a1, a2, e⟩ | ⟨a1, a2, e⟩ <;>
    rcases step_array_begin buf q with ⟨b1, e1⟩ | ⟨b1, b2, e1⟩ | ⟨b1, b2, e1⟩ <;>
    rw [e, e1] <;>
    first
    | exact ⟨rfl, h⟩
    | exact ⟨rfl, sim_read buf h⟩
    | (exfalso
       simp only [hi, hn, hb0, hb1, ch_quote, ch_rbrace, ch_colon, ch_comma, ch_rbracket] at *
       omega)
  | array_continue =>
    rcases step_array_continue buf p with ⟨a1, e⟩ | ⟨a1, a2, e⟩ | ⟨a1, a2, a3, e⟩ |
      ⟨a1, a2, e⟩ | ⟨a1, a2, a3, e⟩ <;>
    rcases step_array_continue buf q with ⟨b1, e1⟩ | ⟨b1, b2, e1⟩ | ⟨b1, b2, b3, e1⟩ |
      ⟨b1, b2, e1⟩ | ⟨b1, b2, b3, e1⟩ <;>
    rw [e, e1] <;>
    first
    | exact ⟨rfl, h⟩
    | exact ⟨rfl, sim_read buf h⟩
    | exact ⟨rfl, sim_read buf (sim_read buf h)⟩
    | (exfalso
       simp only [hi, hn, hb0, hb1, ch_quote, ch_rbrace, ch_colon, ch_comma, ch_rbracket] at *
       omega)

/-- The same for a whole walk. -/
theorem walk_sim (buf : Nat → Nat) (t : Nat) (cfg cfg1 : Label × StructuralParser)
    (hinv : WalkInv cfg) (hl : cfg1.1 = cfg.1) (h : SameControl cfg.2 cfg1.2) :
    (walk buf t cfg1).1 = (walk buf t cfg).1 ∧
      SameControl (walk buf t cfg).2 (walk buf t cfg1).2 := by
  induction t generalizing cfg cfg1 with
  | zero => exact ⟨hl, h⟩
  | succ t ih =>
    rw [walk_succ, walk_succ]
    obtain ⟨L, p⟩ := cfg
    obtain ⟨L1, q⟩ := cfg1
    have hl1 : L1 = L := hl
    subst hl1
    obtain ⟨e, s⟩ := step_sim buf L1 p q hinv h
    exact ih _ _ (step_inv buf _ hinv) e s

theorem finish_code (p : StructuralParser) :
    p.finish.1 = .SUCCESS ∨ p.finish.1 = .TAPE_ERROR := by
  unfold finish
  split
  · right; rfl
  · simp only
    split
    · right; rfl
    · split
      · right; rfl
      · left; rfl

theorem sim_finish {p q : StructuralParser} (h : SameControl p q) (hd : 1 ≤ p.depth) :
    q.finish.1 = p.finish.1 := by
  obtain ⟨h1, h2, h3, h4, h5, h6, h7, h8, h9, h10, h11, h12⟩ := h
  have hiff : q.finish.1 = .SUCCESS ↔ p.finish.1 = .SUCCESS := by
    rw [finish_success, finish_success, h2, h8, h5, h12 (p.depth - 1) (by omega)]
  rcases finish_code p with hp | hp
  · rw [hp, hiff.2 hp]
  · rcases finish_code q with hq | hq
    · have := hiff.1 hq
      rw [hp] at this
      exact absurd this (by decide)
    · rw [hp, hq]

theorem error_code_eq (p : StructuralParser) :
    p.error.1 = if p.depth ≥ p.pj.depth_capacity then .DEPTH_ERROR
      else if p.c = ch_quote then .STRING_ERROR
      else if is_number_start p.c then .NUMBER_ERROR
      else if p.c = ch_t then .T_ATOM_ERROR
      else if p.c = ch_n then .N_ATOM_ERROR
      else if p.c = ch_f then .F_ATOM_ERROR
      else .TAPE_ERROR := by
  unfold StructuralParser.error
  repeat' split
  all_goals rfl

theorem sim_error {p q : StructuralParser} (h : SameControl p q) : q.error.1 = p.error.1 := by
  obtain ⟨h1, h2, h3, h4, h5, h6, h7, h8, h9, h10, h11, h12⟩ := h
  rw [error_code_eq, error_code_eq, h5, h9, h4]

theorem sim_conclude (cfg cfg1 : Label × StructuralParser) (hinv : WalkInv cfg)
    (hl : cfg1.1 = cfg.1) (h : SameControl cfg.2 cfg1.2) :
    (conclude cfg1).outcome = (conclude cfg).outcome ∧ (conclude cfg1).log = (conclude cfg).log := by
  refine ⟨?_, by rw [conclude_log, conclude_log]; exact h.2.2.2.2.2.1⟩
  obtain ⟨L, p⟩ := cfg
  obtain ⟨L1, q⟩ := cfg1
  have hl1 : L1 = L := hl
  subst hl1
  have hs : SameControl p q := h
  cases L1 with
  | finish =>
    have hd : p.depth = 1 := hinv.2
    show Outcome.returned q.finish.1 = Outcome.returned p.finish.1
    rw [sim_finish hs (by omega)]
  | error =>
    show Outcome.returned q.error.1 = Outcome.returned p.error.1
    rw [sim_error hs]
  | overrun => rfl
  | scope_end => rfl
  | main_array_switch => rfl
  | object_begin => rfl
  | object_key_state => rfl
  | object_continue => rfl
  | array_begin => rfl
  | array_continue => rfl

theorem sim_walk_start (buf : Nat → Nat) (len : Nat) (pjw pjw1 : ParsedJson)
    (h0 : pjw.current_loc = 0) (h1 : pjw1.current_loc = 0)
    (hsi : pjw1.structural_indexes = pjw.structural_indexes)
    (hn : pjw1.n_structural_indexes = pjw.n_structural_indexes)
    (hc : pjw1.depth_capacity = pjw.depth_capacity) :
    SameControl (walk_start buf len pjw) (walk_start buf len pjw1) := by
  refine ⟨rfl, rfl, ?_, ?_, rfl, ?_, hsi, hn, hc, ?_, ?_, ?_⟩
  · show pjw1.structural_indexes 0 = pjw.structural_indexes 0
    rw [hsi]
  · show buf (pjw1.structural_indexes 0) = buf (pjw.structural_indexes 0)
    rw [hsi]
  · show [] ++ [Event.read 0 (pjw1.structural_indexes 0)] ++ [Event.push 0 pjw1.current_loc]
      = [] ++ [Event.read 0 (pjw.structural_indexes 0)] ++ [Event.push 0 pjw.current_loc]
    rw [hsi, h0, h1]
  · show pjw1.current_loc + 1 = pjw.current_loc + 1
    rw [h0, h1]
  · intro x hx
    have hx0 : x = 0 := by
      have : (walk_start buf len pjw).depth = 1 := rfl
      omega
    subst hx0
    rfl
  · intro x hx
    have hx0 : x = 0 := by
      have : (walk_start buf len pjw).depth = 1 := rfl
      omega
    subst hx0
    show Function.update pjw1.containing_scope_offset 0 pjw1.current_loc 0
      = Function.update pjw.containing_scope_offset 0 pjw.current_loc 0
    rw [Function.update_same, Function.update_same, h0, h1]

/-- The second half of `unified_machine` on two workspaces that hold the same document
ends in the same way, with the same ghost record. -/
theorem sim_parse_structurals (buf : Nat → Nat) (len : Nat) (pjw pjw1 : ParsedJson)
    (h0 : pjw.current_loc = 0) (h1 : pjw1.current_loc = 0)
    (hsi : pjw1.structural_indexes = pjw.structural_indexes)
    (hn : pjw1.n_structural_indexes = pjw.n_structural_indexes)
    (hc : pjw1.depth_capacity = pjw.depth_capacity) :
    (parse_structurals buf len pjw1).outcome = (parse_structurals buf len pjw).outcome ∧
    (parse_structurals buf len pjw1).log = (parse_structurals buf len pjw).log := by
  by_cases hz : pjw.n_structural_indexes = 0
  · rw [parse_structurals_empty buf len pjw hz,
      parse_structurals_empty buf len pjw1 (by rw [hn]; exact hz)]
    exact ⟨rfl, rfl⟩
  · rw [parse_structurals_eq buf len pjw (by omega),
      parse_structurals_eq buf len pjw1 (by rw [hn]; omega)]
    have hs := sim_walk_start buf len pjw pjw1 h0 h1 hsi hn hc
    by_cases hd : pjw.depth_capacity ≤ 1
    · rw [if_pos hd, if_pos (by rw [hc]; exact hd)]
      exact ⟨rfl, hs.2.2.2.2.2.1⟩
    · rw [if_neg hd, if_neg (by rw [hc]; exact hd)]
      have hfv : (first_value (walk_start buf len pjw1)).1
            = (first_value (walk_start buf len pjw)).1 ∧
          SameControl (first_value (walk_start buf len pjw)).2
            (first_value (walk_start buf len pjw1)).2 := by
        rw [first_value_eq, first_value_eq]
        exact sim_goto_parse_value hs _
      have hfuel : walk_fuel pjw1 = walk_fuel pjw := by
        simp [walk_fuel, hn]
      rw [hfuel]
      have hinv := walk_inv_first buf len pjw h0 (by omega)
      obtain ⟨e, s⟩ := walk_sim buf (walk_fuel pjw) _ _ hinv hfv.1 hfv.2
      exact sim_conclude _ _ (walk_inv buf _ _ hinv) e s

end simdjson

namespace simdjson
open StructuralParser

/-! ## The pre-pass and the whole machine on two workspaces for the same document -/

theorem foldl_sim {α β : Type} (f : β → α → β) (R : β → β → Prop)
    (hstep : ∀ b b1 a, R b b1 → R (f b a) (f b1 a)) (l : List α) :
    ∀ b b1, R b b1 → R (l.foldl f b) (l.foldl f b1) := by
  induction l with
  | nil => exact fun _ _ h => h
  | cons a l ih => exact fun b b1 h => ih _ _ (hstep b b1 a h)

theorem had_error_result_fst_eq (b : Bool) (pj : ParsedJson) (code : ErrorValues) :
    (had_error_result b pj code).1 = if b then code else .SUCCESS := by
  unfold had_error_result
  cases b <;> rfl

theorem parse_string_same (D : ScalarDecoders) (buf : Nat → Nat) (idx : Nat)
    (pj1 pj2 : ParsedJson) (hsi : pj2.structural_indexes = pj1.structural_indexes) :
    (parse_string D buf idx pj2).1 = (parse_string D buf idx pj1).1 ∧
    (parse_string D buf idx pj2).2.structural_indexes
      = (parse_string D buf idx pj1).2.structural_indexes := by
  unfold parse_string
  cases D.parse_string buf idx <;> exact ⟨rfl, hsi⟩

theorem parse_number_same (D : ScalarDecoders) (src : Nat → Nat) (idx : Nat) (neg : Bool)
    (pj1 pj2 : ParsedJson) (hsi : pj2.structural_indexes = pj1.structural_indexes) :
    (parse_number D src pj2 idx neg).1 = (parse_number D src pj1 idx neg).1 ∧
    (parse_number D src pj2 idx neg).2.structural_indexes
      = (parse_number D src pj1 idx neg).2.structural_indexes := by
  unfold parse_number
  cases D.parse_number src idx neg <;> exact ⟨rfl, hsi⟩

theorem parse_strings_same (D : ScalarDecoders) (buf : Nat → Nat) (pj1 pj2 : ParsedJson)
    (i : Nat) (hsi : pj2.structural_indexes = pj1.structural_indexes)
    (hn : pj2.n_structural_indexes = pj1.n_structural_indexes) :
    (parse_strings D buf pj2 i).1 = (parse_strings D buf pj1 i).1 := by
  unfold parse_strings
  rw [had_error_result_fst_eq, had_error_result_fst_eq, hn]
  have := foldl_sim (parse_strings_body D buf)
    (fun st st1 => st1.1 = st.1 ∧ st1.2.structural_indexes = st.2.structural_indexes)
    (by
      intro st st1 a h
      obtain ⟨e1, e2⟩ := h
      unfold parse_strings_body
      rw [e2]
      obtain ⟨s1, s2⟩ := parse_string_same D buf (st.2.structural_indexes a) st.2 st1.2 e2
      split
      · exact ⟨by rw [e1, s1], s2⟩
      · exact ⟨e1, e2⟩)
    (List.range' i (pj1.n_structural_indexes - 1 - i)) (false, pj1) (false, pj2) ⟨rfl, hsi⟩
  rw [this.1]

theorem parse_numbers_switch_same (D : ScalarDecoders) (buf : Nat → Nat) (idx : Nat)
    (pj1 pj2 : ParsedJson) (hsi : pj2.structural_indexes = pj1.structural_indexes) :
    (parse_numbers_switch D buf pj2 idx).1 = (parse_numbers_switch D buf pj1 idx).1 ∧
    (parse_numbers_switch D buf pj2 idx).2.structural_indexes
      = (parse_numbers_switch D buf pj1 idx).2.structural_indexes := by
  unfold parse_numbers_switch
  split
  · obtain ⟨s1, s2⟩ := parse_number_same D buf idx false pj1 pj2 hsi
    exact ⟨by rw [s1], s2⟩
  · split
    · obtain ⟨s1, s2⟩ := parse_number_same D buf idx true pj1 pj2 hsi
      exact ⟨by rw [s1], s2⟩
    · exact ⟨rfl, hsi⟩

theorem with_copy_same (D : ScalarDecoders) (buf : Nat → Nat) (len : Nat) (idx : Nat)
    (neg : Bool) (pj1 pj2 : ParsedJson)
    (hsi : pj2.structural_indexes = pj1.structural_indexes) :
    (with_space_terminated_copy D buf len (parse_number_on D pj2 idx neg) pj2).1
      = (with_space_terminated_copy D buf len (parse_number_on D pj1 idx neg) pj1).1 ∧
    (with_space_terminated_copy D buf len (parse_number_on D pj2 idx neg) pj2).2.structural_indexes
      = (with_space_terminated_copy D buf len (parse_number_on D pj1 idx neg)
          pj1).2.structural_indexes := by
  unfold with_space_terminated_copy
  split
  · obtain ⟨s1, s2⟩ := parse_number_same D (space_terminated_copy buf len) idx neg pj1 pj2 hsi
    exact ⟨by show (!(parse_number D _ pj2 idx neg).1) = (!(parse_number D _ pj1 idx neg).1)
              rw [s1], s2⟩
  · exact ⟨rfl, hsi⟩

theorem parse_numbers_last_same (D : ScalarDecoders) (buf : Nat → Nat) (len : Nat)
    (pj1 pj2 : ParsedJson) (i : Nat)
    (hsi : pj2.structural_indexes = pj1.structural_indexes)
    (hn : pj2.n_structural_indexes = pj1.n_structural_indexes) :
    (parse_numbers_last D buf len pj2 i).2 = (parse_numbers_last D buf len pj1 i).2 ∧
    (parse_numbers_last D buf len pj2 i).1.1 = (parse_numbers_last D buf len pj1 i).1.1 ∧
    (parse_numbers_last D buf len pj2 i).1.2.structural_indexes
      = (parse_numbers_last D buf len pj1 i).1.2.structural_indexes := by
  unfold parse_numbers_last
  rw [hn, hsi]
  split
  · split
    · obtain ⟨s1, s2⟩ := with_copy_same D buf len (pj1.structural_indexes i) false pj1 pj2 hsi
      exact ⟨rfl, s1, s2⟩
    · split
      · obtain ⟨s1, s2⟩ := with_copy_same D buf len (pj1.structural_indexes i) true pj1 pj2 hsi
        exact ⟨rfl, s1, s2⟩
      · exact ⟨rfl, rfl, hsi⟩
  · exact ⟨rfl, rfl, hsi⟩

theorem parse_numbers_same (D : ScalarDecoders) (buf : Nat → Nat) (len : Nat)
    (pj1 pj2 : ParsedJson) (i : Nat)
    (hsi : pj2.structural_indexes = pj1.structural_indexes)
    (hn : pj2.n_structural_indexes = pj1.n_structural_indexes) :
    (parse_numbers D buf len pj2 i).1 = (parse_numbers D buf len pj1 i).1 := by
  unfold parse_numbers parse_numbers_loop
  rw [had_error_result_fst_eq, had_error_result_fst_eq, hn]
  obtain ⟨l1, l2, l3⟩ := parse_numbers_last_same D buf len pj1 pj2 i hsi hn
  rw [l1]
  have := foldl_sim (parse_numbers_body D buf)
    (fun st st1 => st1.1 = st.1 ∧ st1.2.structural_indexes = st.2.structural_indexes)
    (by
      intro st st1 a h
      obtain ⟨e1, e2⟩ := h
      unfold parse_numbers_body
      rw [e2]
      obtain ⟨s1, s2⟩ := parse_numbers_switch_same D buf (st.2.structural_indexes a) st.2 st1.2 e2
      exact ⟨by rw [e1, s1], s2⟩)
    (List.range' (parse_numbers_last D buf len pj1 i).2
      (pj1.n_structural_indexes - 1 - (parse_numbers_last D buf len pj1 i).2))
    (parse_numbers_last D buf len pj1 i).1 (parse_numbers_last D buf len pj2 i).1 ⟨l2, l3⟩
  rw [this.1]

theorem parse_atoms_same (D : ScalarDecoders) (buf : Nat → Nat) (len : Nat)
    (pj1 pj2 : ParsedJson) (i : Nat)
    (hsi : pj2.structural_indexes = pj1.structural_indexes)
    (hn : pj2.n_structural_indexes = pj1.n_structural_indexes) :
    (parse_atoms D buf len pj2 i).1 = (parse_atoms D buf len pj1 i).1 := by
  have hl : parse_atoms_last D buf len pj2 i = parse_atoms_last D buf len pj1 i := by
    unfold parse_atoms_last
    rw [hn, hsi]
  have hb : parse_atoms_body D buf pj2 = parse_atoms_body D buf pj1 := by
    funext b a
    unfold parse_atoms_body
    rw [hsi]
  unfold parse_atoms
  rw [had_error_result_fst_eq, had_error_result_fst_eq, hn, hl, hb]

/-- The pre-pass succeeds on one workspace if and only if it succeeds on every other
workspace that holds the same document; its three return codes are the same. -/
theorem prepass_same (D : ScalarDecoders) (buf : Nat → Nat) (len : Nat) (pj pj1 : ParsedJson)
    (h : SameDocument pj pj1) :
    (parse_strings D buf pj1.init 0).1 = (parse_strings D buf pj.init 0).1 ∧
    (parse_numbers D buf len (parse_strings D buf pj1.init 0).2 0).1
      = (parse_numbers D buf len (parse_strings D buf pj.init 0).2 0).1 ∧
    (parse_atoms D buf len
        (parse_numbers D buf len (parse_strings D buf pj1.init 0).2 0).2 0).1
      = (parse_atoms D buf len
          (parse_numbers D buf len (parse_strings D buf pj.init 0).2 0).2 0).1 := by
  obtain ⟨_, _, hn, hsi⟩ := h
  obtain ⟨_, _, a3, a4, _⟩ := parse_strings_keeps D buf pj.init 0
  obtain ⟨_, _, b3, b4, _⟩ := parse_strings_keeps D buf pj1.init 0
  obtain ⟨_, _, c3, c4, _⟩ := parse_numbers_keeps D buf len (parse_strings D buf pj.init 0).2 0
  obtain ⟨_, _, d3, d4, _⟩ := parse_numbers_keeps D buf len (parse_strings D buf pj1.init 0).2 0
  have e4 : (parse_strings D buf pj1.init 0).2.structural_indexes
      = (parse_strings D buf pj.init 0).2.structural_indexes := by
    rw [a4, b4]; exact hsi
  have e3 : (parse_strings D buf pj1.init 0).2.n_structural_indexes
      = (parse_strings D buf pj.init 0).2.n_structural_indexes := by
    rw [a3, b3]; exact hn
  refine ⟨parse_strings_same D buf pj.init pj1.init 0 hsi hn,
    parse_numbers_same D buf len _ _ 0 e4 e3, parse_atoms_same D buf len _ _ 0 ?_ ?_⟩
  · rw [c4, d4]; exact e4
  · rw [c3, d3]; exact e3

/-- What `unified_machine` returns when the pre-pass fails: the code of the first pass
that failed, and an empty ghost record. -/
theorem prepass_fail_outcome (D : ScalarDecoders) (buf : Nat → Nat) (len : Nat)
    (pj : ParsedJson) (hcap : len ≤ pj.byte_capacity) (hpre : ¬ prepass_ok D buf len pj) :
    (unified_machine D buf len pj).outcome
      = .returned (if (parse_strings D buf pj.init 0).1 ≠ .SUCCESS then .STRING_ERROR
          else if (parse_numbers D buf len (parse_strings D buf pj.init 0).2 0).1 ≠ .SUCCESS
            then .NUMBER_ERROR else .N_ATOM_ERROR) ∧
    (unified_machine D buf len pj).log = [] ∧
    PrepassKeeps pj.init (unified_machine D buf len pj).pj := by
  have hcap1 : ¬ len > pj.init.byte_capacity := by
    show ¬ len > pj.byte_capacity
    omega
  have k1 := parse_strings_keeps D buf pj.init 0
  have k2 := parse_numbers_keeps D buf len (parse_strings D buf pj.init 0).2 0
  have k3 := parse_atoms_keeps D buf len
    (parse_numbers D buf len (parse_strings D buf pj.init 0).2 0).2 0
  have c1 := parse_strings_code D buf pj.init 0
  have c2 := parse_numbers_code D buf len (parse_strings D buf pj.init 0).2 0
  have c3 := parse_atoms_code D buf len
    (parse_numbers D buf len (parse_strings D buf pj.init 0).2 0).2 0
  unfold prepass_ok at hpre
  unfold unified_machine
  rw [if_neg hcap1]
  generalize parse_atoms D buf len
    (parse_numbers D buf len (parse_strings D buf pj.init 0).2 0).2 0 = r3 at *
  generalize parse_numbers D buf len (parse_strings D buf pj.init 0).2 0 = r2 at *
  generalize parse_strings D buf pj.init 0 = r1 at *
  generalize pj.init = pj0 at *
  by_cases h1 : r1.1 = .SUCCESS
  · have n1 : ¬ (r1.1 ≠ .SUCCESS) := by rw [h1]; simp
    simp only [if_neg n1]
    by_cases h2 : r2.1 = .SUCCESS
    · have n2 : ¬ (r2.1 ≠ .SUCCESS) := by rw [h2]; simp
      simp only [if_neg n2]
      by_cases h3 : r3.1 = .SUCCESS
      · exact absurd ⟨h1, h2, h3⟩ hpre
      · have p3 : r3.1 ≠ .SUCCESS := h3
        simp only [if_pos p3]
        exact ⟨by simp only [c3 h3], by trivial, prepass_keeps_trans (prepass_keeps_trans k1 k2) k3⟩
    · have p2 : r2.1 ≠ .SUCCESS := h2
      simp only [if_pos p2]
      exact ⟨by simp only [c2 h2], by trivial, prepass_keeps_trans k1 k2⟩
  · have p1 : r1.1 ≠ .SUCCESS := h1
    simp only [if_pos p1]
    exact ⟨by simp only [c1 h1], by trivial, k1⟩

/-- The return code and the ghost record of `unified_machine` depend on the workspace
only through the capacities and the structural index. -/
theorem machine_same (D : ScalarDecoders) (buf : Nat → Nat) (len : Nat) (pj pj1 : ParsedJson)
    (h : SameDocument pj pj1) :
    (unified_machine D buf len pj1).outcome = (unified_machine D buf len pj).outcome ∧
    (unified_machine D buf len pj1).log = (unified_machine D buf len pj).log := by
  obtain ⟨e1, e2, e3⟩ := prepass_same D buf len pj pj1 h
  obtain ⟨hb, hc, hn, hsi⟩ := h
  by_cases hcap : len ≤ pj.byte_capacity
  · by_cases hpre : prepass_ok D buf len pj
    · have hpre1 : prepass_ok D buf len pj1 := by
        obtain ⟨p1, p2, p3⟩ := hpre
        exact ⟨e1.trans p1, e2.trans p2, e3.trans p3⟩
      rw [unified_machine_eq D buf len pj hcap hpre,
        unified_machine_eq D buf len pj1 (by rw [hb]; exact hcap) hpre1]
      obtain ⟨_, a2, a3, a4, a5, _⟩ := walk_pj_keeps D buf len pj
      obtain ⟨_, b2, b3, b4, b5, _⟩ := walk_pj_keeps D buf len pj1
      exact sim_parse_structurals buf len _ _ a5 b5 (by rw [a4, b4]; exact hsi)
        (by rw [a3, b3]; exact hn) (by rw [a2, b2]; exact hc)
    · have hpre1 : ¬ prepass_ok D buf len pj1 := by
        intro hp
        obtain ⟨p1, p2, p3⟩ := hp
        exact hpre ⟨e1.symm.trans p1, e2.symm.trans p2, e3.symm.trans p3⟩
      obtain ⟨o1, l1, _⟩ := prepass_fail_outcome D buf len pj hcap hpre
      obtain ⟨o2, l2, _⟩ := prepass_fail_outcome D buf len pj1 (by rw [hb]; exact hcap) hpre1
      rw [o1, o2, l1, l2, e1, e2]
      exact ⟨rfl, rfl⟩
  · have hcap0 : len > pj.init.byte_capacity := by
      show len > pj.byte_capacity
      omega
    have hcap1 : len > pj1.init.byte_capacity := by
      show len > pj1.byte_capacity
      rw [hb]; omega
    unfold unified_machine
    rw [if_pos hcap0, if_pos hcap1]
    exact ⟨rfl, rfl⟩

/-! ## The workspace after a parse holds the same document -/

theorem walk_keeps_capacity (buf : Nat → Nat) (t : Nat) (cfg : Label × StructuralParser) :
    (walk buf t cfg).2.pj.byte_capacity = cfg.2.pj.byte_capacity := by
  refine walk_rel buf (fun p q => q.pj.byte_capacity = p.pj.byte_capacity) ?_ ?_ ?_ ?_ ?_ ?_ ?_ ?_
    t cfg
  · intro p; rfl
  · intro p q r h1 h2; exact h2.trans h1
  · intro p _; rfl
  · intro p; rfl
  · intro p; rfl
  · intro p; rfl
  · intro p k; rfl
  · intro p; rfl

theorem finish_keeps (p : StructuralParser) :
    p.finish.2.pj.byte_capacity = p.pj.byte_capacity ∧
    p.finish.2.pj.depth_capacity = p.pj.depth_capacity := by
  unfold finish
  split
  · exact ⟨rfl, rfl⟩
  · simp only
    split
    · exact ⟨rfl, rfl⟩
    · split <;> exact ⟨rfl, rfl⟩

theorem error_keeps (p : StructuralParser) :
    p.error.2.pj.byte_capacity = p.pj.byte_capacity ∧
    p.error.2.pj.depth_capacity = p.pj.depth_capacity ∧
    p.error.2.pj.n_structural_indexes = p.pj.n_structural_indexes ∧
    p.error.2.pj.structural_indexes = p.pj.structural_indexes := by
  unfold StructuralParser.error set_error_code
  repeat' split
  all_goals exact ⟨rfl, rfl, rfl, rfl⟩

theorem conclude_keeps (cfg : Label × StructuralParser) :
    (conclude cfg).pj.byte_capacity = cfg.2.pj.byte_capacity ∧
    (conclude cfg).pj.depth_capacity = cfg.2.pj.depth_capacity ∧
    (conclude cfg).pj.n_structural_indexes = cfg.2.pj.n_structural_indexes ∧
    (conclude cfg).pj.structural_indexes = cfg.2.pj.structural_indexes := by
  obtain ⟨L, p⟩ := cfg
  cases L
  case finish =>
    obtain ⟨f1, f2⟩ := finish_keeps p
    obtain ⟨_, _, f3, f4⟩ := finish_bufs p
    exact ⟨f1, f2, f4, f3⟩
  case error => exact error_keeps p
  all_goals exact ⟨rfl, rfl, rfl, rfl⟩

theorem first_value_keeps_capacity (p : StructuralParser) :
    (first_value p).2.pj.byte_capacity = p.pj.byte_capacity := by
  rw [first_value_eq]
  rcases parse_value_cases p .finish with ⟨_, e | e | e⟩ | ⟨_, _, e⟩ | ⟨_, _, e⟩ | ⟨_, _, _, e⟩ <;>
    rw [e] <;> rfl

theorem parse_structurals_keeps (buf : Nat → Nat) (len : Nat) (pjw : ParsedJson) :
    SameDocument pjw (parse_structurals buf len pjw).pj := by
  by_cases hz : pjw.n_structural_indexes = 0
  · rw [parse_structurals_empty buf len pjw hz]
    exact ⟨rfl, rfl, rfl, rfl⟩
  · rw [parse_structurals_eq buf len pjw (by omega)]
    by_cases hd : pjw.depth_capacity ≤ 1
    · rw [if_pos hd]
      exact ⟨rfl, rfl, rfl, rfl⟩
    · rw [if_neg hd]
      obtain ⟨c1, c2, c3, c4⟩ := conclude_keeps
        (walk buf (walk_fuel pjw) (first_value (walk_start buf len pjw)))
      have w1 := walk_keeps_capacity buf (walk_fuel pjw) (first_value (walk_start buf len pjw))
      obtain ⟨⟨w2, w3, w4⟩, _⟩ := walk_frame buf (walk_fuel pjw)
        (first_value (walk_start buf len pjw))
      obtain ⟨⟨v2, v3, v4⟩, _⟩ := first_value_frame (walk_start buf len pjw)
      have v1 := first_value_keeps_capacity (walk_start buf len pjw)
      exact ⟨by rw [c1, w1, v1]; rfl, by rw [c2, w4, v4]; rfl, by rw [c3, w3, v3]; rfl,
        by rw [c4, w2, v2]; rfl⟩

/-- The workspace that `unified_machine` leaves holds the document it was given: the
capacities and the structural index are untouched. -/
theorem machine_keeps_document (D : ScalarDecoders) (buf : Nat → Nat) (len : Nat)
    (pj : ParsedJson) : SameDocument pj (unified_machine D buf len pj).pj := by
  by_cases hcap : len ≤ pj.byte_capacity
  · by_cases hpre : prepass_ok D buf len pj
    · rw [unified_machine_eq D buf len pj hcap hpre]
      obtain ⟨a1, a2, a3, a4, _⟩ := walk_pj_keeps D buf len pj
      obtain ⟨b1, b2, b3, b4⟩ := parse_structurals_keeps buf len (walk_pj D buf len pj)
      exact ⟨b1.trans a1, b2.trans a2, b3.trans a3, b4.trans a4⟩
    · obtain ⟨_, _, k1, k2, k3, k4, _⟩ := prepass_fail_outcome D buf len pj hcap hpre
      exact ⟨k1, k2, k3, k4⟩
  · have hcap0 : len > pj.init.byte_capacity := by
      show len > pj.byte_capacity
      omega
    unfold unified_machine
    rw [if_pos hcap0]
    exact ⟨rfl, rfl, rfl, rfl⟩

/-! ## The tape of an accepted document on two workspaces -/

theorem structural_bytes_same (buf : Nat → Nat) {pj pj1 : ParsedJson}
    (hsi : pj1.structural_indexes = pj.structural_indexes)
    (hn : pj1.n_structural_indexes = pj.n_structural_indexes) :
    structural_bytes buf pj1 = structural_bytes buf pj := by
  unfold structural_bytes
  rw [hn, structural_byte_same buf hsi]

/-- Two accepted runs on workspaces that hold the same document leave the same tape: the
same number of entries and the same entry at every index below it. -/
theorem machine_same_tape (D : ScalarDecoders) (buf : Nat → Nat) (len : Nat)
    (pj pj1 : ParsedJson) (h : SameDocument pj pj1)
    (hlen : ∀ x, x + 1 < pj.n_structural_indexes → structural_byte buf pj x = ch_quote →
      (string_bytes_at D buf pj x).length < 4294967296)
    (hok : (unified_machine D buf len pj).outcome = .returned .SUCCESS) :
    (unified_machine D buf len pj1).pj.current_loc
      = (unified_machine D buf len pj).pj.current_loc ∧
    ∀ t, t < (unified_machine D buf len pj).pj.current_loc →
      (unified_machine D buf len pj1).pj.tape t = (unified_machine D buf len pj).pj.tape t := by
  have hok1 : (unified_machine D buf len pj1).outcome = .returned .SUCCESS := by
    rw [(machine_same D buf len pj pj1 h).1]; exact hok
  obtain ⟨hb, hc, hn, hsi⟩ := h
  obtain ⟨k, es, he, hk, r2, r3, r4, r5, _⟩ := accepted_emits D buf len pj hlen hok
  obtain ⟨hcap1, hpre1, _⟩ := accepted_spells D buf len pj1 hok1
  have he1 : Emits D buf len pj1 .value k (structural_bytes buf pj1) 0 1 es := by
    rw [structural_bytes_same buf hsi hn]
    exact emits_same D buf len hsi hn he
  have hlen1 : ∀ x, x + 1 < pj1.n_structural_indexes → structural_byte buf pj1 x = ch_quote →
      (string_bytes_at D buf pj1 x).length < 4294967296 := by
    intro x hx hq
    rw [string_bytes_at_same D buf hsi]
    exact hlen x (by rw [← hn]; exact hx) (by rw [← structural_byte_same buf hsi]; exact hq)
  obtain ⟨_, s2, s3, s4, s5, _⟩ := emits_run D buf len pj1 hcap1 hpre1 hlen1 he1
    (by rw [hc]; exact hk)
  refine ⟨by rw [s2, r2], ?_⟩
  intro t ht
  rw [r2] at ht
  by_cases h0 : t = 0
  · rw [h0, s3, r3]
  · by_cases hl : t = es.length + 1
    · rw [hl, s5, r5]
    · have hlt : t - 1 < es.length := by omega
      have hget : es[t - 1]? = some (es.get ⟨t - 1, hlt⟩) := by
        rw [List.getElem?_eq_getElem hlt]
        rfl
      have a := r4 (t - 1) _ hget
      have b := s4 (t - 1) _ hget
      have e : 1 + (t - 1) = t := by omega
      rw [e] at a b
      rw [a, b]

end simdjson

namespace simdjson
open StructuralParser

/-! ## The strings of an accepted document -/

/-- After a successful `parse_strings`, the decoder has succeeded on every string. -/
theorem parse_strings_decoded (D : ScalarDecoders) (buf : Nat → Nat) (pj0 pj1 : ParsedJson)
    (hsi : pj1.structural_indexes = pj0.structural_indexes)
    (hn : pj1.n_structural_indexes = pj0.n_structural_indexes)
    (hok : (parse_strings D buf pj1 0).1 = .SUCCESS) :
    ∀ x, x + 1 < pj0.n_structural_indexes → structural_byte buf pj0 x = ch_quote →
      D.parse_string buf (pj0.structural_indexes x) = some (string_bytes_at D buf pj0 x) := by
  have hinv := foldl_range_inv (parse_strings_body D buf)
    (fun j st => st.2.structural_indexes = pj0.structural_indexes ∧
      (st.1 = false → ∀ x, x < j → structural_byte buf pj0 x = ch_quote →
        D.parse_string buf (pj0.structural_indexes x) = some (string_bytes_at D buf pj0 x)))
    (pj1.n_structural_indexes - 1 - 0) 0 (false, pj1)
    ⟨hsi, fun _ x hx => absurd hx (by omega)⟩
    (by
      intro j st _ _ hI
      obtain ⟨i1, i2⟩ := hI
      unfold parse_strings_body
      by_cases hq : buf (st.2.structural_indexes j) = ch_quote
      · rw [if_pos hq]
        unfold parse_string
        cases hdec : D.parse_string buf (st.2.structural_indexes j) with
        | none =>
          refine ⟨i1, ?_⟩
          intro hf
          simp at hf
        | some bytes =>
          refine ⟨i1, ?_⟩
          intro hf
          have hf1 : st.1 = false := by simpa using hf
          intro x hx hqx
          by_cases hxj : x = j
          · subst hxj
            unfold string_bytes_at
            rw [← i1, hdec]
            rfl
          · exact i2 hf1 x (by omega) hqx
      · rw [if_neg hq]
        refine ⟨i1, ?_⟩
        intro hf x hx hqx
        have hxj : x ≠ j := by
          intro h
          apply hq
          rw [← hqx, h, i1]
          rfl
        exact i2 hf x (by omega) hqx)
  unfold parse_strings at hok
  obtain ⟨hb, _⟩ := had_error_result_ok _ _ _ hok (by decide)
  intro x hx hqx
  exact hinv.2 hb x (by rw [Nat.zero_add, hn]; omega) hqx

/-- The offset of a record is the sum of the sizes of the records of the strings at
the earlier positions. -/
theorem arena_offset_sum (D : ScalarDecoders) (buf : Nat → Nat) (pj : ParsedJson) (x : Nat) :
    arena_offset D buf pj x
      = (((List.range x).filter (fun y => decide (structural_byte buf pj y = ch_quote))).map
          (fun y => 4 + (string_bytes_at D buf pj y).length + 1)).sum := by
  induction x with
  | zero => rfl
  | succ x ih =>
    rw [arena_offset_succ, ih, List.range_succ, List.filter_append, List.map_append,
      List.sum_append]
    by_cases hq : structural_byte buf pj x = ch_quote
    · simp [hq]
    · simp [hq]

theorem tape_kinds_of_entries (f : Nat → TapeEntry) (es : List TapeEntry)
    (h : ∀ t e, es[t]? = some e → f (1 + t) = e) :
    (List.range es.length).map (fun t => (f (1 + t)).kind) = es.map TapeEntry.kind := by
  apply List.ext_getElem
  · simp
  · intro i h1 h2
    simp only [List.getElem_map, List.getElem_range]
    have hi : i < es.length := by simpa using h2
    rw [h i (es.get ⟨i, hi⟩) (by rw [List.getElem?_eq_getElem hi]; rfl)]
    rfl

/-- Every tape index between the root entries belongs to one position of the
document. -/
theorem tape_index_cover (buf : Nat → Nat) (pj : ParsedJson) (m t : Nat)
    (h1 : 1 ≤ t) (h2 : t < tape_index buf pj m) :
    ∃ y, y < m ∧ tape_index buf pj y ≤ t ∧ t < tape_index buf pj (y + 1) := by
  induction m with
  | zero =>
    have : tape_index buf pj 0 = 1 := rfl
    omega
  | succ m ih =>
    by_cases hlt : t < tape_index buf pj m
    · obtain ⟨y, hy, a, b⟩ := ih hlt
      exact ⟨y, by omega, a, b⟩
    · exact ⟨m, by omega, by omega, h2⟩

/-- The string decoder of the sample documents gives at most as many bytes as it has
fuel. -/
theorem scan_string_length (buf : Nat → Nat) (fuel : Nat) :
    ∀ (pos : Nat) (acc r : List Nat), scan_string buf fuel pos acc = some r →
      r.length ≤ acc.length + fuel := by
  induction fuel with
  | zero =>
    intro pos acc r h
    simp [scan_string] at h
  | succ fuel ih =>
    intro pos acc r h
    unfold scan_string at h
    split at h
    · have : acc.reverse = r := by simpa using h
      rw [← this]
      simp
    · split at h
      · simp at h
      · have := ih _ _ _ h
        simp only [List.length_cons] at this
        omega

theorem sample_string_length (buf : Nat → Nat) (pj : ParsedJson) (x : Nat) :
    (string_bytes_at sample_decoders buf pj x).length < 4294967296 := by
  unfold string_bytes_at
  show ((sample_parse_string buf (pj.structural_indexes x)).getD []).length < _
  unfold sample_parse_string
  cases h : scan_string buf 65 (pj.structural_indexes x + 1) [] with
  | none => simp
  | some r =>
    have := scan_string_length buf 65 _ _ _ h
    simp only [Option.getD_some, List.length_nil] at this ⊢
    omega

end simdjson

namespace simdjson
open StructuralParser

/-! ## Reading the entries of a phrase position by position -/

/-- Whatever is read off each entry, reading the entries of a phrase in tape order
gives what is read off its structurals in source order, as soon as this holds of each
scalar, of each bracket whatever its payload, and nothing is read off a separator. -/
theorem emits_view {β : Type} {D : ScalarDecoders} {buf : Nat → Nat} {len : Nat}
    {pj : ParsedJson} (g : TapeEntry → List β) (pg : Nat → List β)
    (hsc : ∀ x, is_scalar_start (structural_byte buf pj x) = true →
      (scalar_entries D buf len pj x).flatMap g = pg x)
    (hbr : ∀ x p, (structural_byte buf pj x = ch_lbracket ∨
      structural_byte buf pj x = ch_rbracket ∨ structural_byte buf pj x = ch_lbrace ∨
      structural_byte buf pj x = ch_rbrace) → g ⟨p, structural_byte buf pj x⟩ = pg x)
    (hsep : ∀ x, (structural_byte buf pj x = ch_comma ∨ structural_byte buf pj x = ch_colon) →
      pg x = [])
    {cat : Category} {k : Nat} {ws : List Nat} {j a : Nat} {es : List TapeEntry}
    (he : Emits D buf len pj cat k ws j a es) :
    seg buf pj j ws.length = ws → es.flatMap g = (List.range' j ws.length).flatMap pg := by
  have hstr : ∀ x, structural_byte buf pj x = ch_quote →
      g ⟨arena_offset D buf pj x, ch_quote⟩ = pg x := by
    intro x hx
    have := hsc x (by rw [hx]; decide)
    rw [scalar_entries_string D buf len pj x hx] at this
    simpa using this
  induction he with
  | scalar c j a hs =>
    intro hseg
    have hb := (seg_eq_cons buf pj j _ c [] hseg).2.1
    rw [← hb] at hs
    show _ = (List.range' j 1).flatMap _
    rw [kinds_one]
    exact hsc j hs
  | empty_array j a =>
    intro hseg
    obtain ⟨_, hb0, hseg1⟩ := seg_eq_cons buf pj j _ _ _ hseg
    obtain ⟨_, hb1, _⟩ := seg_eq_cons buf pj (j + 1) _ _ _ hseg1
    show _ = (List.range' j (1 + 1)).flatMap _
    rw [kinds_cons, kinds_one, ← hbr j (a + 2) (Or.inl hb0),
      ← hbr (j + 1) a (Or.inr (Or.inl hb1)), hb0, hb1]
    simp
  | array k ws j a es _ ih =>
    intro hseg
    obtain ⟨_, hb0, hseg1⟩ := seg_eq_cons buf pj j _ _ _ hseg
    obtain ⟨_, hseg2, hseg3⟩ := seg_eq_append buf pj (j + 1) _ _ _ hseg1
    have hb1 := (seg_eq_cons buf pj _ _ _ _ hseg3).2.1
    have e : (ch_lbracket :: (ws ++ [ch_rbracket])).length = (ws.length + 1) + 1 := by simp
    rw [e, kinds_cons, kinds_append, kinds_one, ← ih hseg2,
      ← hbr j (a + es.length + 2) (Or.inl hb0),
      ← hbr _ a (Or.inr (Or.inl hb1)), hb0, hb1]
    simp
  | empty_object j a =>
    intro hseg
    obtain ⟨_, hb0, hseg1⟩ := seg_eq_cons buf pj j _ _ _ hseg
    obtain ⟨_, hb1, _⟩ := seg_eq_cons buf pj (j + 1) _ _ _ hseg1
    show _ = (List.range' j (1 + 1)).flatMap _
    rw [kinds_cons, kinds_one, ← hbr j (a + 2) (Or.inr (Or.inr (Or.inl hb0))),
      ← hbr (j + 1) a (Or.inr (Or.inr (Or.inr hb1))), hb0, hb1]
    simp
  | object k ws j a es _ ih =>
    intro hseg
    obtain ⟨_, hb0, hseg1⟩ := seg_eq_cons buf pj j _ _ _ hseg
    obtain ⟨_, hseg2, hseg3⟩ := seg_eq_append buf pj (j + 1) _ _ _ hseg1
    have hb1 := (seg_eq_cons buf pj _ _ _ _ hseg3).2.1
    have e : (ch_lbrace :: (ws ++ [ch_rbrace])).length = (ws.length + 1) + 1 := by simp
    rw [e, kinds_cons, kinds_append, kinds_one, ← ih hseg2,
      ← hbr j (a + es.length + 2) (Or.inr (Or.inr (Or.inl hb0))),
      ← hbr _ a (Or.inr (Or.inr (Or.inr hb1))), hb0, hb1]
    simp
  | element k ws j a es _ ih => exact ih
  | elements k m ws ws1 j a es es1 _ _ ih ih1 =>
    intro hseg
    obtain ⟨_, hseg1, hseg2⟩ := seg_eq_append buf pj j _ _ _ hseg
    obtain ⟨_, hb1, hseg3⟩ := seg_eq_cons buf pj _ _ _ _ hseg2
    have e : (ws ++ ch_comma :: ws1).length = ws.length + (ws1.length + 1) := by
      simp
    have e1 : ws1.length + 1 = 1 + ws1.length := by omega
    rw [e, kinds_append, e1, kinds_append, kinds_one, ← ih hseg1, ← ih1 hseg3,
      hsep _ (Or.inl hb1)]
    simp
  | member k ws j a es _ ih =>
    intro hseg
    obtain ⟨_, hb0, hseg1⟩ := seg_eq_cons buf pj j _ _ _ hseg
    obtain ⟨_, hb1, hseg2⟩ := seg_eq_cons buf pj _ _ _ _ hseg1
    have e : (ch_quote :: ch_colon :: ws).length = (ws.length + 1) + 1 := by simp
    have e1 : ws.length + 1 = 1 + ws.length := by omega
    have e2 : j + 1 + 1 = j + 2 := by omega
    rw [e, kinds_cons, e1, kinds_append, kinds_one, e2, ← ih hseg2,
      ← hstr j hb0, hsep _ (Or.inr hb1)]
    simp
  | members k m ws ws1 j a es es1 _ _ ih ih1 =>
    intro hseg
    have hsplit : ch_quote :: ch_colon :: (ws ++ ch_comma :: ws1)
        = (ch_quote :: ch_colon :: ws) ++ ch_comma :: ws1 := by simp
    rw [hsplit] at hseg
    obtain ⟨_, hsegm, hseg2⟩ := seg_eq_append buf pj j _ _ _ hseg
    obtain ⟨_, hbc, hseg3⟩ := seg_eq_cons buf pj _ _ _ _ hseg2
    obtain ⟨_, hb0, hseg1⟩ := seg_eq_cons buf pj j _ _ _ hsegm
    obtain ⟨_, hb1, hsegv⟩ := seg_eq_cons buf pj _ _ _ _ hseg1
    simp only [List.length_cons] at hbc hseg3
    have e : (ch_quote :: ch_colon :: (ws ++ ch_comma :: ws1)).length
        = (1 + (ws.length + (1 + ws1.length))) + 1 := by
      simp; omega
    have e2 : j + 1 + 1 = j + 2 := by omega
    have e3 : j + 2 + ws.length = j + (ws.length + 1 + 1) := by omega
    have e4 : j + (ws.length + 1 + 1) + 1 = j + ws.length + 3 := by omega
    rw [e4] at hseg3
    rw [e, kinds_cons, kinds_append, kinds_one, e2, kinds_append, kinds_append, kinds_one, e3,
      ← ih hsegv, e4, ← ih1 hseg3, ← hstr j hb0,
      hsep _ (Or.inr hb1), hsep _ (Or.inl hbc)]
    simp

theorem flatMap_filter_map {α β : Type} (p : α → Bool) (f : α → β) (l : List α) :
    l.flatMap (fun e => if p e = true then [f e] else []) = (l.filter p).map f := by
  induction l with
  | nil => rfl
  | cons e l ih =>
    rw [List.flatMap_cons, ih]
    by_cases h : p e = true
    · simp [h]
    · simp [h]

/-- The payloads of the string entries of a phrase, in tape order, are the arena
offsets of the records of its strings, in source order. -/
theorem emits_strings {D : ScalarDecoders} {buf : Nat → Nat} {len : Nat} {pj : ParsedJson}
    {cat : Category} {k : Nat} {ws : List Nat} {j a : Nat} {es : List TapeEntry}
    (he : Emits D buf len pj cat k ws j a es)
    (htag : ∀ x, is_number_start (structural_byte buf pj x) = true →
      (number_at D buf len pj x).1 ≠ ch_quote)
    (hseg : seg buf pj j ws.length = ws) :
    (es.filter (fun e => decide (e.kind = ch_quote))).map TapeEntry.payload
      = ((List.range' j ws.length).filter
          (fun x => decide (structural_byte buf pj x = ch_quote))).map
          (arena_offset D buf pj) := by
  rw [← flatMap_filter_map, ← flatMap_filter_map]
  refine emits_view _ _ ?_ ?_ ?_ he hseg
  · intro x hx
    rcases is_scalar_start_cases hx with h | h | h
    · rw [scalar_entries_string D buf len pj x h]
      simp [h]
    · obtain ⟨h1, _, _, _⟩ := atom_class h
      rw [scalar_entries_atom D buf len pj x h]
      simp [h1]
    · obtain ⟨h1, _, _, _⟩ := number_class h
      rw [scalar_entries_number D buf len pj x h]
      have := htag x h
      simp [h1, this, ch_quote]
  · intro x p hx
    obtain ⟨h1, _, _, _, _⟩ := bracket_class hx
    simp [h1]
  · intro x hx
    have : structural_byte buf pj x ≠ ch_quote := by
      rcases hx with h | h <;> rw [h] <;> decide
    simp [this]

end simdjson

namespace simdjson
open StructuralParser

/-! ## Integer literals -/

theorem digits_foldl (ds : List Nat) (acc : Nat) :
    ds.foldl (fun acc d => 10 * acc + d) acc = acc * 10 ^ ds.length + digits_value ds := by
  unfold digits_value
  induction ds generalizing acc with
  | nil => simp
  | cons d ds ih =>
    rw [List.foldl_cons, List.foldl_cons, ih (10 * acc + d), ih (10 * 0 + d), List.length_cons,
      pow_succ]
    ring

/-- A literal of more than 20 digits without leading zero does not fit in 64 bits. -/
theorem digits_length_le (ds : List Nat) (h0 : ds.length ≠ 1 → ds.getD 0 0 ≠ 0)
    (hv : digits_value ds < 2 ^ 64) : ds.length ≤ 20 := by
  by_contra hc
  cases ds with
  | nil => simp at hc
  | cons d rest =>
    have hl : 20 ≤ rest.length := by
      simp only [List.length_cons] at hc
      omega
    have hd : 1 ≤ d := by
      have := h0 (by simp only [List.length_cons]; omega)
      simp at this
      omega
    have e : digits_value (d :: rest) = d * 10 ^ rest.length + digits_value rest := by
      unfold digits_value
      rw [List.foldl_cons, digits_foldl]
      simp [digits_value]
    have hp : 10 ^ 20 ≤ 10 ^ rest.length := Nat.pow_le_pow_right (by decide) hl
    have hm : 10 ^ rest.length ≤ d * 10 ^ rest.length := Nat.le_mul_of_pos_left _ hd
    have h20 : (2 : Nat) ^ 64 < 10 ^ 20 := by norm_num
    omega

/-- The digit loop reads a run of digits that is followed by a byte other than a
digit, as long as it has fuel for them. -/
theorem scan_digits_run (buf : Nat → Nat) (ds : List Nat) :
    ∀ (fuel pos acc cnt : Nat), ds.length ≤ fuel →
      (∀ t, t < ds.length → ds.getD t 0 < 10 ∧ buf (pos + t) = 48 + ds.getD t 0) →
      is_digit (buf (pos + ds.length)) = false →
      scan_digits buf fuel pos acc cnt
        = (ds.foldl (fun acc d => 10 * acc + d) acc, cnt + ds.length, pos + ds.length) := by
  induction ds with
  | nil =>
    intro fuel pos acc cnt _ _ hend
    cases fuel with
    | zero => rfl
    | succ fuel =>
      unfold scan_digits
      simp only [List.length_nil, Nat.add_zero] at hend
      simp [hend]
  | cons d ds ih =>
    intro fuel pos acc cnt hf hd hend
    cases fuel with
    | zero => simp at hf
    | succ fuel =>
      have h0 := hd 0 (by simp)
      simp only [Nat.add_zero, List.getD_cons_zero] at h0
      unfold scan_digits
      have hdig : is_digit (buf pos) = true := by
        rw [h0.2]
        simp only [is_digit, Bool.and_eq_true, decide_eq_true_eq]
        omega
      rw [if_pos hdig, ih fuel (pos + 1) _ (cnt + 1)
        (by simp only [List.length_cons] at hf; omega)
        (by
          intro t ht
          have := hd (t + 1) (by simp only [List.length_cons]; omega)
          simp only [List.getD_cons_succ] at this
          rw [show pos + 1 + t = pos + (t + 1) by omega]
          exact this)
        (by
          rw [show pos + 1 + ds.length = pos + (d :: ds).length by
            simp only [List.length_cons]; omega]
          exact hend)]
      rw [h0.2, List.foldl_cons, List.length_cons]
      have e1 : 48 + d - 48 = d := by omega
      rw [e1]
      have e2 : cnt + 1 + ds.length = cnt + (ds.length + 1) := by omega
      have e3 : pos + 1 + ds.length = pos + (ds.length + 1) := by omega
      rw [e2, e3]

theorem terminator_not_digit {c : Nat} (h : is_structural_or_whitespace c = true) :
    is_digit c = false := by
  simp only [is_structural_or_whitespace, Bool.or_eq_true, beq_iff_eq, ch_lbrace, ch_rbrace,
    ch_lbracket, ch_rbracket, ch_colon, ch_comma, ch_space] at h
  simp only [is_digit, Bool.and_eq_false_iff, decide_eq_false_iff_not]
  omega

/-- What the decoder of integers reads at a literal of value below `2^64`. -/
theorem scan_digits_literal (buf : Nat → Nat) (pos : Nat) (ds : List Nat)
    (hd : HoldsDigits buf pos ds) (hv : digits_value ds < 2 ^ 64) :
    scan_digits buf 20 pos 0 0 = (digits_value ds, ds.length, pos + ds.length) := by
  obtain ⟨h1, h2, h3, h4⟩ := hd
  have := scan_digits_run buf ds 20 pos 0 0 (digits_length_le ds h3 hv) h2
    (terminator_not_digit h4)
  rw [this, Nat.zero_add]
  rfl

/-- The decoder of integers on a literal: the typed value of §4.C6. -/
theorem sample_parse_number_literal (buf : Nat → Nat) (idx : Nat) (neg : Bool) (ds : List Nat)
    (hd : HoldsDigits buf (if neg = true then idx + 1 else idx) ds) :
    (neg = false → digits_value ds < 2 ^ 63 →
      sample_parse_number buf idx neg = some (108, digits_value ds)) ∧
    (neg = false → 2 ^ 63 ≤ digits_value ds → digits_value ds < 2 ^ 64 →
      sample_parse_number buf idx neg = some (117, digits_value ds)) ∧
    (neg = true → digits_value ds ≤ 2 ^ 63 →
      sample_parse_number buf idx neg = some (108, (2 ^ 64 - digits_value ds) % 2 ^ 64)) := by
  have hne : ds.length ≠ 0 := by
    intro h
    exact hd.1 (List.length_eq_zero.mp h)
  have hz : ¬ (buf (if neg = true then idx + 1 else idx) = 48 ∧ ds.length ≠ 1) := by
    rintro ⟨hb, hl⟩
    have h0 := hd.2.1 0 (by omega)
    have h1 := hd.2.2.1 hl
    rw [Nat.add_zero, hb] at h0
    omega
  have hterm : (!is_structural_or_whitespace (buf ((if neg = true then idx + 1 else idx)
      + ds.length))) = false := by
    rw [hd.2.2.2]; rfl
  have key : ∀ (hv : digits_value ds < 2 ^ 64),
      sample_parse_number buf idx neg
        = if neg = true then
            (if digits_value ds ≤ 2 ^ 63 then some (108, (2 ^ 64 - digits_value ds) % 2 ^ 64)
             else none)
          else if digits_value ds < 2 ^ 63 then some (108, digits_value ds)
          else if digits_value ds < 2 ^ 64 then some (117, digits_value ds)
          else none := by
    intro hv
    unfold sample_parse_number
    simp only [scan_digits_literal buf _ ds hd hv]
    rw [if_neg hne, if_neg hz]
    simp only [hterm]
    simp
  refine ⟨?_, ?_, ?_⟩
  · intro hn hv
    rw [key (by omega)]
    subst hn
    simp only [Bool.false_eq_true, if_false, if_pos hv]
  · intro hn h1 h2
    rw [key h2]
    subst hn
    have : ¬ digits_value ds < 2 ^ 63 := by omega
    simp only [Bool.false_eq_true, if_false, if_neg this, if_pos h2]
  · intro hn hv
    rw [key (by omega)]
    subst hn
    simp only [if_true, if_pos hv]

/-- The word stored for a negative literal holds the negated value. -/
theorem as_int64_neg (v : Nat) (hv : v ≤ 2 ^ 63) :
    (2 ^ 64 - v) % 2 ^ 64 < 2 ^ 64 ∧ as_int64 ((2 ^ 64 - v) % 2 ^ 64) = -(v : Int) := by
  refine ⟨Nat.mod_lt _ (by norm_num), ?_⟩
  unfold as_int64
  by_cases h0 : v = 0
  · subst h0
    simp
  · have e : (2 ^ 64 - v) % 2 ^ 64 = 2 ^ 64 - v := Nat.mod_eq_of_lt (by omega)
    rw [e]
    have hn : ¬ (2 ^ 64 - v < 2 ^ 63) := by omega
    rw [if_neg hn]
    omega

theorem as_int64_pos (v : Nat) (hv : v < 2 ^ 63) : as_int64 v = (v : Int) := by
  unfold as_int64
  rw [if_pos hv]

/-- The decoder of integers never gives the kind tag of a string. -/
theorem sample_number_tag (buf : Nat → Nat) (idx : Nat) (neg : Bool) (r : Nat × Nat)
    (h : sample_parse_number buf idx neg = some r) : r.1 = 108 ∨ r.1 = 117 := by
  unfold sample_parse_number at h
  simp only at h
  repeat' split at h
  all_goals first
    | (injection h with h; rw [← h]; first | exact Or.inl rfl | exact Or.inr rfl)
    | (exfalso; exact Option.noConfusion h)

end simdjson

namespace simdjson
open StructuralParser

/-! ## Documents without scalars, nested brackets -/

theorem foldl_fixed {β : Type} (f : β → Nat → β) (s : β) (l : List Nat)
    (h : ∀ j, j ∈ l → f s j = s) : l.foldl f s = s := by
  induction l with
  | nil => rfl
  | cons j l ih =>
    rw [List.foldl_cons, h j (List.mem_cons_self _ _)]
    exact ih (fun x hx => h x (List.mem_cons_of_mem _ hx))

theorem not_scalar_class {c : Nat} (h : is_scalar_start c = false) :
    c ≠ ch_quote ∧ is_atom_start c = false ∧ is_digit c = false ∧ c ≠ ch_minus := by
  simp only [is_scalar_start, is_number_start, Bool.or_eq_false_iff, beq_eq_false_iff_ne,
    ne_eq] at h
  exact ⟨h.1.1, h.1.2, h.2.1, h.2.2⟩

/-- The pre-pass of a document without scalars decodes nothing and succeeds. -/
theorem prepass_no_scalars (D : ScalarDecoders) (buf : Nat → Nat) (len : Nat) (pj : ParsedJson)
    (h : ∀ x, x + 1 < pj.n_structural_indexes →
      is_scalar_start (structural_byte buf pj x) = false) :
    prepass_ok D buf len pj := by
  have hs : parse_strings D buf pj.init 0 = (.SUCCESS, pj.init) := by
    unfold parse_strings
    rw [foldl_fixed (parse_strings_body D buf) (false, pj.init) _ (by
      intro j hj
      rw [List.mem_range'_1] at hj
      have hx : ¬ buf ((false, pj.init).2.structural_indexes j) = ch_quote :=
        (not_scalar_class (h j (by
          have : pj.init.n_structural_indexes = pj.n_structural_indexes := rfl
          omega))).1
      unfold parse_strings_body
      rw [if_neg hx])]
    rfl
  have hnum : parse_numbers D buf len pj.init 0 = (.SUCCESS, pj.init) := by
    have hlast : (parse_numbers_last D buf len pj.init 0).1 = (false, pj.init) := by
      unfold parse_numbers_last
      by_cases h2 : 0 + 2 = pj.init.n_structural_indexes
      · obtain ⟨_, _, c3, c4⟩ := not_scalar_class (h 0 (by
          have : pj.init.n_structural_indexes = pj.n_structural_indexes := rfl
          omega))
        have d3 : is_digit (buf (pj.init.structural_indexes 0)) = false := c3
        have d4 : ¬ buf (pj.init.structural_indexes 0) = ch_minus := c4
        rw [if_pos h2, d3, if_neg d4]
        simp
      · rw [if_neg h2]
    unfold parse_numbers parse_numbers_loop
    rw [hlast, foldl_fixed (parse_numbers_body D buf) (false, pj.init) _ (by
      intro j hj
      rw [List.mem_range'_1] at hj
      obtain ⟨_, _, c3, c4⟩ := not_scalar_class (h j (by
        have : pj.init.n_structural_indexes = pj.n_structural_indexes := rfl
        omega))
      have d3 : is_digit (buf (pj.init.structural_indexes j)) = false := c3
      have d4 : ¬ buf (pj.init.structural_indexes j) = ch_minus := c4
      unfold parse_numbers_body parse_numbers_switch
      simp only [d3, if_neg d4]
      simp)]
    rfl
  have hat : (parse_atoms D buf len pj.init 0).1 = .SUCCESS := by
    have hlast : (parse_atoms_last D buf len pj.init 0).1 = false := by
      unfold parse_atoms_last
      by_cases h2 : 0 + 2 = pj.init.n_structural_indexes
      · have c2 := (not_scalar_class (h 0 (by
          have : pj.init.n_structural_indexes = pj.n_structural_indexes := rfl
          omega))).2.1
        have d2 : is_atom_start (buf (pj.init.structural_indexes 0)) = false := c2
        rw [if_pos h2, d2]
        simp
      · rw [if_neg h2]
    unfold parse_atoms
    rw [hlast, foldl_fixed (parse_atoms_body D buf pj.init) false _ (by
      intro j hj
      rw [List.mem_range'_1] at hj
      have c2 := (not_scalar_class (h j (by
        have : pj.init.n_structural_indexes = pj.n_structural_indexes := rfl
        omega))).2.1
      have d2 : is_atom_start (buf (pj.init.structural_indexes j)) = false := c2
      unfold parse_atoms_body
      simp [d2])]
    rfl
  unfold prepass_ok
  rw [hs, hnum]
  exact ⟨rfl, rfl, hat⟩

theorem nested_brackets_succ (k : Nat) :
    nested_brackets (k + 1) = ch_lbracket :: (nested_brackets k ++ [ch_rbracket]) := by
  unfold nested_brackets
  rw [List.replicate_succ, List.replicate_succ']
  simp

theorem nested_brackets_length (k : Nat) : (nested_brackets k).length = 2 * k := by
  simp [nested_brackets]
  omega

theorem nested_brackets_getD (k x : Nat) (hx : x < 2 * k) :
    (nested_brackets k).getD x 0 = ch_lbracket ∨ (nested_brackets k).getD x 0 = ch_rbracket := by
  unfold nested_brackets
  rw [List.getD_eq_getElem?_getD]
  by_cases h : x < k
  · left
    rw [List.getElem?_append_left (by simpa using h)]
    simp [h]
  · right
    have hxk : x - k < (List.replicate k ch_rbracket).length := by
      simp only [List.length_replicate]; omega
    rw [List.getElem?_append_right (by simp only [List.length_replicate]; omega)]
    simp only [List.length_replicate]
    rw [List.getElem?_eq_getElem hxk]
    simp

/-- The entries of `k + 1` nested brackets written from tape index `a` on: the start
entry of the pair at depth `t` points after its end entry, the end entry to its
start entry. -/
theorem emits_nested (D : ScalarDecoders) (buf : Nat → Nat) (len : Nat) (pj : ParsedJson)
    (k : Nat) : ∀ j a, ∃ es, Emits D buf len pj .value (k + 1) (nested_brackets (k + 1)) j a es ∧
      es.length = 2 * (k + 1) ∧
      ∀ t, t < k + 1 → es[t]? = some ⟨a + 2 * (k + 1) - t, ch_lbracket⟩ ∧
        es[2 * (k + 1) - 1 - t]? = some ⟨a + t, ch_rbracket⟩ := by
  induction k with
  | zero =>
    intro j a
    refine ⟨[⟨a + 2, ch_lbracket⟩, ⟨a, ch_rbracket⟩], Emits.empty_array j a, rfl, ?_⟩
    intro t ht
    have : t = 0 := by omega
    subst this
    exact ⟨rfl, rfl⟩
  | succ k ih =>
    intro j a
    obtain ⟨es, he, hl, hes⟩ := ih (j + 1) (a + 1)
    refine ⟨⟨a + es.length + 2, ch_lbracket⟩ :: (es ++ [⟨a, ch_rbracket⟩]), ?_, ?_, ?_⟩
    · rw [nested_brackets_succ (k + 1)]
      exact Emits.array (k + 1) _ j a es (Emits.element (k + 1) _ (j + 1) (a + 1) es he)
    · simp only [List.length_cons, List.length_append, List.length_nil]
      omega
    · intro t ht
      cases t with
      | zero =>
        refine ⟨?_, ?_⟩
        · rw [List.getElem?_cons_zero, hl]
          have : a + 2 * (k + 1) + 2 = a + 2 * (k + 1 + 1) - 0 := by omega
          rw [this]
        · have e : 2 * (k + 1 + 1) - 1 - 0 = (2 * (k + 1)) + 1 := by omega
          rw [e, List.getElem?_cons_succ, List.getElem?_append_right (by omega), hl,
            Nat.sub_self]
          rfl
      | succ t =>
        obtain ⟨h1, h2⟩ := hes t (by omega)
        refine ⟨?_, ?_⟩
        · rw [List.getElem?_cons_succ, List.getElem?_append_left (by omega), h1]
          have : a + 1 + 2 * (k + 1) - t = a + 2 * (k + 1 + 1) - (t + 1) := by omega
          rw [this]
        · have e : 2 * (k + 1 + 1) - 1 - (t + 1) = (2 * (k + 1) - 1 - t) + 1 := by omega
          rw [e, List.getElem?_cons_succ, List.getElem?_append_left (by omega), h2]
          have : a + 1 + t = a + (t + 1) := by omega
          rw [this]

/-- The bytes at the structural offsets of a document all of whose bytes are
structural are the bytes of the document. -/
theorem structural_bytes_dense (bytes : List Nat) (pad byte_capacity depth_capacity n : Nat)
    (hn : bytes.length = n) :
    structural_bytes (buffer_of bytes pad) (fresh_workspace (dense_index n) byte_capacity
      depth_capacity) = bytes := by
  subst hn
  apply List.ext_getElem
  · simp [structural_bytes, fresh_workspace, dense_index]
  · intro i h1 h2
    simp only [structural_bytes, List.getElem_map, List.getElem_range, structural_byte,
      fresh_workspace, dense_index, buffer_of]
    have hi : i < (List.range (bytes.length + 1)).length := by
      simp only [List.length_range]; omega
    rw [List.getD_eq_getElem _ _ hi, List.getElem_range, List.getD_eq_getElem _ _ h2]

/-- The machine on `k` nested brackets: the document is accepted and its tape is the
root pair around `k` matched pairs. -/
theorem nested_brackets_run (D : ScalarDecoders) (buf : Nat → Nat) (len : Nat) (pj : ParsedJson)
    (k : Nat) (hk1 : 1 ≤ k) (hk : k + 1 < pj.depth_capacity) (hcap : len ≤ pj.byte_capacity)
    (hb : structural_bytes buf pj = nested_brackets k) :
    (unified_machine D buf len pj).outcome = .returned .SUCCESS ∧
    (unified_machine D buf len pj).pj.current_loc = 2 * k + 2 ∧
    (unified_machine D buf len pj).pj.tape 0 = ⟨2 * k + 1, ch_r⟩ ∧
    (unified_machine D buf len pj).pj.tape (2 * k + 1) = ⟨0, ch_r⟩ ∧
    ∀ t, t < k →
      (unified_machine D buf len pj).pj.tape (1 + t) = ⟨2 * k + 1 - t, ch_lbracket⟩ ∧
      (unified_machine D buf len pj).pj.tape (2 * k - t) = ⟨1 + t, ch_rbracket⟩ := by
  obtain ⟨k0, rfl⟩ : ∃ k0, k = k0 + 1 := ⟨k - 1, by omega⟩
  have hbl : pj.n_structural_indexes - 1 = 2 * (k0 + 1) := by
    have := congrArg List.length hb
    rw [nested_brackets_length] at this
    simpa [structural_bytes] using this
  have hbyte : ∀ x, x + 1 < pj.n_structural_indexes →
      structural_byte buf pj x = ch_lbracket ∨ structural_byte buf pj x = ch_rbracket := by
    intro x hx
    have hx2 : x < 2 * (k0 + 1) := by omega
    have e : structural_byte buf pj x = (structural_bytes buf pj).getD x 0 := by
      have hxl : x < (structural_bytes buf pj).length := by
        rw [hb, nested_brackets_length]; exact hx2
      rw [List.getD_eq_getElem _ _ hxl]
      simp [structural_bytes]
    rw [e, hb]
    exact nested_brackets_getD (k0 + 1) x hx2
  have hpre : prepass_ok D buf len pj := by
    apply prepass_no_scalars
    intro x hx
    rcases hbyte x hx with h | h <;> rw [h] <;> decide
  have hlen : ∀ x, x + 1 < pj.n_structural_indexes → structural_byte buf pj x = ch_quote →
      (string_bytes_at D buf pj x).length < 4294967296 := by
    intro x hx hq
    rcases hbyte x hx with h | h <;> rw [h] at hq <;> exact absurd hq (by decide)
  obtain ⟨es, he, hl, hes⟩ := emits_nested D buf len pj k0 0 1
  rw [← hb] at he
  obtain ⟨r1, r2, r3, r4, r5, _⟩ := emits_run D buf len pj hcap hpre hlen he hk
  rw [hl] at r2 r3 r5
  refine ⟨r1, r2, r3, r5, ?_⟩
  intro t ht
  obtain ⟨h1, h2⟩ := hes t ht
  refine ⟨?_, ?_⟩
  · rw [r4 t _ h1]
    have : 1 + 2 * (k0 + 1) - t = 2 * (k0 + 1) + 1 - t := by omega
    rw [this]
  · have := r4 _ _ h2
    have e : 1 + (2 * (k0 + 1) - 1 - t) = 2 * (k0 + 1) - t := by omega
    rw [e] at this
    exact this

end simdjson

namespace simdjson
open StructuralParser

/-- C11, failing input.  The document `[[]` reaches the end of input with its outer
array still open.  The code returned depends on the padding byte at offset 3, which
`array_continue` reads through the sentinel index: a double quote gives
`STRING_ERROR`, the digit `1` gives `NUMBER_ERROR`, `t` gives `T_ATOM_ERROR`, and a
comma makes the walk read outside the structural index; a zero byte gives
`TAPE_ERROR`. -/
theorem unclosed_array_code_follows_padding :
    (unified_machine sample_decoders (buffer_of (bytes_of "[[]") ch_quote) 3
      (fresh_workspace (dense_index 3) 1000 1024)).outcome = .returned .STRING_ERROR ∧
    (unified_machine sample_decoders (buffer_of (bytes_of "[[]") 49) 3
      (fresh_workspace (dense_index 3) 1000 1024)).outcome = .returned .NUMBER_ERROR ∧
    (unified_machine sample_decoders (buffer_of (bytes_of "[[]") ch_t) 3
      (fresh_workspace (dense_index 3) 1000 1024)).outcome = .returned .T_ATOM_ERROR ∧
    (unified_machine sample_decoders (buffer_of (bytes_of "[[]") ch_comma) 3
      (fresh_workspace (dense_index 3) 1000 1024)).outcome = .overrun ∧
    (unified_machine sample_decoders (buffer_of (bytes_of "[[]") 0) 3
      (fresh_workspace (dense_index 3) 1000 1024)).outcome = .returned .TAPE_ERROR := by
  decide

end simdjson

namespace simdjson
open StructuralParser

/-- C12, counterexample.  In `1 2` on a buffer padded with NUL bytes the root value `1`
is followed by the structural `2`, the length fits the byte capacity and the nesting
the depth capacity; yet the machine returns `NUMBER_ERROR` and not `TAPE_ERROR`: the
pre-pass over the numbers, which runs before the walk, fails at `2`, the byte after it
being neither whitespace nor an operator.  On a buffer padded with spaces the pre-pass
succeeds and the same document gives `TAPE_ERROR`. -/
theorem leftover_number_fails_in_prepass :
    structural_bytes (buffer_of (bytes_of "1 2") 0) (fresh_workspace [0, 2, 3] 1000 1024)
      = [49] ++ [50] ∧
    Spells .value 0 [49] ∧
    3 ≤ (fresh_workspace [0, 2, 3] 1000 1024).byte_capacity ∧
    0 + 1 < (fresh_workspace [0, 2, 3] 1000 1024).depth_capacity ∧
    ¬ prepass_ok sample_decoders (buffer_of (bytes_of "1 2") 0) 3
      (fresh_workspace [0, 2, 3] 1000 1024) ∧
    (unified_machine sample_decoders (buffer_of (bytes_of "1 2") 0) 3
      (fresh_workspace [0, 2, 3] 1000 1024)).outcome = .returned .NUMBER_ERROR ∧
    (unified_machine sample_decoders (buffer_of (bytes_of "1 2") 0) 3
      (fresh_workspace [0, 2, 3] 1000 1024)).outcome ≠ .returned .TAPE_ERROR ∧
    (unified_machine sample_decoders (buffer_of (bytes_of "1 2") 32) 3
      (fresh_workspace [0, 2, 3] 1000 1024)).outcome = .returned .TAPE_ERROR :=
  ⟨by decide, Spells.scalar 49 (by decide), by decide, by decide,
    by unfold prepass_ok; decide, by decide, by decide, by decide⟩

/-- C12, amended.  Let the pre-pass succeed and let the structural bytes be a root value `v`,
whose nesting fits the depth capacity, followed by the bytes `rest`.  The walk
consumes `v` and reaches `finish` with `i = |v|`, the next unread structural index.
If any structural other than the sentinel remains (`rest` is not empty, as in
`[] []`, `1 2` before a space or `{}}`), `unified_machine` returns `TAPE_ERROR`; it returns
`SUCCESS` exactly when `i + 1 = n_structural_indexes`, that is when nothing remains. -/
theorem leftover_structurals_tape_error (D : ScalarDecoders) (buf : Nat → Nat) (len : Nat)
    (pj : ParsedJson) (k : Nat) (v rest : List Nat)
    (hcap : len ≤ pj.byte_capacity) (hpre : prepass_ok D buf len pj)
    (hb : structural_bytes buf pj = v ++ rest) (hv : Spells .value k v)
    (hk : k + 1 < pj.depth_capacity) :
    (final_config D buf len pj).1 = .finish ∧
    (final_config D buf len pj).2.i = v.length ∧
    (rest ≠ [] → (unified_machine D buf len pj).outcome = .returned .TAPE_ERROR) ∧
    ((unified_machine D buf len pj).outcome = .returned .SUCCESS ↔
      (final_config D buf len pj).2.i + 1 = pj.n_structural_indexes) ∧
    ((final_config D buf len pj).2.i + 1 = pj.n_structural_indexes ↔ rest = []) := by
  have hlen := spells_nonempty hv
  have hbl : pj.n_structural_indexes - 1 = v.length + rest.length := by
    have := congrArg List.length hb
    simpa [structural_bytes] using this
  obtain ⟨e, _, _, _, _, _⟩ := run_of_walk D buf len pj (by omega) hcap hpre (by omega)
  rw [e, final_config_eq]
  obtain ⟨_, a2, a3, a4, a5, _⟩ := walk_pj_keeps D buf len pj
  rw [structural_bytes_eq_seg] at hb
  have hseg0 := (seg_eq_append buf pj 0 _ v rest hb).2.1
  generalize walk_pj D buf len pj = pjw at *
  obtain ⟨b1, b2, b3, b4, b5, b6, b7, _⟩ := walk_start_facts buf len pjw a5
  have hfuel : walk_fuel pjw = walk_fuel (walk_start buf len pjw).pj := by
    simp [walk_fuel, b5]
  obtain ⟨q, hw, hqi, hqd, hqc, hqn⟩ := walk_root_value buf (walk_start buf len pjw) hv b1
    (by rw [b2]; simp [structural_byte, b6]) b3 b7
    (by
      have hs1 : seg buf (walk_start buf len pjw).pj 0 v.length = seg buf pj 0 v.length := by
        have hf : structural_byte buf (walk_start buf len pjw).pj = structural_byte buf pj := by
          funext j
          simp only [structural_byte, b6, a4]
        simp only [seg, hf]
      rw [hs1]; exact hseg0)
    (by rw [b5, a3]; omega) (by rw [b4, a2]; exact hk)
  rw [hfuel, hw]
  have hqn2 : q.pj.n_structural_indexes = pj.n_structural_indexes := by
    rw [hqn, b5, a3]
  have hc : (conclude (Label.finish, q)).outcome = .returned q.finish.1 := rfl
  refine ⟨rfl, hqi, ?_, ?_, ?_⟩
  · intro hr
    have hrl : 0 < rest.length := List.length_pos.mpr hr
    rw [hc, finish_tape_error q (by rw [hqi, hqn2]; omega)]
  · rw [hc]
    show Outcome.returned q.finish.1 = .returned .SUCCESS ↔ q.i + 1 = _
    constructor
    · intro h
      have h2 : q.finish.1 = .SUCCESS := by injection h
      have := ((finish_success q).1 h2).1
      rw [← hqn2]; exact this
    · intro h
      have : q.finish.1 = .SUCCESS :=
        (finish_success q).2 ⟨by rw [hqn2]; exact h, by rw [hqd], by rw [hqd]; exact hqc⟩
      rw [this]
  · show q.i + 1 = _ ↔ _
    rw [hqi]
    constructor
    · intro h
      exact List.length_eq_zero.mp (by omega)
    · intro h
      rw [h] at hbl
      simp at hbl
      omega

/-- C12, amended, on the samples of the claim.  In `[] []` the root value `[]` is followed
by two more structurals, in `1 2` on a buffer padded with spaces the root value `1` is
followed by one, and so is the root value of the object followed by a closing brace:
each time the pre-pass succeeds and the machine returns `TAPE_ERROR`. -/
theorem leftover_structurals_tape_error_witness :
    (5 ≤ (fresh_workspace [0, 1, 3, 4, 5] 1000 1024).byte_capacity ∧
      prepass_ok sample_decoders (buffer_of (bytes_of "[] []") 0) 5
        (fresh_workspace [0, 1, 3, 4, 5] 1000 1024) ∧
      structural_bytes (buffer_of (bytes_of "[] []") 0)
          (fresh_workspace [0, 1, 3, 4, 5] 1000 1024)
        = [ch_lbracket, ch_rbracket] ++ [ch_lbracket, ch_rbracket] ∧
      Spells .value 1 [ch_lbracket, ch_rbracket] ∧
      1 + 1 < (fresh_workspace [0, 1, 3, 4, 5] 1000 1024).depth_capacity) ∧
    (unified_machine sample_decoders (buffer_of (bytes_of "[] []") 0) 5
      (fresh_workspace [0, 1, 3, 4, 5] 1000 1024)).outcome = .returned .TAPE_ERROR ∧
    (unified_machine sample_decoders (buffer_of (bytes_of "1 2") 32) 3
      (fresh_workspace [0, 2, 3] 1000 1024)).outcome = .returned .TAPE_ERROR ∧
    (unified_machine sample_decoders (buffer_of [ch_lbrace, ch_rbrace, ch_rbrace] 0) 3
      (fresh_workspace [0, 1, 2, 3] 1000 1024)).outcome = .returned .TAPE_ERROR :=
  ⟨⟨by decide, by unfold prepass_ok; decide, by decide, Spells.empty_array, by decide⟩,
    (leftover_structurals_tape_error sample_decoders (buffer_of (bytes_of "[] []") 0) 5
      (fresh_workspace [0, 1, 3, 4, 5] 1000 1024) 1 [ch_lbracket, ch_rbracket]
      [ch_lbracket, ch_rbracket] (by decide) (by unfold prepass_ok; decide) (by decide)
      Spells.empty_array (by decide)).2.2.1 (by decide),
    (leftover_structurals_tape_error sample_decoders (buffer_of (bytes_of "1 2") 32) 3
      (fresh_workspace [0, 2, 3] 1000 1024) 0 [49] [50]
      (by decide) (by unfold prepass_ok; decide) (by decide)
      (Spells.scalar 49 (by decide)) (by decide)).2.2.1 (by decide),
    (leftover_structurals_tape_error sample_decoders
      (buffer_of [ch_lbrace, ch_rbrace, ch_rbrace] 0) 3
      (fresh_workspace [0, 1, 2, 3] 1000 1024) 1 [ch_lbrace, ch_rbrace] [ch_rbrace]
      (by decide) (by unfold prepass_ok; decide) (by decide)
      Spells.empty_object (by decide)).2.2.1 (by decide)⟩

end simdjson

namespace simdjson
open StructuralParser

/-- C13.  On every return of `unified_machine`, for every decoder, buffer and
workspace, the `error_code` stored in the parser equals the returned code, and the
parser's `valid` flag is true if and only if the returned code is `SUCCESS`. -/
theorem stored_code_and_valid_flag (D : ScalarDecoders) (buf : Nat → Nat) (len : Nat)
    (pj : ParsedJson) (code : ErrorValues)
    (h : (unified_machine D buf len pj).outcome = .returned code) :
    (unified_machine D buf len pj).pj.error_code = code ∧
    ((unified_machine D buf len pj).pj.valid = true ↔ code = .SUCCESS) :=
  machine_flags D buf len pj code h

/-- C13, on two samples: the accepted document `[1,[2,3],[]]` and the refused document
`[1 true]`. -/
theorem stored_code_and_valid_flag_witness :
    ((unified_machine sample_decoders (buffer_of (bytes_of "[1,[2,3],[]]") 0) 12
        (fresh_workspace (dense_index 12) 1000 1024)).outcome = .returned .SUCCESS ∧
      (unified_machine sample_decoders (buffer_of (bytes_of "[1,[2,3],[]]") 0) 12
        (fresh_workspace (dense_index 12) 1000 1024)).pj.error_code = .SUCCESS ∧
      ((unified_machine sample_decoders (buffer_of (bytes_of "[1,[2,3],[]]") 0) 12
        (fresh_workspace (dense_index 12) 1000 1024)).pj.valid = true ↔
        ErrorValues.SUCCESS = .SUCCESS)) ∧
    ((unified_machine sample_decoders (buffer_of (bytes_of "[1 true]") 0) 8
        (fresh_workspace [0, 1, 3, 7, 8] 1000 1024)).outcome = .returned .T_ATOM_ERROR ∧
      (unified_machine sample_decoders (buffer_of (bytes_of "[1 true]") 0) 8
        (fresh_workspace [0, 1, 3, 7, 8] 1000 1024)).pj.error_code = .T_ATOM_ERROR ∧
      ((unified_machine sample_decoders (buffer_of (bytes_of "[1 true]") 0) 8
        (fresh_workspace [0, 1, 3, 7, 8] 1000 1024)).pj.valid = true ↔
        ErrorValues.T_ATOM_ERROR = .SUCCESS)) :=
  ⟨⟨by decide, stored_code_and_valid_flag sample_decoders _ 12 _ .SUCCESS (by decide)⟩,
    ⟨by decide, stored_code_and_valid_flag sample_decoders _ 8 _ .T_ATOM_ERROR (by decide)⟩⟩

end simdjson

namespace simdjson
open StructuralParser

/-- C14.  Let `pj` and `pj1` be two workspaces for the same document: the same byte and
depth capacities and the same structural index, whatever a previous parse (accepted or
refused) left in their tape, string arena, number buffer, scope stacks, `valid` flag
and `error_code`.  On the same bytes and length `unified_machine` ends the same way on
both, stores the same `error_code` and the same `valid` flag on every return, and, when
the document is accepted (its decoded strings being shorter than `2^32` bytes, so that
their length prefixes hold their lengths), leaves the same tape: the same end of tape
and the same entry at every index below it.  The workspace that a parse leaves is again
a workspace for the same document, so parsing the same input a second time on the same
parser gives the same code and the same tape. -/
theorem parse_depends_on_document_only (D : ScalarDecoders) (buf : Nat → Nat) (len : Nat)
    (pj pj1 : ParsedJson) (hdoc : SameDocument pj pj1)
    (hlen : ∀ x, x + 1 < pj.n_structural_indexes → structural_byte buf pj x = ch_quote →
      (string_bytes_at D buf pj x).length < 4294967296) :
    (unified_machine D buf len pj1).outcome = (unified_machine D buf len pj).outcome ∧
    (∀ code, (unified_machine D buf len pj).outcome = .returned code →
      (unified_machine D buf len pj1).pj.error_code = code ∧
      (unified_machine D buf len pj).pj.error_code = code ∧
      (unified_machine D buf len pj1).pj.valid = (unified_machine D buf len pj).pj.valid) ∧
    ((unified_machine D buf len pj).outcome = .returned .SUCCESS →
      (unified_machine D buf len pj1).pj.current_loc
        = (unified_machine D buf len pj).pj.current_loc ∧
      ∀ t, t < (unified_machine D buf len pj).pj.current_loc →
        (unified_machine D buf len pj1).pj.tape t
          = (unified_machine D buf len pj).pj.tape t) ∧
    SameDocument pj (unified_machine D buf len pj).pj ∧
    (unified_machine D buf len (unified_machine D buf len pj).pj).outcome
      = (unified_machine D buf len pj).outcome ∧
    ((unified_machine D buf len pj).outcome = .returned .SUCCESS →
      ∀ t, t < (unified_machine D buf len pj).pj.current_loc →
        (unified_machine D buf len (unified_machine D buf len pj).pj).pj.tape t
          = (unified_machine D buf len pj).pj.tape t) := by
  have hsame := machine_same D buf len pj pj1 hdoc
  have hkeep := machine_keeps_document D buf len pj
  refine ⟨hsame.1, ?_, ?_, hkeep, (machine_same D buf len pj _ hkeep).1, ?_⟩
  · intro code hc
    obtain ⟨a1, a2⟩ := machine_flags D buf len pj code hc
    obtain ⟨b1, b2⟩ := machine_flags D buf len pj1 code (by rw [hsame.1]; exact hc)
    refine ⟨b1, a1, ?_⟩
    rw [Bool.eq_iff_iff, a2, b2]
  · intro hok
    exact machine_same_tape D buf len pj pj1 hdoc hlen hok
  · intro hok
    exact (machine_same_tape D buf len pj _ hkeep hlen hok).2

/-- C14, on a sample: the document `[1,[2,3],[]]` parsed with the workspace that the
refused parse of `[1 true]` left, the structural index being the one of the new
document, and with a fresh workspace: the same code and the same thirteen tape
entries. -/
theorem parse_depends_on_document_only_witness :
    SameDocument (fresh_workspace (dense_index 12) 1000 1024)
      { (unified_machine sample_decoders (buffer_of (bytes_of "[1 true]") 0) 8
          (fresh_workspace [0, 1, 3, 7, 8] 1000 1024)).pj with
        n_structural_indexes := 13
        structural_indexes := fun j => (dense_index 12).getD j 0 } ∧
    (unified_machine sample_decoders (buffer_of (bytes_of "[1 true]") 0) 8
      (fresh_workspace [0, 1, 3, 7, 8] 1000 1024)).pj.error_code = .T_ATOM_ERROR ∧
    (unified_machine sample_decoders (buffer_of (bytes_of "[1,[2,3],[]]") 0) 12
      { (unified_machine sample_decoders (buffer_of (bytes_of "[1 true]") 0) 8
          (fresh_workspace [0, 1, 3, 7, 8] 1000 1024)).pj with
        n_structural_indexes := 13
        structural_indexes := fun j => (dense_index 12).getD j 0 }).outcome
      = (unified_machine sample_decoders (buffer_of (bytes_of "[1,[2,3],[]]") 0) 12
          (fresh_workspace (dense_index 12) 1000 1024)).outcome ∧
    (unified_machine sample_decoders (buffer_of (bytes_of "[1,[2,3],[]]") 0) 12
      (fresh_workspace (dense_index 12) 1000 1024)).outcome = .returned .SUCCESS ∧
    ∀ t, t < 13 →
      (unified_machine sample_decoders (buffer_of (bytes_of "[1,[2,3],[]]") 0) 12
        { (unified_machine sample_decoders (buffer_of (bytes_of "[1 true]") 0) 8
            (fresh_workspace [0, 1, 3, 7, 8] 1000 1024)).pj with
          n_structural_indexes := 13
          structural_indexes := fun j => (dense_index 12).getD j 0 }).pj.tape t
        = (unified_machine sample_decoders (buffer_of (bytes_of "[1,[2,3],[]]") 0) 12
            (fresh_workspace (dense_index 12) 1000 1024)).pj.tape t :=
  ⟨⟨by decide, by decide, by decide, rfl⟩, by decide,
    (parse_depends_on_document_only sample_decoders
      (buffer_of (bytes_of "[1,[2,3],[]]") 0) 12 (fresh_workspace (dense_index 12) 1000 1024)
      { (unified_machine sample_decoders (buffer_of (bytes_of "[1 true]") 0) 8
          (fresh_workspace [0, 1, 3, 7, 8] 1000 1024)).pj with
        n_structural_indexes := 13
        structural_indexes := fun j => (dense_index 12).getD j 0 }
      ⟨by decide, by decide, by decide, rfl⟩
      (fun x _ _ => sample_string_length _ _ x)).1,
    by decide,
    fun t ht =>
      ((parse_depends_on_document_only sample_decoders
        (buffer_of (bytes_of "[1,[2,3],[]]") 0) 12 (fresh_workspace (dense_index 12) 1000 1024)
        { (unified_machine sample_decoders (buffer_of (bytes_of "[1 true]") 0) 8
            (fresh_workspace [0, 1, 3, 7, 8] 1000 1024)).pj with
          n_structural_indexes := 13
          structural_indexes := fun j => (dense_index 12).getD j 0 }
        ⟨by decide, by decide, by decide, rfl⟩
        (fun x _ _ => sample_string_length _ _ x)).2.2.1 (by decide)).2 t
        (Nat.lt_of_lt_of_le ht (by decide))⟩

end simdjson

namespace simdjson
open StructuralParser

/-- C15.  Let a document be accepted, its decoded strings being shorter than `2^32`
bytes and the number decoder never giving the kind tag of a string.  The payloads of
the string entries that follow the root start entry, read in tape order, are the
arena offsets of the records of the strings of the input, read in source order: the
`k`-th string entry points to the record of the `k`-th string.  For the string at
position `x`, `parse_strings` decoded it, the offset of its record is the sum of
`4 + L + 1` over the strings at the earlier positions, `L` being the decoded length, the
string buffer holds at this offset the record (the 32-bit little-endian length, the
bytes, one zero byte), and the entry of the string, at tape index `tape_index x`, has
this offset as payload. -/
theorem string_entries_point_to_records (D : ScalarDecoders) (buf : Nat → Nat) (len : Nat)
    (pj : ParsedJson)
    (hlen : ∀ x, x + 1 < pj.n_structural_indexes → structural_byte buf pj x = ch_quote →
      (string_bytes_at D buf pj x).length < 4294967296)
    (htag : ∀ b i m r, D.parse_number b i m = some r → r.1 ≠ ch_quote)
    (hok : (unified_machine D buf len pj).outcome = .returned .SUCCESS) :
    (((List.range ((unified_machine D buf len pj).pj.current_loc - 2)).map
        (fun t => (unified_machine D buf len pj).pj.tape (1 + t))).filter
        (fun e => decide (e.kind = ch_quote))).map TapeEntry.payload
      = ((List.range (pj.n_structural_indexes - 1)).filter
          (fun x => decide (structural_byte buf pj x = ch_quote))).map
          (arena_offset D buf pj) ∧
    ∀ x, x + 1 < pj.n_structural_indexes → structural_byte buf pj x = ch_quote →
      D.parse_string buf (pj.structural_indexes x) = some (string_bytes_at D buf pj x) ∧
      arena_offset D buf pj x
        = (((List.range x).filter (fun y => decide (structural_byte buf pj y = ch_quote))).map
            (fun y => 4 + (string_bytes_at D buf pj y).length + 1)).sum ∧
      (∀ t, t < (string_record D buf pj x).length →
        (unified_machine D buf len pj).pj.string_buf (arena_offset D buf pj x + t)
          = (string_record D buf pj x).getD t 0) ∧
      (unified_machine D buf len pj).pj.tape (tape_index buf pj x)
        = ⟨arena_offset D buf pj x, ch_quote⟩ := by
  obtain ⟨k, es, he, _, r2, _, r4, _, r6⟩ := accepted_emits D buf len pj hlen hok
  obtain ⟨_, hpre, _⟩ := accepted_spells D buf len pj hok
  have hbl : (structural_bytes buf pj).length = pj.n_structural_indexes - 1 := by
    simp [structural_bytes]
  have hseg : seg buf pj 0 (structural_bytes buf pj).length = structural_bytes buf pj := by
    rw [hbl, structural_bytes_eq_seg]
  have hes : (List.range ((unified_machine D buf len pj).pj.current_loc - 2)).map
      (fun t => (unified_machine D buf len pj).pj.tape (1 + t)) = es := by
    rw [r2, Nat.add_sub_cancel]
    apply List.ext_getElem
    · simp
    · intro i h1 h2
      simp only [List.getElem_map, List.getElem_range]
      exact r4 i _ (List.getElem?_eq_getElem h2)
  have htag1 : ∀ x, is_number_start (structural_byte buf pj x) = true →
      (number_at D buf len pj x).1 ≠ ch_quote := by
    intro x _
    unfold number_at
    cases hnum : D.parse_number (number_source buf len pj) (pj.structural_indexes x)
        (decide (structural_byte buf pj x = ch_minus)) with
    | none => decide
    | some r => exact htag _ _ _ r hnum
  refine ⟨?_, ?_⟩
  · rw [hes, emits_strings he htag1 hseg, hbl, List.range_eq_range']
  · intro x hx hq
    refine ⟨parse_strings_decoded D buf pj pj.init rfl rfl hpre.1 x hx hq,
      arena_offset_sum D buf pj x, r6.1 x hx hq, ?_⟩
    have := (accepted_layout D buf len pj hlen hok).2 x hx 0 ⟨arena_offset D buf pj x, ch_quote⟩
      (by rw [scalar_entries_string D buf len pj x hq]; rfl)
    rw [Nat.add_zero] at this
    exact this

/-- C15, on a sample: in `["ab","c"]` the two string entries have the payloads `0` and
`7`, the offsets of the records of `ab` (`4 + 2 + 1` bytes) and of `c`. -/
theorem string_entries_point_to_records_witness :
    (unified_machine sample_decoders (buffer_of (bytes_of "[\"ab\",\"c\"]") 0) 10
      (fresh_workspace [0, 1, 5, 6, 9, 10] 1000 1024)).outcome = .returned .SUCCESS ∧
    (((List.range ((unified_machine sample_decoders (buffer_of (bytes_of "[\"ab\",\"c\"]") 0) 10
          (fresh_workspace [0, 1, 5, 6, 9, 10] 1000 1024)).pj.current_loc - 2)).map
        (fun t => (unified_machine sample_decoders (buffer_of (bytes_of "[\"ab\",\"c\"]") 0) 10
          (fresh_workspace [0, 1, 5, 6, 9, 10] 1000 1024)).pj.tape (1 + t))).filter
        (fun e => decide (e.kind = ch_quote))).map TapeEntry.payload = [0, 7] ∧
    (List.range 13).map
      (unified_machine sample_decoders (buffer_of (bytes_of "[\"ab\",\"c\"]") 0) 10
        (fresh_workspace [0, 1, 5, 6, 9, 10] 1000 1024)).pj.string_buf
      = [2, 0, 0, 0, 97, 98, 0, 1, 0, 0, 0, 99, 0] :=
  ⟨by decide,
    Eq.trans
      (string_entries_point_to_records sample_decoders
        (buffer_of (bytes_of "[\"ab\",\"c\"]") 0) 10
        (fresh_workspace [0, 1, 5, 6, 9, 10] 1000 1024)
        (fun x _ _ => sample_string_length _ _ x)
        (fun b i m r h => by rcases sample_number_tag b i m r h with e | e <;> rw [e] <;> decide)
        (by decide)).1
      (by decide),
    by decide⟩

end simdjson

namespace simdjson
open StructuralParser

/-- C16.  Let a document be accepted, its decoded strings being shorter than `2^32`
bytes.  The kind tags of the entries that follow the root start entry, read in tape
order, are what the non-sentinel structurals give when read in source order: nothing
for `:` and `,`, the kind tag and the zero tag of the value word for a number, the
structural byte itself for a string, an atom and a bracket.  The entries of the scalar
at position `x` (one string, atom or number) stand at tape index `tape_index x`, which
grows with the position. -/
theorem tape_entries_in_source_order (D : ScalarDecoders) (buf : Nat → Nat) (len : Nat)
    (pj : ParsedJson)
    (hlen : ∀ x, x + 1 < pj.n_structural_indexes → structural_byte buf pj x = ch_quote →
      (string_bytes_at D buf pj x).length < 4294967296)
    (hok : (unified_machine D buf len pj).outcome = .returned .SUCCESS) :
    (List.range ((unified_machine D buf len pj).pj.current_loc - 2)).map
        (fun t => ((unified_machine D buf len pj).pj.tape (1 + t)).kind)
      = (List.range (pj.n_structural_indexes - 1)).flatMap (position_kinds D buf len pj) ∧
    (∀ x, x + 1 < pj.n_structural_indexes →
      ∀ t e, (scalar_entries D buf len pj x)[t]? = some e →
        (unified_machine D buf len pj).pj.tape (tape_index buf pj x + t) = e) ∧
    (∀ x y, x ≤ y → tape_index buf pj x ≤ tape_index buf pj y) ∧
    (∀ x y, x < y → is_scalar_start (structural_byte buf pj x) = true →
      tape_index buf pj x < tape_index buf pj y) := by
  obtain ⟨k, es, he, _, r2, _, r4, _, _⟩ := accepted_emits D buf len pj hlen hok
  have hbl : (structural_bytes buf pj).length = pj.n_structural_indexes - 1 := by
    simp [structural_bytes]
  have hseg : seg buf pj 0 (structural_bytes buf pj).length = structural_bytes buf pj := by
    rw [hbl, structural_bytes_eq_seg]
  refine ⟨?_, (accepted_layout D buf len pj hlen hok).2, ?_, ?_⟩
  · rw [r2, Nat.add_sub_cancel,
      tape_kinds_of_entries (unified_machine D buf len pj).pj.tape es r4,
      emits_kinds he hseg, hbl, List.range_eq_range']
  · intro x y hxy
    exact tape_index_mono buf pj hxy
  · intro x y hxy hs
    have h1 : tape_index buf pj (x + 1) ≤ tape_index buf pj y := tape_index_mono buf pj hxy
    have h2 := tape_index_succ buf pj x
    have h3 := entry_width_scalar D buf len pj x hs
    have h4 : 1 ≤ (scalar_entries D buf len pj x).length := by
      rcases is_scalar_start_cases hs with h | h | h
      · rw [scalar_entries_string D buf len pj x h]; simp
      · rw [scalar_entries_atom D buf len pj x h]; simp
      · rw [scalar_entries_number D buf len pj x h]; simp
    omega

set_option maxRecDepth 100000 in
/-- C16, on a sample: in the object with the keys `a`, `b`, `c` the entries between the
root entries are the start of the object, then three times a string and the two words
of a number (kind `l`), then the end of the object; the three strings point to the
records of `a`, `b` and `c`, in this order. -/
theorem tape_entries_in_source_order_witness :
    (unified_machine sample_decoders
      (buffer_of (bytes_of "\x7b\"a\":1,\"b\":2,\"c\":3\x7d") 0) 19
      (fresh_workspace [0, 1, 4, 5, 6, 7, 10, 11, 12, 13, 16, 17, 18, 19] 1000 1024)).outcome
      = .returned .SUCCESS ∧
    (List.range ((unified_machine sample_decoders
        (buffer_of (bytes_of "\x7b\"a\":1,\"b\":2,\"c\":3\x7d") 0) 19
        (fresh_workspace [0, 1, 4, 5, 6, 7, 10, 11, 12, 13, 16, 17, 18, 19] 1000 1024)
        ).pj.current_loc - 2)).map
      (fun t => ((unified_machine sample_decoders
        (buffer_of (bytes_of "\x7b\"a\":1,\"b\":2,\"c\":3\x7d") 0) 19
        (fresh_workspace [0, 1, 4, 5, 6, 7, 10, 11, 12, 13, 16, 17, 18, 19] 1000 1024)
        ).pj.tape (1 + t)).kind)
      = [ch_lbrace, ch_quote, 108, 0, ch_quote, 108, 0, ch_quote, 108, 0, ch_rbrace] ∧
    (List.range 11).map (fun t => ((unified_machine sample_decoders
        (buffer_of (bytes_of "\x7b\"a\":1,\"b\":2,\"c\":3\x7d") 0) 19
        (fresh_workspace [0, 1, 4, 5, 6, 7, 10, 11, 12, 13, 16, 17, 18, 19] 1000 1024)
        ).pj.tape (1 + t)).payload)
      = [12, 0, 0, 1, 6, 0, 2, 12, 0, 3, 1] ∧
    (List.range 18).map (unified_machine sample_decoders
        (buffer_of (bytes_of "\x7b\"a\":1,\"b\":2,\"c\":3\x7d") 0) 19
        (fresh_workspace [0, 1, 4, 5, 6, 7, 10, 11, 12, 13, 16, 17, 18, 19] 1000 1024)
        ).pj.string_buf
      = [1, 0, 0, 0, 97, 0, 1, 0, 0, 0, 98, 0, 1, 0, 0, 0, 99, 0] :=
  ⟨by decide,
    Eq.trans
      (tape_entries_in_source_order sample_decoders
        (buffer_of (bytes_of "\x7b\"a\":1,\"b\":2,\"c\":3\x7d") 0) 19
        (fresh_workspace [0, 1, 4, 5, 6, 7, 10, 11, 12, 13, 16, 17, 18, 19] 1000 1024)
        (fun x _ _ => sample_string_length _ _ x) (by decide)).1
      (by decide),
    by decide, by decide⟩

end simdjson

namespace simdjson
open StructuralParser

/-- C17.  Let a document be accepted, its decoded strings being shorter than `2^32`
bytes.  The entries between the two root entries of the tape obey the context grammar
`TapeSpells` of one value: directly inside a start entry and an end entry of an object
the entries alternate a string entry, the key, and one value (a scalar or a complete
container), ending after a value; directly inside a start entry and an end entry of an
array there are only values.  The root entries stand around them, at index `0` and at
the last index of the tape. -/
theorem tape_obeys_context_grammar (D : ScalarDecoders) (buf : Nat → Nat) (len : Nat)
    (pj : ParsedJson)
    (hlen : ∀ x, x + 1 < pj.n_structural_indexes → structural_byte buf pj x = ch_quote →
      (string_bytes_at D buf pj x).length < 4294967296)
    (hok : (unified_machine D buf len pj).outcome = .returned .SUCCESS) :
    TapeSpells .value
      ((List.range ((unified_machine D buf len pj).pj.current_loc - 2)).map
        (fun t => (unified_machine D buf len pj).pj.tape (1 + t))) ∧
    2 ≤ (unified_machine D buf len pj).pj.current_loc ∧
    (unified_machine D buf len pj).pj.tape 0
      = ⟨(unified_machine D buf len pj).pj.current_loc - 1, ch_r⟩ ∧
    (unified_machine D buf len pj).pj.tape ((unified_machine D buf len pj).pj.current_loc - 1)
      = ⟨0, ch_r⟩ := by
  obtain ⟨k, es, he, _, r2, r3, r4, r5, _⟩ := accepted_emits D buf len pj hlen hok
  have hbl : (structural_bytes buf pj).length = pj.n_structural_indexes - 1 := by
    simp [structural_bytes]
  have hseg : seg buf pj 0 (structural_bytes buf pj).length = structural_bytes buf pj := by
    rw [hbl, structural_bytes_eq_seg]
  have hes : (List.range ((unified_machine D buf len pj).pj.current_loc - 2)).map
      (fun t => (unified_machine D buf len pj).pj.tape (1 + t)) = es := by
    rw [r2, Nat.add_sub_cancel]
    apply List.ext_getElem
    · simp
    · intro i h1 h2
      simp only [List.getElem_map, List.getElem_range]
      exact r4 i _ (List.getElem?_eq_getElem h2)
  rw [hes, r2]
  exact ⟨emits_tape_spells he hseg, by omega, r3, r5⟩

set_option maxRecDepth 100000 in
/-- C17, on a sample: the entries of the object with the keys `a`, `b`, `c` are a start
entry, three times a key and the two words of a number, and an end entry. -/
theorem tape_obeys_context_grammar_witness :
    (unified_machine sample_decoders
      (buffer_of (bytes_of "\x7b\"a\":1,\"b\":2,\"c\":3\x7d") 0) 19
      (fresh_workspace [0, 1, 4, 5, 6, 7, 10, 11, 12, 13, 16, 17, 18, 19] 1000 1024)).outcome
      = .returned .SUCCESS ∧
    TapeSpells .value
      [⟨12, ch_lbrace⟩, ⟨0, ch_quote⟩, ⟨0, 108⟩, ⟨1, 0⟩, ⟨6, ch_quote⟩, ⟨0, 108⟩, ⟨2, 0⟩,
        ⟨12, ch_quote⟩, ⟨0, 108⟩, ⟨3, 0⟩, ⟨1, ch_rbrace⟩] :=
  ⟨by decide,
    Eq.mp (congrArg (TapeSpells .value) (by decide))
      (tape_obeys_context_grammar sample_decoders
        (buffer_of (bytes_of "\x7b\"a\":1,\"b\":2,\"c\":3\x7d") 0) 19
        (fresh_workspace [0, 1, 4, 5, 6, 7, 10, 11, 12, 13, 16, 17, 18, 19] 1000 1024)
        (fun x _ _ => sample_string_length _ _ x) (by decide)).1⟩

end simdjson

namespace simdjson
open StructuralParser

/-- C18.  For every `k ≥ 1` with `k + 1 < depth_capacity`, the input whose structural
bytes are `k` opening brackets followed by `k` closing brackets is accepted.  Its tape
has `2 * k + 2` entries: the two root entries at the indexes `0` and `2 * k + 1`, and
between them `k` array-start and `k` array-end entries that form `k` nested matched
pairs: for every `t < k` the start entry at index `1 + t` holds the index that follows
the end entry at index `2 * k - t`, and this end entry holds the index `1 + t` of the
start entry. -/
theorem nested_brackets_accepted (D : ScalarDecoders) (buf : Nat → Nat) (len : Nat)
    (pj : ParsedJson) (k : Nat) (hk1 : 1 ≤ k) (hk : k + 1 < pj.depth_capacity)
    (hcap : len ≤ pj.byte_capacity) (hb : structural_bytes buf pj = nested_brackets k) :
    (unified_machine D buf len pj).outcome = .returned .SUCCESS ∧
    (unified_machine D buf len pj).pj.current_loc = 2 * k + 2 ∧
    (unified_machine D buf len pj).pj.tape 0 = ⟨2 * k + 1, ch_r⟩ ∧
    (unified_machine D buf len pj).pj.tape (2 * k + 1) = ⟨0, ch_r⟩ ∧
    ∀ t, t < k →
      (unified_machine D buf len pj).pj.tape (1 + t) = ⟨2 * k + 1 - t, ch_lbracket⟩ ∧
      (unified_machine D buf len pj).pj.tape (2 * k - t) = ⟨1 + t, ch_rbracket⟩ :=
  nested_brackets_run D buf len pj k hk1 hk hcap hb

/-- C18, on the sample of the test `lots_of_brackets`: `k = 1000` with the default depth
capacity `1024`. -/
theorem nested_brackets_accepted_witness :
    (1 ≤ 1000 ∧ 1000 + 1 < (fresh_workspace (dense_index 2000) 2000 DEFAULT_MAX_DEPTH).depth_capacity ∧
      2000 ≤ (fresh_workspace (dense_index 2000) 2000 DEFAULT_MAX_DEPTH).byte_capacity) ∧
    (unified_machine sample_decoders (buffer_of (nested_brackets 1000) 0) 2000
      (fresh_workspace (dense_index 2000) 2000 DEFAULT_MAX_DEPTH)).outcome
      = .returned .SUCCESS ∧
    (unified_machine sample_decoders (buffer_of (nested_brackets 1000) 0) 2000
      (fresh_workspace (dense_index 2000) 2000 DEFAULT_MAX_DEPTH)).pj.current_loc = 2002 :=
  ⟨⟨by decide, by decide, by decide⟩,
    (nested_brackets_accepted sample_decoders (buffer_of (nested_brackets 1000) 0) 2000
      (fresh_workspace (dense_index 2000) 2000 DEFAULT_MAX_DEPTH) 1000 (by decide) (by decide)
      (by decide)
      (structural_bytes_dense (nested_brackets 1000) 0 2000 DEFAULT_MAX_DEPTH 2000
        (nested_brackets_length 1000))).1,
    (nested_brackets_accepted sample_decoders (buffer_of (nested_brackets 1000) 0) 2000
      (fresh_workspace (dense_index 2000) 2000 DEFAULT_MAX_DEPTH) 1000 (by decide) (by decide)
      (by decide)
      (structural_bytes_dense (nested_brackets 1000) 0 2000 DEFAULT_MAX_DEPTH 2000
        (nested_brackets_length 1000))).2.1⟩

end simdjson

namespace simdjson
open StructuralParser

/-- C19.  The padding does not cover the vector load of the skylake_x string helper.
`SIMDJSON_PADDING` is `32` and `parse_string_helper::BYTES_PROCESSED` is `64`, so the
condition `SIMDJSON_PADDING >= BYTES_PROCESSED - 1` that `find_bs_bits_and_quote_bits`
asserts is false.  The load reads the `64` bytes from `src` to `src + 63`; it stays
within the `len` bytes of the input and their padding exactly when it starts at least
`32` bytes before the end of the input.  On an input of one byte the load from offset
`0` reads the offset `63`, past the `1 + 32` bytes of input and padding, and the byte
found there is part of the result. -/
theorem string_helper_load_exceeds_padding :
    SIMDJSON_PADDING = 32 ∧ parse_string_helper.BYTES_PROCESSED = 64 ∧
    ¬ (SIMDJSON_PADDING ≥ parse_string_helper.BYTES_PROCESSED - 1) ∧
    (∀ src, (load_offsets src).length = parse_string_helper.BYTES_PROCESSED ∧
      (load_offsets src).getLast? = some (src + 63)) ∧
    (∀ src len, (∀ o, o ∈ load_offsets src → o < len + SIMDJSON_PADDING) ↔ src + 32 ≤ len) ∧
    (63 ∈ load_offsets 0 ∧ ¬ (63 < 1 + SIMDJSON_PADDING)) ∧
    (find_bs_bits_and_quote_bits (fun j => if j = 63 then ch_quote else 0) 0 100).1.quote_bits
      = 2 ^ 63 ∧
    (find_bs_bits_and_quote_bits (fun _ => 0) 0 100).1.quote_bits = 0 := by
  refine ⟨rfl, rfl, by decide, ?_, ?_, ⟨by decide, by decide⟩, by decide, by decide⟩
  · intro src
    refine ⟨by simp [load_offsets, parse_string_helper.BYTES_PROCESSED], ?_⟩
    unfold load_offsets
    rw [show (64 : Nat) = 63 + 1 from rfl, List.range'_concat]
    simp
  · intro src len
    unfold load_offsets SIMDJSON_PADDING
    constructor
    · intro h
      have := h (src + 63) (by rw [List.mem_range'_1]; omega)
      omega
    · intro h o ho
      rw [List.mem_range'_1] at ho
      omega

end simdjson

namespace simdjson
open StructuralParser

/-- C20.  Integer typing, with the number decoder `sample_parse_number` modelled from
§4.C6.  Let a document be accepted and let the structural at position `x` be an integer
literal without fraction or exponent: an optional minus sign (`neg`), then the decimal
digits `ds` without leading zero, then a structural or whitespace byte.  Its two tape
words stand at `tape_index x`.  Without minus sign and with a value below `2^63` the
entry is signed (kind `l`) and holds the value; with a value in `[2^63, 2^64)` it is
unsigned (kind `u`) and holds the value; with a minus sign and digits of value at most
`2^63` it is signed and holds the two's complement word of the negated value. -/
theorem integer_literal_typing (buf : Nat → Nat) (len : Nat) (pj : ParsedJson) (x : Nat)
    (neg : Bool) (ds : List Nat)
    (hok : (unified_machine sample_decoders buf len pj).outcome = .returned .SUCCESS)
    (hx : x + 1 < pj.n_structural_indexes)
    (hb : structural_byte buf pj x = if neg = true then ch_minus else 48 + ds.getD 0 0)
    (hd : HoldsDigits (number_source buf len pj)
      (if neg = true then pj.structural_indexes x + 1 else pj.structural_indexes x) ds) :
    (neg = false → digits_value ds < 2 ^ 63 →
      (unified_machine sample_decoders buf len pj).pj.tape (tape_index buf pj x) = ⟨0, 108⟩ ∧
      (unified_machine sample_decoders buf len pj).pj.tape (tape_index buf pj x + 1)
        = ⟨digits_value ds, 0⟩ ∧
      as_int64 (digits_value ds) = (digits_value ds : Int)) ∧
    (neg = false → 2 ^ 63 ≤ digits_value ds → digits_value ds < 2 ^ 64 →
      (unified_machine sample_decoders buf len pj).pj.tape (tape_index buf pj x) = ⟨0, 117⟩ ∧
      (unified_machine sample_decoders buf len pj).pj.tape (tape_index buf pj x + 1)
        = ⟨digits_value ds, 0⟩) ∧
    (neg = true → digits_value ds ≤ 2 ^ 63 →
      (unified_machine sample_decoders buf len pj).pj.tape (tape_index buf pj x) = ⟨0, 108⟩ ∧
      (unified_machine sample_decoders buf len pj).pj.tape (tape_index buf pj x + 1)
        = ⟨(2 ^ 64 - digits_value ds) % 2 ^ 64, 0⟩ ∧
      as_int64 ((2 ^ 64 - digits_value ds) % 2 ^ 64) = -(digits_value ds : Int)) := by
  have hd0 := hd.2.1 0 (Nat.pos_of_ne_zero (fun h => hd.1 (List.length_eq_zero.mp h)))
  have hns : is_number_start (structural_byte buf pj x) = true := by
    rw [hb]
    cases neg
    · simp only [Bool.false_eq_true, if_false, is_number_start, is_digit, Bool.or_eq_true,
        Bool.and_eq_true, decide_eq_true_eq]
      left
      omega
    · rfl
  have hneg : decide (structural_byte buf pj x = ch_minus) = neg := by
    rw [hb]
    cases neg
    · simp only [Bool.false_eq_true, if_false, decide_eq_false_iff_not, ch_minus]
      omega
    · rfl
  have hat : number_at sample_decoders buf len pj x
      = (sample_parse_number (number_source buf len pj) (pj.structural_indexes x) neg).getD
          (0, 0) := by
    unfold number_at
    rw [hneg]
    rfl
  have hlay := (accepted_layout sample_decoders buf len pj
    (fun y _ _ => sample_string_length buf pj y) hok).2 x hx
  rw [scalar_entries_number sample_decoders buf len pj x hns, hat] at hlay
  obtain ⟨p1, p2, p3⟩ := sample_parse_number_literal (number_source buf len pj)
    (pj.structural_indexes x) neg ds hd
  refine ⟨?_, ?_, ?_⟩
  · intro hn hv
    rw [p1 hn hv] at hlay
    have e0 := hlay 0 _ rfl
    have e1 := hlay 1 _ rfl
    rw [Nat.add_zero] at e0
    exact ⟨e0, e1, as_int64_pos _ hv⟩
  · intro hn h1 h2
    rw [p2 hn h1 h2] at hlay
    have e0 := hlay 0 _ rfl
    have e1 := hlay 1 _ rfl
    rw [Nat.add_zero] at e0
    exact ⟨e0, e1⟩
  · intro hn hv
    rw [p3 hn hv] at hlay
    have e0 := hlay 0 _ rfl
    have e1 := hlay 1 _ rfl
    rw [Nat.add_zero] at e0
    exact ⟨e0, e1, (as_int64_neg _ hv).2⟩

set_option maxRecDepth 100000 in
/-- C20, on the samples of `tests/integer_tests.cpp`: `INT64_MAX` and `INT64_MIN` are
stored as signed entries, `2^63` and `UINT64_MAX` as unsigned entries. -/
theorem integer_literal_typing_witness :
    ((unified_machine sample_decoders
        (buffer_of (bytes_of (make_json "9223372036854775807")) 0) 28
        (fresh_workspace (make_json_index "9223372036854775807") 1000 1024)).pj.tape 3
        = ⟨0, 108⟩ ∧
      (unified_machine sample_decoders
        (buffer_of (bytes_of (make_json "9223372036854775807")) 0) 28
        (fresh_workspace (make_json_index "9223372036854775807") 1000 1024)).pj.tape (3 + 1)
        = ⟨9223372036854775807, 0⟩) ∧
    ((unified_machine sample_decoders
        (buffer_of (bytes_of (make_json "-9223372036854775808")) 0) 29
        (fresh_workspace (make_json_index "-9223372036854775808") 1000 1024)).pj.tape 3
        = ⟨0, 108⟩ ∧
      (unified_machine sample_decoders
        (buffer_of (bytes_of (make_json "-9223372036854775808")) 0) 29
        (fresh_workspace (make_json_index "-9223372036854775808") 1000 1024)).pj.tape (3 + 1)
        = ⟨9223372036854775808, 0⟩ ∧
      as_int64 9223372036854775808 = -9223372036854775808) ∧
    ((unified_machine sample_decoders
        (buffer_of (bytes_of (make_json "9223372036854775808")) 0) 28
        (fresh_workspace (make_json_index "9223372036854775808") 1000 1024)).pj.tape 3
        = ⟨0, 117⟩ ∧
      (unified_machine sample_decoders
        (buffer_of (bytes_of (make_json "9223372036854775808")) 0) 28
        (fresh_workspace (make_json_index "9223372036854775808") 1000 1024)).pj.tape (3 + 1)
        = ⟨9223372036854775808, 0⟩) ∧
    ((unified_machine sample_decoders
        (buffer_of (bytes_of (make_json "18446744073709551615")) 0) 29
        (fresh_workspace (make_json_index "18446744073709551615") 1000 1024)).pj.tape 3
        = ⟨0, 117⟩ ∧
      (unified_machine sample_decoders
        (buffer_of (bytes_of (make_json "18446744073709551615")) 0) 29
        (fresh_workspace (make_json_index "18446744073709551615") 1000 1024)).pj.tape (3 + 1)
        = ⟨18446744073709551615, 0⟩) :=
  ⟨((integer_literal_typing (buffer_of (bytes_of (make_json "9223372036854775807")) 0) 28
      (fresh_workspace (make_json_index "9223372036854775807") 1000 1024) 3 false
      [9, 2, 2, 3, 3, 7, 2, 0, 3, 6, 8, 5, 4, 7, 7, 5, 8, 0, 7]
      (by decide) (by decide) (by decide) (by unfold HoldsDigits; decide)).1 rfl
      (by decide)).imp id And.left,
    (integer_literal_typing (buffer_of (bytes_of (make_json "-9223372036854775808")) 0) 29
      (fresh_workspace (make_json_index "-9223372036854775808") 1000 1024) 3 true
      [9, 2, 2, 3, 3, 7, 2, 0, 3, 6, 8, 5, 4, 7, 7, 5, 8, 0, 8]
      (by decide) (by decide) (by decide) (by unfold HoldsDigits; decide)).2.2 rfl
      (by decide),
    (integer_literal_typing (buffer_of (bytes_of (make_json "9223372036854775808")) 0) 28
      (fresh_workspace (make_json_index "9223372036854775808") 1000 1024) 3 false
      [9, 2, 2, 3, 3, 7, 2, 0, 3, 6, 8, 5, 4, 7, 7, 5, 8, 0, 8]
      (by decide) (by decide) (by decide) (by unfold HoldsDigits; decide)).2.1 rfl
      (by decide) (by decide),
    (integer_literal_typing (buffer_of (bytes_of (make_json "18446744073709551615")) 0) 29
      (fresh_workspace (make_json_index "18446744073709551615") 1000 1024) 3 false
      [1, 8, 4, 4, 6, 7, 4, 4, 0, 7, 3, 7, 0, 9, 5, 5, 1, 6, 1, 5]
      (by decide) (by decide) (by decide) (by unfold HoldsDigits; decide)).2.1 rfl
      (by decide) (by decide)⟩

end simdjson

namespace simdjson
open StructuralParser

/-! ## The indexes of the scope stacks -/

theorem slots_read (buf : Nat → Nat) (p : StructuralParser) (h : SlotsInBounds p) :
    SlotsInBounds (p.read_next buf) := by
  obtain ⟨h1, h2, h3⟩ := h
  refine ⟨h1, ?_, ?_⟩
  · intro slot loc hm
    simp only [read_next_log, List.mem_append, List.mem_singleton] at hm
    rcases hm with hm | hm
    · exact h2 slot loc hm
    · exact Event.noConfusion hm
  · intro slot s e hm
    simp only [read_next_log, List.mem_append, List.mem_singleton] at hm
    rcases hm with hm | hm
    · exact h3 slot s e hm
    · exact Event.noConfusion hm

theorem slots_write_string (p : StructuralParser) (h : SlotsInBounds p) :
    SlotsInBounds p.write_string := h

theorem slots_write_atom (p : StructuralParser) (h : SlotsInBounds p) :
    SlotsInBounds p.write_atom := h

theorem slots_write_number (p : StructuralParser) (h : SlotsInBounds p) :
    SlotsInBounds p.write_number := h

theorem slots_push (p : StructuralParser) (k : ret_address) (h : SlotsInBounds p)
    (hd : p.depth < p.pj.depth_capacity) : SlotsInBounds (p.push_scope k).2 := by
  obtain ⟨h1, h2, h3⟩ := h
  refine ⟨?_, ?_, ?_⟩
  · simp only [push_scope_depth, push_scope_cap]; omega
  · intro slot loc hm
    rw [push_scope_log] at hm
    simp only [List.mem_append, List.mem_singleton] at hm
    simp only [push_scope_cap]
    rcases hm with hm | hm
    · exact h2 slot loc hm
    · injection hm with e1 e2
      omega
  · intro slot s e hm
    rw [push_scope_log] at hm
    simp only [List.mem_append, List.mem_singleton] at hm
    simp only [push_scope_cap]
    rcases hm with hm | hm
    · exact h3 slot s e hm
    · exact Event.noConfusion hm

theorem slots_pop (p : StructuralParser) (h : SlotsInBounds p)
    (hd : 2 ≤ p.depth) (hc : p.depth < p.pj.depth_capacity) : SlotsInBounds p.pop_scope.2 := by
  obtain ⟨h1, h2, h3⟩ := h
  refine ⟨?_, ?_, ?_⟩
  · simp only [pop_scope_depth, pop_scope_cap]; omega
  · intro slot loc hm
    rw [pop_scope_log] at hm
    simp only [List.mem_append, List.mem_singleton] at hm
    simp only [pop_scope_cap]
    rcases hm with hm | hm
    · exact h2 slot loc hm
    · exact Event.noConfusion hm
  · intro slot s e hm
    rw [pop_scope_log] at hm
    simp only [List.mem_append, List.mem_singleton] at hm
    simp only [pop_scope_cap]
    rcases hm with hm | hm
    · exact h3 slot s e hm
    · injection hm with e1 e2 e3
      omega

theorem slots_parse_value (p : StructuralParser) (cont : ret_address) (h : SlotsInBounds p)
    (hd : p.depth < p.pj.depth_capacity) : SlotsInBounds (p.parse_value cont).2 := by
  rcases parse_value_cases p cont with ⟨_, e | e | e⟩ | ⟨_, _, e⟩ | ⟨_, _, e⟩ | ⟨_, _, _, e⟩
  · rw [e]; exact h
  · rw [e]; exact h
  · rw [e]; exact h
  · rw [e]; exact slots_push p cont h hd
  · rw [e]; exact slots_push p cont h hd
  · rw [e]; exact h

/-- Every transition keeps the indexes of the scope stacks within the capacity. -/
theorem step_slots (buf : Nat → Nat) (cfg : Label × StructuralParser) (h : WalkInv cfg)
    (hs : SlotsInBounds cfg.2) : SlotsInBounds (step buf cfg).2 := by
  obtain ⟨L, p⟩ := cfg
  have hs : SlotsInBounds p := hs
  have hr := slots_read buf p hs
  have hrr := slots_read buf _ hr
  cases L with
  | finish => rw [step_terminal buf .finish p rfl]; exact hs
  | error => rw [step_terminal buf .error p rfl]; exact hs
  | overrun => rw [step_terminal buf .overrun p rfl]; exact hs
  | scope_end =>
    obtain ⟨hi, hd⟩ := h
    rw [step_scope_end]
    exact slots_pop p hs hd hi.2.1
  | main_array_switch =>
    obtain ⟨hi, hd⟩ := h
    rw [step_main_array_switch]
    exact slots_parse_value p _ hs hi.2.1
  | array_begin =>
    rcases step_array_begin buf p with ⟨_, e⟩ | ⟨_, _, e⟩ | ⟨_, _, e⟩
    · rw [e]; exact hs
    · rw [e]; exact hr
    · rw [e]; exact hr
  | array_continue =>
    rcases step_array_continue buf p with ⟨_, e⟩ | ⟨_, _, e⟩ | ⟨_, _, _, e⟩ | ⟨_, _, e⟩ | ⟨_, _, _, e⟩
    · rw [e]; exact hs
    · rw [e]; exact hr
    · rw [e]; exact hr
    · rw [e]; exact hrr
    · rw [e]; exact hr
  | object_begin =>
    rcases step_object_begin buf p with ⟨_, e⟩ | ⟨_, _, e⟩ | ⟨_, _, e⟩ | ⟨_, _, _, e⟩
    · rw [e]; exact hs
    · rw [e]; exact hr
    · rw [e]; exact hr
    · rw [e]; exact hr
  | object_key_state =>
    obtain ⟨hi, hd⟩ := h
    rcases step_object_key_state buf p with ⟨_, e⟩ | ⟨_, _, e⟩ | ⟨_, _, _, e⟩ | ⟨_, _, e⟩
    · rw [e]; exact hs
    · rw [e]; exact hr
    · rw [e]; exact hr
    · rw [e]
      exact slots_parse_value _ _ hrr hi.2.1
  | object_continue =>
    rcases step_object_continue buf p with
      ⟨_, e⟩ | ⟨_, _, e⟩ | ⟨_, _, _, e⟩ | ⟨_, _, _, e⟩ | ⟨_, _, _, e⟩ | ⟨_, _, _, e⟩
    · rw [e]; exact hs
    · rw [e]; exact hr
    · rw [e]; exact hr
    · rw [e]; exact hrr
    · rw [e]; exact hrr
    · rw [e]; exact hr

theorem walk_slots (buf : Nat → Nat) (t : Nat) (cfg : Label × StructuralParser)
    (h : WalkInv cfg) (hs : SlotsInBounds cfg.2) : SlotsInBounds (walk buf t cfg).2 := by
  induction t generalizing cfg with
  | zero => exact hs
  | succ t ih =>
    rw [walk_succ]
    exact ih _ (step_inv buf cfg h) (step_slots buf cfg h hs)

/-- What a successful `start` gives: the index is not empty, the depth capacity is more
than one, and the parser state is the one of `walk_start`. -/
theorem start_success (buf : Nat → Nat) (len : Nat) (pj1 : ParsedJson) (p : StructuralParser)
    (h : StructuralParser.start buf ⟨len, pj1, 0, 0, 0, 0, []⟩ .finish = some (.SUCCESS, p)) :
    1 ≤ pj1.n_structural_indexes ∧ 1 < pj1.depth_capacity ∧ p = walk_start buf len pj1 := by
  by_cases hn : 1 ≤ pj1.n_structural_indexes
  · have hadv : advance_char buf ⟨len, pj1, 0, 0, 0, 0, []⟩
        = some (read_next buf ⟨len, pj1, 0, 0, 0, 0, []⟩) := by
      unfold advance_char
      rw [if_pos]
      show 0 < pj1.n_structural_indexes
      omega
    unfold start at h
    simp only [hadv] at h
    by_cases hd : pj1.depth_capacity ≤ 1
    · exfalso
      simp [hd, push_start_scope, set_error_code, ParsedJson.write_tape] at h
    · refine ⟨hn, by omega, ?_⟩
      simp [hd, push_start_scope, set_error_code, ParsedJson.write_tape] at h
      rw [← h]
      simp [walk_start, push_start_scope, ParsedJson.write_tape]
  · exfalso
    have hadv : advance_char buf ⟨len, pj1, 0, 0, 0, 0, []⟩ = none := by
      unfold advance_char
      rw [if_neg]
      show ¬ 0 < pj1.n_structural_indexes
      omega
    unfold start at h
    simp [hadv] at h

theorem slots_start (buf : Nat → Nat) (len : Nat) (pj1 : ParsedJson)
    (h0 : pj1.current_loc = 0) (hcap : 1 ≤ pj1.depth_capacity) :
    SlotsInBounds (walk_start buf len pj1) := by
  obtain ⟨_, _, hd, hc, _, _, _, _, _, _, _, _, hlog⟩ := walk_start_facts buf len pj1 h0
  refine ⟨by omega, ?_, ?_⟩
  · intro slot loc hm
    rw [hlog] at hm
    simp only [List.mem_cons, List.mem_singleton, List.mem_nil_iff, or_false] at hm
    rcases hm with hm | hm
    · exact Event.noConfusion hm
    · injection hm with e1 e2
      omega
  · intro slot s e hm
    rw [hlog] at hm
    simp only [List.mem_cons, List.mem_singleton, List.mem_nil_iff, or_false] at hm
    rcases hm with hm | hm
    · exact Event.noConfusion hm
    · exact Event.noConfusion hm

theorem slots_first (buf : Nat → Nat) (len : Nat) (pj1 : ParsedJson)
    (h0 : pj1.current_loc = 0) (hcap : 1 < pj1.depth_capacity) :
    SlotsInBounds (first_value (walk_start buf len pj1)).2 := by
  rw [first_value_eq]
  exact slots_parse_value _ _ (slots_start buf len pj1 h0 (by omega))
    (state_inv_start buf len pj1 h0 hcap).2.1

theorem slots_run (buf : Nat → Nat) (len : Nat) (pj1 : ParsedJson) (t : Nat)
    (h0 : pj1.current_loc = 0) (hcap : 1 < pj1.depth_capacity) :
    SlotsInBounds (walk buf t (first_value (walk_start buf len pj1))).2 :=
  walk_slots buf t _ (walk_inv_first buf len pj1 h0 hcap) (slots_first buf len pj1 h0 hcap)

/-- The depth along the walk: at least one, at most the capacity, and between two and
the capacity (excluded) at every label from which the machine goes on. -/
theorem walk_inv_depth (L : Label) (p : StructuralParser) (h : WalkInv (L, p))
    (hcap : 1 ≤ p.pj.depth_capacity) :
    1 ≤ p.depth ∧ p.depth ≤ p.pj.depth_capacity ∧
    (L.terminal = false → 2 ≤ p.depth ∧ p.depth < p.pj.depth_capacity) := by
  have key : ∀ (hi : StateInv p), 1 ≤ p.depth ∧ p.depth < p.pj.depth_capacity :=
    fun hi => ⟨hi.1, hi.2.1⟩
  have mid : StateInv p ∧ 2 ≤ p.depth →
      1 ≤ p.depth ∧ p.depth ≤ p.pj.depth_capacity ∧
      (L.terminal = false → 2 ≤ p.depth ∧ p.depth < p.pj.depth_capacity) := by
    rintro ⟨hi, hd⟩
    obtain ⟨a, b⟩ := key hi
    exact ⟨a, by omega, fun _ => ⟨hd, b⟩⟩
  cases L with
  | finish =>
    have hi : StateInv p := h.1
    obtain ⟨a, b⟩ := key hi
    exact ⟨a, by omega, fun hc => by simp [Label.terminal] at hc⟩
  | error =>
    have h : StateInv p ∨ DepthExceeded p := h
    refine ⟨?_, ?_, fun hc => by simp [Label.terminal] at hc⟩
    · rcases h with hi | ⟨hd, _⟩
      · exact hi.1
      · omega
    · rcases h with hi | ⟨hd, _⟩
      · have := (key hi).2
        omega
      · omega
  | overrun => exact mid h
  | scope_end => exact mid h
  | main_array_switch => exact mid h
  | array_begin => exact mid h
  | array_continue => exact mid h
  | object_begin => exact mid h
  | object_key_state => exact mid h
  | object_continue => exact mid h

/-- The depth and the indexes of the scope stacks along the walk that follows a
successful `start` on a workspace whose tape is empty, `cap` being its depth
capacity. -/
theorem walk_depth_bounds (buf : Nat → Nat) (len : Nat) (pjw : ParsedJson) (cap : Nat)
    (h0 : pjw.current_loc = 0) (hc : pjw.depth_capacity = cap) (hd : 1 < cap) (t : Nat) :
    (walk buf t (first_value (walk_start buf len pjw))).2.pj.depth_capacity = cap ∧
    1 ≤ (walk buf t (first_value (walk_start buf len pjw))).2.depth ∧
    (walk buf t (first_value (walk_start buf len pjw))).2.depth ≤ cap ∧
    ((walk buf t (first_value (walk_start buf len pjw))).1.terminal = false →
      2 ≤ (walk buf t (first_value (walk_start buf len pjw))).2.depth ∧
      (walk buf t (first_value (walk_start buf len pjw))).2.depth < cap) ∧
    (∀ slot loc, Event.push slot loc ∈ (walk buf t (first_value (walk_start buf len pjw))).2.log →
      slot < cap) ∧
    (∀ slot s e, Event.pop slot s e ∈ (walk buf t (first_value (walk_start buf len pjw))).2.log →
      1 ≤ slot ∧ slot + 1 < cap) := by
  subst hc
  have hf := (walk_frame buf t (first_value (walk_start buf len pjw))).1.2.2
  have hf1 := (first_value_frame (walk_start buf len pjw)).1.2.2
  have hf2 := (walk_start_facts buf len pjw h0).2.2.2.1
  have c1 : (walk buf t (first_value (walk_start buf len pjw))).2.pj.depth_capacity
      = pjw.depth_capacity := by rw [hf, hf1, hf2]
  have c2 := walk_inv_run buf len pjw t h0 hd
  have c3 := slots_run buf len pjw t h0 hd
  generalize walk buf t (first_value (walk_start buf len pjw)) = cfg at *
  obtain ⟨L, q⟩ := cfg
  have c1 : q.pj.depth_capacity = pjw.depth_capacity := c1
  have hdep := walk_inv_depth L q c2 (by omega)
  have c3 : SlotsInBounds q := c3
  rw [c1] at hdep
  obtain ⟨_, c4, c5⟩ := c3
  rw [c1] at c4 c5
  exact ⟨c1, hdep.1, hdep.2.1, hdep.2.2, c4, c5⟩

end simdjson

namespace simdjson
open StructuralParser

/-! ## The end of the walk -/

/-- What `finish` does when only the root scope is open and its offset is zero. -/
theorem finish_at_root (p : StructuralParser) (hd : p.depth = 1)
    (hc : p.pj.containing_scope_offset 0 = 0) :
    p.pop_root_scope.depth = 0 ∧
    p.pop_root_scope.pj.containing_scope_offset p.pop_root_scope.depth = 0 ∧
    (p.finish.1 = .TAPE_ERROR ↔ p.i + 1 ≠ p.pj.n_structural_indexes) ∧
    (p.finish.1 = .SUCCESS ↔ p.i + 1 = p.pj.n_structural_indexes) ∧
    (p.finish.1 = .TAPE_ERROR ∨ p.finish.1 = .SUCCESS) := by
  have e1 : p.pop_root_scope.depth = 0 := by
    show p.depth - 1 = 0
    omega
  have e2 : p.pop_root_scope.pj.containing_scope_offset p.pop_root_scope.depth = 0 := by
    rw [e1]
    exact hc
  have hs := finish_success p
  have h2 : p.depth - 1 = 0 := by omega
  rw [h2] at hs
  by_cases hi : p.i + 1 = p.pj.n_structural_indexes
  · have ok : p.finish.1 = .SUCCESS := hs.2 ⟨hi, rfl, hc⟩
    refine ⟨e1, e2, ?_, ?_, Or.inr ok⟩
    · rw [ok]
      constructor
      · intro h; cases h
      · intro h; exact absurd hi h
    · exact ⟨fun _ => hi, fun _ => ok⟩
  · have ko : p.finish.1 = .TAPE_ERROR := finish_tape_error p hi
    refine ⟨e1, e2, ?_, ?_, Or.inl ko⟩
    · exact ⟨fun _ => hi, fun _ => ko⟩
    · rw [ko]
      constructor
      · intro h; cases h
      · intro h; exact absurd h hi

/-- At `finish` the depth is one and the offset of the root scope is zero. -/
theorem walk_inv_finish (p : StructuralParser) (h : WalkInv (.finish, p)) :
    p.depth = 1 ∧ p.pj.containing_scope_offset 0 = 0 :=
  ⟨h.2, h.1.2.2.2.2.2.1⟩

/-- The `finish` label of the walk after a successful `start` on a workspace whose tape
is empty. -/
theorem walk_finish_root (buf : Nat → Nat) (len : Nat) (pjw : ParsedJson)
    (h0 : pjw.current_loc = 0) (hd : 1 < pjw.depth_capacity) (t : Nat)
    (hf : (walk buf t (first_value (walk_start buf len pjw))).1 = .finish) :
    (walk buf t (first_value (walk_start buf len pjw))).2.depth = 1 ∧
    (walk buf t (first_value (walk_start buf len pjw))).2.pj.containing_scope_offset 0 = 0 := by
  have c2 := walk_inv_run buf len pjw t h0 hd
  generalize walk buf t (first_value (walk_start buf len pjw)) = cfg at *
  obtain ⟨L, q⟩ := cfg
  have hf : L = .finish := hf
  subst hf
  exact walk_inv_finish q c2

end simdjson

namespace simdjson
open StructuralParser

/-! ## Progress of the walk -/

/-- As long as the walk has not ended, its measure goes down. -/
theorem walk_measure_lt (buf : Nat → Nat) (s : Nat) (cfg : Label × StructuralParser)
    (hs : 1 ≤ s) (hend : (walk buf s cfg).1.terminal = false) :
    walk_measure (walk buf s cfg) < walk_measure cfg := by
  induction s generalizing cfg with
  | zero => omega
  | succ s ih =>
    obtain ⟨L, p⟩ := cfg
    have hL : L.terminal = false := by
      by_contra hc
      have hc : L.terminal = true := by simpa using hc
      rw [walk_terminal buf _ L p hc] at hend
      rw [hc] at hend
      cases hend
    have h1 := step_measure buf L p hL
    rw [walk_succ] at hend ⊢
    by_cases h0 : s = 0
    · subst h0
      exact h1
    · have := ih (step buf (L, p)) (by omega) hend
      omega

/-- Between two visits of a label the position in the structural index grows. -/
theorem revisit_advances (buf : Nat → Nat) (s : Nat) (L : Label) (p q : StructuralParser)
    (hL : L.terminal = false) (hs : 1 ≤ s) (h : walk buf s (L, p) = (L, q)) : p.i < q.i := by
  have hm := walk_measure_lt buf s (L, p) hs (by rw [h]; exact hL)
  have hf := (walk_frame buf s (L, p)).1.2.1
  rw [h] at hm hf
  have hf : q.pj.n_structural_indexes = p.pj.n_structural_indexes := hf
  have hm : 2 * (q.pj.n_structural_indexes - q.i) + L.weight
      < 2 * (p.pj.n_structural_indexes - p.i) + L.weight := hm
  rw [hf] at hm
  omega


theorem walk_read_count (buf : Nat → Nat) (t : Nat) (cfg : Label × StructuralParser)
    (h : ReadCount cfg.2) : ReadCount (walk buf t cfg).2 := by
  refine walk_rel buf (fun p q => ReadCount p → ReadCount q) ?_ ?_ ?_ ?_ ?_ ?_ ?_ ?_ t cfg h
  · intro p hp; exact hp
  · intro p q r h1 h2 hp; exact h2 (h1 hp)
  · intro p hi hp
    obtain ⟨a, b⟩ := hp
    refine ⟨?_, ?_⟩
    · simp only [read_next_log, read_next_i, List.filter_append, List.length_append, a]
      simp [Event.is_read]
    · simp only [read_next_i, read_next_pj]
      omega
  · intro p hp; exact hp
  · intro p hp; exact hp
  · intro p hp; exact hp
  · intro p k hp
    obtain ⟨a, b⟩ := hp
    refine ⟨?_, ?_⟩
    · rw [push_scope_log]
      simp only [push_scope_i, List.filter_append, List.length_append, a]
      simp [Event.is_read]
    · simp only [push_scope_i, push_scope_n]
      exact b
  · intro p hp
    obtain ⟨a, b⟩ := hp
    refine ⟨?_, ?_⟩
    · rw [pop_scope_log]
      simp only [pop_scope_i, List.filter_append, List.length_append, a]
      simp [Event.is_read]
    · simp only [pop_scope_i, pop_scope_n]
      exact b

theorem read_count_start (buf : Nat → Nat) (len : Nat) (pjw : ParsedJson)
    (h0 : pjw.current_loc = 0) (hn : 1 ≤ pjw.n_structural_indexes) :
    ReadCount (walk_start buf len pjw) := by
  obtain ⟨hi, _, _, _, hnn, _, _, _, _, _, _, _, hlog⟩ := walk_start_facts buf len pjw h0
  refine ⟨?_, ?_⟩
  · rw [hlog, hi]
    simp [Event.is_read]
  · rw [hi, hnn]
    exact hn

/-- The walk after a successful `start` on a workspace whose tape is empty, holding
`n` structural indexes: it has ended after `walk_fuel` transitions, and at every time
the reads recorded are as many as the position reached, at most `n`. -/
theorem walk_progress (buf : Nat → Nat) (len : Nat) (pjw : ParsedJson) (n : Nat)
    (h0 : pjw.current_loc = 0) (hc : pjw.n_structural_indexes = n) (hn : 1 ≤ n) :
    (walk buf (walk_fuel pjw) (first_value (walk_start buf len pjw))).1.terminal = true ∧
    ∀ t,
      ((walk buf t (first_value (walk_start buf len pjw))).2.log.filter Event.is_read).length
        = (walk buf t (first_value (walk_start buf len pjw))).2.i ∧
      (walk buf t (first_value (walk_start buf len pjw))).2.i ≤ n := by
  subst hc
  obtain ⟨hi, _, _, _, hnn, _⟩ := walk_start_facts buf len pjw h0
  refine ⟨?_, ?_⟩
  · apply walk_ends
    have := first_value_measure (walk_start buf len pjw) (by omega)
    unfold walk_fuel at this ⊢
    rw [hnn] at this
    exact this
  · intro t
    have hr := read_count_start buf len pjw h0 hn
    have hf : ReadCount (first_value (walk_start buf len pjw)).2 := by
      rw [first_value_eq]
      rcases parse_value_cases (walk_start buf len pjw) .finish with
        ⟨_, e | e | e⟩ | ⟨_, _, e⟩ | ⟨_, _, e⟩ | ⟨_, _, _, e⟩
      · rw [e]; exact hr
      · rw [e]; exact hr
      · rw [e]; exact hr
      · rw [e]
        refine ⟨?_, ?_⟩
        · rw [push_scope_log]
          simp only [push_scope_i, List.filter_append, List.length_append, hr.1]
          simp [Event.is_read]
        · simp only [push_scope_i, push_scope_n]
          exact hr.2
      · rw [e]
        refine ⟨?_, ?_⟩
        · rw [push_scope_log]
          simp only [push_scope_i, List.filter_append, List.length_append, hr.1]
          simp [Event.is_read]
        · simp only [push_scope_i, push_scope_n]
          exact hr.2
      · rw [e]; exact hr
    have hw := walk_read_count buf t _ hf
    have hfr := (walk_frame buf t (first_value (walk_start buf len pjw))).1.2.1
    have hf1 := (first_value_frame (walk_start buf len pjw)).1.2.1
    refine ⟨hw.1, ?_⟩
    have := hw.2
    rw [hfr, hf1, hnn] at this
    exact this

end simdjson

namespace simdjson
open StructuralParser

/-! ## The kinds of the scopes -/

theorem scope_kind_keep (p q : StructuralParser) (hs : StateInv p)
    (hcso : ∀ x, x < p.depth →
      q.pj.containing_scope_offset x = p.pj.containing_scope_offset x)
    (htape : ∀ x, x < p.pj.current_loc → (q.pj.tape x).kind = (p.pj.tape x).kind)
    (x : Nat) (hx : x < p.depth) : scope_kind q x = scope_kind p x := by
  unfold scope_kind
  rw [hcso x hx, htape _ (hs.2.2.2.2.2.2.2.1 x hx)]

/-- The kinds are kept by an operation that keeps the stacks below the depth, the kinds
of the tape entries written so far and the recorded pops, and does not open a scope. -/
theorem kinds_keep (p q : StructuralParser) (hs : StateInv p) (hk : KindsInv p)
    (hd : q.depth ≤ p.depth)
    (hret : ∀ x, x < p.depth → q.pj.ret_address x = p.pj.ret_address x)
    (hcso : ∀ x, x < p.depth →
      q.pj.containing_scope_offset x = p.pj.containing_scope_offset x)
    (htape : ∀ x, x < p.pj.current_loc → (q.pj.tape x).kind = (p.pj.tape x).kind)
    (hlog : ∀ slot s e, Event.pop slot s e ∈ q.log → Event.pop slot s e ∈ p.log) :
    KindsInv q := by
  obtain ⟨k1, k2⟩ := hk
  refine ⟨?_, ?_⟩
  · intro x hx2 hx
    rw [hret x (by omega), scope_kind_keep p q hs hcso htape (x - 1) (by omega)]
    exact k1 x hx2 (by omega)
  · intro slot s e hm
    obtain ⟨_, _, a3, a4, _⟩ := hs.2.2.2.2.2.2.2.2.2.1 slot s e (hlog slot s e hm)
    rw [htape e a4, htape s (by omega)]
    exact k2 slot s e (hlog slot s e hm)

theorem kinds_read (buf : Nat → Nat) (p : StructuralParser) (hs : StateInv p)
    (hk : KindsInv p) : KindsInv (p.read_next buf) := by
  refine kinds_keep p _ hs hk (le_refl _) (fun _ _ => rfl) (fun _ _ => rfl) (fun _ _ => rfl) ?_
  intro slot s e hm
  simp only [read_next_log, List.mem_append, List.mem_singleton] at hm
  rcases hm with hm | hm
  · exact hm
  · exact Event.noConfusion hm

theorem scope_kind_read (buf : Nat → Nat) (p : StructuralParser) (x : Nat) :
    scope_kind (p.read_next buf) x = scope_kind p x := rfl

theorem write_string_kind (p : StructuralParser) (x : Nat) (hx : x < p.pj.current_loc) :
    (p.write_string.pj.tape x).kind = (p.pj.tape x).kind := by
  show (Function.update p.pj.tape p.pj.current_loc _ x).kind = _
  rw [Function.update_noteq (by omega)]

theorem write_atom_kind (p : StructuralParser) (x : Nat) (hx : x < p.pj.current_loc) :
    (p.write_atom.pj.tape x).kind = (p.pj.tape x).kind := by
  show (Function.update p.pj.tape p.pj.current_loc _ x).kind = _
  rw [Function.update_noteq (by omega)]

theorem write_number_kind (p : StructuralParser) (x : Nat) (hx : x < p.pj.current_loc) :
    (p.write_number.pj.tape x).kind = (p.pj.tape x).kind := by
  show (Function.update (Function.update p.pj.tape p.pj.current_loc _)
    (p.pj.current_loc + 1) _ x).kind = _
  rw [Function.update_noteq (by omega), Function.update_noteq (by omega)]

theorem kinds_write_string (p : StructuralParser) (hs : StateInv p) (hk : KindsInv p) :
    KindsInv p.write_string ∧ ∀ x, x < p.depth → scope_kind p.write_string x = scope_kind p x :=
  ⟨kinds_keep p _ hs hk (le_refl _) (fun _ _ => rfl) (fun _ _ => rfl) (write_string_kind p)
      (fun _ _ _ hm => hm),
    scope_kind_keep p _ hs (fun _ _ => rfl) (write_string_kind p)⟩

theorem kinds_write_atom (p : StructuralParser) (hs : StateInv p) (hk : KindsInv p) :
    KindsInv p.write_atom ∧ ∀ x, x < p.depth → scope_kind p.write_atom x = scope_kind p x :=
  ⟨kinds_keep p _ hs hk (le_refl _) (fun _ _ => rfl) (fun _ _ => rfl) (write_atom_kind p)
      (fun _ _ _ hm => hm),
    scope_kind_keep p _ hs (fun _ _ => rfl) (write_atom_kind p)⟩

theorem kinds_write_number (p : StructuralParser) (hs : StateInv p) (hk : KindsInv p) :
    KindsInv p.write_number ∧ ∀ x, x < p.depth → scope_kind p.write_number x = scope_kind p x :=
  ⟨kinds_keep p _ hs hk (le_refl _) (fun _ _ => rfl) (fun _ _ => rfl) (write_number_kind p)
      (fun _ _ _ hm => hm),
    scope_kind_keep p _ hs (fun _ _ => rfl) (write_number_kind p)⟩

theorem push_scope_kind (p : StructuralParser) (k : ret_address) (x : Nat)
    (hx : x < p.pj.current_loc) :
    ((p.push_scope k).2.pj.tape x).kind = (p.pj.tape x).kind := by
  rw [push_scope_tape, Function.update_noteq (by omega)]

/-- Opening a scope keeps the kinds, when the return state stored goes with the kind of
the scope in which the new one opens. -/
theorem kinds_push (p : StructuralParser) (k : ret_address) (hs : StateInv p)
    (hk : KindsInv p)
    (hc : 2 ≤ p.depth →
      (k = .object_continue ∧ scope_kind p (p.depth - 1) = ch_lbrace) ∨
      (k = .array_continue ∧ scope_kind p (p.depth - 1) = ch_lbracket)) :
    KindsInv (p.push_scope k).2 ∧ scope_kind (p.push_scope k).2 p.depth = p.c := by
  have hkeep : ∀ x, x < p.depth → scope_kind (p.push_scope k).2 x = scope_kind p x := by
    intro x hx
    refine scope_kind_keep p _ hs ?_ (push_scope_kind p k) x hx
    intro y hy
    rw [push_scope_cso, Function.update_noteq (by omega)]
  obtain ⟨k1, k2⟩ := hk
  refine ⟨⟨?_, ?_⟩, ?_⟩
  · intro x hx2 hx
    simp only [push_scope_depth] at hx
    rw [push_scope_ret, hkeep (x - 1) (by omega)]
    by_cases hxd : x = p.depth
    · subst hxd
      rw [Function.update_same]
      exact hc hx2
    · rw [Function.update_noteq hxd]
      exact k1 x hx2 (by omega)
  · intro slot s e hm
    rw [push_scope_log] at hm
    simp only [List.mem_append, List.mem_singleton] at hm
    rcases hm with hm | hm
    · obtain ⟨_, _, a3, a4, _⟩ := hs.2.2.2.2.2.2.2.2.2.1 slot s e hm
      rw [push_scope_kind p k e a4, push_scope_kind p k s (by omega)]
      exact k2 slot s e hm
    · exact Event.noConfusion hm
  · unfold scope_kind
    rw [push_scope_cso, Function.update_same, push_scope_tape, Function.update_same]

theorem pop_scope_kind (p : StructuralParser) (hs : StateInv p) (hd : 2 ≤ p.depth) (x : Nat)
    (hx : x < p.pj.current_loc) : (p.pop_scope.2.pj.tape x).kind = (p.pj.tape x).kind := by
  have h8 := hs.2.2.2.2.2.2.2.1 (p.depth - 1) (by omega)
  rw [pop_scope_tape]
  by_cases hxs : x = p.pj.containing_scope_offset (p.depth - 1)
  · subst hxs
    rw [Function.update_same, Function.update_noteq (by omega)]
  · rw [Function.update_noteq hxs, Function.update_noteq (by omega)]

/-- Closing a scope with the bracket of its kind keeps the kinds. -/
theorem kinds_pop (p : StructuralParser) (hs : StateInv p) (hk : KindsInv p)
    (hd : 2 ≤ p.depth)
    (ht : (p.c = ch_rbrace ∧ scope_kind p (p.depth - 1) = ch_lbrace) ∨
      (p.c = ch_rbracket ∧ scope_kind p (p.depth - 1) = ch_lbracket)) :
    KindsInv p.pop_scope.2 ∧ ∀ x, x < p.depth → scope_kind p.pop_scope.2 x = scope_kind p x := by
  have hkeep : ∀ x, x < p.depth → scope_kind p.pop_scope.2 x = scope_kind p x :=
    scope_kind_keep p _ hs (fun _ _ => rfl) (pop_scope_kind p hs hd)
  have h8 := hs.2.2.2.2.2.2.2.1 (p.depth - 1) (by omega)
  obtain ⟨k1, k2⟩ := hk
  refine ⟨⟨?_, ?_⟩, hkeep⟩
  · intro x hx2 hx
    simp only [pop_scope_depth] at hx
    rw [hkeep (x - 1) (by omega)]
    exact k1 x hx2 (by omega)
  · intro slot s e hm
    rw [pop_scope_log] at hm
    simp only [List.mem_append, List.mem_singleton] at hm
    rcases hm with hm | hm
    · obtain ⟨_, _, a3, a4, _⟩ := hs.2.2.2.2.2.2.2.2.2.1 slot s e hm
      rw [pop_scope_kind p hs hd e a4, pop_scope_kind p hs hd s (by omega)]
      exact k2 slot s e hm
    · injection hm with e1 e2 e3
      subst e1 e2 e3
      have ee : (p.pop_scope.2.pj.tape p.pj.current_loc).kind = p.c := by
        rw [pop_scope_tape, Function.update_noteq (by omega), Function.update_same]
      have es : (p.pop_scope.2.pj.tape (p.pj.containing_scope_offset (p.depth - 1))).kind
          = scope_kind p (p.depth - 1) := pop_scope_kind p hs hd _ h8
      rw [ee, es]
      exact ht

/-- Dispatching on a value keeps the kinds of the scopes. -/
theorem parse_value_kinds (p : StructuralParser) (cont : ret_address) (hs : StateInv p)
    (hk : KindsInv p)
    (htop : (cont = .finish ∧ p.depth = 1) ∨
      (cont = .object_continue ∧ 2 ≤ p.depth ∧ scope_kind p (p.depth - 1) = ch_lbrace) ∨
      (cont = .array_continue ∧ 2 ≤ p.depth ∧ scope_kind p (p.depth - 1) = ch_lbracket)) :
    ScopeKinds (GOTO (p.parse_value cont).1, (p.parse_value cont).2) := by
  have h1 := hs.1
  have hscalar : ∀ q : StructuralParser, q.depth = p.depth → KindsInv q →
      (∀ x, x < p.depth → scope_kind q x = scope_kind p x) → ScopeKinds (GOTO cont, q) := by
    intro q hd hq hx
    refine ⟨hq, ?_⟩
    show TopKind (GOTO cont) q.c (scope_kind q (q.depth - 1))
    rw [hd, hx (p.depth - 1) (by omega)]
    rcases htop with ⟨e, _⟩ | ⟨e, _, ht⟩ | ⟨e, _, ht⟩
    · subst e; exact True.intro
    · subst e; exact ht
    · subst e; exact ht
  have hc : 2 ≤ p.depth →
      (cont = .object_continue ∧ scope_kind p (p.depth - 1) = ch_lbrace) ∨
      (cont = .array_continue ∧ scope_kind p (p.depth - 1) = ch_lbracket) := by
    intro h2
    rcases htop with ⟨_, e⟩ | ⟨e, _, ht⟩ | ⟨e, _, ht⟩
    · omega
    · exact Or.inl ⟨e, ht⟩
    · exact Or.inr ⟨e, ht⟩
  rcases parse_value_cases p cont with ⟨_, e | e | e⟩ | ⟨hb, _, e⟩ | ⟨_, _, e⟩ | ⟨_, _, _, e⟩
  · rw [e]
    exact hscalar _ rfl (kinds_write_string p hs hk).1 (kinds_write_string p hs hk).2
  · rw [e]
    exact hscalar _ rfl (kinds_write_atom p hs hk).1 (kinds_write_atom p hs hk).2
  · rw [e]
    exact hscalar _ rfl (kinds_write_number p hs hk).1 (kinds_write_number p hs hk).2
  · rw [e]
    obtain ⟨a, b⟩ := kinds_push p cont hs hk hc
    refine ⟨a, ?_⟩
    show TopKind _ _ (scope_kind (p.push_scope cont).2 ((p.push_scope cont).2.depth - 1))
    rw [push_scope_depth, Nat.add_sub_cancel, b]
    by_cases hbr : p.c = ch_lbracket
    · rw [if_pos hbr]
      exact hbr
    · rw [if_neg hbr]
      rcases hb with hb | hb
      · exact absurd hb hbr
      · exact hb
  · rw [e]
    exact ⟨(kinds_push p cont hs hk hc).1, True.intro⟩
  · rw [e]
    exact ⟨hk, True.intro⟩

/-- Closing a scope keeps the kinds of the scopes. -/
theorem pop_scope_kinds (p : StructuralParser) (hs : StateInv p) (hd : 2 ≤ p.depth)
    (hk : ScopeKinds (.scope_end, p)) : ScopeKinds (GOTO p.pop_scope.1, p.pop_scope.2) := by
  obtain ⟨hki, ht⟩ := hk
  have hki : KindsInv p := hki
  have ht : (p.c = ch_rbrace ∧ scope_kind p (p.depth - 1) = ch_lbrace) ∨
      (p.c = ch_rbracket ∧ scope_kind p (p.depth - 1) = ch_lbracket) := ht
  obtain ⟨a, b⟩ := kinds_pop p hs hki hd ht
  refine ⟨a, ?_⟩
  show TopKind (GOTO p.pop_scope.1) _ (scope_kind p.pop_scope.2 (p.pop_scope.2.depth - 1))
  have e1 : p.pop_scope.1 = p.pj.ret_address (p.depth - 1) := rfl
  rw [e1, pop_scope_depth, b (p.depth - 1 - 1) (by omega)]
  by_cases h2 : p.depth = 2
  · have : p.pj.ret_address (p.depth - 1) = .finish := by
      rw [h2]; exact hs.2.2.2.1 hd
    rw [this]
    exact True.intro
  · rcases hki.1 (p.depth - 1) (by omega) (by omega) with ⟨e, hh⟩ | ⟨e, hh⟩
    · rw [e]; exact hh
    · rw [e]; exact hh

/-- Every transition keeps the kinds of the scopes. -/
theorem step_kinds (buf : Nat → Nat) (cfg : Label × StructuralParser) (h : WalkInv cfg)
    (hk : ScopeKinds cfg) : ScopeKinds (step buf cfg) := by
  obtain ⟨L, p⟩ := cfg
  cases L with
  | finish => rw [step_terminal buf .finish p rfl]; exact hk
  | error => rw [step_terminal buf .error p rfl]; exact hk
  | overrun => rw [step_terminal buf .overrun p rfl]; exact hk
  | scope_end =>
    obtain ⟨hs, hd⟩ := h
    rw [step_scope_end]
    exact pop_scope_kinds p hs hd hk
  | main_array_switch =>
    obtain ⟨hs, hd⟩ := h
    rw [step_main_array_switch]
    exact parse_value_kinds p _ hs hk.1 (Or.inr (Or.inr ⟨rfl, hd, hk.2⟩))
  | array_begin =>
    obtain ⟨hs, hd⟩ := h
    obtain ⟨hki, ht⟩ := hk
    have hs : StateInv p := hs
    have hd : 2 ≤ p.depth := hd
    have hki : KindsInv p := hki
    have ht : scope_kind p (p.depth - 1) = ch_lbracket := ht
    have hr := kinds_read buf p hs hki
    rcases step_array_begin buf p with ⟨_, e⟩ | ⟨_, hb, e⟩ | ⟨_, _, e⟩
    · rw [e]; exact ⟨hki, True.intro⟩
    · rw [e]; exact ⟨hr, Or.inr ⟨hb, ht⟩⟩
    · rw [e]; exact ⟨hr, ht⟩
  | array_continue =>
    obtain ⟨hs, hd⟩ := h
    obtain ⟨hki, ht⟩ := hk
    have hs : StateInv p := hs
    have hd : 2 ≤ p.depth := hd
    have hki : KindsInv p := hki
    have ht : scope_kind p (p.depth - 1) = ch_lbracket := ht
    have hr := kinds_read buf p hs hki
    have hrr := kinds_read buf _ (inv_read buf p hs) hr
    rcases step_array_continue buf p with
      ⟨_, e⟩ | ⟨_, hb, e⟩ | ⟨_, _, _, e⟩ | ⟨_, _, e⟩ | ⟨_, _, _, e⟩
    · rw [e]; exact ⟨hki, True.intro⟩
    · rw [e]; exact ⟨hr, Or.inr ⟨hb, ht⟩⟩
    · rw [e]; exact ⟨hr, True.intro⟩
    · rw [e]; exact ⟨hrr, ht⟩
    · rw [e]; exact ⟨hr, True.intro⟩
  | object_begin =>
    obtain ⟨hs, hd⟩ := h
    obtain ⟨hki, ht⟩ := hk
    have hs : StateInv p := hs
    have hd : 2 ≤ p.depth := hd
    have hki : KindsInv p := hki
    have ht : scope_kind p (p.depth - 1) = ch_lbrace := ht
    have hr := kinds_read buf p hs hki
    have hir := inv_read buf p hs
    have h1 := hs.1
    rcases step_object_begin buf p with ⟨_, e⟩ | ⟨_, _, e⟩ | ⟨_, hb, e⟩ | ⟨_, _, _, e⟩
    · rw [e]; exact ⟨hki, True.intro⟩
    · rw [e]
      refine ⟨(kinds_write_string _ hir hr).1, ?_⟩
      show scope_kind (p.read_next buf).write_string (p.depth - 1) = ch_lbrace
      rw [(kinds_write_string _ hir hr).2 (p.depth - 1)
        (by show p.depth - 1 < p.depth; omega)]
      exact ht
    · rw [e]; exact ⟨hr, Or.inl ⟨hb, ht⟩⟩
    · rw [e]; exact ⟨hr, True.intro⟩
  | object_key_state =>
    obtain ⟨hs, hd⟩ := h
    obtain ⟨hki, ht⟩ := hk
    have hs : StateInv p := hs
    have hd : 2 ≤ p.depth := hd
    have hki : KindsInv p := hki
    have ht : scope_kind p (p.depth - 1) = ch_lbrace := ht
    have hr := kinds_read buf p hs hki
    have hir := inv_read buf p hs
    have hrr := kinds_read buf _ hir hr
    have hirr := inv_read buf _ hir
    rcases step_object_key_state buf p with ⟨_, e⟩ | ⟨_, _, e⟩ | ⟨_, _, _, e⟩ | ⟨_, _, e⟩
    · rw [e]; exact ⟨hki, True.intro⟩
    · rw [e]; exact ⟨hr, True.intro⟩
    · rw [e]; exact ⟨hr, True.intro⟩
    · rw [e]
      exact parse_value_kinds _ _ hirr hrr (Or.inr (Or.inl ⟨rfl, hd, ht⟩))
  | object_continue =>
    obtain ⟨hs, hd⟩ := h
    obtain ⟨hki, ht⟩ := hk
    have hs : StateInv p := hs
    have hd : 2 ≤ p.depth := hd
    have hki : KindsInv p := hki
    have ht : scope_kind p (p.depth - 1) = ch_lbrace := ht
    have hr := kinds_read buf p hs hki
    have hir := inv_read buf p hs
    have hrr := kinds_read buf _ hir hr
    have hirr := inv_read buf _ hir
    have h1 := hs.1
    rcases step_object_continue buf p with
      ⟨_, e⟩ | ⟨_, hb, e⟩ | ⟨_, _, _, e⟩ | ⟨_, _, _, e⟩ | ⟨_, _, _, e⟩ | ⟨_, _, _, e⟩
    · rw [e]; exact ⟨hki, True.intro⟩
    · rw [e]; exact ⟨hr, Or.inl ⟨hb, ht⟩⟩
    · rw [e]; exact ⟨hr, True.intro⟩
    · rw [e]; exact ⟨hrr, True.intro⟩
    · rw [e]
      refine ⟨(kinds_write_string _ hirr hrr).1, ?_⟩
      show scope_kind ((p.read_next buf).read_next buf).write_string (p.depth - 1) = ch_lbrace
      rw [(kinds_write_string _ hirr hrr).2 (p.depth - 1)
        (by show p.depth - 1 < p.depth; omega)]
      exact ht
    · rw [e]; exact ⟨hr, True.intro⟩

theorem walk_kinds (buf : Nat → Nat) (t : Nat) (cfg : Label × StructuralParser)
    (h : WalkInv cfg) (hk : ScopeKinds cfg) : ScopeKinds (walk buf t cfg) := by
  induction t generalizing cfg with
  | zero => exact hk
  | succ t ih =>
    rw [walk_succ]
    exact ih _ (step_inv buf cfg h) (step_kinds buf cfg h hk)

theorem kinds_start (buf : Nat → Nat) (len : Nat) (pj1 : ParsedJson)
    (h0 : pj1.current_loc = 0) : KindsInv (walk_start buf len pj1) := by
  obtain ⟨_, _, hd, _, _, _, _, _, _, _, _, _, hlog⟩ := walk_start_facts buf len pj1 h0
  refine ⟨?_, ?_⟩
  · intro x hx2 hx
    rw [hd] at hx
    omega
  · intro slot s e hm
    rw [hlog] at hm
    simp only [List.mem_cons, List.mem_singleton, List.mem_nil_iff, or_false] at hm
    rcases hm with hm | hm
    · exact Event.noConfusion hm
    · exact Event.noConfusion hm

theorem kinds_run (buf : Nat → Nat) (len : Nat) (pj1 : ParsedJson) (t : Nat)
    (h0 : pj1.current_loc = 0) (hcap : 1 < pj1.depth_capacity) :
    ScopeKinds (walk buf t (first_value (walk_start buf len pj1))) := by
  refine walk_kinds buf t _ (walk_inv_first buf len pj1 h0 hcap) ?_
  rw [first_value_eq]
  exact parse_value_kinds _ _ (state_inv_start buf len pj1 h0 hcap) (kinds_start buf len pj1 h0)
    (Or.inl ⟨rfl, (walk_start_facts buf len pj1 h0).2.2.1⟩)

end simdjson

namespace simdjson
open StructuralParser

/-! ## The switches of the build without computed goto -/

theorem GOTO_switch_code (a : ret_address) : GOTO_switch a.code = some (GOTO a) := by
  cases a <;> rfl

theorem CONTINUE_switch_code (a : ret_address)
    (h : a = .finish ∨ a = .array_continue ∨ a = .object_continue) :
    CONTINUE_switch a.code = some (GOTO a) := by
  rcases h with h | h | h <;> subst h <;> rfl

/-- The return state that `pop_scope` gives is one of the three of `CONTINUE`. -/
theorem pop_scope_address (p : StructuralParser) (hs : StateInv p) (hd : 2 ≤ p.depth) :
    p.pop_scope.1 = .finish ∨ p.pop_scope.1 = .array_continue ∨
      p.pop_scope.1 = .object_continue := by
  have e1 : p.pop_scope.1 = p.pj.ret_address (p.depth - 1) := rfl
  rw [e1]
  by_cases h2 : p.depth = 2
  · left
    rw [h2]
    exact hs.2.2.2.1 hd
  · right
    exact hs.2.2.2.2.1 (p.depth - 1) (by omega) (by omega)

/-- Under the invariant of the walk the transition of the build without computed goto
is the one of the build with it. -/
theorem step_switch_eq (buf : Nat → Nat) (cfg : Label × StructuralParser) (h : WalkInv cfg) :
    step_switch buf cfg = step buf cfg := by
  obtain ⟨L, p⟩ := cfg
  cases L with
  | finish => rfl
  | error => rfl
  | overrun => rfl
  | scope_end =>
    obtain ⟨hs, hd⟩ := h
    have hs : StateInv p := hs
    have hd : 2 ≤ p.depth := hd
    show ((CONTINUE_switch p.pop_scope.1.code).getD .array_begin, p.pop_scope.2)
      = (GOTO p.pop_scope.1, p.pop_scope.2)
    rw [CONTINUE_switch_code _ (pop_scope_address p hs hd)]
    rfl
  | main_array_switch =>
    show ((GOTO_switch (p.parse_value .array_continue).1.code).getD .array_continue,
        (p.parse_value .array_continue).2)
      = (GOTO (p.parse_value .array_continue).1, (p.parse_value .array_continue).2)
    rw [GOTO_switch_code]
    rfl
  | array_begin => rfl
  | array_continue => rfl
  | object_begin => rfl
  | object_key_state =>
    simp only [step_switch, step, GOTO_switch_code, Option.getD_some]
  | object_continue => rfl

theorem walk_switch_eq (buf : Nat → Nat) (t : Nat) (cfg : Label × StructuralParser)
    (h : WalkInv cfg) : walk_switch buf t cfg = walk buf t cfg := by
  induction t generalizing cfg with
  | zero => rfl
  | succ t ih =>
    show walk_switch buf t (step_switch buf cfg) = walk buf (t + 1) cfg
    rw [walk_succ, step_switch_eq buf cfg h]
    exact ih _ (step_inv buf cfg h)

/-! ## Brackets that do not match -/

/-- A phrase of the grammar leaves the stack of open brackets as it found it and closes
nothing with the wrong bracket. -/
theorem phrase_closes_balanced {cat : Category} {k : Nat} {ws : List Nat} (h : Spells cat k ws) :
    ∀ (stack rest : List Nat),
      closes_wrong_bracket stack (ws ++ rest) = closes_wrong_bracket stack rest := by
  have hcomma : ∀ (stack rest : List Nat),
      closes_wrong_bracket stack (ch_comma :: rest) = closes_wrong_bracket stack rest := by
    intro stack rest
    simp [closes_wrong_bracket, ch_comma, ch_lbracket, ch_lbrace, ch_rbracket, ch_rbrace]
  have hquote : ∀ (stack rest : List Nat),
      closes_wrong_bracket stack (ch_quote :: rest) = closes_wrong_bracket stack rest := by
    intro stack rest
    simp [closes_wrong_bracket, ch_quote, ch_lbracket, ch_lbrace, ch_rbracket, ch_rbrace]
  have hcolon : ∀ (stack rest : List Nat),
      closes_wrong_bracket stack (ch_colon :: rest) = closes_wrong_bracket stack rest := by
    intro stack rest
    simp [closes_wrong_bracket, ch_colon, ch_lbracket, ch_lbrace, ch_rbracket, ch_rbrace]
  have harr : ∀ (stack rest : List Nat),
      closes_wrong_bracket (ch_lbracket :: stack) (ch_rbracket :: rest)
        = closes_wrong_bracket stack rest := by
    intro stack rest
    simp [closes_wrong_bracket, ch_lbracket, ch_lbrace, ch_rbracket, ch_rbrace]
  have hobj : ∀ (stack rest : List Nat),
      closes_wrong_bracket (ch_lbrace :: stack) (ch_rbrace :: rest)
        = closes_wrong_bracket stack rest := by
    intro stack rest
    simp [closes_wrong_bracket, ch_lbracket, ch_lbrace, ch_rbracket, ch_rbrace]
  have hopen_arr : ∀ (stack rest : List Nat),
      closes_wrong_bracket stack (ch_lbracket :: rest)
        = closes_wrong_bracket (ch_lbracket :: stack) rest := by
    intro stack rest
    simp [closes_wrong_bracket, ch_lbracket, ch_lbrace]
  have hopen_obj : ∀ (stack rest : List Nat),
      closes_wrong_bracket stack (ch_lbrace :: rest)
        = closes_wrong_bracket (ch_lbrace :: stack) rest := by
    intro stack rest
    simp [closes_wrong_bracket, ch_lbracket, ch_lbrace]
  induction h with
  | scalar c hc =>
    intro stack rest
    obtain ⟨a1, a2, a3, a4, _, _⟩ := scalar_not_bracket hc
    show closes_wrong_bracket stack (c :: rest) = _
    simp [closes_wrong_bracket, a1, a2, a3, a4]
  | empty_array =>
    intro stack rest
    show closes_wrong_bracket stack (ch_lbracket :: ch_rbracket :: rest) = _
    rw [hopen_arr, harr]
  | array k ws _ ih =>
    intro stack rest
    show closes_wrong_bracket stack (ch_lbracket :: ((ws ++ [ch_rbracket]) ++ rest)) = _
    rw [hopen_arr, List.append_assoc, ih, List.singleton_append, harr]
  | empty_object =>
    intro stack rest
    show closes_wrong_bracket stack (ch_lbrace :: ch_rbrace :: rest) = _
    rw [hopen_obj, hobj]
  | object k ws _ ih =>
    intro stack rest
    show closes_wrong_bracket stack (ch_lbrace :: ((ws ++ [ch_rbrace]) ++ rest)) = _
    rw [hopen_obj, List.append_assoc, ih, List.singleton_append, hobj]
  | element k ws _ ih => exact ih
  | elements k m ws ws1 _ _ ih ih1 =>
    intro stack rest
    rw [List.append_assoc, ih, List.cons_append, hcomma, ih1]
  | member k ws _ ih =>
    intro stack rest
    show closes_wrong_bracket stack (ch_quote :: ch_colon :: (ws ++ rest)) = _
    rw [hquote, hcolon, ih]
  | members k m ws ws1 _ _ ih ih1 =>
    intro stack rest
    show closes_wrong_bracket stack
      (ch_quote :: ch_colon :: ((ws ++ ch_comma :: ws1) ++ rest)) = _
    rw [hquote, hcolon, List.append_assoc, ih, List.cons_append, hcomma, ih1]

theorem spells_closes_right {k : Nat} {ws : List Nat} (h : Spells .value k ws) :
    closes_wrong_bracket [] ws = false := by
  have := phrase_closes_balanced h [] []
  rw [List.append_nil] at this
  rw [this]
  rfl

/-! ## The kinds of the scopes in a run -/

/-- The return states and the kinds of the scopes along the walk that follows a
successful `start` on a workspace whose tape is empty. -/
theorem walk_scope_facts (buf : Nat → Nat) (len : Nat) (pjw : ParsedJson)
    (h0 : pjw.current_loc = 0) (hd : 1 < pjw.depth_capacity) (t : Nat) :
    WalkInv (walk buf t (first_value (walk_start buf len pjw))) ∧
    ScopeKinds (walk buf t (first_value (walk_start buf len pjw))) ∧
    walk_switch buf t (first_value (walk_start buf len pjw))
      = walk buf t (first_value (walk_start buf len pjw)) :=
  ⟨walk_inv_run buf len pjw t h0 hd, kinds_run buf len pjw t h0 hd,
    walk_switch_eq buf t _ (walk_inv_first buf len pjw h0 hd)⟩

end simdjson

namespace simdjson
open StructuralParser

/-! ## The scope entries of a run -/

/-- The scopes closed so far, in a state of the walk that has the invariant: the end
entry points to the start entry, and their kinds are those of one container. -/
theorem pops_of_kinds (q : StructuralParser) (hk : KindsInv q) (slot s e : Nat) (hm : Event.pop slot s e ∈ q.log) :
    (((q.pj.tape e).kind = ch_rbrace ∧ (q.pj.tape s).kind = ch_lbrace) ∨
      ((q.pj.tape e).kind = ch_rbracket ∧ (q.pj.tape s).kind = ch_lbracket)) :=
  hk.2 slot s e hm

theorem walk_inv_state (L : Label) (q : StructuralParser) (h : WalkInv (L, q))
    (hL : L ≠ .error) : StateInv q := by
  cases L with
  | error => exact absurd rfl hL
  | finish => exact h.1
  | overrun => exact h.1
  | scope_end => exact h.1
  | main_array_switch => exact h.1
  | array_begin => exact h.1
  | array_continue => exact h.1
  | object_begin => exact h.1
  | object_key_state => exact h.1
  | object_continue => exact h.1

/-- The scopes closed during the walk that follows a successful `start` on a workspace
whose tape is empty: the kinds of the two entries of each are those of one container,
and, as long as the walk is not at `error`, the end entry points to the start entry. -/
theorem walk_pops (buf : Nat → Nat) (len : Nat) (pjw : ParsedJson)
    (h0 : pjw.current_loc = 0) (hd : 1 < pjw.depth_capacity) (t slot s e : Nat)
    (hm : Event.pop slot s e ∈ (walk buf t (first_value (walk_start buf len pjw))).2.log) :
    ((((walk buf t (first_value (walk_start buf len pjw))).2.pj.tape e).kind = ch_rbrace ∧
        ((walk buf t (first_value (walk_start buf len pjw))).2.pj.tape s).kind = ch_lbrace) ∨
      (((walk buf t (first_value (walk_start buf len pjw))).2.pj.tape e).kind = ch_rbracket ∧
        ((walk buf t (first_value (walk_start buf len pjw))).2.pj.tape s).kind
          = ch_lbracket)) ∧
    ((walk buf t (first_value (walk_start buf len pjw))).1 ≠ .error →
      ((walk buf t (first_value (walk_start buf len pjw))).2.pj.tape e).payload = s) := by
  obtain ⟨c1, c2, _⟩ := walk_scope_facts buf len pjw h0 hd t
  generalize walk buf t (first_value (walk_start buf len pjw)) = cfg at *
  obtain ⟨L, q⟩ := cfg
  refine ⟨c2.1.2 slot s e hm, ?_⟩
  intro hL
  have hs := walk_inv_state L q c1 hL
  exact (hs.2.2.2.2.2.2.2.2.2.1 slot s e hm).2.2.2.2.1

/-- The scope entries on the tape of an accepted document. -/
theorem accepted_pops (D : ScalarDecoders) (buf : Nat → Nat) (len : Nat) (pj : ParsedJson)
    (h : (unified_machine D buf len pj).outcome = .returned .SUCCESS) (slot s e : Nat)
    (hm : Event.pop slot s e ∈ (unified_machine D buf len pj).log) :
    ((unified_machine D buf len pj).pj.tape e).payload = s ∧
    ((((unified_machine D buf len pj).pj.tape e).kind = ch_rbrace ∧
        ((unified_machine D buf len pj).pj.tape s).kind = ch_lbrace) ∨
      (((unified_machine D buf len pj).pj.tape e).kind = ch_rbracket ∧
        ((unified_machine D buf len pj).pj.tape s).kind = ch_lbracket)) := by
  obtain ⟨_, hcap, _, _, e1, hl, hinv, hd, hi, _⟩ := accepted_run D buf len pj h
  have hk : KindsInv (final_config D buf len pj).2 := by
    rw [final_config_eq]
    obtain ⟨_, a2, _⟩ := walk_pj_keeps D buf len pj
    have hloc : (walk_pj D buf len pj).current_loc = 0 := rfl
    generalize walk_pj D buf len pj = pjw at *
    exact (kinds_run buf len pjw _ hloc (by omega)).1
  rw [e1] at h
  obtain ⟨_, c2, _, _⟩ := (conclude_success _).1 h
  obtain ⟨t1, _⟩ := finish_tape (final_config D buf len pj).2 c2 hd hinv.2.2.2.2.2.1
  have etape : (unified_machine D buf len pj).pj.tape
      = (final_config D buf len pj).2.finish.2.pj.tape := by
    rw [e1]
    unfold conclude
    rw [hl]
  have elog : (unified_machine D buf len pj).log = (final_config D buf len pj).2.log := by
    rw [e1, conclude_log]
  rw [elog] at hm
  rw [etape, t1]
  generalize (final_config D buf len pj).2 = q at *
  obtain ⟨_, _, a3, a4, a5, _, a7⟩ := hinv.2.2.2.2.2.2.2.2.2.1 slot s e hm
  have hs0 : 0 < s := by
    have c0 := hinv.2.2.2.2.2.1
    rcases a7 0 (by omega) with h | h
    · omega
    · omega
  rw [Function.update_noteq (by omega), Function.update_noteq (by omega),
    Function.update_noteq (by omega), Function.update_noteq (by omega)]
  exact ⟨a5, hk.2 slot s e hm⟩

end simdjson

namespace simdjson
open StructuralParser

/-! ## The payloads of the end entries -/

theorem pops_keep (p q : StructuralParser) (hp : PopsPoint p)
    (hloc : p.pj.current_loc ≤ q.pj.current_loc)
    (htape : ∀ x, x < p.pj.current_loc → q.pj.tape x = p.pj.tape x)
    (hlog : ∀ slot s e, Event.pop slot s e ∈ q.log → Event.pop slot s e ∈ p.log) :
    PopsPoint q := by
  intro slot s e hm
  obtain ⟨a, b⟩ := hp slot s e (hlog slot s e hm)
  exact ⟨by omega, by rw [htape e a]; exact b⟩

theorem pops_read (buf : Nat → Nat) (p : StructuralParser) (hp : PopsPoint p) :
    PopsPoint (p.read_next buf) := by
  refine pops_keep p _ hp (le_refl _) (fun _ _ => rfl) ?_
  intro slot s e hm
  simp only [read_next_log, List.mem_append, List.mem_singleton] at hm
  rcases hm with hm | hm
  · exact hm
  · exact Event.noConfusion hm

theorem pops_write_string (p : StructuralParser) (hp : PopsPoint p) :
    PopsPoint p.write_string := by
  refine pops_keep p _ hp ?_ ?_ (fun _ _ _ hm => hm)
  · show p.pj.current_loc ≤ p.pj.current_loc + 1
    omega
  · intro x hx
    show Function.update p.pj.tape p.pj.current_loc _ x = _
    rw [Function.update_noteq (by omega)]

theorem pops_write_atom (p : StructuralParser) (hp : PopsPoint p) :
    PopsPoint p.write_atom := by
  refine pops_keep p _ hp ?_ ?_ (fun _ _ _ hm => hm)
  · show p.pj.current_loc ≤ p.pj.current_loc + 1
    omega
  · intro x hx
    show Function.update p.pj.tape p.pj.current_loc _ x = _
    rw [Function.update_noteq (by omega)]

theorem pops_write_number (p : StructuralParser) (hp : PopsPoint p) :
    PopsPoint p.write_number := by
  refine pops_keep p _ hp ?_ ?_ (fun _ _ _ hm => hm)
  · show p.pj.current_loc ≤ p.pj.current_loc + 1 + 1
    omega
  · intro x hx
    show Function.update (Function.update p.pj.tape p.pj.current_loc _)
      (p.pj.current_loc + 1) _ x = _
    rw [Function.update_noteq (by omega), Function.update_noteq (by omega)]

theorem pops_push (p : StructuralParser) (k : ret_address) (hp : PopsPoint p) :
    PopsPoint (p.push_scope k).2 := by
  refine pops_keep p _ hp ?_ ?_ ?_
  · rw [push_scope_loc]
    omega
  · intro x hx
    rw [push_scope_tape, Function.update_noteq (by omega)]
  · intro slot s e hm
    rw [push_scope_log] at hm
    simp only [List.mem_append, List.mem_singleton] at hm
    rcases hm with hm | hm
    · exact hm
    · exact Event.noConfusion hm

theorem pops_pop (p : StructuralParser) (hs : StateInv p) (hd : 2 ≤ p.depth)
    (hp : PopsPoint p) : PopsPoint p.pop_scope.2 := by
  have h8 := hs.2.2.2.2.2.2.2.1 (p.depth - 1) (by omega)
  intro slot s e hm
  rw [pop_scope_log] at hm
  simp only [List.mem_append, List.mem_singleton] at hm
  rw [pop_scope_loc, pop_scope_tape]
  rcases hm with hm | hm
  · obtain ⟨a, b⟩ := hp slot s e hm
    obtain ⟨_, _, a3, _, _, _, a7⟩ := hs.2.2.2.2.2.2.2.2.2.1 slot s e hm
    have := a7 (p.depth - 1) (by omega)
    refine ⟨by omega, ?_⟩
    rw [Function.update_noteq (by omega), Function.update_noteq (by omega)]
    exact b
  · injection hm with e1 e2 e3
    subst e1 e2 e3
    refine ⟨by omega, ?_⟩
    rw [Function.update_noteq (by omega), Function.update_same]

theorem pops_parse_value (p : StructuralParser) (cont : ret_address) (hp : PopsPoint p) :
    PopsPoint (p.parse_value cont).2 := by
  rcases parse_value_cases p cont with ⟨_, e | e | e⟩ | ⟨_, _, e⟩ | ⟨_, _, e⟩ | ⟨_, _, _, e⟩
  · rw [e]; exact pops_write_string p hp
  · rw [e]; exact pops_write_atom p hp
  · rw [e]; exact pops_write_number p hp
  · rw [e]; exact pops_push p cont hp
  · rw [e]; exact pops_push p cont hp
  · rw [e]; exact hp

/-- Every transition keeps the end entries pointing to their start entries. -/
theorem step_pops (buf : Nat → Nat) (cfg : Label × StructuralParser) (h : WalkInv cfg)
    (hp : PopsPoint cfg.2) : PopsPoint (step buf cfg).2 := by
  obtain ⟨L, p⟩ := cfg
  have hp : PopsPoint p := hp
  have hr := pops_read buf p hp
  have hrr := pops_read buf _ hr
  cases L with
  | finish => rw [step_terminal buf .finish p rfl]; exact hp
  | error => rw [step_terminal buf .error p rfl]; exact hp
  | overrun => rw [step_terminal buf .overrun p rfl]; exact hp
  | scope_end =>
    obtain ⟨hi, hd⟩ := h
    rw [step_scope_end]
    exact pops_pop p hi hd hp
  | main_array_switch =>
    rw [step_main_array_switch]
    exact pops_parse_value p _ hp
  | array_begin =>
    rcases step_array_begin buf p with ⟨_, e⟩ | ⟨_, _, e⟩ | ⟨_, _, e⟩
    · rw [e]; exact hp
    · rw [e]; exact hr
    · rw [e]; exact hr
  | array_continue =>
    rcases step_array_continue buf p with ⟨_, e⟩ | ⟨_, _, e⟩ | ⟨_, _, _, e⟩ | ⟨_, _, e⟩ | ⟨_, _, _, e⟩
    · rw [e]; exact hp
    · rw [e]; exact hr
    · rw [e]; exact hr
    · rw [e]; exact hrr
    · rw [e]; exact hr
  | object_begin =>
    rcases step_object_begin buf p with ⟨_, e⟩ | ⟨_, _, e⟩ | ⟨_, _, e⟩ | ⟨_, _, _, e⟩
    · rw [e]; exact hp
    · rw [e]; exact pops_write_string _ hr
    · rw [e]; exact hr
    · rw [e]; exact hr
  | object_key_state =>
    rcases step_object_key_state buf p with ⟨_, e⟩ | ⟨_, _, e⟩ | ⟨_, _, _, e⟩ | ⟨_, _, e⟩
    · rw [e]; exact hp
    · rw [e]; exact hr
    · rw [e]; exact hr
    · rw [e]
      exact pops_parse_value _ _ hrr
  | object_continue =>
    rcases step_object_continue buf p with
      ⟨_, e⟩ | ⟨_, _, e⟩ | ⟨_, _, _, e⟩ | ⟨_, _, _, e⟩ | ⟨_, _, _, e⟩ | ⟨_, _, _, e⟩
    · rw [e]; exact hp
    · rw [e]; exact hr
    · rw [e]; exact hr
    · rw [e]; exact hrr
    · rw [e]; exact pops_write_string _ hrr
    · rw [e]; exact hr

theorem walk_pops_point (buf : Nat → Nat) (t : Nat) (cfg : Label × StructuralParser)
    (h : WalkInv cfg) (hp : PopsPoint cfg.2) : PopsPoint (walk buf t cfg).2 := by
  induction t generalizing cfg with
  | zero => exact hp
  | succ t ih =>
    rw [walk_succ]
    exact ih _ (step_inv buf cfg h) (step_pops buf cfg h hp)

theorem pops_run (buf : Nat → Nat) (len : Nat) (pj1 : ParsedJson) (t : Nat)
    (h0 : pj1.current_loc = 0) (hcap : 1 < pj1.depth_capacity) :
    PopsPoint (walk buf t (first_value (walk_start buf len pj1))).2 := by
  refine walk_pops_point buf t _ (walk_inv_first buf len pj1 h0 hcap) ?_
  rw [first_value_eq]
  refine pops_parse_value _ _ ?_
  intro slot s e hm
  rw [(walk_start_facts buf len pj1 h0).2.2.2.2.2.2.2.2.2.2.2.2] at hm
  simp only [List.mem_cons, List.mem_singleton, List.mem_nil_iff, or_false] at hm
  rcases hm with hm | hm
  · exact Event.noConfusion hm
  · exact Event.noConfusion hm

/-- The scopes closed during the walk that follows a successful `start` on a workspace
whose tape is empty: the end entry points to the start entry, and the kinds of the two
entries are those of one container. -/
theorem walk_scope_entries (buf : Nat → Nat) (len : Nat) (pjw : ParsedJson)
    (h0 : pjw.current_loc = 0) (hd : 1 < pjw.depth_capacity) (t slot s e : Nat)
    (hm : Event.pop slot s e ∈ (walk buf t (first_value (walk_start buf len pjw))).2.log) :
    ((walk buf t (first_value (walk_start buf len pjw))).2.pj.tape e).payload = s ∧
    ((((walk buf t (first_value (walk_start buf len pjw))).2.pj.tape e).kind = ch_rbrace ∧
        ((walk buf t (first_value (walk_start buf len pjw))).2.pj.tape s).kind = ch_lbrace) ∨
      (((walk buf t (first_value (walk_start buf len pjw))).2.pj.tape e).kind = ch_rbracket ∧
        ((walk buf t (first_value (walk_start buf len pjw))).2.pj.tape s).kind
          = ch_lbracket)) :=
  ⟨(pops_run buf len pjw t h0 hd slot s e hm).2, (walk_pops buf len pjw h0 hd t slot s e hm).1⟩

end simdjson

namespace simdjson
open StructuralParser

/-! ## Properties of the parser state kept by the members that the walk calls -/

/-- A property of the parser state that each member keeps, where the walk calls it, is
kept by every transition. -/
theorem step_keeps (buf : Nat → Nat) (P : StructuralParser → Prop)
    (hread : ∀ p, P p → P (p.read_next buf))
    (hstr : ∀ p, P p → P p.write_string) (hatom : ∀ p, P p → P p.write_atom)
    (hnum : ∀ p, P p → P p.write_number)
    (hpush : ∀ p k, StateInv p → 2 ≤ p.depth → P p → P (p.push_scope k).2)
    (hpop : ∀ p, StateInv p → 2 ≤ p.depth → P p → P p.pop_scope.2)
    (cfg : Label × StructuralParser) (h : WalkInv cfg) (hp : P cfg.2) :
    P (step buf cfg).2 := by
  obtain ⟨L, p⟩ := cfg
  have hp : P p := hp
  have hr := hread p hp
  have hrr := hread _ hr
  have hpv : ∀ (q : StructuralParser) (k : ret_address), StateInv q → 2 ≤ q.depth → P q →
      P (q.parse_value k).2 := by
    intro q k hs hd hq
    rcases parse_value_cases q k with ⟨_, e | e | e⟩ | ⟨_, _, e⟩ | ⟨_, _, e⟩ | ⟨_, _, _, e⟩
    · rw [e]; exact hstr q hq
    · rw [e]; exact hatom q hq
    · rw [e]; exact hnum q hq
    · rw [e]; exact hpush q k hs hd hq
    · rw [e]; exact hpush q k hs hd hq
    · rw [e]; exact hq
  cases L with
  | finish => rw [step_terminal buf .finish p rfl]; exact hp
  | error => rw [step_terminal buf .error p rfl]; exact hp
  | overrun => rw [step_terminal buf .overrun p rfl]; exact hp
  | scope_end =>
    obtain ⟨hi, hd⟩ := h
    rw [step_scope_end]
    exact hpop p hi hd hp
  | main_array_switch =>
    obtain ⟨hi, hd⟩ := h
    rw [step_main_array_switch]
    exact hpv p _ hi hd hp
  | array_begin =>
    rcases step_array_begin buf p with ⟨_, e⟩ | ⟨_, _, e⟩ | ⟨_, _, e⟩
    · rw [e]; exact hp
    · rw [e]; exact hr
    · rw [e]; exact hr
  | array_continue =>
    rcases step_array_continue buf p with ⟨_, e⟩ | ⟨_, _, e⟩ | ⟨_, _, _, e⟩ | ⟨_, _, e⟩ | ⟨_, _, _, e⟩
    · rw [e]; exact hp
    · rw [e]; exact hr
    · rw [e]; exact hr
    · rw [e]; exact hrr
    · rw [e]; exact hr
  | object_begin =>
    rcases step_object_begin buf p with ⟨_, e⟩ | ⟨_, _, e⟩ | ⟨_, _, e⟩ | ⟨_, _, _, e⟩
    · rw [e]; exact hp
    · rw [e]; exact hstr _ hr
    · rw [e]; exact hr
    · rw [e]; exact hr
  | object_key_state =>
    obtain ⟨hi, hd⟩ := h
    rcases step_object_key_state buf p with ⟨_, e⟩ | ⟨_, _, e⟩ | ⟨_, _, _, e⟩ | ⟨_, _, e⟩
    · rw [e]; exact hp
    · rw [e]; exact hr
    · rw [e]; exact hr
    · rw [e]
      exact hpv _ _ (inv_read buf _ (inv_read buf p hi)) hd hrr
  | object_continue =>
    rcases step_object_continue buf p with
      ⟨_, e⟩ | ⟨_, _, e⟩ | ⟨_, _, _, e⟩ | ⟨_, _, _, e⟩ | ⟨_, _, _, e⟩ | ⟨_, _, _, e⟩
    · rw [e]; exact hp
    · rw [e]; exact hr
    · rw [e]; exact hr
    · rw [e]; exact hrr
    · rw [e]; exact hstr _ hrr
    · rw [e]; exact hr

theorem walk_keeps (buf : Nat → Nat) (P : StructuralParser → Prop)
    (hread : ∀ p, P p → P (p.read_next buf))
    (hstr : ∀ p, P p → P p.write_string) (hatom : ∀ p, P p → P p.write_atom)
    (hnum : ∀ p, P p → P p.write_number)
    (hpush : ∀ p k, StateInv p → 2 ≤ p.depth → P p → P (p.push_scope k).2)
    (hpop : ∀ p, StateInv p → 2 ≤ p.depth → P p → P p.pop_scope.2)
    (t : Nat) (cfg : Label × StructuralParser) (h : WalkInv cfg) (hp : P cfg.2) :
    P (walk buf t cfg).2 := by
  induction t generalizing cfg with
  | zero => exact hp
  | succ t ih =>
    rw [walk_succ]
    exact ih _ (step_inv buf cfg h)
      (step_keeps buf P hread hstr hatom hnum hpush hpop cfg h hp)

/-- The return states of the two lowest slots along the walk that follows a successful
`start` on a workspace whose tape is empty: `finish` at slot 0, and at slot 1 once the
root container is open. -/
theorem root_return_states (buf : Nat → Nat) (len : Nat) (pjw : ParsedJson)
    (h0 : pjw.current_loc = 0) (hd : 1 < pjw.depth_capacity) (t : Nat) :
    (walk buf t (first_value (walk_start buf len pjw))).2.pj.ret_address 0 = .finish ∧
    (2 ≤ (walk buf t (first_value (walk_start buf len pjw))).2.depth →
      (walk buf t (first_value (walk_start buf len pjw))).2.pj.ret_address 1 = .finish) := by
  refine walk_keeps buf
    (fun p => p.pj.ret_address 0 = .finish ∧ (2 ≤ p.depth → p.pj.ret_address 1 = .finish))
    ?_ ?_ ?_ ?_ ?_ ?_ t _ (walk_inv_first buf len pjw h0 hd) ?_
  · intro p hp; exact hp
  · intro p hp; exact hp
  · intro p hp; exact hp
  · intro p hp; exact hp
  · intro p k _ h2 hp
    refine ⟨?_, fun _ => ?_⟩
    · rw [push_scope_ret, Function.update_noteq (by omega)]; exact hp.1
    · rw [push_scope_ret, Function.update_noteq (by omega)]; exact hp.2 h2
  · intro p _ h2 hp
    refine ⟨hp.1, fun h => ?_⟩
    exact hp.2 h2
  · obtain ⟨_, _, hdep, _, _, _, _, hret, _⟩ := walk_start_facts buf len pjw h0
    rw [first_value_eq]
    rcases parse_value_cases (walk_start buf len pjw) .finish with
      ⟨_, e | e | e⟩ | ⟨_, _, e⟩ | ⟨_, _, e⟩ | ⟨_, _, _, e⟩
    · rw [e]; exact ⟨hret, fun h => by simp only [write_string_depth] at h; omega⟩
    · rw [e]; exact ⟨hret, fun h => by simp only [write_atom_depth] at h; omega⟩
    · rw [e]; exact ⟨hret, fun h => by simp only [write_number_depth] at h; omega⟩
    · rw [e]
      refine ⟨?_, fun _ => ?_⟩
      · rw [push_scope_ret, Function.update_noteq (by omega)]; exact hret
      · rw [push_scope_ret, hdep, Function.update_same]
    · rw [e]
      refine ⟨?_, fun _ => ?_⟩
      · rw [push_scope_ret, Function.update_noteq (by omega)]; exact hret
      · rw [push_scope_ret, hdep, Function.update_same]
    · rw [e]
      refine ⟨hret, fun h => ?_⟩
      have h : 2 ≤ (walk_start buf len pjw).depth := h
      omega

end simdjson

namespace simdjson
open StructuralParser

/-! ## The reads of the walk when the sentinel byte is neutral -/

theorem dispatch_of_scalar {c : Nat} (h : is_scalar_start c = true) :
    is_dispatch_byte c = true := by
  simp [is_dispatch_byte, h]

theorem dispatch_of_bracket {c : Nat}
    (h : c = ch_lbracket ∨ c = ch_lbrace ∨ c = ch_rbracket ∨ c = ch_rbrace ∨ c = ch_comma ∨
      c = ch_colon ∨ c = ch_quote) : is_dispatch_byte c = true := by
  rcases h with h | h | h | h | h | h | h <;> subst h <;> decide

theorem GOTO_ne_overrun (a : ret_address) : GOTO a ≠ .overrun := by
  cases a <;> simp [GOTO]

/-- A state whose current character is one on which the machine dispatches has not
read the sentinel, when the byte there is neutral. -/
theorem guarded_lt (buf : Nat → Nat) (p : StructuralParser)
    (hsent : is_dispatch_byte
      (structural_byte buf p.pj (p.pj.n_structural_indexes - 1)) = false)
    (h2 : p.i ≤ p.pj.n_structural_indexes)
    (hc : p.c = structural_byte buf p.pj (p.i - 1)) (hd : is_dispatch_byte p.c = true) :
    p.i < p.pj.n_structural_indexes := by
  by_contra hlt
  have e : p.i = p.pj.n_structural_indexes := by omega
  rw [hc, e, hsent] at hd
  cases hd

/-- Dispatching on a value keeps the guard of the reads. -/
theorem parse_value_guarded (buf : Nat → Nat) (p : StructuralParser) (cont : ret_address)
    (h1 : 1 ≤ p.i) (h2 : p.i ≤ p.pj.n_structural_indexes)
    (hc : p.c = structural_byte buf p.pj (p.i - 1)) :
    ReadsGuarded buf (GOTO (p.parse_value cont).1, (p.parse_value cont).2) := by
  have hcont : GOTO cont ≠ .overrun := GOTO_ne_overrun cont
  rcases parse_value_cases p cont with ⟨hs, e | e | e⟩ | ⟨hb, _, e⟩ | ⟨_, _, e⟩ | ⟨_, _, _, e⟩
  · rw [e]; exact ⟨h1, h2, hc, hcont, fun _ _ => dispatch_of_scalar hs⟩
  · rw [e]; exact ⟨h1, h2, hc, hcont, fun _ _ => dispatch_of_scalar hs⟩
  · rw [e]; exact ⟨h1, h2, hc, hcont, fun _ _ => dispatch_of_scalar hs⟩
  · rw [e]
    refine ⟨h1, h2, hc, GOTO_ne_overrun _, fun _ _ => ?_⟩
    rcases hb with hb | hb
    · exact dispatch_of_bracket (Or.inl hb)
    · exact dispatch_of_bracket (Or.inr (Or.inl hb))
  · rw [e]
    exact ⟨h1, h2, hc, GOTO_ne_overrun .error, fun h => absurd rfl h⟩
  · rw [e]
    exact ⟨h1, h2, hc, GOTO_ne_overrun .error, fun h => absurd rfl h⟩

/-- Every transition keeps the guard of the reads, when the byte at the sentinel is not
one on which the machine dispatches. -/
theorem step_guarded (buf : Nat → Nat) (cfg : Label × StructuralParser)
    (hsent : is_dispatch_byte
      (structural_byte buf cfg.2.pj (cfg.2.pj.n_structural_indexes - 1)) = false)
    (h : ReadsGuarded buf cfg) : ReadsGuarded buf (step buf cfg) := by
  obtain ⟨L, p⟩ := cfg
  obtain ⟨h1, h2, hc, hov, hdis⟩ := h
  have h1 : 1 ≤ p.i := h1
  have h2 : p.i ≤ p.pj.n_structural_indexes := h2
  have hc : p.c = structural_byte buf p.pj (p.i - 1) := hc
  have hsent : is_dispatch_byte
      (structural_byte buf p.pj (p.pj.n_structural_indexes - 1)) = false := hsent
  have hlt : L ≠ .error → L ≠ .main_array_switch → p.i < p.pj.n_structural_indexes :=
    fun a b => guarded_lt buf p hsent h2 hc (hdis a b)
  have hrc : (p.read_next buf).c
      = structural_byte buf (p.read_next buf).pj ((p.read_next buf).i - 1) := rfl
  have hrrc : ((p.read_next buf).read_next buf).c
      = structural_byte buf ((p.read_next buf).read_next buf).pj
          (((p.read_next buf).read_next buf).i - 1) := rfl
  have hlt2 : p.i < p.pj.n_structural_indexes →
      is_dispatch_byte (structural_byte buf p.pj p.i) = true →
      p.i + 1 < p.pj.n_structural_indexes := by
    intro a b
    exact guarded_lt buf (p.read_next buf) hsent (by simp; omega) hrc b
  have r1 : p.i < p.pj.n_structural_indexes → 1 ≤ (p.read_next buf).i ∧
      (p.read_next buf).i ≤ (p.read_next buf).pj.n_structural_indexes := by
    intro a
    simp only [read_next_i, read_next_pj]
    omega
  have r2 : p.i + 1 < p.pj.n_structural_indexes → 1 ≤ ((p.read_next buf).read_next buf).i ∧
      ((p.read_next buf).read_next buf).i
        ≤ ((p.read_next buf).read_next buf).pj.n_structural_indexes := by
    intro a
    simp only [read_next_i, read_next_pj]
    omega
  cases L with
  | finish => rw [step_terminal buf .finish p rfl]; exact ⟨h1, h2, hc, hov, hdis⟩
  | error => rw [step_terminal buf .error p rfl]; exact ⟨h1, h2, hc, hov, hdis⟩
  | overrun => exact absurd rfl hov
  | scope_end =>
    rw [step_scope_end]
    exact ⟨h1, h2, hc, GOTO_ne_overrun _, fun _ _ => hdis (by simp) (by simp)⟩
  | main_array_switch =>
    rw [step_main_array_switch]
    exact parse_value_guarded buf p _ h1 h2 hc
  | array_begin =>
    have hl := hlt (by simp) (by simp)
    rcases step_array_begin buf p with ⟨a, _⟩ | ⟨a, hb, e⟩ | ⟨a, _, e⟩
    · omega
    · rw [e]
      exact ⟨(r1 a).1, (r1 a).2, hrc, by simp,
        fun _ _ => dispatch_of_bracket (Or.inr (Or.inr (Or.inl hb)))⟩
    · rw [e]
      exact ⟨(r1 a).1, (r1 a).2, hrc, by simp, fun _ hh => absurd rfl hh⟩
  | array_continue =>
    have hl := hlt (by simp) (by simp)
    rcases step_array_continue buf p with
      ⟨a, _⟩ | ⟨a, hb, e⟩ | ⟨a, hb, a2, _⟩ | ⟨a, _, e⟩ | ⟨a, _, _, e⟩
    · omega
    · rw [e]
      exact ⟨(r1 a).1, (r1 a).2, hrc, by simp,
        fun _ _ => dispatch_of_bracket (Or.inr (Or.inr (Or.inl hb)))⟩
    · have := hlt2 a (dispatch_of_bracket (Or.inr (Or.inr (Or.inr (Or.inr (Or.inl hb))))))
      omega
    · rw [e]
      exact ⟨(r2 a).1, (r2 a).2, hrrc, by simp, fun _ hh => absurd rfl hh⟩
    · rw [e]
      exact ⟨(r1 a).1, (r1 a).2, hrc, by simp, fun hh => absurd rfl hh⟩
  | object_begin =>
    have hl := hlt (by simp) (by simp)
    rcases step_object_begin buf p with ⟨a, _⟩ | ⟨a, hb, e⟩ | ⟨a, hb, e⟩ | ⟨a, _, _, e⟩
    · omega
    · rw [e]
      exact ⟨(r1 a).1, (r1 a).2, hrc, by simp,
        fun _ _ => dispatch_of_bracket
          (Or.inr (Or.inr (Or.inr (Or.inr (Or.inr (Or.inr hb))))))⟩
    · rw [e]
      exact ⟨(r1 a).1, (r1 a).2, hrc, by simp,
        fun _ _ => dispatch_of_bracket (Or.inr (Or.inr (Or.inr (Or.inl hb))))⟩
    · rw [e]
      exact ⟨(r1 a).1, (r1 a).2, hrc, by simp, fun hh => absurd rfl hh⟩
  | object_key_state =>
    have hl := hlt (by simp) (by simp)
    rcases step_object_key_state buf p with ⟨a, _⟩ | ⟨a, _, e⟩ | ⟨a, hb, a2, _⟩ | ⟨a, _, e⟩
    · omega
    · rw [e]
      exact ⟨(r1 a).1, (r1 a).2, hrc, by simp, fun hh => absurd rfl hh⟩
    · have := hlt2 a (dispatch_of_bracket
        (Or.inr (Or.inr (Or.inr (Or.inr (Or.inr (Or.inl hb)))))))
      omega
    · rw [e]
      exact parse_value_guarded buf _ _ (r2 a).1 (r2 a).2 hrrc
  | object_continue =>
    have hl := hlt (by simp) (by simp)
    rcases step_object_continue buf p with
      ⟨a, _⟩ | ⟨a, hb, e⟩ | ⟨a, hb, a2, _⟩ | ⟨a, _, _, e⟩ | ⟨a, _, hb, e⟩ | ⟨a, _, _, e⟩
    · omega
    · rw [e]
      exact ⟨(r1 a).1, (r1 a).2, hrc, by simp,
        fun _ _ => dispatch_of_bracket (Or.inr (Or.inr (Or.inr (Or.inl hb))))⟩
    · have := hlt2 a (dispatch_of_bracket (Or.inr (Or.inr (Or.inr (Or.inr (Or.inl hb))))))
      omega
    · rw [e]
      exact ⟨(r2 a).1, (r2 a).2, hrrc, by simp, fun hh => absurd rfl hh⟩
    · rw [e]
      exact ⟨(r2 a).1, (r2 a).2, hrrc, by simp,
        fun _ _ => dispatch_of_bracket
          (Or.inr (Or.inr (Or.inr (Or.inr (Or.inr (Or.inr hb))))))⟩
    · rw [e]
      exact ⟨(r1 a).1, (r1 a).2, hrc, by simp, fun hh => absurd rfl hh⟩

theorem walk_guarded (buf : Nat → Nat) (t : Nat) (cfg : Label × StructuralParser)
    (hsent : is_dispatch_byte
      (structural_byte buf cfg.2.pj (cfg.2.pj.n_structural_indexes - 1)) = false)
    (h : ReadsGuarded buf cfg) : ReadsGuarded buf (walk buf t cfg) := by
  induction t generalizing cfg with
  | zero => exact h
  | succ t ih =>
    rw [walk_succ]
    refine ih _ ?_ (step_guarded buf cfg hsent h)
    have hf := (walk_frame buf 1 cfg).1
    rw [walk_one] at hf
    unfold structural_byte at hsent ⊢
    rw [hf.1, hf.2.1]
    exact hsent

/-- The walk after `start` on a workspace whose tape is empty, when the index is not
empty and the byte at the sentinel is not one on which the machine dispatches: it never
reads outside the structural index. -/
theorem run_guarded (buf : Nat → Nat) (len : Nat) (pjw : ParsedJson)
    (h0 : pjw.current_loc = 0) (hn : 1 ≤ pjw.n_structural_indexes)
    (hsent : is_dispatch_byte
      (structural_byte buf pjw (pjw.n_structural_indexes - 1)) = false) (t : Nat) :
    ReadsGuarded buf (walk buf t (first_value (walk_start buf len pjw))) := by
  obtain ⟨hi, hc, _, _, hnn, hsi, _⟩ := walk_start_facts buf len pjw h0
  have hs : is_dispatch_byte (structural_byte buf (walk_start buf len pjw).pj
      ((walk_start buf len pjw).pj.n_structural_indexes - 1)) = false := by
    unfold structural_byte at hsent ⊢
    rw [hsi, hnn]
    exact hsent
  have hf := (first_value_frame (walk_start buf len pjw)).1
  refine walk_guarded buf t _ ?_ ?_
  · unfold structural_byte at hs ⊢
    rw [hf.1, hf.2.1]
    exact hs
  · rw [first_value_eq]
    refine parse_value_guarded buf _ _ (by omega) (by omega) ?_
    rw [hc, hi]
    unfold structural_byte
    rw [hsi]

end simdjson

namespace simdjson
open StructuralParser

/-- The second half of `unified_machine` on a workspace whose tape is empty, when the
index is not empty and the byte at the sentinel is not one on which the machine
dispatches: no read is made outside the structural index, and every read recorded is
the one of a position of the index. -/
theorem structurals_in_bounds (buf : Nat → Nat) (len : Nat) (pjw : ParsedJson)
    (h0 : pjw.current_loc = 0) (hn : 1 ≤ pjw.n_structural_indexes)
    (hsent : is_dispatch_byte
      (structural_byte buf pjw (pjw.n_structural_indexes - 1)) = false) :
    (parse_structurals buf len pjw).outcome ≠ .overrun ∧
    ∀ pos off, Event.read pos off ∈ (parse_structurals buf len pjw).log →
      pos < pjw.n_structural_indexes ∧ off = pjw.structural_indexes pos := by
  obtain ⟨hi, _, _, _, hnn, hsi, _, _, _, _, _, _, hlog⟩ := walk_start_facts buf len pjw h0
  rw [parse_structurals_eq buf len pjw hn]
  by_cases hd : pjw.depth_capacity ≤ 1
  · rw [if_pos hd]
    refine ⟨by simp, ?_⟩
    intro pos off hm
    have hm : Event.read pos off ∈ (walk_start buf len pjw).log := hm
    rw [hlog] at hm
    simp only [List.mem_cons, List.mem_singleton, List.mem_nil_iff, or_false] at hm
    rcases hm with hm | hm
    · injection hm with e1 e2
      subst e1 e2
      exact ⟨by omega, rfl⟩
    · exact Event.noConfusion hm
  · rw [if_neg hd]
    have hg := run_guarded buf len pjw h0 hn hsent (walk_fuel pjw)
    have hend : (walk buf (walk_fuel pjw) (first_value (walk_start buf len pjw))).1.terminal
        = true := by
      apply walk_ends
      have := first_value_measure (walk_start buf len pjw) (by omega)
      unfold walk_fuel at this ⊢
      rw [hnn] at this
      exact this
    have hr := reads_below_walk buf (walk_fuel pjw) _ (reads_below_first buf len pjw h0)
    have hf := (walk_frame buf (walk_fuel pjw) (first_value (walk_start buf len pjw))).1
    have hf1 := (first_value_frame (walk_start buf len pjw)).1
    rw [conclude_log]
    generalize walk buf (walk_fuel pjw) (first_value (walk_start buf len pjw)) = cfg at *
    obtain ⟨L, q⟩ := cfg
    obtain ⟨g1, g2, _, g4, _⟩ := hg
    have g2 : q.i ≤ q.pj.n_structural_indexes := g2
    have en : q.pj.n_structural_indexes = pjw.n_structural_indexes := by
      rw [hf.2.1, hf1.2.1, hnn]
    have es : q.pj.structural_indexes = pjw.structural_indexes := by
      rw [hf.1, hf1.1, hsi]
    refine ⟨?_, ?_⟩
    · cases L with
      | finish => simp [conclude]
      | error => simp [conclude]
      | overrun => exact absurd rfl g4
      | scope_end => simp [Label.terminal] at hend
      | main_array_switch => simp [Label.terminal] at hend
      | array_begin => simp [Label.terminal] at hend
      | array_continue => simp [Label.terminal] at hend
      | object_begin => simp [Label.terminal] at hend
      | object_key_state => simp [Label.terminal] at hend
      | object_continue => simp [Label.terminal] at hend
    · intro pos off hm
      obtain ⟨a, b⟩ := hr pos off hm
      have a : pos < q.i := a
      rw [es] at b
      exact ⟨by omega, b⟩

end simdjson

namespace simdjson
open StructuralParser

/-! ## Trailing commas -/

theorem error_at_closing (p : StructuralParser) (hd : p.depth < p.pj.depth_capacity)
    (hc : p.c = ch_rbracket ∨ p.c = ch_rbrace) : p.error.1 = .TAPE_ERROR := by
  have hd2 : ¬ p.depth ≥ p.pj.depth_capacity := by omega
  unfold StructuralParser.error
  rw [if_neg hd2]
  rcases hc with hc | hc <;> rw [hc] <;>
    simp [set_error_code, is_number_start, is_digit, ch_rbracket, ch_rbrace, ch_quote, ch_t,
      ch_n, ch_f, ch_minus]

/-- From `array_continue` before `,` `]`, and from `object_continue` before `,` `}`, the
walk is at `error` within two transitions, and `error` gives `TAPE_ERROR`. -/
theorem trailing_comma_error (buf : Nat → Nat) (L : Label) (q : StructuralParser)
    (hdep : q.depth < q.pj.depth_capacity)
    (hi : q.i + 1 < q.pj.n_structural_indexes)
    (hat : (L = .array_continue ∧ structural_byte buf q.pj q.i = ch_comma ∧
        structural_byte buf q.pj (q.i + 1) = ch_rbracket) ∨
      (L = .object_continue ∧ structural_byte buf q.pj q.i = ch_comma ∧
        structural_byte buf q.pj (q.i + 1) = ch_rbrace)) :
    (walk buf 2 (L, q)).1 = .error ∧ (walk buf 2 (L, q)).2.error.1 = .TAPE_ERROR := by
  rcases hat with ⟨hL, h1, h2⟩ | ⟨hL, h1, h2⟩
  · subst hL
    have e1 : step buf (.array_continue, q)
        = (.main_array_switch, (q.read_next buf).read_next buf) := by
      rcases step_array_continue buf q with
        ⟨a, _⟩ | ⟨_, hb, _⟩ | ⟨_, _, a, _⟩ | ⟨_, _, e⟩ | ⟨_, _, hb, _⟩
      · omega
      · rw [h1] at hb; cases hb
      · omega
      · exact e
      · exact absurd h1 hb
    have hc : ((q.read_next buf).read_next buf).c = ch_rbracket := h2
    have e2 : ((q.read_next buf).read_next buf).parse_value .array_continue
        = (.error, (q.read_next buf).read_next buf) := by
      rcases parse_value_cases ((q.read_next buf).read_next buf) .array_continue with
        ⟨hs, _⟩ | ⟨hb, _, _⟩ | ⟨hb, _, _⟩ | ⟨_, _, _, e⟩
      · rw [hc] at hs; cases hs
      · rw [hc] at hb; rcases hb with hb | hb <;> cases hb
      · rw [hc] at hb; rcases hb with hb | hb <;> cases hb
      · exact e
    have e3 : walk buf 2 (.array_continue, q) = (.error, (q.read_next buf).read_next buf) := by
      rw [walk_succ, e1, walk_one, step_main_array_switch, e2]
      rfl
    rw [e3]
    exact ⟨rfl, error_at_closing _ hdep (Or.inl hc)⟩
  · subst hL
    have e1 : step buf (.object_continue, q) = (.error, (q.read_next buf).read_next buf) := by
      rcases step_object_continue buf q with
        ⟨a, _⟩ | ⟨_, hb, _⟩ | ⟨_, _, a, _⟩ | ⟨_, _, _, e⟩ | ⟨_, _, hb, _⟩ | ⟨_, _, hb, _⟩
      · omega
      · rw [h1] at hb; cases hb
      · omega
      · exact e
      · rw [h2] at hb; cases hb
      · exact absurd h1 hb
    have hc : ((q.read_next buf).read_next buf).c = ch_rbrace := h2
    have e3 : walk buf 2 (.object_continue, q) = (.error, (q.read_next buf).read_next buf) := by
      rw [walk_succ, e1, walk_one, step_terminal buf .error _ rfl]
    rw [e3]
    exact ⟨rfl, error_at_closing _ hdep (Or.inr hc)⟩

/-- The second half of `unified_machine` on a workspace whose tape is empty, when the
walk reaches a trailing comma. -/
theorem trailing_comma_run (buf : Nat → Nat) (len : Nat) (pjw : ParsedJson)
    (h0 : pjw.current_loc = 0) (hn : 1 ≤ pjw.n_structural_indexes)
    (hd : 1 < pjw.depth_capacity) (t : Nat)
    (hi : (walk buf t (first_value (walk_start buf len pjw))).2.i + 1
      < pjw.n_structural_indexes)
    (hat : ((walk buf t (first_value (walk_start buf len pjw))).1 = .array_continue ∧
        structural_byte buf pjw (walk buf t (first_value (walk_start buf len pjw))).2.i
          = ch_comma ∧
        structural_byte buf pjw ((walk buf t (first_value (walk_start buf len pjw))).2.i + 1)
          = ch_rbracket) ∨
      ((walk buf t (first_value (walk_start buf len pjw))).1 = .object_continue ∧
        structural_byte buf pjw (walk buf t (first_value (walk_start buf len pjw))).2.i
          = ch_comma ∧
        structural_byte buf pjw ((walk buf t (first_value (walk_start buf len pjw))).2.i + 1)
          = ch_rbrace)) :
    (parse_structurals buf len pjw).outcome = .returned .TAPE_ERROR := by
  obtain ⟨hi1, _, _, _, hnn, hsi, _⟩ := walk_start_facts buf len pjw h0
  rw [parse_structurals_eq buf len pjw hn, if_neg (by omega)]
  have hw := walk_inv_run buf len pjw t h0 hd
  have hf := (walk_frame buf t (first_value (walk_start buf len pjw))).1
  have hf1 := (first_value_frame (walk_start buf len pjw)).1
  have hm : walk_measure (first_value (walk_start buf len pjw)) ≤ walk_fuel pjw := by
    have := first_value_measure (walk_start buf len pjw) (by omega)
    unfold walk_fuel at this ⊢
    rw [hnn] at this
    exact this
  have hadd : walk buf (t + 2) (first_value (walk_start buf len pjw))
      = walk buf 2 (walk buf t (first_value (walk_start buf len pjw))) := by
    rw [walk_add]
  generalize walk buf t (first_value (walk_start buf len pjw)) = cfg at *
  obtain ⟨L, q⟩ := cfg
  have en : q.pj.n_structural_indexes = pjw.n_structural_indexes := by
    rw [hf.2.1, hf1.2.1, hnn]
  have es : q.pj.structural_indexes = pjw.structural_indexes := by
    rw [hf.1, hf1.1, hsi]
  have hsb : ∀ j, structural_byte buf q.pj j = structural_byte buf pjw j := by
    intro j
    unfold structural_byte
    rw [es]
  have hs : StateInv q := by
    rcases hat with ⟨hL, _⟩ | ⟨hL, _⟩
    · have hL : L = .array_continue := hL
      subst hL
      exact hw.1
    · have hL : L = .object_continue := hL
      subst hL
      exact hw.1
  have hat2 : (L = .array_continue ∧ structural_byte buf q.pj q.i = ch_comma ∧
        structural_byte buf q.pj (q.i + 1) = ch_rbracket) ∨
      (L = .object_continue ∧ structural_byte buf q.pj q.i = ch_comma ∧
        structural_byte buf q.pj (q.i + 1) = ch_rbrace) := by
    rw [hsb, hsb]
    exact hat
  obtain ⟨e1, e2⟩ := trailing_comma_error buf L q hs.2.1 (by rw [en]; exact hi) hat2
  have hend : (walk buf (t + 2) (first_value (walk_start buf len pjw))).1.terminal = true := by
    rw [hadd, e1]
    rfl
  rw [walk_eq_of_terminal buf (t + 2) (walk_fuel pjw) _ hend hm, hadd]
  generalize walk buf 2 (L, q) = cfg2 at *
  obtain ⟨L2, q2⟩ := cfg2
  have e1 : L2 = .error := e1
  subst e1
  show Outcome.returned q2.error.1 = _
  rw [e2]

end simdjson

namespace simdjson
open StructuralParser

/-! ## When the pre-pass succeeds -/

theorem had_error_result_iff (b : Bool) (pj : ParsedJson) (code : ErrorValues)
    (hc : code ≠ .SUCCESS) : (had_error_result b pj code).1 = .SUCCESS ↔ b = false := by
  unfold had_error_result
  cases b
  · simp
  · simp only [if_true]
    constructor
    · intro h; exact absurd h hc
    · intro h; cases h

theorem parse_string_flag (D : ScalarDecoders) (buf : Nat → Nat) (idx : Nat) (pj : ParsedJson) :
    ((parse_string D buf idx pj).1 = true ↔ D.parse_string buf idx ≠ none) ∧
    (parse_string D buf idx pj).2.structural_indexes = pj.structural_indexes := by
  unfold parse_string
  cases D.parse_string buf idx <;> simp

theorem parse_number_flag (D : ScalarDecoders) (src : Nat → Nat) (pj : ParsedJson) (idx : Nat)
    (neg : Bool) :
    ((parse_number D src pj idx neg).1 = true ↔ D.parse_number src idx neg ≠ none) ∧
    (parse_number D src pj idx neg).2.structural_indexes = pj.structural_indexes := by
  unfold parse_number
  cases D.parse_number src idx neg <;> simp

/-- The function `parse_strings` called at position `i` returns `SUCCESS` exactly when
the string decoder succeeds on every structural from `i` on that starts with a double
quote. -/
theorem parse_strings_ok_iff (D : ScalarDecoders) (buf : Nat → Nat) (pj : ParsedJson) (i : Nat) :
    (parse_strings D buf pj i).1 = .SUCCESS ↔
      ∀ x, i ≤ x → x + 1 < pj.n_structural_indexes → structural_byte buf pj x = ch_quote →
        D.parse_string buf (pj.structural_indexes x) ≠ none := by
  have hinv := foldl_range_inv (parse_strings_body D buf)
    (fun j st => st.2.structural_indexes = pj.structural_indexes ∧
      (st.1 = false ↔ ∀ x, i ≤ x → x < j → structural_byte buf pj x = ch_quote →
        D.parse_string buf (pj.structural_indexes x) ≠ none))
    (pj.n_structural_indexes - 1 - i) i (false, pj)
    ⟨rfl, by
      constructor
      · intro _ x h1 h2; omega
      · intro _; rfl⟩
    (by
      intro j st _ _ hI
      obtain ⟨i1, i2⟩ := hI
      unfold parse_strings_body
      by_cases hq : buf (st.2.structural_indexes j) = ch_quote
      · rw [if_pos hq]
        obtain ⟨f1, f2⟩ := parse_string_flag D buf (st.2.structural_indexes j) st.2
        refine ⟨by rw [f2, i1], ?_⟩
        simp only [Bool.or_eq_false_iff, Bool.not_eq_false']
        rw [f1, i2, i1]
        constructor
        · rintro ⟨a, b⟩ x hx1 hx2 hqx
          by_cases hxj : x = j
          · subst hxj; exact b
          · exact a x hx1 (by omega) hqx
        · intro a
          refine ⟨fun x hx1 hx2 hqx => a x hx1 (by omega) hqx, ?_⟩
          refine a j (by omega) (by omega) ?_
          unfold structural_byte
          rw [← i1]
          exact hq
      · rw [if_neg hq]
        refine ⟨i1, ?_⟩
        rw [i2]
        constructor
        · intro a x hx1 hx2 hqx
          have hxj : x ≠ j := by
            intro h
            apply hq
            rw [← hqx, h, i1]
            rfl
          exact a x hx1 (by omega) hqx
        · intro a x hx1 hx2 hqx
          exact a x hx1 (by omega) hqx)
  unfold parse_strings
  rw [had_error_result_iff _ _ _ (by decide), hinv.2]
  constructor
  · intro a x hx1 hx2 hqx
    exact a x hx1 (by omega) hqx
  · intro a x hx1 hx2 hqx
    exact a x hx1 (by omega) hqx

/-- The switch of `parse_numbers` raises no error exactly when the decoder succeeds, if
the byte starts a number. -/
theorem parse_numbers_switch_flag (D : ScalarDecoders) (buf : Nat → Nat) (pj : ParsedJson)
    (idx : Nat) :
    ((parse_numbers_switch D buf pj idx).1 = false ↔
      (is_number_start (buf idx) = true →
        D.parse_number buf idx (decide (buf idx = ch_minus)) ≠ none)) ∧
    (parse_numbers_switch D buf pj idx).2.structural_indexes = pj.structural_indexes := by
  unfold parse_numbers_switch
  by_cases hd : is_digit (buf idx) = true
  · obtain ⟨c1, c2⟩ := digit_class hd
    rw [if_pos hd]
    obtain ⟨f1, f2⟩ := parse_number_flag D buf pj idx false
    refine ⟨?_, f2⟩
    rw [decide_eq_false c2]
    show (!(parse_number D buf pj idx false).1) = false ↔ _
    rw [Bool.not_eq_false', f1]
    exact ⟨fun h _ => h, fun h => h c1⟩
  · rw [if_neg hd]
    by_cases hm : buf idx = ch_minus
    · rw [if_pos hm]
      obtain ⟨f1, f2⟩ := parse_number_flag D buf pj idx true
      refine ⟨?_, f2⟩
      have c1 : is_number_start (buf idx) = true := by
        rw [hm]; decide
      rw [decide_eq_true hm]
      show (!(parse_number D buf pj idx true).1) = false ↔ _
      rw [Bool.not_eq_false', f1]
      exact ⟨fun h _ => h, fun h => h c1⟩
    · rw [if_neg hm]
      refine ⟨?_, rfl⟩
      have c1 : is_number_start (buf idx) = false := by
        have hd2 : is_digit (buf idx) = false := by simpa using hd
        simp [is_number_start, hd2, hm]
      exact ⟨fun _ hs => (by rw [c1] at hs; cases hs), fun _ => rfl⟩

/-- The second loop of `parse_numbers` from position `a`. -/
theorem parse_numbers_loop_iff (D : ScalarDecoders) (buf : Nat → Nat) (pj : ParsedJson)
    (a : Nat) :
    ((List.range' a (pj.n_structural_indexes - 1 - a)).foldl (parse_numbers_body D buf)
        (false, pj)).1 = false ↔
      ∀ x, a ≤ x → x + 1 < pj.n_structural_indexes →
        is_number_start (structural_byte buf pj x) = true →
        D.parse_number buf (pj.structural_indexes x)
          (decide (structural_byte buf pj x = ch_minus)) ≠ none := by
  have hinv := foldl_range_inv (parse_numbers_body D buf)
    (fun j st => st.2.structural_indexes = pj.structural_indexes ∧
      (st.1 = false ↔ ∀ x, a ≤ x → x < j →
        is_number_start (structural_byte buf pj x) = true →
        D.parse_number buf (pj.structural_indexes x)
          (decide (structural_byte buf pj x = ch_minus)) ≠ none))
    (pj.n_structural_indexes - 1 - a) a (false, pj)
    ⟨rfl, by
      constructor
      · intro _ x h1 h2; omega
      · intro _; rfl⟩
    (by
      intro j st _ _ hI
      obtain ⟨i1, i2⟩ := hI
      unfold parse_numbers_body
      obtain ⟨f1, f2⟩ := parse_numbers_switch_flag D buf st.2 (st.2.structural_indexes j)
      refine ⟨by rw [f2, i1], ?_⟩
      simp only [Bool.or_eq_false_iff]
      rw [f1, i2, i1]
      constructor
      · rintro ⟨u, v⟩ x hx1 hx2 hqx
        by_cases hxj : x = j
        · subst hxj; exact v hqx
        · exact u x hx1 (by omega) hqx
      · intro u
        exact ⟨fun x hx1 hx2 hqx => u x hx1 (by omega) hqx,
          fun hq => u j (by omega) (by omega) hq⟩)
  rw [hinv.2]
  constructor
  · intro u x hx1 hx2 hqx
    exact u x hx1 (by omega) hqx
  · intro u x hx1 hx2 hqx
    exact u x hx1 (by omega) hqx

/-- The function `parse_numbers` called at position `i` returns `SUCCESS` exactly when
the number decoder succeeds on every structural from `i` on that starts with a digit or
a minus sign; when the structural at `i` is the last one before the sentinel, the
decoder runs on the space-terminated copy, which has to be allocated. -/
theorem parse_numbers_ok_iff (D : ScalarDecoders) (buf : Nat → Nat) (len : Nat)
    (pj : ParsedJson) (i : Nat) :
    (parse_numbers D buf len pj i).1 = .SUCCESS ↔
      (i + 2 = pj.n_structural_indexes →
        is_number_start (structural_byte buf pj i) = true →
        D.malloc_succeeds = true ∧
        D.parse_number (space_terminated_copy buf len) (pj.structural_indexes i)
          (decide (structural_byte buf pj i = ch_minus)) ≠ none) ∧
      (i + 2 ≠ pj.n_structural_indexes →
        ∀ x, i ≤ x → x + 1 < pj.n_structural_indexes →
          is_number_start (structural_byte buf pj x) = true →
          D.parse_number buf (pj.structural_indexes x)
            (decide (structural_byte buf pj x = ch_minus)) ≠ none) := by
  unfold parse_numbers
  rw [had_error_result_iff _ _ _ (by decide)]
  unfold parse_numbers_loop parse_numbers_last
  by_cases hlast : i + 2 = pj.n_structural_indexes
  · rw [if_pos hlast]
    have hz : pj.n_structural_indexes - 1 - (i + 1) = 0 := by omega
    have key : ∀ st : Bool × ParsedJson,
        ((List.range' (i + 1) (pj.n_structural_indexes - 1 - (i + 1))).foldl
          (parse_numbers_body D buf) st) = st := by
      intro st
      rw [hz]
      rfl
    have copy_case : ∀ (neg : Bool), is_number_start (structural_byte buf pj i) = true →
        decide (structural_byte buf pj i = ch_minus) = neg →
        ((with_space_terminated_copy D buf len
            (parse_number_on D pj (pj.structural_indexes i) neg) pj).1 = false ↔
          (i + 2 = pj.n_structural_indexes →
            is_number_start (structural_byte buf pj i) = true →
            D.malloc_succeeds = true ∧
            D.parse_number (space_terminated_copy buf len) (pj.structural_indexes i)
              (decide (structural_byte buf pj i = ch_minus)) ≠ none) ∧
          (i + 2 ≠ pj.n_structural_indexes →
            ∀ x, i ≤ x → x + 1 < pj.n_structural_indexes →
              is_number_start (structural_byte buf pj x) = true →
              D.parse_number buf (pj.structural_indexes x)
                (decide (structural_byte buf pj x = ch_minus)) ≠ none)) := by
      intro neg c1 hdec
      rw [hdec]
      unfold with_space_terminated_copy parse_number_on
      by_cases hm : D.malloc_succeeds = true
      · rw [if_pos hm]
        obtain ⟨f1, _⟩ := parse_number_flag D (space_terminated_copy buf len) pj
          (pj.structural_indexes i) neg
        show (!(parse_number D (space_terminated_copy buf len) pj
          (pj.structural_indexes i) neg).1) = false ↔ _
        rw [Bool.not_eq_false', f1]
        exact ⟨fun h => ⟨fun _ _ => ⟨hm, h⟩, fun hne => absurd hlast hne⟩,
          fun h => (h.1 hlast c1).2⟩
      · rw [if_neg hm]
        constructor
        · intro h; cases h
        · intro h; exact absurd (h.1 hlast c1).1 hm
    by_cases hd : is_digit (buf (pj.structural_indexes i)) = true
    · obtain ⟨c1, c2⟩ := digit_class hd
      rw [if_pos hd]
      simp only [key]
      exact copy_case false c1 (decide_eq_false c2)
    · rw [if_neg hd]
      by_cases hmin : buf (pj.structural_indexes i) = ch_minus
      · rw [if_pos hmin]
        simp only [key]
        have c1 : is_number_start (structural_byte buf pj i) = true := by
          show is_number_start (buf (pj.structural_indexes i)) = true
          rw [hmin]; decide
        exact copy_case true c1 (decide_eq_true hmin)
      · rw [if_neg hmin]
        simp only [key]
        have c1 : is_number_start (structural_byte buf pj i) = false := by
          have hd2 : is_digit (buf (pj.structural_indexes i)) = false := by simpa using hd
          show is_number_start (buf (pj.structural_indexes i)) = false
          simp [is_number_start, hd2, hmin]
        exact ⟨fun _ => ⟨fun _ hs => (by rw [c1] at hs; cases hs), fun hne => absurd hlast hne⟩,
          fun _ => trivial⟩
  · rw [if_neg hlast]
    simp only
    rw [parse_numbers_loop_iff D buf pj i]
    exact ⟨fun h => ⟨fun hl => absurd hl hlast, fun _ => h⟩, fun h => h.2 hlast⟩

/-- The second loop of `parse_atoms` from position `a`, with the flag `b` of the first
block. -/
theorem parse_atoms_loop_iff (D : ScalarDecoders) (buf : Nat → Nat) (pj : ParsedJson)
    (a : Nat) (b : Bool) :
    (List.range' a (pj.n_structural_indexes - 1 - a)).foldl (parse_atoms_body D buf pj) b
        = false ↔
      b = false ∧ ∀ x, a ≤ x → x + 1 < pj.n_structural_indexes →
        is_atom_start (structural_byte buf pj x) = true →
        parse_atom D buf (pj.structural_indexes x) = false := by
  have hinv := foldl_range_inv (parse_atoms_body D buf pj)
    (fun j st => (st = false ↔ b = false ∧ ∀ x, a ≤ x → x < j →
        is_atom_start (structural_byte buf pj x) = true →
        parse_atom D buf (pj.structural_indexes x) = false))
    (pj.n_structural_indexes - 1 - a) a b
    (by
      constructor
      · intro h
        exact ⟨h, fun x h1 h2 => by omega⟩
      · intro h; exact h.1)
    (by
      intro j st _ _ hI
      unfold parse_atoms_body
      by_cases hq : is_atom_start (buf (pj.structural_indexes j)) = true
      · rw [if_pos hq]
        simp only [Bool.or_eq_false_iff]
        rw [hI]
        constructor
        · rintro ⟨⟨u0, u⟩, v⟩
          refine ⟨u0, fun x hx1 hx2 hqx => ?_⟩
          by_cases hxj : x = j
          · subst hxj; exact v
          · exact u x hx1 (by omega) hqx
        · rintro ⟨u0, u⟩
          exact ⟨⟨u0, fun x hx1 hx2 hqx => u x hx1 (by omega) hqx⟩,
            u j (by omega) (by omega) hq⟩
      · rw [if_neg hq]
        rw [hI]
        constructor
        · rintro ⟨u0, u⟩
          refine ⟨u0, fun x hx1 hx2 hqx => ?_⟩
          have hxj : x ≠ j := by
            intro h
            apply hq
            rw [← h]
            exact hqx
          exact u x hx1 (by omega) hqx
        · rintro ⟨u0, u⟩
          exact ⟨u0, fun x hx1 hx2 hqx => u x hx1 (by omega) hqx⟩)
  refine Iff.trans hinv ?_
  constructor
  · rintro ⟨u0, u⟩
    exact ⟨u0, fun x hx1 hx2 hqx => u x hx1 (by omega) hqx⟩
  · rintro ⟨u0, u⟩
    exact ⟨u0, fun x hx1 hx2 hqx => u x hx1 (by omega) hqx⟩

/-- The function `parse_atoms` called at position `i` returns `SUCCESS` exactly when
`parse_atom` finds no malformed atom from `i` on; when the structural at `i` is the
last one before the sentinel, it runs on the space-terminated copy, which has to be
allocated. -/
theorem parse_atoms_ok_iff (D : ScalarDecoders) (buf : Nat → Nat) (len : Nat)
    (pj : ParsedJson) (i : Nat) :
    (parse_atoms D buf len pj i).1 = .SUCCESS ↔
      (i + 2 = pj.n_structural_indexes →
        is_atom_start (structural_byte buf pj i) = true →
        D.malloc_succeeds = true ∧
        parse_atom D (space_terminated_copy buf len) (pj.structural_indexes i) = false) ∧
      (i + 2 ≠ pj.n_structural_indexes →
        ∀ x, i ≤ x → x + 1 < pj.n_structural_indexes →
          is_atom_start (structural_byte buf pj x) = true →
          parse_atom D buf (pj.structural_indexes x) = false) := by
  unfold parse_atoms
  rw [had_error_result_iff _ _ _ (by decide), parse_atoms_loop_iff]
  unfold parse_atoms_last
  by_cases hlast : i + 2 = pj.n_structural_indexes
  · rw [if_pos hlast]
    have hvac : ∀ x, i + 1 ≤ x → x + 1 < pj.n_structural_indexes →
        is_atom_start (structural_byte buf pj x) = true →
        parse_atom D buf (pj.structural_indexes x) = false :=
      fun x h1 h2 => by omega
    by_cases hq : is_atom_start (buf (pj.structural_indexes i)) = true
    · rw [if_pos hq]
      have c1 : is_atom_start (structural_byte buf pj i) = true := hq
      unfold with_space_terminated_copy
      by_cases hm : D.malloc_succeeds = true
      · rw [if_pos hm]
        constructor
        · intro h
          exact ⟨fun _ _ => ⟨hm, h.1⟩, fun hne => absurd hlast hne⟩
        · intro h
          exact ⟨(h.1 hlast c1).2, hvac⟩
      · rw [if_neg hm]
        constructor
        · intro h; cases h.1
        · intro h; exact absurd (h.1 hlast c1).1 hm
    · rw [if_neg hq]
      have c1 : is_atom_start (structural_byte buf pj i) = false := by
        have : is_atom_start (buf (pj.structural_indexes i)) = false := by simpa using hq
        exact this
      constructor
      · intro _
        exact ⟨fun _ hs => (by rw [c1] at hs; cases hs), fun hne => absurd hlast hne⟩
      · intro _
        exact ⟨rfl, hvac⟩
  · rw [if_neg hlast]
    constructor
    · intro h
      exact ⟨fun hl => absurd hl hlast, fun _ => h.2⟩
    · intro h
      exact ⟨rfl, h.2 hlast⟩

end simdjson

namespace simdjson
open StructuralParser

/-! ## The scalars on which the pre-pass fails -/

/-- The function `parse_strings` succeeds exactly when no string fails. -/
theorem parse_strings_ok_fails (D : ScalarDecoders) (buf : Nat → Nat) (pj pjs : ParsedJson)
    (hsi : pjs.structural_indexes = pj.structural_indexes)
    (hn : pjs.n_structural_indexes = pj.n_structural_indexes) :
    (parse_strings D buf pjs 0).1 = .SUCCESS ↔
      ∀ x, x + 1 < pj.n_structural_indexes → ¬ string_fails D buf pj x := by
  rw [parse_strings_ok_iff, hn]
  unfold string_fails structural_byte
  rw [hsi]
  constructor
  · rintro h x hx ⟨hq, hf⟩
    exact h x (Nat.zero_le _) hx hq hf
  · intro h x _ hx hq hf
    exact h x hx ⟨hq, hf⟩

/-- The function `parse_numbers` succeeds exactly when no number fails. -/
theorem parse_numbers_ok_fails (D : ScalarDecoders) (buf : Nat → Nat) (len : Nat)
    (pj pjs : ParsedJson)
    (hsi : pjs.structural_indexes = pj.structural_indexes)
    (hn : pjs.n_structural_indexes = pj.n_structural_indexes) :
    (parse_numbers D buf len pjs 0).1 = .SUCCESS ↔
      ∀ x, x + 1 < pj.n_structural_indexes → ¬ number_fails D buf len pj x := by
  rw [parse_numbers_ok_iff, hn]
  unfold number_fails number_source structural_byte
  rw [hsi]
  constructor
  · rintro ⟨h1, h2⟩ x hx ⟨hs, hf⟩
    by_cases hlast : pj.n_structural_indexes = 2
    · have hx0 : x = 0 := by omega
      subst hx0
      obtain ⟨m1, m2⟩ := h1 (by omega) hs
      rw [if_pos hlast] at hf
      rcases hf with ⟨_, hf⟩ | hf
      · rw [m1] at hf; cases hf
      · exact m2 hf
    · rw [if_neg hlast] at hf
      rcases hf with ⟨hf, _⟩ | hf
      · exact hlast hf
      · exact h2 (by omega) x (Nat.zero_le _) hx hs hf
  · intro h
    refine ⟨?_, ?_⟩
    · intro hlast hs
      have hl2 : pj.n_structural_indexes = 2 := by omega
      have h0 := h 0 (by omega)
      rw [if_pos hl2] at h0
      by_cases hm : D.malloc_succeeds = true
      · refine ⟨hm, ?_⟩
        intro hf
        exact h0 ⟨hs, Or.inr hf⟩
      · exfalso
        have hm2 : D.malloc_succeeds = false := by simpa using hm
        exact h0 ⟨hs, Or.inl ⟨hl2, hm2⟩⟩
    · intro hlast x _ hx hs hf
      have hl2 : ¬ pj.n_structural_indexes = 2 := by omega
      have hx' := h x hx
      rw [if_neg hl2] at hx'
      exact hx' ⟨hs, Or.inr hf⟩

/-- The function `parse_atoms` succeeds exactly when no atom fails. -/
theorem parse_atoms_ok_fails (D : ScalarDecoders) (buf : Nat → Nat) (len : Nat)
    (pj pjs : ParsedJson)
    (hsi : pjs.structural_indexes = pj.structural_indexes)
    (hn : pjs.n_structural_indexes = pj.n_structural_indexes) :
    (parse_atoms D buf len pjs 0).1 = .SUCCESS ↔
      ∀ x, x + 1 < pj.n_structural_indexes → ¬ atom_fails D buf len pj x := by
  rw [parse_atoms_ok_iff, hn]
  unfold atom_fails number_source structural_byte
  rw [hsi]
  constructor
  · rintro ⟨h1, h2⟩ x hx ⟨hs, hf⟩
    by_cases hlast : pj.n_structural_indexes = 2
    · have hx0 : x = 0 := by omega
      subst hx0
      obtain ⟨m1, m2⟩ := h1 (by omega) hs
      rw [if_pos hlast] at hf
      rcases hf with ⟨_, hf⟩ | hf
      · rw [m1] at hf; cases hf
      · rw [m2] at hf; cases hf
    · rw [if_neg hlast] at hf
      rcases hf with ⟨hf, _⟩ | hf
      · exact hlast hf
      · have := h2 (by omega) x (Nat.zero_le _) hx hs
        rw [this] at hf
        cases hf
  · intro h
    refine ⟨?_, ?_⟩
    · intro hlast hs
      have hl2 : pj.n_structural_indexes = 2 := by omega
      have h0 := h 0 (by omega)
      rw [if_pos hl2] at h0
      by_cases hm : D.malloc_succeeds = true
      · refine ⟨hm, ?_⟩
        by_contra hf
        have hf2 : parse_atom D (space_terminated_copy buf len) (pj.structural_indexes 0)
            = true := by simpa using hf
        exact h0 ⟨hs, Or.inr hf2⟩
      · exfalso
        have hm2 : D.malloc_succeeds = false := by simpa using hm
        exact h0 ⟨hs, Or.inl ⟨hl2, hm2⟩⟩
    · intro hlast x _ hx hs
      have hl2 : ¬ pj.n_structural_indexes = 2 := by omega
      have hx' := h x hx
      rw [if_neg hl2] at hx'
      by_contra hf
      have hf2 : parse_atom D buf (pj.structural_indexes x) = true := by simpa using hf
      exact hx' ⟨hs, Or.inr hf2⟩

/-- The three calls of the pre-pass of `unified_machine`, each in terms of the scalars
of the document. -/
theorem prepass_calls (D : ScalarDecoders) (buf : Nat → Nat) (len : Nat) (pj : ParsedJson) :
    ((parse_strings D buf pj.init 0).1 = .SUCCESS ↔
      ∀ x, x + 1 < pj.n_structural_indexes → ¬ string_fails D buf pj x) ∧
    ((parse_numbers D buf len (parse_strings D buf pj.init 0).2 0).1 = .SUCCESS ↔
      ∀ x, x + 1 < pj.n_structural_indexes → ¬ number_fails D buf len pj x) ∧
    ((parse_atoms D buf len
        (parse_numbers D buf len (parse_strings D buf pj.init 0).2 0).2 0).1 = .SUCCESS ↔
      ∀ x, x + 1 < pj.n_structural_indexes → ¬ atom_fails D buf len pj x) := by
  have k1 := parse_strings_keeps D buf pj.init 0
  have k2 := parse_numbers_keeps D buf len (parse_strings D buf pj.init 0).2 0
  have k12 := prepass_keeps_trans k1 k2
  refine ⟨parse_strings_ok_fails D buf pj pj.init rfl rfl,
    parse_numbers_ok_fails D buf len pj _ k1.2.2.2.1 k1.2.2.1,
    parse_atoms_ok_fails D buf len pj _ k12.2.2.2.1 k12.2.2.1⟩

end simdjson

namespace simdjson
open StructuralParser

/-! ## Two walks on documents that agree on their first structurals -/

theorem dsp_read (buf buf1 : Nat → Nat) {p q : StructuralParser} (h : SameDispatch p q)
    (hb : structural_byte buf1 q.pj q.i = structural_byte buf p.pj p.i) :
    SameDispatch (p.read_next buf) (q.read_next buf1) := by
  obtain ⟨h1, h2, h3, h4, h5⟩ := h
  refine ⟨?_, hb, h3, h4, h5⟩
  show q.i + 1 = p.i + 1
  rw [h1]

theorem dsp_write_string {p q : StructuralParser} (h : SameDispatch p q) :
    SameDispatch p.write_string q.write_string := h

theorem dsp_write_atom {p q : StructuralParser} (h : SameDispatch p q) :
    SameDispatch p.write_atom q.write_atom := h

theorem dsp_write_number {p q : StructuralParser} (h : SameDispatch p q) :
    SameDispatch p.write_number q.write_number := h

theorem dsp_push {p q : StructuralParser} (h : SameDispatch p q) (k : ret_address) :
    (q.push_scope k).1 = (p.push_scope k).1 ∧
      SameDispatch (p.push_scope k).2 (q.push_scope k).2 := by
  obtain ⟨h1, h2, h3, h4, h5⟩ := h
  refine ⟨?_, h1, h2, ?_, h4, ?_⟩
  · show decide (q.depth + 1 ≥ q.pj.depth_capacity) = decide (p.depth + 1 ≥ p.pj.depth_capacity)
    rw [h3, h4]
  · show q.depth + 1 = p.depth + 1
    rw [h3]
  · intro x hx
    rw [push_scope_ret, push_scope_ret, h3]
    by_cases hxd : x = p.depth
    · rw [hxd, Function.update_same, Function.update_same]
    · rw [Function.update_noteq hxd, Function.update_noteq hxd]
      exact h5 x (by rw [push_scope_depth] at hx; omega)

theorem dsp_pop {p q : StructuralParser} (h : SameDispatch p q) (hd : 1 ≤ p.depth) :
    q.pop_scope.1 = p.pop_scope.1 ∧ SameDispatch p.pop_scope.2 q.pop_scope.2 := by
  obtain ⟨h1, h2, h3, h4, h5⟩ := h
  refine ⟨?_, h1, h2, ?_, h4, ?_⟩
  · show q.pj.ret_address (q.depth - 1) = p.pj.ret_address (p.depth - 1)
    rw [h3]
    exact h5 _ (by omega)
  · show q.depth - 1 = p.depth - 1
    rw [h3]
  · intro x hx
    rw [pop_scope_ret, pop_scope_ret]
    exact h5 x (by rw [pop_scope_depth] at hx; omega)

theorem dsp_parse_value {p q : StructuralParser} (h : SameDispatch p q) (k : ret_address) :
    (q.parse_value k).1 = (p.parse_value k).1 ∧
      SameDispatch (p.parse_value k).2 (q.parse_value k).2 := by
  have hc : q.c = p.c := h.2.1
  by_cases h1 : p.c = ch_quote
  · rw [parse_value_string p k h1, parse_value_string q k (by rw [hc]; exact h1)]
    exact ⟨rfl, dsp_write_string h⟩
  by_cases h2 : is_atom_start p.c = true
  · rw [parse_value_atom p k h2, parse_value_atom q k (by rw [hc]; exact h2)]
    exact ⟨rfl, dsp_write_atom h⟩
  by_cases h3 : is_number_start p.c = true
  · rw [parse_value_number p k h3, parse_value_number q k (by rw [hc]; exact h3)]
    exact ⟨rfl, dsp_write_number h⟩
  by_cases h4 : p.c = ch_lbrace
  · rw [parse_value_brace p k h4, parse_value_brace q k (by rw [hc]; exact h4)]
    obtain ⟨e, s⟩ := dsp_push h k
    exact ⟨by show (if (q.push_scope k).1 then _ else _) = (if (p.push_scope k).1 then _ else _)
              rw [e], s⟩
  by_cases h5 : p.c = ch_lbracket
  · rw [parse_value_bracket p k h5, parse_value_bracket q k (by rw [hc]; exact h5)]
    obtain ⟨e, s⟩ := dsp_push h k
    exact ⟨by show (if (q.push_scope k).1 then _ else _) = (if (p.push_scope k).1 then _ else _)
              rw [e], s⟩
  · rw [parse_value_reject p k h1 h2 h3 h4 h5,
      parse_value_reject q k (by rw [hc]; exact h1) (by rw [hc]; exact h2)
        (by rw [hc]; exact h3) (by rw [hc]; exact h4) (by rw [hc]; exact h5)]
    exact ⟨rfl, h⟩

theorem dsp_goto_parse_value {p q : StructuralParser} (h : SameDispatch p q)
    (k : ret_address) :
    (GOTO (q.parse_value k).1, (q.parse_value k).2).1
        = (GOTO (p.parse_value k).1, (p.parse_value k).2).1 ∧
      SameDispatch (GOTO (p.parse_value k).1, (p.parse_value k).2).2
        (GOTO (q.parse_value k).1, (q.parse_value k).2).2 := by
  obtain ⟨e, s⟩ := dsp_parse_value h k
  exact ⟨by show GOTO _ = GOTO _; rw [e], s⟩

theorem dsp_error {p q : StructuralParser} (h : SameDispatch p q) : q.error.1 = p.error.1 := by
  obtain ⟨h1, h2, h3, h4, h5⟩ := h
  rw [error_code_eq, error_code_eq, h3, h4, h2]

/-- One transition of two walks whose documents agree on the structurals below `m`, the
first walk staying below `m`: the second walk takes the same jump. -/
theorem step_same_dispatch (buf buf1 : Nat → Nat) (m : Nat) (L : Label)
    (p q : StructuralParser) (h : SameDispatch p q) (hd : L = .scope_end → 1 ≤ p.depth)
    (hb : ∀ x, x < m → structural_byte buf1 q.pj x = structural_byte buf p.pj x)
    (hm2 : m ≤ q.pj.n_structural_indexes)
    (hi : (step buf (L, p)).2.i ≤ m) (hno : (step buf (L, p)).1 ≠ .overrun) :
    (step buf1 (L, q)).1 = (step buf (L, p)).1 ∧
      SameDispatch (step buf (L, p)).2 (step buf1 (L, q)).2 := by
  have hi0 : q.i = p.i := h.1
  have hB0 : p.i < m → structural_byte buf1 q.pj q.i = structural_byte buf p.pj p.i := by
    intro hlt
    rw [hi0]
    exact hb p.i hlt
  have hB1 : p.i + 1 < m →
      structural_byte buf1 q.pj (q.i + 1) = structural_byte buf p.pj (p.i + 1) := by
    intro hlt
    rw [hi0]
    exact hb (p.i + 1) hlt
  have hpv : ∀ (r : StructuralParser) (k : ret_address), (r.parse_value k).2.i = r.i :=
    fun r k => (parse_value_pos r k).2
  cases L with
  | finish => rw [step_terminal buf .finish p rfl, step_terminal buf1 .finish q rfl]; exact ⟨rfl, h⟩
  | error => rw [step_terminal buf .error p rfl, step_terminal buf1 .error q rfl]; exact ⟨rfl, h⟩
  | overrun =>
    rw [step_terminal buf .overrun p rfl, step_terminal buf1 .overrun q rfl]; exact ⟨rfl, h⟩
  | scope_end =>
    rw [step_scope_end, step_scope_end]
    obtain ⟨e, s⟩ := dsp_pop h (hd rfl)
    exact ⟨by show GOTO _ = GOTO _; rw [e], s⟩
  | main_array_switch =>
    rw [step_main_array_switch, step_main_array_switch]
    exact dsp_goto_parse_value h _
  | object_begin =>
    rcases step_object_begin buf p with ⟨a1, e⟩ | ⟨a1, a2, e⟩ | ⟨a1, a2, e⟩ | ⟨a1, a2, a3, e⟩ <;>
    rw [e] at hi hno <;>
    (try simp only [read_next_i, write_string_i, hpv] at hi) <;>
    first
    | exact absurd rfl hno
    | (have c0 := hB0 (by omega)
       rcases step_object_begin buf1 q with ⟨b1, e1⟩ | ⟨b1, b2, e1⟩ | ⟨b1, b2, e1⟩ |
         ⟨b1, b2, b3, e1⟩ <;>
       rw [e, e1] <;>
       first
       | exact ⟨rfl, dsp_read buf buf1 h c0⟩
       | exact ⟨rfl, dsp_write_string (dsp_read buf buf1 h c0)⟩
       | (exfalso
          simp only [hi0, ch_quote, ch_rbrace, ch_colon, ch_comma, ch_rbracket] at *
          omega))
  | object_key_state =>
    rcases step_object_key_state buf p with ⟨a1, e⟩ | ⟨a1, a2, e⟩ | ⟨a1, a2, a3, e⟩ |
      ⟨a1, a2, e⟩ <;>
    rw [e] at hi hno <;>
    (try simp only [read_next_i, write_string_i, hpv] at hi) <;>
    first
    | exact absurd rfl hno
    | (have c0 := hB0 (by omega)
       have c1 := hB1 (by omega)
       rcases step_object_key_state buf1 q with ⟨b1, e1⟩ | ⟨b1, b2, e1⟩ | ⟨b1, b2, b3, e1⟩ |
         ⟨b1, b2, e1⟩ <;>
       rw [e, e1] <;>
       first
       | exact dsp_goto_parse_value (dsp_read buf buf1 (dsp_read buf buf1 h c0) c1) _
       | (exfalso
          simp only [hi0, ch_quote, ch_rbrace, ch_colon, ch_comma, ch_rbracket] at *
          omega))
    | (have c0 := hB0 (by omega)
       rcases step_object_key_state buf1 q with ⟨b1, e1⟩ | ⟨b1, b2, e1⟩ | ⟨b1, b2, b3, e1⟩ |
         ⟨b1, b2, e1⟩ <;>
       rw [e, e1] <;>
       first
       | exact ⟨rfl, dsp_read buf buf1 h c0⟩
       | (exfalso
          simp only [hi0, ch_quote, ch_rbrace, ch_colon, ch_comma, ch_rbracket] at *
          omega))
  | object_continue =>
    rcases step_object_continue buf p with ⟨a1, e⟩ | ⟨a1, a2, e⟩ | ⟨a1, a2, a3, e⟩ |
      ⟨a1, a2, a3, e⟩ | ⟨a1, a2, a3, e⟩ | ⟨a1, a2, a3, e⟩ <;>
    rw [e] at hi hno <;>
    (try simp only [read_next_i, write_string_i, hpv] at hi) <;>
    first
    | exact absurd rfl hno
    | (have c0 := hB0 (by omega)
       have c1 := hB1 (by omega)
       rcases step_object_continue buf1 q with ⟨b1, e1⟩ | ⟨b1, b2, e1⟩ | ⟨b1, b2, b3, e1⟩ |
         ⟨b1, b2, b3, e1⟩ | ⟨b1, b2, b3, e1⟩ | ⟨b1, b2, b3, e1⟩ <;>
       rw [e, e1] <;>
       first
       | exact ⟨rfl, dsp_read buf buf1 (dsp_read buf buf1 h c0) c1⟩
       | exact ⟨rfl, dsp_write_string (dsp_read buf buf1 (dsp_read buf buf1 h c0) c1)⟩
       | (exfalso
          simp only [hi0, ch_quote, ch_rbrace, ch_colon, ch_comma, ch_rbracket] at *
          omega))
    | (have c0 := hB0 (by omega)
       rcases step_object_continue buf1 q with ⟨b1, e1⟩ | ⟨b1, b2, e1⟩ | ⟨b1, b2, b3, e1⟩ |
         ⟨b1, b2, b3, e1⟩ | ⟨b1, b2, b3, e1⟩ | ⟨b1, b2, b3, e1⟩ <;>
       rw [e, e1] <;>
       first
       | exact ⟨rfl, dsp_read buf buf1 h c0⟩
       | (exfalso
          simp only [hi0, ch_quote, ch_rbrace, ch_colon, ch_comma, ch_rbracket] at *
          omega))
  | array_begin =>
    rcases step_array_begin buf p with ⟨a1, e⟩ | ⟨a1, a2, e⟩ | ⟨a1, a2, e⟩ <;>
    rw [e] at hi hno <;>
    (try simp only [read_next_i, write_string_i, hpv] at hi) <;>
    first
    | exact absurd rfl hno
    | (have c0 := hB0 (by omega)
       rcases step_array_begin buf1 q with ⟨b1, e1⟩ | ⟨b1, b2, e1⟩ | ⟨b1, b2, e1⟩ <;>
       rw [e, e1] <;>
       first
       | exact ⟨rfl, dsp_read buf buf1 h c0⟩
       | (exfalso
          simp only [hi0, ch_quote, ch_rbrace, ch_colon, ch_comma, ch_rbracket] at *
          omega))
  | array_continue =>
    rcases step_array_continue buf p with ⟨a1, e⟩ | ⟨a1, a2, e⟩ | ⟨a1, a2, a3, e⟩ |
      ⟨a1, a2, e⟩ | ⟨a1, a2, a3, e⟩ <;>
    rw [e] at hi hno <;>
    (try simp only [read_next_i, write_string_i, hpv] at hi) <;>
    first
    | exact absurd rfl hno
    | (have c0 := hB0 (by omega)
       have c1 := hB1 (by omega)
       rcases step_array_continue buf1 q with ⟨b1, e1⟩ | ⟨b1, b2, e1⟩ | ⟨b1, b2, b3, e1⟩ |
         ⟨b1, b2, e1⟩ | ⟨b1, b2, b3, e1⟩ <;>
       rw [e, e1] <;>
       first
       | exact ⟨rfl, dsp_read buf buf1 (dsp_read buf buf1 h c0) c1⟩
       | (exfalso
          simp only [hi0, ch_quote, ch_rbrace, ch_colon, ch_comma, ch_rbracket] at *
          omega))
    | (have c0 := hB0 (by omega)
       rcases step_array_continue buf1 q with ⟨b1, e1⟩ | ⟨b1, b2, e1⟩ | ⟨b1, b2, b3, e1⟩ |
         ⟨b1, b2, e1⟩ | ⟨b1, b2, b3, e1⟩ <;>
       rw [e, e1] <;>
       first
       | exact ⟨rfl, dsp_read buf buf1 h c0⟩
       | (exfalso
          simp only [hi0, ch_quote, ch_rbrace, ch_colon, ch_comma, ch_rbracket] at *
          omega))

end simdjson

namespace simdjson
open StructuralParser

/-- Two walks whose documents agree on the structurals below `m`: as long as the first
walk stays below `m` and within its index, the second walk is in the same state of
dispatch. -/
theorem walk_same_dispatch (buf buf1 : Nat → Nat) (m : Nat) (t : Nat)
    (cfg cfg1 : Label × StructuralParser) (hl : cfg1.1 = cfg.1)
    (h : SameDispatch cfg.2 cfg1.2) (hinv : WalkInv cfg)
    (hb : ∀ x, x < m → structural_byte buf1 cfg1.2.pj x = structural_byte buf cfg.2.pj x)
    (hm2 : m ≤ cfg1.2.pj.n_structural_indexes)
    (hi : (walk buf t cfg).2.i ≤ m) (hno : (walk buf t cfg).1 ≠ .overrun) :
    (walk buf1 t cfg1).1 = (walk buf t cfg).1 ∧
      SameDispatch (walk buf t cfg).2 (walk buf1 t cfg1).2 := by
  induction t generalizing cfg cfg1 with
  | zero => exact ⟨hl, h⟩
  | succ t ih =>
    rw [walk_succ] at hi hno ⊢
    rw [walk_succ]
    obtain ⟨L, p⟩ := cfg
    obtain ⟨L1, q⟩ := cfg1
    have hl1 : L1 = L := hl
    subst hl1
    have hmono := (walk_frame buf t (step buf (L1, p))).2
    have hno1 : (step buf (L1, p)).1 ≠ .overrun := by
      intro hc
      apply hno
      have : step buf (L1, p) = (.overrun, (step buf (L1, p)).2) := by
        rw [← hc]
      rw [this, walk_terminal buf t .overrun _ rfl]
    have hdep : L1 = .scope_end → 1 ≤ p.depth := by
      intro hL
      subst hL
      have h2 : 2 ≤ p.depth := hinv.2
      omega
    obtain ⟨e, s⟩ := step_same_dispatch buf buf1 m L1 p q h hdep hb hm2 (by omega) hno1
    have f1 := (walk_frame buf 1 (L1, p)).1
    have f2 := (walk_frame buf1 1 (L1, q)).1
    rw [walk_one] at f1 f2
    refine ih _ _ e s (step_inv buf _ hinv) ?_ ?_ hi hno
    · intro x hx
      have := hb x hx
      unfold structural_byte at this ⊢
      rw [f1.1, f2.1]
      exact this
    · rw [f2.2.1]
      exact hm2

/-- The current character is the structural byte before the position, all along the
walk. -/
theorem walk_current_byte (buf : Nat → Nat) (t : Nat) (cfg : Label × StructuralParser)
    (h : 1 ≤ cfg.2.i ∧ cfg.2.c = structural_byte buf cfg.2.pj (cfg.2.i - 1)) :
    1 ≤ (walk buf t cfg).2.i ∧
      (walk buf t cfg).2.c = structural_byte buf (walk buf t cfg).2.pj ((walk buf t cfg).2.i - 1) := by
  refine walk_rel buf
    (fun p q => (1 ≤ p.i ∧ p.c = structural_byte buf p.pj (p.i - 1)) →
      (1 ≤ q.i ∧ q.c = structural_byte buf q.pj (q.i - 1)))
    (fun _ h => h) (fun _ _ _ h1 h2 h => h2 (h1 h)) ?_ ?_ ?_ ?_ ?_ ?_ t cfg h
  · intro p _ _
    exact ⟨by simp, rfl⟩
  · intro p hp; exact hp
  · intro p hp; exact hp
  · intro p hp; exact hp
  · intro p k hp; exact hp
  · intro p hp; exact hp

/-- The second halves of two runs of `unified_machine` on workspaces whose tapes are
empty, with the same depth capacity and with structurals that agree below `m`: when
the walk of the first ends at `error` or at `finish` without having read beyond `m`,
the walk of the second ends the same way, in the same state of dispatch. -/
theorem runs_same_dispatch (buf buf1 : Nat → Nat) (len len1 : Nat) (pjw pjw1 : ParsedJson)
    (m : Nat) (h0 : pjw.current_loc = 0) (h01 : pjw1.current_loc = 0)
    (hd : 1 < pjw.depth_capacity) (hdc : pjw1.depth_capacity = pjw.depth_capacity)
    (hm0 : 1 ≤ m) (hm1 : m ≤ pjw1.n_structural_indexes)
    (hb : ∀ x, x < m → structural_byte buf1 pjw1 x = structural_byte buf pjw x)
    (hi : (walk buf (walk_fuel pjw) (first_value (walk_start buf len pjw))).2.i ≤ m)
    (hno : (walk buf (walk_fuel pjw) (first_value (walk_start buf len pjw))).1 = .error ∨
      (walk buf (walk_fuel pjw) (first_value (walk_start buf len pjw))).1 = .finish) :
    (walk buf1 (walk_fuel pjw1) (first_value (walk_start buf1 len1 pjw1))).1
      = (walk buf (walk_fuel pjw) (first_value (walk_start buf len pjw))).1 ∧
    SameDispatch (walk buf (walk_fuel pjw) (first_value (walk_start buf len pjw))).2
      (walk buf1 (walk_fuel pjw1) (first_value (walk_start buf1 len1 pjw1))).2 ∧
    (walk buf1 (walk_fuel pjw1) (first_value (walk_start buf1 len1 pjw1))).2.pj.n_structural_indexes
      = pjw1.n_structural_indexes := by
  obtain ⟨a1, a2, a3, a4, a5, a6, _, a8, _⟩ := walk_start_facts buf len pjw h0
  obtain ⟨b1, b2, b3, b4, b5, b6, _, b8, _⟩ := walk_start_facts buf1 len1 pjw1 h01
  have hs : SameDispatch (walk_start buf len pjw) (walk_start buf1 len1 pjw1) := by
    refine ⟨by rw [a1, b1], ?_, by rw [a3, b3], by rw [a4, b4, hdc], ?_⟩
    · rw [a2, b2]
      exact hb 0 (by omega)
    · intro x hx
      rw [a3] at hx
      have hx0 : x = 0 := by omega
      rw [hx0, a8, b8]
  have hfv := dsp_goto_parse_value hs .finish
  rw [← first_value_eq, ← first_value_eq] at hfv
  have f := (first_value_frame (walk_start buf len pjw)).1
  have f1 := (first_value_frame (walk_start buf1 len1 pjw1)).1
  have hno2 : (walk buf (walk_fuel pjw) (first_value (walk_start buf len pjw))).1 ≠ .overrun := by
    rcases hno with e | e <;> rw [e] <;> simp
  obtain ⟨e, s⟩ := walk_same_dispatch buf buf1 m (walk_fuel pjw)
    (first_value (walk_start buf len pjw)) (first_value (walk_start buf1 len1 pjw1)) hfv.1
    hfv.2 (walk_inv_first buf len pjw h0 hd)
    (by
      intro x hx
      have := hb x hx
      unfold structural_byte at this ⊢
      rw [f.1, f1.1, a6, b6]
      exact this)
    (by rw [f1.2.1, b5]; exact hm1) hi hno2
  have hterm : (walk buf1 (walk_fuel pjw) (first_value (walk_start buf1 len1 pjw1))).1.terminal
      = true := by
    rw [e]
    rcases hno with e2 | e2 <;> rw [e2] <;> rfl
  have hm : walk_measure (first_value (walk_start buf1 len1 pjw1)) ≤ walk_fuel pjw1 := by
    have := first_value_measure (walk_start buf1 len1 pjw1) (by omega)
    unfold walk_fuel at this ⊢
    rw [b5] at this
    exact this
  rw [walk_eq_of_terminal buf1 (walk_fuel pjw) (walk_fuel pjw1) _ hterm hm]
  refine ⟨e, s, ?_⟩
  rw [(walk_frame buf1 (walk_fuel pjw) (first_value (walk_start buf1 len1 pjw1))).1.2.1,
    f1.2.1, b5]

end simdjson

namespace simdjson
open StructuralParser

/-- The code that `error` gives: `DEPTH_ERROR` when the depth has reached the capacity,
else the code of the class of the current character. -/
theorem error_class_eq (p : StructuralParser) :
    p.error.1 = if p.pj.depth_capacity ≤ p.depth then .DEPTH_ERROR else error_class p.c := by
  rw [error_code_eq]
  have hnum : (is_number_start p.c = true) ↔ (is_digit p.c = true ∨ p.c = ch_minus) := by
    simp [is_number_start]
  by_cases hd : p.pj.depth_capacity ≤ p.depth
  · rw [if_pos hd, if_pos hd]
  · rw [if_neg hd, if_neg hd]
    unfold error_class
    by_cases hq : p.c = ch_quote
    · rw [if_pos hq, if_pos hq]
    · rw [if_neg hq, if_neg hq]
      by_cases hn : is_number_start p.c = true
      · rw [if_pos hn, if_pos (hnum.1 hn)]
      · rw [if_neg hn, if_neg (fun h => hn (hnum.2 h))]
        by_cases ht : p.c = ch_t
        · rw [if_pos ht, if_pos ht]
        · rw [if_neg ht, if_neg ht]
          by_cases hf : p.c = ch_f
          · have hne : ¬ p.c = ch_n := by rw [hf]; decide
            simp only [if_neg hne, if_pos hf]
          · by_cases hnn : p.c = ch_n
            · simp only [if_pos hnn, if_neg hf]
            · simp only [if_neg hnn, if_neg hf]

/-- Two runs of the second half of `unified_machine` on workspaces whose tapes are
empty, with the same depth capacity and with structurals that agree below `k`: when
the walk of the first ends at `error` after `k` reads, both return the code of that
violation; when it ends at `finish` after `k - 1` reads and the `k`-th structural is
not the sentinel in either, both return `TAPE_ERROR`. -/
theorem structurals_same_code (buf buf1 : Nat → Nat) (len len1 : Nat) (pjw pjw1 : ParsedJson)
    (k : Nat) (h0 : pjw.current_loc = 0) (h01 : pjw1.current_loc = 0)
    (hd : 1 < pjw.depth_capacity) (hdc : pjw1.depth_capacity = pjw.depth_capacity)
    (hk0 : 1 ≤ k) (hk : k ≤ pjw.n_structural_indexes) (hk1 : k ≤ pjw1.n_structural_indexes)
    (hb : ∀ x, x < k → structural_byte buf1 pjw1 x = structural_byte buf pjw x) :
    ((walk buf (walk_fuel pjw) (first_value (walk_start buf len pjw))).1 = .error →
      (walk buf (walk_fuel pjw) (first_value (walk_start buf len pjw))).2.i = k →
      (parse_structurals buf1 len1 pjw1).outcome = (parse_structurals buf len pjw).outcome ∧
      (parse_structurals buf len pjw).outcome
        = .returned
            (if pjw.depth_capacity
                ≤ (walk buf (walk_fuel pjw) (first_value (walk_start buf len pjw))).2.depth
              then .DEPTH_ERROR else error_class (structural_byte buf pjw (k - 1)))) ∧
    ((walk buf (walk_fuel pjw) (first_value (walk_start buf len pjw))).1 = .finish →
      (walk buf (walk_fuel pjw) (first_value (walk_start buf len pjw))).2.i + 1 = k →
      k < pjw.n_structural_indexes → k < pjw1.n_structural_indexes →
      (parse_structurals buf1 len1 pjw1).outcome = (parse_structurals buf len pjw).outcome ∧
      (parse_structurals buf len pjw).outcome = .returned .TAPE_ERROR) := by
  obtain ⟨a1, a2, _, a4, a5, a6, _⟩ := walk_start_facts buf len pjw h0
  rw [parse_structurals_eq buf len pjw (by omega), if_neg (by omega),
    parse_structurals_eq buf1 len1 pjw1 (by omega), if_neg (by omega)]
  have hcb := walk_current_byte buf (walk_fuel pjw) (first_value (walk_start buf len pjw))
    (by
      have e := first_value_frame (walk_start buf len pjw)
      have hp := parse_value_pos (walk_start buf len pjw) .finish
      rw [first_value_eq]
      have hc : ((walk_start buf len pjw).parse_value .finish).2.c = (walk_start buf len pjw).c := by
        rcases parse_value_cases (walk_start buf len pjw) .finish with
          ⟨_, e | e | e⟩ | ⟨_, _, e⟩ | ⟨_, _, e⟩ | ⟨_, _, _, e⟩ <;> rw [e] <;> rfl
      have hs : ((walk_start buf len pjw).parse_value .finish).2.pj.structural_indexes
          = (walk_start buf len pjw).pj.structural_indexes := by
        rw [first_value_eq] at e
        exact e.1.1
      refine ⟨by show 1 ≤ ((walk_start buf len pjw).parse_value .finish).2.i; rw [hp.2, a1], ?_⟩
      show ((walk_start buf len pjw).parse_value .finish).2.c
        = structural_byte buf ((walk_start buf len pjw).parse_value .finish).2.pj
            (((walk_start buf len pjw).parse_value .finish).2.i - 1)
      rw [hc, hp.2, a1, a2]
      unfold structural_byte
      rw [hs, a6])
  have hfr := (walk_frame buf (walk_fuel pjw) (first_value (walk_start buf len pjw))).1
  have hfr1 := (first_value_frame (walk_start buf len pjw)).1
  refine ⟨?_, ?_⟩
  · intro hL hi
    obtain ⟨e, s, _⟩ := runs_same_dispatch buf buf1 len len1 pjw pjw1 k h0 h01 hd hdc hk0 hk1 hb
      (by rw [hi]) (Or.inl hL)
    rw [hL] at e
    generalize walk buf (walk_fuel pjw) (first_value (walk_start buf len pjw)) = cfg at *
    generalize walk buf1 (walk_fuel pjw1) (first_value (walk_start buf1 len1 pjw1)) = cfg1 at *
    obtain ⟨L, q⟩ := cfg
    obtain ⟨L1, q1⟩ := cfg1
    have hL : L = .error := hL
    have e : L1 = .error := e
    subst hL e
    have hi : q.i = k := hi
    refine ⟨?_, ?_⟩
    · show Outcome.returned q1.error.1 = Outcome.returned q.error.1
      rw [dsp_error s]
    · show Outcome.returned q.error.1 = _
      rw [error_class_eq]
      have hc : q.c = structural_byte buf pjw (k - 1) := by
        have := hcb.2
        have this : q.c = structural_byte buf q.pj (q.i - 1) := this
        rw [this, hi]
        unfold structural_byte
        have hsi : q.pj.structural_indexes = pjw.structural_indexes := by
          have h1 : q.pj.structural_indexes = _ := hfr.1
          rw [h1, hfr1.1, a6]
        rw [hsi]
      have hcap : q.pj.depth_capacity = pjw.depth_capacity := by
        have h1 : q.pj.depth_capacity = _ := hfr.2.2
        rw [h1, hfr1.2.2, a4]
      rw [hc, hcap]
  · intro hL hi hkn hkn1
    obtain ⟨e, s, en1⟩ := runs_same_dispatch buf buf1 len len1 pjw pjw1 k h0 h01 hd hdc hk0 hk1
      hb (by omega) (Or.inr hL)
    rw [hL] at e
    have en : (walk buf (walk_fuel pjw) (first_value (walk_start buf len pjw))).2.pj.n_structural_indexes
        = pjw.n_structural_indexes := by
      rw [hfr.2.1, hfr1.2.1, a5]
    generalize walk buf (walk_fuel pjw) (first_value (walk_start buf len pjw)) = cfg at *
    generalize walk buf1 (walk_fuel pjw1) (first_value (walk_start buf1 len1 pjw1)) = cfg1 at *
    obtain ⟨L, q⟩ := cfg
    obtain ⟨L1, q1⟩ := cfg1
    have hL : L = .finish := hL
    have e : L1 = .finish := e
    subst hL e
    have hi : q.i + 1 = k := hi
    have hi1 : q1.i = q.i := s.1
    have en : q.pj.n_structural_indexes = pjw.n_structural_indexes := en
    have en1 : q1.pj.n_structural_indexes = pjw1.n_structural_indexes := en1
    have t1 : q.finish.1 = .TAPE_ERROR := finish_tape_error q (by omega)
    have t2 : q1.finish.1 = .TAPE_ERROR := finish_tape_error q1 (by omega)
    refine ⟨?_, ?_⟩
    · show Outcome.returned q1.finish.1 = Outcome.returned q.finish.1
      rw [t1, t2]
    · show Outcome.returned q.finish.1 = _
      rw [t1]

end simdjson

namespace simdjson
open StructuralParser

/-! ## The streaming stage 2 on one document of a sequence -/

end simdjson

namespace simdjson
open StructuralParser

theorem flatten_length_ge (docs : List (List Nat)) (h : ∀ w, w ∈ docs → 1 ≤ w.length) :
    docs.length ≤ docs.flatten.length := by
  induction docs with
  | nil => simp
  | cons w rest ih =>
    have h1 := h w (by simp)
    have h2 := ih (fun w hw => h w (by simp [hw]))
    simp only [List.length_cons, List.flatten_cons, List.length_append]
    omega

end simdjson

namespace simdjson
open StructuralParser

/-! ## Masks and bits -/

/-- The mask that clears the `k` low bits of a `w`-bit value takes the value down to a
multiple of `2^k`. -/
theorem and_clear_low (w k x : Nat) (hk : k ≤ w) (hx : x < 2 ^ w) :
    x &&& (2 ^ w - 1 - (2 ^ k - 1)) = x - x % 2 ^ k := by
  have e1 : 2 ^ w - 1 - (2 ^ k - 1) = 2 ^ k * (2 ^ (w - k) - 1) := by
    have h0 : 2 ^ w = 2 ^ k * 2 ^ (w - k) := by
      rw [← pow_add]
      congr 1
      omega
    have h1 : 1 ≤ 2 ^ k := Nat.one_le_two_pow
    rw [Nat.mul_sub, mul_one, ← h0]
    omega
  have e2 : x - x % 2 ^ k = 2 ^ k * (x / 2 ^ k) := by
    have := Nat.mod_add_div x (2 ^ k)
    omega
  rw [e1, e2]
  apply Nat.eq_of_testBit_eq
  intro i
  rw [Nat.testBit_and, Nat.testBit_mul_pow_two, Nat.testBit_mul_pow_two,
    Nat.testBit_two_pow_sub_one, ← Nat.shiftRight_eq_div_pow, Nat.testBit_shiftRight]
  by_cases hi : k ≤ i
  · have e3 : k + (i - k) = i := by omega
    rw [e3]
    by_cases hw : i < w
    · have : i - k < w - k := by omega
      simp [hi, this]
    · have hx2 : x < 2 ^ i := lt_of_lt_of_le hx (Nat.pow_le_pow_right (by decide) (by omega))
      rw [Nat.testBit_lt_two_pow hx2]
      simp
  · simp [hi]

/-- The two alignment operations as arithmetic, for a power of two `n`. -/
theorem round_macros_eq (a n k : Nat) (hn : n = 2 ^ k) (hk : k < 64)
    (ha : a + n - 1 < 2 ^ 64) :
    ROUNDUP_N a n = (a + n - 1) - (a + n - 1) % n ∧ ROUNDDOWN_N a n = a - a % n := by
  have hn1 : 1 ≤ n := by rw [hn]; exact Nat.one_le_two_pow
  have hn64 : n < 2 ^ 64 := by rw [hn]; exact Nat.pow_lt_pow_right (by decide) hk
  have es : sub64 n 1 = n - 1 := by
    unfold sub64
    omega
  have en : not64 (n - 1) = 2 ^ 64 - 1 - (2 ^ k - 1) := by
    unfold not64
    rw [Nat.mod_eq_of_lt (by omega), hn]
  have ea : add64 a (n - 1) = a + n - 1 := by
    unfold add64
    rw [Nat.mod_eq_of_lt (by omega)]
    omega
  unfold ROUNDUP_N ROUNDDOWN_N
  rw [es, en, ea, and_clear_low 64 k _ (by omega) ha, and_clear_low 64 k a (by omega) (by omega),
    ← hn]
  exact ⟨rfl, rfl⟩

/-- A sum of distinct powers of two has exactly the bits of its terms. -/
theorem indicator_sum_bits (p : Nat → Prop) [DecidablePred p] (n : Nat) :
    ((List.range n).map (fun t => if p t then 2 ^ t else 0)).sum < 2 ^ n ∧
    ∀ i, (((List.range n).map (fun t => if p t then 2 ^ t else 0)).sum).testBit i
      = (decide (i < n) && decide (p i)) := by
  induction n with
  | zero =>
    refine ⟨by simp, ?_⟩
    intro i
    simp
  | succ n ih =>
    obtain ⟨hlt, hbits⟩ := ih
    rw [List.range_succ, List.map_append, List.sum_append, List.map_singleton,
      List.sum_singleton]
    by_cases hp : p n
    · rw [if_pos hp]
      refine ⟨by rw [pow_succ]; omega, ?_⟩
      intro i
      have e : ((List.range n).map (fun t => if p t then 2 ^ t else 0)).sum + 2 ^ n
          = 2 ^ n * 1 + ((List.range n).map (fun t => if p t then 2 ^ t else 0)).sum := by
        omega
      rw [e, Nat.testBit_mul_pow_two_add 1 hlt i]
      by_cases hi : i < n
      · rw [if_pos hi, hbits i]
        have : i < n + 1 := by omega
        simp [hi, this]
      · rw [if_neg hi]
        by_cases hin : i = n
        · subst hin
          simp [hp]
        · have h1 : ¬ i < n + 1 := by omega
          have h2 : i - n ≠ 0 := by omega
          simp [h1, Nat.testBit, h2]
          have : ∃ k, i - n = k + 1 := ⟨i - n - 1, by omega⟩
          obtain ⟨k, hk⟩ := this
          rw [hk, Nat.shiftRight_succ_inside]
          simp
    · rw [if_neg hp, Nat.add_zero]
      refine ⟨by rw [pow_succ]; omega, ?_⟩
      intro i
      rw [hbits i]
      by_cases hi : i < n
      · have : i < n + 1 := by omega
        simp [hi, this]
      · by_cases hin : i = n
        · subst hin
          simp [hp]
        · have h1 : ¬ i < n + 1 := by omega
          simp [hi, h1]

/-- Byte `t` of the 64 bytes loaded from `src`. -/
theorem load_getD (mem : Nat → Nat) (src t : Nat) (h : t < 64) :
    ((load_offsets src).map mem).getD t 0 = mem (src + t) := by
  unfold load_offsets
  rw [List.getD_eq_getElem?_getD, List.getElem?_map, List.getElem?_range' _ _ h]
  simp

/-- The bits of the mask of a comparison of the 64 loaded bytes with a byte. -/
theorem eq_bitmask_bits (mem : Nat → Nat) (src c : Nat) :
    eq_bitmask ((load_offsets src).map mem) c < 2 ^ 64 ∧
    ∀ i, i < 64 →
      (eq_bitmask ((load_offsets src).map mem) c).testBit i = decide (mem (src + i) = c) := by
  have hl : ((load_offsets src).map mem).length = 64 := by simp [load_offsets]
  unfold eq_bitmask
  rw [hl]
  obtain ⟨h1, h2⟩ := indicator_sum_bits (fun t => ((load_offsets src).map mem).getD t 0 = c) 64
  refine ⟨h1, ?_⟩
  intro i hi
  rw [h2 i, load_getD mem src i hi]
  simp [hi]

/-- The sign bit of the exclusive or of two 64-bit patterns is clear exactly when the
two sign bits are the same. -/
theorem xor_sign (ua ub : Nat) (ha : ua < 2 ^ 64) (hb : ub < 2 ^ 64) :
    ub ^^^ ua < 2 ^ 63 ↔ (ua < 2 ^ 63 ↔ ub < 2 ^ 63) := by
  have hx : ub ^^^ ua < 2 ^ 64 := Nat.xor_lt_two_pow hb ha
  have t : ∀ x, x < 2 ^ 64 → (x < 2 ^ 63 ↔ x.testBit 63 = false) := by
    intro x hx
    constructor
    · intro h
      exact Nat.testBit_lt_two_pow h
    · intro h
      by_contra hc
      have hge : 2 ^ 63 ≤ x := by omega
      have : x.testBit 63 = true := by
        have e : x = 2 ^ 63 + (x - 2 ^ 63) := by omega
        rw [e, Nat.testBit_two_pow_add_eq, Nat.testBit_lt_two_pow (by omega)]
        rfl
      rw [this] at h
      exact Bool.noConfusion h
  rw [t _ hx, t _ ha, t _ hb, Nat.testBit_xor]
  cases ua.testBit 63 <;> cases ub.testBit 63 <;> simp

/-! ## The space-terminated copy -/

/-- The bytes of the memory after the `memcpy` and the `memset` of
`with_space_terminated_copy`. -/
theorem copy_block_bytes (mem : Nat → Nat) (buf len c : Nat) :
    (∀ j, j < len →
      memset (memcpy mem c buf len) (c + len) ch_space SIMDJSON_PADDING (c + j)
        = mem (buf + j)) ∧
    (∀ j, len ≤ j → j < len + SIMDJSON_PADDING →
      memset (memcpy mem c buf len) (c + len) ch_space SIMDJSON_PADDING (c + j) = ch_space) ∧
    (∀ a, ¬ (c ≤ a ∧ a < c + (len + SIMDJSON_PADDING)) →
      memset (memcpy mem c buf len) (c + len) ch_space SIMDJSON_PADDING a = mem a) := by
  refine ⟨?_, ?_, ?_⟩
  · intro j hj
    unfold memset memcpy
    rw [if_neg (by omega), if_pos (by omega)]
    congr 1
    omega
  · intro j h1 h2
    unfold memset
    rw [if_pos (by omega)]
  · intro a ha
    unfold memset memcpy
    rw [if_neg (by omega), if_neg (by omega)]

/-- When `parse_numbers` starts at the last structural before the sentinel, its second
loop has nothing to do. -/
theorem parse_numbers_single (D : ScalarDecoders) (buf : Nat → Nat) (len : Nat)
    (pj : ParsedJson) (i : Nat) (hi : i + 2 = pj.n_structural_indexes) :
    parse_numbers D buf len pj i
      = had_error_result (parse_numbers_last D buf len pj i).1.1
          (parse_numbers_last D buf len pj i).1.2 .NUMBER_ERROR := by
  have h2 : (parse_numbers_last D buf len pj i).2 = i + 1 := by
    unfold parse_numbers_last
    rw [if_pos hi]
    split
    · rfl
    · split <;> rfl
  unfold parse_numbers parse_numbers_loop
  rw [h2, show pj.n_structural_indexes - 1 - (i + 1) = 0 by omega]
  rfl

/-! ## The block statistics -/

/-- The inner loop of the block statistics ends before its fuel does: with at least
`n - structural` rounds of fuel the result is the same. -/
theorem count_block_fuel (n : Nat) (si : Nat → Nat) (block : Nat) :
    ∀ (fuel structural bs : Nat), n - structural ≤ fuel →
      count_block_structurals n si block fuel structural bs
        = count_block_structurals n si block (n - structural) structural bs := by
  intro fuel
  induction fuel with
  | zero =>
    intro structural bs h
    rw [show n - structural = 0 by omega]
  | succ fuel ih =>
    intro structural bs h
    by_cases hs : structural < n
    · obtain ⟨m, hm⟩ : ∃ m, n - structural = m + 1 := ⟨n - structural - 1, by omega⟩
      rw [hm]
      unfold count_block_structurals
      by_cases hc : structural < n ∧ si structural < (block + 1) * BYTES_PER_BLOCK
      · rw [if_pos hc, if_pos hc, ih (structural + 1) (bs + 1) (by omega),
          show n - (structural + 1) = m by omega]
      · rw [if_neg hc, if_neg hc]
    · rw [show n - structural = 0 by omega]
      unfold count_block_structurals
      rw [if_neg (by omega)]

/-! ## The ULP distance -/

/-- What `f64_ulp_dist` computes on two 64-bit patterns: it is symmetric, zero on equal
patterns, and the ULP distance when the two signs are the same; when the signs differ
it is the ULP distance plus `2^63 + 2^31`, modulo `2^64`. -/
theorem f64_ulp_dist_cases (ua ub : Nat) (ha : ua < 2 ^ 64) (hb : ub < 2 ^ 64) :
    f64_ulp_dist ua ub = f64_ulp_dist ub ua ∧
    (ua = ub → f64_ulp_dist ua ub = 0) ∧
    ((ua < 2 ^ 63 ↔ ub < 2 ^ 63) → f64_ulp_dist ua ub = ulp_distance ua ub) ∧
    (¬ (ua < 2 ^ 63 ↔ ub < 2 ^ 63) →
      f64_ulp_dist ua ub = (ulp_distance ua ub + 2 ^ 63 + 2 ^ 31) % 2 ^ 64) := by
  have hs := xor_sign ua ub ha hb
  have hs' := xor_sign ub ua hb ha
  unfold f64_ulp_dist ulp_distance f64_ordinal sub64 add64
  by_cases h : (ua < 2 ^ 63 ↔ ub < 2 ^ 63)
  · have h' : (ub < 2 ^ 63 ↔ ua < 2 ^ 63) := h.symm
    rw [if_pos (hs.mpr h), if_pos (hs'.mpr h')]
    refine ⟨?_, ?_, ?_, fun hn => absurd h hn⟩
    · by_cases c : ua < 2 ^ 63
      · have := h.mp c
        split <;> split <;> omega
      · have : ¬ ub < 2 ^ 63 := fun hh => c (h.mpr hh)
        split <;> split <;> omega
    · intro e
      subst e
      split <;> omega
    · intro _
      by_cases c : ua < 2 ^ 63
      · have c2 := h.mp c
        rw [if_pos c, if_pos c2]
        split <;> omega
      · have c2 : ¬ ub < 2 ^ 63 := fun hh => c (h.mpr hh)
        rw [if_neg c, if_neg c2]
        split <;> omega
  · have h' : ¬ (ub < 2 ^ 63 ↔ ua < 2 ^ 63) := fun hh => h hh.symm
    rw [if_neg (fun hh => h (hs.mp hh)), if_neg (fun hh => h' (hs'.mp hh))]
    refine ⟨by omega, ?_, fun hp => absurd hp h, ?_⟩
    · intro e
      subst e
      exact absurd Iff.rfl h
    · intro _
      by_cases c : ua < 2 ^ 63
      · have c2 : ¬ ub < 2 ^ 63 := fun hh => h ⟨fun _ => hh, fun _ => c⟩
        rw [if_pos c, if_neg c2]
        omega
      · have c2 : ub < 2 ^ 63 := by
          by_contra hh
          exact h ⟨fun x => absurd x c, fun x => absurd x hh⟩
        rw [if_neg c, if_pos c2]
        omega

/-! ## The stream conformance check -/

/-- The test of `validate` for a file that should pass calls `has_extension` with the
extension in the place of the file name: it holds for no name. -/
theorem swapped_extension_test (name : List Char) :
    (starts_with "pass".toList name
      && (has_extension extension1 name || has_extension extension2 name)) = false := by
  have h1 : has_extension extension1 name = (extension1 == name) := rfl
  have h2 : has_extension extension2 name = (extension2 == name) := rfl
  rw [h1, h2]
  by_cases e1 : extension1 = name
  · subst e1
    decide
  · by_cases e2 : extension2 = name
    · subst e2
      decide
    · simp [e1, e2]

end simdjson

namespace simdjson
open StructuralParser

/-! ## Documents that follow one another in a buffer -/

end simdjson

namespace simdjson
open StructuralParser

end simdjson

namespace simdjson
open StructuralParser

end simdjson

namespace simdjson
open StructuralParser

/-- C22.  Let the depth capacity be at least one.  Every push of a run of
`unified_machine`, the one of `start` included, writes `containing_scope_offset[depth]`
and `ret_address[depth]` at an index below the depth capacity, and every `pop_scope`
reads them at an index that is at least one and is made at a depth below the capacity.
When `start` succeeds, the depth is one and below the capacity there, and in every
configuration of the walk that follows, whatever the number `t` of transitions made:
the depth is at least one and at most the capacity, and at every label from which the
machine goes on (to push, to pop or to read) it is at least two and below the
capacity. -/
theorem depth_stays_within_capacity (D : ScalarDecoders) (buf : Nat → Nat) (len : Nat)
    (pj : ParsedJson) (hcap : 1 ≤ pj.depth_capacity) :
    (∀ slot loc, Event.push slot loc ∈ (unified_machine D buf len pj).log →
      slot < pj.depth_capacity) ∧
    (∀ slot s e, Event.pop slot s e ∈ (unified_machine D buf len pj).log →
      1 ≤ slot ∧ slot + 1 < pj.depth_capacity) ∧
    ∀ p, StructuralParser.start buf ⟨len, walk_pj D buf len pj, 0, 0, 0, 0, []⟩ .finish
        = some (.SUCCESS, p) →
      p.depth = 1 ∧ p.depth < pj.depth_capacity ∧ p.pj.depth_capacity = pj.depth_capacity ∧
      ∀ t,
        (walk buf t (first_value p)).2.pj.depth_capacity = pj.depth_capacity ∧
        1 ≤ (walk buf t (first_value p)).2.depth ∧
        (walk buf t (first_value p)).2.depth ≤ pj.depth_capacity ∧
        ((walk buf t (first_value p)).1.terminal = false →
          2 ≤ (walk buf t (first_value p)).2.depth ∧
          (walk buf t (first_value p)).2.depth < pj.depth_capacity) ∧
        (∀ slot loc, Event.push slot loc ∈ (walk buf t (first_value p)).2.log →
          slot < pj.depth_capacity) ∧
        (∀ slot s e, Event.pop slot s e ∈ (walk buf t (first_value p)).2.log →
          1 ≤ slot ∧ slot + 1 < pj.depth_capacity) := by
  obtain ⟨_, a2, _, _, _, a6, _⟩ := walk_pj_keeps D buf len pj
  have hloc : (walk_pj D buf len pj).current_loc = 0 := rfl
  refine ⟨?_, ?_, ?_⟩
  · rcases run_cases D buf len pj with ⟨hl, _, _⟩ | ⟨_, _, _, hl⟩ | ⟨_, hd, _, _, e, _⟩
    · rw [hl]
      exact fun _ _ hm => by simp at hm
    · rw [hl]
      intro slot loc hm
      simp only [List.mem_cons, List.mem_singleton, List.mem_nil_iff, or_false] at hm
      rcases hm with hm | hm
      · exact Event.noConfusion hm
      · injection hm with e1 e2
        omega
    · rw [e, conclude_log, final_config_eq]
      exact (walk_depth_bounds buf len (walk_pj D buf len pj) pj.depth_capacity hloc a2 hd
        (walk_fuel (walk_pj D buf len pj))).2.2.2.2.1
  · rcases run_cases D buf len pj with ⟨hl, _, _⟩ | ⟨_, _, _, hl⟩ | ⟨_, hd, _, _, e, _⟩
    · rw [hl]
      exact fun _ _ _ hm => by simp at hm
    · rw [hl]
      exact fun _ _ _ hm => by simp at hm
    · rw [e, conclude_log, final_config_eq]
      exact (walk_depth_bounds buf len (walk_pj D buf len pj) pj.depth_capacity hloc a2 hd
        (walk_fuel (walk_pj D buf len pj))).2.2.2.2.2
  · intro p hp
    obtain ⟨_, hd, e⟩ := start_success buf len _ p hp
    rw [a2] at hd
    rw [e]
    have hs := walk_start_facts buf len (walk_pj D buf len pj) hloc
    refine ⟨hs.2.2.1, ?_, hs.2.2.2.1.trans a2, ?_⟩
    · rw [hs.2.2.1]
      exact hd
    · intro t
      exact walk_depth_bounds buf len (walk_pj D buf len pj) pj.depth_capacity hloc a2 hd t

/-- C22, on a sample: `[[[1]]]` with a depth capacity of three.  The pushes write the
slots 0, 1 and 2, the last one bringing the depth to the capacity, and the parse ends
with `DEPTH_ERROR`. -/
theorem depth_stays_within_capacity_witness :
    1 ≤ (fresh_workspace [0, 1, 2, 3, 4, 5, 6, 7] 1000 3).depth_capacity ∧
    (∀ slot loc, Event.push slot loc ∈ (unified_machine sample_decoders
        (buffer_of (bytes_of "[[[1]]]") 0) 7
        (fresh_workspace [0, 1, 2, 3, 4, 5, 6, 7] 1000 3)).log →
      slot < (fresh_workspace [0, 1, 2, 3, 4, 5, 6, 7] 1000 3).depth_capacity) ∧
    (unified_machine sample_decoders (buffer_of (bytes_of "[[[1]]]") 0) 7
        (fresh_workspace [0, 1, 2, 3, 4, 5, 6, 7] 1000 3)).log
      = [Event.read 0 0, Event.push 0 0, Event.push 1 1, Event.read 1 1, Event.push 2 2] ∧
    (unified_machine sample_decoders (buffer_of (bytes_of "[[[1]]]") 0) 7
        (fresh_workspace [0, 1, 2, 3, 4, 5, 6, 7] 1000 3)).outcome = .returned .DEPTH_ERROR :=
  ⟨by decide,
    (depth_stays_within_capacity sample_decoders (buffer_of (bytes_of "[[[1]]]") 0) 7
      (fresh_workspace [0, 1, 2, 3, 4, 5, 6, 7] 1000 3) (by decide)).1,
    by decide, by decide⟩

end simdjson

namespace simdjson
open StructuralParser

/-- C23.  Let `start` succeed.  At every time `t` of the walk that follows, every scope
that a `pop_scope` has closed (its end entry written at tape index `e`, its start entry
being at tape index `s`) has an end entry whose payload is `s`, and either the end
entry has kind `}` and the start entry kind `{`, or the end entry has kind `]` and the
start entry kind `[`.  The same holds on the tape that an accepted document leaves.
A document in which a `]` closes an object or a `}` closes an array is not accepted. -/
theorem end_entry_kind_matches_start (D : ScalarDecoders) (buf : Nat → Nat) (len : Nat)
    (pj : ParsedJson) :
    (∀ p, StructuralParser.start buf ⟨len, walk_pj D buf len pj, 0, 0, 0, 0, []⟩ .finish
        = some (.SUCCESS, p) →
      ∀ t slot s e, Event.pop slot s e ∈ (walk buf t (first_value p)).2.log →
        ((walk buf t (first_value p)).2.pj.tape e).payload = s ∧
        ((((walk buf t (first_value p)).2.pj.tape e).kind = ch_rbrace ∧
            ((walk buf t (first_value p)).2.pj.tape s).kind = ch_lbrace) ∨
          (((walk buf t (first_value p)).2.pj.tape e).kind = ch_rbracket ∧
            ((walk buf t (first_value p)).2.pj.tape s).kind = ch_lbracket))) ∧
    ((unified_machine D buf len pj).outcome = .returned .SUCCESS →
      ∀ slot s e, Event.pop slot s e ∈ (unified_machine D buf len pj).log →
        ((unified_machine D buf len pj).pj.tape e).payload = s ∧
        ((((unified_machine D buf len pj).pj.tape e).kind = ch_rbrace ∧
            ((unified_machine D buf len pj).pj.tape s).kind = ch_lbrace) ∨
          (((unified_machine D buf len pj).pj.tape e).kind = ch_rbracket ∧
            ((unified_machine D buf len pj).pj.tape s).kind = ch_lbracket))) ∧
    (closes_wrong_bracket [] (structural_bytes buf pj) = true →
      (unified_machine D buf len pj).outcome ≠ .returned .SUCCESS) := by
  refine ⟨?_, ?_, ?_⟩
  · intro p hp t slot s e hm
    have hloc : (walk_pj D buf len pj).current_loc = 0 := rfl
    obtain ⟨_, hd, ep⟩ := start_success buf len _ p hp
    rw [ep] at hm ⊢
    generalize walk_pj D buf len pj = pjw at *
    exact walk_scope_entries buf len pjw hloc hd t slot s e hm
  · intro hacc slot s e hm
    exact accepted_pops D buf len pj hacc slot s e hm
  · intro hw hacc
    obtain ⟨_, _, k, hk, _⟩ := accepted_spells D buf len pj hacc
    rw [spells_closes_right hk] at hw
    cases hw

/-- C23, on a sample: in the accepted document `[1,[2,3],[]]` the inner array closes with
the end entry at tape index 9, of kind `]`, whose payload 4 is the index of an entry of
kind `[`; the document `[1}` closes its array with the wrong bracket and is refused. -/
theorem end_entry_kind_matches_start_witness :
    ((unified_machine sample_decoders (buffer_of (bytes_of "[1,[2,3],[]]") 0) 12
        (fresh_workspace (dense_index 12) 1000 1024)).outcome = .returned .SUCCESS ∧
      Event.pop 2 4 9 ∈ (unified_machine sample_decoders
        (buffer_of (bytes_of "[1,[2,3],[]]") 0) 12
        (fresh_workspace (dense_index 12) 1000 1024)).log) ∧
    (((unified_machine sample_decoders (buffer_of (bytes_of "[1,[2,3],[]]") 0) 12
        (fresh_workspace (dense_index 12) 1000 1024)).pj.tape 9).payload = 4 ∧
      ((((unified_machine sample_decoders (buffer_of (bytes_of "[1,[2,3],[]]") 0) 12
            (fresh_workspace (dense_index 12) 1000 1024)).pj.tape 9).kind = ch_rbrace ∧
          ((unified_machine sample_decoders (buffer_of (bytes_of "[1,[2,3],[]]") 0) 12
            (fresh_workspace (dense_index 12) 1000 1024)).pj.tape 4).kind = ch_lbrace) ∨
        (((unified_machine sample_decoders (buffer_of (bytes_of "[1,[2,3],[]]") 0) 12
            (fresh_workspace (dense_index 12) 1000 1024)).pj.tape 9).kind = ch_rbracket ∧
          ((unified_machine sample_decoders (buffer_of (bytes_of "[1,[2,3],[]]") 0) 12
            (fresh_workspace (dense_index 12) 1000 1024)).pj.tape 4).kind = ch_lbracket))) ∧
    (closes_wrong_bracket []
        (structural_bytes (buffer_of (bytes_of "[1\x7d") 0)
          (fresh_workspace [0, 1, 2, 3] 1000 1024)) = true ∧
      (unified_machine sample_decoders (buffer_of (bytes_of "[1\x7d") 0) 3
        (fresh_workspace [0, 1, 2, 3] 1000 1024)).outcome ≠ .returned .SUCCESS) :=
  ⟨⟨by decide, by decide⟩,
    (end_entry_kind_matches_start sample_decoders (buffer_of (bytes_of "[1,[2,3],[]]") 0) 12
      (fresh_workspace (dense_index 12) 1000 1024)).2.1 (by decide) 2 4 9 (by decide),
    by decide,
    (end_entry_kind_matches_start sample_decoders (buffer_of (bytes_of "[1\x7d") 0) 3
      (fresh_workspace [0, 1, 2, 3] 1000 1024)).2.2 (by decide)⟩

end simdjson

namespace simdjson
open StructuralParser

/-- C24, counterexample.  In the array `[1 2,]` the comma is immediately followed by
`]`; the pre-pass finds no error and the depth stays within the capacity, but the walk
ends at the structural `2`, where a comma is missing, before it reaches the trailing
comma, and `unified_machine` returns `NUMBER_ERROR`, not `TAPE_ERROR`. -/
theorem trailing_comma_after_earlier_violation :
    structural_bytes (buffer_of (bytes_of "[1 2,]") 0)
        (fresh_workspace [0, 1, 3, 4, 5, 6] 1000 1024)
      = [ch_lbracket, 49, 50, ch_comma, ch_rbracket] ∧
    prepass_ok sample_decoders (buffer_of (bytes_of "[1 2,]") 0) 6
      (fresh_workspace [0, 1, 3, 4, 5, 6] 1000 1024) ∧
    (unified_machine sample_decoders (buffer_of (bytes_of "[1 2,]") 0) 6
      (fresh_workspace [0, 1, 3, 4, 5, 6] 1000 1024)).outcome = .returned .NUMBER_ERROR ∧
    (unified_machine sample_decoders (buffer_of (bytes_of "[1 2,]") 0) 6
      (fresh_workspace [0, 1, 3, 4, 5, 6] 1000 1024)).outcome ≠ .returned .TAPE_ERROR :=
  ⟨by decide, ⟨by decide, by decide, by decide⟩, by decide, by decide⟩

/-- C24, amended.  Let the length fit the byte capacity, let the pre-pass find no error
and let `start` succeed.  If the walk reaches the trailing comma, that is, if at some
time `t` it is at `array_continue` with `,` and then `]` as the next two structurals,
or at `object_continue` with `,` and then `}` as the next two structurals, then
`unified_machine` returns `TAPE_ERROR`. -/
theorem trailing_comma_reached_tape_error (D : ScalarDecoders) (buf : Nat → Nat) (len : Nat)
    (pj : ParsedJson) (p : StructuralParser) (t : Nat)
    (hcap : len ≤ pj.byte_capacity) (hpre : prepass_ok D buf len pj)
    (hstart : StructuralParser.start buf ⟨len, walk_pj D buf len pj, 0, 0, 0, 0, []⟩ .finish
      = some (.SUCCESS, p))
    (hi : (walk buf t (first_value p)).2.i + 1 < pj.n_structural_indexes)
    (hat : ((walk buf t (first_value p)).1 = .array_continue ∧
        structural_byte buf pj (walk buf t (first_value p)).2.i = ch_comma ∧
        structural_byte buf pj ((walk buf t (first_value p)).2.i + 1) = ch_rbracket) ∨
      ((walk buf t (first_value p)).1 = .object_continue ∧
        structural_byte buf pj (walk buf t (first_value p)).2.i = ch_comma ∧
        structural_byte buf pj ((walk buf t (first_value p)).2.i + 1) = ch_rbrace)) :
    (unified_machine D buf len pj).outcome = .returned .TAPE_ERROR := by
  rw [unified_machine_eq D buf len pj hcap hpre]
  obtain ⟨_, _, a3, a4, _, _⟩ := walk_pj_keeps D buf len pj
  have hloc : (walk_pj D buf len pj).current_loc = 0 := rfl
  obtain ⟨hn, hd, ep⟩ := start_success buf len _ p hstart
  rw [ep] at hi hat
  have hsb : ∀ j, structural_byte buf pj j = structural_byte buf (walk_pj D buf len pj) j := by
    intro j
    unfold structural_byte
    rw [a4]
  simp only [hsb] at hat
  rw [← a3] at hi
  generalize walk_pj D buf len pj = pjw at *
  exact trailing_comma_run buf len pjw hloc hn hd t hi hat

/-- C24, amended, on samples: the walks of `[1,]` and of the object with the member
`"a":1` and a trailing comma are at the trailing comma after two transitions, and both
documents are refused with `TAPE_ERROR`. -/
theorem trailing_comma_reached_tape_error_witness :
    (unified_machine sample_decoders (buffer_of (bytes_of "[1,]") 0) 4
      (fresh_workspace [0, 1, 2, 3, 4] 1000 1024)).outcome = .returned .TAPE_ERROR ∧
    (unified_machine sample_decoders (buffer_of (bytes_of "\x7b\"a\":1,\x7d") 0) 8
      (fresh_workspace [0, 1, 4, 5, 6, 7, 8] 1000 1024)).outcome = .returned .TAPE_ERROR :=
  ⟨trailing_comma_reached_tape_error sample_decoders (buffer_of (bytes_of "[1,]") 0) 4
      (fresh_workspace [0, 1, 2, 3, 4] 1000 1024)
      (walk_start (buffer_of (bytes_of "[1,]") 0) 4
        (walk_pj sample_decoders (buffer_of (bytes_of "[1,]") 0) 4
          (fresh_workspace [0, 1, 2, 3, 4] 1000 1024))) 2
      (by decide) ⟨by decide, by decide, by decide⟩ rfl (by decide)
      (Or.inl ⟨by decide, by decide, by decide⟩),
    trailing_comma_reached_tape_error sample_decoders
      (buffer_of (bytes_of "\x7b\"a\":1,\x7d") 0) 8
      (fresh_workspace [0, 1, 4, 5, 6, 7, 8] 1000 1024)
      (walk_start (buffer_of (bytes_of "\x7b\"a\":1,\x7d") 0) 8
        (walk_pj sample_decoders (buffer_of (bytes_of "\x7b\"a\":1,\x7d") 0) 8
          (fresh_workspace [0, 1, 4, 5, 6, 7, 8] 1000 1024))) 2
      (by decide) ⟨by decide, by decide, by decide⟩ rfl (by decide)
      (Or.inr ⟨by decide, by decide, by decide⟩)⟩

end simdjson

namespace simdjson
open StructuralParser

/-- C25.  Let the length fit the byte capacity.  If the string decoder fails on some
structural that starts with a double quote, `unified_machine` returns `STRING_ERROR`;
if it fails on none and the number decoder fails on some number, `unified_machine`
returns `NUMBER_ERROR`; if neither fails and some atom is malformed, it returns
`N_ATOM_ERROR`.  In these three cases the structural walk does not take place (nothing
is read from the structural index).  Whenever the walk takes place, and whenever
`unified_machine` returns `TAPE_ERROR`, `DEPTH_ERROR` or `SUCCESS`, no string, number
or atom of the document has failed. -/
theorem scalar_errors_take_precedence (D : ScalarDecoders) (buf : Nat → Nat) (len : Nat)
    (pj : ParsedJson) (hcap : len ≤ pj.byte_capacity) :
    ((∃ x, x + 1 < pj.n_structural_indexes ∧ string_fails D buf pj x) →
      (unified_machine D buf len pj).outcome = .returned .STRING_ERROR) ∧
    ((∀ x, x + 1 < pj.n_structural_indexes → ¬ string_fails D buf pj x) →
      (∃ x, x + 1 < pj.n_structural_indexes ∧ number_fails D buf len pj x) →
      (unified_machine D buf len pj).outcome = .returned .NUMBER_ERROR) ∧
    ((∀ x, x + 1 < pj.n_structural_indexes → ¬ string_fails D buf pj x) →
      (∀ x, x + 1 < pj.n_structural_indexes → ¬ number_fails D buf len pj x) →
      (∃ x, x + 1 < pj.n_structural_indexes ∧ atom_fails D buf len pj x) →
      (unified_machine D buf len pj).outcome = .returned .N_ATOM_ERROR) ∧
    ((∃ x, x + 1 < pj.n_structural_indexes ∧
        (string_fails D buf pj x ∨ number_fails D buf len pj x ∨ atom_fails D buf len pj x)) →
      (unified_machine D buf len pj).log = []) ∧
    (((unified_machine D buf len pj).log ≠ [] ∨
        (unified_machine D buf len pj).outcome = .returned .TAPE_ERROR ∨
        (unified_machine D buf len pj).outcome = .returned .DEPTH_ERROR ∨
        (unified_machine D buf len pj).outcome = .returned .SUCCESS) →
      ∀ x, x + 1 < pj.n_structural_indexes →
        ¬ string_fails D buf pj x ∧ ¬ number_fails D buf len pj x ∧
        ¬ atom_fails D buf len pj x) := by
  obtain ⟨s1, s2, s3⟩ := prepass_calls D buf len pj
  have hfail : ¬ prepass_ok D buf len pj →
      (unified_machine D buf len pj).outcome
        = .returned (if (parse_strings D buf pj.init 0).1 ≠ .SUCCESS then .STRING_ERROR
            else if (parse_numbers D buf len (parse_strings D buf pj.init 0).2 0).1 ≠ .SUCCESS
              then .NUMBER_ERROR else .N_ATOM_ERROR) ∧
      (unified_machine D buf len pj).log = [] := by
    intro hpre
    obtain ⟨a, b, _⟩ := prepass_fail_outcome D buf len pj hcap hpre
    exact ⟨a, b⟩
  refine ⟨?_, ?_, ?_, ?_, ?_⟩
  · rintro ⟨x, hx, hf⟩
    have h1 : (parse_strings D buf pj.init 0).1 ≠ .SUCCESS := fun h => s1.1 h x hx hf
    rw [(hfail (fun hp => h1 hp.1)).1, if_pos h1]
  · rintro hs ⟨x, hx, hf⟩
    have h1 : (parse_strings D buf pj.init 0).1 = .SUCCESS := s1.2 hs
    have h2 : (parse_numbers D buf len (parse_strings D buf pj.init 0).2 0).1 ≠ .SUCCESS :=
      fun h => s2.1 h x hx hf
    rw [(hfail (fun hp => h2 hp.2.1)).1, if_neg (by rw [h1]; simp), if_pos h2]
  · rintro hs hnum ⟨x, hx, hf⟩
    have h1 : (parse_strings D buf pj.init 0).1 = .SUCCESS := s1.2 hs
    have h2 : (parse_numbers D buf len (parse_strings D buf pj.init 0).2 0).1 = .SUCCESS :=
      s2.2 hnum
    have h3 : (parse_atoms D buf len
        (parse_numbers D buf len (parse_strings D buf pj.init 0).2 0).2 0).1 ≠ .SUCCESS :=
      fun h => s3.1 h x hx hf
    rw [(hfail (fun hp => h3 hp.2.2)).1, if_neg (by rw [h1]; simp), if_neg (by rw [h2]; simp)]
  · rintro ⟨x, hx, hf⟩
    refine (hfail ?_).2
    intro hp
    rcases hf with hf | hf | hf
    · exact s1.1 hp.1 x hx hf
    · exact s2.1 hp.2.1 x hx hf
    · exact s3.1 hp.2.2 x hx hf
  · intro hw x hx
    by_cases hp : prepass_ok D buf len pj
    · exact ⟨s1.1 hp.1 x hx, s2.1 hp.2.1 x hx, s3.1 hp.2.2 x hx⟩
    · exfalso
      obtain ⟨a, b⟩ := hfail hp
      rcases hw with hw | hw | hw | hw
      · exact hw b
      · rw [a] at hw
        split at hw
        · cases hw
        · split at hw <;> cases hw
      · rw [a] at hw
        split at hw
        · cases hw
        · split at hw <;> cases hw
      · rw [a] at hw
        split at hw
        · cases hw
        · split at hw <;> cases hw

/-- C25, on samples, each of them an array that is closed by nothing.  With a string
holding a control character, a lone minus sign and a lone `t`, the code is
`STRING_ERROR`; without the string it is `NUMBER_ERROR`; with the lone `t` only it is
`N_ATOM_ERROR`. -/
theorem scalar_errors_take_precedence_witness :
    (unified_machine sample_decoders (buffer_of (bytes_of "[\"\x01\",-,t") 0) 8
      (fresh_workspace [0, 1, 4, 5, 6, 7, 8] 1000 1024)).outcome = .returned .STRING_ERROR ∧
    (unified_machine sample_decoders (buffer_of (bytes_of "[-,t") 0) 4
      (fresh_workspace [0, 1, 2, 3, 4] 1000 1024)).outcome = .returned .NUMBER_ERROR ∧
    (unified_machine sample_decoders (buffer_of (bytes_of "[t") 0) 2
      (fresh_workspace [0, 1, 2] 1000 1024)).outcome = .returned .N_ATOM_ERROR :=
  ⟨(scalar_errors_take_precedence sample_decoders
      (buffer_of (bytes_of "[\"\x01\",-,t") 0) 8
      (fresh_workspace [0, 1, 4, 5, 6, 7, 8] 1000 1024) (by decide)).1
      ⟨1, by decide, by decide, by decide⟩,
    (scalar_errors_take_precedence sample_decoders (buffer_of (bytes_of "[-,t") 0) 4
      (fresh_workspace [0, 1, 2, 3, 4] 1000 1024) (by decide)).2.1
      (fun x hx hf => by
        have hx : x + 1 < 5 := hx
        have h4 : x < 4 := by omega
        obtain ⟨hq, _⟩ := hf
        revert hq
        interval_cases x <;> decide)
      ⟨1, by decide, by decide, Or.inr (by decide)⟩,
    (scalar_errors_take_precedence sample_decoders (buffer_of (bytes_of "[t") 0) 2
      (fresh_workspace [0, 1, 2] 1000 1024) (by decide)).2.2.1
      (fun x hx hf => by
        have hx : x + 1 < 3 := hx
        have h2 : x < 2 := by omega
        obtain ⟨hq, _⟩ := hf
        revert hq
        interval_cases x <;> decide)
      (fun x hx hf => by
        have hx : x + 1 < 3 := hx
        have h2 : x < 2 := by omega
        obtain ⟨hq, _⟩ := hf
        revert hq
        interval_cases x <;> decide)
      ⟨1, by decide, by decide, Or.inr (by decide)⟩⟩

end simdjson

namespace simdjson
open StructuralParser

/-- C26, counterexample.  The walk of `[1:23]` fails at its third structural, the colon,
and `unified_machine` returns `TAPE_ERROR`.  The document `[1:2x]` has the same
structural index and the same bytes up to the fourth structural; it differs only in
the number that follows the colon, which is malformed, and `unified_machine` returns
`NUMBER_ERROR` for it: the code depends on a scalar located after the third
structural. -/
theorem later_scalar_changes_code :
    (walk (buffer_of (bytes_of "[1:23]") 0) 3
      (first_value (start_state sample_decoders (buffer_of (bytes_of "[1:23]") 0) 6
        (fresh_workspace [0, 1, 2, 3, 5, 6] 1000 1024)))).1 = .error ∧
    (walk (buffer_of (bytes_of "[1:23]") 0) 3
      (first_value (start_state sample_decoders (buffer_of (bytes_of "[1:23]") 0) 6
        (fresh_workspace [0, 1, 2, 3, 5, 6] 1000 1024)))).2.i = 3 ∧
    (unified_machine sample_decoders (buffer_of (bytes_of "[1:23]") 0) 6
      (fresh_workspace [0, 1, 2, 3, 5, 6] 1000 1024)).outcome = .returned .TAPE_ERROR ∧
    (∀ j, j < 4 → buffer_of (bytes_of "[1:2x]") 0 j = buffer_of (bytes_of "[1:23]") 0 j) ∧
    structural_bytes (buffer_of (bytes_of "[1:2x]") 0)
        (fresh_workspace [0, 1, 2, 3, 5, 6] 1000 1024)
      = structural_bytes (buffer_of (bytes_of "[1:23]") 0)
          (fresh_workspace [0, 1, 2, 3, 5, 6] 1000 1024) ∧
    (unified_machine sample_decoders (buffer_of (bytes_of "[1:2x]") 0) 6
      (fresh_workspace [0, 1, 2, 3, 5, 6] 1000 1024)).outcome = .returned .NUMBER_ERROR ∧
    (unified_machine sample_decoders (buffer_of (bytes_of "[1:2x]") 0) 6
        (fresh_workspace [0, 1, 2, 3, 5, 6] 1000 1024)).outcome
      ≠ (unified_machine sample_decoders (buffer_of (bytes_of "[1:23]") 0) 6
          (fresh_workspace [0, 1, 2, 3, 5, 6] 1000 1024)).outcome := by
  refine ⟨by decide, by decide, by decide, by decide, by decide, by decide, by decide⟩

/-- C26, amended.  Take two documents, each fitting the byte capacity of its workspace,
in each of which the pre-pass finds no error, with the same depth capacity (more than
one), and whose first `k` structurals are the same.  If the walk of the first ends at
`error` having read `k` structurals (it fails at its `k`-th structural), then
`unified_machine` returns the same code for both: `DEPTH_ERROR` when the depth has
reached the capacity, else the code of the class of the `k`-th structural.  If the walk
of the first ends at `finish` having read `k - 1` structurals and the `k`-th structural
is not the sentinel in either document (structurals are left over), then
`unified_machine` returns `TAPE_ERROR` for both.  The code does not depend on the
structurals after the `k`-th, nor on the scalars after it as long as the pre-pass
finds no error in them. -/
theorem first_violation_decides_code (D : ScalarDecoders) (buf buf1 : Nat → Nat)
    (len len1 : Nat) (pj pj1 : ParsedJson) (k : Nat)
    (hcap : len ≤ pj.byte_capacity) (hcap1 : len1 ≤ pj1.byte_capacity)
    (hpre : prepass_ok D buf len pj) (hpre1 : prepass_ok D buf1 len1 pj1)
    (hd : 1 < pj.depth_capacity) (hdc : pj1.depth_capacity = pj.depth_capacity)
    (hk0 : 1 ≤ k) (hk : k ≤ pj.n_structural_indexes) (hk1 : k ≤ pj1.n_structural_indexes)
    (hb : ∀ x, x < k → structural_byte buf1 pj1 x = structural_byte buf pj x) :
    ((final_config D buf len pj).1 = .error → (final_config D buf len pj).2.i = k →
      (unified_machine D buf1 len1 pj1).outcome = (unified_machine D buf len pj).outcome ∧
      (unified_machine D buf len pj).outcome
        = .returned
            (if pj.depth_capacity ≤ (final_config D buf len pj).2.depth then .DEPTH_ERROR
              else error_class (structural_byte buf pj (k - 1)))) ∧
    ((final_config D buf len pj).1 = .finish → (final_config D buf len pj).2.i + 1 = k →
      k < pj.n_structural_indexes → k < pj1.n_structural_indexes →
      (unified_machine D buf1 len1 pj1).outcome = (unified_machine D buf len pj).outcome ∧
      (unified_machine D buf len pj).outcome = .returned .TAPE_ERROR) := by
  rw [unified_machine_eq D buf len pj hcap hpre, unified_machine_eq D buf1 len1 pj1 hcap1 hpre1,
    final_config_eq]
  obtain ⟨_, a2, a3, a4, _, _⟩ := walk_pj_keeps D buf len pj
  obtain ⟨_, b2, b3, b4, _, _⟩ := walk_pj_keeps D buf1 len1 pj1
  have hloc : (walk_pj D buf len pj).current_loc = 0 := rfl
  have hloc1 : (walk_pj D buf1 len1 pj1).current_loc = 0 := rfl
  have hb' : ∀ x, x < k → structural_byte buf1 (walk_pj D buf1 len1 pj1) x
      = structural_byte buf (walk_pj D buf len pj) x := by
    intro x hx
    have := hb x hx
    unfold structural_byte at this ⊢
    rw [a4, b4]
    exact this
  have hsk : structural_byte buf pj (k - 1)
      = structural_byte buf (walk_pj D buf len pj) (k - 1) := by
    unfold structural_byte
    rw [a4]
  rw [hsk, ← a2, ← a3, ← b3]
  rw [← a2] at hd
  rw [← a2, ← b2] at hdc
  rw [← a3] at hk
  rw [← b3] at hk1
  generalize walk_pj D buf len pj = pjw at *
  generalize walk_pj D buf1 len1 pj1 = pjw1 at *
  exact structurals_same_code buf buf1 len len1 pjw pjw1 k hloc hloc1 hd hdc hk0 hk hk1 hb'

/-- C26, amended, on a sample: `[1:23]` and `[1:` followed by an empty object and two
closing braces agree on their first three structurals; the walk of the first fails at
the colon, and both documents are refused with `TAPE_ERROR`. -/
theorem first_violation_decides_code_witness :
    (unified_machine sample_decoders (buffer_of (bytes_of "[1:23]") 0) 6
      (fresh_workspace [0, 1, 2, 3, 5, 6] 1000 1024)).outcome = .returned .TAPE_ERROR ∧
    (unified_machine sample_decoders (buffer_of (bytes_of "[1:\x7b\x7d\x7d\x7d") 0) 7
        (fresh_workspace [0, 1, 2, 3, 4, 5, 6, 7] 1000 1024)).outcome
      = (unified_machine sample_decoders (buffer_of (bytes_of "[1:23]") 0) 6
          (fresh_workspace [0, 1, 2, 3, 5, 6] 1000 1024)).outcome :=
  ⟨by decide,
    ((first_violation_decides_code sample_decoders (buffer_of (bytes_of "[1:23]") 0)
      (buffer_of (bytes_of "[1:\x7b\x7d\x7d\x7d") 0) 6 7
      (fresh_workspace [0, 1, 2, 3, 5, 6] 1000 1024)
      (fresh_workspace [0, 1, 2, 3, 4, 5, 6, 7] 1000 1024) 3
      (by decide) (by decide) ⟨by decide, by decide, by decide⟩
      ⟨by decide, by decide, by decide⟩ (by decide) rfl (by decide) (by decide) (by decide)
      (by decide)).1
      (by rw [final_config_eq]; decide) (by rw [final_config_eq]; decide)).1⟩

end simdjson

namespace simdjson
open StructuralParser

/-- C27.  Let the structural index hold at least the sentinel, let the last offset of
the index be the sentinel offset `len`, let every other offset be below `len`, and let
the byte at offset `len` be none of those on which the state machine dispatches (the
double quote, the comma, the colon, the four brackets, the minus sign, the digits,
`t`, `f`, `n`).  Then no call of `advance_char` reads `structural_indexes` at a
position that is not below `n_structural_indexes` (the run does not end in `overrun`),
and every call reads it at a position `pos` below `n_structural_indexes` and reads
`buf` at the offset found there, at most `len`. -/
theorem advance_char_reads_in_bounds (D : ScalarDecoders) (buf : Nat → Nat) (len : Nat)
    (pj : ParsedJson) (hn : 1 ≤ pj.n_structural_indexes)
    (hsent : pj.structural_indexes (pj.n_structural_indexes - 1) = len)
    (hoff : ∀ x, x + 1 < pj.n_structural_indexes → pj.structural_indexes x < len)
    (hbyte : is_dispatch_byte (buf len) = false) :
    (unified_machine D buf len pj).outcome ≠ .overrun ∧
    ∀ pos off, Event.read pos off ∈ (unified_machine D buf len pj).log →
      pos < pj.n_structural_indexes ∧ off = pj.structural_indexes pos ∧ off ≤ len := by
  have key : (unified_machine D buf len pj).outcome ≠ .overrun ∧
      ∀ pos off, Event.read pos off ∈ (unified_machine D buf len pj).log →
        pos < pj.n_structural_indexes ∧ off = pj.structural_indexes pos := by
    rcases unified_machine_cases D buf len pj with
      ⟨_, ho, _, hl⟩ | ⟨_, _, ho, _, hl⟩ | ⟨_, _, e⟩
    · rw [ho, hl]
      exact ⟨by simp, fun _ _ hm => by simp at hm⟩
    · rw [hl]
      refine ⟨?_, fun _ _ hm => by simp at hm⟩
      rcases ho with ho | ho | ho <;> rw [ho] <;> simp
    · rw [e]
      obtain ⟨_, _, a3, a4, _, _⟩ := walk_pj_keeps D buf len pj
      have hloc : (walk_pj D buf len pj).current_loc = 0 := rfl
      have hs : is_dispatch_byte (structural_byte buf (walk_pj D buf len pj)
          ((walk_pj D buf len pj).n_structural_indexes - 1)) = false := by
        unfold structural_byte
        rw [a3, a4, hsent]
        exact hbyte
      have := structurals_in_bounds buf len (walk_pj D buf len pj) hloc (by rw [a3]; exact hn) hs
      rw [a3, a4] at this
      exact this
  refine ⟨key.1, ?_⟩
  intro pos off hm
  obtain ⟨a, b⟩ := key.2 pos off hm
  refine ⟨a, b, ?_⟩
  rw [b]
  by_cases hp : pos + 1 < pj.n_structural_indexes
  · exact Nat.le_of_lt (hoff pos hp)
  · have : pos = pj.n_structural_indexes - 1 := by omega
    rw [this, hsent]

/-- C27, on a sample: the two unclosed arrays `[[` followed by a NUL byte.  The walk reads the
three positions of the structural index, the sentinel included, and stops there with
`TAPE_ERROR`. -/
theorem advance_char_reads_in_bounds_witness :
    (unified_machine sample_decoders (buffer_of (bytes_of "[[") 0) 2
      (fresh_workspace [0, 1, 2] 1000 1024)).outcome = .returned .TAPE_ERROR ∧
    (unified_machine sample_decoders (buffer_of (bytes_of "[[") 0) 2
      (fresh_workspace [0, 1, 2] 1000 1024)).log.filter Event.is_read
      = [Event.read 0 0, Event.read 1 1, Event.read 2 2] ∧
    ((unified_machine sample_decoders (buffer_of (bytes_of "[[") 0) 2
        (fresh_workspace [0, 1, 2] 1000 1024)).outcome ≠ .overrun ∧
      ∀ pos off, Event.read pos off ∈ (unified_machine sample_decoders
          (buffer_of (bytes_of "[[") 0) 2 (fresh_workspace [0, 1, 2] 1000 1024)).log →
        pos < (fresh_workspace [0, 1, 2] 1000 1024).n_structural_indexes ∧
        off = (fresh_workspace [0, 1, 2] 1000 1024).structural_indexes pos ∧ off ≤ 2) :=
  ⟨by decide, by decide,
    advance_char_reads_in_bounds sample_decoders (buffer_of (bytes_of "[[") 0) 2
      (fresh_workspace [0, 1, 2] 1000 1024) (by decide) (by decide)
      (fun x hx => by
        have hx : x + 1 < 3 := hx
        have h2 : x < 2 := by omega
        interval_cases x <;> decide)
      (by decide)⟩

end simdjson

namespace simdjson
open StructuralParser

/-- C28.  A read at a position that is not below `n_structural_indexes` ends the walk
(label `overrun`).  Between two visits of a label from which the machine goes on, the
position `i` in the structural index has grown.  When `start` succeeds, the walk that
follows has ended (at `finish`, `error` or `overrun`) after `2 n + 2` transitions, `n`
being the number of structural indexes, and at every time the number of `advance_char`
calls made since the beginning of the parse is the position `i`, at most `n`.  The
whole run of `unified_machine` makes at most `n` calls of `advance_char`. -/
theorem walk_terminates (D : ScalarDecoders) (buf : Nat → Nat) (len : Nat) (pj : ParsedJson) :
    (∀ (L : Label) (p q : StructuralParser) (s : Nat), L.terminal = false → 1 ≤ s →
      walk buf s (L, p) = (L, q) → p.i < q.i) ∧
    (∀ p, StructuralParser.start buf ⟨len, walk_pj D buf len pj, 0, 0, 0, 0, []⟩ .finish
        = some (.SUCCESS, p) →
      (walk buf (2 * pj.n_structural_indexes + 2) (first_value p)).1.terminal = true ∧
      ∀ t,
        ((walk buf t (first_value p)).2.log.filter Event.is_read).length
          = (walk buf t (first_value p)).2.i ∧
        (walk buf t (first_value p)).2.i ≤ pj.n_structural_indexes) ∧
    ((unified_machine D buf len pj).log.filter Event.is_read).length
      ≤ pj.n_structural_indexes := by
  obtain ⟨_, _, a3, _, _, _⟩ := walk_pj_keeps D buf len pj
  have hloc : (walk_pj D buf len pj).current_loc = 0 := rfl
  refine ⟨?_, ?_, ?_⟩
  · intro L p q s hL hs h
    exact revisit_advances buf s L p q hL hs h
  · intro p hp
    obtain ⟨hn, _, e⟩ := start_success buf len _ p hp
    rw [e]
    have hw := walk_progress buf len (walk_pj D buf len pj) pj.n_structural_indexes hloc a3
      (by rw [← a3]; exact hn)
    have ef : walk_fuel (walk_pj D buf len pj) = 2 * pj.n_structural_indexes + 2 := by
      unfold walk_fuel
      rw [a3]
    rw [ef] at hw
    exact hw
  · rcases run_cases D buf len pj with ⟨hl, _, _⟩ | ⟨hn, _, _, hl⟩ | ⟨hn, _, _, _, e, _⟩
    · rw [hl]
      simp
    · rw [hl]
      simp [Event.is_read]
      exact hn
    · rw [e, conclude_log, final_config_eq]
      have hw := (walk_progress buf len (walk_pj D buf len pj) pj.n_structural_indexes hloc a3
        hn).2 (walk_fuel (walk_pj D buf len pj))
      rw [hw.1]
      exact hw.2

/-- C28, on a sample: the walk of `[1,2]` is at `array_continue` after two transitions,
at position 2, and again after four, at position 4; it has ended at `finish` after
six; the parse makes five calls of `advance_char`, one for each of the five
structurals before the sentinel. -/
theorem walk_terminates_witness :
    (walk (buffer_of (bytes_of "[1,2]") 0) 2
      (first_value (start_state sample_decoders (buffer_of (bytes_of "[1,2]") 0) 5
        (fresh_workspace [0, 1, 2, 3, 4, 5] 1000 1024)))).1 = .array_continue ∧
    (walk (buffer_of (bytes_of "[1,2]") 0) 2
      (first_value (start_state sample_decoders (buffer_of (bytes_of "[1,2]") 0) 5
        (fresh_workspace [0, 1, 2, 3, 4, 5] 1000 1024)))).2.i = 2 ∧
    (walk (buffer_of (bytes_of "[1,2]") 0) 4
      (first_value (start_state sample_decoders (buffer_of (bytes_of "[1,2]") 0) 5
        (fresh_workspace [0, 1, 2, 3, 4, 5] 1000 1024)))).1 = .array_continue ∧
    (walk (buffer_of (bytes_of "[1,2]") 0) 4
      (first_value (start_state sample_decoders (buffer_of (bytes_of "[1,2]") 0) 5
        (fresh_workspace [0, 1, 2, 3, 4, 5] 1000 1024)))).2.i = 4 ∧
    (walk (buffer_of (bytes_of "[1,2]") 0) 6
      (first_value (start_state sample_decoders (buffer_of (bytes_of "[1,2]") 0) 5
        (fresh_workspace [0, 1, 2, 3, 4, 5] 1000 1024)))).1 = .finish ∧
    ((unified_machine sample_decoders (buffer_of (bytes_of "[1,2]") 0) 5
        (fresh_workspace [0, 1, 2, 3, 4, 5] 1000 1024)).log.filter Event.is_read).length = 5 ∧
    ((unified_machine sample_decoders (buffer_of (bytes_of "[1,2]") 0) 5
        (fresh_workspace [0, 1, 2, 3, 4, 5] 1000 1024)).log.filter Event.is_read).length
      ≤ (fresh_workspace [0, 1, 2, 3, 4, 5] 1000 1024).n_structural_indexes :=
  ⟨by decide, by decide, by decide, by decide, by decide, by decide,
    (walk_terminates sample_decoders (buffer_of (bytes_of "[1,2]") 0) 5
      (fresh_workspace [0, 1, 2, 3, 4, 5] 1000 1024)).2.2⟩

end simdjson

namespace simdjson
open StructuralParser

/-- C29.  Let `start` succeed and let the walk that follows be at the label `finish`
after `t` transitions, in the parser state `q`.  There the depth is one and
`containing_scope_offset[0]` is zero; after `pop_root_scope` the depth is zero and
`containing_scope_offset[depth]` is zero, so neither of the two tests that follow it in
`finish` fails: `finish` returns `TAPE_ERROR` exactly when structurals are left
(`i + 1` differs from `n_structural_indexes`), and `SUCCESS` otherwise. -/
theorem finish_checks_never_fail (D : ScalarDecoders) (buf : Nat → Nat) (len : Nat)
    (pj : ParsedJson) (p : StructuralParser) (t : Nat)
    (hstart : StructuralParser.start buf ⟨len, walk_pj D buf len pj, 0, 0, 0, 0, []⟩ .finish
      = some (.SUCCESS, p))
    (hf : (walk buf t (first_value p)).1 = .finish) :
    (walk buf t (first_value p)).2.depth = 1 ∧
    (walk buf t (first_value p)).2.pj.containing_scope_offset 0 = 0 ∧
    (walk buf t (first_value p)).2.pop_root_scope.depth = 0 ∧
    (walk buf t (first_value p)).2.pop_root_scope.pj.containing_scope_offset
      (walk buf t (first_value p)).2.pop_root_scope.depth = 0 ∧
    ((walk buf t (first_value p)).2.finish.1 = .TAPE_ERROR ↔
      (walk buf t (first_value p)).2.i + 1
        ≠ (walk buf t (first_value p)).2.pj.n_structural_indexes) ∧
    ((walk buf t (first_value p)).2.finish.1 = .SUCCESS ↔
      (walk buf t (first_value p)).2.i + 1
        = (walk buf t (first_value p)).2.pj.n_structural_indexes) ∧
    ((walk buf t (first_value p)).2.finish.1 = .TAPE_ERROR ∨
      (walk buf t (first_value p)).2.finish.1 = .SUCCESS) := by
  have hloc : (walk_pj D buf len pj).current_loc = 0 := rfl
  obtain ⟨_, hd, e⟩ := start_success buf len _ p hstart
  rw [e] at hf ⊢
  generalize walk_pj D buf len pj = pjw at *
  obtain ⟨h1, h2⟩ := walk_finish_root buf len pjw hloc hd t hf
  exact ⟨h1, h2, finish_at_root _ h1 h2⟩

/-- C29, on a sample: the walk of `[1]` is at `finish` after four transitions, with depth
one; only the sentinel is left and `finish` returns `SUCCESS`.  -/
theorem finish_checks_never_fail_witness :
    (walk (buffer_of (bytes_of "[1]") 0) 4
      (first_value (walk_start (buffer_of (bytes_of "[1]") 0) 3
        (walk_pj sample_decoders (buffer_of (bytes_of "[1]") 0) 3
          (fresh_workspace [0, 1, 2, 3] 1000 1024))))).1 = .finish ∧
    (walk (buffer_of (bytes_of "[1]") 0) 4
      (first_value (walk_start (buffer_of (bytes_of "[1]") 0) 3
        (walk_pj sample_decoders (buffer_of (bytes_of "[1]") 0) 3
          (fresh_workspace [0, 1, 2, 3] 1000 1024))))).2.depth = 1 ∧
    (walk (buffer_of (bytes_of "[1]") 0) 4
      (first_value (walk_start (buffer_of (bytes_of "[1]") 0) 3
        (walk_pj sample_decoders (buffer_of (bytes_of "[1]") 0) 3
          (fresh_workspace [0, 1, 2, 3] 1000 1024))))).2.finish.1 = .SUCCESS :=
  ⟨by decide,
    (finish_checks_never_fail sample_decoders (buffer_of (bytes_of "[1]") 0) 3
      (fresh_workspace [0, 1, 2, 3] 1000 1024)
      (walk_start (buffer_of (bytes_of "[1]") 0) 3
        (walk_pj sample_decoders (buffer_of (bytes_of "[1]") 0) 3
          (fresh_workspace [0, 1, 2, 3] 1000 1024))) 4 rfl (by decide)).1,
    ((finish_checks_never_fail sample_decoders (buffer_of (bytes_of "[1]") 0) 3
      (fresh_workspace [0, 1, 2, 3] 1000 1024)
      (walk_start (buffer_of (bytes_of "[1]") 0) 3
        (walk_pj sample_decoders (buffer_of (bytes_of "[1]") 0) 3
          (fresh_workspace [0, 1, 2, 3] 1000 1024))) 4 rfl (by decide)).2.2.2.2.2.1).2
      (by decide)⟩

end simdjson

namespace simdjson
open StructuralParser

/-- C30.  Let `start` succeed and take the walk that follows at any time `t`.  The return
state stored at slot 0 is `finish`, and so is the one at slot 1 once the root container
is open; the one stored at a slot `x` with `2 ≤ x` below the depth is `object_continue`
when the scope below it (the one in which the container of level `x` opened) is an
object and `array_continue` when it is an array.  At `scope_end` the return state that
`pop_scope` gives is `finish`, `array_continue` or `object_continue`, so that one of
the three cases of the `CONTINUE` switch of the build without computed goto matches,
and it gives the label to which the computed goto jumps.  The walk of the build
without computed goto is, transition for transition, the walk of the build with it. -/
theorem return_states_on_scope_stack (D : ScalarDecoders) (buf : Nat → Nat) (len : Nat)
    (pj : ParsedJson) (p : StructuralParser) (t : Nat)
    (hstart : StructuralParser.start buf ⟨len, walk_pj D buf len pj, 0, 0, 0, 0, []⟩ .finish
      = some (.SUCCESS, p)) :
    (walk buf t (first_value p)).2.pj.ret_address 0 = .finish ∧
    (2 ≤ (walk buf t (first_value p)).2.depth →
      (walk buf t (first_value p)).2.pj.ret_address 1 = .finish) ∧
    (∀ x, 2 ≤ x → x < (walk buf t (first_value p)).2.depth →
      ((walk buf t (first_value p)).2.pj.ret_address x = .object_continue ∧
        scope_kind (walk buf t (first_value p)).2 (x - 1) = ch_lbrace) ∨
      ((walk buf t (first_value p)).2.pj.ret_address x = .array_continue ∧
        scope_kind (walk buf t (first_value p)).2 (x - 1) = ch_lbracket)) ∧
    ((walk buf t (first_value p)).1 = .scope_end →
      ((walk buf t (first_value p)).2.pop_scope.1 = .finish ∨
        (walk buf t (first_value p)).2.pop_scope.1 = .array_continue ∨
        (walk buf t (first_value p)).2.pop_scope.1 = .object_continue) ∧
      CONTINUE_switch (walk buf t (first_value p)).2.pop_scope.1.code
        = some (GOTO (walk buf t (first_value p)).2.pop_scope.1)) ∧
    walk_switch buf t (first_value p) = walk buf t (first_value p) := by
  have hloc : (walk_pj D buf len pj).current_loc = 0 := rfl
  obtain ⟨_, hd, ep⟩ := start_success buf len _ p hstart
  rw [ep]
  generalize walk_pj D buf len pj = pjw at *
  obtain ⟨c1, c2, c3⟩ := walk_scope_facts buf len pjw hloc hd t
  obtain ⟨r0, r1⟩ := root_return_states buf len pjw hloc hd t
  refine ⟨r0, r1, c2.1.1, ?_, c3⟩
  intro hL
  generalize walk buf t (first_value (walk_start buf len pjw)) = cfg at *
  obtain ⟨L, q⟩ := cfg
  have hL : L = .scope_end := hL
  subst hL
  have ha := pop_scope_address q c1.1 c1.2
  exact ⟨ha, CONTINUE_switch_code _ ha⟩

/-- C30, on a sample: after three transitions the walk of `[[1]]` is at depth three, with
`array_continue` stored at slot 2, above the array of slot 1; the build without
computed goto makes the same walk and is at `finish` after eight transitions. -/
theorem return_states_on_scope_stack_witness :
    (walk (buffer_of (bytes_of "[[1]]") 0) 3
      (first_value (walk_start (buffer_of (bytes_of "[[1]]") 0) 5
        (walk_pj sample_decoders (buffer_of (bytes_of "[[1]]") 0) 5
          (fresh_workspace [0, 1, 2, 3, 4, 5] 1000 1024))))).2.depth = 3 ∧
    ((walk (buffer_of (bytes_of "[[1]]") 0) 3
      (first_value (walk_start (buffer_of (bytes_of "[[1]]") 0) 5
        (walk_pj sample_decoders (buffer_of (bytes_of "[[1]]") 0) 5
          (fresh_workspace [0, 1, 2, 3, 4, 5] 1000 1024))))).2.pj.ret_address 2
        = .array_continue ∧
      scope_kind (walk (buffer_of (bytes_of "[[1]]") 0) 3
        (first_value (walk_start (buffer_of (bytes_of "[[1]]") 0) 5
          (walk_pj sample_decoders (buffer_of (bytes_of "[[1]]") 0) 5
            (fresh_workspace [0, 1, 2, 3, 4, 5] 1000 1024))))).2 1 = ch_lbracket) ∧
    (walk_switch (buffer_of (bytes_of "[[1]]") 0) 8
      (first_value (walk_start (buffer_of (bytes_of "[[1]]") 0) 5
        (walk_pj sample_decoders (buffer_of (bytes_of "[[1]]") 0) 5
          (fresh_workspace [0, 1, 2, 3, 4, 5] 1000 1024))))).1 = .finish ∧
    walk_switch (buffer_of (bytes_of "[[1]]") 0) 8
      (first_value (walk_start (buffer_of (bytes_of "[[1]]") 0) 5
        (walk_pj sample_decoders (buffer_of (bytes_of "[[1]]") 0) 5
          (fresh_workspace [0, 1, 2, 3, 4, 5] 1000 1024))))
      = walk (buffer_of (bytes_of "[[1]]") 0) 8
          (first_value (walk_start (buffer_of (bytes_of "[[1]]") 0) 5
            (walk_pj sample_decoders (buffer_of (bytes_of "[[1]]") 0) 5
              (fresh_workspace [0, 1, 2, 3, 4, 5] 1000 1024)))) :=
  ⟨by decide, by decide, by decide,
    (return_states_on_scope_stack sample_decoders (buffer_of (bytes_of "[[1]]") 0) 5
      (fresh_workspace [0, 1, 2, 3, 4, 5] 1000 1024)
      (walk_start (buffer_of (bytes_of "[[1]]") 0) 5
        (walk_pj sample_decoders (buffer_of (bytes_of "[[1]]") 0) 5
          (fresh_workspace [0, 1, 2, 3, 4, 5] 1000 1024))) 8 rfl).2.2.2.2⟩

end simdjson

namespace simdjson
open StructuralParser

/-- C31.  Let the allocation succeed.  In the model in which buffers are values,
`with_space_terminated_copy(buf, len, f)` gives what one call of `f` gives on the copy
(its result and the state it leaves), and the copy holds the first `len` bytes of `buf`
followed by `SIMDJSON_PADDING` spaces.  On a byte-addressed memory, the block of
`len + SIMDJSON_PADDING` bytes that `malloc` returns at `c` being apart from the `len`
bytes of the input at `bufp`: `f` is called exactly once, with the pointer `c`; its
result is returned; when it is called the block holds the first `len` bytes of the
input and then spaces; no byte outside the block has changed, so that the input is
as it was. -/
theorem space_terminated_copy_contract {α : Type} (D : ScalarDecoders) (buf : Nat → Nat)
    (len : Nat) (f : (Nat → Nat) → Bool × α) (dflt : α) (mem : Nat → Nat) (bufp c : Nat)
    (g : (Nat → Nat) → Nat → Bool)
    (hm : D.malloc_succeeds = true)
    (hfresh : c + (len + SIMDJSON_PADDING) ≤ bufp ∨ bufp + len ≤ c) :
    (with_space_terminated_copy D buf len f dflt = f (space_terminated_copy buf len) ∧
      (∀ j, j < len → space_terminated_copy buf len j = buf j) ∧
      (∀ j, len ≤ j → j < len + SIMDJSON_PADDING →
        space_terminated_copy buf len j = ch_space)) ∧
    ((with_space_terminated_copy_at mem bufp len (some c) g).1
        = g (with_space_terminated_copy_at mem bufp len (some c) g).2.2 c ∧
      (with_space_terminated_copy_at mem bufp len (some c) g).2.1 = [c] ∧
      (∀ j, j < len + SIMDJSON_PADDING →
        (with_space_terminated_copy_at mem bufp len (some c) g).2.2 (c + j)
          = space_terminated_copy (fun t => mem (bufp + t)) len j) ∧
      (∀ a, ¬ (c ≤ a ∧ a < c + (len + SIMDJSON_PADDING)) →
        (with_space_terminated_copy_at mem bufp len (some c) g).2.2 a = mem a) ∧
      (∀ j, j < len →
        (with_space_terminated_copy_at mem bufp len (some c) g).2.2 (bufp + j)
          = mem (bufp + j))) := by
  obtain ⟨b1, b2, b3⟩ := copy_block_bytes mem bufp len c
  refine ⟨⟨?_, ?_, ?_⟩, rfl, rfl, ?_, b3, ?_⟩
  · unfold with_space_terminated_copy
    rw [if_pos hm]
  · intro j hj
    unfold space_terminated_copy
    rw [if_pos hj]
  · intro j h1 h2
    unfold space_terminated_copy
    rw [if_neg (by omega), if_pos h2]
  · intro j hj
    show memset (memcpy mem c bufp len) (c + len) ch_space SIMDJSON_PADDING (c + j) = _
    unfold space_terminated_copy
    by_cases h : j < len
    · rw [if_pos h, b1 j h]
    · rw [if_neg h, if_pos hj, b2 j (by omega) hj]
  · intro j hj
    exact b3 (bufp + j) (by omega)

/-- C31, on a sample: the input `12` at address 0, the copy at address 100, and an `f`
that tests whether the byte after the input is a space and reads the byte before it.
It finds a space and the digit `2`, and it is called once, with the pointer 100. -/
theorem space_terminated_copy_contract_witness :
    (with_space_terminated_copy sample_decoders (buffer_of (bytes_of "12") 0) 2
        (fun copy => (copy 2 == ch_space, copy 1)) 0 = (true, 50)) ∧
    ((with_space_terminated_copy_at (buffer_of (bytes_of "12") 0) 0 2 (some 100)
        (fun mem p => mem (p + 2) == ch_space)).1 = true ∧
      (with_space_terminated_copy_at (buffer_of (bytes_of "12") 0) 0 2 (some 100)
        (fun mem p => mem (p + 2) == ch_space)).2.1 = [100]) :=
  ⟨Eq.trans (space_terminated_copy_contract sample_decoders (buffer_of (bytes_of "12") 0) 2
      (fun copy => (copy 2 == ch_space, copy 1)) 0 (buffer_of (bytes_of "12") 0) 0 100
      (fun mem p => mem (p + 2) == ch_space) rfl (Or.inr (by decide))).1.1 (by decide),
    by decide, by decide⟩

end simdjson

namespace simdjson
open StructuralParser

/-- C32, counterexample.  In the document `[1,2` the number `2` is the last element: it
is at the last structural position before the sentinel.  `parse_numbers` decodes it
from the buffer of the caller, not from the space-terminated copy, on which the
decoder succeeds: with zero bytes after the input it returns `NUMBER_ERROR`, with
spaces after the same input it returns `SUCCESS`, and `unified_machine` returns
`NUMBER_ERROR` in the first case and `TAPE_ERROR` in the second. -/
theorem last_number_read_from_caller_buffer :
    structural_bytes (buffer_of (bytes_of "[1,2") 0) (fresh_workspace [0, 1, 2, 3, 4] 1000 1024)
      = [ch_lbracket, 49, ch_comma, 50] ∧
    (∀ j, j < 4 → buffer_of (bytes_of "[1,2") 32 j = buffer_of (bytes_of "[1,2") 0 j) ∧
    (parse_numbers sample_decoders (buffer_of (bytes_of "[1,2") 0) 4
      (fresh_workspace [0, 1, 2, 3, 4] 1000 1024) 0).1 = .NUMBER_ERROR ∧
    (parse_numbers sample_decoders (buffer_of (bytes_of "[1,2") 32) 4
      (fresh_workspace [0, 1, 2, 3, 4] 1000 1024) 0).1 = .SUCCESS ∧
    sample_decoders.parse_number (space_terminated_copy (buffer_of (bytes_of "[1,2") 0) 4) 3
      false = some (108, 2) ∧
    sample_decoders.parse_number (buffer_of (bytes_of "[1,2") 0) 3 false = none ∧
    (unified_machine sample_decoders (buffer_of (bytes_of "[1,2") 0) 4
      (fresh_workspace [0, 1, 2, 3, 4] 1000 1024)).outcome = .returned .NUMBER_ERROR ∧
    (unified_machine sample_decoders (buffer_of (bytes_of "[1,2") 32) 4
      (fresh_workspace [0, 1, 2, 3, 4] 1000 1024)).outcome = .returned .TAPE_ERROR := by
  refine ⟨by decide, by decide, by decide, by decide, by decide, by decide, by decide, by decide⟩

/-- C32, amended.  Let `parse_numbers` start at the position `i` of the last structural
before the sentinel (`i + 2` is `n_structural_indexes`: this structural is the only
element from `i` on), its offset being below `len`.  Then the result of
`parse_numbers` is the same for any two buffers that hold the same `len` bytes,
whatever follows them, and when the structural is a number `parse_numbers` succeeds
exactly when the allocation succeeds and the decoder succeeds on the space-terminated
copy. -/
theorem single_number_decoded_from_copy (D : ScalarDecoders) (buf buf1 : Nat → Nat)
    (len : Nat) (pj : ParsedJson) (i : Nat)
    (hi : i + 2 = pj.n_structural_indexes) (hoff : pj.structural_indexes i < len)
    (hagree : ∀ j, j < len → buf1 j = buf j) :
    parse_numbers D buf1 len pj i = parse_numbers D buf len pj i ∧
    ((parse_numbers D buf len pj i).1 = .SUCCESS ↔
      (is_number_start (structural_byte buf pj i) = true →
        D.malloc_succeeds = true ∧
        D.parse_number (space_terminated_copy buf len) (pj.structural_indexes i)
          (decide (structural_byte buf pj i = ch_minus)) ≠ none)) := by
  refine ⟨?_, ?_⟩
  · rw [parse_numbers_single D buf1 len pj i hi, parse_numbers_single D buf len pj i hi]
    have e : parse_numbers_last D buf1 len pj i = parse_numbers_last D buf len pj i := by
      have ew : ∀ (f : (Nat → Nat) → Bool × ParsedJson),
          with_space_terminated_copy D buf1 len f pj
            = with_space_terminated_copy D buf len f pj := by
        intro f
        unfold with_space_terminated_copy
        rw [space_terminated_copy_congr buf buf1 len hagree]
      unfold parse_numbers_last
      rw [hagree _ hoff, ew, ew]
    rw [e]
  · rw [parse_numbers_ok_iff]
    constructor
    · intro h
      exact h.1 hi
    · intro h
      exact ⟨fun _ => h, fun hne => absurd hi hne⟩

/-- C32, amended, on a sample: the document `12`, followed by zero bytes or by the
letter `x`; `parse_numbers` gives the same result for both and succeeds. -/
theorem single_number_decoded_from_copy_witness :
    parse_numbers sample_decoders (buffer_of (bytes_of "12") 120) 2
        (fresh_workspace [0, 2] 1000 1024) 0
      = parse_numbers sample_decoders (buffer_of (bytes_of "12") 0) 2
          (fresh_workspace [0, 2] 1000 1024) 0 ∧
    (parse_numbers sample_decoders (buffer_of (bytes_of "12") 0) 2
      (fresh_workspace [0, 2] 1000 1024) 0).1 = .SUCCESS ∧
    sample_decoders.parse_number (buffer_of (bytes_of "12") 120) 0 false = none :=
  ⟨(single_number_decoded_from_copy sample_decoders (buffer_of (bytes_of "12") 0)
      (buffer_of (bytes_of "12") 120) 2 (fresh_workspace [0, 2] 1000 1024) 0
      (by decide) (by decide) (by decide)).1,
    by decide, by decide⟩

end simdjson

namespace simdjson

end simdjson

namespace simdjson

/-- C34.  Let `N` be at most 7 and let `v` be a vector of 64 bytes.  For every lane `i`
from 0 to 63, lane `i` of `v.shr<N>()` is `v[i] >> N` and lane `i` of `v.shl<N>()` is
`(v[i] << N) mod 256`: the bits that the shift of the 16-bit word brings in from the
other byte of the word are cleared by the mask. -/
theorem byte_shifts_stay_in_lane (N : Nat) (v : Nat → Nat) (hN : N ≤ 7)
    (hv : ∀ i, i < 64 → v i < 256) :
    ∀ i, i < 64 →
      simd8.shr N v i = v i >>> N ∧ simd8.shl N v i = (v i <<< N) % 256 := by
  intro i hi64
  have hlo := hv (2 * (i / 2)) (by omega)
  have hhi := hv (2 * (i / 2) + 1) (by omega)
  have h15 : ¬ 15 < N := by omega
  have m1 : (255 >>> N) % 256 = 2 ^ (8 - N) - 1 := by
    interval_cases N <;> rfl
  have m2 : (255 <<< N) % 256 = 2 ^ 8 - 1 - (2 ^ N - 1) := by
    interval_cases N <;> rfl
  unfold simd8.shr simd8.shl _mm512_and_si512 _mm512_srli_epi16 _mm512_slli_epi16
    _mm512_set1_epi8
  simp only [if_neg h15, m1, m2]
  rw [Nat.and_pow_two_sub_one_eq_mod, and_clear_low 8 N _ (by omega) (by
    split <;> exact Nat.mod_lt _ (by decide))]
  simp only [Nat.shiftRight_eq_div_pow, Nat.shiftLeft_eq]
  rcases Nat.mod_two_eq_zero_or_one i with h | h
  · have e : 2 * (i / 2) = i := by omega
    rw [e] at hlo ⊢
    simp only [if_pos h]
    generalize v i = lo at *
    generalize v (i + 1) = hi at *
    interval_cases N <;> omega
  · have e : 2 * (i / 2) + 1 = i := by omega
    have h2 : ¬ i % 2 = 0 := by omega
    rw [e] at hhi ⊢
    simp only [if_neg h2]
    generalize v i = hi at *
    generalize v (2 * (i / 2)) = lo at *
    interval_cases N <;> omega

/-- C34, on a sample: the vector whose lane `i` is `37 i + 200` modulo 256, shifted by
three bits.  Lane 4 holds 92 and lane 5 holds 129, the two bytes of one 16-bit word:
the shift of the word to the right leaves 43 in lane 4, with three bits of lane 5, and
the shift to the left leaves 10 in lane 5, with two bits of lane 4; the masked results
are 11 and 8. -/
theorem byte_shifts_stay_in_lane_witness :
    (simd8.shr 3 (fun i => (37 * i + 200) % 256) 4
        = (fun i => (37 * i + 200) % 256) 4 >>> 3 ∧
      simd8.shl 3 (fun i => (37 * i + 200) % 256) 4
        = ((fun i => (37 * i + 200) % 256) 4 <<< 3) % 256) ∧
    simd8.shr 3 (fun i => (37 * i + 200) % 256) 4 = 11 ∧
    _mm512_srli_epi16 (fun i => (37 * i + 200) % 256) 3 4 = 43 ∧
    simd8.shl 3 (fun i => (37 * i + 200) % 256) 5 = 8 ∧
    _mm512_slli_epi16 (fun i => (37 * i + 200) % 256) 3 5 = 10 :=
  ⟨byte_shifts_stay_in_lane 3 (fun i => (37 * i + 200) % 256) (by decide)
      (fun i _ => Nat.mod_lt _ (by decide)) 4 (by decide),
    by decide, by decide, by decide, by decide⟩

end simdjson

namespace simdjson

/-- C35, at a failing input: a document of 70 bytes that is one string, whose structural
index holds the offset 0 of the opening quote and the sentinel 70.  Its second block,
the bytes 64 to 69, holds no structural, so that one block is without structurals and
`structurals` is 1; but the loop of `json_stats` runs over the whole structural index,
the sentinel included, and counts the sentinel in the second block, 70 being below
128: `blocks_with_0_structurals` is 0 and two blocks count as having a structural.
For the same kind of document of 128 bytes the sentinel 128 is below the end of no
block, and `blocks_with_0_structurals` is 1. -/
theorem sentinel_counted_in_last_block :
    (json_stats.construct 70 2 (fun j => [0, 70].getD j 0)).blocks = 2 ∧
    (json_stats.construct 70 2 (fun j => [0, 70].getD j 0)).structurals = 1 ∧
    (json_stats.construct 70 2 (fun j => [0, 70].getD j 0)).blocks_with_0_structurals = 0 ∧
    (json_stats.construct 70 2 (fun j => [0, 70].getD j 0)).blocks_with_1_structural = 2 ∧
    blocks_without_structurals 70 2 (fun j => [0, 70].getD j 0) = 1 ∧
    count_block_structurals 2 (fun j => [0, 70].getD j 0) 1 2 1 0 = (1, 2) ∧
    (json_stats.construct 128 2 (fun j => [0, 128].getD j 0)).blocks_with_0_structurals = 1 ∧
    blocks_without_structurals 128 2 (fun j => [0, 128].getD j 0) = 1 := by
  refine ⟨by decide, by decide, by decide, by decide, by decide, by decide, by decide,
    by decide⟩

end simdjson

namespace simdjson

/-- C36, at a failing input: the file `pass01.ndjson`, whose second document ends with
an error.  The name starts with `pass` and has the extension `.ndjson`, but the test of
`validate` calls `has_extension` with the extension in the place of the file name,
which holds for no name that starts with `pass`: the file is left marked as expected
and `validate` returns true.  A file `fail01.ndjson` that parses without error is
reported. -/
theorem failing_pass_file_not_reported :
    (∀ name, (starts_with "pass".toList name
      && (has_extension extension1 name || has_extension extension2 name)) = false) ∧
    starts_with "pass".toList "pass01.ndjson".toList = true ∧
    has_extension "pass01.ndjson".toList extension1 = true ∧
    has_extension extension1 "pass01.ndjson".toList = false ∧
    stream_error ⟨"pass01.ndjson".toList, 0, [0, 3]⟩ = 3 ∧
    file_as_expected ⟨"pass01.ndjson".toList, 0, [0, 3]⟩ = true ∧
    validate (some [⟨"pass01.ndjson".toList, 0, [0, 3]⟩]) = true ∧
    validate (some [⟨"fail01.ndjson".toList, 0, [0]⟩]) = false :=
  ⟨swapped_extension_test, by decide, by decide, by decide, by decide, by decide, by decide,
    by decide⟩

end simdjson

namespace simdjson

/-- C37.  Let `n` be a power of two that a 64-bit unsigned holds and let `a + n - 1` not
overflow 64 bits.  Then `ROUNDUP_N(a, n)` is a multiple of `n`, is at least `a` and is
at most every multiple of `n` that is at least `a`; `ROUNDDOWN_N(a, n)` is a multiple
of `n`, is at most `a` and is at least every multiple of `n` that is at most `a`; and
when `a` is a multiple of `n` both are `a`. -/
theorem roundup_rounddown_multiples (a n k : Nat) (hn : n = 2 ^ k) (hk : k < 64)
    (ha : a + n - 1 < 2 ^ 64) :
    (n ∣ ROUNDUP_N a n ∧ a ≤ ROUNDUP_N a n ∧ ∀ m, n ∣ m → a ≤ m → ROUNDUP_N a n ≤ m) ∧
    (n ∣ ROUNDDOWN_N a n ∧ ROUNDDOWN_N a n ≤ a ∧ ∀ m, n ∣ m → m ≤ a → m ≤ ROUNDDOWN_N a n) ∧
    (n ∣ a → ROUNDUP_N a n = a ∧ ROUNDDOWN_N a n = a) := by
  obtain ⟨eu, ed⟩ := round_macros_eq a n k hn hk ha
  have hn1 : 1 ≤ n := by rw [hn]; exact Nat.one_le_two_pow
  have hu : a + n - 1 - (a + n - 1) % n = n * ((a + n - 1) / n) := by
    have := Nat.mod_add_div (a + n - 1) n
    omega
  have hd : a - a % n = n * (a / n) := by
    have := Nat.mod_add_div a n
    omega
  have hm1 : (a + n - 1) % n < n := Nat.mod_lt _ (by omega)
  have hm2 : a % n < n := Nat.mod_lt _ (by omega)
  refine ⟨⟨?_, ?_, ?_⟩, ⟨?_, ?_, ?_⟩, ?_⟩
  · rw [eu, hu]
    exact Dvd.intro _ rfl
  · rw [eu]
    omega
  · rintro m ⟨q, rfl⟩ hq
    rw [eu, hu]
    apply Nat.mul_le_mul_left
    have : (a + n - 1) / n < q + 1 := by
      apply Nat.div_lt_of_lt_mul
      rw [Nat.mul_add, Nat.mul_one]
      omega
    omega
  · rw [ed, hd]
    exact Dvd.intro _ rfl
  · rw [ed]
    omega
  · rintro m ⟨q, rfl⟩ hq
    rw [ed, hd]
    apply Nat.mul_le_mul_left
    exact (Nat.le_div_iff_mul_le (by omega)).mpr (by rw [Nat.mul_comm] at hq; exact hq)
  · rintro ⟨c, rfl⟩
    rw [eu, ed]
    have e1 : (n * c + n - 1) % n = n - 1 := by
      rw [show n * c + n - 1 = n - 1 + n * c by omega, Nat.add_mul_mod_self_left,
        Nat.mod_eq_of_lt (by omega)]
    have e2 : (n * c) % n = 0 := Nat.mul_mod_right n c
    rw [e1, e2]
    omega

/-- C37, on a sample: 70 rounded to a multiple of 64 is 128 upwards and 64 downwards, and
128 is left as it is. -/
theorem roundup_rounddown_multiples_witness :
    ROUNDUP_N 70 64 = 128 ∧ ROUNDDOWN_N 70 64 = 64 ∧
    ROUNDUP_N 128 64 = 128 ∧ ROUNDDOWN_N 128 64 = 128 ∧
    (64 ∣ ROUNDUP_N 70 64 ∧ 70 ≤ ROUNDUP_N 70 64 ∧
      ∀ m, 64 ∣ m → 70 ≤ m → ROUNDUP_N 70 64 ≤ m) :=
  ⟨by decide, by decide, by decide, by decide,
    (roundup_rounddown_multiples 70 64 6 (by decide) (by decide) (by decide)).1⟩

end simdjson

namespace simdjson

/-- C38, at a failing input: `+0.0`, of pattern 0, against `-0.0`, of pattern `2^63`.  The
ULP distance between them is 0, but `f64_ulp_dist` returns `2^63 + 2^31`, in either
order.  For the patterns 1 and `2^63 + 1`, the least positive and the least negative
double, the distance is 2 and `f64_ulp_dist` returns `2^63 + 2^31 + 2`; adding `2^63`
in the place of `0x80000000` gives 2.  On operands of the same sign the function gives
the distance. -/
theorem ulp_dist_of_signed_zeros :
    f64_ulp_dist 0 (2 ^ 63) = 2 ^ 63 + 2 ^ 31 ∧
    f64_ulp_dist (2 ^ 63) 0 = 2 ^ 63 + 2 ^ 31 ∧
    ulp_distance 0 (2 ^ 63) = 0 ∧
    f64_ulp_dist 0 (2 ^ 63) ≠ 0 ∧
    f64_ulp_dist 1 (2 ^ 63 + 1) = 2 ^ 63 + 2 ^ 31 + 2 ∧
    ulp_distance 1 (2 ^ 63 + 1) = 2 ∧
    add64 (add64 1 (2 ^ 63 + 1)) 0x8000000000000000 = 2 ∧
    f64_ulp_dist 5 3 = 2 ∧ f64_ulp_dist 3 5 = 2 ∧ f64_ulp_dist 7 7 = 0 := by
  refine ⟨by decide, by decide, by decide, by decide, by decide, by decide, by decide,
    by decide, by decide, by decide⟩

end simdjson
